import Mathlib

/-! # CCOLab: the array-backed vascular tree and its growth driver

A shallow embedding of `src/tree/Tree.cc`, `src/tree/Segment.h`, `src/geometry/Geometry.cc`
and of the constrained constructive optimisation driver.  Floating point numbers are read as
elements of a linearly ordered field `α` (exact arithmetic); the functions of `<cmath>` that
the code calls (`sqrt`, `cbrt`, `pow`, `acos`, the constant `M_PI`) are the fields of `CMath`.
Where a statement depends on the rounding of `double`, the expressions of the code are
evaluated in `Double`, a model of IEEE binary64 with round to nearest, ties to even.
C `int` indices and links are `Int`, with `-1` the sentinel `_TERMINALEND`.
Loops that walk parent links (`update`, `radius`) take a `fuel` bound and return `none`
when it is exhausted.
-/

namespace CCOLab

/-- The functions of `<cmath>` used by the code. -/
structure CMath (α : Type) where
  sqrt : α → α
  cbrt : α → α
  pow : α → α → α
  acos : α → α
  pi : α

/-- `Point` of `geometry/Point.h`: a dimension and three coordinates. -/
structure Point (α : Type) where
  dimension : Int
  x : α
  y : α
  z : α

/-- `Segment` of `tree/Segment.h`. -/
structure Segment (α : Type) where
  ID : Int
  point : Point α
  dimension : Int
  bifurcationRatioLeft : α
  bifurcationRatioRight : α
  flow : α
  up : Int
  left : Int
  right : Int

/-- The state of a `Tree` (fields of `TreeModel` and `Tree`); the three parallel arrays
`_segments`, `_reducedHydrodynamicResistance` and `_length` are functions of the index. -/
structure Tree (α : Type) where
  seed : Point α
  segments : Int → Segment α
  numberOfTerminals : Int
  totalNumberOfSegments : Int
  currentNumberOfSegments : Int
  dimension : Int
  radiusUnit : α
  lengthUnit : α
  bloodViscosity : Int → α
  bifurcationExpoent : Int → α
  perfusionVolume : α
  perfusionPressure : α
  terminalPressure : α
  perfusionFlow : α
  reducedHydrodynamicResistance : Int → α
  _length : Int → α
  currentNumberOfTerminals : Int

variable {α : Type} [LinearOrderedField α]

/-- `Point::Point()`: dimension 2, coordinates 0. -/
def Point.default : Point α := ⟨2, 0, 0, 0⟩

/-- `Segment::Segment()`; the member `_dimension` is not initialised by the constructor and
is the argument `dim`. -/
def Segment.default (dim : Int) : Segment α :=
  { ID := -1, point := Point.default, dimension := dim, bifurcationRatioLeft := 1,
    bifurcationRatioRight := 1, flow := 0, up := -1, left := -1, right := -1 }

/-- `Segment::Segment(int dimension)` followed by `setPoint` and `setFlow`: the way the
drivers build the value handed to `growRoot` and `growSegment`. -/
def Segment.make (dim : Int) (point : Point α) (flow : α) : Segment α :=
  { Segment.default dim with point := point, flow := flow }

/-- The constant `_rootID`. -/
def rootID : Int := 0

/-- The constant `_TERMINALEND`. -/
def TERMINALEND : Int := -1

/-- The constant `_poiseuilleLawConstant = 8.0 / M_PI`. -/
def poiseuilleLawConstant (M : CMath α) : α := 8 / M.pi

/-- `Geometry::distance` for a geometry of dimension `dim`. -/
def distance (M : CMath α) (dim : Int) (pointA pointB : Point α) : α :=
  let squaredDistance :=
    (pointA.x - pointB.x) * (pointA.x - pointB.x) +
    (pointA.y - pointB.y) * (pointA.y - pointB.y)
  let squaredDistance :=
    if dim = 3 then squaredDistance + (pointA.z - pointB.z) * (pointA.z - pointB.z)
    else squaredDistance
  M.sqrt squaredDistance

namespace Tree

/-- Write `_segments[i] = f(_segments[i])`. -/
def setSeg (t : Tree α) (i : Int) (f : Segment α → Segment α) : Tree α :=
  { t with segments := Function.update t.segments i (f (t.segments i)) }

/-- Write `_reducedHydrodynamicResistance[i] = v`. -/
def setR (t : Tree α) (i : Int) (v : α) : Tree α :=
  { t with reducedHydrodynamicResistance := Function.update t.reducedHydrodynamicResistance i v }

/-- Write `_length[i] = v`. -/
def setLength (t : Tree α) (i : Int) (v : α) : Tree α :=
  { t with _length := Function.update t._length i v }

/-- `Tree::isRoot`. -/
def isRoot (_t : Tree α) (segmentID : Int) : Bool := segmentID == rootID

/-- `Tree::isTerminal`. -/
def isTerminal (t : Tree α) (segmentID : Int) : Bool :=
  (t.segments segmentID).left == TERMINALEND && (t.segments segmentID).right == TERMINALEND

/-- `Tree::proximalPoint`. -/
def proximalPoint (t : Tree α) (segmentID : Int) : Point α :=
  if t.isRoot segmentID then t.seed
  else (t.segments (t.segments segmentID).up).point

/-- `Tree::distalPoint`. -/
def distalPoint (t : Tree α) (segmentID : Int) : Point α := (t.segments segmentID).point

/-- `Tree::length`. -/
def length (t : Tree α) (segmentID : Int) : α := t.lengthUnit * t._length segmentID

/-- `Tree::left`. -/
def leftSegment (t : Tree α) (segmentID : Int) : Segment α :=
  t.segments (t.segments segmentID).left

/-- `Tree::right`. -/
def rightSegment (t : Tree α) (segmentID : Int) : Segment α :=
  t.segments (t.segments segmentID).right

/-- One pass of the body of the `do ... while` loop of `Tree::update`, at `segmentID`. -/
def updateStep (M : CMath α) (t : Tree α) (segmentID : Int) : Tree α :=
  if t.isTerminal segmentID then
    let t := t.setR segmentID
      (poiseuilleLawConstant M * t.bloodViscosity segmentID * t.length segmentID)
    t.setSeg segmentID (fun s =>
      { s with bifurcationRatioLeft := 1, bifurcationRatioRight := 1 })
  else
    let connectionID := (t.segments segmentID).left
    let _newID := (t.segments segmentID).right
    let connectionFlow := (t.segments connectionID).flow
    let newFlow := (t.segments _newID).flow
    let t := t.setSeg segmentID (fun s => { s with flow := connectionFlow + newFlow })
    let flowRatio := connectionFlow / newFlow
    let leftReducedHydrodynamicResistance := t.reducedHydrodynamicResistance connectionID
    let rightReducedHydrodynamicResistance := t.reducedHydrodynamicResistance _newID
    let reducedHydrodynamicResistanceRatio :=
      leftReducedHydrodynamicResistance / rightReducedHydrodynamicResistance
    let radiusRatio := M.pow (flowRatio * reducedHydrodynamicResistanceRatio) (1 / 4)
    let radiusRatioPowerBifurcationExpoent :=
      M.pow radiusRatio (t.bifurcationExpoent segmentID)
    let leftRadiusRatio :=
      M.pow (1 + 1 / radiusRatioPowerBifurcationExpoent) (-1 / t.bifurcationExpoent segmentID)
    let rightRadiusRatio :=
      M.pow (1 + radiusRatioPowerBifurcationExpoent) (-1 / t.bifurcationExpoent segmentID)
    let t := t.setSeg segmentID (fun s =>
      { s with bifurcationRatioLeft := leftRadiusRatio,
               bifurcationRatioRight := rightRadiusRatio })
    let Rtemp := M.pow leftRadiusRatio 4 / leftReducedHydrodynamicResistance +
      M.pow rightRadiusRatio 4 / rightReducedHydrodynamicResistance
    t.setR segmentID
      (poiseuilleLawConstant M * t.bloodViscosity segmentID * t.length segmentID + 1 / Rtemp)

/-- The `do ... while (segmentID != _TERMINALEND)` loop of `Tree::update`. -/
def updateLoop (M : CMath α) : Nat → Tree α → Int → Option (Tree α)
  | 0, _, _ => none
  | fuel + 1, t, segmentID =>
    let t := updateStep M t segmentID
    let segmentID := (t.segments segmentID).up
    if segmentID ≠ TERMINALEND then updateLoop M fuel t segmentID else some t

/-- `Tree::update`. -/
def update (M : CMath α) (fuel : Nat) (t : Tree α) (segment : Segment α) : Option (Tree α) :=
  updateLoop M fuel t segment.ID

/-- `Tree::copy`. -/
def copy (t : Tree α) (source destination : Segment α) : Tree α :=
  let t := t.setSeg destination.ID (fun s =>
    { s with dimension := t.dimension, point := source.point, flow := source.flow,
             bifurcationRatioLeft := source.bifurcationRatioLeft,
             bifurcationRatioRight := source.bifurcationRatioRight,
             left := source.left, right := source.right })
  let t := if source.left ≠ TERMINALEND then
      t.setSeg source.left (fun s => { s with up := destination.ID }) else t
  if source.right ≠ TERMINALEND then
    t.setSeg source.right (fun s => { s with up := destination.ID }) else t

/-- `Tree::growRoot`; the returned segment is the first component. -/
def growRoot (M : CMath α) (t : Tree α) (root : Segment α) : Segment α × Tree α :=
  let rootLength := distance M t.dimension t.seed root.point
  let segmentReducedHydrodynamicResistance :=
    poiseuilleLawConstant M * t.bloodViscosity rootID * rootLength
  let t := t.setSeg rootID (fun s => { s with ID := rootID })
  let t := t.copy root (t.segments rootID)
  let t := t.setR rootID segmentReducedHydrodynamicResistance
  let t := t.setLength rootID rootLength
  let t := { t with currentNumberOfSegments := 1 }
  let t := { t with currentNumberOfTerminals := 1 }
  (t.segments rootID, t)

/-- First block of `Tree::growSegment`: "Create the connection segment as a copy of the
parent", in the slot `currentNumberOfSegments`. -/
def growConnection (M : CMath α) (bifurcationPoint : Point α) (parent : Segment α)
    (t : Tree α) : Tree α :=
  let n := t.currentNumberOfSegments
  let t := t.setSeg n (fun s =>
    { s with dimension := t.dimension, ID := n, point := parent.point, flow := parent.flow,
             bifurcationRatioLeft := parent.bifurcationRatioLeft,
             bifurcationRatioRight := parent.bifurcationRatioRight,
             left := parent.left, right := parent.right })
  let t := if parent.left ≠ TERMINALEND then
      t.setSeg parent.left (fun s => { s with up := n }) else t
  let t := if parent.right ≠ TERMINALEND then
      t.setSeg parent.right (fun s => { s with up := n }) else t
  let t := t.setSeg n (fun s => { s with up := parent.ID })
  let t := t.setLength n (distance M t.dimension bifurcationPoint parent.point)
  let t := t.setR n
    (t.reducedHydrodynamicResistance parent.ID +
      poiseuilleLawConstant M *
        (t.bloodViscosity n * t._length n - t.bloodViscosity parent.ID * t.length parent.ID))
  { t with currentNumberOfSegments := n + 1 }

/-- Second block of `Tree::growSegment`: "Add the new segment", in the slot
`currentNumberOfSegments`. -/
def growNewSegment (M : CMath α) (bifurcationPoint : Point α) (parent child : Segment α)
    (t : Tree α) : Tree α :=
  let n := t.currentNumberOfSegments
  let t := t.setSeg n (fun s =>
    { s with dimension := t.dimension, ID := n, point := child.point, flow := child.flow,
             up := parent.ID })
  let t := t.setLength n (distance M t.dimension bifurcationPoint child.point)
  let t := t.setR n (poiseuilleLawConstant M * t.bloodViscosity n * t._length n)
  { t with currentNumberOfSegments := n + 1 }

/-- Third block of `Tree::growSegment`: "Update the bifurcation segment". -/
def growBifurcation (M : CMath α) (bifurcationPoint : Point α) (parent : Segment α)
    (t : Tree α) : Tree α :=
  let t := t.setSeg parent.ID (fun s =>
    { s with point := bifurcationPoint, left := t.currentNumberOfSegments - 2,
             right := t.currentNumberOfSegments - 1 })
  t.setLength parent.ID
    (distance M t.dimension (t.proximalPoint parent.ID) (t.distalPoint parent.ID))

/-- The part of `Tree::growSegment` before the call of `update`. -/
def growSegmentLinks (M : CMath α) (bifurcationPoint : Point α) (parent child : Segment α)
    (t : Tree α) : Tree α :=
  growBifurcation M bifurcationPoint parent
    (growNewSegment M bifurcationPoint parent child
      (growConnection M bifurcationPoint parent t))

/-- `Tree::growSegment`; the returned segment is the first component. -/
def growSegment (M : CMath α) (fuel : Nat) (bifurcationPoint : Point α)
    (parent child : Segment α) (t : Tree α) : Option (Segment α × Tree α) :=
  let t := growSegmentLinks M bifurcationPoint parent child t
  /- Recalculate the radii bifurcations ratio and the flow. -/
  match update M fuel t (t.segments parent.ID) with
  | none => none
  | some t =>
    let t := { t with currentNumberOfTerminals := t.currentNumberOfTerminals + 1 }
    some (t.segments parent.ID, t)

/-- First block of `Tree::remove`: "Update the bifurcation segment", up to the
recomputation of its length. -/
def removeReattach (t : Tree α) (segment : Segment α) : Tree α :=
  let parentID := segment.up
  let connectionID := (t.segments segment.up).left
  let t := t.setSeg parentID (fun s => { s with point := (t.segments connectionID).point })
  let t := t.setSeg parentID (fun s => { s with left := (t.segments connectionID).left })
  let t := t.setSeg parentID (fun s => { s with right := (t.segments connectionID).right })
  if !t.isTerminal connectionID then
    let t := t.setSeg (t.segments connectionID).left (fun s => { s with up := parentID })
    t.setSeg (t.segments connectionID).right (fun s => { s with up := parentID })
  else
    t.setSeg parentID (fun s => { s with flow := (t.segments connectionID).flow })

/-- The part of `Tree::remove` before the call of `update`. -/
def removeLinks (M : CMath α) (t : Tree α) (segment : Segment α) : Tree α :=
  let parentID := segment.up
  /- Update the bifurcation segment. -/
  let t := removeReattach t segment
  let t := t.setLength parentID
    (distance M t.dimension (t.proximalPoint parentID) (t.distalPoint parentID))
  /- Remove the given terminal segment. -/
  let t := { t with currentNumberOfSegments := t.currentNumberOfSegments - 1 }
  /- Remove the connection segment. -/
  { t with currentNumberOfSegments := t.currentNumberOfSegments - 1 }

/-- `Tree::remove`; the returned segment is the first component. -/
def remove (M : CMath α) (fuel : Nat) (t : Tree α) (segment : Segment α) :
    Option (Segment α × Tree α) :=
  let parentID := segment.up
  let t := removeLinks M t segment
  /- Recalculate the radii bifurcations ratio and the flow. -/
  match update M fuel t (t.segments parentID) with
  | none => none
  | some t =>
    let t := { t with currentNumberOfTerminals := t.currentNumberOfTerminals - 1 }
    some (t.segments parentID, t)

/-- First two statements of `Tree::moveDistalPoint`: the new distal point of the segment and
its new length. -/
def moveSetPoint (M : CMath α) (t : Tree α) (segmentID : Int) (point : Point α) : Tree α :=
  let t := t.setSeg segmentID (fun s => { s with point := point })
  t.setLength segmentID (distance M t.dimension (t.proximalPoint segmentID) point)

/-- The block that `Tree::moveDistalPoint` runs for the left child and again for the right
child `child` of the moved segment: the child's new length, and its resistance corrected by
the change of its own Poiseuille term. -/
def moveChildLength (M : CMath α) (t : Tree α) (child : Int) (point : Point α) : Tree α :=
  let oldLength := t._length child
  let t := t.setLength child (distance M t.dimension point (t.distalPoint child))
  t.setR child
    (t.reducedHydrodynamicResistance child +
      poiseuilleLawConstant M *
        (t.bloodViscosity child * t._length child - t.bloodViscosity child * oldLength))

/-- The part of `Tree::moveDistalPoint` before the call of `update`. -/
def moveDistalPointLengths (M : CMath α) (t : Tree α) (segmentID : Int) (point : Point α) :
    Tree α :=
  let t := moveSetPoint M t segmentID point
  if !t.isTerminal segmentID then
    let _left := (t.segments segmentID).left
    let t := moveChildLength M t _left point
    let _right := (t.segments segmentID).right
    moveChildLength M t _right point
  else t

/-- `Tree::moveDistalPoint`. -/
def moveDistalPoint (M : CMath α) (fuel : Nat) (t : Tree α) (segmentID : Int)
    (point : Point α) : Option (Tree α) :=
  let t := moveDistalPointLengths M t segmentID point
  update M fuel t (t.segments segmentID)

/-- The `while (!isRoot(segmentID))` loop of `Tree::radius`. -/
def radiusLoop : Nat → Tree α → Int → α → Option α
  | 0, _, _, _ => none
  | fuel + 1, t, segmentID, radiusRatio =>
    if !t.isRoot segmentID then
      let _parent := (t.segments segmentID).up
      let radiusRatio :=
        if (t.segments _parent).left = segmentID then
          radiusRatio * (t.segments _parent).bifurcationRatioLeft
        else radiusRatio * (t.segments _parent).bifurcationRatioRight
      radiusLoop fuel t _parent radiusRatio
    else some radiusRatio

/-- The root radius computed at the start of `Tree::radius`. -/
def rootRadius (M : CMath α) (t : Tree α) : α :=
  t.radiusUnit *
    M.pow (t.reducedHydrodynamicResistance rootID * t.perfusionFlow /
      (t.perfusionPressure - t.terminalPressure)) (1 / 4)

/-- `Tree::radius`. -/
def radius (M : CMath α) (fuel : Nat) (t : Tree α) (segmentID : Int) : Option α :=
  match radiusLoop fuel t segmentID 1 with
  | none => none
  | some radiusRatio => some (radiusRatio * rootRadius M t)

/-- `Tree::Tree(Point seed, int numberOfTerminals, int dimension)`.  The arrays allocated with
`new` hold default-constructed segments (whose `_dimension` is not initialised: `segDim`) and
uninitialised numbers (`resistance0`, `length0`). -/
def construct (seed : Point α) (numberOfTerminals dimension : Int) (segDim : Int → Int)
    (resistance0 length0 : Int → α) : Tree α :=
  { seed := seed
    segments := fun i => Segment.default (segDim i)
    numberOfTerminals := numberOfTerminals
    totalNumberOfSegments := 2 * numberOfTerminals - 1
    currentNumberOfSegments := 0
    dimension := dimension
    radiusUnit := 1
    lengthUnit := 1
    bloodViscosity := fun _ => 36 / 10000
    bifurcationExpoent := fun _ => 3
    perfusionVolume := if dimension = 2 then 25 / 10000 else 1 / 10000
    perfusionPressure := 13332236535 / 1000000
    terminalPressure := 7999341921 / 1000000
    perfusionFlow := 833 / 100000000
    reducedHydrodynamicResistance := resistance0
    _length := length0
    currentNumberOfTerminals := 0 }

/-- A segment index in `[0, currentNumberOfSegments)`. -/
def live (t : Tree α) (i : Int) : Prop := 0 ≤ i ∧ i < t.currentNumberOfSegments

instance (t : Tree α) (i : Int) : Decidable (t.live i) := by
  unfold live; infer_instance

/-- A tree as its constructor leaves it: no segment in use, every array slot a
default-constructed `Segment`. -/
def Fresh (t : Tree α) : Prop :=
  t.currentNumberOfSegments = 0 ∧ t.currentNumberOfTerminals = 0 ∧
    ∀ i, ∃ d, t.segments i = Segment.default d

/-- The states of a tree reachable from `growRoot` (on a freshly constructed tree, with a root
value built as the drivers build it) by `growSegment` on a live parent, by `remove` of the
terminal created by the most recent `growSegment` not yet removed (the segment in the last
slot) and by `moveDistalPoint` on a live segment. -/
inductive Reach (M : CMath α) : Tree α → Prop
  | root (t0 : Tree α) (dim : Int) (point : Point α) (flow : α) :
      t0.Fresh → Reach M (growRoot M t0 (Segment.make dim point flow)).2
  | grow (fuel : Nat) (b : Point α) (p : Int) (c : Segment α) (t : Tree α)
      (r : Segment α × Tree α) :
      Reach M t → t.live p → growSegment M fuel b (t.segments p) c t = some r → Reach M r.2
  | remove (fuel : Nat) (t : Tree α) (r : Segment α × Tree α) :
      Reach M t → 1 < t.currentNumberOfSegments →
      remove M fuel t (t.segments (t.currentNumberOfSegments - 1)) = some r → Reach M r.2
  | move (fuel : Nat) (s : Int) (x : Point α) (t t' : Tree α) :
      Reach M t → t.live s → moveDistalPoint M fuel t s x = some t' → Reach M t'

end Tree

/-! ## Frame of `update` -/

/-- Two segment values with the same identity, point and links. -/
def Segment.SameLinks (s s' : Segment α) : Prop :=
  s.ID = s'.ID ∧ s.point = s'.point ∧ s.dimension = s'.dimension ∧
    s.up = s'.up ∧ s.left = s'.left ∧ s.right = s'.right

/-- Two tree states that differ at most in flows, bifurcation ratios and resistances. -/
structure Frame (t t' : Tree α) : Prop where
  seed : t'.seed = t.seed
  numberOfTerminals : t'.numberOfTerminals = t.numberOfTerminals
  totalNumberOfSegments : t'.totalNumberOfSegments = t.totalNumberOfSegments
  currentNumberOfSegments : t'.currentNumberOfSegments = t.currentNumberOfSegments
  dimension : t'.dimension = t.dimension
  radiusUnit : t'.radiusUnit = t.radiusUnit
  lengthUnit : t'.lengthUnit = t.lengthUnit
  bloodViscosity : t'.bloodViscosity = t.bloodViscosity
  bifurcationExpoent : t'.bifurcationExpoent = t.bifurcationExpoent
  perfusionVolume : t'.perfusionVolume = t.perfusionVolume
  perfusionPressure : t'.perfusionPressure = t.perfusionPressure
  terminalPressure : t'.terminalPressure = t.terminalPressure
  perfusionFlow : t'.perfusionFlow = t.perfusionFlow
  length : t'._length = t._length
  currentNumberOfTerminals : t'.currentNumberOfTerminals = t.currentNumberOfTerminals
  segments : ∀ i, (t'.segments i).SameLinks (t.segments i)

/-! ## Well-formedness of the links -/

/-- The link structure of the live segments `[0, currentNumberOfSegments)` is that of a binary
tree rooted at segment 0: every live segment carries its own index as `ID`, the root has no
parent, every other live segment has a live parent that lists it as a child, every live segment
has no child or two distinct live children that point back to it, and parent links strictly
decrease a rank (so that walking up always ends at the root). -/
structure WFL (t : Tree α) : Prop where
  odd : t.currentNumberOfSegments % 2 = 1
  cur_pos : 1 ≤ t.currentNumberOfSegments
  ids : ∀ i, t.live i → (t.segments i).ID = i
  root_up : (t.segments 0).up = -1
  up_live : ∀ i, t.live i → i ≠ 0 → t.live (t.segments i).up
  up_child : ∀ i, t.live i → i ≠ 0 →
    (t.segments (t.segments i).up).left = i ∨ (t.segments (t.segments i).up).right = i
  kids : ∀ i, t.live i →
    ((t.segments i).left = -1 ∧ (t.segments i).right = -1) ∨
    (0 < (t.segments i).left ∧ (t.segments i).left < t.currentNumberOfSegments ∧
      0 < (t.segments i).right ∧ (t.segments i).right < t.currentNumberOfSegments ∧
      (t.segments i).left ≠ (t.segments i).right ∧
      (t.segments (t.segments i).left).up = i ∧ (t.segments (t.segments i).right).up = i)
  rank : ∃ (d : Int → Nat) (B : Nat), ∀ i, t.live i →
    d i ≤ B ∧ (i ≠ 0 → d (t.segments i).up < d i)

/-- Two states with the same number of live segments and the same `ID` and links on them. -/
def SameLinks (t s : Tree α) : Prop :=
  t.currentNumberOfSegments = s.currentNumberOfSegments ∧
    ∀ i, t.live i → (t.segments i).ID = (s.segments i).ID ∧
      (t.segments i).up = (s.segments i).up ∧ (t.segments i).left = (s.segments i).left ∧
      (t.segments i).right = (s.segments i).right

/-- What calls of `moveDistalPoint(s, x)` keep of a tree `t`: the parameters, the two counters,
every link, the point of every segment other than `s` and the flow of every terminal. -/
structure Moved (s : Int) (t t' : Tree α) : Prop where
  lengthUnit : t'.lengthUnit = t.lengthUnit
  bloodViscosity : t'.bloodViscosity = t.bloodViscosity
  bifurcationExpoent : t'.bifurcationExpoent = t.bifurcationExpoent
  dimension : t'.dimension = t.dimension
  seed : t'.seed = t.seed
  currentNumberOfSegments : t'.currentNumberOfSegments = t.currentNumberOfSegments
  currentNumberOfTerminals : t'.currentNumberOfTerminals = t.currentNumberOfTerminals
  up : ∀ i, (t'.segments i).up = (t.segments i).up
  left : ∀ i, (t'.segments i).left = (t.segments i).left
  right : ∀ i, (t'.segments i).right = (t.segments i).right
  point : ∀ i, i ≠ s → (t'.segments i).point = (t.segments i).point
  flow : ∀ i, t.isTerminal i = true → (t'.segments i).flow = (t.segments i).flow

/-- Two trees with the same live state: the same parameters and counters and, at every live
segment, the same identity, point, links, flow, bifurcation ratios, stored length and reduced
resistance. -/
structure LiveEq (t' t : Tree α) : Prop where
  lengthUnit : t'.lengthUnit = t.lengthUnit
  bloodViscosity : t'.bloodViscosity = t.bloodViscosity
  bifurcationExpoent : t'.bifurcationExpoent = t.bifurcationExpoent
  dimension : t'.dimension = t.dimension
  seed : t'.seed = t.seed
  currentNumberOfSegments : t'.currentNumberOfSegments = t.currentNumberOfSegments
  currentNumberOfTerminals : t'.currentNumberOfTerminals = t.currentNumberOfTerminals
  ID : ∀ i, t.live i → (t'.segments i).ID = (t.segments i).ID
  point : ∀ i, t.live i → (t'.segments i).point = (t.segments i).point
  up : ∀ i, t.live i → (t'.segments i).up = (t.segments i).up
  left : ∀ i, t.live i → (t'.segments i).left = (t.segments i).left
  right : ∀ i, t.live i → (t'.segments i).right = (t.segments i).right
  flow : ∀ i, t.live i → (t'.segments i).flow = (t.segments i).flow
  bifurcationRatioLeft : ∀ i, t.live i →
    (t'.segments i).bifurcationRatioLeft = (t.segments i).bifurcationRatioLeft
  bifurcationRatioRight : ∀ i, t.live i →
    (t'.segments i).bifurcationRatioRight = (t.segments i).bifurcationRatioRight
  length : ∀ i, t.live i → t'._length i = t._length i
  reducedHydrodynamicResistance : ∀ i, t.live i →
    t'.reducedHydrodynamicResistance i = t.reducedHydrodynamicResistance i

/-- The link structures built by `growRoot` and the structural part of `growSegment` alone:
the history of growth steps not yet undone. -/
inductive Skeleton (M : CMath α) : Tree α → Prop
  | root (t0 : Tree α) (dim : Int) (point : Point α) (flow : α) :
      t0.Fresh → Skeleton M (Tree.growRoot M t0 (Segment.make dim point flow)).2
  | grow (b : Point α) (p : Int) (c : Segment α) (s : Tree α) :
      Skeleton M s → s.live p → Skeleton M (Tree.growSegmentLinks M b (s.segments p) c s)

/-- Every slot past the live ones has no child links. -/
def FreshDead (t : Tree α) : Prop :=
  ∀ i, t.currentNumberOfSegments ≤ i → (t.segments i).left = -1 ∧ (t.segments i).right = -1

/-- Every even slot past the live ones (a slot that `growSegment` gives to a new terminal) has
no child links. -/
def DeadEven (t : Tree α) : Prop :=
  ∀ i, t.currentNumberOfSegments ≤ i → i % 2 = 0 →
    (t.segments i).left = -1 ∧ (t.segments i).right = -1

/-- The structural invariant of the reachable states: the live links are those of a growth
history, and the slots of future terminals have no child links. -/
def LinkInv (M : CMath α) (t : Tree α) : Prop :=
  ∃ s, Skeleton M s ∧ SameLinks t s ∧ DeadEven t

/-! ## Consistency of lengths, flows, ratios and resistances -/

/-- The two bifurcation ratios that `Tree::update` computes at a bifurcation with exponent
`γ` whose children have flows `fl`, `fr` and reduced resistances `Rl`, `Rr`. -/
def bifurcationRatios (M : CMath α) (γ fl fr Rl Rr : α) : α × α :=
  let radiusRatio := M.pow (fl / fr * (Rl / Rr)) (1 / 4)
  let radiusRatioPowerBifurcationExpoent := M.pow radiusRatio γ
  (M.pow (1 + 1 / radiusRatioPowerBifurcationExpoent) (-1 / γ),
   M.pow (1 + radiusRatioPowerBifurcationExpoent) (-1 / γ))

/-- Segment `i` holds the values `Tree::update` would give it: at a terminal the Poiseuille
resistance of the segment and ratios 1, at a bifurcation the sum of the children's flows, the
two ratios and the reduced resistance computed from the children. -/
def Good (M : CMath α) (t : Tree α) (i : Int) : Prop :=
  if t.isTerminal i then
    t.reducedHydrodynamicResistance i =
        poiseuilleLawConstant M * t.bloodViscosity i * t.length i ∧
      (t.segments i).bifurcationRatioLeft = 1 ∧ (t.segments i).bifurcationRatioRight = 1
  else
    (t.segments i).flow = (t.leftSegment i).flow + (t.rightSegment i).flow ∧
    (t.segments i).bifurcationRatioLeft =
      (bifurcationRatios M (t.bifurcationExpoent i) (t.leftSegment i).flow (t.rightSegment i).flow
        (t.reducedHydrodynamicResistance (t.segments i).left)
        (t.reducedHydrodynamicResistance (t.segments i).right)).1 ∧
    (t.segments i).bifurcationRatioRight =
      (bifurcationRatios M (t.bifurcationExpoent i) (t.leftSegment i).flow (t.rightSegment i).flow
        (t.reducedHydrodynamicResistance (t.segments i).left)
        (t.reducedHydrodynamicResistance (t.segments i).right)).2 ∧
    t.reducedHydrodynamicResistance i =
      poiseuilleLawConstant M * t.bloodViscosity i * t.length i +
        1 / (M.pow (t.segments i).bifurcationRatioLeft 4 /
              t.reducedHydrodynamicResistance (t.segments i).left +
            M.pow (t.segments i).bifurcationRatioRight 4 /
              t.reducedHydrodynamicResistance (t.segments i).right)

/-- Every live segment's stored length is the distance between its two end points. -/
def LenInv (M : CMath α) (t : Tree α) : Prop :=
  ∀ i, t.live i → t._length i = distance M t.dimension (t.proximalPoint i) (t.distalPoint i)

/-- Every even slot past the live ones still has the bifurcation ratios 1. -/
def DeadEvenRatios (t : Tree α) : Prop :=
  ∀ i, t.currentNumberOfSegments ≤ i → i % 2 = 0 →
    (t.segments i).bifurcationRatioLeft = 1 ∧ (t.segments i).bifurcationRatioRight = 1

/-- The numeric invariant of the reachable states. -/
def NumInv (M : CMath α) (t : Tree α) : Prop :=
  LenInv M t ∧ (∀ i, t.live i → Good M t i) ∧ DeadEvenRatios t

/-- Segment `a` lies on the walk from segment `i` up to the root. -/
inductive OnPath (t : Tree α) : Int → Int → Prop
  | self (i : Int) : OnPath t i i
  | step (i a : Int) : (t.segments i).up ≠ -1 → OnPath t (t.segments i).up a → OnPath t i a

/-- The last two slots of `t` are the connection and the terminal that the most recent
`growSegment`, not yet removed, attached to segment `p`. -/
structure Tail (t : Tree α) (p : Int) : Prop where
  cur : 3 ≤ t.currentNumberOfSegments
  p_nonneg : 0 ≤ p
  p_lt : p < t.currentNumberOfSegments - 2
  up_terminal : (t.segments (t.currentNumberOfSegments - 1)).up = p
  up_connection : (t.segments (t.currentNumberOfSegments - 2)).up = p
  left_p : (t.segments p).left = t.currentNumberOfSegments - 2
  right_p : (t.segments p).right = t.currentNumberOfSegments - 1
  left_terminal : (t.segments (t.currentNumberOfSegments - 1)).left = -1
  right_terminal : (t.segments (t.currentNumberOfSegments - 1)).right = -1

/-- Segment `i` is a terminal or carries the sum of the flows of its two children. -/
def FlowGood (t : Tree α) (i : Int) : Prop :=
  t.isTerminal i = true ∨
    (t.segments i).flow = (t.leftSegment i).flow + (t.rightSegment i).flow

/-- The states reachable as in `Reach`, together with the flow assigned to the terminal held
by each slot: `a i` is the flow of the root value or child value from which the terminal now
in slot `i` was created.  `growSegment` moves the terminal of the parent slot (if the parent
was one) to the connection slot and creates a terminal from the child value; `remove` moves
the terminal of the connection slot back to the parent slot. -/
inductive ReachFlow (M : CMath α) : Tree α → (Int → α) → Prop
  | root (t0 : Tree α) (dim : Int) (point : Point α) (flow : α) :
      t0.Fresh → ReachFlow M (Tree.growRoot M t0 (Segment.make dim point flow)).2 (fun _ => flow)
  | grow (fuel : Nat) (b : Point α) (p : Int) (c : Segment α) (t : Tree α) (a : Int → α)
      (r : Segment α × Tree α) :
      ReachFlow M t a → t.live p → Tree.growSegment M fuel b (t.segments p) c t = some r →
      ReachFlow M r.2
        (Function.update (Function.update a t.currentNumberOfSegments (a p))
          (t.currentNumberOfSegments + 1) c.flow)
  | remove (fuel : Nat) (t : Tree α) (a : Int → α) (r : Segment α × Tree α) :
      ReachFlow M t a → 1 < t.currentNumberOfSegments →
      Tree.remove M fuel t (t.segments (t.currentNumberOfSegments - 1)) = some r →
      ReachFlow M r.2
        (Function.update a (t.segments (t.currentNumberOfSegments - 1)).up
          (a (t.currentNumberOfSegments - 2)))
  | move (fuel : Nat) (s : Int) (x : Point α) (t t' : Tree α) (a : Int → α) :
      ReachFlow M t a → t.live s → Tree.moveDistalPoint M fuel t s x = some t' →
      ReachFlow M t' a

/-! ## Geometry -/

/-- `Point::Point(int dimension)`: the given dimension, coordinates 0. -/
def Point.ofDimension (dim : Int) : Point α := ⟨dim, 0, 0, 0⟩

namespace Geometry

/-- `Geometry::add` for a geometry of dimension `dim`. -/
def add (dim : Int) (pointA pointB : Point α) : Point α :=
  let C : Point α := Point.ofDimension dim
  let C := { C with x := pointA.x + pointB.x }
  let C := { C with y := pointA.y + pointB.y }
  if dim = 3 then { C with z := pointA.z + pointB.z } else C

/-- `Geometry::subtract`. -/
def subtract (dim : Int) (pointA pointB : Point α) : Point α :=
  let C : Point α := Point.ofDimension dim
  let C := { C with x := pointA.x - pointB.x }
  let C := { C with y := pointA.y - pointB.y }
  if dim = 3 then { C with z := pointA.z - pointB.z } else C

/-- `Geometry::scalarProduct`. -/
def scalarProduct (dim : Int) (scalar : α) (v : Point α) : Point α :=
  let C : Point α := Point.ofDimension dim
  let C := { C with x := scalar * v.x }
  let C := { C with y := scalar * v.y }
  if dim = 3 then { C with z := scalar * v.z } else C

/-- `Geometry::dot`. -/
def dot (dim : Int) (pointA pointB : Point α) : α :=
  let _dot := pointA.x * pointB.x + pointA.y * pointB.y
  if dim = 3 then _dot + pointA.z * pointB.z else _dot

/-- `Geometry::norm`. -/
def norm (M : CMath α) (dim : Int) (v : Point α) : α := M.sqrt (dot dim v v)

/-- `Geometry::crossProduct`. -/
def crossProduct (u v : Point α) : Point α :=
  let uz := if u.dimension = 2 then 0 else u.z
  let vz := if v.dimension = 2 then 0 else v.z
  { dimension := 3, x := uz * v.y - u.y * vz, y := u.x * vz - uz * v.x,
    z := u.y * v.x - u.x * v.y }

/-- `Geometry::middle`. -/
def middle (dim : Int) (pointA pointB : Point α) : Point α :=
  scalarProduct dim (1 / 2) (add dim pointA pointB)

/-- `Geometry::distanceFromSegment2D`. -/
def distanceFromSegment2D (M : CMath α) (dim : Int) (point proximalPoint distalPoint : Point α) :
    α :=
  let AB := subtract dim distalPoint proximalPoint
  let AP := subtract dim point proximalPoint
  let innerProduct := dot dim AP AB / dot dim AB AB
  if 0 ≤ innerProduct ∧ innerProduct ≤ 1 then
    |AB.y * AP.x - AB.x * AP.y| / norm M dim AB
  else
    let dA := distance M dim point proximalPoint
    let dB := distance M dim point distalPoint
    min dA dB

/-- `Geometry::distanceFromSegment3D`. -/
def distanceFromSegment3D (M : CMath α) (dim : Int) (point proximalPoint distalPoint : Point α) :
    α :=
  let AB := subtract dim distalPoint proximalPoint
  let AP := subtract dim point proximalPoint
  let innerProduct := dot dim AP AB / dot dim AB AB
  if 0 ≤ innerProduct ∧ innerProduct ≤ 1 then
    norm M dim (crossProduct AP AB) / norm M dim AB
  else
    let dA := distance M dim point proximalPoint
    let dB := distance M dim point distalPoint
    min dA dB

/-- `Geometry::distanceFromSegment`. -/
def distanceFromSegment (M : CMath α) (dim : Int) (point proximalPoint distalPoint : Point α) :
    α :=
  if dim = 2 then distanceFromSegment2D M dim point proximalPoint distalPoint
  else distanceFromSegment3D M dim point proximalPoint distalPoint

/-- The constant `Geometry::_TOLERANCE`, `1e-6`. -/
def _TOLERANCE : α := 1 / 1000000

/-- `Geometry::angle`. -/
def angle (M : CMath α) (dim : Int) (u v : Point α) : α :=
  if norm M dim u < _TOLERANCE ∨ norm M dim v < _TOLERANCE then 0
  else M.acos (dot dim u v / (norm M dim u * norm M dim v))

/-- `Geometry::hasIntersection2D`. -/
def hasIntersection2D (M : CMath α) (dim : Int) (pointA pointB pointC pointD : Point α)
    (tolerance : α) : Bool :=
  let AB := subtract dim pointB pointA
  let CD := subtract dim pointD pointC
  let AC := subtract dim pointC pointA
  let det := AB.x * (-CD.y) - (-CD.x) * AB.y
  if |det| < _TOLERANCE * _TOLERANCE then false
  else
    /- Applying Cramer's rule to find r and s. -/
    let detR := AC.x * (-CD.y) - (-CD.x) * AC.y
    let detS := AB.x * AC.y - AC.x * AB.y
    let r := detR / det
    let s := detS / det
    let dist1 := tolerance / norm M dim AB
    let dist2 := tolerance / norm M dim CD
    decide ((0 < r ∧ r < 1 + dist1) ∧ (0 < s ∧ s < 1 + dist2))

/-- `Geometry::hasIntersection3D`. -/
def hasIntersection3D (dim : Int) (pointA pointB pointC pointD : Point α) (tolerance : α) :
    Bool :=
  let AB := subtract dim pointB pointA
  let CD := subtract dim pointD pointC
  let squaredNormAB := dot dim AB AB
  let squaredNormCD := dot dim CD CD
  let dotABCD := dot dim AB CD
  let det := dotABCD * dotABCD - squaredNormAB * squaredNormCD
  if |det| < _TOLERANCE then false
  else
    let AC := subtract dim pointC pointA
    let dotACAB := dot dim AC AB
    let dotACCD := dot dim AC CD
    let r := (dotABCD * dotACCD - dotACAB * squaredNormCD) / det
    let s := (dotACCD * squaredNormAB - dotACAB * dotABCD) / det
    let P := add dim pointA (scalarProduct dim r AB)
    let Q := add dim pointC (scalarProduct dim s CD)
    let PQ := subtract dim Q P
    let squaredNormPQ := dot dim PQ PQ
    decide (0 < r ∧ r < 1 ∧ 0 < s ∧ s < 1 ∧ squaredNormPQ < tolerance * tolerance)

/-- `Geometry::hasIntersection`. -/
def hasIntersection (M : CMath α) (dim : Int) (pointA pointB pointC pointD : Point α)
    (tolerance : α) : Bool :=
  if dim = 2 then hasIntersection2D M dim pointA pointB pointC pointD tolerance
  else hasIntersection3D dim pointA pointB pointC pointD tolerance

end Geometry

/-- The values `0, 1, ..., n - 1` of the counter of a loop `for (i = 0; i < n; i++)`. -/
def indices (n : Int) : List Int := (List.range n.toNat).map Int.ofNat

/-! ## The distance criterion -/

/-- The state of a `ClassicDistanceCriterion`: the field `_minimumCriterionDistance`. -/
structure ClassicDistanceCriterion (α : Type) where
  minimumCriterionDistance : α

namespace ClassicDistanceCriterion

/-- `ClassicDistanceCriterion::ClassicDistanceCriterion(TreeModel *tree)`. -/
def construct (M : CMath α) (t : Tree α) : ClassicDistanceCriterion α :=
  { minimumCriterionDistance := M.pow t.perfusionVolume (1 / (t.dimension : α)) }

/-- The loop of `ClassicDistanceCriterion::eval` over the segments `i` of the tree. -/
def evalLoop (M : CMath α) (t : Tree α) (c : ClassicDistanceCriterion α) (point : Point α) :
    List Int → Bool
  | [] => true
  | i :: rest =>
    let d := Geometry.distanceFromSegment M t.dimension point (t.proximalPoint i)
      (t.distalPoint i)
    if d < c.minimumCriterionDistance then false else evalLoop M t c point rest

/-- `ClassicDistanceCriterion::eval`. -/
def eval (M : CMath α) (t : Tree α) (c : ClassicDistanceCriterion α) (point : Point α) : Bool :=
  evalLoop M t c point (indices t.currentNumberOfSegments)

/-- `ClassicDistanceCriterion::relax`: the new minimum distance and the new state. -/
def relax (c : ClassicDistanceCriterion α) (factor : α) : α × ClassicDistanceCriterion α :=
  let c := { c with minimumCriterionDistance := c.minimumCriterionDistance * factor }
  (c.minimumCriterionDistance, c)

/-- `ClassicDistanceCriterion::minimumDistanceCriterion`. -/
def minimumDistanceCriterion (c : ClassicDistanceCriterion α) : α := c.minimumCriterionDistance

/-- `ClassicDistanceCriterion::update`: the new minimum distance and the new state. -/
def update (M : CMath α) (t : Tree α) (c : ClassicDistanceCriterion α)
    (currentNumberOfTerminals : Int) : α × ClassicDistanceCriterion α :=
  let c := { c with minimumCriterionDistance :=
    (M.pow (t.perfusionVolume / (currentNumberOfTerminals : α)) (1 / (t.dimension : α))) }
  (c.minimumCriterionDistance, c)

end ClassicDistanceCriterion

/-! ## The geometric restrictions and the target function -/

namespace ValidSegment

/-- `ValidSegment::pass`; `none` when the loop of `Tree::radius` runs out of fuel. -/
def pass (M : CMath α) (fuel : Nat) (t : Tree α) (segment : Segment α) : Option Bool :=
  /- The segment length sould be at least twice the radius. -/
  match t.radius M fuel segment.ID with
  | none => none
  | some parentRadius =>
    let parentLength := t.length segment.ID
    let leftLength := t.length segment.left
    let rightLength := t.length segment.right
    some (decide (parentLength ≥ 2 * parentRadius ∧
      leftLength ≥ 2 * parentRadius * segment.bifurcationRatioLeft ∧
      rightLength ≥ 2 * parentRadius * segment.bifurcationRatioRight))

end ValidSegment

namespace WithoutIntersection

/-- `WithoutIntersection::isRelative`. -/
def isRelative (segmentA segmentB : Segment α) : Bool :=
  segmentA.ID == segmentB.ID || segmentA.ID == segmentB.left ||
    segmentA.ID == segmentB.right || segmentA.ID == segmentB.up ||
    segmentB.ID == segmentA.left || segmentB.ID == segmentA.right ||
    segmentB.ID == segmentA.up

/-- The inner loop of `WithoutIntersection::pass`, over the check segments, for the segment
`i` of the tree: `some false` when `pass` returns false there, `some true` when the loop ends,
`none` when the loop of `Tree::radius` runs out of fuel. -/
def checkLoop (M : CMath α) (fuel : Nat) (t : Tree α) (i : Int) :
    List (Segment α) → Option Bool
  | [] => some true
  | c :: rest =>
    if isRelative (t.segments i) c then checkLoop M fuel t i rest
    else
      match t.radius M fuel i, t.radius M fuel c.ID with
      | some ri, some rc =>
        if Geometry.hasIntersection M t.dimension (t.proximalPoint i) (t.distalPoint i)
            (t.proximalPoint c.ID) (t.distalPoint c.ID) (ri + rc) then some false
        else checkLoop M fuel t i rest
      | _, _ => none

/-- The outer loop of `WithoutIntersection::pass`, over the segments `i` of the tree. -/
def segmentLoop (M : CMath α) (fuel : Nat) (t : Tree α) (checkSegments : List (Segment α)) :
    List Int → Option Bool
  | [] => some true
  | i :: rest =>
    match checkLoop M fuel t i checkSegments with
    | none => none
    | some false => some false
    | some true => segmentLoop M fuel t checkSegments rest

/-- `WithoutIntersection::pass`. -/
def pass (M : CMath α) (fuel : Nat) (t : Tree α) (segment : Segment α) : Option Bool :=
  /- Search for intersection. -/
  let checkSegments := [segment, t.leftSegment segment.ID, t.rightSegment segment.ID]
  segmentLoop M fuel t checkSegments (indices t.currentNumberOfSegments)

end WithoutIntersection

/-- The state of a `TargetVolume`: the two exponents. -/
structure TargetVolume (α : Type) where
  radiusExpoent : α
  lengthExpoent : α

namespace TargetVolume

/-- The loop of `TargetVolume::eval` over the segments `i` of the tree; the state is
`volume`. -/
def evalLoop (T : TargetVolume α) (M : CMath α) (fuel : Nat) (t : Tree α) :
    List Int → α → Option α
  | [], volume => some volume
  | i :: rest, volume =>
    match t.radius M fuel i with
    | none => none
    | some r =>
      evalLoop T M fuel t rest
        (volume + M.pow r T.radiusExpoent * M.pow (t.length i) T.lengthExpoent)

/-- `TargetVolume::eval`. -/
def eval (T : TargetVolume α) (M : CMath α) (fuel : Nat) (t : Tree α) : Option α :=
  evalLoop T M fuel t (indices t.currentNumberOfSegments) 0

end TargetVolume

/-- The loop of `Tree::volume` over the segments `i` of the tree; the state is `vol`. -/
def Tree.volumeLoop (M : CMath α) (fuel : Nat) (t : Tree α) : List Int → α → Option α
  | [], vol => some vol
  | i :: rest, vol =>
    match t.radius M fuel i with
    | none => none
    | some r => Tree.volumeLoop M fuel t rest (vol + (r * r) * t.length i)

/-- `Tree::volume`. -/
def Tree.volume (M : CMath α) (fuel : Nat) (t : Tree α) : Option α :=
  match Tree.volumeLoop M fuel t (indices t.currentNumberOfSegments) 0 with
  | none => none
  | some vol => some (vol * M.pi)

/-! ## The search of the segments closest to a point -/

/-- The state of a `TreeConnectionSearch`. -/
structure TreeConnectionSearch (α : Type) where
  numberOfConnections : Int
  currentNumberOfConnections : Int
  currentNumberOfSegments : Int
  segmentDistance : Int → α
  segmentID : Int → Int
  closestSegments : Int → Int

namespace TreeConnectionSearch

/-- `TreeConnectionSearch::TreeConnectionSearch(TreeModel *tree, int numberOfConnections)`; the
arrays allocated with `new` are not initialised and are the last three arguments. -/
def construct (numberOfConnections : Int) (segmentDistance : Int → α)
    (segmentID closestSegments : Int → Int) : TreeConnectionSearch α :=
  { numberOfConnections := numberOfConnections, currentNumberOfConnections := 0,
    currentNumberOfSegments := 0, segmentDistance := segmentDistance, segmentID := segmentID,
    closestSegments := closestSegments }

/-- The first loop of `TreeConnectionSearch::atPoint`, over the segments `i` of the tree:
"Compute the distance of the point from each segment". -/
def distances (M : CMath α) (t : Tree α) (point : Point α) :
    List Int → TreeConnectionSearch α → TreeConnectionSearch α
  | [], v => v
  | i :: rest, v =>
    let d := Geometry.distanceFromSegment M t.dimension point (t.proximalPoint i)
      (t.distalPoint i)
    let v := { v with
      segmentDistance := (Function.update v.segmentDistance v.currentNumberOfSegments d) }
    let v := { v with segmentID := Function.update v.segmentID v.currentNumberOfSegments i }
    let v := { v with currentNumberOfSegments := v.currentNumberOfSegments + 1 }
    distances M t point rest v

/-- The critical distance of the point from the segment `i` of the tree, as the first loop of
`atPoint` computes it. -/
def criticalDistance (M : CMath α) (t : Tree α) (point : Point α) (i : Int) : α :=
  Geometry.distanceFromSegment M t.dimension point (t.proximalPoint i) (t.distalPoint i)

/-- The `for` loop of `TreeConnectionSearch::sort`: one pass of the bubble sort, with the flag
`swap`. -/
def sortPass : List Int → TreeConnectionSearch α → Bool → TreeConnectionSearch α × Bool
  | [], v, swap => (v, swap)
  | i :: rest, v, swap =>
    if v.segmentDistance i > v.segmentDistance (i + 1) then
      let oldDistance := v.segmentDistance i
      let oldSegmentID := v.segmentID i
      let v := { v with
        segmentDistance := (Function.update v.segmentDistance i (v.segmentDistance (i + 1))) }
      let v := { v with segmentID := Function.update v.segmentID i (v.segmentID (i + 1)) }
      let v := { v with segmentDistance := Function.update v.segmentDistance (i + 1) oldDistance }
      let v := { v with segmentID := Function.update v.segmentID (i + 1) oldSegmentID }
      sortPass rest v true
    else sortPass rest v swap

/-- `TreeConnectionSearch::sort`: the `do ... while (swap)` loop. -/
def sort : Nat → TreeConnectionSearch α → Option (TreeConnectionSearch α)
  | 0, _ => none
  | fuel + 1, v =>
    let r := sortPass (indices (v.currentNumberOfSegments - 1)) v false
    if r.2 then sort fuel r.1 else some r.1

/-- The exchange of the slots `i` and `i + 1` of an array. -/
def exchange (i j : Int) : Int := if j = i then i + 1 else if j = i + 1 then i else j

/-- The invariant of the bubble sort of `TreeConnectionSearch::sort` for `n` segments with the
keys `key`: the first `n` slots of `_segmentID` hold the segment indices `0, ..., n - 1` in
some order, `_segmentDistance` holds the key of each of them in the same slot, and segments
with equal keys stand in the order of their indices. -/
structure SortInv (key : Int → α) (n : Int) (v : TreeConnectionSearch α) : Prop where
  count : v.currentNumberOfSegments = n
  paired : ∀ j, 0 ≤ j → j < n → v.segmentDistance j = key (v.segmentID j)
  range : ∀ j, 0 ≤ j → j < n → 0 ≤ v.segmentID j ∧ v.segmentID j < n
  inj : ∀ j k, 0 ≤ j → j < n → 0 ≤ k → k < n → v.segmentID j = v.segmentID k → j = k
  surj : ∀ i, 0 ≤ i → i < n → ∃ j, 0 ≤ j ∧ j < n ∧ v.segmentID j = i
  stable : ∀ j k, 0 ≤ j → j < k → k < n → v.segmentDistance j = v.segmentDistance k →
    v.segmentID j < v.segmentID k

/-- The last `p` of the `n` slots of `_segmentDistance` are settled: each of them holds a
distance that is not less than any distance in a slot before it. -/
def Settled (n p : Int) (v : TreeConnectionSearch α) : Prop :=
  ∀ j k, 0 ≤ j → j < k → k < n → n - p ≤ k → v.segmentDistance j ≤ v.segmentDistance k

/-- The state of a pass of the bubble sort that is about to compare the slots `i` and `i + 1`,
when the last `p` slots were settled before the pass: the slot `i` holds a distance that is not
less than any distance before it, and so does the slot `n - p - 1` once the pass has gone by
it. -/
def Bubbled (n p i : Int) (v : TreeConnectionSearch α) : Prop :=
  ∀ j k, 0 ≤ j → j < k → k < n → ((n - p - 1 ≤ k ∧ k ≤ i) ∨ n - p ≤ k ∨ k = i) →
    v.segmentDistance j ≤ v.segmentDistance k

/-- The last loop of `TreeConnectionSearch::atPoint`: "Get the closest segments". -/
def closest : List Int → TreeConnectionSearch α → TreeConnectionSearch α
  | [], v => v
  | i :: rest, v =>
    closest rest { v with closestSegments := Function.update v.closestSegments i (v.segmentID i) }

/-- `TreeConnectionSearch::atPoint`; the returned array is the field `closestSegments` of the
result. -/
def atPoint (M : CMath α) (fuel : Nat) (t : Tree α) (v : TreeConnectionSearch α)
    (point : Point α) : Option (TreeConnectionSearch α) :=
  let v := { v with currentNumberOfSegments := 0 }
  let v := distances M t point (indices t.currentNumberOfSegments) v
  match sort fuel v with
  | none => none
  | some v =>
    let v := { v with currentNumberOfConnections :=
      (if v.currentNumberOfSegments < v.numberOfConnections then v.currentNumberOfSegments
        else v.numberOfConnections) }
    some (closest (indices v.currentNumberOfConnections) v)

end TreeConnectionSearch

/-! ## Connections and the table of evaluated connections -/

/-- `Connection` of `cco/Connection.h`. -/
structure Connection (α : Type) where
  bifurcationSegmentID : Int
  bifurcationPoint : Point α
  newSegment : Segment α
  targetFunctionValue : α

/-- `Connection::Connection()`: the segment ID is `-1`; the members not initialised by the
constructor are the arguments `dim` (the `_dimension` of the segment) and `value`. -/
def Connection.default (dim : Int) (value : α) : Connection α :=
  { bifurcationSegmentID := -1, bifurcationPoint := Point.default,
    newSegment := Segment.default dim, targetFunctionValue := value }

/-- `Connection::empty`. -/
def Connection.empty (c : Connection α) : Bool := decide (c.bifurcationSegmentID < 0)

/-- A tree together with the number of calls of `growSegment` and of `remove` made on it so
far (two counters that the program does not have). -/
structure Counted (α : Type) where
  tree : Tree α
  growSegmentCalls : Int
  removeCalls : Int

/-- A call `_tree->growSegment(...)`, counted. -/
def Counted.growSegment (M : CMath α) (fuel : Nat) (bifurcationPoint : Point α)
    (parent child : Segment α) (s : Counted α) : Option (Segment α × Counted α) :=
  match Tree.growSegment M fuel bifurcationPoint parent child s.tree with
  | none => none
  | some r => some (r.1, { s with tree := r.2, growSegmentCalls := s.growSegmentCalls + 1 })

/-- A call `_tree->remove(...)`, counted. -/
def Counted.remove (M : CMath α) (fuel : Nat) (segment : Segment α) (s : Counted α) :
    Option (Segment α × Counted α) :=
  match Tree.remove M fuel s.tree segment with
  | none => none
  | some r => some (r.1, { s with tree := r.2, removeCalls := s.removeCalls + 1 })

/-- The collaborators that the driver reaches through interfaces, as functions of the state
they read: the `Domain` (with states `D`), the `DistanceCriterion` (with states `C`), the
`TerminalFlowFunction`, the `TargetFunction`, `GeometricOptimization::passRestrictions` and the
restriction `WithoutIntersection::pass` of the table (these four read the tree, and the domain,
without changing them), and the numbers the driver is configured with.  `indeterminateValue`
and `indeterminateID` are the values of a `double` and of an `int` that the code reads without
having initialised them. -/
structure Collaborators (α D C : Type) where
  hasAvailablePoint : D → Bool
  point : D → Point α × D
  reset : D → D
  domainDimension : D → Int
  distanceCriterionEval : C → Tree α → Point α → Bool
  distanceCriterionRelax : C → C
  distanceCriterionUpdate : C → Tree α → Int → C
  terminalFlowFunction : Tree α → Segment α → α
  targetFunction : Tree α → α
  passRestrictions : D → Tree α → Segment α → Bool
  withoutIntersection : Tree α → Segment α → Bool
  numberOfTerminals : Int
  numberOfConnections : Int
  maximumNumberOfAttempts : Int
  intervalDivision : Int
  indeterminateValue : α
  indeterminateID : Int

/-- The state of a `ConnectionEvaluationTable`. -/
structure ConnectionEvaluationTable (α : Type) where
  connections : Int → Connection α
  reasonableConnections : Int → Int
  numberOfConnections : Int
  currentNumberOfConnections : Int
  currentNumberOfReasonableConnections : Int

namespace ConnectionEvaluationTable

/-- `ConnectionEvaluationTable::ConnectionEvaluationTable`: the connections are default
constructed, the array `_reasonableConnections` is not initialised (the last argument). -/
def construct (numberOfConnections : Int) (segDim : Int → Int) (value : Int → α)
    (reasonableConnections : Int → Int) : ConnectionEvaluationTable α :=
  { connections := fun i => Connection.default (segDim i) (value i)
    reasonableConnections := reasonableConnections
    numberOfConnections := numberOfConnections
    currentNumberOfConnections := 0
    currentNumberOfReasonableConnections := 0 }

/-- `ConnectionEvaluationTable::add`, with `copy` inlined. -/
def add (T : ConnectionEvaluationTable α) (connection : Connection α) :
    ConnectionEvaluationTable α :=
  if T.currentNumberOfConnections < T.numberOfConnections then
    let T := { T with connections := (Function.update T.connections T.currentNumberOfConnections
      { bifurcationSegmentID := connection.bifurcationSegmentID
        bifurcationPoint := connection.bifurcationPoint
        newSegment := connection.newSegment
        targetFunctionValue := connection.targetFunctionValue }) }
    { T with currentNumberOfConnections := T.currentNumberOfConnections + 1 }
  else T

/-- The loop of `ConnectionEvaluationTable::reduce` over the connections `i` of the table. -/
def reduceLoop {D C : Type} (K : Collaborators α D C) (M : CMath α) (fuel : Nat) :
    List Int → ConnectionEvaluationTable α → Counted α →
      Option (ConnectionEvaluationTable α × Counted α)
  | [], T, s => some (T, s)
  | i :: rest, T, s =>
    /- Do the connection. -/
    let bifurcationSegment := s.tree.segments (T.connections i).bifurcationSegmentID
    let newSegment := (T.connections i).newSegment
    match s.growSegment M fuel (T.connections i).bifurcationPoint bifurcationSegment
        newSegment with
    | none => none
    | some (updatedBifurcationSegment, s) =>
      /- Check for intersections. -/
      let T :=
        if K.withoutIntersection s.tree updatedBifurcationSegment then
          let T := { T with reasonableConnections :=
            (Function.update T.reasonableConnections T.currentNumberOfReasonableConnections i) }
          { T with
            currentNumberOfReasonableConnections := T.currentNumberOfReasonableConnections + 1 }
        else T
      /- Undo the connection. -/
      match s.remove M fuel newSegment with
      | none => none
      | some (_, s) => reduceLoop K M fuel rest T s

/-- `ConnectionEvaluationTable::reduce`. -/
def reduce {D C : Type} (K : Collaborators α D C) (M : CMath α) (fuel : Nat)
    (T : ConnectionEvaluationTable α) (s : Counted α) :
    Option (ConnectionEvaluationTable α × Counted α) :=
  let T := { T with currentNumberOfReasonableConnections := 0 }
  reduceLoop K M fuel (indices T.currentNumberOfConnections) T s

/-- The verdict of `reduce` on a connection in the tree `t`: the connection is applied to the
tree with `growSegment`, and the verdict is the result of `WithoutIntersection::pass` for the
segment that `growSegment` returned, in the tree so grown. -/
def verdict {D C : Type} (K : Collaborators α D C) (M : CMath α) (fuel : Nat) (t : Tree α)
    (c : Connection α) : Option Bool :=
  match Tree.growSegment M fuel c.bifurcationPoint (t.segments c.bifurcationSegmentID)
      c.newSegment t with
  | none => none
  | some r => some (K.withoutIntersection r.2 r.1)

/-- The reasonable indices that a table records, in the order of the array. -/
def reasonable (T : ConnectionEvaluationTable α) : List Int :=
  (indices T.currentNumberOfReasonableConnections).map T.reasonableConnections

/-- The loop of `ConnectionEvaluationTable::optimalReasonableConnection`; the state is the
pair of `optimalConnectionID` and `targetFunctionValue`. -/
def optimalLoop (T : ConnectionEvaluationTable α) : List Int → Int × α → Int × α
  | [], r => r
  | i :: rest, r =>
    let connectionID := T.reasonableConnections i
    if (T.connections connectionID).targetFunctionValue < r.2 then
      optimalLoop T rest (connectionID, (T.connections connectionID).targetFunctionValue)
    else optimalLoop T rest r

/-- `ConnectionEvaluationTable::optimalReasonableConnection`; `optimalConnectionID` is not
initialised and starts as `indeterminateID`. -/
def optimalReasonableConnection (T : ConnectionEvaluationTable α) (indeterminateID : Int) :
    Connection α :=
  T.connections
    (optimalLoop T (indices T.currentNumberOfReasonableConnections)
      (indeterminateID, 1000000000000000)).1

/-- `ConnectionEvaluationTable::reset`. -/
def reset (T : ConnectionEvaluationTable α) : ConnectionEvaluationTable α :=
  { T with currentNumberOfConnections := 0 }

end ConnectionEvaluationTable

/-! ## The geometric optimisation of a bifurcation -/

/-- The variables that the loops of `SimpleOptimization::bifurcation` change. -/
structure Search (α : Type) where
  tree : Tree α
  minimumEvaluatedTargetFunction : α
  optimalBifurcationPoint : Point α
  hasMinimum : Bool

namespace SimpleOptimization

/-- The point `map(a, b) = (1 - a - b)*Xi + a*Xnew + b*Xj` that the loop body of
`SimpleOptimization::bifurcation` computes as `newBifurcationPoint`. -/
def map (dim : Int) (Xi Xnew Xj : Point α) (a b : α) : Point α :=
  let mapPointA := Geometry.scalarProduct dim (1 - a - b) Xi
  let mapPointB := Geometry.scalarProduct dim a Xnew
  let mapPointC := Geometry.scalarProduct dim b Xj
  Geometry.add dim (Geometry.add dim mapPointA mapPointB) mapPointC

/-- The end of the loop body of `SimpleOptimization::bifurcation`, after the bifurcation has
been moved to `newBifurcationPoint`: "Check the geometric restrictions", "Evaluate the target
function", "Store the connection with minimum target function value". -/
def evaluate {D C : Type} (K : Collaborators α D C) (d : D) (segment : Segment α)
    (newBifurcationPoint : Point α) (S : Search α) : Search α :=
  if K.passRestrictions d S.tree segment then
    let evaluatedTargetFunction := K.targetFunction S.tree
    if evaluatedTargetFunction < S.minimumEvaluatedTargetFunction then
      { S with minimumEvaluatedTargetFunction := evaluatedTargetFunction,
               optimalBifurcationPoint := newBifurcationPoint, hasMinimum := true }
    else S
  else S

/-- The inner loop of `SimpleOptimization::bifurcation`, over the values of `column`. -/
def columnLoop {D C : Type} (K : Collaborators α D C) (M : CMath α) (fuel : Nat) (d : D)
    (segment : Segment α) (Xi Xnew Xj : Point α) (step : α) (numberOfPoints line : Int) :
    List Int → Search α → Option (Search α)
  | [], S => some S
  | column :: rest, S =>
    let a : α := ((column - 1 : Int) : α) * step
    let b : α := ((numberOfPoints - line : Int) : α) * step
    let newBifurcationPoint := map (K.domainDimension d) Xi Xnew Xj a b
    /- Move the bifurcation to the new bifurcation point. -/
    match Tree.moveDistalPoint M fuel S.tree segment.ID newBifurcationPoint with
    | none => none
    | some t =>
      columnLoop K M fuel d segment Xi Xnew Xj step numberOfPoints line rest
        (evaluate K d segment newBifurcationPoint { S with tree := t })

/-- The outer loop of `SimpleOptimization::bifurcation`, over the values of `line`; for each
of them `column` runs from 1 to `line`. -/
def lineLoop {D C : Type} (K : Collaborators α D C) (M : CMath α) (fuel : Nat) (d : D)
    (segment : Segment α) (Xi Xnew Xj : Point α) (step : α) (numberOfPoints : Int) :
    List Int → Search α → Option (Search α)
  | [], S => some S
  | line :: rest, S =>
    match columnLoop K M fuel d segment Xi Xnew Xj step numberOfPoints line
        ((indices line).map (fun k => k + 1)) S with
    | none => none
    | some S => lineLoop K M fuel d segment Xi Xnew Xj step numberOfPoints rest S

/-- `SimpleOptimization::bifurcation`. -/
def bifurcation {D C : Type} (K : Collaborators α D C) (M : CMath α) (fuel : Nat) (d : D)
    (t : Tree α) (segment : Segment α) : Option (Connection α × Tree α) :=
  let newSegment := segment.right
  let connectionSegment := segment.left
  let numberOfPoints := K.intervalDivision + 1
  let step : α := 1 / (K.intervalDivision : α)
  let offset : α := 3 / 10
  let dim := K.domainDimension d
  let segmentProximalPoint := t.proximalPoint segment.ID
  let oldBifurcationPoint := segment.point
  let newSegmentDistalPoint := t.distalPoint newSegment
  let connectionSegmentDistalPoint := t.distalPoint connectionSegment
  let Xi := Geometry.add dim segmentProximalPoint
    (Geometry.scalarProduct dim offset
      (Geometry.subtract dim connectionSegmentDistalPoint segmentProximalPoint))
  let Xj := Geometry.add dim segmentProximalPoint
    (Geometry.scalarProduct dim (1 - offset)
      (Geometry.subtract dim connectionSegmentDistalPoint segmentProximalPoint))
  let Xnew := Geometry.add dim newSegmentDistalPoint
    (Geometry.scalarProduct dim offset
      (Geometry.subtract dim oldBifurcationPoint newSegmentDistalPoint))
  match lineLoop K M fuel d segment Xi Xnew Xj step numberOfPoints
      ((indices numberOfPoints).map (fun k => numberOfPoints - k))
      { tree := t, minimumEvaluatedTargetFunction := 1000000000000000,
        optimalBifurcationPoint := Point.default, hasMinimum := false } with
  | none => none
  | some S =>
    let minimumConnection : Connection α :=
      if S.hasMinimum then
        { bifurcationSegmentID := segment.ID, bifurcationPoint := S.optimalBifurcationPoint,
          newSegment := S.tree.rightSegment segment.ID,
          targetFunctionValue := S.minimumEvaluatedTargetFunction }
      else Connection.default K.indeterminateID K.indeterminateValue
    /- Move back the bifurcation to the old bifurcation point. -/
    match Tree.moveDistalPoint M fuel S.tree segment.ID oldBifurcationPoint with
    | none => none
    | some t => some (minimumConnection, t)

/-- The vertices `Xi`, `Xnew` and `Xj` of the triangle that `SimpleOptimization::bifurcation`
scans, as the function computes them before its loops. -/
def triangle (dim : Int) (t : Tree α) (segment : Segment α) : Point α × Point α × Point α :=
  let offset : α := 3 / 10
  let segmentProximalPoint := t.proximalPoint segment.ID
  let oldBifurcationPoint := segment.point
  let newSegmentDistalPoint := t.distalPoint segment.right
  let connectionSegmentDistalPoint := t.distalPoint segment.left
  (Geometry.add dim segmentProximalPoint
      (Geometry.scalarProduct dim offset
        (Geometry.subtract dim connectionSegmentDistalPoint segmentProximalPoint)),
   Geometry.add dim newSegmentDistalPoint
      (Geometry.scalarProduct dim offset
        (Geometry.subtract dim oldBifurcationPoint newSegmentDistalPoint)),
   Geometry.add dim segmentProximalPoint
      (Geometry.scalarProduct dim (1 - offset)
        (Geometry.subtract dim connectionSegmentDistalPoint segmentProximalPoint)))

/-- The grid points of a line of the triangle, in the order of the inner loop of
`SimpleOptimization::bifurcation`. -/
def linePoints (dim : Int) (Xi Xnew Xj : Point α) (step : α) (numberOfPoints line : Int) :
    List (Point α) :=
  ((indices line).map (fun k => k + 1)).map (fun column =>
    map dim Xi Xnew Xj (((column - 1 : Int) : α) * step)
      (((numberOfPoints - line : Int) : α) * step))

/-- The grid points in the scan order of `SimpleOptimization::bifurcation`: the lines from
`numberOfPoints` down to 1, the columns of each line from 1 up to `line`. -/
def gridPoints {D C : Type} (K : Collaborators α D C) (d : D) (t : Tree α)
    (segment : Segment α) : List (Point α) :=
  let numberOfPoints := K.intervalDivision + 1
  let step : α := 1 / (K.intervalDivision : α)
  let X := triangle (K.domainDimension d) t segment
  ((indices numberOfPoints).map (fun k => numberOfPoints - k)).flatMap
    (linePoints (K.domainDimension d) X.1 X.2.1 X.2.2 step numberOfPoints)

/-- The trial states of a scan: each point of the list paired with the tree in which it is
evaluated, that is the tree after `moveDistalPoint(s, x)` has been called for the points up
to it. -/
def scan (M : CMath α) (fuel : Nat) (s : Int) : List (Point α) → Tree α →
    Option (List (Point α × Tree α))
  | [], _ => some []
  | x :: rest, t =>
    match Tree.moveDistalPoint M fuel t s x with
    | none => none
    | some t1 =>
      match scan M fuel s rest t1 with
      | none => none
      | some l => some ((x, t1) :: l)

/-- The tree after a scan that started in the tree `t`. -/
def lastTree (t : Tree α) : List (Point α × Tree α) → Tree α
  | [] => t
  | e :: rest => lastTree e.2 rest

/-- The variables of the search after the trial states of a list have been evaluated in
turn, as the loop body of `SimpleOptimization::bifurcation` does. -/
def select {D C : Type} (K : Collaborators α D C) (d : D) (segment : Segment α) :
    List (Point α × Tree α) → Search α → Search α
  | [], S => S
  | e :: rest, S => select K d segment rest (evaluate K d segment e.1 { S with tree := e.2 })

/-- A trial state passes: the geometric restrictions hold in its tree. -/
def Passes {D C : Type} (K : Collaborators α D C) (d : D) (segment : Segment α)
    (e : Point α × Tree α) : Prop :=
  K.passRestrictions d e.2 segment = true

/-- A trial state is a candidate: it passes the geometric restrictions and the value of its
target function is below the initial minimum `1e15`. -/
def Candidate {D C : Type} (K : Collaborators α D C) (d : D) (segment : Segment α)
    (e : Point α × Tree α) : Prop :=
  K.passRestrictions d e.2 segment = true ∧ K.targetFunction e.2 < 1000000000000000

end SimpleOptimization

/-! ## The driver `ConstrainedConstructiveOptimization` -/

/-- The contents of the arrays that `TreeConnectionSearch` and `ConnectionEvaluationTable`
allocate with `new` and do not initialise. -/
structure Uninitialised (α : Type) where
  segmentDistance : Int → α
  segmentID : Int → Int
  closestSegments : Int → Int
  connectionDimension : Int → Int
  connectionValue : Int → α
  reasonableConnections : Int → Int

/-- The variables of `ConstrainedConstructiveOptimization::grow` and the objects it changes. -/
structure Grow (α D C : Type) where
  counted : Counted α
  domain : D
  distanceCriterion : C
  Kterm : Int
  totalAttempts : Int
  point : Point α
  newSegment : Segment α
  vicinity : TreeConnectionSearch α
  connectionEvaluationTable : ConnectionEvaluationTable α

namespace ConstrainedConstructiveOptimization

/-- The `while (_domain->hasAvailablePoint())` loop of
`ConstrainedConstructiveOptimization::growRoot`; the state is the pair of `point` and the
domain. -/
def rootPointLoop {D C : Type} (K : Collaborators α D C) (M : CMath α) (dim : Int)
    (seed : Point α) (supportingRadius : α) : Nat → Point α × D → Option (Point α × D)
  | 0, _ => none
  | fuel + 1, r =>
    if K.hasAvailablePoint r.2 then
      /- Get a random point in Domain -/
      let r := K.point r.2
      /- Check if the point is in the supporting circle (sphere) -/
      if distance M dim r.1 seed < supportingRadius then some r
      else rootPointLoop K M dim seed supportingRadius fuel r
    else some r

/-- `ConstrainedConstructiveOptimization::growRoot`; `none` when it throws. -/
def growRoot {D C : Type} (K : Collaborators α D C) (M : CMath α) (fuel : Nat)
    (t : Tree α) (d : D) (c : C) : Option (Tree α × D × C) :=
  let root : Segment α := Segment.default t.dimension
  let supportingRadius : α :=
    if t.dimension = 2 then
      M.sqrt (t.perfusionVolume / (M.pi * (t.numberOfTerminals : α)))
    else M.cbrt (3 * t.perfusionVolume / (4 * M.pi * (t.numberOfTerminals : α)))
  match rootPointLoop K M t.dimension t.seed supportingRadius fuel (Point.default, d) with
  | none => none
  | some (point, d) =>
    if !K.hasAvailablePoint d then none
    else
      let root := { root with point := point }
      let root := { root with flow := K.terminalFlowFunction t root }
      let t := (Tree.growRoot M t root).2
      let c := K.distanceCriterionUpdate c t 1
      some (t, d, c)

/-- The `while (_domain->hasAvailablePoint())` loop of
`ConstrainedConstructiveOptimization::grow`: "Get a random point in Domain"; the state is
`point`, the domain, the distance criterion and `attempt`. -/
def pointLoop {D C : Type} (K : Collaborators α D C) (t : Tree α) :
    Nat → Point α × D × C × Int → Option (Point α × D × C × Int)
  | 0, _ => none
  | fuel + 1, (point, d, c, attempt) =>
    if K.hasAvailablePoint d then
      let r := K.point d
      /- Check distance criterion -/
      if K.distanceCriterionEval c t r.1 then some (r.1, r.2, c, attempt)
      else
        let attempt := attempt + 1
        /- Relax distance criterion. -/
        if attempt > K.maximumNumberOfAttempts then
          pointLoop K t fuel (r.1, r.2, K.distanceCriterionRelax c, 0)
        else pointLoop K t fuel (r.1, r.2, c, attempt)
    else some (point, d, c, attempt)

/-- The two statements `newSegment.setPoint(point);
newSegment.setFlow(_terminalFlowFunction->eval(newSegment));` of the loop of
`ConstrainedConstructiveOptimization::grow` over the closest segments. -/
def candidate {D C : Type} (K : Collaborators α D C) (t : Tree α) (newSegment : Segment α)
    (point : Point α) : Segment α :=
  let newSegment := { newSegment with point := point }
  { newSegment with flow := K.terminalFlowFunction t newSegment }

/-- The `for` loop of `ConstrainedConstructiveOptimization::grow` over the closest segments:
each is connected to the new point, optimised, recorded in the table and disconnected.  The
state is the counted tree, `newSegment` and the table. -/
def connectLoop {D C : Type} (K : Collaborators α D C) (M : CMath α) (fuel : Nat) (d : D)
    (point : Point α) (closestSegments : Int → Int) :
    List Int → Counted α × Segment α × ConnectionEvaluationTable α →
      Option (Counted α × Segment α × ConnectionEvaluationTable α)
  | [], r => some r
  | i :: rest, (s, newSegment, T) =>
    /- Do the connection. -/
    let bifurcationSegment := s.tree.segments (closestSegments i)
    let middle := Geometry.middle s.tree.dimension (s.tree.proximalPoint (closestSegments i))
      (s.tree.distalPoint (closestSegments i))
    let newSegment := candidate K s.tree newSegment point
    match s.growSegment M fuel middle bifurcationSegment newSegment with
    | none => none
    | some (updatedBifurcationSegment, s) =>
      let newSegment := s.tree.rightSegment updatedBifurcationSegment.ID
      /- Geometric optimization. -/
      match SimpleOptimization.bifurcation K M fuel d s.tree updatedBifurcationSegment with
      | none => none
      | some (connection, t) =>
        let s := { s with tree := t }
        let T := if !connection.empty then T.add connection else T
        /- Undo the connection. -/
        match s.remove M fuel newSegment with
        | none => none
        | some (_, s) => connectLoop K M fuel d point closestSegments rest (s, newSegment, T)

/-- One pass of the body of the `while (Kterm < _numberOfTerminals)` loop of
`ConstrainedConstructiveOptimization::grow`. -/
def growStep {D C : Type} (K : Collaborators α D C) (M : CMath α) (fuel : Nat)
    (G : Grow α D C) : Option (Grow α D C) :=
  let attempt : Int := 0
  /- Get a random point in Domain -/
  match pointLoop K G.counted.tree fuel (G.point, G.domain, G.distanceCriterion, attempt) with
  | none => none
  | some (point, d, c, _) =>
    let d := if !K.hasAvailablePoint d then K.reset d else d
    /- Find the point's vicinity. -/
    match G.vicinity.atPoint M fuel G.counted.tree point with
    | none => none
    | some vicinity =>
      match connectLoop K M fuel d point vicinity.closestSegments
          (indices vicinity.currentNumberOfConnections)
          (G.counted, G.newSegment, G.connectionEvaluationTable) with
      | none => none
      | some (s, newSegment, T) =>
        /- Reduce bifurcations to reasonable connections. -/
        match T.reduce K M fuel s with
        | none => none
        | some (T, s) =>
          /- Structural optimization. -/
          if T.currentNumberOfReasonableConnections > 0 then
            let optimalConnection := T.optimalReasonableConnection K.indeterminateID
            /- Connect the new segment to the bifurcation segment. -/
            let newSegment := optimalConnection.newSegment
            match s.growSegment M fuel optimalConnection.bifurcationPoint
                (s.tree.segments optimalConnection.bifurcationSegmentID) newSegment with
            | none => none
            | some (_, s) =>
              let Kterm := G.Kterm + 1
              /- Update distance criterion. -/
              let c := K.distanceCriterionUpdate c s.tree Kterm
              some { counted := s, domain := d, distanceCriterion := c, Kterm := Kterm,
                     totalAttempts := 1, point := point, newSegment := newSegment,
                     vicinity := vicinity, connectionEvaluationTable := T.reset }
          else
            some { counted := s, domain := d, distanceCriterion := c, Kterm := G.Kterm,
                   totalAttempts := G.totalAttempts + 1, point := point,
                   newSegment := newSegment, vicinity := vicinity,
                   connectionEvaluationTable := T.reset }

/-- The `while (Kterm < _numberOfTerminals)` loop of
`ConstrainedConstructiveOptimization::grow`. -/
def growLoop {D C : Type} (K : Collaborators α D C) (M : CMath α) (fuel : Nat) :
    Nat → Grow α D C → Option (Grow α D C)
  | 0, _ => none
  | n + 1, G =>
    if G.Kterm < K.numberOfTerminals then
      match growStep K M fuel G with
      | none => none
      | some G => growLoop K M fuel n G
    else some G

/-- The variables of `ConstrainedConstructiveOptimization::grow` when its loop starts, after
`growRoot()` has left the tree `t`, the domain in the state `d` and the distance criterion in
the state `c`.  The arrays that the constructors of the local objects `vicinity` and
`connectionEvaluationTable` allocate without initialising them are the fields of `U`. -/
def growStart {D C : Type} (K : Collaborators α D C) (t : Tree α) (d : D) (c : C)
    (U : Uninitialised α) : Grow α D C :=
  { counted := { tree := t, growSegmentCalls := 0, removeCalls := 0 }
    domain := d
    distanceCriterion := c
    Kterm := 1
    totalAttempts := 1
    point := Point.ofDimension t.dimension
    newSegment := Segment.default t.dimension
    vicinity := TreeConnectionSearch.construct K.numberOfConnections U.segmentDistance
      U.segmentID U.closestSegments
    connectionEvaluationTable := ConnectionEvaluationTable.construct K.numberOfConnections
      U.connectionDimension U.connectionValue U.reasonableConnections }

/-- `ConstrainedConstructiveOptimization::grow` on the tree `t`, with the domain in the state
`d` and the distance criterion in the state `c`; the result is `none` when the code throws or
the fuel does not suffice. -/
def grow {D C : Type} (K : Collaborators α D C) (M : CMath α) (fuel : Nat) (t : Tree α)
    (d : D) (c : C) (U : Uninitialised α) : Option (Grow α D C) :=
  /- Grow the root segment. -/
  match growRoot K M fuel t d c with
  | none => none
  | some (t, d, c) => growLoop K M fuel fuel (growStart K t d c U)

end ConstrainedConstructiveOptimization

/-! ## The real numbers as `double`, and a small tree -/

/-- The functions of `<cmath>` on the real numbers: `sqrt`, `cbrt`, `pow`, `acos` and `M_PI`. -/
noncomputable def realMath : CMath ℝ :=
  { sqrt := Real.sqrt
    cbrt := fun x => if 0 ≤ x then x ^ (1 / 3 : ℝ) else -((-x) ^ (1 / 3 : ℝ))
    pow := fun x y => x ^ y
    acos := Real.arccos
    pi := Real.pi }

/-- A tree as `Tree(Point seed, int numberOfTerminals, int dimension)` constructs it for four
terminals in the plane, with the seed at the origin. -/
def exampleTree : Tree α :=
  Tree.construct ⟨2, 0, 0, 0⟩ 4 2 (fun _ => 2) (fun _ => 0) (fun _ => 0)

/-- The segment value of a root that ends at the point `(1, 0)` and carries the flow `1`. -/
def exampleRootValue : Segment α := Segment.make 2 ⟨2, 1, 0, 0⟩ 1

/-- The state of `exampleTree` after `growRoot(exampleRootValue)`. -/
def exampleRoot (M : CMath α) : Tree α := (Tree.growRoot M exampleTree exampleRootValue).2

/-- A freshly constructed tree for `N` terminals in the plane, with the seed at the origin. -/
def exampleTreeFor (N : Int) : Tree α :=
  Tree.construct ⟨2, 0, 0, 0⟩ N 2 (fun _ => 2) (fun _ => 0) (fun _ => 0)

/-- A driver for `N` terminals whose domain holds the five points `(1/100, 0)`, `(2/100, 0)`,
... (the state of the domain is the number of points already handed out), with a distance
criterion and restrictions that accept everything, the terminal flow 1, the target function 0
and one connection tried for each new point. -/
def exampleDriver (N : Int) : Collaborators α Nat Unit :=
  { hasAvailablePoint := fun n => decide (n < 5)
    point := fun n => (⟨2, ((n : α) + 1) / 100, 0, 0⟩, n + 1)
    reset := fun _ => 0
    domainDimension := fun _ => 2
    distanceCriterionEval := fun _ _ _ => true
    distanceCriterionRelax := fun c => c
    distanceCriterionUpdate := fun c _ _ => c
    terminalFlowFunction := fun _ _ => 1
    targetFunction := fun _ => 0
    passRestrictions := fun _ _ _ => true
    withoutIntersection := fun _ _ => true
    numberOfTerminals := N
    numberOfConnections := 1
    maximumNumberOfAttempts := 10
    intervalDivision := 5
    indeterminateValue := 0
    indeterminateID := 0 }

/-- The collaborators of `exampleDriver` with a target function whose value is `2e15` in every
tree. -/
def exampleCostlyDriver : Collaborators α Nat Unit :=
  { (exampleDriver 2 : Collaborators α Nat Unit) with
    targetFunction := fun _ => 2000000000000000 }

/-- Arrays of zeros for the arrays that the constructors do not initialise. -/
def exampleUninitialised : Uninitialised α :=
  { segmentDistance := fun _ => 0, segmentID := fun _ => 0, closestSegments := fun _ => 0
    connectionDimension := fun _ => 2, connectionValue := fun _ => 0
    reasonableConnections := fun _ => 0 }

/-- The counted tree `s` holds `k` terminals in `2 * k - 1` segments, and `k - 1` calls of
`growSegment` on it have not been undone by a call of `remove`. -/
def Balance (s : Counted α) (k : Int) : Prop :=
  s.tree.currentNumberOfTerminals = k ∧ s.tree.currentNumberOfSegments = 2 * k - 1 ∧
    s.growSegmentCalls - s.removeCalls = k - 1

/-- The search state of `SimpleOptimization::bifurcation` under the example driver: the
minimum is the initial `1e15` until a point has been evaluated, and 0 afterwards. -/
def ExampleSearch (S : Search α) : Prop :=
  (S.hasMinimum = true → S.minimumEvaluatedTargetFunction = 0) ∧
  (S.hasMinimum = false → S.minimumEvaluatedTargetFunction = 1000000000000000)

/-- A table with two stored connections, with the target values `2e15` and `0`, of which only
the first one is recorded as reasonable. -/
def exampleCostlyTable : ConnectionEvaluationTable ℚ :=
  { connections := fun i =>
      { bifurcationSegmentID := 0, bifurcationPoint := Point.default,
        newSegment := Segment.default 2,
        targetFunctionValue := if i = 0 then 2000000000000000 else 0 }
    reasonableConnections := fun _ => 0
    numberOfConnections := 2
    currentNumberOfConnections := 2
    currentNumberOfReasonableConnections := 1 }

/-- A table with two stored connections at the root of the example: each of them takes the
bifurcation point `(1/2, 0)` on the segment 0 and a new terminal at `(1, 1)`. -/
def exampleReduceTable : ConnectionEvaluationTable α :=
  { connections := fun _ =>
      { bifurcationSegmentID := 0, bifurcationPoint := ⟨2, 1 / 2, 0, 0⟩,
        newSegment := ({ Segment.make 2 ⟨2, 1, 1, 0⟩ 1 with up := 0 }),
        targetFunctionValue := 0 }
    reasonableConnections := fun _ => 0
    numberOfConnections := 2
    currentNumberOfConnections := 2
    currentNumberOfReasonableConnections := 0 }

/-- A table with three stored connections, with the target values 5, 3 and 3, all of them
recorded as reasonable. -/
def exampleTiedTable : ConnectionEvaluationTable ℚ :=
  { connections := fun i =>
      { bifurcationSegmentID := 0, bifurcationPoint := Point.default,
        newSegment := Segment.default 2,
        targetFunctionValue := if i = 0 then 5 else 3 }
    reasonableConnections := fun i => i
    numberOfConnections := 3
    currentNumberOfConnections := 3
    currentNumberOfReasonableConnections := 3 }

/-! ## The domain read from a file -/

/-- The state of a `DomainFile`: the dimension of the domain, the array `_points` of the
coordinates read from the file, `_totalNumberOfPoints` and the cursor `_currentPoint`. -/
structure DomainFile (α : Type) where
  dimension : Int
  _points : Int → α
  _totalNumberOfPoints : Int
  _currentPoint : Int

namespace DomainFile

/-- `DomainFile::pointCoordinate`. -/
def pointCoordinate (d : DomainFile α) (pointID coordinate : Int) : α :=
  d._points (pointID * d.dimension + coordinate)

/-- `DomainFile::hasAvailablePoint`. -/
def hasAvailablePoint (d : DomainFile α) : Bool :=
  decide (d._currentPoint < d._totalNumberOfPoints)

/-- `DomainFile::point`; `none` when it throws. -/
def point (d : DomainFile α) : Option (Point α × DomainFile α) :=
  let pt : Point α := Point.ofDimension d.dimension
  if d.hasAvailablePoint then
    let pt := { pt with x := d.pointCoordinate d._currentPoint 0 }
    let pt := { pt with y := d.pointCoordinate d._currentPoint 1 }
    let pt := if d.dimension = 3 then { pt with z := d.pointCoordinate d._currentPoint 2 } else pt
    some (pt, { d with _currentPoint := d._currentPoint + 1 })
  else none

/-- `DomainFile::reset`. -/
def reset (d : DomainFile α) : DomainFile α := { d with _currentPoint := 0 }

end DomainFile

/-! ## The sampling loop of `grow` with a log -/

namespace ConstrainedConstructiveOptimization

/-- The sampling loop of `ConstrainedConstructiveOptimization::grow` (`pointLoop`) with a ghost
log next to its state: each rejected point adds one entry to the log, the pair of whether the
distance criterion was relaxed at that rejection and of the value of `attempt` after it. -/
def pointLoopLog {D C : Type} (K : Collaborators α D C) (t : Tree α) :
    Nat → (Point α × D × C × Int) × List (Bool × Int) →
      Option ((Point α × D × C × Int) × List (Bool × Int))
  | 0, _ => none
  | fuel + 1, ((point, d, c, attempt), log) =>
    if K.hasAvailablePoint d then
      let r := K.point d
      /- Check distance criterion -/
      if K.distanceCriterionEval c t r.1 then some ((r.1, r.2, c, attempt), log)
      else
        let attempt := attempt + 1
        /- Relax distance criterion. -/
        if attempt > K.maximumNumberOfAttempts then
          pointLoopLog K t fuel ((r.1, r.2, K.distanceCriterionRelax c, 0), log ++ [(true, 0)])
        else pointLoopLog K t fuel ((r.1, r.2, c, attempt), log ++ [(false, attempt)])
    else some ((point, d, c, attempt), log)

/-- The number of points rejected since the last relaxation, or since the start of the round
when there was none, in a log of the sampling loop: the length of the last run of entries
without a relaxation. -/
def sinceRelaxation (log : List (Bool × Int)) : Nat :=
  (log.reverse.takeWhile (fun e => !e.1)).length

/-- The number of relaxations in a log of the sampling loop. -/
def relaxations (log : List (Bool × Int)) : Nat := (log.filter (fun e => e.1)).length

/-- What holds of a log of the sampling loop: an entry records a relaxation exactly when it is
the rejection number `maximumNumberOfAttempts + 1` since the last relaxation or the start, the
counter is 0 after a relaxation and the number of rejections since the last relaxation
otherwise. -/
def LogGood (maximumNumberOfAttempts : Int) (log : List (Bool × Int)) : Prop :=
  ∀ pre e post, log = pre ++ e :: post →
    (e.1 = true ↔ (sinceRelaxation pre : Int) + 1 = maximumNumberOfAttempts + 1) ∧
    (e.1 = true → e.2 = 0) ∧
    (e.1 = false → e.2 = (sinceRelaxation pre : Int) + 1)

end ConstrainedConstructiveOptimization

/-! ## The choice of the tree in the forest drivers -/

namespace ForestCcoInvasion

/-- What the loop over the trees that follows the trial connections, in
`ForestCcoInvasion::grow` and in `CompetingOptimizedArterialTrees::grow`, reads and writes:
the trees, their tables, `treeID` and `targetFunctionValue`. -/
structure Selection (α : Type) where
  trees : Int → Counted α
  connectionEvaluationTable : Int → ConnectionEvaluationTable α
  treeID : Int
  targetFunctionValue : α

/-- The loop `for (i = 0; i < _numberOfTrees; i++) if (i != t) value +=
_targetFunction[i]->eval();`; `targetFunction i` is the target function of the tree `i`. -/
def valueLoop (targetFunction : Int → Tree α → α) (trees : Int → Counted α) (t : Int) :
    List Int → α → α
  | [], value => value
  | i :: rest, value =>
    if i ≠ t then
      valueLoop targetFunction trees t rest (value + targetFunction i (trees i).tree)
    else valueLoop targetFunction trees t rest value

/-- The loop `for (t = 0; t < _numberOfTrees; t++)` that reduces the table of each tree and
chooses the tree for the commit. -/
def selectLoop {D C : Type} (K : Collaborators α D C) (targetFunction : Int → Tree α → α)
    (M : CMath α) (fuel : Nat) (numberOfTrees : Int) :
    List Int → Selection α → Option (Selection α)
  | [], S => some S
  | t :: rest, S =>
    /- Reduce bifurcations to reasonable connections. -/
    match (S.connectionEvaluationTable t).reduce K M fuel (S.trees t) with
    | none => none
    | some (T, s) =>
      let S := { S with
        connectionEvaluationTable := (Function.update S.connectionEvaluationTable t T)
        trees := (Function.update S.trees t s) }
      /- Structural optimization. -/
      if T.currentNumberOfReasonableConnections > 0 then
        let value := valueLoop targetFunction S.trees t (indices numberOfTrees) 0
        let optimalConnection := T.optimalReasonableConnection K.indeterminateID
        if optimalConnection.targetFunctionValue + value < S.targetFunctionValue then
          selectLoop K targetFunction M fuel numberOfTrees rest
            { S with treeID := t
                     targetFunctionValue := optimalConnection.targetFunctionValue + value }
        else selectLoop K targetFunction M fuel numberOfTrees rest S
      else selectLoop K targetFunction M fuel numberOfTrees rest S

/-- The statements `treeID = -1; targetFunctionValue = 1.0e10;` and the loop over the trees
that follows them. -/
def select {D C : Type} (K : Collaborators α D C) (targetFunction : Int → Tree α → α)
    (M : CMath α) (fuel : Nat) (numberOfTrees : Int) (trees : Int → Counted α)
    (connectionEvaluationTable : Int → ConnectionEvaluationTable α) : Option (Selection α) :=
  selectLoop K targetFunction M fuel numberOfTrees (indices numberOfTrees)
    { trees := trees, connectionEvaluationTable := connectionEvaluationTable, treeID := -1,
      targetFunctionValue := 10000000000 }

/-- The trees as the loop over the trees sees them when it computes `value` for the tree `t`:
the trees up to `t` have been through `reduce`, the trees after `t` have not. -/
def treesAt (before after : Int → Counted α) (t : Int) : Int → Counted α :=
  fun i => if i ≤ t then after i else before i

/-- The sum of `targetFunction[i].eval()` over the trees `i ≠ t`, in the trees that the loop
sees when it comes to the tree `t`. -/
def othersCost (targetFunction : Int → Tree α → α) (numberOfTrees : Int)
    (before after : Int → Counted α) (t : Int) : α :=
  (((indices numberOfTrees).filter (fun i => decide (i ≠ t))).map
    (fun i => targetFunction i (treesAt before after t i).tree)).sum

end ForestCcoInvasion

/-! ## More examples -/

/-- The tree `exampleTree` with the perfusion flow set to 0 (`setPerfusionFlow(0)`). -/
def exampleDryTree : Tree α := { (exampleTree : Tree α) with perfusionFlow := 0 }

/-- The state of `exampleDryTree` after `growRoot(exampleRootValue)`. -/
def exampleDryRoot (M : CMath α) : Tree α := (Tree.growRoot M exampleDryTree exampleRootValue).2

/-- A driver for `N` terminals as `exampleDriver N`, with a distance criterion that rejects
every point; the state of the criterion is the number of relaxations, and
`maximumNumberOfAttempts` is 1. -/
def exampleRejectingDriver (N : Int) : Collaborators α Nat Nat :=
  { hasAvailablePoint := fun n => decide (n < 5)
    point := fun n => (⟨2, ((n : α) + 1) / 100, 0, 0⟩, n + 1)
    reset := fun _ => 0
    domainDimension := fun _ => 2
    distanceCriterionEval := fun _ _ _ => false
    distanceCriterionRelax := fun c => c + 1
    distanceCriterionUpdate := fun c _ _ => c
    terminalFlowFunction := fun _ _ => 1
    targetFunction := fun _ => 0
    passRestrictions := fun _ _ _ => true
    withoutIntersection := fun _ _ => true
    numberOfTerminals := N
    numberOfConnections := 1
    maximumNumberOfAttempts := 1
    intervalDivision := 5
    indeterminateValue := 0
    indeterminateID := 0 }

/-- A driver for `N` terminals as `exampleDriver N`, with a `DomainFile` as the domain.  The
drivers call `point()` only after `hasAvailablePoint()` has returned true, where
`DomainFile::point` does not throw; where it throws the domain is left as it is. -/
def exampleFileDriver (N : Int) : Collaborators α (DomainFile α) Unit :=
  { hasAvailablePoint := DomainFile.hasAvailablePoint
    point := fun d => (d.point).getD (Point.ofDimension d.dimension, d)
    reset := DomainFile.reset
    domainDimension := fun d => d.dimension
    distanceCriterionEval := fun _ _ _ => true
    distanceCriterionRelax := fun c => c
    distanceCriterionUpdate := fun c _ _ => c
    terminalFlowFunction := fun _ _ => 1
    targetFunction := fun _ => 0
    passRestrictions := fun _ _ _ => true
    withoutIntersection := fun _ _ => true
    numberOfTerminals := N
    numberOfConnections := 1
    maximumNumberOfAttempts := 10
    intervalDivision := 5
    indeterminateValue := 0
    indeterminateID := 0 }

/-- A domain file in the plane whose only point is `(1/100, 0)`, no point handed out yet. -/
def exampleLastPointDomain : DomainFile α :=
  { dimension := 2
    _points := fun i => if i = 0 then 1 / 100 else 0
    _totalNumberOfPoints := 1
    _currentPoint := 0 }

/-- A forest of two trees, each of them the root of the example. -/
def exampleForest (M : CMath α) : Int → Counted α :=
  fun _ => { tree := exampleRoot M, growSegmentCalls := 0, removeCalls := 0 }

/-- The tables of the forest of the example: the table of the tree 0 holds the first
connection of `exampleReduceTable`, the table of the tree 1 holds none. -/
def exampleForestTables : Int → ConnectionEvaluationTable α :=
  fun i =>
    if i = 0 then
      { (exampleReduceTable : ConnectionEvaluationTable α) with currentNumberOfConnections := 1 }
    else { (exampleReduceTable : ConnectionEvaluationTable α) with currentNumberOfConnections := 0 }

/-! ## The level and the Strahler order of a segment, and the constructor with parameters -/

namespace Tree

/-- The `while (!isRoot(segmentID))` loop of `Tree::level`; the state is the pair of
`segmentID` and `_level`. -/
def levelLoop : Nat → Tree α → Int → Int → Option Int
  | 0, _, _, _ => none
  | fuel + 1, t, segmentID, _level =>
    if !t.isRoot segmentID then
      levelLoop fuel t (t.segments segmentID).up (_level + 1)
    else some _level

/-- `Tree::level`. -/
def level (fuel : Nat) (t : Tree α) (segmentID : Int) : Option Int :=
  levelLoop fuel t segmentID 0

/-- `Tree::strahlerOrder`; the fuel bounds the depth of the recursion. -/
def strahlerOrder : Nat → Tree α → Int → Option Int
  | 0, _, _ => none
  | fuel + 1, t, segmentID =>
    if t.isTerminal segmentID then some 1
    else
      match strahlerOrder fuel t (t.leftSegment segmentID).ID with
      | none => none
      | some leftSO =>
        match strahlerOrder fuel t (t.rightSegment segmentID).ID with
        | none => none
        | some rightSO =>
          if leftSO = rightSO then some (leftSO + 1)
          else some (if leftSO > rightSO then leftSO else rightSO)

/-- `Tree::Tree(Point seed, int numberOfTerminals, int dimension, double perfusionVolume,
double perfusionPressure, double terminalPressure, double perfusionFlow, BloodViscosity
*bloodViscosity, BifurcationExpoentLaw *bifurcationExpoent)`, with the constructor of
`TreeModel` that it calls. The arrays allocated with `new` hold default-constructed segments
(`segDim`) and uninitialised numbers (`resistance0`); the array `_length` is not allocated by
this constructor (`length0`). -/
def constructExplicit (seed : Point α) (numberOfTerminals dimension : Int)
    (perfusionVolume perfusionPressure terminalPressure perfusionFlow : α)
    (bloodViscosity bifurcationExpoent : Int → α) (segDim : Int → Int)
    (resistance0 length0 : Int → α) : Tree α :=
  { seed := seed
    segments := fun i => Segment.default (segDim i)
    numberOfTerminals := numberOfTerminals
    totalNumberOfSegments := 2 * numberOfTerminals - 1
    currentNumberOfSegments := 0
    dimension := dimension
    radiusUnit := 1
    lengthUnit := 1
    bloodViscosity := bloodViscosity
    bifurcationExpoent := bifurcationExpoent
    /- 0.0025 m^2 = 25 cm^2 -/
    perfusionVolume := if dimension = 2 then 25 / 10000 else perfusionVolume
    perfusionPressure := perfusionPressure
    terminalPressure := terminalPressure
    perfusionFlow := perfusionFlow
    reducedHydrodynamicResistance := resistance0
    _length := length0
    currentNumberOfTerminals := 0 }

end Tree

/-! ## The calls of `growSegment` that `grow` issues -/

namespace Tree

/-- The two slots that `Tree::growSegment` fills, `currentNumberOfSegments` and
`currentNumberOfSegments + 1`, lie in the range `[0, 2 * numberOfTerminals - 1)` of the arrays
that the constructor allocates. -/
def growSegmentSlotsFit (t : Tree α) : Prop :=
  0 ≤ t.currentNumberOfSegments ∧ t.currentNumberOfSegments + 1 < 2 * t.numberOfTerminals - 1

end Tree

namespace ConnectionEvaluationTable

/-- The trees on which the loop of `ConnectionEvaluationTable::reduce` calls `growSegment`, in
the order of the calls: the pass for the connection `i` calls it once, on the tree with which
the pass starts. -/
def reduceLoopCalls {D C : Type} (K : Collaborators α D C) (M : CMath α) (fuel : Nat) :
    List Int → ConnectionEvaluationTable α → Counted α → List (Tree α)
  | [], _, _ => []
  | i :: rest, T, s =>
    s.tree ::
      (match reduceLoop K M fuel [i] T s with
       | none => []
       | some (T, s) => reduceLoopCalls K M fuel rest T s)

end ConnectionEvaluationTable

namespace ConstrainedConstructiveOptimization

/-- The trees on which the loop of `grow` over the closest segments calls `growSegment`, in the
order of the calls: the pass for the closest segment `i` calls it once, on the tree with which
the pass starts. -/
def connectLoopCalls {D C : Type} (K : Collaborators α D C) (M : CMath α) (fuel : Nat) (d : D)
    (point : Point α) (closestSegments : Int → Int) :
    List Int → Counted α × Segment α × ConnectionEvaluationTable α → List (Tree α)
  | [], _ => []
  | i :: rest, r =>
    r.1.tree ::
      (match connectLoop K M fuel d point closestSegments [i] r with
       | none => []
       | some r => connectLoopCalls K M fuel d point closestSegments rest r)

/-- The trees on which one pass of the body of the loop of `grow` calls `growSegment`: the
trial connections, the connections that `reduce` repeats, and the connection that stays. -/
def growStepCalls {D C : Type} (K : Collaborators α D C) (M : CMath α) (fuel : Nat)
    (G : Grow α D C) : List (Tree α) :=
  match pointLoop K G.counted.tree fuel (G.point, G.domain, G.distanceCriterion, 0) with
  | none => []
  | some (point, d, _, _) =>
    let d := if !K.hasAvailablePoint d then K.reset d else d
    match G.vicinity.atPoint M fuel G.counted.tree point with
    | none => []
    | some vicinity =>
      connectLoopCalls K M fuel d point vicinity.closestSegments
          (indices vicinity.currentNumberOfConnections)
          (G.counted, G.newSegment, G.connectionEvaluationTable) ++
        (match connectLoop K M fuel d point vicinity.closestSegments
            (indices vicinity.currentNumberOfConnections)
            (G.counted, G.newSegment, G.connectionEvaluationTable) with
         | none => []
         | some (s, _, T) =>
           ConnectionEvaluationTable.reduceLoopCalls K M fuel
               (indices T.currentNumberOfConnections)
               { T with currentNumberOfReasonableConnections := 0 } s ++
             (match T.reduce K M fuel s with
              | none => []
              | some (T, s) =>
                if T.currentNumberOfReasonableConnections > 0 then [s.tree] else []))

/-- The trees on which the loop of `grow` calls `growSegment`. -/
def growLoopCalls {D C : Type} (K : Collaborators α D C) (M : CMath α) (fuel : Nat) :
    Nat → Grow α D C → List (Tree α)
  | 0, _ => []
  | n + 1, G =>
    if G.Kterm < K.numberOfTerminals then
      growStepCalls K M fuel G ++
        (match growStep K M fuel G with
         | none => []
         | some G => growLoopCalls K M fuel n G)
    else []

/-- The trees on which `ConstrainedConstructiveOptimization::grow` calls `growSegment`. -/
def growCalls {D C : Type} (K : Collaborators α D C) (M : CMath α) (fuel : Nat) (t : Tree α)
    (d : D) (c : C) (U : Uninitialised α) : List (Tree α) :=
  match growRoot K M fuel t d c with
  | none => []
  | some (t, d, c) => growLoopCalls K M fuel fuel (growStart K t d c U)

end ConstrainedConstructiveOptimization

/-! ## A tree of three segments -/

/-- The tree `t` is a reachable state with three segments: the root 0, with the distal point
`P0`, and its two children, the terminal 1 (the left child, with the distal point `P1` and the
flow `f1`) and the terminal 2 (the right child, with the distal point `P2` and the flow
`f2`). -/
structure IsFork (M : CMath α) (t : Tree α) (P0 P1 P2 : Point α) (f1 f2 : α) : Prop where
  reach : Tree.Reach M t
  cur : t.currentNumberOfSegments = 3
  left0 : (t.segments 0).left = 1
  right0 : (t.segments 0).right = 2
  up1 : (t.segments 1).up = 0
  up2 : (t.segments 2).up = 0
  left1 : (t.segments 1).left = -1
  right1 : (t.segments 1).right = -1
  left2 : (t.segments 2).left = -1
  right2 : (t.segments 2).right = -1
  point0 : (t.segments 0).point = P0
  point1 : (t.segments 1).point = P1
  point2 : (t.segments 2).point = P2
  flow1 : (t.segments 1).flow = f1
  flow2 : (t.segments 2).flow = f2

/-! ## Setters, stale states, the arithmetic of `double`, and the loops with their logs -/

/-- `TreeModel::setLengthUnit`. -/
def Tree.setLengthUnit (t : Tree α) (value : α) : Tree α := { t with lengthUnit := value }

/-- `TreeModel::setBifurcationExpoent`; the law is the function `eval` of the object. -/
def Tree.setBifurcationExpoent (t : Tree α) (bifurcationExpoentLaw : Int → α) : Tree α :=
  { t with bifurcationExpoent := bifurcationExpoentLaw }

/-- The tree `exampleTree` after `setLengthUnit(2.0)`. -/
def exampleScaledTree : Tree α := (exampleTree : Tree α).setLengthUnit 2

/-- A `BifurcationExpoentLaw` whose `eval` returns 1 for the argument 3 and 3 for every other
argument. -/
def exampleLaw (segmentLevel : Int) : α := if segmentLevel = 3 then 1 else 3

/-- The tree `exampleTree` after `setBifurcationExpoent` with the law `exampleLaw`. -/
def exampleLawTree : Tree α := (exampleTree : Tree α).setBifurcationExpoent exampleLaw

/-- The arithmetic in which the expressions of the program are evaluated: the operations `+`,
`-` and `*` of the number type. -/
structure Arith (β : Type) where
  add : β → β → β
  sub : β → β → β
  mul : β → β → β

/-- The exact arithmetic of the field `α`. -/
def exactArith : Arith α := ⟨fun x y => x + y, fun x y => x - y, fun x y => x * y⟩

/-- The expression `_poiseuilleLawConstant * bloodViscosity(_rootID) * rootLength` of
`Tree::growRoot`. -/
def Tree.rootResistance {β : Type} (A : Arith β) (K μ rootLength : β) : β :=
  A.mul (A.mul K μ) rootLength

/-- The expression that `Tree::growSegment` stores as the reduced resistance of the connection
segment: `_reducedHydrodynamicResistance[parent.ID()] + _poiseuilleLawConstant *
(bloodViscosity(currentNumberOfSegments()) * _length[currentNumberOfSegments()] -
bloodViscosity(parent.ID()) * length(parent.ID()))`, where `length(i)` is
`lengthUnit() * _length[i]`. -/
def Tree.connectionResistance {β : Type} (A : Arith β)
    (K resistanceParent μConnection lengthConnection μParent lengthUnit lengthParent : β) : β :=
  A.add resistanceParent
    (A.mul K (A.sub (A.mul μConnection lengthConnection)
      (A.mul μParent (A.mul lengthUnit lengthParent))))

/-- The expression that `Tree::update` stores as the reduced resistance of a terminal:
`_poiseuilleLawConstant * bloodViscosity(segmentID) * length(segmentID)`, where `length(i)` is
`lengthUnit() * _length[i]`. -/
def Tree.terminalResistance {β : Type} (A : Arith β) (K μ lengthUnit length : β) : β :=
  A.mul (A.mul K μ) (A.mul lengthUnit length)

/-- A `double` that is a normal number or zero: the number `mantissa * 2 ^ exponent`, with
`2 ^ 52 ≤ |mantissa| < 2 ^ 53` unless it is zero (the range of the exponent is not
modelled). -/
structure Double where
  mantissa : Int
  exponent : Int
deriving DecidableEq

namespace Double

/-- The number of binary digits of `n` (for `fuel > n`). -/
def bitLength : Nat → Nat → Nat
  | 0, _ => 0
  | fuel + 1, n => if n = 0 then 0 else bitLength fuel (n / 2) + 1

/-- The sign of an integer as a factor. -/
def sign (m : Int) : Int := if m < 0 then -1 else 1

/-- The `double` nearest to `m * 2 ^ e`, ties to the even mantissa: the rounding of IEEE 754
binary64 arithmetic in its default mode. -/
def round (m e : Int) : Double :=
  if m = 0 then ⟨0, 0⟩
  else
    let a := m.natAbs
    let n := bitLength (a + 1) a
    if n ≤ 53 then ⟨m * 2 ^ (53 - n), e - ((53 - n : Nat) : Int)⟩
    else
      let s := n - 53
      let q := a / 2 ^ s
      let r := a % 2 ^ s
      let half := 2 ^ (s - 1)
      let q := if half < r ∨ (r = half ∧ q % 2 = 1) then q + 1 else q
      if q = 2 ^ 53 then ⟨sign m * 2 ^ 52, e + (s : Int) + 1⟩
      else ⟨sign m * (q : Int), e + (s : Int)⟩

/-- The product `a * b` of two `double`s. -/
def mul (a b : Double) : Double := round (a.mantissa * b.mantissa) (a.exponent + b.exponent)

/-- The sum `a + b` of two `double`s. -/
def add (a b : Double) : Double :=
  let e := min a.exponent b.exponent
  round (a.mantissa * 2 ^ (a.exponent - e).toNat + b.mantissa * 2 ^ (b.exponent - e).toNat) e

/-- The difference `a - b` of two `double`s. -/
def sub (a b : Double) : Double :=
  let e := min a.exponent b.exponent
  round (a.mantissa * 2 ^ (a.exponent - e).toNat - b.mantissa * 2 ^ (b.exponent - e).toNat) e

/-- The quotient `a / b` of two `double`s, for `b` other than zero: the quotient of the
mantissas is computed with 64 more binary digits and one digit that records a remainder. -/
def div (a b : Double) : Double :=
  let x := (a.mantissa.natAbs * 2 ^ 64) / b.mantissa.natAbs
  let r := (a.mantissa.natAbs * 2 ^ 64) % b.mantissa.natAbs
  let x : Nat := if r = 0 then 2 * x else 2 * x + 1
  round (sign a.mantissa * sign b.mantissa * (x : Int)) (a.exponent - b.exponent - 65)

/-- The `double` of an integer literal such as `8.0`. -/
def ofInt (n : Int) : Double := round n 0

/-- The constant `M_PI` of `<cmath>`, `3.14159265358979323846`, as a `double`:
`0x1.921fb54442d18p+1`. -/
def M_PI : Double := ⟨0x1921fb54442d18, -51⟩

/-- The rational number that a `double` stands for. -/
def toRat (a : Double) : ℚ := (a.mantissa : ℚ) * (2 : ℚ) ^ a.exponent

end Double

/-- The arithmetic of `double`. -/
def doubleArith : Arith Double := ⟨Double.add, Double.sub, Double.mul⟩

/-- The state of `exampleLawTree` after `growRoot` with a root that ends at `(1, 1)` and
carries the flow 1. -/
def exampleLawRoot (M : CMath α) : Tree α :=
  (Tree.growRoot M exampleLawTree (Segment.make 2 ⟨2, 1, 1, 0⟩ 1)).2

/-- The state of `exampleScaledTree` after `growRoot` with a root that ends at `(1, 1)` and
carries the flow 1. -/
def exampleScaledRoot (M : CMath α) : Tree α :=
  (Tree.growRoot M exampleScaledTree (Segment.make 2 ⟨2, 1, 1, 0⟩ 1)).2

/-- A table with one stored connection: the bifurcation point `(3/4, 0)` on the segment 3 and
a new terminal at `(3/4, 1)`. -/
def exampleStaleTable : ConnectionEvaluationTable α :=
  { connections := fun _ =>
      { bifurcationSegmentID := 3, bifurcationPoint := ⟨2, 3 / 4, 0, 0⟩,
        newSegment := ({ Segment.make 2 ⟨2, 3 / 4, 1, 0⟩ 1 with up := 3 }),
        targetFunctionValue := 0 }
    reasonableConnections := fun _ => 0
    numberOfConnections := 1
    currentNumberOfConnections := 1
    currentNumberOfReasonableConnections := 0 }

/-- The collaborators of a driver whose distance criterion is a `ClassicDistanceCriterion`:
`eval`, `update` and `relax` are the functions of the class.  The drivers call `relax()`
without an argument, for which the interface `DistanceCriterion` declares the default
`factor = 0.9`. -/
def Collaborators.classic {D C : Type} (M : CMath α) (K : Collaborators α D C) :
    Collaborators α D (ClassicDistanceCriterion α) :=
  { hasAvailablePoint := K.hasAvailablePoint
    point := K.point
    reset := K.reset
    domainDimension := K.domainDimension
    distanceCriterionEval := fun c t point => ClassicDistanceCriterion.eval M t c point
    distanceCriterionRelax := fun c => (ClassicDistanceCriterion.relax c (9 / 10)).2
    distanceCriterionUpdate := fun c t currentNumberOfTerminals =>
      (ClassicDistanceCriterion.update M t c currentNumberOfTerminals).2
    terminalFlowFunction := K.terminalFlowFunction
    targetFunction := K.targetFunction
    passRestrictions := K.passRestrictions
    withoutIntersection := K.withoutIntersection
    numberOfTerminals := K.numberOfTerminals
    numberOfConnections := K.numberOfConnections
    maximumNumberOfAttempts := K.maximumNumberOfAttempts
    intervalDivision := K.intervalDivision
    indeterminateValue := K.indeterminateValue
    indeterminateID := K.indeterminateID }

/-- The state and the log of the sampling loop of `ConstrainedConstructiveOptimization::grow`
after at most `n` runs of its body: the runs of `pointLoopLog`, stopped after `n` of them when
the loop has not ended before. -/
def ConstrainedConstructiveOptimization.pointLoopSteps {D C : Type} (K : Collaborators α D C)
    (t : Tree α) :
    Nat → (Point α × D × C × Int) × List (Bool × Int) →
      (Point α × D × C × Int) × List (Bool × Int)
  | 0, s => s
  | n + 1, ((point, d, c, attempt), log) =>
    if K.hasAvailablePoint d then
      let r := K.point d
      /- Check distance criterion -/
      if K.distanceCriterionEval c t r.1 then ((r.1, r.2, c, attempt), log)
      else
        let attempt := attempt + 1
        /- Relax distance criterion. -/
        if attempt > K.maximumNumberOfAttempts then
          ConstrainedConstructiveOptimization.pointLoopSteps K t n
            ((r.1, r.2, K.distanceCriterionRelax c, 0), log ++ [(true, 0)])
        else
          ConstrainedConstructiveOptimization.pointLoopSteps K t n
            ((r.1, r.2, c, attempt), log ++ [(false, attempt)])
    else ((point, d, c, attempt), log)

/-- Two trees with the same live structure: the same parameters and counters and, at every
live segment, the same identity, point, links, flow and stored length. -/
structure LiveStructure (t' t : Tree α) : Prop where
  lengthUnit : t'.lengthUnit = t.lengthUnit
  bloodViscosity : t'.bloodViscosity = t.bloodViscosity
  bifurcationExpoent : t'.bifurcationExpoent = t.bifurcationExpoent
  dimension : t'.dimension = t.dimension
  seed : t'.seed = t.seed
  currentNumberOfSegments : t'.currentNumberOfSegments = t.currentNumberOfSegments
  currentNumberOfTerminals : t'.currentNumberOfTerminals = t.currentNumberOfTerminals
  ID : ∀ i, t.live i → (t'.segments i).ID = (t.segments i).ID
  point : ∀ i, t.live i → (t'.segments i).point = (t.segments i).point
  up : ∀ i, t.live i → (t'.segments i).up = (t.segments i).up
  left : ∀ i, t.live i → (t'.segments i).left = (t.segments i).left
  right : ∀ i, t.live i → (t'.segments i).right = (t.segments i).right
  flow : ∀ i, t.live i → (t'.segments i).flow = (t.segments i).flow
  length : ∀ i, t.live i → t'._length i = t._length i

end CCOLab

/-! # Theorems -/

set_option linter.unusedSectionVars false
set_option linter.unusedVariables false

namespace CCOLab

variable {α : Type} [LinearOrderedField α]

open Tree

/-! ## Reading the arrays after a write -/

@[simp] theorem setSeg_segments (t : Tree α) (i j : Int) (f : Segment α → Segment α) :
    (t.setSeg i f).segments j = if j = i then f (t.segments i) else t.segments j := by
  simp [setSeg, Function.update_apply]

@[simp] theorem setSeg_currentNumberOfSegments (t : Tree α) (i : Int) (f) :
    (t.setSeg i f).currentNumberOfSegments = t.currentNumberOfSegments := rfl
@[simp] theorem setSeg_currentNumberOfTerminals (t : Tree α) (i : Int) (f) :
    (t.setSeg i f).currentNumberOfTerminals = t.currentNumberOfTerminals := rfl
@[simp] theorem setSeg_dimension (t : Tree α) (i : Int) (f) :
    (t.setSeg i f).dimension = t.dimension := rfl
@[simp] theorem setSeg_seed (t : Tree α) (i : Int) (f) :
    (t.setSeg i f).seed = t.seed := rfl
@[simp] theorem setSeg_lengthUnit (t : Tree α) (i : Int) (f) :
    (t.setSeg i f).lengthUnit = t.lengthUnit := rfl
@[simp] theorem setSeg_bloodViscosity (t : Tree α) (i : Int) (f) :
    (t.setSeg i f).bloodViscosity = t.bloodViscosity := rfl
@[simp] theorem setSeg_bifurcationExpoent (t : Tree α) (i : Int) (f) :
    (t.setSeg i f).bifurcationExpoent = t.bifurcationExpoent := rfl
@[simp] theorem setSeg_resistance (t : Tree α) (i : Int) (f) :
    (t.setSeg i f).reducedHydrodynamicResistance = t.reducedHydrodynamicResistance := rfl
@[simp] theorem setSeg_length (t : Tree α) (i : Int) (f) :
    (t.setSeg i f)._length = t._length := rfl

@[simp] theorem setR_resistance (t : Tree α) (i j : Int) (v : α) :
    (t.setR i v).reducedHydrodynamicResistance j =
      if j = i then v else t.reducedHydrodynamicResistance j := by
  simp [setR, Function.update_apply]

@[simp] theorem setR_segments (t : Tree α) (i : Int) (v : α) :
    (t.setR i v).segments = t.segments := rfl
@[simp] theorem setR_currentNumberOfSegments (t : Tree α) (i : Int) (v : α) :
    (t.setR i v).currentNumberOfSegments = t.currentNumberOfSegments := rfl
@[simp] theorem setR_currentNumberOfTerminals (t : Tree α) (i : Int) (v : α) :
    (t.setR i v).currentNumberOfTerminals = t.currentNumberOfTerminals := rfl
@[simp] theorem setR_dimension (t : Tree α) (i : Int) (v : α) :
    (t.setR i v).dimension = t.dimension := rfl
@[simp] theorem setR_seed (t : Tree α) (i : Int) (v : α) :
    (t.setR i v).seed = t.seed := rfl
@[simp] theorem setR_lengthUnit (t : Tree α) (i : Int) (v : α) :
    (t.setR i v).lengthUnit = t.lengthUnit := rfl
@[simp] theorem setR_bloodViscosity (t : Tree α) (i : Int) (v : α) :
    (t.setR i v).bloodViscosity = t.bloodViscosity := rfl
@[simp] theorem setR_bifurcationExpoent (t : Tree α) (i : Int) (v : α) :
    (t.setR i v).bifurcationExpoent = t.bifurcationExpoent := rfl
@[simp] theorem setR_length (t : Tree α) (i : Int) (v : α) :
    (t.setR i v)._length = t._length := rfl

@[simp] theorem setLength_length (t : Tree α) (i j : Int) (v : α) :
    (t.setLength i v)._length j = if j = i then v else t._length j := by
  simp [setLength, Function.update_apply]

@[simp] theorem setLength_segments (t : Tree α) (i : Int) (v : α) :
    (t.setLength i v).segments = t.segments := rfl
@[simp] theorem setLength_currentNumberOfSegments (t : Tree α) (i : Int) (v : α) :
    (t.setLength i v).currentNumberOfSegments = t.currentNumberOfSegments := rfl
@[simp] theorem setLength_currentNumberOfTerminals (t : Tree α) (i : Int) (v : α) :
    (t.setLength i v).currentNumberOfTerminals = t.currentNumberOfTerminals := rfl
@[simp] theorem setLength_dimension (t : Tree α) (i : Int) (v : α) :
    (t.setLength i v).dimension = t.dimension := rfl
@[simp] theorem setLength_seed (t : Tree α) (i : Int) (v : α) :
    (t.setLength i v).seed = t.seed := rfl
@[simp] theorem setLength_lengthUnit (t : Tree α) (i : Int) (v : α) :
    (t.setLength i v).lengthUnit = t.lengthUnit := rfl
@[simp] theorem setLength_bloodViscosity (t : Tree α) (i : Int) (v : α) :
    (t.setLength i v).bloodViscosity = t.bloodViscosity := rfl
@[simp] theorem setLength_bifurcationExpoent (t : Tree α) (i : Int) (v : α) :
    (t.setLength i v).bifurcationExpoent = t.bifurcationExpoent := rfl
@[simp] theorem setLength_resistance (t : Tree α) (i : Int) (v : α) :
    (t.setLength i v).reducedHydrodynamicResistance = t.reducedHydrodynamicResistance := rfl


theorem Frame.refl (t : Tree α) : Frame t t :=
  ⟨rfl, rfl, rfl, rfl, rfl, rfl, rfl, rfl, rfl, rfl, rfl, rfl, rfl, rfl, rfl,
    fun _ => ⟨rfl, rfl, rfl, rfl, rfl, rfl⟩⟩

theorem Frame.trans {t t' t'' : Tree α} (h : Frame t t') (h' : Frame t' t'') : Frame t t'' := by
  refine ⟨h'.1.trans h.1, h'.2.trans h.2, h'.3.trans h.3, h'.4.trans h.4, h'.5.trans h.5,
    h'.6.trans h.6, h'.7.trans h.7, h'.8.trans h.8, h'.9.trans h.9, h'.10.trans h.10,
    h'.11.trans h.11, h'.12.trans h.12, h'.13.trans h.13, h'.14.trans h.14, h'.15.trans h.15,
    fun i => ?_⟩
  obtain ⟨a1, a2, a3, a4, a5, a6⟩ := h.segments i
  obtain ⟨b1, b2, b3, b4, b5, b6⟩ := h'.segments i
  exact ⟨b1.trans a1, b2.trans a2, b3.trans a3, b4.trans a4, b5.trans a5, b6.trans a6⟩

theorem Frame.isTerminal {t t' : Tree α} (h : Frame t t') (i : Int) :
    t'.isTerminal i = t.isTerminal i := by
  obtain ⟨-, -, -, -, a5, a6⟩ := h.segments i
  simp [Tree.isTerminal, a5, a6]

theorem updateStep_frame (M : CMath α) (t : Tree α) (i : Int) : Frame t (updateStep M t i) := by
  unfold updateStep
  split
  · refine ⟨rfl, rfl, rfl, rfl, rfl, rfl, rfl, rfl, rfl, rfl, rfl, rfl, rfl, rfl, rfl, fun j => ?_⟩
    simp only [setSeg, setR, Function.update_apply, Segment.SameLinks]
    split_ifs <;> simp_all
  · refine ⟨rfl, rfl, rfl, rfl, rfl, rfl, rfl, rfl, rfl, rfl, rfl, rfl, rfl, rfl, rfl, fun j => ?_⟩
    simp only [setSeg, setR, Function.update_apply, Segment.SameLinks]
    split_ifs <;> simp_all

theorem updateLoop_frame (M : CMath α) :
    ∀ (fuel : Nat) (t t' : Tree α) (i : Int), updateLoop M fuel t i = some t' → Frame t t' := by
  intro fuel
  induction fuel with
  | zero => intro t t' i h; simp [updateLoop] at h
  | succ n ih =>
    intro t t' i h
    simp only [updateLoop] at h
    split_ifs at h with hn
    · exact (updateStep_frame M t i).trans (ih _ _ _ h)
    · cases h; exact updateStep_frame M t i

/-! ## The structural part of `growSegment` -/

/-- The segments array after the structural part of `growSegment` on the live parent `p`. -/
theorem growSegmentLinks_segments (M : CMath α) (b : Point α) (c : Segment α) (t : Tree α)
    (p : Int) (hid : (t.segments p).ID = p)
    (hp : p < t.currentNumberOfSegments)
    (hl : (t.segments p).left < t.currentNumberOfSegments)
    (hr : (t.segments p).right < t.currentNumberOfSegments)
    (hlp : (t.segments p).left ≠ p) (hrp : (t.segments p).right ≠ p) (i : Int) :
    (growSegmentLinks M b (t.segments p) c t).segments i =
      if i = p then
        { t.segments p with point := b, left := t.currentNumberOfSegments,
                            right := t.currentNumberOfSegments + 1 }
      else if i = t.currentNumberOfSegments + 1 then
        { t.segments i with dimension := t.dimension, ID := t.currentNumberOfSegments + 1,
                            point := c.point, flow := c.flow, up := p }
      else if i = t.currentNumberOfSegments then
        { t.segments p with dimension := t.dimension, ID := t.currentNumberOfSegments, up := p }
      else if (i = (t.segments p).left ∨ i = (t.segments p).right) ∧ i ≠ -1 then
        { t.segments i with up := t.currentNumberOfSegments }
      else t.segments i := by
  have e1 : t.currentNumberOfSegments + 1 + 1 - 2 = t.currentNumberOfSegments := by ring
  have e2 : t.currentNumberOfSegments + 1 + 1 - 1 = t.currentNumberOfSegments + 1 := by ring
  have n1 : p ≠ t.currentNumberOfSegments := by omega
  have n2 : p ≠ t.currentNumberOfSegments + 1 := by omega
  have n3 : t.currentNumberOfSegments ≠ p := by omega
  have n4 : t.currentNumberOfSegments + 1 ≠ p := by omega
  have n5 : (t.segments p).left ≠ t.currentNumberOfSegments := by omega
  have n6 : (t.segments p).left ≠ t.currentNumberOfSegments + 1 := by omega
  have n7 : (t.segments p).right ≠ t.currentNumberOfSegments := by omega
  have n8 : (t.segments p).right ≠ t.currentNumberOfSegments + 1 := by omega
  have n9 : t.currentNumberOfSegments ≠ (t.segments p).left := by omega
  have n10 : t.currentNumberOfSegments + 1 ≠ (t.segments p).left := by omega
  have n11 : t.currentNumberOfSegments ≠ (t.segments p).right := by omega
  have n12 : t.currentNumberOfSegments + 1 ≠ (t.segments p).right := by omega
  have n13 : t.currentNumberOfSegments + 1 ≠ t.currentNumberOfSegments := by omega
  have n14 : t.currentNumberOfSegments ≠ t.currentNumberOfSegments + 1 := by omega
  have n15 : p ≠ (t.segments p).left := fun h => hlp h.symm
  have n16 : p ≠ (t.segments p).right := fun h => hrp h.symm
  simp only [growSegmentLinks, growBifurcation, growNewSegment, growConnection, hid, TERMINALEND,
    setSeg_segments, setLength_segments, setR_segments, setSeg_currentNumberOfSegments,
    setLength_currentNumberOfSegments, setR_currentNumberOfSegments, setSeg_dimension,
    setLength_dimension, setR_dimension, apply_ite Tree.segments, ite_not, e1, e2]
  by_cases h1 : i = p
  · subst h1
    simp [*]
    split_ifs <;> simp [*]
  by_cases h2 : i = t.currentNumberOfSegments + 1
  · subst h2
    simp [*]
    split_ifs <;> simp [*]
  by_cases h3 : i = t.currentNumberOfSegments
  · subst h3
    simp [*]
    split_ifs <;> simp [*]
  by_cases h4 : i = (t.segments p).left
  · subst h4
    simp [*]
    split_ifs <;> simp_all
    intros; omega
  by_cases h5 : i = (t.segments p).right
  · subst h5
    simp [*]
    split_ifs <;> simp_all
  simp [*]
  split_ifs <;> simp [*]

theorem WFL.parent_facts {t : Tree α} (h : WFL t) {p : Int} (hp : t.live p) :
    (t.segments p).ID = p ∧ (t.segments p).left < t.currentNumberOfSegments ∧
    (t.segments p).right < t.currentNumberOfSegments ∧
    (t.segments p).left ≠ p ∧ (t.segments p).right ≠ p := by
  obtain ⟨d, B, hd⟩ := h.rank
  have hk := h.kids p hp
  have hc := h.cur_pos
  simp only [Tree.live] at hp
  refine ⟨h.ids p hp, by omega, by omega, ?_, ?_⟩
  · intro e
    rcases hk with hk | hk
    · omega
    · have h1 := (hd p hp).2 (by omega)
      have h2 : (t.segments (t.segments p).left).up = p := hk.2.2.2.2.2.1
      rw [e] at h2
      rw [h2] at h1; omega
  · intro e
    rcases hk with hk | hk
    · omega
    · have h1 := (hd p hp).2 (by omega)
      have h2 : (t.segments (t.segments p).right).up = p := hk.2.2.2.2.2.2
      rw [e] at h2
      rw [h2] at h1; omega

theorem growSegmentLinks_cur (M : CMath α) (b : Point α) (parent c : Segment α) (t : Tree α) :
    (growSegmentLinks M b parent c t).currentNumberOfSegments = t.currentNumberOfSegments + 2 := by
  simp only [growSegmentLinks, growBifurcation, growNewSegment, growConnection,
    setSeg_currentNumberOfSegments, setLength_currentNumberOfSegments,
    setR_currentNumberOfSegments, apply_ite Tree.currentNumberOfSegments]
  ring

theorem growSegmentLinks_up (M : CMath α) (b : Point α) (c : Segment α) {t : Tree α}
    (h : WFL t) {p : Int} (hp : t.live p) (i : Int) :
    ((growSegmentLinks M b (t.segments p) c t).segments i).up =
      if i = p then (t.segments p).up
      else if i = t.currentNumberOfSegments + 1 then p
      else if i = t.currentNumberOfSegments then p
      else if (i = (t.segments p).left ∨ i = (t.segments p).right) ∧ i ≠ -1 then
        t.currentNumberOfSegments
      else (t.segments i).up := by
  obtain ⟨a1, a2, a3, a4, a5⟩ := h.parent_facts hp
  rw [growSegmentLinks_segments M b c t p a1 hp.2 a2 a3 a4 a5]
  split_ifs <;> rfl

theorem growSegmentLinks_left (M : CMath α) (b : Point α) (c : Segment α) {t : Tree α}
    (h : WFL t) {p : Int} (hp : t.live p) (i : Int) :
    ((growSegmentLinks M b (t.segments p) c t).segments i).left =
      if i = p then t.currentNumberOfSegments
      else if i = t.currentNumberOfSegments then (t.segments p).left
      else (t.segments i).left := by
  obtain ⟨a1, a2, a3, a4, a5⟩ := h.parent_facts hp
  rw [growSegmentLinks_segments M b c t p a1 hp.2 a2 a3 a4 a5]
  split_ifs <;> first | rfl | omega

theorem growSegmentLinks_right (M : CMath α) (b : Point α) (c : Segment α) {t : Tree α}
    (h : WFL t) {p : Int} (hp : t.live p) (i : Int) :
    ((growSegmentLinks M b (t.segments p) c t).segments i).right =
      if i = p then t.currentNumberOfSegments + 1
      else if i = t.currentNumberOfSegments then (t.segments p).right
      else (t.segments i).right := by
  obtain ⟨a1, a2, a3, a4, a5⟩ := h.parent_facts hp
  rw [growSegmentLinks_segments M b c t p a1 hp.2 a2 a3 a4 a5]
  split_ifs <;> first | rfl | omega

theorem growSegmentLinks_ID (M : CMath α) (b : Point α) (c : Segment α) {t : Tree α}
    (h : WFL t) {p : Int} (hp : t.live p) (i : Int) :
    ((growSegmentLinks M b (t.segments p) c t).segments i).ID =
      if i = t.currentNumberOfSegments + 1 ∨ i = t.currentNumberOfSegments then i
      else (t.segments i).ID := by
  obtain ⟨a1, a2, a3, a4, a5⟩ := h.parent_facts hp
  rw [growSegmentLinks_segments M b c t p a1 hp.2 a2 a3 a4 a5]
  simp only [Tree.live] at hp
  split_ifs <;> first | rfl | omega | simp_all


theorem growSegmentLinks_WFL (M : CMath α) (b : Point α) (c : Segment α) {t : Tree α}
    (h : WFL t) (hf : FreshDead t) {p : Int} (hp : t.live p) :
    WFL (growSegmentLinks M b (t.segments p) c t) := by
  obtain ⟨d, B, hd⟩ := h.rank
  have hc := h.cur_pos
  have hodd := h.odd
  have hpk := h.kids p hp
  have hpl := hp
  simp only [Tree.live] at hpl
  have hdp := hd p hp
  have hfn1 := hf (t.currentNumberOfSegments + 1) (by omega)
  obtain ⟨a1, a2, a3, a4, a5⟩ := h.parent_facts hp
  have hup := growSegmentLinks_up M b c h hp
  have hleft := growSegmentLinks_left M b c h hp
  have hright := growSegmentLinks_right M b c h hp
  refine ⟨?_, ?_, ?_, ?_, ?_, ?_, ?_, ?_⟩
  · rw [growSegmentLinks_cur]; omega
  · rw [growSegmentLinks_cur]; omega
  · intro i hi
    simp only [Tree.live, growSegmentLinks_cur] at hi
    rw [growSegmentLinks_ID M b c h hp]
    split_ifs with c1
    · rfl
    · exact h.ids i ⟨hi.1, by omega⟩
  · rw [hup]
    have := h.root_up
    split_ifs with c1 c2 c3 c4
    · rw [← c1]; exact this
    · omega
    · omega
    · omega
    · exact this
  · intro i hi hi0
    simp only [Tree.live, growSegmentLinks_cur] at hi ⊢
    rw [hup]
    split_ifs with c1 c2 c3 c4
    · have := h.up_live p hp (by omega); simp only [Tree.live] at this; omega
    · omega
    · omega
    · omega
    · have := h.up_live i ⟨hi.1, by omega⟩ hi0; simp only [Tree.live] at this; omega
  · intro i hi hi0
    simp only [Tree.live, growSegmentLinks_cur] at hi
    rw [hup i]
    split_ifs with c1 c2 c3 c4
    · -- i = p
      have hq := h.up_live p hp (by omega)
      have hqc := h.up_child p hp (by omega)
      have hqd := hdp.2 (by omega)
      simp only [Tree.live] at hq
      have e1 : (t.segments p).up ≠ p := by intro e; rw [e] at hqd; omega
      rw [hleft, hright]
      split_ifs <;> omega
    · rw [hleft, hright]; split_ifs <;> omega
    · rw [hleft, hright]; split_ifs <;> omega
    · rw [hleft, hright]; split_ifs <;> omega
    · have hq := h.up_live i ⟨hi.1, by omega⟩ hi0
      have hqc := h.up_child i ⟨hi.1, by omega⟩ hi0
      simp only [Tree.live] at hq
      rw [hleft, hright]
      split_ifs with e1 <;> try omega
      rw [e1] at hqc; omega
  · intro i hi
    simp only [Tree.live, growSegmentLinks_cur] at hi
    rw [hleft i, hright i, growSegmentLinks_cur]
    split_ifs with c1 c2
    · -- i = p
      right
      rw [hup, hup]
      split_ifs <;> omega
    · -- i = n
      rcases hpk with hk | hk
      · left; exact hk
      · right
        rw [hup, hup]
        split_ifs <;> omega
    · by_cases c3 : i = t.currentNumberOfSegments + 1
      · left; rw [c3]; exact hfn1
      have hil : t.live i := ⟨hi.1, by omega⟩
      rcases h.kids i hil with hk | hk
      · left; exact hk
      · right
        obtain ⟨k1, k2, k3, k4, k5, k6, k7⟩ := hk
        have hdl := (hd _ ⟨le_of_lt k1, k2⟩).2 (by omega)
        have hdr := (hd _ ⟨le_of_lt k3, k4⟩).2 (by omega)
        rw [k6] at hdl
        rw [k7] at hdr
        rw [hup, hup]
        refine ⟨k1, by omega, k3, by omega, k5, ?_, ?_⟩
        · split_ifs with e1 e2 e3 e4
          · rw [← e1, k6]
          · omega
          · omega
          · exfalso
            rcases e4.1 with e | e
            · rw [e] at k6; rcases hpk with hk | hk
              · omega
              · omega
            · rw [e] at k6; rcases hpk with hk | hk
              · omega
              · omega
          · exact k6
        · split_ifs with e1 e2 e3 e4
          · rw [← e1, k7]
          · omega
          · omega
          · exfalso
            rcases e4.1 with e | e
            · rw [e] at k7; rcases hpk with hk | hk
              · omega
              · omega
            · rw [e] at k7; rcases hpk with hk | hk
              · omega
              · omega
          · exact k7
  · refine ⟨fun i => if i = t.currentNumberOfSegments ∨ i = t.currentNumberOfSegments + 1
      then 2 * d p + 1 else 2 * d i, 2 * B + 1, ?_⟩
    intro i hi
    simp only [Tree.live, growSegmentLinks_cur] at hi
    constructor
    · dsimp only
      split_ifs with c1
      · omega
      · have := (hd i ⟨hi.1, by omega⟩).1; omega
    · intro hi0
      dsimp only
      rw [hup i]
      have hq : p ≠ 0 → t.live (t.segments p).up := h.up_live p hp
      simp only [Tree.live] at hq
      by_cases c1 : i = p
      · subst c1
        have := hdp.2 (by omega)
        have := hq (by omega)
        rw [if_pos rfl, if_neg (by omega), if_neg (by omega)]
        omega
      rw [if_neg c1]
      by_cases c2 : i = t.currentNumberOfSegments + 1
      · rw [if_pos c2, if_neg (by omega), if_pos (by omega)]; omega
      rw [if_neg c2]
      by_cases c3 : i = t.currentNumberOfSegments
      · rw [if_pos c3, if_neg (by omega), if_pos (by omega)]; omega
      rw [if_neg c3]
      have hil : t.live i := ⟨hi.1, by omega⟩
      have hdi := (hd i hil).2 hi0
      have hqi := h.up_live i hil hi0
      simp only [Tree.live] at hqi
      by_cases c4 : (i = (t.segments p).left ∨ i = (t.segments p).right) ∧ i ≠ -1
      · rw [if_pos c4, if_pos (by omega), if_neg (by omega)]
        rcases hpk with hk | hk
        · omega
        · obtain ⟨k1, k2, k3, k4, k5, k6, k7⟩ := hk
          rcases c4.1 with e | e
          · rw [e, k6] at hdi; rw [e]; omega
          · rw [e, k7] at hdi; rw [e]; omega
      · rw [if_neg c4, if_neg (by omega), if_neg (by omega)]
        omega

theorem growSegmentLinks_FreshDead (M : CMath α) (b : Point α) (c : Segment α) {t : Tree α}
    (h : WFL t) (hf : FreshDead t) {p : Int} (hp : t.live p) :
    FreshDead (growSegmentLinks M b (t.segments p) c t) := by
  intro i hi
  rw [growSegmentLinks_cur] at hi
  have := hf i (by omega)
  simp only [Tree.live] at hp
  rw [growSegmentLinks_left M b c h ⟨hp.1, hp.2⟩, growSegmentLinks_right M b c h ⟨hp.1, hp.2⟩]
  split_ifs <;> omega

/-! ## `growRoot` -/

theorem growRoot_segments (M : CMath α) (t : Tree α) (dim : Int) (point : Point α) (flow : α)
    (i : Int) :
    ((growRoot M t (Segment.make dim point flow)).2.segments i) =
      if i = 0 then
        { t.segments 0 with ID := 0, dimension := t.dimension, point := point, flow := flow,
                            bifurcationRatioLeft := 1, bifurcationRatioRight := 1,
                            left := -1, right := -1 }
      else t.segments i := by
  simp [growRoot, copy, Segment.make, Segment.default, rootID, TERMINALEND]
  split_ifs <;> rfl

theorem growRoot_cur (M : CMath α) (t : Tree α) (r : Segment α) :
    (growRoot M t r).2.currentNumberOfSegments = 1 := rfl

theorem growRoot_terms (M : CMath α) (t : Tree α) (r : Segment α) :
    (growRoot M t r).2.currentNumberOfTerminals = 1 := rfl

theorem growRoot_WFL (M : CMath α) {t : Tree α} (hf : t.Fresh) (dim : Int) (point : Point α)
    (flow : α) :
    WFL (growRoot M t (Segment.make dim point flow)).2 ∧
      FreshDead (growRoot M t (Segment.make dim point flow)).2 := by
  obtain ⟨-, -, hd⟩ := hf
  have h0 : ∀ i, (t.segments i).up = -1 ∧ (t.segments i).left = -1 ∧ (t.segments i).right = -1 := by
    intro i; obtain ⟨d, e⟩ := hd i; rw [e]; exact ⟨rfl, rfl, rfl⟩
  constructor
  · refine ⟨by rw [growRoot_cur]; rfl, by rw [growRoot_cur], ?_, ?_, ?_, ?_, ?_, ?_⟩
    · intro i hi
      simp only [Tree.live, growRoot_cur] at hi
      have : i = 0 := by omega
      subst this
      rw [growRoot_segments]; simp
    · rw [growRoot_segments]; simp [h0 0]
    · intro i hi hi0
      simp only [Tree.live, growRoot_cur] at hi; omega
    · intro i hi hi0
      simp only [Tree.live, growRoot_cur] at hi; omega
    · intro i hi
      simp only [Tree.live, growRoot_cur] at hi
      have : i = 0 := by omega
      subst this
      left; rw [growRoot_segments]; simp
    · refine ⟨fun _ => 0, 0, ?_⟩
      intro i hi
      simp only [Tree.live, growRoot_cur] at hi
      exact ⟨le_refl _, fun h => by omega⟩
  · intro i hi
    rw [growRoot_cur] at hi
    rw [growRoot_segments, if_neg (by omega)]
    exact (h0 i).2

theorem Skeleton.wfl_skeleton {M : CMath α} {s : Tree α} (h : Skeleton M s) : WFL s ∧ FreshDead s := by
  induction h with
  | root t0 dim point flow hf => exact growRoot_WFL M hf dim point flow
  | grow b p c s hs hp ih =>
    exact ⟨growSegmentLinks_WFL M b c ih.1 ih.2 hp, growSegmentLinks_FreshDead M b c ih.1 ih.2 hp⟩

theorem SameLinks.live_iff {t s : Tree α} (h : SameLinks t s) (i : Int) : t.live i ↔ s.live i := by
  simp only [Tree.live, h.1]

theorem SameLinks.symm {t s : Tree α} (h : SameLinks t s) : SameLinks s t := by
  refine ⟨h.1.symm, fun i hi => ?_⟩
  obtain ⟨a, b, c, d⟩ := h.2 i ((h.live_iff i).2 hi)
  exact ⟨a.symm, b.symm, c.symm, d.symm⟩

theorem SameLinks.trans_links {t s u : Tree α} (h : SameLinks t s) (h' : SameLinks s u) :
    SameLinks t u := by
  refine ⟨h.1.trans h'.1, fun i hi => ?_⟩
  obtain ⟨a, b, c, d⟩ := h.2 i hi
  obtain ⟨a', b', c', d'⟩ := h'.2 i ((h.live_iff i).1 hi)
  exact ⟨a.trans a', b.trans b', c.trans c', d.trans d'⟩

theorem SameLinks.wfl_links {t s : Tree α} (h : SameLinks t s) (hs : WFL s) : WFL t := by
  obtain ⟨d, B, hd⟩ := hs.rank
  have hl := h.live_iff
  have hc := hs.cur_pos
  have e0 := h.2 0 (by simp only [Tree.live, h.1]; omega)
  refine ⟨by rw [h.1]; exact hs.odd, by rw [h.1]; exact hs.cur_pos, ?_, ?_, ?_, ?_, ?_, ?_⟩
  · intro i hi
    rw [(h.2 i hi).1]; exact hs.ids i ((hl i).1 hi)
  · rw [e0.2.1]; exact hs.root_up
  · intro i hi hi0
    rw [(h.2 i hi).2.1, hl]; exact hs.up_live i ((hl i).1 hi) hi0
  · intro i hi hi0
    have hq := hs.up_live i ((hl i).1 hi) hi0
    have eq := h.2 _ ((hl _).2 hq)
    rw [(h.2 i hi).2.1, eq.2.2.1, eq.2.2.2]
    exact hs.up_child i ((hl i).1 hi) hi0
  · intro i hi
    have ei := h.2 i hi
    rw [ei.2.2.1, ei.2.2.2, h.1]
    rcases hs.kids i ((hl i).1 hi) with hk | hk
    · left; exact hk
    · right
      obtain ⟨k1, k2, k3, k4, k5, k6, k7⟩ := hk
      have el := h.2 _ ((hl _).2 ⟨le_of_lt k1, k2⟩)
      have er := h.2 _ ((hl _).2 ⟨le_of_lt k3, k4⟩)
      exact ⟨k1, k2, k3, k4, k5, by rw [el.2.1]; exact k6, by rw [er.2.1]; exact k7⟩
  · refine ⟨d, B, fun i hi => ?_⟩
    rw [(h.2 i hi).2.1]
    exact hd i ((hl i).1 hi)

theorem Frame.sameLinks {t t' : Tree α} (h : Frame t t') : SameLinks t' t := by
  refine ⟨h.currentNumberOfSegments, fun i _ => ?_⟩
  obtain ⟨a1, a2, a3, a4, a5, a6⟩ := h.segments i
  exact ⟨a1, a4, a5, a6⟩

theorem Frame.wfl_frame {t t' : Tree α} (h : Frame t t') (hw : WFL t) : WFL t' :=
  h.sameLinks.wfl_links hw

/-! ## Termination of `update` -/

theorem updateStep_up (M : CMath α) (t : Tree α) (i j : Int) :
    ((updateStep M t i).segments j).up = (t.segments j).up :=
  ((updateStep_frame M t i).segments j).2.2.2.1

theorem updateLoop_mono (M : CMath α) :
    ∀ (k : Nat) (t t' : Tree α) (i : Int), updateLoop M k t i = some t' →
      ∀ k', k ≤ k' → updateLoop M k' t i = some t' := by
  intro k
  induction k with
  | zero => intro t t' i h; simp [updateLoop] at h
  | succ n ih =>
    intro t t' i h k' hk
    obtain ⟨m, rfl⟩ : ∃ m, k' = m + 1 := ⟨k' - 1, by omega⟩
    simp only [updateLoop] at h ⊢
    split_ifs at h ⊢ with hn
    · exact ih _ _ _ h m (by omega)
    · exact h

theorem updateLoop_terminates_aux (M : CMath α) {t0 : Tree α} (h0 : WFL t0) (d : Int → Nat)
    (hd : ∀ i, t0.live i → i ≠ 0 → d (t0.segments i).up < d i) :
    ∀ (k : Nat) (t : Tree α) (i : Int), Frame t0 t → t0.live i → d i < k →
      ∃ t', updateLoop M k t i = some t' := by
  intro k
  induction k with
  | zero => intro t i _ _ h; omega
  | succ n ih =>
    intro t i hf hi hk
    simp only [updateLoop]
    have hup : ((updateStep M t i).segments i).up = (t0.segments i).up := by
      rw [updateStep_up]; exact (hf.segments i).2.2.2.1
    split_ifs with hn
    · rw [hup] at hn ⊢
      have hi0 : i ≠ 0 := by
        intro e; subst e; exact hn h0.root_up
      have := hd i hi hi0
      exact ih _ _ (hf.trans (updateStep_frame M t i)) (h0.up_live i hi hi0) (by omega)
    · exact ⟨_, rfl⟩

/-- In a well-formed tree `update` returns, from every live segment, for every large enough
fuel. -/
theorem updateLoop_terminates (M : CMath α) {t : Tree α} (h : WFL t) {i : Int} (hi : t.live i) :
    ∃ k t', ∀ k', k ≤ k' → updateLoop M k' t i = some t' := by
  obtain ⟨d, B, hd⟩ := h.rank
  obtain ⟨t', ht'⟩ := updateLoop_terminates_aux M h d (fun j hj => (hd j hj).2) (d i + 1) t i
    (Frame.refl t) hi (by omega)
  exact ⟨d i + 1, t', fun k' hk => updateLoop_mono M _ _ _ _ ht' k' hk⟩

/-! ## The structural part of `remove` -/

theorem removeLinks_cur (M : CMath α) (t : Tree α) (seg : Segment α) :
    (removeLinks M t seg).currentNumberOfSegments = t.currentNumberOfSegments - 2 := by
  simp only [removeLinks, removeReattach, setSeg_currentNumberOfSegments,
    setLength_currentNumberOfSegments, apply_ite Tree.currentNumberOfSegments]
  simp; ring

theorem removeLinks_segments (M : CMath α) (t : Tree α) (seg : Segment α) (p cn : Int)
    (hup : seg.up = p) (hcn : (t.segments p).left = cn) (h1 : cn ≠ p)
    (h2 : (t.segments cn).left ≠ p) (h3 : (t.segments cn).right ≠ p)
    (h4 : (t.segments cn).left ≠ cn) (i : Int) :
    (removeLinks M t seg).segments i =
      if i = p then
        { t.segments p with
            point := (t.segments cn).point, left := (t.segments cn).left,
            right := (t.segments cn).right,
            flow := if t.isTerminal cn then (t.segments cn).flow else (t.segments p).flow }
      else if ¬ t.isTerminal cn ∧ (i = (t.segments cn).left ∨ i = (t.segments cn).right) then
        { t.segments i with up := p }
      else t.segments i := by
  have e1 : ∀ u : Tree α, u.segments cn = t.segments cn → u.isTerminal cn = t.isTerminal cn := by
    intro u hu; simp [Tree.isTerminal, hu]
  simp only [removeLinks, removeReattach, hup, hcn, setSeg_segments, setLength_segments,
    apply_ite Tree.segments]
  have n1 : p ≠ cn := fun h => h1 h.symm
  have n2 : p ≠ (t.segments cn).left := fun h => h2 h.symm
  have n3 : p ≠ (t.segments cn).right := fun h => h3 h.symm
  have n4 : cn ≠ (t.segments cn).left := fun h => h4 h.symm
  rw [e1 _ (by simp [h1])]
  by_cases ht : t.isTerminal cn = true
  · by_cases c1 : i = p
    · subst c1; simp [*]
    · simp [*]
  · by_cases c1 : i = p
    · subst c1; simp [*]
    by_cases c2 : i = (t.segments cn).left
    · subst c2; simp [*]
      split_ifs <;> simp_all
    by_cases c3 : i = (t.segments cn).right
    · subst c3; simp [*]
    simp [*]

/-! ## The structural invariant of the reachable states -/

theorem Skeleton.inv {M : CMath α} {s : Tree α} (h : Skeleton M s) :
    s.currentNumberOfSegments = 1 ∨
      ∃ (b : Point α) (p : Int) (c : Segment α) (s0 : Tree α),
        Skeleton M s0 ∧ s0.live p ∧ s = growSegmentLinks M b (s0.segments p) c s0 := by
  cases h with
  | root t0 dim point flow hf => left; rfl
  | grow b p c s0 hs hp => right; exact ⟨b, p, c, s0, hs, hp, rfl⟩

theorem growSegmentLinks_sameLinks (M M' : CMath α) (b b' : Point α) (c c' : Segment α)
    {t s : Tree α} (h : SameLinks t s) (hs : WFL s) (hf : FreshDead s) (hd : DeadEven t)
    {p : Int} (hp : t.live p) :
    SameLinks (growSegmentLinks M b (t.segments p) c t)
      (growSegmentLinks M' b' (s.segments p) c' s) := by
  have ht := h.wfl_links hs
  have hp' := (h.live_iff p).1 hp
  have hc := h.1
  refine ⟨by rw [growSegmentLinks_cur, growSegmentLinks_cur, h.1], fun i hi => ?_⟩
  simp only [Tree.live, growSegmentLinks_cur] at hi
  rw [growSegmentLinks_ID M b c ht hp, growSegmentLinks_ID M' b' c' hs hp',
    growSegmentLinks_up M b c ht hp, growSegmentLinks_up M' b' c' hs hp',
    growSegmentLinks_left M b c ht hp, growSegmentLinks_left M' b' c' hs hp',
    growSegmentLinks_right M b c ht hp, growSegmentLinks_right M' b' c' hs hp']
  have ep := h.2 p hp
  have hodd := ht.odd
  have hcp := ht.cur_pos
  have e1 := hd (t.currentNumberOfSegments + 1) (by omega) (by omega)
  have e2 := hf (t.currentNumberOfSegments + 1) (by omega)
  rw [← hc, ← ep.2.1, ← ep.2.2.1, ← ep.2.2.2]
  by_cases c1 : i = t.currentNumberOfSegments + 1
  · subst c1
    simp only [Tree.live] at hp
    refine ⟨by simp, ?_, ?_, ?_⟩
    · split_ifs <;> first | rfl | omega
    · rw [if_neg (by omega), if_neg (by omega), if_neg (by omega), if_neg (by omega)]; omega
    · rw [if_neg (by omega), if_neg (by omega), if_neg (by omega), if_neg (by omega)]; omega
  by_cases c2 : i = t.currentNumberOfSegments
  · subst c2
    simp only [Tree.live] at hp
    refine ⟨by simp, ?_, ?_, ?_⟩
    · split_ifs <;> first | rfl | omega
    · rw [if_neg (by omega), if_pos rfl, if_neg (by omega), if_pos rfl]
    · rw [if_neg (by omega), if_pos rfl, if_neg (by omega), if_pos rfl]
  have ei := h.2 i ⟨hi.1, by omega⟩
  refine ⟨?_, ?_, ?_, ?_⟩
  · rw [if_neg (by omega), if_neg (by omega)]; exact ei.1
  · rw [← ei.2.1]
  · rw [← ei.2.2.1]
  · rw [← ei.2.2.2]

theorem growSegmentLinks_deadEven (M : CMath α) (b : Point α) (c : Segment α) {t : Tree α}
    (h : WFL t) (hd : DeadEven t) {p : Int} (hp : t.live p) :
    DeadEven (growSegmentLinks M b (t.segments p) c t) := by
  intro i hi hev
  rw [growSegmentLinks_cur] at hi
  have := hd i (by omega) hev
  simp only [Tree.live] at hp
  rw [growSegmentLinks_left M b c h ⟨hp.1, hp.2⟩, growSegmentLinks_right M b c h ⟨hp.1, hp.2⟩]
  split_ifs <;> omega

theorem Frame.deadEven {t t' : Tree α} (h : Frame t t') (hd : DeadEven t) : DeadEven t' := by
  intro i hi hev
  obtain ⟨-, -, -, -, a5, a6⟩ := h.segments i
  rw [a5, a6]
  exact hd i (by rw [← h.currentNumberOfSegments]; exact hi) hev

/-- Facts about the last two slots of a state whose links are those of a growth step. -/
theorem tail_facts (M : CMath α) (b : Point α) (c : Segment α) {t s0 : Tree α} {p : Int}
    (hs0 : WFL s0) (hf0 : FreshDead s0) (hp : s0.live p)
    (h : SameLinks t (growSegmentLinks M b (s0.segments p) c s0)) :
    t.currentNumberOfSegments = s0.currentNumberOfSegments + 2 ∧
    (t.segments (t.currentNumberOfSegments - 1)).up = p ∧
    (t.segments (t.currentNumberOfSegments - 2)).up = p ∧
    (t.segments p).left = t.currentNumberOfSegments - 2 ∧
    (t.segments p).right = t.currentNumberOfSegments - 1 ∧
    (t.segments (t.currentNumberOfSegments - 1)).left = -1 ∧
    (t.segments (t.currentNumberOfSegments - 1)).right = -1 ∧
    (t.segments (t.currentNumberOfSegments - 2)).left = (s0.segments p).left ∧
    (t.segments (t.currentNumberOfSegments - 2)).right = (s0.segments p).right ∧
    (t.segments p).up = (s0.segments p).up ∧
    (t.segments p).ID = (s0.segments p).ID ∧
    (∀ i, s0.live i → i ≠ p →
      (t.segments i).left = (s0.segments i).left ∧ (t.segments i).right = (s0.segments i).right ∧
      (t.segments i).ID = (s0.segments i).ID ∧
      (t.segments i).up =
        if (i = (s0.segments p).left ∨ i = (s0.segments p).right) then
          s0.currentNumberOfSegments else (s0.segments i).up) := by
  have hc : t.currentNumberOfSegments = s0.currentNumberOfSegments + 2 := by
    rw [h.1, growSegmentLinks_cur]
  have hpos := hs0.cur_pos
  have hpl := hp
  simp only [Tree.live] at hpl
  have e1 := h.2 (t.currentNumberOfSegments - 1) (by simp only [Tree.live]; omega)
  have e2 := h.2 (t.currentNumberOfSegments - 2) (by simp only [Tree.live]; omega)
  have e3 := h.2 p (by simp only [Tree.live]; omega)
  have f1 := hf0 (s0.currentNumberOfSegments + 1) (by omega)
  rw [growSegmentLinks_ID M b c hs0 hp, growSegmentLinks_up M b c hs0 hp,
    growSegmentLinks_left M b c hs0 hp, growSegmentLinks_right M b c hs0 hp] at e1 e2 e3
  have x1 : t.currentNumberOfSegments - 1 = s0.currentNumberOfSegments + 1 := by omega
  have x2 : t.currentNumberOfSegments - 2 = s0.currentNumberOfSegments := by omega
  rw [x1] at e1 ⊢
  rw [x2] at e2 ⊢
  obtain ⟨a1, a2, a3, a4, a5⟩ := hs0.parent_facts hp
  have n1 : ¬ (s0.currentNumberOfSegments + 1 = p) := by omega
  have n2 : ¬ (s0.currentNumberOfSegments = p) := by omega
  have n3 : ¬ (s0.currentNumberOfSegments + 1 = s0.currentNumberOfSegments) := by omega
  have n3a : ¬ (p = s0.currentNumberOfSegments + 1) := by omega
  have n3b : ¬ (p = s0.currentNumberOfSegments) := by omega
  simp only [n1, n2, n3, n3a, n3b, if_true, if_false, or_true, true_or, or_false, false_or, ite_self] at e1 e2 e3
  refine ⟨hc, e1.2.1, e2.2.1, e3.2.2.1, e3.2.2.2, by omega, by omega, e2.2.2.1, e2.2.2.2,
    e3.2.1, e3.1, ?_⟩
  intro i hi hip
  simp only [Tree.live] at hi
  have e4 := h.2 i (by simp only [Tree.live]; omega)
  rw [growSegmentLinks_ID M b c hs0 hp, growSegmentLinks_up M b c hs0 hp,
    growSegmentLinks_left M b c hs0 hp, growSegmentLinks_right M b c hs0 hp] at e4
  have n4 : ¬ (i = s0.currentNumberOfSegments + 1) := by omega
  have n5 : ¬ (i = s0.currentNumberOfSegments) := by omega
  have n6 : i ≠ -1 := by omega
  simp only [n4, n5, n6, hip, if_true, if_false, or_true, true_or, or_false, false_or, ne_eq,
    not_false_eq_true, and_true] at e4
  exact ⟨e4.2.2.1, e4.2.2.2, e4.1, e4.2.1⟩

theorem removeLinks_sameLinks (M M' : CMath α) (b : Point α) (c : Segment α) {t s0 : Tree α}
    {p : Int} (hs0 : WFL s0) (hf0 : FreshDead s0) (hp : s0.live p)
    (h : SameLinks t (growSegmentLinks M' b (s0.segments p) c s0)) (hd : DeadEven t) :
    SameLinks (removeLinks M t (t.segments (t.currentNumberOfSegments - 1))) s0 ∧
      DeadEven (removeLinks M t (t.segments (t.currentNumberOfSegments - 1))) ∧
      (t.segments (t.currentNumberOfSegments - 1)).up = p := by
  obtain ⟨hc, t1, t2, t3, t4, t5, t6, t7, t8, t9, t10, t11⟩ := tail_facts M' b c hs0 hf0 hp h
  obtain ⟨a1, a2, a3, a4, a5⟩ := hs0.parent_facts hp
  have hpos := hs0.cur_pos
  have hodd := hs0.odd
  have hpl := hp
  simp only [Tree.live] at hpl
  have hseg := removeLinks_segments M t (t.segments (t.currentNumberOfSegments - 1)) p
    (t.currentNumberOfSegments - 2) t1 t3 (by omega) (by omega) (by omega) (by omega)
  have hterm : t.isTerminal (t.currentNumberOfSegments - 2) = true ↔
      ((s0.segments p).left = -1 ∧ (s0.segments p).right = -1) := by
    simp [Tree.isTerminal, t7, t8, TERMINALEND]
  have hpk := hs0.kids p hp
  refine ⟨⟨by rw [removeLinks_cur]; omega, fun i hi => ?_⟩, ?_, t1⟩
  · simp only [Tree.live, removeLinks_cur] at hi
    rw [hseg]
    by_cases c1 : i = p
    · subst c1
      rw [if_pos rfl]
      exact ⟨t10, t9, t7, t8⟩
    rw [if_neg c1]
    obtain ⟨u1, u2, u3, u4⟩ := t11 i ⟨hi.1, by omega⟩ c1
    simp only [t7, t8, hterm]
    split_ifs with c2
    · refine ⟨u3, ?_, u1, u2⟩
      show p = _
      rcases hpk with hk | hk
      · exact absurd hk c2.1
      · rcases c2.2 with e | e
        · rw [e]; exact hk.2.2.2.2.2.1.symm
        · rw [e]; exact hk.2.2.2.2.2.2.symm
    · refine ⟨u3, ?_, u1, u2⟩
      rw [u4, if_neg]
      intro e
      apply c2
      refine ⟨?_, e⟩
      intro hk
      rcases e with e | e <;> omega
  · intro i hi hev
    rw [removeLinks_cur] at hi
    have n1 : ¬ (i = p) := by omega
    have n2 : ¬ (i = (s0.segments p).left ∨ i = (s0.segments p).right) := by omega
    simp only [hseg, t7, t8, n1, n2, if_false, and_false]
    by_cases c1 : i = t.currentNumberOfSegments - 1
    · rw [c1]; exact ⟨t5, t6⟩
    · exact hd i (by omega) hev

theorem moveDistalPointLengths_segments (M : CMath α) (t : Tree α) (s : Int) (x : Point α)
    (i : Int) :
    (moveDistalPointLengths M t s x).segments i =
      if i = s then { t.segments s with point := x } else t.segments i := by
  simp only [moveDistalPointLengths, moveSetPoint, moveChildLength]
  split <;> simp

theorem moveDistalPointLengths_cur (M : CMath α) (t : Tree α) (s : Int) (x : Point α) :
    (moveDistalPointLengths M t s x).currentNumberOfSegments = t.currentNumberOfSegments := by
  simp only [moveDistalPointLengths, moveSetPoint, moveChildLength]
  split <;> simp

theorem moveDistalPointLengths_sameLinks (M : CMath α) (t : Tree α) (s : Int) (x : Point α) :
    SameLinks (moveDistalPointLengths M t s x) t := by
  refine ⟨moveDistalPointLengths_cur M t s x, fun i _ => ?_⟩
  rw [moveDistalPointLengths_segments]
  split_ifs with h
  · subst h; exact ⟨rfl, rfl, rfl, rfl⟩
  · exact ⟨rfl, rfl, rfl, rfl⟩

theorem moveDistalPointLengths_deadEven (M : CMath α) {t : Tree α} (s : Int) (x : Point α)
    (hd : DeadEven t) : DeadEven (moveDistalPointLengths M t s x) := by
  intro i hi hev
  rw [moveDistalPointLengths_cur] at hi
  rw [moveDistalPointLengths_segments]
  split_ifs with h
  · subst h; exact hd i hi hev
  · exact hd i hi hev

theorem growSegment_eq_some {M : CMath α} {fuel : Nat} {b : Point α} {parent c : Segment α}
    {t : Tree α} {r : Segment α × Tree α} (h : growSegment M fuel b parent c t = some r) :
    ∃ t2, updateLoop M fuel (growSegmentLinks M b parent c t)
        ((growSegmentLinks M b parent c t).segments parent.ID).ID = some t2 ∧
      r = (t2.segments parent.ID,
        { t2 with currentNumberOfTerminals := t2.currentNumberOfTerminals + 1 }) := by
  simp only [growSegment, update] at h
  split at h
  · cases h
  · rename_i t2 ht2
    cases h
    exact ⟨t2, ht2, rfl⟩

theorem remove_eq_some {M : CMath α} {fuel : Nat} {seg : Segment α}
    {t : Tree α} {r : Segment α × Tree α} (h : remove M fuel t seg = some r) :
    ∃ t2, updateLoop M fuel (removeLinks M t seg)
        ((removeLinks M t seg).segments seg.up).ID = some t2 ∧
      r = (t2.segments seg.up,
        { t2 with currentNumberOfTerminals := t2.currentNumberOfTerminals - 1 }) := by
  simp only [remove, update] at h
  split at h
  · cases h
  · rename_i t2 ht2
    cases h
    exact ⟨t2, ht2, rfl⟩

theorem sameLinks_setTerms {t s : Tree α} (v : Int) (h : SameLinks t s) :
    SameLinks { t with currentNumberOfTerminals := v } s := h

/-- The structural invariant holds in every reachable state. -/
theorem Tree.Reach.linkInv {M : CMath α} {t : Tree α} (h : Reach M t) : LinkInv M t := by
  induction h with
  | root t0 dim point flow hf =>
    refine ⟨_, Skeleton.root t0 dim point flow hf, ⟨rfl, fun i _ => ⟨rfl, rfl, rfl, rfl⟩⟩, ?_⟩
    have := (growRoot_WFL M hf dim point flow).2
    intro i hi _
    exact this i hi
  | grow fuel b p c t r _ hp hr ih =>
    obtain ⟨s, hs, hsl, hde⟩ := ih
    obtain ⟨t2, ht2, rfl⟩ := growSegment_eq_some hr
    have hw := hs.wfl_skeleton
    have hf := updateLoop_frame M _ _ _ _ ht2
    refine ⟨_, Skeleton.grow b p c s hs ((hsl.live_iff p).1 hp), ?_, ?_⟩
    · exact sameLinks_setTerms _
        (hf.sameLinks.trans_links (growSegmentLinks_sameLinks M M b b c c hsl hw.1 hw.2 hde hp))
    · exact hf.deadEven (growSegmentLinks_deadEven M b c (hsl.wfl_links hw.1) hde hp)
  | remove fuel t r _ hc hr ih =>
    obtain ⟨s, hs, hsl, hde⟩ := ih
    obtain ⟨t2, ht2, rfl⟩ := remove_eq_some hr
    have hf := updateLoop_frame M _ _ _ _ ht2
    rcases hs.inv with h1 | ⟨b, p, c, s0, hs0, hp, rfl⟩
    · rw [hsl.1] at hc; omega
    · have hw := hs0.wfl_skeleton
      obtain ⟨g1, g2, g3⟩ := removeLinks_sameLinks M M b c hw.1 hw.2 hp hsl hde
      exact ⟨s0, hs0, sameLinks_setTerms _ (hf.sameLinks.trans_links g1), hf.deadEven g2⟩
  | move fuel s x t t' _ hs hr ih =>
    obtain ⟨s', hs', hsl, hde⟩ := ih
    have hf := updateLoop_frame M _ _ _ _ hr
    exact ⟨s', hs', hf.sameLinks.trans_links ((moveDistalPointLengths_sameLinks M t s x).trans_links hsl),
      hf.deadEven (moveDistalPointLengths_deadEven M s x hde)⟩

theorem Tree.Reach.wfl {M : CMath α} {t : Tree α} (h : Reach M t) : WFL t := by
  obtain ⟨s, hs, hsl, -⟩ := h.linkInv
  exact hsl.wfl_links hs.wfl_skeleton.1

/-! ## One pass of `update` -/

theorem updateStep_segments_ne (M : CMath α) (t : Tree α) {i j : Int} (h : j ≠ i) :
    (updateStep M t i).segments j = t.segments j := by
  unfold updateStep
  split <;> simp [h]

theorem updateStep_resistance_ne (M : CMath α) (t : Tree α) {i j : Int} (h : j ≠ i) :
    (updateStep M t i).reducedHydrodynamicResistance j = t.reducedHydrodynamicResistance j := by
  unfold updateStep
  split <;> simp [h]

theorem updateStep_flow_terminal (M : CMath α) (t : Tree α) {i : Int}
    (h : t.isTerminal i = true) (j : Int) :
    ((updateStep M t i).segments j).flow = (t.segments j).flow := by
  unfold updateStep
  rw [if_pos h]
  simp only [setSeg_segments, setR_segments]
  split_ifs with e
  · subst e; rfl
  · rfl

theorem updateStep_good (M : CMath α) (t : Tree α) {i : Int}
    (hl : (t.segments i).left ≠ i) (hr : (t.segments i).right ≠ i) :
    Good M (updateStep M t i) i := by
  have hf := updateStep_frame M t i
  unfold Good
  rw [hf.isTerminal]
  by_cases ht : t.isTerminal i = true
  · rw [if_pos ht]
    unfold updateStep
    rw [if_pos ht]
    simp [Tree.length]
  · rw [if_neg ht]
    have e1 := updateStep_segments_ne M t hl
    have e2 := updateStep_segments_ne M t hr
    have e3 := updateStep_resistance_ne M t hl
    have e4 := updateStep_resistance_ne M t hr
    have e5 : ((updateStep M t i).segments i).left = (t.segments i).left :=
      (hf.segments i).2.2.2.2.1
    have e6 : ((updateStep M t i).segments i).right = (t.segments i).right :=
      (hf.segments i).2.2.2.2.2
    simp only [Tree.leftSegment, Tree.rightSegment, e5, e6, e1, e2, e3, e4]
    unfold updateStep
    rw [if_neg ht]
    simp [Tree.length, bifurcationRatios]

/-- `Good` at `i` reads only the segment `i`, its resistance and length, and the flows and
resistances of its two children. -/
theorem Good.congr (M : CMath α) {t t' : Tree α} {i : Int}
    (h1 : t'.segments i = t.segments i)
    (h2 : t'.reducedHydrodynamicResistance i = t.reducedHydrodynamicResistance i)
    (h3 : t'._length i = t._length i) (h4 : t'.lengthUnit = t.lengthUnit)
    (h5 : t'.bloodViscosity i = t.bloodViscosity i)
    (h6 : t'.bifurcationExpoent i = t.bifurcationExpoent i)
    (h7 : (t'.segments (t.segments i).left).flow = (t.segments (t.segments i).left).flow)
    (h8 : (t'.segments (t.segments i).right).flow = (t.segments (t.segments i).right).flow)
    (h9 : t'.reducedHydrodynamicResistance (t.segments i).left =
      t.reducedHydrodynamicResistance (t.segments i).left)
    (h10 : t'.reducedHydrodynamicResistance (t.segments i).right =
      t.reducedHydrodynamicResistance (t.segments i).right)
    (h : Good M t i) : Good M t' i := by
  unfold Good at h ⊢
  have e : t'.isTerminal i = t.isTerminal i := by simp [Tree.isTerminal, h1]
  simp only [e, Tree.leftSegment, Tree.rightSegment, Tree.length, h1, h2, h3, h4, h5, h6, h7, h8,
    h9, h10]
  exact h

/-! ## The loop of `update` -/

theorem OnPath.live {t : Tree α} (h : WFL t) {i a : Int} (hp : OnPath t i a) (hi : t.live i) :
    t.live a := by
  induction hp with
  | self i => exact hi
  | step i a hne _ ih =>
    apply ih
    apply h.up_live i hi
    intro e; subst e; exact hne h.root_up

theorem OnPath.of_child {t : Tree α} (h : WFL t) {i j : Int} (hi : t.live i) (hj : t.live j)
    (hc : (t.segments j).left = i ∨ (t.segments j).right = i) : OnPath t i j := by
  have hk := h.kids j hj
  simp only [Tree.live] at hi hj
  have hu : (t.segments i).up = j := by
    rcases hk with hk | hk
    · omega
    · rcases hc with e | e
      · rw [← e]; exact hk.2.2.2.2.2.1
      · rw [← e]; exact hk.2.2.2.2.2.2
  refine OnPath.step i j (by omega) ?_
  rw [hu]; exact OnPath.self j

theorem updateLoop_good (M : CMath α) {t0 : Tree α} (h0 : WFL t0) :
    ∀ (k : Nat) (t t' : Tree α) (i : Int), Frame t0 t → t0.live i →
      updateLoop M k t i = some t' →
      (∀ j, t0.live j → ¬ OnPath t0 i j → Good M t j) →
      (∀ j, t0.live j → Good M t' j) ∧
      (∀ j, ¬ OnPath t0 i j → t'.segments j = t.segments j ∧
        t'.reducedHydrodynamicResistance j = t.reducedHydrodynamicResistance j) ∧
      (∀ j, t0.isTerminal j = true → (t'.segments j).flow = (t.segments j).flow) := by
  intro k
  induction k with
  | zero => intro t t' i _ _ h; simp [updateLoop] at h
  | succ n ih =>
    intro t t' i hf hi hrun hJ
    simp only [updateLoop] at hrun
    have hf1 := updateStep_frame M t i
    have hlinks : ∀ j, (t.segments j).left = (t0.segments j).left ∧
        (t.segments j).right = (t0.segments j).right ∧ (t.segments j).up = (t0.segments j).up :=
      fun j => ⟨(hf.segments j).2.2.2.2.1, (hf.segments j).2.2.2.2.2, (hf.segments j).2.2.2.1⟩
    obtain ⟨a1, a2, a3, a4, a5⟩ := h0.parent_facts hi
    have G1 : Good M (updateStep M t i) i :=
      updateStep_good M t (by rw [(hlinks i).1]; exact a4) (by rw [(hlinks i).2.1]; exact a5)
    have G2 : ∀ j, t0.live j → ¬ OnPath t0 i j → Good M (updateStep M t i) j := by
      intro j hj hnp
      have hji : j ≠ i := by intro e; subst e; exact hnp (OnPath.self _)
      have c1 : (t.segments j).left ≠ i := by
        intro e; rw [(hlinks j).1] at e
        exact hnp (OnPath.of_child h0 hi hj (Or.inl e))
      have c2 : (t.segments j).right ≠ i := by
        intro e; rw [(hlinks j).2.1] at e
        exact hnp (OnPath.of_child h0 hi hj (Or.inr e))
      refine Good.congr M (updateStep_segments_ne M t hji) (updateStep_resistance_ne M t hji)
        (congrFun hf1.length j) hf1.lengthUnit (congrFun hf1.bloodViscosity j)
        (congrFun hf1.bifurcationExpoent j) ?_ ?_
        (updateStep_resistance_ne M t c1) (updateStep_resistance_ne M t c2) (hJ j hj hnp)
      · rw [updateStep_segments_ne M t c1]
      · rw [updateStep_segments_ne M t c2]
    have F1 : ∀ j, t0.isTerminal j = true →
        ((updateStep M t i).segments j).flow = (t.segments j).flow := by
      intro j hjt
      by_cases hji : j = i
      · subst hji
        exact updateStep_flow_terminal M t (by rw [hf.isTerminal]; exact hjt) j
      · rw [updateStep_segments_ne M t hji]
    have hup : ((updateStep M t i).segments i).up = (t0.segments i).up := by
      rw [updateStep_up]; exact (hlinks i).2.2
    split_ifs at hrun with hn
    · rw [hup] at hn hrun
      have hi0 : i ≠ 0 := by
        intro e; subst e; exact hn h0.root_up
      have hsplit : ∀ j, ¬ OnPath t0 (t0.segments i).up j → j ≠ i → ¬ OnPath t0 i j := by
        intro j hnp hji hp
        cases hp with
        | self => exact hji rfl
        | step _ _ _ hp' => exact hnp hp'
      obtain ⟨r1, r2, r3⟩ := ih _ _ _ (hf.trans hf1) (h0.up_live i hi hi0) hrun (by
        intro j hj hnp
        by_cases hji : j = i
        · subst hji; exact G1
        · exact G2 j hj (hsplit j hnp hji))
      refine ⟨r1, ?_, ?_⟩
      · intro j hnp
        have hji : j ≠ i := by intro e; subst e; exact hnp (OnPath.self _)
        have hnp' : ¬ OnPath t0 (t0.segments i).up j := fun hp => hnp (OnPath.step i j hn hp)
        rw [(r2 j hnp').1, (r2 j hnp').2, updateStep_segments_ne M t hji,
          updateStep_resistance_ne M t hji]
        exact ⟨rfl, rfl⟩
      · intro j hjt
        rw [r3 j hjt, F1 j hjt]
    · cases hrun
      rw [hup] at hn
      have hend : ∀ j, j ≠ i → ¬ OnPath t0 i j := by
        intro j hji hp
        cases hp with
        | self => exact hji rfl
        | step _ _ hne _ => exact hn hne
      refine ⟨?_, ?_, F1⟩
      · intro j hj
        by_cases hji : j = i
        · subst hji; exact G1
        · exact G2 j hj (hend j hji)
      · intro j hnp
        have hji : j ≠ i := by intro e; subst e; exact hnp (OnPath.self _)
        exact ⟨updateStep_segments_ne M t hji, updateStep_resistance_ne M t hji⟩

/-- `Good` at `i` reads only the child links, flow and ratios of segment `i`, its resistance
and length, and the flows and resistances of its two children. -/
theorem Good.congr' (M : CMath α) {t t' : Tree α} {i : Int}
    (h1 : (t'.segments i).left = (t.segments i).left ∧
      (t'.segments i).right = (t.segments i).right ∧
      (t'.segments i).flow = (t.segments i).flow ∧
      (t'.segments i).bifurcationRatioLeft = (t.segments i).bifurcationRatioLeft ∧
      (t'.segments i).bifurcationRatioRight = (t.segments i).bifurcationRatioRight)
    (h2 : t'.reducedHydrodynamicResistance i = t.reducedHydrodynamicResistance i)
    (h3 : t'._length i = t._length i) (h4 : t'.lengthUnit = t.lengthUnit)
    (h5 : t'.bloodViscosity i = t.bloodViscosity i)
    (h6 : t'.bifurcationExpoent i = t.bifurcationExpoent i)
    (h7 : (t'.segments (t.segments i).left).flow = (t.segments (t.segments i).left).flow)
    (h8 : (t'.segments (t.segments i).right).flow = (t.segments (t.segments i).right).flow)
    (h9 : t'.reducedHydrodynamicResistance (t.segments i).left =
      t.reducedHydrodynamicResistance (t.segments i).left)
    (h10 : t'.reducedHydrodynamicResistance (t.segments i).right =
      t.reducedHydrodynamicResistance (t.segments i).right)
    (h : Good M t i) : Good M t' i := by
  unfold Good at h ⊢
  obtain ⟨a1, a2, a3, a4, a5⟩ := h1
  have e : t'.isTerminal i = t.isTerminal i := by simp [Tree.isTerminal, a1, a2]
  simp only [e, Tree.leftSegment, Tree.rightSegment, Tree.length, a1, a2, a3, a4, a5, h2, h3, h4,
    h5, h6, h7, h8, h9, h10]
  exact h

/-! ## Numbers written by the structural part of `growSegment` -/

theorem growSegmentLinks_consts (M : CMath α) (b : Point α) (parent c : Segment α) (t : Tree α) :
    (growSegmentLinks M b parent c t).lengthUnit = t.lengthUnit ∧
    (growSegmentLinks M b parent c t).bloodViscosity = t.bloodViscosity ∧
    (growSegmentLinks M b parent c t).bifurcationExpoent = t.bifurcationExpoent ∧
    (growSegmentLinks M b parent c t).dimension = t.dimension ∧
    (growSegmentLinks M b parent c t).seed = t.seed ∧
    (growSegmentLinks M b parent c t).currentNumberOfTerminals = t.currentNumberOfTerminals := by
  simp only [growSegmentLinks, growBifurcation, growNewSegment, growConnection]
  split_ifs <;> simp

theorem growSegmentLinks_resistance (M : CMath α) (b : Point α) (c : Segment α) {t : Tree α}
    (h : WFL t) {p : Int} (hp : t.live p) (i : Int) :
    (growSegmentLinks M b (t.segments p) c t).reducedHydrodynamicResistance i =
      if i = t.currentNumberOfSegments + 1 then
        poiseuilleLawConstant M * t.bloodViscosity (t.currentNumberOfSegments + 1) *
          distance M t.dimension b c.point
      else if i = t.currentNumberOfSegments then
        t.reducedHydrodynamicResistance p +
          poiseuilleLawConstant M *
            (t.bloodViscosity t.currentNumberOfSegments *
                distance M t.dimension b (t.segments p).point -
              t.bloodViscosity p * t.length p)
      else t.reducedHydrodynamicResistance i := by
  obtain ⟨a1, a2, a3, a4, a5⟩ := h.parent_facts hp
  simp only [Tree.live] at hp
  have n1 : ¬ (p = t.currentNumberOfSegments) := by omega
  simp only [growSegmentLinks, growBifurcation, growNewSegment, growConnection, a1]
  split_ifs <;> simp [Tree.length, n1] <;> split_ifs <;> simp_all

theorem growBifurcation_length (M : CMath α) (b : Point α) (parent : Segment α) (u : Tree α)
    (i : Int) :
    (growBifurcation M b parent u)._length i =
      if i = parent.ID then
        distance M u.dimension ((growBifurcation M b parent u).proximalPoint parent.ID) b
      else u._length i := by
  simp [growBifurcation, Tree.proximalPoint, Tree.distalPoint, Tree.isRoot]

theorem growNewSegment_length (M : CMath α) (b : Point α) (parent c : Segment α) (u : Tree α)
    (i : Int) :
    (growNewSegment M b parent c u)._length i =
      if i = u.currentNumberOfSegments then distance M u.dimension b c.point
      else u._length i := by
  simp [growNewSegment]

theorem growConnection_length (M : CMath α) (b : Point α) (parent : Segment α) (u : Tree α)
    (i : Int) :
    (growConnection M b parent u)._length i =
      if i = u.currentNumberOfSegments then distance M u.dimension b parent.point
      else u._length i := by
  simp only [growConnection]
  split_ifs <;> simp_all

theorem growConnection_cur (M : CMath α) (b : Point α) (parent : Segment α) (u : Tree α) :
    (growConnection M b parent u).currentNumberOfSegments = u.currentNumberOfSegments + 1 := by
  simp only [growConnection]

theorem growConnection_dimension (M : CMath α) (b : Point α) (parent : Segment α) (u : Tree α) :
    (growConnection M b parent u).dimension = u.dimension := by
  simp only [growConnection]
  split_ifs <;> simp

theorem growNewSegment_dimension (M : CMath α) (b : Point α) (parent c : Segment α)
    (u : Tree α) : (growNewSegment M b parent c u).dimension = u.dimension := by
  simp [growNewSegment]

theorem growSegmentLinks_length (M : CMath α) (b : Point α) (c : Segment α) {t : Tree α}
    (h : WFL t) {p : Int} (hp : t.live p) (i : Int) :
    (growSegmentLinks M b (t.segments p) c t)._length i =
      if i = p then
        distance M t.dimension ((growSegmentLinks M b (t.segments p) c t).proximalPoint p) b
      else if i = t.currentNumberOfSegments + 1 then distance M t.dimension b c.point
      else if i = t.currentNumberOfSegments then distance M t.dimension b (t.segments p).point
      else t._length i := by
  obtain ⟨a1, a2, a3, a4, a5⟩ := h.parent_facts hp
  simp only [growSegmentLinks]
  rw [growBifurcation_length, growNewSegment_length, growConnection_length, a1,
    growNewSegment_dimension, growConnection_dimension, growConnection_cur]

theorem growSegmentLinks_point (M : CMath α) (b : Point α) (c : Segment α) {t : Tree α}
    (h : WFL t) {p : Int} (hp : t.live p) (i : Int) :
    ((growSegmentLinks M b (t.segments p) c t).segments i).point =
      if i = p then b
      else if i = t.currentNumberOfSegments + 1 then c.point
      else if i = t.currentNumberOfSegments then (t.segments p).point
      else (t.segments i).point := by
  obtain ⟨a1, a2, a3, a4, a5⟩ := h.parent_facts hp
  rw [growSegmentLinks_segments M b c t p a1 hp.2 a2 a3 a4 a5]
  split_ifs <;> rfl

theorem growSegmentLinks_flow (M : CMath α) (b : Point α) (c : Segment α) {t : Tree α}
    (h : WFL t) {p : Int} (hp : t.live p) (i : Int) :
    ((growSegmentLinks M b (t.segments p) c t).segments i).flow =
      if i = t.currentNumberOfSegments + 1 then c.flow
      else if i = t.currentNumberOfSegments then (t.segments p).flow
      else (t.segments i).flow := by
  obtain ⟨a1, a2, a3, a4, a5⟩ := h.parent_facts hp
  rw [growSegmentLinks_segments M b c t p a1 hp.2 a2 a3 a4 a5]
  simp only [Tree.live] at hp
  split_ifs <;> first | rfl | omega | simp_all

theorem growSegmentLinks_ratios (M : CMath α) (b : Point α) (c : Segment α) {t : Tree α}
    (h : WFL t) {p : Int} (hp : t.live p) (i : Int) :
    ((growSegmentLinks M b (t.segments p) c t).segments i).bifurcationRatioLeft =
      (if i = t.currentNumberOfSegments then (t.segments p).bifurcationRatioLeft
       else (t.segments i).bifurcationRatioLeft) ∧
    ((growSegmentLinks M b (t.segments p) c t).segments i).bifurcationRatioRight =
      (if i = t.currentNumberOfSegments then (t.segments p).bifurcationRatioRight
       else (t.segments i).bifurcationRatioRight) := by
  obtain ⟨a1, a2, a3, a4, a5⟩ := h.parent_facts hp
  rw [growSegmentLinks_segments M b c t p a1 hp.2 a2 a3 a4 a5]
  simp only [Tree.live] at hp
  split_ifs <;> first | exact ⟨rfl, rfl⟩ | omega | simp_all

theorem proximalPoint_eq (t : Tree α) (i : Int) :
    t.proximalPoint i = if i = 0 then t.seed else (t.segments (t.segments i).up).point := by
  simp [Tree.proximalPoint, Tree.isRoot, rootID]

theorem growSegmentLinks_lenInv (M : CMath α) (b : Point α) (c : Segment α) {t : Tree α}
    (h : WFL t) (hlen : LenInv M t) {p : Int} (hp : t.live p) :
    LenInv M (growSegmentLinks M b (t.segments p) c t) := by
  intro i hi
  have hc := h.cur_pos
  have hpl := hp
  simp only [Tree.live, growSegmentLinks_cur] at hi hpl
  have hpk := h.kids p hp
  obtain ⟨a1, a2, a3, a4, a5⟩ := h.parent_facts hp
  rw [growSegmentLinks_length M b c h hp, (growSegmentLinks_consts M b _ c t).2.2.2.1]
  by_cases c1 : i = p
  · subst c1
    rw [if_pos rfl, Tree.distalPoint, growSegmentLinks_point M b c h hp, if_pos rfl]
  rw [if_neg c1]
  by_cases c2 : i = t.currentNumberOfSegments + 1
  · subst c2
    rw [if_pos rfl, Tree.distalPoint, growSegmentLinks_point M b c h hp, if_neg c1, if_pos rfl,
      proximalPoint_eq, if_neg (by omega), growSegmentLinks_up M b c h hp, if_neg c1, if_pos rfl,
      growSegmentLinks_point M b c h hp, if_pos rfl]
  rw [if_neg c2]
  by_cases c3 : i = t.currentNumberOfSegments
  · subst c3
    rw [if_pos rfl, Tree.distalPoint, growSegmentLinks_point M b c h hp, if_neg c1, if_neg c2,
      if_pos rfl, proximalPoint_eq, if_neg (by omega), growSegmentLinks_up M b c h hp,
      if_neg c1, if_neg c2, if_pos rfl, growSegmentLinks_point M b c h hp, if_pos rfl]
  rw [if_neg c3]
  have hil : t.live i := ⟨hi.1, by omega⟩
  rw [hlen i hil, Tree.distalPoint, Tree.distalPoint, growSegmentLinks_point M b c h hp,
    if_neg c1, if_neg c2, if_neg c3, proximalPoint_eq, proximalPoint_eq]
  by_cases c0 : i = 0
  · rw [if_pos c0, if_pos c0, (growSegmentLinks_consts M b _ c t).2.2.2.2.1]
  rw [if_neg c0, if_neg c0, growSegmentLinks_up M b c h hp, if_neg c1, if_neg c2, if_neg c3]
  have hq := h.up_live i hil c0
  have hqc := h.up_child i hil c0
  simp only [Tree.live] at hq
  by_cases c4 : (i = (t.segments p).left ∨ i = (t.segments p).right) ∧ i ≠ -1
  · rw [if_pos c4, growSegmentLinks_point M b c h hp, if_neg (by omega), if_neg (by omega),
      if_pos rfl]
    have : (t.segments i).up = p := by
      rcases hpk with hk | hk
      · omega
      · rcases c4.1 with e | e
        · rw [e]; exact hk.2.2.2.2.2.1
        · rw [e]; exact hk.2.2.2.2.2.2
    rw [this]
  · rw [if_neg c4, growSegmentLinks_point M b c h hp]
    have : (t.segments i).up ≠ p := by
      intro e; rw [e] at hqc; apply c4
      exact ⟨by rcases hqc with e | e <;> [left; right] <;> exact e.symm, by omega⟩
    rw [if_neg this, if_neg (by omega), if_neg (by omega)]

theorem isTerminal_iff (t : Tree α) (i : Int) :
    t.isTerminal i = true ↔ (t.segments i).left = -1 ∧ (t.segments i).right = -1 := by
  simp [Tree.isTerminal, TERMINALEND]

/-- Before `growSegment` calls `update`, every live segment other than the parent already
holds consistent values. -/
theorem growSegmentLinks_pregood (M : CMath α) (b : Point α) (c : Segment α) {t : Tree α}
    (h : WFL t) (hde : DeadEven t) (hg : ∀ i, t.live i → Good M t i) (hdr : DeadEvenRatios t)
    (hlu : t.lengthUnit = 1) (hγ : ∀ i j, t.bifurcationExpoent i = t.bifurcationExpoent j)
    {p : Int} (hp : t.live p) :
    ∀ j, (growSegmentLinks M b (t.segments p) c t).live j → j ≠ p →
      Good M (growSegmentLinks M b (t.segments p) c t) j := by
  intro j hj hjp
  have hc := h.cur_pos
  have hodd := h.odd
  have hpl := hp
  simp only [Tree.live, growSegmentLinks_cur] at hj hpl
  have hpk := h.kids p hp
  obtain ⟨a1, a2, a3, a4, a5⟩ := h.parent_facts hp
  obtain ⟨k1, k2, k3, k4, k5, k6⟩ := growSegmentLinks_consts M b (t.segments p) c t
  have hleft := growSegmentLinks_left M b c h hp
  have hright := growSegmentLinks_right M b c h hp
  have hflow := growSegmentLinks_flow M b c h hp
  have hrat := growSegmentLinks_ratios M b c h hp
  have hres := growSegmentLinks_resistance M b c h hp
  have hlen := growSegmentLinks_length M b c h hp
  by_cases c2 : j = t.currentNumberOfSegments + 1
  · subst c2
    have d1 := hde _ (by omega : t.currentNumberOfSegments ≤ t.currentNumberOfSegments + 1)
      (by omega)
    have d2 := hdr _ (by omega : t.currentNumberOfSegments ≤ t.currentNumberOfSegments + 1)
      (by omega)
    have ht : (growSegmentLinks M b (t.segments p) c t).isTerminal
        (t.currentNumberOfSegments + 1) = true := by
      rw [isTerminal_iff, hleft, hright, if_neg hjp, if_neg (by omega), if_neg hjp,
        if_neg (by omega)]
      exact d1
    unfold Good
    have n1 : ¬ (t.currentNumberOfSegments + 1 = t.currentNumberOfSegments) := by omega
    simp only [if_pos ht, hres, Tree.length, hlen, if_neg hjp, if_true, k1, k2, hlu,
      (hrat _).1, (hrat _).2, n1, if_false, one_mul, true_and]
    exact d2
  by_cases c3 : j = t.currentNumberOfSegments
  · subst c3
    have hgp := hg p hp
    have ht : (growSegmentLinks M b (t.segments p) c t).isTerminal t.currentNumberOfSegments =
        t.isTerminal p := by
      simp only [Tree.isTerminal, hleft, hright, if_neg hjp, if_pos]
    unfold Good at hgp ⊢
    rw [ht]
    have eR : (growSegmentLinks M b (t.segments p) c t).reducedHydrodynamicResistance
        t.currentNumberOfSegments = _ := hres t.currentNumberOfSegments
    rw [if_neg c2, if_pos rfl] at eR
    have eL : (growSegmentLinks M b (t.segments p) c t)._length t.currentNumberOfSegments = _ :=
      hlen t.currentNumberOfSegments
    rw [if_neg hjp, if_neg c2, if_pos rfl] at eL
    have eRat := hrat t.currentNumberOfSegments
    rw [if_pos rfl, if_pos rfl] at eRat
    by_cases htp : t.isTerminal p = true
    · rw [if_pos htp] at hgp ⊢
      simp only [Tree.length, hlu] at hgp
      simp only [eR, Tree.length, eL, k1, k2, hlu, eRat.1, eRat.2, hgp.1]
      exact ⟨by ring, hgp.2⟩
    · rw [if_neg htp] at hgp ⊢
      have hk : 0 < (t.segments p).left ∧ (t.segments p).left < t.currentNumberOfSegments ∧
          0 < (t.segments p).right ∧ (t.segments p).right < t.currentNumberOfSegments := by
        rcases hpk with hk | hk
        · exact absurd ((isTerminal_iff t p).2 hk) htp
        · exact ⟨hk.1, hk.2.1, hk.2.2.1, hk.2.2.2.1⟩
      have eleft : ((growSegmentLinks M b (t.segments p) c t).segments
          t.currentNumberOfSegments).left = (t.segments p).left := by
        rw [hleft, if_neg hjp, if_pos rfl]
      have eright : ((growSegmentLinks M b (t.segments p) c t).segments
          t.currentNumberOfSegments).right = (t.segments p).right := by
        rw [hright, if_neg hjp, if_pos rfl]
      have efl : ((growSegmentLinks M b (t.segments p) c t).segments (t.segments p).left).flow =
          (t.segments (t.segments p).left).flow := by
        rw [hflow, if_neg (by omega), if_neg (by omega)]
      have efr : ((growSegmentLinks M b (t.segments p) c t).segments (t.segments p).right).flow =
          (t.segments (t.segments p).right).flow := by
        rw [hflow, if_neg (by omega), if_neg (by omega)]
      have eRl : (growSegmentLinks M b (t.segments p) c t).reducedHydrodynamicResistance
          (t.segments p).left = t.reducedHydrodynamicResistance (t.segments p).left := by
        rw [hres, if_neg (by omega), if_neg (by omega)]
      have eRr : (growSegmentLinks M b (t.segments p) c t).reducedHydrodynamicResistance
          (t.segments p).right = t.reducedHydrodynamicResistance (t.segments p).right := by
        rw [hres, if_neg (by omega), if_neg (by omega)]
      have efn : ((growSegmentLinks M b (t.segments p) c t).segments
          t.currentNumberOfSegments).flow = (t.segments p).flow := by
        rw [hflow, if_neg c2, if_pos rfl]
      simp only [Tree.leftSegment, Tree.rightSegment, eleft, eright, efl, efr, eRl, eRr, efn,
        eRat.1, eRat.2, k3, hγ t.currentNumberOfSegments p, eR, Tree.length, eL, k1, k2, hlu]
      simp only [Tree.leftSegment, Tree.rightSegment, Tree.length, hlu] at hgp
      refine ⟨hgp.1, hgp.2.1, hgp.2.2.1, ?_⟩
      rw [hgp.2.2.2]; ring
  have hjl : t.live j := ⟨hj.1, by omega⟩
  have hjk := h.kids j hjl
  refine Good.congr' M ⟨?_, ?_, ?_, ?_, ?_⟩ ?_ ?_ k1 (by rw [k2]) (by rw [k3]) ?_ ?_ ?_ ?_
    (hg j hjl)
  · rw [hleft, if_neg hjp, if_neg c3]
  · rw [hright, if_neg hjp, if_neg c3]
  · rw [hflow, if_neg c2, if_neg c3]
  · rw [(hrat j).1, if_neg c3]
  · rw [(hrat j).2, if_neg c3]
  · rw [hres, if_neg c2, if_neg c3]
  · rw [hlen, if_neg hjp, if_neg c2, if_neg c3]
  · rw [hflow, if_neg (by omega), if_neg (by omega)]
  · rw [hflow, if_neg (by omega), if_neg (by omega)]
  · rw [hres, if_neg (by omega), if_neg (by omega)]
  · rw [hres, if_neg (by omega), if_neg (by omega)]

/-! ## The structural part of `remove`, on the last two slots -/

theorem Tree.Reach.tail {M : CMath α} {t : Tree α} (h : Reach M t)
    (hc : 1 < t.currentNumberOfSegments) : ∃ p, Tail t p := by
  obtain ⟨s, hs, hsl, hde⟩ := h.linkInv
  rcases hs.inv with h1 | ⟨b, p, c, s0, hs0, hp, rfl⟩
  · rw [hsl.1] at hc; omega
  · have hw := hs0.wfl_skeleton
    obtain ⟨e, t1, t2, t3, t4, t5, t6, -⟩ := tail_facts M b c hw.1 hw.2 hp hsl
    have hpos := hw.1.cur_pos
    simp only [Tree.live] at hp
    exact ⟨p, by omega, hp.1, by omega, t1, t2, t3, t4, t5, t6⟩

theorem WFL.no_two_cycle {t : Tree α} (h : WFL t) {i j : Int} (hi : t.live i) (hj : t.live j)
    (h1 : (t.segments i).up = j) (h2 : (t.segments j).up = i) : False := by
  obtain ⟨d, B, hd⟩ := h.rank
  have hr := h.root_up
  simp only [Tree.live] at hi hj
  have hi0 : i ≠ 0 := by intro e; subst e; omega
  have hj0 : j ≠ 0 := by intro e; subst e; omega
  have a := (hd i hi).2 hi0
  have b := (hd j hj).2 hj0
  rw [h1] at a; rw [h2] at b; omega

/-- The conditions under which `removeLinks_segments` applies hold at the last two slots. -/
theorem Tail.facts {t : Tree α} (h : WFL t) {p : Int} (ht : Tail t p) :
    t.live p ∧ t.live (t.currentNumberOfSegments - 2) ∧ t.live (t.currentNumberOfSegments - 1) ∧
    t.currentNumberOfSegments - 2 ≠ p ∧
    (t.segments (t.currentNumberOfSegments - 2)).left ≠ p ∧
    (t.segments (t.currentNumberOfSegments - 2)).right ≠ p ∧
    (t.segments (t.currentNumberOfSegments - 2)).left ≠ t.currentNumberOfSegments - 2 ∧
    (t.segments (t.currentNumberOfSegments - 2)).left < t.currentNumberOfSegments - 2 ∧
    (t.segments (t.currentNumberOfSegments - 2)).right < t.currentNumberOfSegments - 2 := by
  obtain ⟨c1, c2, c3, c4, c5, c6, c7, c8, c9⟩ := ht
  have hp : t.live p := ⟨c2, by omega⟩
  have hn : t.live (t.currentNumberOfSegments - 2) := ⟨by omega, by omega⟩
  have hn1 : t.live (t.currentNumberOfSegments - 1) := ⟨by omega, by omega⟩
  obtain ⟨a1, a2, a3, a4, a5⟩ := h.parent_facts hn
  have hk := h.kids _ hn
  have key : ∀ x, t.live x → (t.segments x).up = t.currentNumberOfSegments - 2 →
      x < t.currentNumberOfSegments - 2 ∧ x ≠ p := by
    intro x hx hux
    have hx0 : x ≠ 0 := by
      intro e; subst e; rw [h.root_up] at hux; omega
    have hch := h.up_child x hx hx0
    rw [hux] at hch
    have hxn : x ≠ t.currentNumberOfSegments - 2 := by
      intro e; rw [e] at hux; rw [hux] at c5; omega
    have hxn1 : x ≠ t.currentNumberOfSegments - 1 := by
      intro e; rw [e] at hux; omega
    have hxp : x ≠ p := by
      intro e; subst e
      exact h.no_two_cycle hx hn hux c5
    simp only [Tree.live] at hx
    exact ⟨by omega, hxp⟩
  refine ⟨hp, hn, hn1, by omega, ?_, ?_, a4, ?_, ?_⟩
  · rcases hk with hk | hk
    · omega
    · exact (key _ ⟨le_of_lt hk.1, hk.2.1⟩ hk.2.2.2.2.2.1).2
  · rcases hk with hk | hk
    · omega
    · exact (key _ ⟨le_of_lt hk.2.2.1, hk.2.2.2.1⟩ hk.2.2.2.2.2.2).2
  · rcases hk with hk | hk
    · omega
    · exact (key _ ⟨le_of_lt hk.1, hk.2.1⟩ hk.2.2.2.2.2.1).1
  · rcases hk with hk | hk
    · omega
    · exact (key _ ⟨le_of_lt hk.2.2.1, hk.2.2.2.1⟩ hk.2.2.2.2.2.2).1

theorem removeLinks_tail_segments (M : CMath α) {t : Tree α} (h : WFL t) {p : Int}
    (ht : Tail t p) (i : Int) :
    (removeLinks M t (t.segments (t.currentNumberOfSegments - 1))).segments i =
      if i = p then
        { t.segments p with
            point := (t.segments (t.currentNumberOfSegments - 2)).point,
            left := (t.segments (t.currentNumberOfSegments - 2)).left,
            right := (t.segments (t.currentNumberOfSegments - 2)).right,
            flow := if t.isTerminal (t.currentNumberOfSegments - 2) then
              (t.segments (t.currentNumberOfSegments - 2)).flow else (t.segments p).flow }
      else if ¬ t.isTerminal (t.currentNumberOfSegments - 2) ∧
          (i = (t.segments (t.currentNumberOfSegments - 2)).left ∨
            i = (t.segments (t.currentNumberOfSegments - 2)).right) then
        { t.segments i with up := p }
      else t.segments i := by
  obtain ⟨f1, f2, f3, f4, f5, f6, f7, f8, f9⟩ := ht.facts h
  exact removeLinks_segments M t _ p _ ht.up_terminal ht.left_p f4 f5 f6 f7 i

theorem removeReattach_consts (t : Tree α) (seg : Segment α) :
    (removeReattach t seg).lengthUnit = t.lengthUnit ∧
    (removeReattach t seg).bloodViscosity = t.bloodViscosity ∧
    (removeReattach t seg).bifurcationExpoent = t.bifurcationExpoent ∧
    (removeReattach t seg).dimension = t.dimension ∧
    (removeReattach t seg).seed = t.seed ∧
    (removeReattach t seg).currentNumberOfTerminals = t.currentNumberOfTerminals ∧
    (removeReattach t seg).reducedHydrodynamicResistance = t.reducedHydrodynamicResistance ∧
    (removeReattach t seg)._length = t._length := by
  simp only [removeReattach]
  split <;> simp

theorem removeLinks_consts (M : CMath α) (t : Tree α) (seg : Segment α) :
    (removeLinks M t seg).lengthUnit = t.lengthUnit ∧
    (removeLinks M t seg).bloodViscosity = t.bloodViscosity ∧
    (removeLinks M t seg).bifurcationExpoent = t.bifurcationExpoent ∧
    (removeLinks M t seg).dimension = t.dimension ∧
    (removeLinks M t seg).seed = t.seed ∧
    (removeLinks M t seg).currentNumberOfTerminals = t.currentNumberOfTerminals ∧
    (removeLinks M t seg).reducedHydrodynamicResistance = t.reducedHydrodynamicResistance := by
  obtain ⟨a1, a2, a3, a4, a5, a6, a7, a8⟩ := removeReattach_consts t seg
  exact ⟨a1, a2, a3, a4, a5, a6, a7⟩

theorem removeLinks_length (M : CMath α) (t : Tree α) (seg : Segment α) (i : Int) :
    (removeLinks M t seg)._length i =
      if i = seg.up then
        distance M t.dimension ((removeLinks M t seg).proximalPoint seg.up)
          ((removeLinks M t seg).distalPoint seg.up)
      else t._length i := by
  obtain ⟨a1, a2, a3, a4, a5, a6, a7, a8⟩ := removeReattach_consts t seg
  simp only [removeLinks, Tree.proximalPoint, Tree.distalPoint, Tree.isRoot, setLength_length,
    setLength_segments, setLength_seed, a4, a8]

theorem removeLinks_tail_fields (M : CMath α) {t : Tree α} (h : WFL t) {p : Int}
    (ht : Tail t p) (i : Int) (hi : i ≠ p) :
    ((removeLinks M t (t.segments (t.currentNumberOfSegments - 1))).segments i).left =
        (t.segments i).left ∧
    ((removeLinks M t (t.segments (t.currentNumberOfSegments - 1))).segments i).right =
        (t.segments i).right ∧
    ((removeLinks M t (t.segments (t.currentNumberOfSegments - 1))).segments i).flow =
        (t.segments i).flow ∧
    ((removeLinks M t (t.segments (t.currentNumberOfSegments - 1))).segments i).bifurcationRatioLeft =
        (t.segments i).bifurcationRatioLeft ∧
    ((removeLinks M t (t.segments (t.currentNumberOfSegments - 1))).segments i).bifurcationRatioRight =
        (t.segments i).bifurcationRatioRight ∧
    ((removeLinks M t (t.segments (t.currentNumberOfSegments - 1))).segments i).point =
        (t.segments i).point ∧
    ((removeLinks M t (t.segments (t.currentNumberOfSegments - 1))).segments i).up =
      if ¬ t.isTerminal (t.currentNumberOfSegments - 2) ∧
          (i = (t.segments (t.currentNumberOfSegments - 2)).left ∨
            i = (t.segments (t.currentNumberOfSegments - 2)).right) then p
      else (t.segments i).up := by
  rw [removeLinks_tail_segments M h ht, if_neg hi]
  split_ifs <;> exact ⟨rfl, rfl, rfl, rfl, rfl, rfl, rfl⟩

theorem removeLinks_tail_point_p (M : CMath α) {t : Tree α} (h : WFL t) {p : Int}
    (ht : Tail t p) :
    ((removeLinks M t (t.segments (t.currentNumberOfSegments - 1))).segments p).point =
      (t.segments (t.currentNumberOfSegments - 2)).point := by
  rw [removeLinks_tail_segments M h ht, if_pos rfl]

theorem removeLinks_lenInv (M : CMath α) {t : Tree α} (h : WFL t) {p : Int} (ht : Tail t p)
    (hlen : LenInv M t) :
    LenInv M (removeLinks M t (t.segments (t.currentNumberOfSegments - 1))) := by
  intro i hi
  obtain ⟨f1, f2, f3, f4, f5, f6, f7, f8, f9⟩ := ht.facts h
  obtain ⟨k1, k2, k3, k4, k5, k6, k7⟩ :=
    removeLinks_consts M t (t.segments (t.currentNumberOfSegments - 1))
  simp only [Tree.live, removeLinks_cur] at hi
  rw [removeLinks_length, ht.up_terminal, k4]
  by_cases c1 : i = p
  · rw [if_pos c1, c1]
  rw [if_neg c1]
  have hil : t.live i := ⟨hi.1, by omega⟩
  obtain ⟨g1, g2, g3, g4, g5, g6, g7⟩ := removeLinks_tail_fields M h ht i c1
  rw [hlen i hil, Tree.distalPoint, Tree.distalPoint, g6, proximalPoint_eq, proximalPoint_eq]
  by_cases c0 : i = 0
  · rw [if_pos c0, if_pos c0, k5]
  rw [if_neg c0, if_neg c0, g7]
  have hk := h.kids _ f2
  split_ifs with c2
  · rw [removeLinks_tail_point_p M h ht]
    have : (t.segments i).up = t.currentNumberOfSegments - 2 := by
      rcases hk with hk | hk
      · exact absurd ((isTerminal_iff t _).2 hk) c2.1
      · rcases c2.2 with e | e
        · rw [e]; exact hk.2.2.2.2.2.1
        · rw [e]; exact hk.2.2.2.2.2.2
    rw [this]
  · have hqc := h.up_child i hil c0
    have : (t.segments i).up ≠ p := by
      intro e; rw [e, ht.left_p, ht.right_p] at hqc; omega
    rw [(removeLinks_tail_fields M h ht _ this).2.2.2.2.2.1]

theorem removeLinks_pregood (M : CMath α) {t : Tree α} (h : WFL t) {p : Int} (ht : Tail t p)
    (h1 : WFL (removeLinks M t (t.segments (t.currentNumberOfSegments - 1))))
    (hg : ∀ i, t.live i → Good M t i) :
    ∀ j, (removeLinks M t (t.segments (t.currentNumberOfSegments - 1))).live j →
      ¬ OnPath (removeLinks M t (t.segments (t.currentNumberOfSegments - 1))) p j →
      Good M (removeLinks M t (t.segments (t.currentNumberOfSegments - 1))) j := by
  intro j hj hnp
  obtain ⟨f1, f2, f3, f4, f5, f6, f7, f8, f9⟩ := ht.facts h
  obtain ⟨k1, k2, k3, k4, k5, k6, k7⟩ :=
    removeLinks_consts M t (t.segments (t.currentNumberOfSegments - 1))
  have hjp : j ≠ p := by intro e; subst e; exact hnp (OnPath.self _)
  have hj' := hj
  simp only [Tree.live, removeLinks_cur] at hj'
  have hjl : t.live j := ⟨hj'.1, by omega⟩
  have hp1 : (removeLinks M t (t.segments (t.currentNumberOfSegments - 1))).live p := by
    simp only [Tree.live, removeLinks_cur]; exact ⟨ht.p_nonneg, ht.p_lt⟩
  obtain ⟨g1, g2, g3, g4, g5, g6, g7⟩ := removeLinks_tail_fields M h ht j hjp
  have c1 : (t.segments j).left ≠ p := by
    intro e; exact hnp (OnPath.of_child h1 hp1 hj (Or.inl (by rw [g1]; exact e)))
  have c2 : (t.segments j).right ≠ p := by
    intro e; exact hnp (OnPath.of_child h1 hp1 hj (Or.inr (by rw [g2]; exact e)))
  refine Good.congr' M ⟨g1, g2, g3, g4, g5⟩ (by rw [k7])
    (by rw [removeLinks_length, ht.up_terminal, if_neg hjp]) k1 (by rw [k2]) (by rw [k3])
    (removeLinks_tail_fields M h ht _ c1).2.2.1 (removeLinks_tail_fields M h ht _ c2).2.2.1
    (by rw [k7]) (by rw [k7]) (hg j hjl)

/-! ## The part of `moveDistalPoint` before `update` -/

theorem moveDistalPointLengths_consts (M : CMath α) (t : Tree α) (s : Int) (x : Point α) :
    (moveDistalPointLengths M t s x).lengthUnit = t.lengthUnit ∧
    (moveDistalPointLengths M t s x).bloodViscosity = t.bloodViscosity ∧
    (moveDistalPointLengths M t s x).bifurcationExpoent = t.bifurcationExpoent ∧
    (moveDistalPointLengths M t s x).dimension = t.dimension ∧
    (moveDistalPointLengths M t s x).seed = t.seed ∧
    (moveDistalPointLengths M t s x).currentNumberOfTerminals = t.currentNumberOfTerminals := by
  simp only [moveDistalPointLengths, moveSetPoint, moveChildLength]
  split <;> simp

theorem moveDistalPointLengths_isTerminal (M : CMath α) (t : Tree α) (s : Int) (x : Point α)
    (i : Int) : (moveDistalPointLengths M t s x).isTerminal i = t.isTerminal i := by
  simp only [Tree.isTerminal, moveDistalPointLengths_segments]
  split_ifs with h
  · subst h; rfl
  · rfl

theorem moveSetPoint_isTerminal (M : CMath α) (t : Tree α) (s : Int) (x : Point α)
    (i : Int) : (moveSetPoint M t s x).isTerminal i = t.isTerminal i := by
  simp only [Tree.isTerminal, moveSetPoint, setLength_segments, setSeg_segments]
  split_ifs with h
  · subst h; rfl
  · rfl

theorem moveSetPoint_segments (M : CMath α) (t : Tree α) (s : Int) (x : Point α) (i : Int) :
    (moveSetPoint M t s x).segments i =
      if i = s then { t.segments s with point := x } else t.segments i := by
  simp [moveSetPoint]

theorem moveDistalPointLengths_proximalPoint (M : CMath α) {t : Tree α} (h : WFL t) {s : Int}
    (hs : t.live s) (x : Point α) :
    (moveDistalPointLengths M t s x).proximalPoint s = t.proximalPoint s ∧
    (moveSetPoint M t s x).proximalPoint s = t.proximalPoint s := by
  rw [proximalPoint_eq, proximalPoint_eq, proximalPoint_eq,
    (moveDistalPointLengths_consts M t s x).2.2.2.2.1]
  by_cases c0 : s = 0
  · rw [if_pos c0, if_pos c0, if_pos c0]; exact ⟨rfl, rfl⟩
  · obtain ⟨d, B, hd⟩ := h.rank
    have := (hd s hs).2 c0
    have e : (t.segments s).up ≠ s := by intro e; rw [e] at this; omega
    simp only [if_neg c0, moveDistalPointLengths_segments, moveSetPoint_segments, if_true,
      if_neg e, and_self]

theorem moveChildLength_length (M : CMath α) (u : Tree α) (c : Int) (x : Point α) (i : Int) :
    (moveChildLength M u c x)._length i =
      (if i = c then distance M u.dimension x (u.segments c).point else u._length i) := by
  simp [moveChildLength, Tree.distalPoint]

theorem moveChildLength_resistance (M : CMath α) (u : Tree α) (c : Int) (x : Point α)
    (i : Int) :
    (moveChildLength M u c x).reducedHydrodynamicResistance i =
      (if i = c then
        u.reducedHydrodynamicResistance c + poiseuilleLawConstant M *
          (u.bloodViscosity c * distance M u.dimension x (u.segments c).point -
            u.bloodViscosity c * u._length c)
       else u.reducedHydrodynamicResistance i) := by
  simp [moveChildLength, Tree.distalPoint]

theorem moveChildLength_segments (M : CMath α) (u : Tree α) (c : Int) (x : Point α) :
    (moveChildLength M u c x).segments = u.segments := by
  simp [moveChildLength]

theorem moveChildLength_dimension (M : CMath α) (u : Tree α) (c : Int) (x : Point α) :
    (moveChildLength M u c x).dimension = u.dimension := by
  simp [moveChildLength]

theorem moveChildLength_bloodViscosity (M : CMath α) (u : Tree α) (c : Int) (x : Point α) :
    (moveChildLength M u c x).bloodViscosity = u.bloodViscosity := by
  simp [moveChildLength]

theorem moveSetPoint_fields (M : CMath α) (t : Tree α) (s : Int) (x : Point α) (i : Int) :
    (moveSetPoint M t s x)._length i =
      (if i = s then distance M t.dimension ((moveSetPoint M t s x).proximalPoint s) x
       else t._length i) ∧
    (moveSetPoint M t s x).reducedHydrodynamicResistance = t.reducedHydrodynamicResistance ∧
    (moveSetPoint M t s x).dimension = t.dimension ∧
    (moveSetPoint M t s x).bloodViscosity = t.bloodViscosity := by
  simp [moveSetPoint, Tree.proximalPoint, Tree.isRoot]

theorem moveDistalPointLengths_terminal (M : CMath α) {t : Tree α} (h : WFL t) {s : Int}
    (hs : t.live s) (x : Point α) (ht : t.isTerminal s = true) (i : Int) :
    (moveDistalPointLengths M t s x)._length i =
      (if i = s then distance M t.dimension (t.proximalPoint s) x else t._length i) ∧
    (moveDistalPointLengths M t s x).reducedHydrodynamicResistance i =
      t.reducedHydrodynamicResistance i := by
  have e := moveSetPoint_isTerminal M t s x s
  rw [ht] at e
  simp only [moveDistalPointLengths, e, Bool.not_true, Bool.false_eq_true, if_false]
  obtain ⟨a1, a2, a3, a4⟩ := moveSetPoint_fields M t s x i
  rw [a1, a2, (moveDistalPointLengths_proximalPoint M h hs x).2]
  exact ⟨rfl, rfl⟩

theorem moveDistalPointLengths_bifurcation (M : CMath α) {t : Tree α} (h : WFL t) {s : Int}
    (hs : t.live s) (x : Point α) (ht : ¬ t.isTerminal s = true) (i : Int) :
    (moveDistalPointLengths M t s x)._length i =
      (if i = (t.segments s).right then
         distance M t.dimension x (t.segments (t.segments s).right).point
       else if i = (t.segments s).left then
         distance M t.dimension x (t.segments (t.segments s).left).point
       else if i = s then distance M t.dimension (t.proximalPoint s) x
       else t._length i) ∧
    (moveDistalPointLengths M t s x).reducedHydrodynamicResistance i =
      (if i = (t.segments s).right ∨ i = (t.segments s).left then
         t.reducedHydrodynamicResistance i + poiseuilleLawConstant M *
           (t.bloodViscosity i * distance M t.dimension x (t.segments i).point -
             t.bloodViscosity i * t._length i)
       else t.reducedHydrodynamicResistance i) := by
  have e := moveSetPoint_isTerminal M t s x s
  have ht' : t.isTerminal s = false := by simpa using ht
  rw [ht'] at e
  obtain ⟨a1, a2, a3, a4, a5⟩ := h.parent_facts hs
  have hk := h.kids s hs
  have hlr : (t.segments s).left ≠ (t.segments s).right := by
    rcases hk with hk | hk
    · exact absurd ((isTerminal_iff t s).2 hk) ht
    · exact hk.2.2.2.2.1
  simp only [moveDistalPointLengths, e, Bool.not_false, if_true]
  have hm1 : ∀ i, (moveSetPoint M t s x)._length i = _ := fun i => (moveSetPoint_fields M t s x i).1
  have hm2 := (moveSetPoint_fields M t s x 0).2.1
  have hm3 := (moveSetPoint_fields M t s x 0).2.2.1
  have hm4 := (moveSetPoint_fields M t s x 0).2.2.2
  have hseg := moveSetPoint_segments M t s x
  have n1 : ¬ ((t.segments s).right = s) := a5
  have n2 : ¬ ((t.segments s).left = s) := a4
  have n3 : ¬ ((t.segments s).right = (t.segments s).left) := fun h => hlr h.symm
  simp only [moveChildLength_length, moveChildLength_resistance, moveChildLength_segments,
    moveChildLength_dimension, moveChildLength_bloodViscosity, hm1, hm2, hm3, hm4, hseg, if_true,
    (moveDistalPointLengths_proximalPoint M h hs x).2, n1, n2, n3, if_false]
  refine ⟨trivial, ?_⟩
  by_cases c1 : i = (t.segments s).right
  · subst c1; simp
  by_cases c2 : i = (t.segments s).left
  · subst c2; simp [hlr]
  simp [c1, c2]

/-- `Good` survives a change of the segment's length when its resistance is corrected by the
change of its Poiseuille term, as `moveDistalPoint` does for the two children. -/
theorem Good.shift (M : CMath α) {t t' : Tree α} {i : Int}
    (h1 : (t'.segments i).left = (t.segments i).left ∧
      (t'.segments i).right = (t.segments i).right ∧
      (t'.segments i).flow = (t.segments i).flow ∧
      (t'.segments i).bifurcationRatioLeft = (t.segments i).bifurcationRatioLeft ∧
      (t'.segments i).bifurcationRatioRight = (t.segments i).bifurcationRatioRight)
    (h2 : t'.reducedHydrodynamicResistance i = t.reducedHydrodynamicResistance i +
      poiseuilleLawConstant M * (t.bloodViscosity i * t'._length i -
        t.bloodViscosity i * t._length i))
    (h4 : t'.lengthUnit = t.lengthUnit) (hlu : t.lengthUnit = 1)
    (h5 : t'.bloodViscosity i = t.bloodViscosity i)
    (h6 : t'.bifurcationExpoent i = t.bifurcationExpoent i)
    (h7 : (t'.segments (t.segments i).left).flow = (t.segments (t.segments i).left).flow)
    (h8 : (t'.segments (t.segments i).right).flow = (t.segments (t.segments i).right).flow)
    (h9 : t'.reducedHydrodynamicResistance (t.segments i).left =
      t.reducedHydrodynamicResistance (t.segments i).left)
    (h10 : t'.reducedHydrodynamicResistance (t.segments i).right =
      t.reducedHydrodynamicResistance (t.segments i).right)
    (h : Good M t i) : Good M t' i := by
  unfold Good at h ⊢
  obtain ⟨a1, a2, a3, a4, a5⟩ := h1
  have e : t'.isTerminal i = t.isTerminal i := by simp [Tree.isTerminal, a1, a2]
  simp only [e, Tree.leftSegment, Tree.rightSegment, Tree.length, a1, a2, a3, a4, a5, h2, h4,
    h5, h6, h7, h8, h9, h10, hlu, one_mul]
  simp only [Tree.leftSegment, Tree.rightSegment, Tree.length, hlu, one_mul] at h
  split_ifs at h ⊢ with c
  · exact ⟨by rw [h.1]; ring, h.2⟩
  · exact ⟨h.1, h.2.1, h.2.2.1, by rw [h.2.2.2]; ring⟩

theorem moveDistalPointLengths_up (M : CMath α) (t : Tree α) (s : Int) (x : Point α) (j : Int) :
    ((moveDistalPointLengths M t s x).segments j).up = (t.segments j).up := by
  rw [moveDistalPointLengths_segments]; split_ifs with e
  · subst e; rfl
  · rfl

theorem moveDistalPointLengths_point (M : CMath α) (t : Tree α) (s : Int) (x : Point α)
    (j : Int) :
    ((moveDistalPointLengths M t s x).segments j).point =
      if j = s then x else (t.segments j).point := by
  rw [moveDistalPointLengths_segments]; split_ifs <;> rfl

theorem moveDistalPointLengths_lenInv (M : CMath α) {t : Tree α} (h : WFL t) {s : Int}
    (hs : t.live s) (x : Point α) (hlen : LenInv M t) :
    LenInv M (moveDistalPointLengths M t s x) := by
  intro i hi
  simp only [Tree.live, moveDistalPointLengths_cur] at hi
  have hil : t.live i := hi
  obtain ⟨k1, k2, k3, k4, k5, k6⟩ := moveDistalPointLengths_consts M t s x
  have hk := h.kids s hs
  have hprox : ∀ j, t.live j → j ≠ s → (t.segments j).left ≠ j →
      ((t.segments s).left ≠ j ∧ (t.segments s).right ≠ j) →
      (moveDistalPointLengths M t s x).proximalPoint j = t.proximalPoint j := by
    intro j hj hjs _ hch
    rw [proximalPoint_eq, proximalPoint_eq, k5]
    by_cases c0 : j = 0
    · rw [if_pos c0, if_pos c0]
    · have := h.up_child j hj c0
      have e : (t.segments j).up ≠ s := by
        intro e; rw [e] at this; rcases this with e | e
        · exact hch.1 e
        · exact hch.2 e
      rw [if_neg c0, if_neg c0, moveDistalPointLengths_up, moveDistalPointLengths_point,
        if_neg e]
  have hproxc : ∀ j, 0 < j → j ≠ s → (t.segments j).up = s →
      (moveDistalPointLengths M t s x).proximalPoint j = x := by
    intro j hj hjs hu
    rw [proximalPoint_eq, if_neg (by omega), moveDistalPointLengths_up, hu,
      moveDistalPointLengths_point, if_pos rfl]
  have hdist : ∀ j, j ≠ s → (moveDistalPointLengths M t s x).distalPoint j = t.distalPoint j := by
    intro j hjs
    rw [Tree.distalPoint, Tree.distalPoint, moveDistalPointLengths_segments, if_neg hjs]
  have hdists : (moveDistalPointLengths M t s x).distalPoint s = x := by
    rw [Tree.distalPoint, moveDistalPointLengths_segments, if_pos rfl]
  obtain ⟨a1, a2, a3, a4, a5⟩ := h.parent_facts hs
  obtain ⟨b1, b2, b3, b4, b5⟩ := h.parent_facts hil
  rw [k4]
  by_cases ht : t.isTerminal s = true
  · rw [(moveDistalPointLengths_terminal M h hs x ht i).1]
    by_cases c1 : i = s
    · subst c1
      rw [if_pos rfl, hdists, (moveDistalPointLengths_proximalPoint M h hil x).1]
    · have hts := (isTerminal_iff t s).1 ht
      rw [if_neg c1, hlen i hil, hdist i c1, hprox i hil c1 b4 (by
        simp only [Tree.live] at hil; omega)]
  · rw [(moveDistalPointLengths_bifurcation M h hs x ht i).1]
    have hk' : 0 < (t.segments s).left ∧ 0 < (t.segments s).right ∧
        (t.segments (t.segments s).left).up = s ∧ (t.segments (t.segments s).right).up = s := by
      rcases hk with hk | hk
      · exact absurd ((isTerminal_iff t s).2 hk) ht
      · exact ⟨hk.1, hk.2.2.1, hk.2.2.2.2.2.1, hk.2.2.2.2.2.2⟩
    by_cases c1 : i = (t.segments s).right
    · rw [if_pos c1, c1, hproxc _ hk'.2.1 a5 hk'.2.2.2, hdist _ a5, Tree.distalPoint]
    rw [if_neg c1]
    by_cases c2 : i = (t.segments s).left
    · rw [if_pos c2, c2, hproxc _ hk'.1 a4 hk'.2.2.1, hdist _ a4, Tree.distalPoint]
    rw [if_neg c2]
    by_cases c3 : i = s
    · subst c3
      rw [if_pos rfl, hdists, (moveDistalPointLengths_proximalPoint M h hil x).1]
    · rw [if_neg c3, hlen i hil, hdist i c3, hprox i hil c3 b4
        ⟨fun e => c2 e.symm, fun e => c1 e.symm⟩]

theorem moveDistalPointLengths_fields (M : CMath α) (t : Tree α) (s : Int) (x : Point α)
    (i : Int) :
    ((moveDistalPointLengths M t s x).segments i).left = (t.segments i).left ∧
    ((moveDistalPointLengths M t s x).segments i).right = (t.segments i).right ∧
    ((moveDistalPointLengths M t s x).segments i).flow = (t.segments i).flow ∧
    ((moveDistalPointLengths M t s x).segments i).bifurcationRatioLeft =
      (t.segments i).bifurcationRatioLeft ∧
    ((moveDistalPointLengths M t s x).segments i).bifurcationRatioRight =
      (t.segments i).bifurcationRatioRight := by
  rw [moveDistalPointLengths_segments]; split_ifs with e
  · subst e; exact ⟨rfl, rfl, rfl, rfl, rfl⟩
  · exact ⟨rfl, rfl, rfl, rfl, rfl⟩

/-- Before `moveDistalPoint` calls `update`, every live segment other than the moved one
already holds consistent values. -/
theorem moveDistalPointLengths_pregood (M : CMath α) {t : Tree α} (h : WFL t) {s : Int}
    (hs : t.live s) (x : Point α) (hg : ∀ i, t.live i → Good M t i) (hlu : t.lengthUnit = 1) :
    ∀ j, t.live j → j ≠ s → Good M (moveDistalPointLengths M t s x) j := by
  intro j hj hjs
  obtain ⟨k1, k2, k3, k4, k5, k6⟩ := moveDistalPointLengths_consts M t s x
  have hk := h.kids s hs
  have hjk := h.kids j hj
  have hfl := fun i => (moveDistalPointLengths_fields M t s x i).2.2.1
  -- the resistances of the children of `j` are not touched
  have hRc : ∀ c, ((t.segments j).left = c ∨ (t.segments j).right = c) →
      (moveDistalPointLengths M t s x).reducedHydrodynamicResistance c =
        t.reducedHydrodynamicResistance c := by
    intro c hc
    by_cases ht : t.isTerminal s = true
    · exact (moveDistalPointLengths_terminal M h hs x ht c).2
    · have hk' : (t.segments (t.segments s).left).up = s ∧
          (t.segments (t.segments s).right).up = s ∧ 0 < (t.segments s).left ∧
          0 < (t.segments s).right := by
        rcases hk with hk | hk
        · exact absurd ((isTerminal_iff t s).2 hk) ht
        · exact ⟨hk.2.2.2.2.2.1, hk.2.2.2.2.2.2, hk.1, hk.2.2.1⟩
      have hne : ¬ (c = (t.segments s).right ∨ c = (t.segments s).left) := by
        intro hcl
        rcases hjk with hjk | hjk
        · rcases hc with e | e <;> rcases hcl with e' | e' <;> omega
        · have hu : (t.segments c).up = j := by
            rcases hc with e | e
            · rw [← e]; exact hjk.2.2.2.2.2.1
            · rw [← e]; exact hjk.2.2.2.2.2.2
          have hu' : (t.segments c).up = s := by
            rcases hcl with e' | e'
            · rw [e']; exact hk'.2.1
            · rw [e']; exact hk'.1
          exact hjs (hu.symm.trans hu')
      rw [(moveDistalPointLengths_bifurcation M h hs x ht c).2, if_neg hne]
  have hcase : (¬ t.isTerminal s = true ∧ (j = (t.segments s).right ∨ j = (t.segments s).left)) ∨
      ((moveDistalPointLengths M t s x).reducedHydrodynamicResistance j =
          t.reducedHydrodynamicResistance j ∧
        (moveDistalPointLengths M t s x)._length j = t._length j) := by
    by_cases ht : t.isTerminal s = true
    · right
      obtain ⟨e1, e2⟩ := moveDistalPointLengths_terminal M h hs x ht j
      rw [if_neg hjs] at e1
      exact ⟨e2, e1⟩
    · by_cases c1 : j = (t.segments s).right ∨ j = (t.segments s).left
      · left; exact ⟨ht, c1⟩
      · right
        obtain ⟨e1, e2⟩ := moveDistalPointLengths_bifurcation M h hs x ht j
        rw [if_neg c1] at e2
        rw [if_neg (fun e => c1 (Or.inl e)), if_neg (fun e => c1 (Or.inr e)), if_neg hjs] at e1
        exact ⟨e2, e1⟩
  rcases hcase with ⟨ht, c1⟩ | ⟨e1, e2⟩
  · obtain ⟨e1, e2⟩ := moveDistalPointLengths_bifurcation M h hs x ht j
    rw [if_pos c1] at e2
    have e1' : (moveDistalPointLengths M t s x)._length j =
        distance M t.dimension x (t.segments j).point := by
      rw [e1]
      rcases c1 with c1 | c1
      · rw [if_pos c1, c1]
      · by_cases c2 : j = (t.segments s).right
        · rw [if_pos c2, c2]
        · rw [if_neg c2, if_pos c1, c1]
    refine Good.shift M (moveDistalPointLengths_fields M t s x j) (by rw [e2, e1']) k1 hlu
      (by rw [k2]) (by rw [k3]) (hfl _) (hfl _) (hRc _ (Or.inl rfl)) (hRc _ (Or.inr rfl))
      (hg j hj)
  · exact Good.congr' M (moveDistalPointLengths_fields M t s x j) e1 e2 k1 (by rw [k2])
      (by rw [k3]) (hfl _) (hfl _) (hRc _ (Or.inl rfl)) (hRc _ (Or.inr rfl)) (hg j hj)

/-! ## The numeric invariant of the reachable states -/

theorem Frame.proximalPoint {t t' : Tree α} (h : Frame t t') (i : Int) :
    t'.proximalPoint i = t.proximalPoint i := by
  rw [proximalPoint_eq, proximalPoint_eq, h.seed, (h.segments i).2.2.2.1,
    (h.segments _).2.1]

theorem Frame.distalPoint {t t' : Tree α} (h : Frame t t') (i : Int) :
    t'.distalPoint i = t.distalPoint i := (h.segments i).2.1

theorem Frame.lenInv (M : CMath α) {t t' : Tree α} (h : Frame t t') (hl : LenInv M t) :
    LenInv M t' := by
  intro i hi
  rw [h.length, h.dimension, h.proximalPoint, h.distalPoint]
  exact hl i (by simp only [Tree.live, ← h.currentNumberOfSegments]; exact hi)

theorem growRoot_fields (M : CMath α) (t : Tree α) (r : Segment α) :
    (growRoot M t r).2.reducedHydrodynamicResistance 0 =
      poiseuilleLawConstant M * t.bloodViscosity 0 * distance M t.dimension t.seed r.point ∧
    (growRoot M t r).2._length 0 = distance M t.dimension t.seed r.point ∧
    (growRoot M t r).2.lengthUnit = t.lengthUnit ∧
    (growRoot M t r).2.bloodViscosity = t.bloodViscosity ∧
    (growRoot M t r).2.bifurcationExpoent = t.bifurcationExpoent ∧
    (growRoot M t r).2.dimension = t.dimension ∧
    (growRoot M t r).2.seed = t.seed := by
  simp only [growRoot, copy, rootID]
  split_ifs <;> simp

theorem growRoot_numInv (M : CMath α) {t : Tree α} (hf : t.Fresh) (dim : Int) (point : Point α)
    (flow : α) (hlu : t.lengthUnit = 1) :
    NumInv M (growRoot M t (Segment.make dim point flow)).2 := by
  obtain ⟨f1, f2, f3, f4, f5, f6, f7⟩ := growRoot_fields M t (Segment.make dim point flow)
  have hseg := growRoot_segments M t dim point flow
  refine ⟨?_, ?_, ?_⟩
  · intro i hi
    simp only [Tree.live, growRoot_cur] at hi
    have : i = 0 := by omega
    subst this
    rw [f2, f6, proximalPoint_eq, if_pos rfl, f7, Tree.distalPoint, hseg, if_pos rfl]
    rfl
  · intro i hi
    simp only [Tree.live, growRoot_cur] at hi
    have : i = 0 := by omega
    subst this
    have ht : (growRoot M t (Segment.make dim point flow)).2.isTerminal 0 = true := by
      rw [isTerminal_iff, hseg, if_pos rfl]; exact ⟨rfl, rfl⟩
    unfold Good
    rw [if_pos ht, f1, Tree.length, f2, f3, f4, hlu, one_mul, hseg, if_pos rfl]
    exact ⟨rfl, rfl, rfl⟩
  · intro i hi _
    rw [growRoot_cur] at hi
    rw [hseg, if_neg (by omega)]
    obtain ⟨d, e⟩ := hf.2.2 i
    rw [e]; exact ⟨rfl, rfl⟩

theorem WFL.of_setTerms {t : Tree α} {v : Int}
    (h : WFL { t with currentNumberOfTerminals := v }) : WFL t :=
  @SameLinks.wfl_links α _ t { t with currentNumberOfTerminals := v }
    ⟨rfl, fun _ _ => ⟨rfl, rfl, rfl, rfl⟩⟩ h

theorem growSegment_numInv (M : CMath α) {fuel : Nat} {b : Point α} {p : Int} {c : Segment α}
    {t : Tree α} {r : Segment α × Tree α} (hR : Reach M t) (hp : t.live p)
    (hr : growSegment M fuel b (t.segments p) c t = some r) (hn : NumInv M t)
    (hlu : t.lengthUnit = 1) (hγ : ∀ i j, t.bifurcationExpoent i = t.bifurcationExpoent j) :
    NumInv M r.2 := by
  have hR' := Reach.grow fuel b p c t r hR hp hr
  obtain ⟨t2, ht2, rfl⟩ := growSegment_eq_some hr
  have hf := updateLoop_frame M _ _ _ _ ht2
  obtain ⟨hlen, hgood, hdr⟩ := hn
  have hw := hR.wfl
  obtain ⟨s, hs, hsl, hde⟩ := hR.linkInv
  have hw1 : WFL (growSegmentLinks M b (t.segments p) c t) :=
    hf.sameLinks.symm.wfl_links (WFL.of_setTerms hR'.wfl)
  have hid : ((growSegmentLinks M b (t.segments p) c t).segments p).ID = p := by
    have hpl := hp
    simp only [Tree.live] at hpl
    rw [growSegmentLinks_ID M b c hw hp, if_neg (by omega), hw.ids p hp]
  rw [hw.ids p hp, hid] at ht2
  have hp1 : (growSegmentLinks M b (t.segments p) c t).live p := by
    simp only [Tree.live, growSegmentLinks_cur] at hp ⊢; omega
  obtain ⟨r1, r2, r3⟩ := updateLoop_good M hw1 fuel _ _ p (Frame.refl _) hp1 ht2
    (fun j hj hnp => growSegmentLinks_pregood M b c hw hde hgood hdr hlu hγ hp j hj
      (by intro e; subst e; exact hnp (OnPath.self _)))
  refine ⟨?_, ?_, ?_⟩
  · exact hf.lenInv M (growSegmentLinks_lenInv M b c hw hlen hp)
  · intro i hi
    exact r1 i (by simp only [Tree.live, ← hf.currentNumberOfSegments]; exact hi)
  · intro i hi hev
    have hi' : t.currentNumberOfSegments + 2 ≤ i := by
      have := hf.currentNumberOfSegments
      rw [growSegmentLinks_cur] at this
      have e : t2.currentNumberOfSegments ≤ i := hi
      omega
    have hnp : ¬ OnPath (growSegmentLinks M b (t.segments p) c t) p i := by
      intro hp'
      have := hp'.live hw1 hp1
      simp only [Tree.live, growSegmentLinks_cur] at this
      omega
    have e : t2.segments i = (growSegmentLinks M b (t.segments p) c t).segments i := (r2 i hnp).1
    show (t2.segments i).bifurcationRatioLeft = 1 ∧ (t2.segments i).bifurcationRatioRight = 1
    rw [e, (growSegmentLinks_ratios M b c hw hp i).1, (growSegmentLinks_ratios M b c hw hp i).2,
      if_neg (by omega), if_neg (by omega)]
    exact hdr i (by omega) hev

theorem remove_numInv (M : CMath α) {fuel : Nat} {t : Tree α} {r : Segment α × Tree α}
    (hR : Reach M t) (hc : 1 < t.currentNumberOfSegments)
    (hr : remove M fuel t (t.segments (t.currentNumberOfSegments - 1)) = some r)
    (hn : NumInv M t) : NumInv M r.2 := by
  have hR' := Reach.remove fuel t r hR hc hr
  obtain ⟨t2, ht2, rfl⟩ := remove_eq_some hr
  have hf := updateLoop_frame M _ _ _ _ ht2
  obtain ⟨hlen, hgood, hdr⟩ := hn
  have hw := hR.wfl
  obtain ⟨p, htl⟩ := hR.tail hc
  obtain ⟨f1, f2, f3, f4, f5, f6, f7, f8, f9⟩ := htl.facts hw
  have hw1 : WFL (removeLinks M t (t.segments (t.currentNumberOfSegments - 1))) :=
    hf.sameLinks.symm.wfl_links (WFL.of_setTerms hR'.wfl)
  have hid : ((removeLinks M t (t.segments (t.currentNumberOfSegments - 1))).segments p).ID =
      p := by
    rw [removeLinks_tail_segments M hw htl, if_pos rfl]
    exact hw.ids p f1
  rw [htl.up_terminal, hid] at ht2
  have hp1 : (removeLinks M t (t.segments (t.currentNumberOfSegments - 1))).live p := by
    simp only [Tree.live, removeLinks_cur]; exact ⟨htl.p_nonneg, htl.p_lt⟩
  obtain ⟨r1, r2, r3⟩ := updateLoop_good M hw1 fuel _ _ p (Frame.refl _) hp1 ht2
    (removeLinks_pregood M hw htl hw1 hgood)
  refine ⟨?_, ?_, ?_⟩
  · exact hf.lenInv M (removeLinks_lenInv M hw htl hlen)
  · intro i hi
    exact r1 i (by simp only [Tree.live, ← hf.currentNumberOfSegments]; exact hi)
  · intro i hi hev
    have hi' : t.currentNumberOfSegments - 2 ≤ i := by
      have := hf.currentNumberOfSegments
      rw [removeLinks_cur] at this
      have e : t2.currentNumberOfSegments ≤ i := hi
      omega
    have hnp : ¬ OnPath (removeLinks M t (t.segments (t.currentNumberOfSegments - 1))) p i := by
      intro hp'
      have := hp'.live hw1 hp1
      simp only [Tree.live, removeLinks_cur] at this
      omega
    have e : t2.segments i = (removeLinks M t (t.segments (t.currentNumberOfSegments - 1))).segments i :=
      (r2 i hnp).1
    show (t2.segments i).bifurcationRatioLeft = 1 ∧ (t2.segments i).bifurcationRatioRight = 1
    have hip : i ≠ p := by have := htl.p_lt; omega
    obtain ⟨g1, g2, g3, g4, g5, g6, g7⟩ := removeLinks_tail_fields M hw htl i hip
    rw [e, g4, g5]
    have hodd := hw.odd
    by_cases c1 : i = t.currentNumberOfSegments - 1
    · have hg := hgood _ f3
      unfold Good at hg
      rw [if_pos ((isTerminal_iff t _).2 ⟨htl.left_terminal, htl.right_terminal⟩)] at hg
      rw [c1]; exact hg.2
    · exact hdr i (by omega) hev

theorem moveDistalPoint_numInv (M : CMath α) {fuel : Nat} {s : Int} {x : Point α}
    {t t' : Tree α} (hR : Reach M t) (hs : t.live s)
    (hr : moveDistalPoint M fuel t s x = some t') (hn : NumInv M t) (hlu : t.lengthUnit = 1) :
    NumInv M t' := by
  have hf := updateLoop_frame M _ _ _ _ hr
  obtain ⟨hlen, hgood, hdr⟩ := hn
  have hw := hR.wfl
  have hw1 : WFL (moveDistalPointLengths M t s x) :=
    (moveDistalPointLengths_sameLinks M t s x).wfl_links hw
  have hid : ((moveDistalPointLengths M t s x).segments s).ID = s := by
    rw [moveDistalPointLengths_segments, if_pos rfl]
    exact hw.ids s hs
  simp only [moveDistalPoint, update] at hr
  rw [hid] at hr
  have hp1 : (moveDistalPointLengths M t s x).live s := by
    simp only [Tree.live, moveDistalPointLengths_cur]; exact hs
  obtain ⟨r1, r2, r3⟩ := updateLoop_good M hw1 fuel _ _ s (Frame.refl _) hp1 hr
    (fun j hj hnp => moveDistalPointLengths_pregood M hw hs x hgood hlu j
      (by simp only [Tree.live, moveDistalPointLengths_cur] at hj; exact hj)
      (by intro e; subst e; exact hnp (OnPath.self _)))
  refine ⟨?_, ?_, ?_⟩
  · exact hf.lenInv M (moveDistalPointLengths_lenInv M hw hs x hlen)
  · intro i hi
    exact r1 i (by simp only [Tree.live, ← hf.currentNumberOfSegments]; exact hi)
  · intro i hi hev
    have hi' : t.currentNumberOfSegments ≤ i := by
      have := hf.currentNumberOfSegments
      rw [moveDistalPointLengths_cur] at this
      omega
    have hnp : ¬ OnPath (moveDistalPointLengths M t s x) s i := by
      intro hp'
      have := hp'.live hw1 hp1
      simp only [Tree.live, moveDistalPointLengths_cur] at this
      omega
    rw [(r2 i hnp).1, (moveDistalPointLengths_fields M t s x i).2.2.2.1,
      (moveDistalPointLengths_fields M t s x i).2.2.2.2]
    exact hdr i hi' hev

theorem growSegment_consts {M : CMath α} {fuel : Nat} {b : Point α} {parent c : Segment α}
    {t : Tree α} {r : Segment α × Tree α} (hr : growSegment M fuel b parent c t = some r) :
    r.2.lengthUnit = t.lengthUnit ∧ r.2.bloodViscosity = t.bloodViscosity ∧
    r.2.bifurcationExpoent = t.bifurcationExpoent ∧ r.2.dimension = t.dimension ∧
    r.2.seed = t.seed ∧
    r.2.currentNumberOfSegments = t.currentNumberOfSegments + 2 ∧
    r.2.currentNumberOfTerminals = t.currentNumberOfTerminals + 1 := by
  obtain ⟨t2, ht2, rfl⟩ := growSegment_eq_some hr
  have hf := updateLoop_frame M _ _ _ _ ht2
  obtain ⟨k1, k2, k3, k4, k5, k6⟩ := growSegmentLinks_consts M b parent c t
  exact ⟨hf.lengthUnit.trans k1, hf.bloodViscosity.trans k2, hf.bifurcationExpoent.trans k3,
    hf.dimension.trans k4, hf.seed.trans k5,
    hf.currentNumberOfSegments.trans (growSegmentLinks_cur M b parent c t),
    by show t2.currentNumberOfTerminals + 1 = _; rw [hf.currentNumberOfTerminals, k6]⟩

theorem remove_consts {M : CMath α} {fuel : Nat} {seg : Segment α}
    {t : Tree α} {r : Segment α × Tree α} (hr : remove M fuel t seg = some r) :
    r.2.lengthUnit = t.lengthUnit ∧ r.2.bloodViscosity = t.bloodViscosity ∧
    r.2.bifurcationExpoent = t.bifurcationExpoent ∧ r.2.dimension = t.dimension ∧
    r.2.seed = t.seed ∧
    r.2.currentNumberOfSegments = t.currentNumberOfSegments - 2 ∧
    r.2.currentNumberOfTerminals = t.currentNumberOfTerminals - 1 := by
  obtain ⟨t2, ht2, rfl⟩ := remove_eq_some hr
  have hf := updateLoop_frame M _ _ _ _ ht2
  obtain ⟨k1, k2, k3, k4, k5, k6, k7⟩ := removeLinks_consts M t seg
  exact ⟨hf.lengthUnit.trans k1, hf.bloodViscosity.trans k2, hf.bifurcationExpoent.trans k3,
    hf.dimension.trans k4, hf.seed.trans k5,
    hf.currentNumberOfSegments.trans (removeLinks_cur M t seg),
    by show t2.currentNumberOfTerminals - 1 = _; rw [hf.currentNumberOfTerminals, k6]⟩

theorem moveDistalPoint_consts {M : CMath α} {fuel : Nat} {s : Int} {x : Point α}
    {t t' : Tree α} (hr : moveDistalPoint M fuel t s x = some t') :
    t'.lengthUnit = t.lengthUnit ∧ t'.bloodViscosity = t.bloodViscosity ∧
    t'.bifurcationExpoent = t.bifurcationExpoent ∧ t'.dimension = t.dimension ∧
    t'.seed = t.seed ∧
    t'.currentNumberOfSegments = t.currentNumberOfSegments ∧
    t'.currentNumberOfTerminals = t.currentNumberOfTerminals := by
  have hf := updateLoop_frame M _ _ _ _ hr
  obtain ⟨k1, k2, k3, k4, k5, k6⟩ := moveDistalPointLengths_consts M t s x
  exact ⟨hf.lengthUnit.trans k1, hf.bloodViscosity.trans k2, hf.bifurcationExpoent.trans k3,
    hf.dimension.trans k4, hf.seed.trans k5,
    hf.currentNumberOfSegments.trans (moveDistalPointLengths_cur M t s x),
    hf.currentNumberOfTerminals.trans k6⟩

/-- The numeric invariant holds in every reachable state of a tree with length unit 1 and a
constant bifurcation exponent law. -/
theorem Tree.Reach.numInv {M : CMath α} {t : Tree α} (h : Reach M t) (hlu : t.lengthUnit = 1)
    (hγ : ∀ i j, t.bifurcationExpoent i = t.bifurcationExpoent j) : NumInv M t := by
  induction h with
  | root t0 dim point flow hf =>
    obtain ⟨f1, f2, f3, f4, f5, f6, f7⟩ := growRoot_fields M t0 (Segment.make dim point flow)
    exact growRoot_numInv M hf dim point flow (by rw [← f3]; exact hlu)
  | grow fuel b p c t r hR hp hr ih =>
    obtain ⟨k1, k2, k3, -⟩ := growSegment_consts hr
    have hlu' : t.lengthUnit = 1 := by rw [← k1]; exact hlu
    have hγ' : ∀ i j, t.bifurcationExpoent i = t.bifurcationExpoent j := by rw [← k3]; exact hγ
    exact growSegment_numInv M hR hp hr (ih hlu' hγ') hlu' hγ'
  | remove fuel t r hR hc hr ih =>
    obtain ⟨k1, k2, k3, -⟩ := remove_consts hr
    have hlu' : t.lengthUnit = 1 := by rw [← k1]; exact hlu
    have hγ' : ∀ i j, t.bifurcationExpoent i = t.bifurcationExpoent j := by rw [← k3]; exact hγ
    exact remove_numInv M hR hc hr (ih hlu' hγ')
  | move fuel s x t t' hR hs hr ih =>
    obtain ⟨k1, k2, k3, -⟩ := moveDistalPoint_consts hr
    have hlu' : t.lengthUnit = 1 := by rw [← k1]; exact hlu
    have hγ' : ∀ i j, t.bifurcationExpoent i = t.bifurcationExpoent j := by rw [← k3]; exact hγ
    exact moveDistalPoint_numInv M hR hs hr (ih hlu' hγ') hlu'

/-! ## Flows -/

/-- What the loop of `update` leaves alone: every segment off the walk from `i` to the root,
and the flow of every terminal. -/
theorem updateLoop_off_path (M : CMath α) {t0 : Tree α} :
    ∀ (k : Nat) (t t' : Tree α) (i : Int), Frame t0 t → updateLoop M k t i = some t' →
      (∀ j, ¬ OnPath t0 i j → t'.segments j = t.segments j ∧
        t'.reducedHydrodynamicResistance j = t.reducedHydrodynamicResistance j) ∧
      (∀ j, t0.isTerminal j = true → (t'.segments j).flow = (t.segments j).flow) := by
  intro k
  induction k with
  | zero => intro t t' i _ h; simp [updateLoop] at h
  | succ n ih =>
    intro t t' i hf hrun
    simp only [updateLoop] at hrun
    have hf1 := updateStep_frame M t i
    have F1 : ∀ j, t0.isTerminal j = true →
        ((updateStep M t i).segments j).flow = (t.segments j).flow := by
      intro j hjt
      by_cases hji : j = i
      · subst hji
        exact updateStep_flow_terminal M t (by rw [hf.isTerminal]; exact hjt) j
      · rw [updateStep_segments_ne M t hji]
    have hup : ((updateStep M t i).segments i).up = (t0.segments i).up := by
      rw [updateStep_up]; exact (hf.segments i).2.2.2.1
    split_ifs at hrun with hn
    · rw [hup] at hn hrun
      obtain ⟨r2, r3⟩ := ih _ _ _ (hf.trans hf1) hrun
      refine ⟨?_, ?_⟩
      · intro j hnp
        have hji : j ≠ i := by intro e; subst e; exact hnp (OnPath.self _)
        have hnp' : ¬ OnPath t0 (t0.segments i).up j := fun hp => hnp (OnPath.step i j hn hp)
        rw [(r2 j hnp').1, (r2 j hnp').2, updateStep_segments_ne M t hji,
          updateStep_resistance_ne M t hji]
        exact ⟨rfl, rfl⟩
      · intro j hjt
        rw [r3 j hjt, F1 j hjt]
    · cases hrun
      refine ⟨?_, F1⟩
      intro j hnp
      have hji : j ≠ i := by intro e; subst e; exact hnp (OnPath.self _)
      exact ⟨updateStep_segments_ne M t hji, updateStep_resistance_ne M t hji⟩

theorem updateStep_flowGood (M : CMath α) (t : Tree α) {i : Int}
    (hl : (t.segments i).left ≠ i) (hr : (t.segments i).right ≠ i) :
    FlowGood (updateStep M t i) i := by
  have hf := updateStep_frame M t i
  unfold FlowGood
  rw [hf.isTerminal]
  by_cases ht : t.isTerminal i = true
  · left; exact ht
  · right
    have e1 := updateStep_segments_ne M t hl
    have e2 := updateStep_segments_ne M t hr
    have e5 : ((updateStep M t i).segments i).left = (t.segments i).left :=
      (hf.segments i).2.2.2.2.1
    have e6 : ((updateStep M t i).segments i).right = (t.segments i).right :=
      (hf.segments i).2.2.2.2.2
    simp only [Tree.leftSegment, Tree.rightSegment, e5, e6, e1, e2]
    unfold updateStep
    rw [if_neg ht]
    simp

theorem FlowGood.congr_flow {t t' : Tree α} {i : Int}
    (h1 : (t'.segments i).left = (t.segments i).left ∧
      (t'.segments i).right = (t.segments i).right ∧
      (t'.segments i).flow = (t.segments i).flow)
    (h7 : (t'.segments (t.segments i).left).flow = (t.segments (t.segments i).left).flow)
    (h8 : (t'.segments (t.segments i).right).flow = (t.segments (t.segments i).right).flow)
    (h : FlowGood t i) : FlowGood t' i := by
  unfold FlowGood at h ⊢
  obtain ⟨a1, a2, a3⟩ := h1
  have e : t'.isTerminal i = t.isTerminal i := by simp [Tree.isTerminal, a1, a2]
  simp only [e, Tree.leftSegment, Tree.rightSegment, a1, a2, a3, h7, h8]
  exact h

theorem updateLoop_flowGood (M : CMath α) {t0 : Tree α} (h0 : WFL t0) :
    ∀ (k : Nat) (t t' : Tree α) (i : Int), Frame t0 t → t0.live i →
      updateLoop M k t i = some t' →
      (∀ j, t0.live j → ¬ OnPath t0 i j → FlowGood t j) →
      (∀ j, t0.live j → FlowGood t' j) := by
  intro k
  induction k with
  | zero => intro t t' i _ _ h; simp [updateLoop] at h
  | succ n ih =>
    intro t t' i hf hi hrun hJ
    simp only [updateLoop] at hrun
    have hf1 := updateStep_frame M t i
    have hlinks : ∀ j, (t.segments j).left = (t0.segments j).left ∧
        (t.segments j).right = (t0.segments j).right ∧ (t.segments j).up = (t0.segments j).up :=
      fun j => ⟨(hf.segments j).2.2.2.2.1, (hf.segments j).2.2.2.2.2, (hf.segments j).2.2.2.1⟩
    obtain ⟨a1, a2, a3, a4, a5⟩ := h0.parent_facts hi
    have G1 : FlowGood (updateStep M t i) i :=
      updateStep_flowGood M t (by rw [(hlinks i).1]; exact a4) (by rw [(hlinks i).2.1]; exact a5)
    have G2 : ∀ j, t0.live j → ¬ OnPath t0 i j → FlowGood (updateStep M t i) j := by
      intro j hj hnp
      have hji : j ≠ i := by intro e; subst e; exact hnp (OnPath.self _)
      have c1 : (t.segments j).left ≠ i := by
        intro e; rw [(hlinks j).1] at e
        exact hnp (OnPath.of_child h0 hi hj (Or.inl e))
      have c2 : (t.segments j).right ≠ i := by
        intro e; rw [(hlinks j).2.1] at e
        exact hnp (OnPath.of_child h0 hi hj (Or.inr e))
      refine FlowGood.congr_flow ?_ ?_ ?_ (hJ j hj hnp)
      · rw [updateStep_segments_ne M t hji]; exact ⟨rfl, rfl, rfl⟩
      · rw [updateStep_segments_ne M t c1]
      · rw [updateStep_segments_ne M t c2]
    have hup : ((updateStep M t i).segments i).up = (t0.segments i).up := by
      rw [updateStep_up]; exact (hlinks i).2.2
    split_ifs at hrun with hn
    · rw [hup] at hn hrun
      have hi0 : i ≠ 0 := by
        intro e; subst e; exact hn h0.root_up
      have hsplit : ∀ j, ¬ OnPath t0 (t0.segments i).up j → j ≠ i → ¬ OnPath t0 i j := by
        intro j hnp hji hp
        cases hp with
        | self => exact hji rfl
        | step _ _ _ hp' => exact hnp hp'
      exact ih _ _ _ (hf.trans hf1) (h0.up_live i hi hi0) hrun (by
        intro j hj hnp
        by_cases hji : j = i
        · subst hji; exact G1
        · exact G2 j hj (hsplit j hnp hji))
    · cases hrun
      rw [hup] at hn
      have hend : ∀ j, j ≠ i → ¬ OnPath t0 i j := by
        intro j hji hp
        cases hp with
        | self => exact hji rfl
        | step _ _ hne _ => exact hn hne
      intro j hj
      by_cases hji : j = i
      · subst hji; exact G1
      · exact G2 j hj (hend j hji)

theorem ReachFlow.reach {M : CMath α} {t : Tree α} {a : Int → α} (h : ReachFlow M t a) :
    Reach M t := by
  induction h with
  | root t0 dim point flow hf => exact Reach.root t0 dim point flow hf
  | grow fuel b p c t a r _ hp hr ih => exact Reach.grow fuel b p c t r ih hp hr
  | remove fuel t a r _ hc hr ih => exact Reach.remove fuel t r ih hc hr
  | move fuel s x t t' a _ hs hr ih => exact Reach.move fuel s x t t' ih hs hr

theorem Tree.Reach.exists_flow {M : CMath α} {t : Tree α} (h : Reach M t) :
    ∃ a, ReachFlow M t a := by
  induction h with
  | root t0 dim point flow hf => exact ⟨_, ReachFlow.root t0 dim point flow hf⟩
  | grow fuel b p c t r _ hp hr ih =>
    obtain ⟨a, ha⟩ := ih
    exact ⟨_, ReachFlow.grow fuel b p c t a r ha hp hr⟩
  | remove fuel t r _ hc hr ih =>
    obtain ⟨a, ha⟩ := ih
    exact ⟨_, ReachFlow.remove fuel t a r ha hc hr⟩
  | move fuel s x t t' _ hs hr ih =>
    obtain ⟨a, ha⟩ := ih
    exact ⟨_, ReachFlow.move fuel s x t t' a ha hs hr⟩

theorem growSegmentLinks_isTerminal (M : CMath α) (b : Point α) (c : Segment α) {t : Tree α}
    (h : WFL t) (hde : DeadEven t) {p : Int} (hp : t.live p) (i : Int) :
    (growSegmentLinks M b (t.segments p) c t).isTerminal i =
      if i = p then false
      else if i = t.currentNumberOfSegments + 1 then true
      else if i = t.currentNumberOfSegments then t.isTerminal p
      else t.isTerminal i := by
  have hc := h.cur_pos
  have hodd := h.odd
  have hpl := hp
  simp only [Tree.live] at hpl
  have d1 := hde _ (by omega : t.currentNumberOfSegments ≤ t.currentNumberOfSegments + 1)
    (by omega)
  simp only [Tree.isTerminal, growSegmentLinks_left M b c h hp,
    growSegmentLinks_right M b c h hp, TERMINALEND]
  by_cases c1 : i = p
  · subst c1
    have : ¬ (t.currentNumberOfSegments = -1) := by omega
    simp [this]
  by_cases c2 : i = t.currentNumberOfSegments + 1
  · subst c2
    have : ¬ (t.currentNumberOfSegments + 1 = t.currentNumberOfSegments) := by omega
    simp [c1, this, d1.1, d1.2]
  by_cases c3 : i = t.currentNumberOfSegments
  · subst c3
    simp [c1, c2]
  simp [c1, c2, c3]

theorem growSegmentLinks_preflow (M : CMath α) (b : Point α) (c : Segment α) {t : Tree α}
    (h : WFL t) (hde : DeadEven t) (hg : ∀ i, t.live i → FlowGood t i)
    {p : Int} (hp : t.live p) :
    ∀ j, (growSegmentLinks M b (t.segments p) c t).live j → j ≠ p →
      FlowGood (growSegmentLinks M b (t.segments p) c t) j := by
  intro j hj hjp
  have hc := h.cur_pos
  have hpl := hp
  simp only [Tree.live, growSegmentLinks_cur] at hj hpl
  have hpk := h.kids p hp
  have hleft := growSegmentLinks_left M b c h hp
  have hright := growSegmentLinks_right M b c h hp
  have hflow := growSegmentLinks_flow M b c h hp
  have hterm := growSegmentLinks_isTerminal M b c h hde hp
  by_cases c2 : j = t.currentNumberOfSegments + 1
  · left; rw [hterm, if_neg hjp, if_pos c2]
  by_cases c3 : j = t.currentNumberOfSegments
  · subst c3
    have hgp := hg p hp
    unfold FlowGood at hgp ⊢
    rw [hterm, if_neg hjp, if_neg c2, if_pos rfl]
    rcases hgp with hgp | hgp
    · left; exact hgp
    · by_cases htp : t.isTerminal p = true
      · left; exact htp
      right
      have hk : 0 < (t.segments p).left ∧ (t.segments p).left < t.currentNumberOfSegments ∧
          0 < (t.segments p).right ∧ (t.segments p).right < t.currentNumberOfSegments := by
        rcases hpk with hk | hk
        · exact absurd ((isTerminal_iff t p).2 hk) htp
        · exact ⟨hk.1, hk.2.1, hk.2.2.1, hk.2.2.2.1⟩
      have n1 : ¬ ((t.segments p).left = t.currentNumberOfSegments + 1) := by omega
      have n2 : ¬ ((t.segments p).left = t.currentNumberOfSegments) := by omega
      have n3 : ¬ ((t.segments p).right = t.currentNumberOfSegments + 1) := by omega
      have n4 : ¬ ((t.segments p).right = t.currentNumberOfSegments) := by omega
      simp only [Tree.leftSegment, Tree.rightSegment, hleft, hright, hflow, if_neg hjp, if_neg c2,
        if_true, n1, n2, n3, n4, if_false]
      exact hgp
  have hjl : t.live j := ⟨hj.1, by omega⟩
  have hjk := h.kids j hjl
  refine FlowGood.congr_flow ⟨?_, ?_, ?_⟩ ?_ ?_ (hg j hjl)
  · rw [hleft, if_neg hjp, if_neg c3]
  · rw [hright, if_neg hjp, if_neg c3]
  · rw [hflow, if_neg c2, if_neg c3]
  · rw [hflow, if_neg (by omega), if_neg (by omega)]
  · rw [hflow, if_neg (by omega), if_neg (by omega)]

theorem removeLinks_preflow (M : CMath α) {t : Tree α} (h : WFL t) {p : Int} (ht : Tail t p)
    (h1 : WFL (removeLinks M t (t.segments (t.currentNumberOfSegments - 1))))
    (hg : ∀ i, t.live i → FlowGood t i) :
    ∀ j, (removeLinks M t (t.segments (t.currentNumberOfSegments - 1))).live j →
      ¬ OnPath (removeLinks M t (t.segments (t.currentNumberOfSegments - 1))) p j →
      FlowGood (removeLinks M t (t.segments (t.currentNumberOfSegments - 1))) j := by
  intro j hj hnp
  have hjp : j ≠ p := by intro e; subst e; exact hnp (OnPath.self _)
  have hj' := hj
  simp only [Tree.live, removeLinks_cur] at hj'
  have hjl : t.live j := ⟨hj'.1, by omega⟩
  have hp1 : (removeLinks M t (t.segments (t.currentNumberOfSegments - 1))).live p := by
    simp only [Tree.live, removeLinks_cur]; exact ⟨ht.p_nonneg, ht.p_lt⟩
  obtain ⟨g1, g2, g3, g4, g5, g6, g7⟩ := removeLinks_tail_fields M h ht j hjp
  have c1 : (t.segments j).left ≠ p := by
    intro e; exact hnp (OnPath.of_child h1 hp1 hj (Or.inl (by rw [g1]; exact e)))
  have c2 : (t.segments j).right ≠ p := by
    intro e; exact hnp (OnPath.of_child h1 hp1 hj (Or.inr (by rw [g2]; exact e)))
  exact FlowGood.congr_flow ⟨g1, g2, g3⟩ (removeLinks_tail_fields M h ht _ c1).2.2.1
    (removeLinks_tail_fields M h ht _ c2).2.2.1 (hg j hjl)

/-- Flow conservation and the flows of the terminals, in every reachable state. -/
theorem ReachFlow.flowInv {M : CMath α} {t : Tree α} {a : Int → α} (h : ReachFlow M t a) :
    (∀ i, t.live i → FlowGood t i) ∧
      (∀ i, t.live i → t.isTerminal i = true → (t.segments i).flow = a i) := by
  induction h with
  | root t0 dim point flow hf =>
    have hseg := growRoot_segments M t0 dim point flow
    have ht : (growRoot M t0 (Segment.make dim point flow)).2.isTerminal 0 = true := by
      rw [isTerminal_iff, hseg, if_pos rfl]; exact ⟨rfl, rfl⟩
    refine ⟨?_, ?_⟩
    · intro i hi
      simp only [Tree.live, growRoot_cur] at hi
      have : i = 0 := by omega
      subst this
      left; exact ht
    · intro i hi _
      simp only [Tree.live, growRoot_cur] at hi
      have : i = 0 := by omega
      subst this
      rw [hseg, if_pos rfl]
  | grow fuel b p c t a r hRF hp hr ih =>
    have hR := hRF.reach
    have hR' := Reach.grow fuel b p c t r hR hp hr
    obtain ⟨t2, ht2, rfl⟩ := growSegment_eq_some hr
    have hf := updateLoop_frame M _ _ _ _ ht2
    have hw := hR.wfl
    obtain ⟨s, hs, hsl, hde⟩ := hR.linkInv
    have hw1 : WFL (growSegmentLinks M b (t.segments p) c t) :=
      hf.sameLinks.symm.wfl_links (WFL.of_setTerms hR'.wfl)
    have hpl := hp
    simp only [Tree.live] at hpl
    have hid : ((growSegmentLinks M b (t.segments p) c t).segments p).ID = p := by
      rw [growSegmentLinks_ID M b c hw hp, if_neg (by omega), hw.ids p hp]
    rw [hw.ids p hp, hid] at ht2
    have hp1 : (growSegmentLinks M b (t.segments p) c t).live p := by
      simp only [Tree.live, growSegmentLinks_cur]; omega
    have r1 := updateLoop_flowGood M hw1 fuel _ _ p (Frame.refl _) hp1 ht2
      (fun j hj hnp => growSegmentLinks_preflow M b c hw hde ih.1 hp j hj
        (by intro e; subst e; exact hnp (OnPath.self _)))
    obtain ⟨r2, r3⟩ := updateLoop_off_path M fuel _ _ p (Frame.refl _) ht2
    have hcur : t2.currentNumberOfSegments = t.currentNumberOfSegments + 2 := by
      rw [hf.currentNumberOfSegments, growSegmentLinks_cur]
    refine ⟨?_, ?_⟩
    · intro i hi
      exact r1 i (by simp only [Tree.live, ← hf.currentNumberOfSegments]; exact hi)
    · intro i hi hit
      have hi' : 0 ≤ i ∧ i < t.currentNumberOfSegments + 2 := by
        have : 0 ≤ i ∧ i < t2.currentNumberOfSegments := hi
        omega
      have hit1 : (growSegmentLinks M b (t.segments p) c t).isTerminal i = true := by
        rw [← hf.isTerminal]; exact hit
      show (t2.segments i).flow = _
      rw [r3 i hit1, growSegmentLinks_flow M b c hw hp]
      rw [growSegmentLinks_isTerminal M b c hw hde hp] at hit1
      by_cases c1 : i = p
      · rw [if_pos c1] at hit1; cases hit1
      rw [if_neg c1] at hit1
      by_cases c2 : i = t.currentNumberOfSegments + 1
      · subst c2; simp
      rw [if_neg c2] at hit1 ⊢
      by_cases c3 : i = t.currentNumberOfSegments
      · subst c3
        rw [if_pos rfl] at hit1 ⊢
        rw [Function.update_noteq c2, Function.update_same]
        exact ih.2 p hp hit1
      · rw [if_neg c3] at hit1 ⊢
        rw [Function.update_noteq c2, Function.update_noteq c3]
        exact ih.2 i ⟨hi'.1, by omega⟩ hit1
  | remove fuel t a r hRF hc hr ih =>
    have hR := hRF.reach
    have hR' := Reach.remove fuel t r hR hc hr
    obtain ⟨t2, ht2, rfl⟩ := remove_eq_some hr
    have hf := updateLoop_frame M _ _ _ _ ht2
    have hw := hR.wfl
    obtain ⟨p, htl⟩ := hR.tail hc
    obtain ⟨f1, f2, f3, f4, f5, f6, f7, f8, f9⟩ := htl.facts hw
    have hw1 : WFL (removeLinks M t (t.segments (t.currentNumberOfSegments - 1))) :=
      hf.sameLinks.symm.wfl_links (WFL.of_setTerms hR'.wfl)
    have hid : ((removeLinks M t (t.segments (t.currentNumberOfSegments - 1))).segments p).ID =
        p := by
      rw [removeLinks_tail_segments M hw htl, if_pos rfl]
      exact hw.ids p f1
    rw [htl.up_terminal, hid] at ht2
    have hp1 : (removeLinks M t (t.segments (t.currentNumberOfSegments - 1))).live p := by
      simp only [Tree.live, removeLinks_cur]; exact ⟨htl.p_nonneg, htl.p_lt⟩
    have r1 := updateLoop_flowGood M hw1 fuel _ _ p (Frame.refl _) hp1 ht2
      (removeLinks_preflow M hw htl hw1 ih.1)
    obtain ⟨r2, r3⟩ := updateLoop_off_path M fuel _ _ p (Frame.refl _) ht2
    refine ⟨?_, ?_⟩
    · intro i hi
      exact r1 i (by simp only [Tree.live, ← hf.currentNumberOfSegments]; exact hi)
    · intro i hi hit
      have hi' : 0 ≤ i ∧ i < t.currentNumberOfSegments - 2 := by
        have h1 : 0 ≤ i ∧ i < t2.currentNumberOfSegments := hi
        have h2 := hf.currentNumberOfSegments
        rw [removeLinks_cur] at h2
        omega
      have hit1 : (removeLinks M t (t.segments (t.currentNumberOfSegments - 1))).isTerminal i =
          true := by
        rw [← hf.isTerminal]; exact hit
      show (t2.segments i).flow = _
      rw [r3 i hit1, htl.up_terminal]
      by_cases c1 : i = p
      · subst c1
        rw [Function.update_same]
        rw [isTerminal_iff, removeLinks_tail_segments M hw htl, if_pos rfl] at hit1
        have htn : t.isTerminal (t.currentNumberOfSegments - 2) = true :=
          (isTerminal_iff t _).2 hit1
        rw [removeLinks_tail_segments M hw htl, if_pos rfl]
        show (if t.isTerminal (t.currentNumberOfSegments - 2) = true then _ else _) = _
        rw [if_pos htn]
        exact ih.2 _ f2 htn
      · rw [Function.update_noteq c1]
        obtain ⟨g1, g2, g3, g4, g5, g6, g7⟩ := removeLinks_tail_fields M hw htl i c1
        rw [g3]
        apply ih.2 i ⟨hi'.1, by omega⟩
        rw [isTerminal_iff] at hit1 ⊢
        rw [g1, g2] at hit1
        exact hit1
  | move fuel s x t t' a hRF hs hr ih =>
    have hR := hRF.reach
    have hf := updateLoop_frame M _ _ _ _ hr
    have hw := hR.wfl
    have hw1 : WFL (moveDistalPointLengths M t s x) :=
      (moveDistalPointLengths_sameLinks M t s x).wfl_links hw
    have hid : ((moveDistalPointLengths M t s x).segments s).ID = s := by
      rw [moveDistalPointLengths_segments, if_pos rfl]
      exact hw.ids s hs
    simp only [moveDistalPoint, update] at hr
    rw [hid] at hr
    have hp1 : (moveDistalPointLengths M t s x).live s := by
      simp only [Tree.live, moveDistalPointLengths_cur]; exact hs
    have hpre : ∀ j, t.live j → FlowGood (moveDistalPointLengths M t s x) j := by
      intro j hj
      obtain ⟨g1, g2, g3, -⟩ := moveDistalPointLengths_fields M t s x j
      exact FlowGood.congr_flow ⟨g1, g2, g3⟩ (moveDistalPointLengths_fields M t s x _).2.2.1
        (moveDistalPointLengths_fields M t s x _).2.2.1 (ih.1 j hj)
    have r1 := updateLoop_flowGood M hw1 fuel _ _ s (Frame.refl _) hp1 hr
      (fun j hj _ => hpre j (by
        simp only [Tree.live, moveDistalPointLengths_cur] at hj; exact hj))
    obtain ⟨r2, r3⟩ := updateLoop_off_path M fuel _ _ s (Frame.refl _) hr
    have hcur : t'.currentNumberOfSegments = t.currentNumberOfSegments := by
      rw [hf.currentNumberOfSegments, moveDistalPointLengths_cur]
    refine ⟨?_, ?_⟩
    · intro i hi
      exact r1 i (by simp only [Tree.live, ← hf.currentNumberOfSegments]; exact hi)
    · intro i hi hit
      have hit1 : (moveDistalPointLengths M t s x).isTerminal i = true := by
        rw [← hf.isTerminal]; exact hit
      rw [r3 i hit1, (moveDistalPointLengths_fields M t s x i).2.2.1]
      apply ih.2 i (by simp only [Tree.live, ← hcur]; exact hi)
      rw [← moveDistalPointLengths_isTerminal M t s x]; exact hit1

/-! ## The consistent values are determined by the links, lengths and terminal flows -/

theorem SameLinks.isTerminal_eq {t' t : Tree α} (h : SameLinks t' t) {i : Int} (hi : t'.live i) :
    t'.isTerminal i = t.isTerminal i := by
  obtain ⟨-, -, a3, a4⟩ := h.2 i hi
  simp [Tree.isTerminal, a3, a4]

theorem flow_determined {t t' : Tree α} (hw : WFL t) (hl : SameLinks t' t)
    (hg : ∀ i, t.live i → FlowGood t i) (hg' : ∀ i, t'.live i → FlowGood t' i)
    (hterm : ∀ i, t.live i → t.isTerminal i = true → (t'.segments i).flow = (t.segments i).flow) :
    ∀ i, t.live i → (t'.segments i).flow = (t.segments i).flow := by
  obtain ⟨d, B, hd⟩ := hw.rank
  have key : ∀ n : Nat, ∀ i, t.live i → B - d i = n →
      (t'.segments i).flow = (t.segments i).flow := by
    intro n
    induction n using Nat.strong_induction_on with
    | _ n ih =>
      intro i hi hn
      have hi' : t'.live i := (hl.live_iff i).2 hi
      by_cases ht : t.isTerminal i = true
      · exact hterm i hi ht
      · have h1 := hg i hi
        have h2 := hg' i hi'
        unfold FlowGood at h1 h2
        rw [hl.isTerminal_eq hi'] at h2
        rcases h1 with h1 | h1
        · exact absurd h1 ht
        rcases h2 with h2 | h2
        · exact absurd h2 ht
        obtain ⟨-, -, a3, a4⟩ := hl.2 i hi'
        rcases hw.kids i hi with hk | hk
        · exact absurd ((isTerminal_iff t i).2 hk) ht
        · obtain ⟨k1, k2, k3, k4, k5, k6, k7⟩ := hk
          have hll : t.live (t.segments i).left := ⟨le_of_lt k1, k2⟩
          have hlr : t.live (t.segments i).right := ⟨le_of_lt k3, k4⟩
          have dl := (hd _ hll).2 (by omega)
          have dr := (hd _ hlr).2 (by omega)
          rw [k6] at dl
          rw [k7] at dr
          have bl := (hd _ hll).1
          have br := (hd _ hlr).1
          have e1 := ih (B - d (t.segments i).left) (by omega) _ hll rfl
          have e2 := ih (B - d (t.segments i).right) (by omega) _ hlr rfl
          simp only [Tree.leftSegment, Tree.rightSegment, a3, a4] at h1 h2
          rw [h1, h2, e1, e2]
  intro i hi
  exact key _ i hi rfl

theorem values_determined (M : CMath α) {t t' : Tree α} (hw : WFL t) (hl : SameLinks t' t)
    (hunit : t'.lengthUnit = t.lengthUnit) (hvisc : t'.bloodViscosity = t.bloodViscosity)
    (hexp : t'.bifurcationExpoent = t.bifurcationExpoent)
    (hlen : ∀ i, t.live i → t'._length i = t._length i)
    (hg : ∀ i, t.live i → Good M t i) (hg' : ∀ i, t'.live i → Good M t' i)
    (hflow : ∀ i, t.live i → (t'.segments i).flow = (t.segments i).flow) :
    ∀ i, t.live i →
      t'.reducedHydrodynamicResistance i = t.reducedHydrodynamicResistance i ∧
      (t'.segments i).bifurcationRatioLeft = (t.segments i).bifurcationRatioLeft ∧
      (t'.segments i).bifurcationRatioRight = (t.segments i).bifurcationRatioRight := by
  obtain ⟨d, B, hd⟩ := hw.rank
  have key : ∀ n : Nat, ∀ i, t.live i → B - d i = n →
      t'.reducedHydrodynamicResistance i = t.reducedHydrodynamicResistance i ∧
      (t'.segments i).bifurcationRatioLeft = (t.segments i).bifurcationRatioLeft ∧
      (t'.segments i).bifurcationRatioRight = (t.segments i).bifurcationRatioRight := by
    intro n
    induction n using Nat.strong_induction_on with
    | _ n ih =>
      intro i hi hn
      have hi' : t'.live i := (hl.live_iff i).2 hi
      have h1 := hg i hi
      have h2 := hg' i hi'
      unfold Good at h1 h2
      rw [hl.isTerminal_eq hi'] at h2
      obtain ⟨-, -, a3, a4⟩ := hl.2 i hi'
      by_cases ht : t.isTerminal i = true
      · rw [if_pos ht] at h1 h2
        simp only [Tree.length, hunit, hvisc, hlen i hi] at h2
        simp only [Tree.length] at h1
        exact ⟨by rw [h1.1, h2.1], by rw [h1.2.1, h2.2.1], by rw [h1.2.2, h2.2.2]⟩
      · rw [if_neg ht] at h1 h2
        rcases hw.kids i hi with hk | hk
        · exact absurd ((isTerminal_iff t i).2 hk) ht
        · obtain ⟨k1, k2, k3, k4, k5, k6, k7⟩ := hk
          have hll : t.live (t.segments i).left := ⟨le_of_lt k1, k2⟩
          have hlr : t.live (t.segments i).right := ⟨le_of_lt k3, k4⟩
          have dl := (hd _ hll).2 (by omega)
          have dr := (hd _ hlr).2 (by omega)
          rw [k6] at dl
          rw [k7] at dr
          have bl := (hd _ hll).1
          have br := (hd _ hlr).1
          have e1 := (ih (B - d (t.segments i).left) (by omega) _ hll rfl).1
          have e2 := (ih (B - d (t.segments i).right) (by omega) _ hlr rfl).1
          simp only [Tree.leftSegment, Tree.rightSegment, Tree.length, a3, a4, hunit, hvisc, hexp,
            hlen i hi, hflow _ hll, hflow _ hlr, e1, e2] at h2
          simp only [Tree.leftSegment, Tree.rightSegment, Tree.length] at h1
          have r1 : (t'.segments i).bifurcationRatioLeft = (t.segments i).bifurcationRatioLeft := by
            rw [h1.2.1, h2.2.1]
          have r2 : (t'.segments i).bifurcationRatioRight =
              (t.segments i).bifurcationRatioRight := by
            rw [h1.2.2.1, h2.2.2.1]
          refine ⟨?_, r1, r2⟩
          rw [h1.2.2.2, h2.2.2.2, r1, r2]
  intro i hi
  exact key _ i hi rfl

/-! ## The edit operations return in every reachable state -/

theorem Tree.Reach.growSegmentLinks_wfl {M : CMath α} {t : Tree α} (hR : Reach M t) {p : Int}
    (hp : t.live p) (b : Point α) (c : Segment α) :
    WFL (growSegmentLinks M b (t.segments p) c t) := by
  obtain ⟨s, hs, hsl, hde⟩ := hR.linkInv
  exact (growSegmentLinks_sameLinks M M b b c c hsl hs.wfl_skeleton.1 hs.wfl_skeleton.2 hde hp).wfl_links
    (growSegmentLinks_WFL M b c hs.wfl_skeleton.1 hs.wfl_skeleton.2 ((hsl.live_iff p).1 hp))

theorem growSegmentLinks_ID_p (M : CMath α) (b : Point α) (c : Segment α) {t : Tree α}
    (hw : WFL t) {p : Int} (hp : t.live p) :
    ((growSegmentLinks M b (t.segments p) c t).segments (t.segments p).ID).ID = p := by
  have hpl := hp
  simp only [Tree.live] at hpl
  rw [hw.ids p hp, growSegmentLinks_ID M b c hw hp, if_neg (by omega), hw.ids p hp]

/-- `growSegment` on a live parent of a reachable state returns, for every large enough
fuel. -/
theorem growSegment_total {M : CMath α} {t : Tree α} (hR : Reach M t) {p : Int}
    (hp : t.live p) (b : Point α) (c : Segment α) :
    ∃ fuel r, ∀ fuel', fuel ≤ fuel' → growSegment M fuel' b (t.segments p) c t = some r := by
  have hw1 := hR.growSegmentLinks_wfl hp b c
  have hp1 : (growSegmentLinks M b (t.segments p) c t).live p := by
    simp only [Tree.live, growSegmentLinks_cur] at hp ⊢; omega
  obtain ⟨k, t2, hk⟩ := updateLoop_terminates M hw1 hp1
  refine ⟨k, (t2.segments (t.segments p).ID,
    { t2 with currentNumberOfTerminals := t2.currentNumberOfTerminals + 1 }), fun k' hk' => ?_⟩
  simp only [growSegment, update, growSegmentLinks_ID_p M b c hR.wfl hp, hk k' hk']

theorem Tree.Reach.removeLinks_wfl {M : CMath α} {t : Tree α} (hR : Reach M t)
    (hc : 1 < t.currentNumberOfSegments) :
    WFL (removeLinks M t (t.segments (t.currentNumberOfSegments - 1))) := by
  obtain ⟨s, hs, hsl, hde⟩ := hR.linkInv
  rcases hs.inv with h1 | ⟨b, p, c, s0, hs0, hp, rfl⟩
  · rw [hsl.1] at hc; omega
  · have hw := hs0.wfl_skeleton
    obtain ⟨g1, g2, g3⟩ := removeLinks_sameLinks M M b c hw.1 hw.2 hp hsl hde
    exact g1.wfl_links hw.1

/-- `remove` of the last terminal of a reachable state with more than one segment returns,
for every large enough fuel. -/
theorem remove_total {M : CMath α} {t : Tree α} (hR : Reach M t)
    (hc : 1 < t.currentNumberOfSegments) :
    ∃ fuel r, ∀ fuel', fuel ≤ fuel' →
      remove M fuel' t (t.segments (t.currentNumberOfSegments - 1)) = some r := by
  have hw := hR.wfl
  have hw1 : WFL (removeLinks M t (t.segments (t.currentNumberOfSegments - 1))) :=
    hR.removeLinks_wfl hc
  obtain ⟨p, htl⟩ := hR.tail hc
  obtain ⟨f1, -⟩ := htl.facts hw
  have hid : ((removeLinks M t (t.segments (t.currentNumberOfSegments - 1))).segments
      (t.segments (t.currentNumberOfSegments - 1)).up).ID = p := by
    rw [htl.up_terminal, removeLinks_tail_segments M hw htl, if_pos rfl]
    exact hw.ids p f1
  have hp1 : (removeLinks M t (t.segments (t.currentNumberOfSegments - 1))).live p := by
    simp only [Tree.live, removeLinks_cur]; exact ⟨htl.p_nonneg, htl.p_lt⟩
  obtain ⟨k, t2, hk⟩ := updateLoop_terminates M hw1 hp1
  refine ⟨k, (t2.segments (t.segments (t.currentNumberOfSegments - 1)).up,
    { t2 with currentNumberOfTerminals := t2.currentNumberOfTerminals - 1 }), fun k' hk' => ?_⟩
  simp only [remove, update, hid, hk k' hk']

/-- `moveDistalPoint` on a live segment of a reachable state returns, for every large enough
fuel. -/
theorem moveDistalPoint_total {M : CMath α} {t : Tree α} (hR : Reach M t) {s : Int}
    (hs : t.live s) (x : Point α) :
    ∃ fuel t', ∀ fuel', fuel ≤ fuel' → moveDistalPoint M fuel' t s x = some t' := by
  have hw := hR.wfl
  have hw1 : WFL (moveDistalPointLengths M t s x) :=
    (moveDistalPointLengths_sameLinks M t s x).wfl_links hw
  have hid : ((moveDistalPointLengths M t s x).segments s).ID = s := by
    rw [moveDistalPointLengths_segments, if_pos rfl]
    exact hw.ids s hs
  have hp1 : (moveDistalPointLengths M t s x).live s := by
    simp only [Tree.live, moveDistalPointLengths_cur]; exact hs
  obtain ⟨k, t2, hk⟩ := updateLoop_terminates M hw1 hp1
  refine ⟨k, t2, fun k' hk' => ?_⟩
  simp only [moveDistalPoint, update, hid, hk k' hk']

/-- The result of an edit operation does not depend on the fuel. -/
theorem updateLoop_det (M : CMath α) {k k' : Nat} {t t1 t2 : Tree α} {i : Int}
    (h1 : updateLoop M k t i = some t1) (h2 : updateLoop M k' t i = some t2) : t1 = t2 := by
  have a := updateLoop_mono M _ _ _ _ h1 (max k k') (le_max_left _ _)
  have b := updateLoop_mono M _ _ _ _ h2 (max k k') (le_max_right _ _)
  rw [a] at b
  exact Option.some.inj b

/-! ## `growSegment` followed by `remove` -/

theorem WFL.not_onPath_child {t : Tree α} (h : WFL t) {i c : Int} (hi : t.live i)
    (hc : t.live c) (hu : (t.segments c).up = i) (hc0 : c ≠ 0) : ¬ OnPath t i c := by
  obtain ⟨d, B, hd⟩ := h.rank
  have key : ∀ a j, OnPath t a j → t.live a → d j ≤ d a := by
    intro a j hp
    induction hp with
    | self => intro _; exact le_refl _
    | step a j hne _ ih =>
      intro ha
      have ha0 : a ≠ 0 := by intro e; subst e; exact hne h.root_up
      have := ih (h.up_live a ha ha0)
      have := (hd a ha).2 ha0
      omega
  intro hp
  have h1 := key i c hp hi
  have h2 := (hd c hc).2 hc0
  rw [hu] at h2
  omega

/-- The state after `growSegment`, in terms of the state before. -/
theorem growSegment_post {M : CMath α} {t : Tree α} (hR : Reach M t) {p : Int} (hp : t.live p)
    {fuel : Nat} {b : Point α} {c : Segment α} {r : Segment α × Tree α}
    (h1 : growSegment M fuel b (t.segments p) c t = some r) :
    r.1 = r.2.segments p ∧
    Frame (growSegmentLinks M b (t.segments p) c t)
      { r.2 with currentNumberOfTerminals := t.currentNumberOfTerminals } ∧
    r.2.currentNumberOfTerminals = t.currentNumberOfTerminals + 1 ∧
    (∀ j, ¬ OnPath (growSegmentLinks M b (t.segments p) c t) p j →
      r.2.segments j = (growSegmentLinks M b (t.segments p) c t).segments j ∧
      r.2.reducedHydrodynamicResistance j =
        (growSegmentLinks M b (t.segments p) c t).reducedHydrodynamicResistance j) ∧
    (∀ j, (growSegmentLinks M b (t.segments p) c t).isTerminal j = true →
      (r.2.segments j).flow = ((growSegmentLinks M b (t.segments p) c t).segments j).flow) := by
  have hw := hR.wfl
  obtain ⟨t2, ht2, rfl⟩ := growSegment_eq_some h1
  have hf := updateLoop_frame M _ _ _ _ ht2
  rw [growSegmentLinks_ID_p M b c hw hp] at ht2
  obtain ⟨r2, r3⟩ := updateLoop_off_path M fuel _ _ p (Frame.refl _) ht2
  refine ⟨by rw [hw.ids p hp], ?_, ?_, r2, r3⟩
  · exact ⟨hf.1, hf.2, hf.3, hf.4, hf.5, hf.6, hf.7, hf.8, hf.9, hf.10, hf.11, hf.12, hf.13,
      hf.14, (growSegmentLinks_consts M b _ c t).2.2.2.2.2.symm, hf.16⟩
  · show t2.currentNumberOfTerminals + 1 = _
    rw [hf.currentNumberOfTerminals, (growSegmentLinks_consts M b _ c t).2.2.2.2.2]

/-- After `growSegment` the last two slots are the new connection and terminal of `p`. -/
theorem growSegment_tail {M : CMath α} {t : Tree α} (hR : Reach M t) {p : Int} (hp : t.live p)
    {fuel : Nat} {b : Point α} {c : Segment α} {r : Segment α × Tree α}
    (h1 : growSegment M fuel b (t.segments p) c t = some r) :
    r.2.currentNumberOfSegments = t.currentNumberOfSegments + 2 ∧ Tail r.2 p ∧
    r.2.rightSegment p = r.2.segments (r.2.currentNumberOfSegments - 1) := by
  have hw := hR.wfl
  obtain ⟨-, -, -, -, -, e6, -⟩ := growSegment_consts h1
  obtain ⟨q1, q2, q3, q4, q5⟩ := growSegment_post hR hp h1
  obtain ⟨s, hs, hsl, hde⟩ := hR.linkInv
  have hpos := hw.cur_pos
  have hodd := hw.odd
  have hpl := hp
  simp only [Tree.live] at hpl
  have lk : ∀ i, (r.2.segments i).up = ((growSegmentLinks M b (t.segments p) c t).segments i).up ∧
      (r.2.segments i).left = ((growSegmentLinks M b (t.segments p) c t).segments i).left ∧
      (r.2.segments i).right = ((growSegmentLinks M b (t.segments p) c t).segments i).right :=
    fun i => ⟨(q2.segments i).2.2.2.1, (q2.segments i).2.2.2.2.1, (q2.segments i).2.2.2.2.2⟩
  have d1 := hde _ (by omega : t.currentNumberOfSegments ≤ t.currentNumberOfSegments + 1)
    (by omega)
  have x1 : r.2.currentNumberOfSegments - 1 = t.currentNumberOfSegments + 1 := by omega
  have x2 : r.2.currentNumberOfSegments - 2 = t.currentNumberOfSegments := by omega
  have n1 : ¬ (t.currentNumberOfSegments + 1 = p) := by omega
  have n2 : ¬ (t.currentNumberOfSegments = p) := by omega
  have n3 : ¬ (t.currentNumberOfSegments + 1 = t.currentNumberOfSegments) := by omega
  have hright : (r.2.segments p).right = t.currentNumberOfSegments + 1 := by
    rw [(lk p).2.2, growSegmentLinks_right M b c hw hp, if_pos rfl]
  refine ⟨e6, ⟨by omega, hpl.1, by omega, ?_, ?_, ?_, ?_, ?_, ?_⟩, ?_⟩
  · rw [x1, (lk _).1, growSegmentLinks_up M b c hw hp]; simp only [n1, n3, if_true, if_false]
  · rw [x2, (lk _).1, growSegmentLinks_up M b c hw hp]
    simp only [n1, n2, n3, if_true, if_false, ite_self]
  · rw [x2, (lk _).2.1, growSegmentLinks_left M b c hw hp, if_pos rfl]
  · rw [x1]; exact hright
  · rw [x1, (lk _).2.1, growSegmentLinks_left M b c hw hp]
    simp only [n1, n3, if_false]; exact d1.1
  · rw [x1, (lk _).2.2, growSegmentLinks_right M b c hw hp]
    simp only [n1, n3, if_false]; exact d1.2
  · rw [Tree.rightSegment, hright, x1]

/-- After `growSegment` on `p` and `remove` of the new terminal, every live segment of the
original tree has its original identity, point and links, and every original terminal its
original flow. -/
theorem growSegment_remove_links {M : CMath α} {t : Tree α} (hR : Reach M t) {p : Int}
    (hp : t.live p) {f1 : Nat} {b : Point α} {c : Segment α} {r1 : Segment α × Tree α}
    (h1 : growSegment M f1 b (t.segments p) c t = some r1) {f2 : Nat}
    {r2 : Segment α × Tree α} (h2 : remove M f2 r1.2 (r1.2.rightSegment p) = some r2) :
    Reach M r2.2 ∧
    r2.2.currentNumberOfSegments = t.currentNumberOfSegments ∧
    r2.2.currentNumberOfTerminals = t.currentNumberOfTerminals ∧
    ∀ i, t.live i →
      (r2.2.segments i).ID = (t.segments i).ID ∧
      (r2.2.segments i).point = (t.segments i).point ∧
      (r2.2.segments i).up = (t.segments i).up ∧
      (r2.2.segments i).left = (t.segments i).left ∧
      (r2.2.segments i).right = (t.segments i).right ∧
      (t.isTerminal i = true → (r2.2.segments i).flow = (t.segments i).flow) := by
  have hw := hR.wfl
  have hR1 : Reach M r1.2 := Reach.grow f1 b p c t r1 hR hp h1
  have hw1 := hR1.wfl
  obtain ⟨e6, hT, hrs⟩ := growSegment_tail hR hp h1
  obtain ⟨q1, q2, q3, q4, q5⟩ := growSegment_post hR hp h1
  obtain ⟨s, hs, hsl, hde⟩ := hR.linkInv
  rw [hrs] at h2
  have hpos := hw.cur_pos
  have hR2 : Reach M r2.2 := Reach.remove f2 r1.2 r2 hR1 (by omega) h2
  obtain ⟨-, -, -, -, -, c6, c7⟩ := remove_consts h2
  obtain ⟨t3, ht3, rfl⟩ := remove_eq_some h2
  have f3 := updateLoop_frame M _ _ _ _ ht3
  have o3 := (updateLoop_off_path M f2 _ _ _ (Frame.refl _) ht3).2
  have x2 : r1.2.currentNumberOfSegments - 2 = t.currentNumberOfSegments := by omega
  have hpl := hp
  simp only [Tree.live] at hpl
  have n2 : ¬ (t.currentNumberOfSegments = p) := by omega
  have n3 : ¬ (t.currentNumberOfSegments = t.currentNumberOfSegments + 1) := by omega
  -- the connection slot after `growSegment`
  have cT : r1.2.isTerminal t.currentNumberOfSegments = t.isTerminal p := by
    have := q2.isTerminal t.currentNumberOfSegments
    simp only [Tree.isTerminal] at this ⊢
    rw [this]
    have := growSegmentLinks_isTerminal M b c hw hde hp t.currentNumberOfSegments
    simp only [Tree.isTerminal, n2, n3, if_false, if_true] at this
    exact this
  have cP : (r1.2.segments t.currentNumberOfSegments).point = (t.segments p).point := by
    rw [show (r1.2.segments t.currentNumberOfSegments).point = _ from (q2.segments _).2.1,
      growSegmentLinks_point M b c hw hp]
    simp only [n2, n3, if_false, if_true]
  have cL : (r1.2.segments t.currentNumberOfSegments).left = (t.segments p).left := by
    rw [show (r1.2.segments t.currentNumberOfSegments).left = _ from (q2.segments _).2.2.2.2.1,
      growSegmentLinks_left M b c hw hp]
    simp only [n2, if_false, if_true]
  have cR : (r1.2.segments t.currentNumberOfSegments).right = (t.segments p).right := by
    rw [show (r1.2.segments t.currentNumberOfSegments).right = _ from (q2.segments _).2.2.2.2.2,
      growSegmentLinks_right M b c hw hp]
    simp only [n2, if_false, if_true]
  have cF : t.isTerminal p = true →
      (r1.2.segments t.currentNumberOfSegments).flow = (t.segments p).flow := by
    intro hterm
    rw [q5 _ (by rw [← q2.isTerminal]; exact cT.trans hterm), growSegmentLinks_flow M b c hw hp]
    simp only [n3, if_false, if_true]
  refine ⟨hR2, by rw [c6, e6]; omega, by rw [c7, q3]; omega, ?_⟩
  intro i hi
  have hil := hi
  simp only [Tree.live] at hil
  have m1 : ¬ (i = t.currentNumberOfSegments) := by omega
  have m2 : ¬ (i = t.currentNumberOfSegments + 1) := by omega
  have hseg := removeLinks_tail_segments M hw1 hT i
  rw [x2] at hseg
  obtain ⟨g1, g2, -, g4, g5, g6⟩ := f3.segments i
  show (t3.segments i).ID = _ ∧ (t3.segments i).point = _ ∧ (t3.segments i).up = _ ∧
    (t3.segments i).left = _ ∧ (t3.segments i).right = _ ∧
    (_ → (t3.segments i).flow = _)
  rw [g1, g2, g4, g5, g6]
  obtain ⟨u1, u2, -, u4, u5, u6⟩ := q2.segments i
  have u1' : (r1.2.segments i).ID = _ := u1
  have u2' : (r1.2.segments i).point = _ := u2
  have u4' : (r1.2.segments i).up = _ := u4
  have u5' : (r1.2.segments i).left = _ := u5
  have u6' : (r1.2.segments i).right = _ := u6
  have v1 := growSegmentLinks_ID M b c hw hp i
  have v2 := growSegmentLinks_point M b c hw hp i
  have v4 := growSegmentLinks_up M b c hw hp i
  have v5 := growSegmentLinks_left M b c hw hp i
  have v6 := growSegmentLinks_right M b c hw hp i
  have v7 := growSegmentLinks_flow M b c hw hp i
  have v8 := growSegmentLinks_isTerminal M b c hw hde hp i
  simp only [m1, m2, if_false, false_or] at v1 v2 v4 v5 v6 v7 v8
  by_cases hip : i = p
  · subst hip
    rw [hseg, if_pos rfl]
    simp only [if_true] at v4
    refine ⟨by rw [u1', v1], cP, by rw [u4', v4], cL, cR, ?_⟩
    intro hterm
    have tl : (removeLinks M r1.2
        (r1.2.segments (r1.2.currentNumberOfSegments - 1))).isTerminal i = true := by
      rw [isTerminal_iff, hseg, if_pos rfl]
      exact ⟨cL.trans ((isTerminal_iff t i).1 hterm).1, cR.trans ((isTerminal_iff t i).1 hterm).2⟩
    rw [o3 i tl, hseg, if_pos rfl]
    simp only [cT, hterm, if_true]
    exact cF hterm
  · simp only [hip, if_false] at v2 v4 v5 v6 v8 hseg
    have flowpart : t.isTerminal i = true →
        ((removeLinks M r1.2 (r1.2.segments (r1.2.currentNumberOfSegments - 1))).segments i).flow
          = (r1.2.segments i).flow →
        (removeLinks M r1.2
          (r1.2.segments (r1.2.currentNumberOfSegments - 1))).isTerminal i = true →
        (t3.segments i).flow = (t.segments i).flow := by
      intro hterm e1 e2
      rw [o3 i e2, e1, q5 i (by rw [v8]; exact hterm), v7]
    rcases hw.kids p hp with hk | hk
    · have hterm : t.isTerminal p = true := (isTerminal_iff t p).2 hk
      simp only [cT, hterm, not_true_eq_false, false_and, if_false] at hseg
      have hclean : ¬ ((i = (t.segments p).left ∨ i = (t.segments p).right) ∧ i ≠ -1) := by
        rw [hk.1, hk.2]; omega
      simp only [hclean, if_false] at v4
      rw [hseg]
      refine ⟨by rw [u1', v1], by rw [u2', v2], by rw [u4', v4], by rw [u5', v5],
        by rw [u6', v6], ?_⟩
      intro ht
      refine flowpart ht (by rw [hseg]) ?_
      rw [isTerminal_iff, hseg, u5', u6', v5, v6]
      exact (isTerminal_iff t i).1 ht
    · obtain ⟨k1, k2, k3, k4, k5, k6, k7⟩ := hk
      have hnt : t.isTerminal p = false := by
        rw [← Bool.not_eq_true, isTerminal_iff]; intro h; omega
      simp only [cT, hnt, Bool.false_eq_true, not_false_eq_true, true_and, cL, cR] at hseg
      by_cases hc : i = (t.segments p).left ∨ i = (t.segments p).right
      · have hup : (t.segments i).up = p := by
          rcases hc with hc | hc
          · rw [hc]; exact k6
          · rw [hc]; exact k7
        rw [if_pos hc] at hseg
        rw [hseg]
        refine ⟨by rw [u1', v1], by rw [u2', v2], hup.symm, by rw [u5', v5],
          by rw [u6', v6], ?_⟩
        intro ht
        refine flowpart ht (by rw [hseg]) ?_
        rw [isTerminal_iff, hseg]
        show (r1.2.segments i).left = -1 ∧ (r1.2.segments i).right = -1
        rw [u5', u6', v5, v6]
        exact (isTerminal_iff t i).1 ht
      · rw [if_neg hc] at hseg
        simp only [hc, if_false, false_and] at v4
        rw [hseg]
        refine ⟨by rw [u1', v1], by rw [u2', v2], by rw [u4', v4], by rw [u5', v5],
          by rw [u6', v6], ?_⟩
        intro ht
        refine flowpart ht (by rw [hseg]) ?_
        rw [isTerminal_iff, hseg, u5', u6', v5, v6]
        exact (isTerminal_iff t i).1 ht

/-- With enough fuel `growSegment` on a live segment and `remove` of the new terminal both
return. -/
theorem growSegment_remove_total {M : CMath α} {t : Tree α} (hR : Reach M t) {p : Int}
    (hp : t.live p) (b : Point α) (c : Segment α) :
    ∃ fuel, ∀ f1 f2, fuel ≤ f1 → fuel ≤ f2 → ∃ r1 r2,
      growSegment M f1 b (t.segments p) c t = some r1 ∧
      remove M f2 r1.2 (r1.2.rightSegment p) = some r2 := by
  obtain ⟨k1, r1, hk1⟩ := growSegment_total hR hp b c
  have h1 := hk1 k1 (le_refl _)
  have hR1 : Reach M r1.2 := Reach.grow k1 b p c t r1 hR hp h1
  obtain ⟨e6, hT, hrs⟩ := growSegment_tail hR hp h1
  have hpos := hR.wfl.cur_pos
  obtain ⟨k2, r2, hk2⟩ := remove_total hR1 (by omega)
  refine ⟨max k1 k2, fun f1 f2 hf1 hf2 => ⟨r1, r2, hk1 f1 (le_trans (le_max_left _ _) hf1), ?_⟩⟩
  rw [hrs]
  exact hk2 f2 (le_trans (le_max_right _ _) hf2)

/-- After `growSegment` on `p` and `remove` of the new terminal, every live segment of the
original tree has its original flow. -/
theorem growSegment_remove_flow {M : CMath α} {t : Tree α} (hR : Reach M t) {p : Int}
    (hp : t.live p) {f1 : Nat} {b : Point α} {c : Segment α} {r1 : Segment α × Tree α}
    (h1 : growSegment M f1 b (t.segments p) c t = some r1) {f2 : Nat}
    {r2 : Segment α × Tree α} (h2 : remove M f2 r1.2 (r1.2.rightSegment p) = some r2) :
    SameLinks r2.2 t ∧ ∀ i, t.live i → (r2.2.segments i).flow = (t.segments i).flow := by
  obtain ⟨hR2, e1, e2, hl⟩ := growSegment_remove_links hR hp h1 h2
  have hsl : SameLinks r2.2 t := by
    refine ⟨e1, fun i hi => ?_⟩
    have hi' : t.live i := by simp only [Tree.live] at hi ⊢; omega
    obtain ⟨a1, a2, a3, a4, a5, a6⟩ := hl i hi'
    exact ⟨a1, a3, a4, a5⟩
  obtain ⟨a, ha⟩ := hR.exists_flow
  obtain ⟨a', ha'⟩ := hR2.exists_flow
  exact ⟨hsl, flow_determined hR.wfl hsl ha.flowInv.1 ha'.flowInv.1
    (fun i hi ht => (hl i hi).2.2.2.2.2 ht)⟩

/-- After `growSegment` on `p` and `remove` of the new terminal, every live segment of the
original tree has its original stored length. -/
theorem growSegment_remove_length {M : CMath α} {t : Tree α} (hR : Reach M t)
    (hlen : LenInv M t) {p : Int}
    (hp : t.live p) {f1 : Nat} {b : Point α} {c : Segment α} {r1 : Segment α × Tree α}
    (h1 : growSegment M f1 b (t.segments p) c t = some r1) {f2 : Nat}
    {r2 : Segment α × Tree α} (h2 : remove M f2 r1.2 (r1.2.rightSegment p) = some r2)
    (hlen2 : LenInv M r2.2) :
    ∀ i, t.live i → r2.2._length i = t._length i := by
  obtain ⟨hR2, e1, e2, hl⟩ := growSegment_remove_links hR hp h1 h2
  obtain ⟨-, -, -, g4, g5, -, -⟩ := growSegment_consts h1
  obtain ⟨-, -, -, c4, c5, -, -⟩ := remove_consts h2
  have hw := hR.wfl
  intro i hi
  have hi2 : r2.2.live i := by simp only [Tree.live] at hi ⊢; omega
  rw [hlen i hi, hlen2 i hi2, proximalPoint_eq, proximalPoint_eq, Tree.distalPoint,
    Tree.distalPoint, (hl i hi).2.1, (hl i hi).2.2.1, c4, g4, c5, g5]
  by_cases h0 : i = 0
  · rw [if_pos h0, if_pos h0]
  · rw [if_neg h0, if_neg h0, (hl _ (hw.up_live i hi h0)).2.1]

/-! ## The small tree -/

theorem construct_fresh (seed : Point α) (n dim : Int) (segDim : Int → Int)
    (resistance0 length0 : Int → α) :
    (construct seed n dim segDim resistance0 length0).Fresh :=
  ⟨rfl, rfl, fun i => ⟨segDim i, rfl⟩⟩

theorem exampleRoot_reach (M : CMath α) : Reach M (exampleRoot M) :=
  Reach.root _ 2 ⟨2, 1, 0, 0⟩ 1 (construct_fresh _ _ _ _ _ _)

theorem exampleRoot_live (M : CMath α) : (exampleRoot M).live 0 :=
  ⟨le_refl _, Int.zero_lt_one⟩

theorem exampleRoot_reachFlow (M : CMath α) : ReachFlow M (exampleRoot M) (fun _ => 1) :=
  ReachFlow.root _ 2 ⟨2, 1, 0, 0⟩ 1 (construct_fresh _ _ _ _ _ _)

/-! ## The claims on `growSegment` followed by `remove` -/

/-- C2: round trip of the structure.  In every state reachable from `growRoot` by
`growSegment`, `remove` of the last terminal and `moveDistalPoint`, for every live segment `p`,
point `b` and child value `c`: `growSegment(b, p, c)` and then `remove` of the new terminal
both return; `remove` decreases `currentNumberOfSegments` by exactly 2 and
`currentNumberOfTerminals` by exactly 1, and afterwards every live segment has the same distal
point, flow, parent link, left link and right link as before the `growSegment`. -/
theorem growSegment_remove_structure {M : CMath α} {t : Tree α} (hR : Reach M t)
    {p : Int} (hp : t.live p) (b : Point α) (c : Segment α) :
    (∃ fuel, ∀ f1 f2, fuel ≤ f1 → fuel ≤ f2 → ∃ r1 r2,
      growSegment M f1 b (t.segments p) c t = some r1 ∧
      remove M f2 r1.2 (r1.2.rightSegment p) = some r2) ∧
    ∀ f1 f2 r1 r2, growSegment M f1 b (t.segments p) c t = some r1 →
      remove M f2 r1.2 (r1.2.rightSegment p) = some r2 →
      r2.2.currentNumberOfSegments = r1.2.currentNumberOfSegments - 2 ∧
      r2.2.currentNumberOfTerminals = r1.2.currentNumberOfTerminals - 1 ∧
      r2.2.currentNumberOfSegments = t.currentNumberOfSegments ∧
      ∀ i, t.live i →
        (r2.2.segments i).point = (t.segments i).point ∧
        (r2.2.segments i).flow = (t.segments i).flow ∧
        (r2.2.segments i).up = (t.segments i).up ∧
        (r2.2.segments i).left = (t.segments i).left ∧
        (r2.2.segments i).right = (t.segments i).right := by
  refine ⟨growSegment_remove_total hR hp b c, ?_⟩
  intro f1 f2 r1 r2 h1 h2
  obtain ⟨hR2, e1, e2, hl⟩ := growSegment_remove_links hR hp h1 h2
  obtain ⟨hsl, hflow⟩ := growSegment_remove_flow hR hp h1 h2
  obtain ⟨-, -, -, -, -, c6, c7⟩ := remove_consts h2
  refine ⟨c6, c7, e1, fun i hi => ?_⟩
  obtain ⟨-, a2, a3, a4, a5, -⟩ := hl i hi
  exact ⟨a2, hflow i hi, a3, a4, a5⟩

/-- The round trip of the structure at the root of the small tree over the real numbers. -/
theorem growSegment_remove_structure_witness :
    (exampleRoot realMath).live 0 ∧
    ((∃ fuel, ∀ f1 f2, fuel ≤ f1 → fuel ≤ f2 → ∃ r1 r2,
      growSegment realMath f1 ⟨2, 1, 1, 0⟩ ((exampleRoot realMath).segments 0)
        (Segment.make 2 ⟨2, 2, 0, 0⟩ 1) (exampleRoot realMath) = some r1 ∧
      remove realMath f2 r1.2 (r1.2.rightSegment 0) = some r2) ∧
    ∀ f1 f2 r1 r2,
      growSegment realMath f1 ⟨2, 1, 1, 0⟩ ((exampleRoot realMath).segments 0)
        (Segment.make 2 ⟨2, 2, 0, 0⟩ 1) (exampleRoot realMath) = some r1 →
      remove realMath f2 r1.2 (r1.2.rightSegment 0) = some r2 →
      r2.2.currentNumberOfSegments = r1.2.currentNumberOfSegments - 2 ∧
      r2.2.currentNumberOfTerminals = r1.2.currentNumberOfTerminals - 1 ∧
      r2.2.currentNumberOfSegments = (exampleRoot realMath).currentNumberOfSegments ∧
      ∀ i, (exampleRoot realMath).live i →
        (r2.2.segments i).point = ((exampleRoot realMath).segments i).point ∧
        (r2.2.segments i).flow = ((exampleRoot realMath).segments i).flow ∧
        (r2.2.segments i).up = ((exampleRoot realMath).segments i).up ∧
        (r2.2.segments i).left = ((exampleRoot realMath).segments i).left ∧
        (r2.2.segments i).right = ((exampleRoot realMath).segments i).right) :=
  ⟨exampleRoot_live realMath,
    growSegment_remove_structure (exampleRoot_reach realMath)
      (exampleRoot_live realMath) ⟨2, 1, 1, 0⟩ (Segment.make 2 ⟨2, 2, 0, 0⟩ 1)⟩

/-! ## The counts and the flows -/

/-- C3: count invariant.  In every state reachable from `growRoot` by `growSegment` calls and
`remove` calls, each `remove` applied to the terminal created by the most recent `growSegment`
not yet removed (and also by `moveDistalPoint` calls),
`currentNumberOfSegments = 2 * currentNumberOfTerminals - 1`. -/
theorem count_invariant {M : CMath α} {t : Tree α} (h : Reach M t) :
    t.currentNumberOfSegments = 2 * t.currentNumberOfTerminals - 1 := by
  induction h with
  | root t0 dim point flow hf => rfl
  | grow fuel b p c t r hR hp hg ih =>
    obtain ⟨-, -, -, -, -, e6, e7⟩ := growSegment_consts hg
    omega
  | remove fuel t r hR hc hg ih =>
    obtain ⟨-, -, -, -, -, e6, e7⟩ := remove_consts hg
    omega
  | move fuel s x t t' hR hs hm ih =>
    obtain ⟨-, -, -, -, -, e6, e7⟩ := moveDistalPoint_consts hm
    omega

/-- The count invariant at the root of the small tree over the real numbers. -/
theorem count_invariant_witness :
    (exampleRoot realMath).currentNumberOfSegments =
      2 * (exampleRoot realMath).currentNumberOfTerminals - 1 :=
  count_invariant (exampleRoot_reach realMath)

/-- C4: flow conservation.  Every state reachable from `growRoot` by `growSegment`, `remove` of
the last terminal and `moveDistalPoint` has a bookkeeping `a` of the flows of the root value
and child values its terminals were created from, and for every such bookkeeping every live
segment that is not a terminal carries the sum of the flows of its left and right child, and
every live terminal `i` carries the flow `a i` of the value it was created from. -/
theorem flow_conservation {M : CMath α} {t : Tree α} (h : Reach M t) :
    (∃ a, ReachFlow M t a) ∧
    ∀ a, ReachFlow M t a → ∀ i, t.live i →
      (t.isTerminal i = false →
        (t.segments i).flow = (t.leftSegment i).flow + (t.rightSegment i).flow) ∧
      (t.isTerminal i = true → (t.segments i).flow = a i) := by
  refine ⟨h.exists_flow, fun a ha i hi => ⟨fun hnt => ?_, fun ht => ha.flowInv.2 i hi ht⟩⟩
  rcases ha.flowInv.1 i hi with h1 | h1
  · rw [hnt] at h1; cases h1
  · exact h1

/-- Flow conservation at the root of the small tree over the real numbers, whose only
terminal carries the flow 1 of the root value. -/
theorem flow_conservation_witness :
    (∃ a, ReachFlow realMath (exampleRoot realMath) a) ∧
    ∀ a, ReachFlow realMath (exampleRoot realMath) a → ∀ i, (exampleRoot realMath).live i →
      ((exampleRoot realMath).isTerminal i = false →
        ((exampleRoot realMath).segments i).flow =
          ((exampleRoot realMath).leftSegment i).flow +
            ((exampleRoot realMath).rightSegment i).flow) ∧
      ((exampleRoot realMath).isTerminal i = true →
        ((exampleRoot realMath).segments i).flow = a i) :=
  flow_conservation (exampleRoot_reach realMath)

/-! ## The postcondition of `growSegment` -/

/-- C5: postcondition of `growSegment`.  On a reachable tree with `n` live segments and a live
parent `p`, `growSegment(b, p, c)` returns (with enough fuel), leaves `n + 2` live segments and
one more terminal, and returns segment `p`.  Afterwards `p` has the distal point `b`, left
child `n` and right child `n + 1`; segment `n` (the connection) has the old distal point, the
old children and the old flow of `p`, and parent `p`, and the old children of `p` (when they
exist) have parent `n`; segment `n + 1` (the new terminal) has the distal point and flow of
`c`, parent `p` and no children. -/
theorem growSegment_postcondition {M : CMath α} {t : Tree α} (hR : Reach M t) {p : Int}
    (hp : t.live p) (b : Point α) (c : Segment α) :
    ∃ fuel r, (∀ f, fuel ≤ f → growSegment M f b (t.segments p) c t = some r) ∧
      r.2.currentNumberOfSegments = t.currentNumberOfSegments + 2 ∧
      r.2.currentNumberOfTerminals = t.currentNumberOfTerminals + 1 ∧
      r.1 = r.2.segments p ∧ r.1.ID = p ∧
      (r.2.segments p).point = b ∧
      (r.2.segments p).left = t.currentNumberOfSegments ∧
      (r.2.segments p).right = t.currentNumberOfSegments + 1 ∧
      (r.2.segments t.currentNumberOfSegments).point = (t.segments p).point ∧
      (r.2.segments t.currentNumberOfSegments).left = (t.segments p).left ∧
      (r.2.segments t.currentNumberOfSegments).right = (t.segments p).right ∧
      (r.2.segments t.currentNumberOfSegments).flow = (t.segments p).flow ∧
      (r.2.segments t.currentNumberOfSegments).up = p ∧
      ((t.segments p).left ≠ -1 →
        (r.2.segments (t.segments p).left).up = t.currentNumberOfSegments) ∧
      ((t.segments p).right ≠ -1 →
        (r.2.segments (t.segments p).right).up = t.currentNumberOfSegments) ∧
      (r.2.segments (t.currentNumberOfSegments + 1)).point = c.point ∧
      (r.2.segments (t.currentNumberOfSegments + 1)).flow = c.flow ∧
      (r.2.segments (t.currentNumberOfSegments + 1)).up = p ∧
      (r.2.segments (t.currentNumberOfSegments + 1)).left = -1 ∧
      (r.2.segments (t.currentNumberOfSegments + 1)).right = -1 := by
  obtain ⟨fuel, r, hk⟩ := growSegment_total hR hp b c
  have h1 := hk fuel (le_refl _)
  refine ⟨fuel, r, hk, ?_⟩
  have hw := hR.wfl
  have hw1 := hR.growSegmentLinks_wfl hp b c
  obtain ⟨-, -, -, -, -, e6, e7⟩ := growSegment_consts h1
  obtain ⟨q1, q2, q3, q4, q5⟩ := growSegment_post hR hp h1
  obtain ⟨s, hs, hsl, hde⟩ := hR.linkInv
  have hpos := hw.cur_pos
  have hodd := hw.odd
  have hpl := hp
  simp only [Tree.live] at hpl
  have c1 := growSegmentLinks_cur M b (t.segments p) c t
  have n1 : ¬ (t.currentNumberOfSegments + 1 = p) := by omega
  have n2 : ¬ (t.currentNumberOfSegments = p) := by omega
  have n3 : ¬ (t.currentNumberOfSegments + 1 = t.currentNumberOfSegments) := by omega
  have n4 : ¬ (t.currentNumberOfSegments = t.currentNumberOfSegments + 1) := by omega
  have lp : (growSegmentLinks M b (t.segments p) c t).live p := by
    simp only [Tree.live, c1]; omega
  have ln : (growSegmentLinks M b (t.segments p) c t).live t.currentNumberOfSegments := by
    simp only [Tree.live, c1]; omega
  have ln1 : (growSegmentLinks M b (t.segments p) c t).live (t.currentNumberOfSegments + 1) := by
    simp only [Tree.live, c1]; omega
  have un : ((growSegmentLinks M b (t.segments p) c t).segments t.currentNumberOfSegments).up
      = p := by
    rw [growSegmentLinks_up M b c hw hp]; simp only [n2, n4, if_true, if_false]
  have un1 : ((growSegmentLinks M b (t.segments p) c t).segments
      (t.currentNumberOfSegments + 1)).up = p := by
    rw [growSegmentLinks_up M b c hw hp]; simp only [n1, if_true, if_false]
  have ofn := (q4 _ (hw1.not_onPath_child lp ln un (by omega))).1
  have ofn1 := (q4 _ (hw1.not_onPath_child lp ln1 un1 (by omega))).1
  have d1 := hde _ (by omega : t.currentNumberOfSegments ≤ t.currentNumberOfSegments + 1)
    (by omega)
  have lk : ∀ i, (r.2.segments i).point =
        ((growSegmentLinks M b (t.segments p) c t).segments i).point ∧
      (r.2.segments i).up = ((growSegmentLinks M b (t.segments p) c t).segments i).up ∧
      (r.2.segments i).left = ((growSegmentLinks M b (t.segments p) c t).segments i).left ∧
      (r.2.segments i).right = ((growSegmentLinks M b (t.segments p) c t).segments i).right :=
    fun i => ⟨(q2.segments i).2.1, (q2.segments i).2.2.2.1, (q2.segments i).2.2.2.2.1,
      (q2.segments i).2.2.2.2.2⟩
  refine ⟨e6, e7, q1, ?_, ?_, ?_, ?_, ?_, ?_, ?_, ?_, ?_, ?_,
    ?_, ?_, ?_, ?_, ?_, ?_⟩
  · rw [q1, show (r.2.segments p).ID = _ from (q2.segments p).1,
      growSegmentLinks_ID M b c hw hp]
    have m0 : ¬ (p = t.currentNumberOfSegments + 1 ∨ p = t.currentNumberOfSegments) := by omega
    rw [if_neg m0]; exact hw.ids p hp
  · rw [(lk p).1, growSegmentLinks_point M b c hw hp, if_pos rfl]
  · rw [(lk p).2.2.1, growSegmentLinks_left M b c hw hp, if_pos rfl]
  · rw [(lk p).2.2.2, growSegmentLinks_right M b c hw hp, if_pos rfl]
  · rw [ofn, growSegmentLinks_point M b c hw hp]; simp only [n2, n4, if_true, if_false]
  · rw [ofn, growSegmentLinks_left M b c hw hp]; simp only [n2, if_true, if_false]
  · rw [ofn, growSegmentLinks_right M b c hw hp]; simp only [n2, if_true, if_false]
  · rw [ofn, growSegmentLinks_flow M b c hw hp]; simp only [n4, if_true, if_false]
  · rw [ofn]; exact un
  · intro hl
    rcases hw.kids p hp with hk | ⟨k1, k2, k3, k4, k5, k6, k7⟩
    · exact absurd hk.1 hl
    · rw [(lk _).2.1, growSegmentLinks_up M b c hw hp]
      have m1 : ¬ ((t.segments p).left = p) := by
        intro e; rw [e] at k6
        obtain ⟨d, B, hd⟩ := hw.rank
        have := (hd p hp).2 (by omega)
        rw [k6] at this; omega
      have m2 : ¬ ((t.segments p).left = t.currentNumberOfSegments + 1) := by omega
      have m3 : ¬ ((t.segments p).left = t.currentNumberOfSegments) := by omega
      simp only [m1, m2, m3, if_false, true_or, ne_eq, hl, not_false_eq_true, and_self, if_true]
  · intro hl
    rcases hw.kids p hp with hk | ⟨k1, k2, k3, k4, k5, k6, k7⟩
    · exact absurd hk.2 hl
    · rw [(lk _).2.1, growSegmentLinks_up M b c hw hp]
      have m1 : ¬ ((t.segments p).right = p) := by
        intro e; rw [e] at k7
        obtain ⟨d, B, hd⟩ := hw.rank
        have := (hd p hp).2 (by omega)
        rw [k7] at this; omega
      have m2 : ¬ ((t.segments p).right = t.currentNumberOfSegments + 1) := by omega
      have m3 : ¬ ((t.segments p).right = t.currentNumberOfSegments) := by omega
      simp only [m1, m2, m3, if_false, or_true, ne_eq, hl, not_false_eq_true, and_self, if_true]
  · rw [ofn1, growSegmentLinks_point M b c hw hp]; simp only [n1, if_true, if_false]
  · rw [ofn1, growSegmentLinks_flow M b c hw hp]; simp only [if_true]
  · rw [ofn1]; exact un1
  · rw [ofn1, growSegmentLinks_left M b c hw hp]; simp only [n1, n3, if_false]; exact d1.1
  · rw [ofn1, growSegmentLinks_right M b c hw hp]; simp only [n1, n3, if_false]; exact d1.2

/-- The postcondition of `growSegment` at the root of the small tree over the real numbers:
the root becomes the bifurcation with children 1 and 2. -/
theorem growSegment_postcondition_witness :
    (exampleRoot realMath).live 0 ∧
    ∃ fuel r,
      (∀ f, fuel ≤ f →
        growSegment realMath f ⟨2, 1, 1, 0⟩ ((exampleRoot realMath).segments 0)
          (Segment.make 2 ⟨2, 2, 0, 0⟩ 1) (exampleRoot realMath) = some r) ∧
      r.2.currentNumberOfSegments = 3 ∧ r.2.currentNumberOfTerminals = 2 ∧
      r.1 = r.2.segments 0 ∧ r.1.ID = 0 ∧
      (r.2.segments 0).point = ⟨2, 1, 1, 0⟩ ∧
      (r.2.segments 0).left = 1 ∧ (r.2.segments 0).right = 2 ∧
      (r.2.segments 1).point = ⟨2, 1, 0, 0⟩ ∧
      (r.2.segments 1).left = -1 ∧ (r.2.segments 1).right = -1 ∧
      (r.2.segments 1).flow = 1 ∧ (r.2.segments 1).up = 0 ∧
      (r.2.segments 2).point = ⟨2, 2, 0, 0⟩ ∧ (r.2.segments 2).flow = 1 ∧
      (r.2.segments 2).up = 0 ∧
      (r.2.segments 2).left = -1 ∧ (r.2.segments 2).right = -1 := by
  obtain ⟨fuel, r, h, a1, a2, a3, a4, a5, a6, a7, a8, a9, a10, a11, a12, -, -, a15, a16, a17,
      a18, a19⟩ :=
    growSegment_postcondition (exampleRoot_reach realMath) (exampleRoot_live realMath)
      ⟨2, 1, 1, 0⟩ (Segment.make 2 ⟨2, 2, 0, 0⟩ 1)
  exact ⟨exampleRoot_live realMath, fuel, r, h, a1, a2, a3, a4, a5, a6, a7, a8, a9, a10, a11,
    a12, a15, a16, a17, a18, a19⟩

/-! ## The frame of `moveDistalPoint` -/

/-- C10: frame of `moveDistalPoint`.  On a reachable tree, for every live segment `s` and point
`x`, `moveDistalPoint(s, x)` returns (with enough fuel) and changes no parent, left or right
link, no distal point other than that of `s`, no terminal's flow, and neither
`currentNumberOfSegments` nor `currentNumberOfTerminals`; afterwards the distal point of `s` is
`x`, and the stored lengths of `s` and (when `s` is not a terminal) of its two children are the
Euclidean distances between their new end points. -/
theorem moveDistalPoint_frame {M : CMath α} {t : Tree α} (hR : Reach M t) {s : Int}
    (hs : t.live s) (x : Point α) :
    ∃ fuel t', (∀ f, fuel ≤ f → moveDistalPoint M f t s x = some t') ∧
      (∀ i, (t'.segments i).up = (t.segments i).up ∧
        (t'.segments i).left = (t.segments i).left ∧
        (t'.segments i).right = (t.segments i).right) ∧
      (∀ i, i ≠ s → (t'.segments i).point = (t.segments i).point) ∧
      (∀ i, t.isTerminal i = true → (t'.segments i).flow = (t.segments i).flow) ∧
      t'.currentNumberOfSegments = t.currentNumberOfSegments ∧
      t'.currentNumberOfTerminals = t.currentNumberOfTerminals ∧
      (t'.segments s).point = x ∧
      t'._length s = distance M t'.dimension (t'.proximalPoint s) (t'.distalPoint s) ∧
      (t.isTerminal s = false →
        t'._length (t.segments s).left =
          distance M t'.dimension (t'.proximalPoint (t.segments s).left)
            (t'.distalPoint (t.segments s).left) ∧
        t'._length (t.segments s).right =
          distance M t'.dimension (t'.proximalPoint (t.segments s).right)
            (t'.distalPoint (t.segments s).right)) := by
  obtain ⟨fuel, t', hk⟩ := moveDistalPoint_total hR hs x
  have h1 := hk fuel (le_refl _)
  refine ⟨fuel, t', hk, ?_⟩
  have hw := hR.wfl
  obtain ⟨-, -, -, e4, e5, e6, e7⟩ := moveDistalPoint_consts h1
  simp only [moveDistalPoint, update] at h1
  have hf := updateLoop_frame M _ _ _ _ h1
  have ho := (updateLoop_off_path M fuel _ _ _ (Frame.refl _) h1).2
  have hpt : ∀ i, (t'.segments i).point = if i = s then x else (t.segments i).point := by
    intro i
    rw [show (t'.segments i).point = _ from (hf.segments i).2.1,
      moveDistalPointLengths_point]
  have hup : ∀ i, (t'.segments i).up = (t.segments i).up := by
    intro i
    rw [show (t'.segments i).up = _ from (hf.segments i).2.2.2.1, moveDistalPointLengths_up]
  have hprox : ∀ i, t'.proximalPoint i =
      if i = 0 then t.seed else
        if (t.segments i).up = s then x else (t.segments (t.segments i).up).point := by
    intro i
    rw [proximalPoint_eq, e5, hup, hpt]
  obtain ⟨d, B, hd⟩ := hw.rank
  have hsl := hs
  simp only [Tree.live] at hsl
  have hups : (t.segments s).up ≠ s := by
    intro e
    by_cases h0 : s = 0
    · rw [h0, hw.root_up] at e; omega
    · have := (hd s hs).2 h0
      rw [e] at this; omega
  have hproxs : t'.proximalPoint s = t.proximalPoint s := by
    rw [hprox, proximalPoint_eq]
    by_cases h0 : s = 0
    · rw [if_pos h0, if_pos h0]
    · rw [if_neg h0, if_neg h0, if_neg hups]
  refine ⟨fun i => ⟨hup i, ?_, ?_⟩, fun i hi => by rw [hpt, if_neg hi], ?_, e6, e7,
    by rw [hpt, if_pos rfl], ?_, ?_⟩
  · rw [show (t'.segments i).left = _ from (hf.segments i).2.2.2.2.1,
      (moveDistalPointLengths_fields M t s x i).1]
  · rw [show (t'.segments i).right = _ from (hf.segments i).2.2.2.2.2,
      (moveDistalPointLengths_fields M t s x i).2.1]
  · intro i hi
    rw [ho i (by rw [moveDistalPointLengths_isTerminal]; exact hi),
      (moveDistalPointLengths_fields M t s x i).2.2.1]
  · rw [hf.length, hproxs, Tree.distalPoint, hpt, if_pos rfl, e4]
    by_cases ht : t.isTerminal s = true
    · rw [(moveDistalPointLengths_terminal M hw hs x ht s).1, if_pos rfl]
    · rw [(moveDistalPointLengths_bifurcation M hw hs x ht s).1]
      rcases hw.kids s hs with hk' | ⟨k1, k2, k3, k4, k5, k6, k7⟩
      · exact absurd ((isTerminal_iff t s).2 hk') ht
      · have m1 : ¬ (s = (t.segments s).right) := by
          intro e
          have := (hd _ ⟨le_of_lt k3, k4⟩).2 (by omega)
          rw [k7] at this; rw [← e] at this; omega
        have m2 : ¬ (s = (t.segments s).left) := by
          intro e
          have := (hd _ ⟨le_of_lt k1, k2⟩).2 (by omega)
          rw [k6] at this; rw [← e] at this; omega
        simp only [m1, m2, if_false, if_true]
  · intro hnt
    have ht : ¬ t.isTerminal s = true := by rw [hnt]; simp
    rcases hw.kids s hs with hk' | ⟨k1, k2, k3, k4, k5, k6, k7⟩
    · exact absurd ((isTerminal_iff t s).2 hk') ht
    · have m1 : ¬ ((t.segments s).right = s) := by
        intro e
        have := (hd _ ⟨le_of_lt k3, k4⟩).2 (by omega)
        rw [k7] at this; rw [e] at this; omega
      have m2 : ¬ ((t.segments s).left = s) := by
        intro e
        have := (hd _ ⟨le_of_lt k1, k2⟩).2 (by omega)
        rw [k6] at this; rw [e] at this; omega
      have m3 : ¬ ((t.segments s).left = 0) := by omega
      have m4 : ¬ ((t.segments s).right = 0) := by omega
      rw [hf.length, hprox, hprox, Tree.distalPoint, Tree.distalPoint, hpt, hpt, e4,
        (moveDistalPointLengths_bifurcation M hw hs x ht _).1,
        (moveDistalPointLengths_bifurcation M hw hs x ht _).1]
      simp only [m1, m2, m3, m4, k5, k6, k7, if_false, if_true, and_self]

/-- The frame of `moveDistalPoint` at the root of the small tree over the real numbers. -/
theorem moveDistalPoint_frame_witness :
    (exampleRoot realMath).live 0 ∧
    ∃ fuel t', (∀ f, fuel ≤ f →
        moveDistalPoint realMath f (exampleRoot realMath) 0 ⟨2, 0, 1, 0⟩ = some t') ∧
      (∀ i, (t'.segments i).up = ((exampleRoot realMath).segments i).up ∧
        (t'.segments i).left = ((exampleRoot realMath).segments i).left ∧
        (t'.segments i).right = ((exampleRoot realMath).segments i).right) ∧
      t'.currentNumberOfSegments = 1 ∧ t'.currentNumberOfTerminals = 1 ∧
      (t'.segments 0).point = ⟨2, 0, 1, 0⟩ ∧
      t'._length 0 = distance realMath t'.dimension (t'.proximalPoint 0) (t'.distalPoint 0) := by
  obtain ⟨fuel, t', h, a1, -, -, a4, a5, a6, a7, -⟩ :=
    moveDistalPoint_frame (exampleRoot_reach realMath) (exampleRoot_live realMath)
      ⟨2, 0, 1, 0⟩
  exact ⟨exampleRoot_live realMath, fuel, t', h, a1, a4, a5, a6, a7⟩

/-! ## The radius of a segment -/

theorem radiusLoop_mul (t : Tree α) (k : α) :
    ∀ (fuel : Nat) (i : Int) (acc : α),
      radiusLoop fuel t i (acc * k) = (radiusLoop fuel t i acc).map (fun v => v * k) := by
  intro fuel
  induction fuel with
  | zero => intro i acc; rfl
  | succ n ih =>
    intro i acc
    simp only [radiusLoop]
    split
    · split
      · rw [mul_right_comm, ih]
      · rw [mul_right_comm, ih]
    · rfl

theorem radiusLoop_mono (t : Tree α) :
    ∀ (fuel : Nat) (i : Int) (acc v : α), radiusLoop fuel t i acc = some v →
      ∀ fuel', fuel ≤ fuel' → radiusLoop fuel' t i acc = some v := by
  intro fuel
  induction fuel with
  | zero => intro i acc v h; cases h
  | succ n ih =>
    intro i acc v h fuel' hle
    obtain ⟨m, rfl⟩ : ∃ m, fuel' = m + 1 := ⟨fuel' - 1, by omega⟩
    simp only [radiusLoop] at h ⊢
    split
    · rename_i hroot
      rw [if_pos hroot] at h
      exact ih _ _ _ h m (by omega)
    · rename_i hroot
      rw [if_neg hroot] at h
      exact h

theorem radiusLoop_total {t : Tree α} {d : Int → Nat} {B : Nat}
    (hw : WFL t) (hd : ∀ i, t.live i → d i ≤ B ∧ (i ≠ 0 → d (t.segments i).up < d i)) :
    ∀ (fuel : Nat) (i : Int) (acc : α), t.live i → d i < fuel →
      ∃ v, radiusLoop fuel t i acc = some v := by
  intro fuel
  induction fuel with
  | zero => intro i acc hi h; omega
  | succ n ih =>
    intro i acc hi h
    simp only [radiusLoop]
    by_cases h0 : i = 0
    · subst h0
      exact ⟨acc, by simp [Tree.isRoot, rootID]⟩
    · have hr : (!t.isRoot i) = true := by simp [Tree.isRoot, rootID, h0]
      rw [if_pos hr]
      have := (hd i hi).2 h0
      exact ih _ _ (hw.up_live i hi h0) (by omega)

/-- C8: radius recursion.  In a well-formed tree `radius` returns at the root (with any
positive fuel) the value `radiusUnit * (resistance[root] * perfusionFlow /
(perfusionPressure - terminalPressure)) ^ (1/4)`, and for every live segment `s` other than the
root, with parent `p`, `radius(s)` and `radius(p)` both return (with enough fuel) and
`radius(s)` is `radius(p) * ratioLeft(p)` when `s` is the left child of `p` and
`radius(p) * ratioRight(p)` when `s` is the right child of `p`. -/
theorem radius_recursion (M : CMath α) {t : Tree α} (hw : WFL t) :
    (∀ fuel, 0 < fuel → radius M fuel t rootID =
      some (t.radiusUnit * M.pow (t.reducedHydrodynamicResistance rootID * t.perfusionFlow /
        (t.perfusionPressure - t.terminalPressure)) (1 / 4))) ∧
    ∀ s, t.live s → s ≠ rootID → ∃ fuel rs rp,
      (∀ f, fuel ≤ f → radius M f t s = some rs ∧ radius M f t (t.segments s).up = some rp) ∧
      ((t.segments (t.segments s).up).left = s →
        rs = rp * (t.segments (t.segments s).up).bifurcationRatioLeft) ∧
      ((t.segments (t.segments s).up).right = s →
        rs = rp * (t.segments (t.segments s).up).bifurcationRatioRight) := by
  constructor
  · intro fuel hf
    obtain ⟨m, rfl⟩ : ∃ m, fuel = m + 1 := ⟨fuel - 1, by omega⟩
    simp [radius, radiusLoop, Tree.isRoot, rootRadius]
  · intro s hs h0
    have h0' : s ≠ 0 := h0
    obtain ⟨d, B, hd⟩ := hw.rank
    have hpl := hw.up_live s hs h0'
    obtain ⟨v, hv⟩ := radiusLoop_total hw hd (d (t.segments s).up + 1) _ (1 : α) hpl (by omega)
    have hr : (!t.isRoot s) = true := by simp [Tree.isRoot, rootID, h0']
    have step : ∀ f, radiusLoop (f + 1) t s 1 =
        (radiusLoop f t (t.segments s).up 1).map (fun v => v *
          (if (t.segments (t.segments s).up).left = s then
            (t.segments (t.segments s).up).bifurcationRatioLeft
          else (t.segments (t.segments s).up).bifurcationRatioRight)) := by
      intro f
      rw [← radiusLoop_mul]
      simp only [radiusLoop]
      rw [if_pos hr]
      split <;> rfl
    refine ⟨d (t.segments s).up + 2, v * (if (t.segments (t.segments s).up).left = s then
            (t.segments (t.segments s).up).bifurcationRatioLeft
          else (t.segments (t.segments s).up).bifurcationRatioRight) * rootRadius M t,
      v * rootRadius M t, ?_, ?_, ?_⟩
    · intro f hf
      obtain ⟨m, rfl⟩ : ∃ m, f = m + 1 := ⟨f - 1, by omega⟩
      have e1 := radiusLoop_mono t _ _ _ _ hv m (by omega)
      have e2 := radiusLoop_mono t _ _ _ _ hv (m + 1) (by omega)
      constructor
      · simp only [radius]
        rw [step, e1]
        rfl
      · simp only [radius]
        rw [e2]
    · intro hl
      rw [if_pos hl]; ring
    · intro hrt
      rcases hw.kids _ hpl with hk | ⟨k1, k2, k3, k4, k5, k6, k7⟩
      · have := hs.1
        rw [hk.2] at hrt; omega
      · have hne : ¬ ((t.segments (t.segments s).up).left = s) := by
          intro e; exact k5 (e.trans hrt.symm)
        rw [if_neg hne]; ring

/-- The radius recursion at the root of the small tree over the real numbers: with fuel 1
the radius of the root is returned. -/
theorem radius_recursion_witness :
    WFL (exampleRoot realMath) ∧
    radius realMath 1 (exampleRoot realMath) rootID =
      some ((exampleRoot realMath).radiusUnit *
        realMath.pow ((exampleRoot realMath).reducedHydrodynamicResistance rootID *
          (exampleRoot realMath).perfusionFlow /
          ((exampleRoot realMath).perfusionPressure - (exampleRoot realMath).terminalPressure))
          (1 / 4)) :=
  ⟨(exampleRoot_reach realMath).wfl,
    (radius_recursion realMath (exampleRoot_reach realMath).wfl).1 1 Nat.one_pos⟩

/-! ## The postcondition of `growRoot` -/

/-! ## The values that `update` leaves on the path to the root -/

theorem OnPath.rank_le {t : Tree α} (h : WFL t) {d : Int → Nat} {B : Nat}
    (hd : ∀ i, t.live i → d i ≤ B ∧ (i ≠ 0 → d (t.segments i).up < d i)) {i a : Int}
    (hp : OnPath t i a) (hi : t.live i) : d a ≤ d i := by
  induction hp with
  | self => exact le_refl _
  | step a j hne _ ih =>
    have ha0 : a ≠ 0 := by intro e; subst e; exact hne h.root_up
    have := ih (h.up_live a hi ha0)
    have := (hd a hi).2 ha0
    omega

/-- A child link of a live segment `i` other than the root is not on the walk from the parent
of `i` to the root. -/
theorem WFL.child_off_path {t : Tree α} (h : WFL t) {i : Int} (hi : t.live i) (hi0 : i ≠ 0) :
    ¬ OnPath t (t.segments i).up i ∧ ¬ OnPath t (t.segments i).up (t.segments i).left ∧
      ¬ OnPath t (t.segments i).up (t.segments i).right := by
  obtain ⟨d, B, hd⟩ := h.rank
  have hu := h.up_live i hi hi0
  have hdi := (hd i hi).2 hi0
  refine ⟨fun hp => ?_, fun hp => ?_, fun hp => ?_⟩
  · have := OnPath.rank_le h hd hp hu; omega
  · rcases h.kids i hi with hk | ⟨k1, k2, k3, k4, k5, k6, k7⟩
    · have := (OnPath.live h hp hu).1
      rw [hk.1] at this; omega
    · have h1 := OnPath.rank_le h hd hp hu
      have h2 := (hd _ ⟨le_of_lt k1, k2⟩).2 (by omega)
      rw [k6] at h2; omega
  · rcases h.kids i hi with hk | ⟨k1, k2, k3, k4, k5, k6, k7⟩
    · have := (OnPath.live h hp hu).1
      rw [hk.2] at this; omega
    · have h1 := OnPath.rank_le h hd hp hu
      have h2 := (hd _ ⟨le_of_lt k3, k4⟩).2 (by omega)
      rw [k7] at h2; omega

/-- After `update` from segment `i`, every segment on the walk from `i` to the root holds the
values that one pass of the loop body computes from the final values of its children. -/
theorem updateLoop_path_good (M : CMath α) {t0 : Tree α} (h0 : WFL t0) :
    ∀ (k : Nat) (t t' : Tree α) (i : Int), Frame t0 t → t0.live i →
      updateLoop M k t i = some t' → ∀ j, OnPath t0 i j → Good M t' j := by
  intro k
  induction k with
  | zero => intro t t' i _ _ h; simp [updateLoop] at h
  | succ n ih =>
    intro t t' i hf hi hrun j hj
    simp only [updateLoop] at hrun
    have hf1 := updateStep_frame M t i
    have hlinks : ∀ j, (t.segments j).left = (t0.segments j).left ∧
        (t.segments j).right = (t0.segments j).right ∧ (t.segments j).up = (t0.segments j).up :=
      fun j => ⟨(hf.segments j).2.2.2.2.1, (hf.segments j).2.2.2.2.2, (hf.segments j).2.2.2.1⟩
    have hlinks1 : ∀ j, ((updateStep M t i).segments j).left = (t0.segments j).left ∧
        ((updateStep M t i).segments j).right = (t0.segments j).right := fun j =>
      ⟨((hf.trans hf1).segments j).2.2.2.2.1, ((hf.trans hf1).segments j).2.2.2.2.2⟩
    obtain ⟨a1, a2, a3, a4, a5⟩ := h0.parent_facts hi
    have G1 : Good M (updateStep M t i) i :=
      updateStep_good M t (by rw [(hlinks i).1]; exact a4) (by rw [(hlinks i).2.1]; exact a5)
    have hup : ((updateStep M t i).segments i).up = (t0.segments i).up := by
      rw [updateStep_up]; exact (hlinks i).2.2
    split_ifs at hrun with hn
    · rw [hup] at hn hrun
      have hi0 : i ≠ 0 := by
        intro e; subst e; exact hn h0.root_up
      cases hj with
      | self =>
        obtain ⟨o1, o2, o3⟩ := h0.child_off_path hi hi0
        have ho := (updateLoop_off_path M n _ _ _ (hf.trans hf1) hrun).1
        have hfl := updateLoop_frame M _ _ _ _ hrun
        refine Good.congr M (ho _ o1).1 (ho _ o1).2 (congrFun hfl.length _) hfl.lengthUnit
          (congrFun hfl.bloodViscosity _) (congrFun hfl.bifurcationExpoent _) ?_ ?_ ?_ ?_ G1
        · rw [(hlinks1 i).1, (ho _ o2).1]
        · rw [(hlinks1 i).2, (ho _ o3).1]
        · rw [(hlinks1 i).1, (ho _ o2).2]
        · rw [(hlinks1 i).2, (ho _ o3).2]
      | step _ _ _ hp' =>
        exact ih _ _ _ (hf.trans hf1) (h0.up_live i hi hi0) hrun j hp'
    · cases hrun
      rw [hup] at hn
      cases hj with
      | self => exact G1
      | step _ _ hne _ => exact absurd hne hn

/-! ## The recursion of `update` over the real numbers -/

/-- A fourth root computed by the real power function is never negative. -/
theorem rpow_quarter_nonneg (x : ℝ) : 0 ≤ x ^ (1 / 4 : ℝ) := by
  by_cases hx : 0 ≤ x
  · exact Real.rpow_nonneg hx _
  · rw [Real.rpow_def_of_neg (lt_of_not_ge hx),
      show (1 / 4 : ℝ) * Real.pi = Real.pi / 4 by ring, Real.cos_pi_div_four]
    positivity

/-- C7: recursion of `update`, with `pow` the real power function.  On a tree with well-formed
links, `update` from a live segment `s` returns (with enough fuel), and afterwards, for every
segment `a` on the path from `s` to the root: if `a` is a terminal then
`resistance[a] = (8/π) * viscosity(a) * length(a)` and both bifurcation ratios of `a` are 1; if
`a` is a bifurcation with children `l` and `r` then, with
`q = (flow(l)/flow(r) * (R[l]/R[r])) ^ (1/4)` and `γ` the bifurcation exponent of `a`,
`ratioLeft(a) = (1 + q ^ (-γ)) ^ (-1/γ)`, `ratioRight(a) = (1 + q ^ γ) ^ (-1/γ)` and
`resistance[a] = (8/π) * viscosity(a) * length(a) +
1 / (ratioLeft(a) ^ 4 / R[l] + ratioRight(a) ^ 4 / R[r])`. -/
theorem update_recursion {t : Tree ℝ} (hw : WFL t) {s : Int} (hs : t.live s) :
    ∃ fuel t', (∀ f, fuel ≤ f → update realMath f t (t.segments s) = some t') ∧
      ∀ a, OnPath t s a →
        (t'.isTerminal a = true →
          t'.reducedHydrodynamicResistance a =
            8 / Real.pi * t'.bloodViscosity a * t'.length a ∧
          (t'.segments a).bifurcationRatioLeft = 1 ∧
          (t'.segments a).bifurcationRatioRight = 1) ∧
        (t'.isTerminal a = false →
          let q : ℝ := ((t'.leftSegment a).flow / (t'.rightSegment a).flow *
            (t'.reducedHydrodynamicResistance (t'.segments a).left /
              t'.reducedHydrodynamicResistance (t'.segments a).right)) ^ (1 / 4 : ℝ)
          let γ : ℝ := t'.bifurcationExpoent a
          (t'.segments a).bifurcationRatioLeft = (1 + q ^ (-γ)) ^ (-1 / γ) ∧
          (t'.segments a).bifurcationRatioRight = (1 + q ^ γ) ^ (-1 / γ) ∧
          t'.reducedHydrodynamicResistance a =
            8 / Real.pi * t'.bloodViscosity a * t'.length a +
              1 / ((t'.segments a).bifurcationRatioLeft ^ (4 : ℝ) /
                    t'.reducedHydrodynamicResistance (t'.segments a).left +
                  (t'.segments a).bifurcationRatioRight ^ (4 : ℝ) /
                    t'.reducedHydrodynamicResistance (t'.segments a).right)) := by
  obtain ⟨fuel, t', hk⟩ := updateLoop_terminates realMath hw hs
  refine ⟨fuel, t', fun f hf => ?_, fun a ha => ?_⟩
  · simp only [update, hw.ids s hs]
    exact hk f hf
  · have hg := updateLoop_path_good realMath hw fuel t t' s (Frame.refl _) hs
      (hk fuel (le_refl _)) a ha
    unfold Good at hg
    constructor
    · intro hterm
      rw [if_pos hterm] at hg
      exact hg
    · intro hnt
      rw [hnt] at hg
      simp only [Bool.false_eq_true, if_false, bifurcationRatios, realMath,
        poiseuilleLawConstant] at hg
      obtain ⟨-, g2, g3, g4⟩ := hg
      intro q γ
      have hq : 0 ≤ q := rpow_quarter_nonneg _
      refine ⟨?_, g3, g4⟩
      rw [g2, Real.rpow_neg hq, one_div]

/-- The recursion of `update` at the root of the small tree, a terminal. -/
theorem update_recursion_witness :
    WFL (exampleRoot realMath) ∧ (exampleRoot realMath).live 0 ∧
    ∃ fuel t',
      (∀ f, fuel ≤ f →
        update realMath f (exampleRoot realMath) ((exampleRoot realMath).segments 0) =
          some t') ∧
      t'.reducedHydrodynamicResistance 0 = 8 / Real.pi * t'.bloodViscosity 0 * t'.length 0 ∧
      (t'.segments 0).bifurcationRatioLeft = 1 ∧ (t'.segments 0).bifurcationRatioRight = 1 := by
  obtain ⟨fuel, t', h, ha⟩ :=
    update_recursion (exampleRoot_reach realMath).wfl (exampleRoot_live realMath)
  have hf := updateLoop_frame realMath _ _ _ _ (h fuel (le_refl _))
  exact ⟨(exampleRoot_reach realMath).wfl, exampleRoot_live realMath, fuel, t', h,
    (ha 0 (OnPath.self 0)).1 (by rw [hf.isTerminal]; rfl)⟩

/-! ## The counts kept by the driver -/

theorem Counted.growSegment_balance {M : CMath α} {fuel : Nat} {b : Point α}
    {parent child : Segment α} {s s' : Counted α} {r : Segment α} {k : Int}
    (h : s.growSegment M fuel b parent child = some (r, s')) (hb : Balance s k) :
    Balance s' (k + 1) := by
  simp only [Counted.growSegment] at h
  split at h
  · cases h
  · rename_i r0 hr
    cases h
    obtain ⟨-, -, -, -, -, e6, e7⟩ := growSegment_consts hr
    obtain ⟨b1, b2, b3⟩ := hb
    refine ⟨?_, ?_, ?_⟩
    · show r0.2.currentNumberOfTerminals = _
      omega
    · show r0.2.currentNumberOfSegments = _
      omega
    · show s.growSegmentCalls + 1 - s.removeCalls = _
      omega

theorem Counted.remove_balance {M : CMath α} {fuel : Nat} {seg : Segment α}
    {s s' : Counted α} {r : Segment α} {k : Int}
    (h : s.remove M fuel seg = some (r, s')) (hb : Balance s (k + 1)) : Balance s' k := by
  simp only [Counted.remove] at h
  split at h
  · cases h
  · rename_i r0 hr
    cases h
    obtain ⟨-, -, -, -, -, e6, e7⟩ := remove_consts hr
    obtain ⟨b1, b2, b3⟩ := hb
    refine ⟨?_, ?_, ?_⟩
    · show r0.2.currentNumberOfTerminals = _
      omega
    · show r0.2.currentNumberOfSegments = _
      omega
    · show s.growSegmentCalls - (s.removeCalls + 1) = _
      omega

theorem SimpleOptimization.evaluate_tree {D C : Type} (K : Collaborators α D C) (d : D)
    (segment : Segment α) (x : Point α) (S : Search α) :
    (SimpleOptimization.evaluate K d segment x S).tree = S.tree := by
  simp only [SimpleOptimization.evaluate]
  split_ifs <;> rfl

theorem SimpleOptimization.columnLoop_counts {D C : Type} (K : Collaborators α D C)
    (M : CMath α) (fuel : Nat) (d : D) (segment : Segment α) (Xi Xnew Xj : Point α) (step : α)
    (numberOfPoints line : Int) :
    ∀ (cols : List Int) (S S' : Search α),
      SimpleOptimization.columnLoop K M fuel d segment Xi Xnew Xj step numberOfPoints line
        cols S = some S' →
      S'.tree.currentNumberOfSegments = S.tree.currentNumberOfSegments ∧
      S'.tree.currentNumberOfTerminals = S.tree.currentNumberOfTerminals := by
  intro cols
  induction cols with
  | nil => intro S S' h; simp only [SimpleOptimization.columnLoop] at h; cases h; exact ⟨rfl, rfl⟩
  | cons col rest ih =>
    intro S S' h
    simp only [SimpleOptimization.columnLoop] at h
    split at h
    · cases h
    · rename_i t ht
      obtain ⟨-, -, -, -, -, e6, e7⟩ := moveDistalPoint_consts ht
      have := ih _ _ h
      rw [SimpleOptimization.evaluate_tree] at this
      exact ⟨this.1.trans e6, this.2.trans e7⟩

theorem SimpleOptimization.lineLoop_counts {D C : Type} (K : Collaborators α D C)
    (M : CMath α) (fuel : Nat) (d : D) (segment : Segment α) (Xi Xnew Xj : Point α) (step : α)
    (numberOfPoints : Int) :
    ∀ (lines : List Int) (S S' : Search α),
      SimpleOptimization.lineLoop K M fuel d segment Xi Xnew Xj step numberOfPoints
        lines S = some S' →
      S'.tree.currentNumberOfSegments = S.tree.currentNumberOfSegments ∧
      S'.tree.currentNumberOfTerminals = S.tree.currentNumberOfTerminals := by
  intro lines
  induction lines with
  | nil => intro S S' h; simp only [SimpleOptimization.lineLoop] at h; cases h; exact ⟨rfl, rfl⟩
  | cons line rest ih =>
    intro S S' h
    simp only [SimpleOptimization.lineLoop] at h
    split at h
    · cases h
    · rename_i S1 h1
      have a := SimpleOptimization.columnLoop_counts K M fuel d segment Xi Xnew Xj step
        numberOfPoints line _ _ _ h1
      have b := ih _ _ h
      exact ⟨b.1.trans a.1, b.2.trans a.2⟩

/-- `SimpleOptimization::bifurcation` changes neither count of the tree. -/
theorem SimpleOptimization.bifurcation_counts {D C : Type} (K : Collaborators α D C)
    (M : CMath α) (fuel : Nat) (d : D) (t : Tree α) (segment : Segment α)
    {r : Connection α × Tree α}
    (h : SimpleOptimization.bifurcation K M fuel d t segment = some r) :
    r.2.currentNumberOfSegments = t.currentNumberOfSegments ∧
    r.2.currentNumberOfTerminals = t.currentNumberOfTerminals := by
  simp only [SimpleOptimization.bifurcation] at h
  split at h
  · cases h
  · rename_i S hS
    have a := SimpleOptimization.lineLoop_counts K M fuel d segment _ _ _ _ _ _ _ _ hS
    split at h
    · cases h
    · rename_i t' ht'
      cases h
      obtain ⟨-, -, -, -, -, e6, e7⟩ := moveDistalPoint_consts ht'
      exact ⟨e6.trans a.1, e7.trans a.2⟩

theorem ConstrainedConstructiveOptimization.connectLoop_balance {D C : Type}
    (K : Collaborators α D C) (M : CMath α) (fuel : Nat) (d : D) (point : Point α)
    (closestSegments : Int → Int) (k : Int) :
    ∀ (l : List Int) (r r' : Counted α × Segment α × ConnectionEvaluationTable α),
      ConstrainedConstructiveOptimization.connectLoop K M fuel d point closestSegments l r
        = some r' →
      Balance r.1 k → Balance r'.1 k := by
  intro l
  induction l with
  | nil =>
    intro r r' h hb
    simp only [ConstrainedConstructiveOptimization.connectLoop] at h
    cases h; exact hb
  | cons i rest ih =>
    intro r r' h hb
    obtain ⟨s, newSegment, T⟩ := r
    simp only [ConstrainedConstructiveOptimization.connectLoop] at h
    split at h
    · cases h
    · rename_i u s1 h1
      have b1 := Counted.growSegment_balance h1 hb
      split at h
      · cases h
      · rename_i conn t h2
        have c := SimpleOptimization.bifurcation_counts K M fuel d _ _ h2
        split at h
        · cases h
        · rename_i x s3 h3
          have b2 : Balance { s1 with tree := t } (k + 1) :=
            ⟨c.2.trans b1.1, c.1.trans b1.2.1, b1.2.2⟩
          exact ih _ _ h (Counted.remove_balance h3 b2)

theorem ConnectionEvaluationTable.reduceLoop_balance {D C : Type}
    (K : Collaborators α D C) (M : CMath α) (fuel : Nat) (k : Int) :
    ∀ (l : List Int) (T : ConnectionEvaluationTable α) (s : Counted α)
      (r : ConnectionEvaluationTable α × Counted α),
      ConnectionEvaluationTable.reduceLoop K M fuel l T s = some r →
      Balance s k → Balance r.2 k := by
  intro l
  induction l with
  | nil =>
    intro T s r h hb
    simp only [ConnectionEvaluationTable.reduceLoop] at h
    cases h; exact hb
  | cons i rest ih =>
    intro T s r h hb
    simp only [ConnectionEvaluationTable.reduceLoop] at h
    split at h
    · cases h
    · rename_i u s1 h1
      have b1 := Counted.growSegment_balance h1 hb
      split at h
      · cases h
      · rename_i x s3 h3
        exact ih _ _ _ h (Counted.remove_balance h3 b1)

/-- One pass of the loop of `grow` keeps the balance, and `Kterm` stays or grows by one. -/
theorem ConstrainedConstructiveOptimization.growStep_balance {D C : Type}
    (K : Collaborators α D C) (M : CMath α) (fuel : Nat) {G G' : Grow α D C}
    (h : ConstrainedConstructiveOptimization.growStep K M fuel G = some G')
    (hb : Balance G.counted G.Kterm) :
    Balance G'.counted G'.Kterm ∧ (G'.Kterm = G.Kterm ∨ G'.Kterm = G.Kterm + 1) := by
  simp only [ConstrainedConstructiveOptimization.growStep] at h
  split at h
  · cases h
  · rename_i point d c att hp
    split at h
    · cases h
    · rename_i vicinity hv
      split at h
      · cases h
      · rename_i s newSegment T hc
        have b1 := ConstrainedConstructiveOptimization.connectLoop_balance K M fuel _ point
          _ G.Kterm _ _ _ hc hb
        split at h
        · cases h
        · rename_i T2 s2 hr
          have b2 := ConnectionEvaluationTable.reduceLoop_balance K M fuel G.Kterm _ _ _ _ hr b1
          by_cases hpos : T2.currentNumberOfReasonableConnections > 0
          · rw [if_pos hpos] at h
            split at h
            · cases h
            · rename_i x s3 hg
              cases h
              exact ⟨Counted.growSegment_balance hg b2, Or.inr rfl⟩
          · rw [if_neg hpos] at h
            cases h
            exact ⟨b2, Or.inl rfl⟩

theorem ConstrainedConstructiveOptimization.growLoop_balance {D C : Type}
    (K : Collaborators α D C) (M : CMath α) (fuel : Nat) :
    ∀ (n : Nat) (G G' : Grow α D C),
      ConstrainedConstructiveOptimization.growLoop K M fuel n G = some G' →
      Balance G.counted G.Kterm → G.Kterm ≤ K.numberOfTerminals →
      Balance G'.counted K.numberOfTerminals := by
  intro n
  induction n with
  | zero => intro G G' h; simp [ConstrainedConstructiveOptimization.growLoop] at h
  | succ n ih =>
    intro G G' h hb hle
    simp only [ConstrainedConstructiveOptimization.growLoop] at h
    split_ifs at h with hlt
    · split at h
      · cases h
      · rename_i G1 h1
        obtain ⟨b1, hk⟩ := ConstrainedConstructiveOptimization.growStep_balance K M fuel h1 hb
        exact ih _ _ h b1 (by omega)
    · cases h
      have : G.Kterm = K.numberOfTerminals := by omega
      rw [← this]; exact hb

/-- C6: completion of `grow`.  Whenever `ConstrainedConstructiveOptimization::grow` returns,
for a driver with `numberOfTerminals = N ≥ 1`, the tree has `currentNumberOfTerminals = N` and
`currentNumberOfSegments = 2 * N - 1` (7 segments for 4 terminals), and the calls of
`growSegment` exceed the calls of `remove` by exactly `N - 1`: one `growSegment` for each
terminal added after the root was left without its `remove`. -/
theorem grow_completion {D C : Type} (K : Collaborators α D C) (M : CMath α) (fuel : Nat)
    (t : Tree α) (d : D) (c : C) (U : Uninitialised α) (G : Grow α D C)
    (hN : 1 ≤ K.numberOfTerminals)
    (h : ConstrainedConstructiveOptimization.grow K M fuel t d c U = some G) :
    G.counted.tree.currentNumberOfTerminals = K.numberOfTerminals ∧
    G.counted.tree.currentNumberOfSegments = 2 * K.numberOfTerminals - 1 ∧
    (K.numberOfTerminals = 4 → G.counted.tree.currentNumberOfSegments = 7 ∧
      G.counted.tree.currentNumberOfTerminals = 4) ∧
    G.counted.growSegmentCalls - G.counted.removeCalls = K.numberOfTerminals - 1 := by
  simp only [ConstrainedConstructiveOptimization.grow] at h
  split at h
  · cases h
  · rename_i t1 d1 c1 hroot
    simp only [ConstrainedConstructiveOptimization.growRoot] at hroot
    split at hroot
    · cases hroot
    · rename_i point d2 hp
      split_ifs at hroot
      cases hroot
      have hb := ConstrainedConstructiveOptimization.growLoop_balance K M fuel _ _ _ h
        ⟨rfl, rfl, rfl⟩ hN
      obtain ⟨b1, b2, b3⟩ := hb
      exact ⟨b1, b2, fun h4 => ⟨by rw [b2, h4]; rfl, by rw [b1, h4]⟩, b3⟩

/-! ## A run of the driver that adds a terminal -/

/-- `remove` reads only the parent link of the segment value it is given. -/
theorem remove_congr_up (M : CMath α) (fuel : Nat) (t : Tree α) {seg seg' : Segment α}
    (h : seg.up = seg'.up) : remove M fuel t seg = remove M fuel t seg' := by
  simp only [remove, removeLinks, removeReattach, h]

theorem moveDistalPoint_sameLinks {M : CMath α} {fuel : Nat} {t t' : Tree α} {s : Int}
    {x : Point α} (h : moveDistalPoint M fuel t s x = some t') : SameLinks t' t := by
  simp only [moveDistalPoint, update] at h
  exact (updateLoop_frame M _ _ _ _ h).sameLinks.trans_links
    (moveDistalPointLengths_sameLinks M t s x)

theorem exampleEvaluate (N : Int) (d : Nat) (segment : Segment α) (x : Point α)
    (S : Search α) (hS : ExampleSearch S) :
    ExampleSearch (SimpleOptimization.evaluate (exampleDriver N) d segment x S) ∧
    (SimpleOptimization.evaluate (exampleDriver N) d segment x S).hasMinimum = true ∧
    (SimpleOptimization.evaluate (exampleDriver N) d segment x S).tree = S.tree := by
  by_cases hmin : S.hasMinimum = true
  · have e0 : ¬ ((0 : α) < S.minimumEvaluatedTargetFunction) := by rw [hS.1 hmin]; simp
    have e : SimpleOptimization.evaluate (exampleDriver N) d segment x S = S := by
      simp only [SimpleOptimization.evaluate, exampleDriver, if_true, e0, if_false]
    rw [e]
    exact ⟨hS, hmin, rfl⟩
  · have hmin' : S.hasMinimum = false := by simpa using hmin
    have e0 : (0 : α) < S.minimumEvaluatedTargetFunction := by rw [hS.2 hmin']; norm_num
    have e : SimpleOptimization.evaluate (exampleDriver N) d segment x S =
        { S with minimumEvaluatedTargetFunction := 0, optimalBifurcationPoint := x,
                 hasMinimum := true } := by
      simp only [SimpleOptimization.evaluate, exampleDriver, if_true, e0]
    rw [e]
    exact ⟨⟨fun _ => rfl, fun h => by cases h⟩, rfl, rfl⟩

theorem exampleColumnLoop_total (M : CMath α) (N : Int) (d : Nat) (segment : Segment α)
    (Xi Xnew Xj : Point α) (step : α) (numberOfPoints line : Int) :
    ∀ (cols : List Int) (S : Search α), Reach M S.tree → S.tree.live segment.ID →
      ExampleSearch S →
      ∃ f0 S', (∀ f, f0 ≤ f →
          SimpleOptimization.columnLoop (exampleDriver N) M f d segment Xi Xnew Xj step
            numberOfPoints line cols S = some S') ∧
        Reach M S'.tree ∧ SameLinks S'.tree S.tree ∧ ExampleSearch S' ∧
        (cols ≠ [] → S'.hasMinimum = true) ∧ (S.hasMinimum = true → S'.hasMinimum = true) := by
  intro cols
  induction cols with
  | nil =>
    intro S hR hl hS
    exact ⟨0, S, fun f _ => rfl, hR, ⟨rfl, fun _ _ => ⟨rfl, rfl, rfl, rfl⟩⟩, hS,
      fun h => absurd rfl h, fun h => h⟩
  | cons col rest ih =>
    intro S hR hl hS
    obtain ⟨f1, t1, h1⟩ := moveDistalPoint_total hR hl
      (SimpleOptimization.map ((exampleDriver N : Collaborators α Nat Unit).domainDimension d)
        Xi Xnew Xj (((col - 1 : Int) : α) * step) (((numberOfPoints - line : Int) : α) * step))
    have hm := h1 f1 (le_refl _)
    have hR1 : Reach M t1 := Reach.move f1 _ _ S.tree t1 hR hl hm
    have hsl := moveDistalPoint_sameLinks hm
    have hl1 : t1.live segment.ID := (hsl.live_iff _).2 hl
    obtain ⟨v1, v2, v3⟩ := exampleEvaluate N d segment
      (SimpleOptimization.map ((exampleDriver N : Collaborators α Nat Unit).domainDimension d)
        Xi Xnew Xj (((col - 1 : Int) : α) * step) (((numberOfPoints - line : Int) : α) * step))
      { S with tree := t1 } hS
    obtain ⟨f2, S', h2, r1, r2, r3, r4, r5⟩ := ih _ (by rw [v3]; exact hR1)
      (by rw [v3]; exact hl1) v1
    rw [v3] at r2
    refine ⟨max f1 f2, S', fun f hf => ?_, r1, r2.trans_links hsl, r3, fun _ => r5 v2,
      fun _ => r5 v2⟩
    simp only [SimpleOptimization.columnLoop]
    rw [h1 f (le_trans (le_max_left _ _) hf)]
    exact h2 f (le_trans (le_max_right _ _) hf)

theorem exampleLineLoop_total (M : CMath α) (N : Int) (d : Nat) (segment : Segment α)
    (Xi Xnew Xj : Point α) (step : α) (numberOfPoints : Int) :
    ∀ (lines : List Int) (S : Search α), Reach M S.tree → S.tree.live segment.ID →
      ExampleSearch S →
      ∃ f0 S', (∀ f, f0 ≤ f →
          SimpleOptimization.lineLoop (exampleDriver N) M f d segment Xi Xnew Xj step
            numberOfPoints lines S = some S') ∧
        Reach M S'.tree ∧ SameLinks S'.tree S.tree ∧ ExampleSearch S' ∧
        ((∃ line rest, lines = line :: rest ∧ 0 < line) → S'.hasMinimum = true) ∧
        (S.hasMinimum = true → S'.hasMinimum = true) := by
  intro lines
  induction lines with
  | nil =>
    intro S hR hl hS
    refine ⟨0, S, fun f _ => rfl, hR, ⟨rfl, fun _ _ => ⟨rfl, rfl, rfl, rfl⟩⟩, hS, ?_, fun h => h⟩
    rintro ⟨line, rest, h, -⟩
    cases h
  | cons line rest ih =>
    intro S hR hl hS
    obtain ⟨f1, S1, h1, a1, a2, a3, a4, a5⟩ := exampleColumnLoop_total M N d segment Xi Xnew Xj
      step numberOfPoints line ((indices line).map (fun k => k + 1)) S hR hl hS
    obtain ⟨f2, S', h2, r1, r2, r3, r4, r5⟩ := ih S1 a1 ((a2.live_iff _).2 hl) a3
    refine ⟨max f1 f2, S', fun f hf => ?_, r1, r2.trans_links a2, r3, ?_, fun h => r5 (a5 h)⟩
    · simp only [SimpleOptimization.lineLoop]
      rw [h1 f (le_trans (le_max_left _ _) hf)]
      exact h2 f (le_trans (le_max_right _ _) hf)
    · rintro ⟨line', rest', h, hpos⟩
      cases h
      apply r5
      apply a4
      obtain ⟨m, hm⟩ : ∃ m : Nat, line.toNat = m + 1 := ⟨line.toNat - 1, by omega⟩
      simp [indices, hm, List.range_succ_eq_map]

/-- Under the example driver `SimpleOptimization::bifurcation` returns on a bifurcation of a
reachable tree: it leaves the links as they are and yields a connection with the target
value 0 whose new segment is the right child of the bifurcation. -/
theorem exampleBifurcation_total (M : CMath α) (N : Int) (d : Nat) {t : Tree α}
    (hR : Reach M t) (segment : Segment α) (hl : t.live segment.ID)
    (hr : t.live (t.segments segment.ID).right) :
    ∃ f0 conn t', (∀ f, f0 ≤ f →
        SimpleOptimization.bifurcation (exampleDriver N) M f d t segment = some (conn, t')) ∧
      Reach M t' ∧ SameLinks t' t ∧ conn.bifurcationSegmentID = segment.ID ∧
      conn.targetFunctionValue = 0 ∧ conn.newSegment.up = (t.rightSegment segment.ID).up := by
  obtain ⟨f1, S, h1, a1, a2, a3, a4, -⟩ := exampleLineLoop_total M N d segment
    (Geometry.add ((exampleDriver N : Collaborators α Nat Unit).domainDimension d)
      (t.proximalPoint segment.ID)
      (Geometry.scalarProduct ((exampleDriver N : Collaborators α Nat Unit).domainDimension d)
        (3 / 10)
        (Geometry.subtract ((exampleDriver N : Collaborators α Nat Unit).domainDimension d)
          (t.distalPoint segment.left) (t.proximalPoint segment.ID))))
    (Geometry.add ((exampleDriver N : Collaborators α Nat Unit).domainDimension d)
      (t.distalPoint segment.right)
      (Geometry.scalarProduct ((exampleDriver N : Collaborators α Nat Unit).domainDimension d)
        (3 / 10)
        (Geometry.subtract ((exampleDriver N : Collaborators α Nat Unit).domainDimension d)
          segment.point (t.distalPoint segment.right))))
    (Geometry.add ((exampleDriver N : Collaborators α Nat Unit).domainDimension d)
      (t.proximalPoint segment.ID)
      (Geometry.scalarProduct ((exampleDriver N : Collaborators α Nat Unit).domainDimension d)
        (1 - 3 / 10)
        (Geometry.subtract ((exampleDriver N : Collaborators α Nat Unit).domainDimension d)
          (t.distalPoint segment.left) (t.proximalPoint segment.ID))))
    (1 / (((exampleDriver N : Collaborators α Nat Unit).intervalDivision : Int) : α))
    ((exampleDriver N : Collaborators α Nat Unit).intervalDivision + 1)
    ((indices ((exampleDriver N : Collaborators α Nat Unit).intervalDivision + 1)).map
      (fun k => (exampleDriver N : Collaborators α Nat Unit).intervalDivision + 1 - k))
    { tree := t, minimumEvaluatedTargetFunction := 1000000000000000,
      optimalBifurcationPoint := Point.default, hasMinimum := false }
    hR hl ⟨fun h => Bool.noConfusion h, fun _ => rfl⟩
  have hlines : ∃ line rest,
      ((indices ((exampleDriver N : Collaborators α Nat Unit).intervalDivision + 1)).map
        (fun k => (exampleDriver N : Collaborators α Nat Unit).intervalDivision + 1 - k))
        = line :: rest ∧ 0 < line := ⟨6, [5, 4, 3, 2, 1], rfl, by decide⟩
  have hmin : S.hasMinimum = true := a4 hlines
  have hlS : S.tree.live segment.ID := (a2.live_iff _).2 hl
  obtain ⟨f2, t', h2⟩ := moveDistalPoint_total a1 hlS segment.point
  have hm := h2 f2 (le_refl _)
  have hsl := moveDistalPoint_sameLinks hm
  refine ⟨max f1 f2,
    { bifurcationSegmentID := segment.ID, bifurcationPoint := S.optimalBifurcationPoint,
      newSegment := S.tree.rightSegment segment.ID,
      targetFunctionValue := S.minimumEvaluatedTargetFunction },
    t', fun f hf => ?_, Reach.move f2 _ _ _ _ a1 hlS hm, hsl.trans_links a2, ?_, ?_, ?_⟩
  · simp only [SimpleOptimization.bifurcation]
    rw [h1 f (le_trans (le_max_left _ _) hf)]
    simp only [hmin, if_true]
    rw [h2 f (le_trans (le_max_right _ _) hf)]
  · rfl
  · exact a3.1 hmin
  · show (S.tree.segments (S.tree.segments segment.ID).right).up = _
    have e1 := (a2.2 _ hlS).2.2.2
    have e1' : (S.tree.segments segment.ID).right = (t.segments segment.ID).right := e1
    rw [e1']
    exact (a2.2 _ ((a2.live_iff _).2 hr)).2.1

/-- On a reachable tree `growSegment` on a live segment returns, and the result is reachable
with the new connection and terminal in its last two slots. -/
theorem growSegment_total_tail {M : CMath α} {t : Tree α} (hR : Reach M t) {p : Int}
    (hp : t.live p) (b : Point α) (c : Segment α) :
    ∃ f0 r, (∀ f, f0 ≤ f → growSegment M f b (t.segments p) c t = some r) ∧
      Reach M r.2 ∧ r.1.ID = p ∧ Tail r.2 p ∧
      r.2.currentNumberOfSegments = t.currentNumberOfSegments + 2 ∧
      r.2.currentNumberOfTerminals = t.currentNumberOfTerminals + 1 := by
  obtain ⟨f0, r, h⟩ := growSegment_total hR hp b c
  have h1 := h f0 (le_refl _)
  have hR1 : Reach M r.2 := Reach.grow f0 b p c t r hR hp h1
  obtain ⟨e6, hT, -⟩ := growSegment_tail hR hp h1
  obtain ⟨q1, -⟩ := growSegment_post hR hp h1
  obtain ⟨-, -, -, -, -, -, e7⟩ := growSegment_consts h1
  have hpl := hp
  simp only [Tree.live] at hpl
  refine ⟨f0, r, h, hR1, ?_, hT, e6, e7⟩
  rw [q1]
  exact hR1.wfl.ids p (by simp only [Tree.live]; omega)

/-- On a reachable tree whose last two slots hang below `p`, `remove` of any segment value
with parent link `p` returns, and the result is reachable. -/
theorem remove_total_tail {M : CMath α} {t : Tree α} (hR : Reach M t) {p : Int}
    (hT : Tail t p) {seg : Segment α} (hs : seg.up = p) :
    ∃ f0 r, (∀ f, f0 ≤ f → remove M f t seg = some r) ∧ Reach M r.2 ∧
      r.2.currentNumberOfSegments = t.currentNumberOfSegments - 2 ∧
      r.2.currentNumberOfTerminals = t.currentNumberOfTerminals - 1 := by
  have hc : 1 < t.currentNumberOfSegments := by have := hT.cur; omega
  obtain ⟨f0, r, h⟩ := remove_total hR hc
  have e : seg.up = (t.segments (t.currentNumberOfSegments - 1)).up := by
    rw [hs, hT.up_terminal]
  have h1 := h f0 (le_refl _)
  obtain ⟨-, -, -, -, -, e6, e7⟩ := remove_consts h1
  refine ⟨f0, r, fun f hf => ?_, Reach.remove f0 t r hR hc h1, e6, e7⟩
  rw [remove_congr_up M f t e]
  exact h f hf

theorem SameLinks.tail_links {t' t : Tree α} (h : SameLinks t' t) {p : Int} (hT : Tail t p) :
    Tail t' p := by
  have hc := h.1
  have c := hT.cur
  have e1 := h.2 (t'.currentNumberOfSegments - 1) (by simp only [Tree.live]; omega)
  have e2 := h.2 (t'.currentNumberOfSegments - 2) (by simp only [Tree.live]; omega)
  have e3 := h.2 p (by simp only [Tree.live]; have := hT.p_nonneg; have := hT.p_lt; omega)
  rw [hc] at e1 e2
  exact ⟨by omega, hT.p_nonneg, by rw [hc]; exact hT.p_lt,
    by rw [hc, e1.2.1]; exact hT.up_terminal, by rw [hc, e2.2.1]; exact hT.up_connection,
    by rw [hc, e3.2.2.1]; exact hT.left_p, by rw [hc, e3.2.2.2]; exact hT.right_p,
    by rw [hc, e1.2.2.1]; exact hT.left_terminal, by rw [hc, e1.2.2.2]; exact hT.right_terminal⟩

/-- One pass of the loop of `grow` over the closest segments, under the example driver, on a
reachable tree and a closest segment that is live: the connection is made, optimised, added
to the table and undone. -/
theorem exampleConnect (M : CMath α) (N : Int) (d : Nat) (s : Counted α)
    (hR : Reach M s.tree) (point : Point α) (newSegment : Segment α)
    (T : ConnectionEvaluationTable α) (cs : Int → Int) (i : Int) (hp : s.tree.live (cs i)) :
    ∃ f0 t' ns conn, (∀ f, f0 ≤ f →
        ConstrainedConstructiveOptimization.connectLoop (exampleDriver N) M f d point cs [i]
          (s, newSegment, T) =
        some ({ tree := t', growSegmentCalls := s.growSegmentCalls + 1,
                removeCalls := s.removeCalls + 1 }, ns, T.add conn)) ∧
      Reach M t' ∧ t'.currentNumberOfSegments = s.tree.currentNumberOfSegments ∧
      t'.currentNumberOfTerminals = s.tree.currentNumberOfTerminals ∧
      conn.bifurcationSegmentID = cs i ∧ conn.targetFunctionValue = 0 ∧
      conn.newSegment.up = cs i := by
  obtain ⟨f1, r1, h1, hR1, hid, hT1, c1, c1'⟩ := growSegment_total_tail hR hp
    (Geometry.middle s.tree.dimension (s.tree.proximalPoint (cs i))
      (s.tree.distalPoint (cs i)))
    (ConstrainedConstructiveOptimization.candidate (exampleDriver N) s.tree newSegment point)
  have hpl := hp
  simp only [Tree.live] at hpl
  have hl1 : r1.2.live r1.1.ID := by rw [hid]; simp only [Tree.live]; omega
  have hright : (r1.2.segments r1.1.ID).right = r1.2.currentNumberOfSegments - 1 := by
    rw [hid]; exact hT1.right_p
  have hlr : r1.2.live (r1.2.segments r1.1.ID).right := by
    rw [hright]; simp only [Tree.live]; omega
  obtain ⟨f2, conn, t2, h2, hR2, hsl2, k1, k2, k3⟩ :=
    exampleBifurcation_total M N d hR1 r1.1 hl1 hlr
  have hT2 : Tail t2 (cs i) := hsl2.tail_links hT1
  have hup : (r1.2.rightSegment r1.1.ID).up = cs i := by
    rw [Tree.rightSegment, hright]; exact hT1.up_terminal
  obtain ⟨f3, r3, h3, hR3, c3, c3'⟩ := remove_total_tail hR2 hT2 hup
  have hne : conn.empty = false := by
    simp only [Connection.empty, k1, hid, decide_eq_false_iff_not]; omega
  have ct := (SimpleOptimization.bifurcation_counts (exampleDriver N) M f2 d _ _
    (h2 f2 (le_refl _))).2
  have ct' : t2.currentNumberOfTerminals = r1.2.currentNumberOfTerminals := ct
  refine ⟨max f1 (max f2 f3), r3.2, r1.2.rightSegment r1.1.ID, conn, fun f hf => ?_, hR3,
    by rw [c3, hsl2.1, c1]; omega, by rw [c3', ct', c1']; omega,
    k1.trans hid, k2, k3.trans hup⟩
  have g1 := h1 f (le_trans (le_max_left _ _) hf)
  have g2 := h2 f (le_trans (le_trans (le_max_left _ _) (le_max_right _ _)) hf)
  have g3 := h3 f (le_trans (le_trans (le_max_right _ _) (le_max_right _ _)) hf)
  simp only [ConstrainedConstructiveOptimization.connectLoop, Counted.growSegment, g1, g2,
    hne, Counted.remove, g3, Bool.not_false, if_true]

theorem indices_zero : indices 0 = [] := rfl

theorem indices_one : indices 1 = [0] := rfl

/-- `ConnectionEvaluationTable::reduce` under the example driver, on a reachable tree and a
table with one connection, to a live segment, whose new segment has that segment as parent:
the connection is made, found reasonable and undone. -/
theorem exampleReduce (M : CMath α) (N : Int) (s : Counted α) (hR : Reach M s.tree)
    (T : ConnectionEvaluationTable α) (hT : T.currentNumberOfConnections = 1)
    (hp : s.tree.live (T.connections 0).bifurcationSegmentID)
    (hup : (T.connections 0).newSegment.up = (T.connections 0).bifurcationSegmentID) :
    ∃ f0 t' T', (∀ f, f0 ≤ f →
        T.reduce (exampleDriver N) M f s =
        some (T', { tree := t', growSegmentCalls := s.growSegmentCalls + 1,
                    removeCalls := s.removeCalls + 1 })) ∧
      Reach M t' ∧ t'.currentNumberOfSegments = s.tree.currentNumberOfSegments ∧
      t'.currentNumberOfTerminals = s.tree.currentNumberOfTerminals ∧
      T'.connections = T.connections ∧ T'.currentNumberOfReasonableConnections = 1 ∧
      T'.reasonableConnections 0 = 0 ∧ T'.numberOfConnections = T.numberOfConnections := by
  obtain ⟨f1, r1, h1, hR1, hid, hT1, c1, c1'⟩ := growSegment_total_tail hR hp
    (T.connections 0).bifurcationPoint (T.connections 0).newSegment
  obtain ⟨f3, r3, h3, hR3, c3, c3'⟩ := remove_total_tail hR1 hT1 hup
  refine ⟨max f1 f3, r3.2,
    { T with reasonableConnections := Function.update T.reasonableConnections 0 0,
             currentNumberOfReasonableConnections := 0 + 1 },
    fun f hf => ?_, hR3, by rw [c3, c1]; omega, by rw [c3', c1']; omega, rfl, rfl, ?_, rfl⟩
  · have g1 := h1 f (le_trans (le_max_left _ _) hf)
    have g3 := h3 f (le_trans (le_max_right _ _) hf)
    simp only [ConnectionEvaluationTable.reduce, hT, indices_one,
      ConnectionEvaluationTable.reduceLoop, Counted.growSegment, g1, Counted.remove, g3,
      exampleDriver, if_true]
  · simp

theorem exampleAtPoint_fuel (M : CMath α) {t : Tree α} (hc : t.currentNumberOfSegments = 1)
    (v : TreeConnectionSearch α) (point : Point α) (f : Nat) (hf : 1 ≤ f) :
    v.atPoint M f t point = v.atPoint M 1 t point := by
  obtain ⟨m, rfl⟩ : ∃ m, f = m + 1 := ⟨f - 1, by omega⟩
  simp only [TreeConnectionSearch.atPoint, hc, indices_one, TreeConnectionSearch.distances,
    TreeConnectionSearch.sort, zero_add, sub_self, indices_zero,
    TreeConnectionSearch.sortPass, Bool.false_eq_true, if_false]

/-- `TreeConnectionSearch::atPoint` on a tree with one segment, with one connection asked
for: the closest segment is the root. -/
theorem exampleAtPoint (M : CMath α) {t : Tree α} (hc : t.currentNumberOfSegments = 1)
    (v : TreeConnectionSearch α) (hv : v.numberOfConnections = 1) (point : Point α) :
    ∃ v', (∀ f, 1 ≤ f → v.atPoint M f t point = some v') ∧
      v'.closestSegments 0 = 0 ∧ v'.currentNumberOfConnections = 1 ∧
      v'.numberOfConnections = 1 := by
  have h1 : ∃ v', v.atPoint M 1 t point = some v' ∧
      v'.closestSegments 0 = 0 ∧ v'.currentNumberOfConnections = 1 ∧
      v'.numberOfConnections = 1 := by
    simp only [TreeConnectionSearch.atPoint, hc, indices_one, TreeConnectionSearch.distances,
      TreeConnectionSearch.sort, zero_add, sub_self, indices_zero,
      TreeConnectionSearch.sortPass, Bool.false_eq_true, if_false, hv, lt_self_iff_false,
      TreeConnectionSearch.closest]
    refine ⟨_, rfl, ?_, rfl, rfl⟩
    simp
  obtain ⟨v', e, p1, p2, p3⟩ := h1
  exact ⟨v', fun f hf => (exampleAtPoint_fuel M hc v point f hf).trans e, p1, p2, p3⟩

theorem examplePointLoop (N : Int) (t : Tree α) (point : Point α) (d : Nat) (hd : d < 5)
    (c : Unit) (attempt : Int) (f : Nat) (hf : 1 ≤ f) :
    ConstrainedConstructiveOptimization.pointLoop (exampleDriver N) t f
      (point, d, c, attempt) = some (⟨2, ((d : α) + 1) / 100, 0, 0⟩, d + 1, c, attempt) := by
  obtain ⟨m, rfl⟩ : ∃ m, f = m + 1 := ⟨f - 1, by omega⟩
  simp [ConstrainedConstructiveOptimization.pointLoop, exampleDriver, hd]

theorem exampleAdd (T : ConnectionEvaluationTable α) (hn : T.numberOfConnections = 1)
    (hc : T.currentNumberOfConnections = 0) (conn : Connection α) :
    (T.add conn).currentNumberOfConnections = 1 ∧ (T.add conn).connections 0 = conn ∧
      (T.add conn).numberOfConnections = 1 := by
  simp [ConnectionEvaluationTable.add, hn, hc]

theorem exampleOptimal (T : ConnectionEvaluationTable α) (k : Int)
    (h1 : T.currentNumberOfReasonableConnections = 1) (h2 : T.reasonableConnections 0 = 0)
    (h3 : (T.connections 0).targetFunctionValue = 0) :
    T.optimalReasonableConnection k = T.connections 0 := by
  simp [ConnectionEvaluationTable.optimalReasonableConnection, h1, indices_one,
    ConnectionEvaluationTable.optimalLoop, h2, h3]

/-- One pass of the loop of `grow` under the example driver, on a reachable tree that is only
a root, with points left in the domain: a terminal is added. -/
theorem exampleGrowStep (M : CMath α) (N : Int) (G : Grow α Nat Unit)
    (hR : Reach M G.counted.tree) (hc : G.counted.tree.currentNumberOfSegments = 1)
    (hd : G.domain < 4) (hv : G.vicinity.numberOfConnections = 1)
    (hT : G.connectionEvaluationTable.numberOfConnections = 1)
    (hT0 : G.connectionEvaluationTable.currentNumberOfConnections = 0) :
    ∃ f0, ∀ f, f0 ≤ f → ∃ G',
      ConstrainedConstructiveOptimization.growStep (exampleDriver N) M f G = some G' ∧
      G'.Kterm = G.Kterm + 1 := by
  obtain ⟨v', hv1, hv2, hv3, hv4⟩ := exampleAtPoint M hc G.vicinity hv
    (⟨2, ((G.domain : α) + 1) / 100, 0, 0⟩ : Point α)
  have hl0 : G.counted.tree.live (v'.closestSegments 0) := by
    rw [hv2]; simp only [Tree.live, hc]; omega
  obtain ⟨f1, t1, ns, conn, h1, hR1, c1, c1', k1, k2, k3⟩ := exampleConnect M N (G.domain + 1)
    G.counted hR (⟨2, ((G.domain : α) + 1) / 100, 0, 0⟩ : Point α) G.newSegment
    G.connectionEvaluationTable v'.closestSegments 0 hl0
  obtain ⟨a1, a2, a3⟩ := exampleAdd G.connectionEvaluationTable hT hT0 conn
  have hl1 : t1.live ((G.connectionEvaluationTable.add conn).connections 0).bifurcationSegmentID := by
    rw [a2, k1, hv2]; simp only [Tree.live, c1, hc]; omega
  obtain ⟨f2, t2, T2, h2, hR2, c2, c2', b1, b2, b3, b4⟩ := exampleReduce M N
    { tree := t1, growSegmentCalls := G.counted.growSegmentCalls + 1,
      removeCalls := G.counted.removeCalls + 1 } hR1
    (G.connectionEvaluationTable.add conn) a1 hl1 (by rw [a2, k3, k1])
  have hconn0 : T2.connections 0 = conn := by rw [b1, a2]
  have ho : T2.optimalReasonableConnection
      (exampleDriver N : Collaborators α Nat Unit).indeterminateID = conn := by
    rw [exampleOptimal T2 _ b2 b3 (by rw [hconn0]; exact k2), hconn0]
  have hl2 : t2.live (T2.optimalReasonableConnection
      (exampleDriver N : Collaborators α Nat Unit).indeterminateID).bifurcationSegmentID := by
    rw [ho, k1, hv2]; simp only [Tree.live, c2, c1, hc]; omega
  obtain ⟨f3, r3, h3, -⟩ := growSegment_total_tail hR2 hl2
    (T2.optimalReasonableConnection
      (exampleDriver N : Collaborators α Nat Unit).indeterminateID).bifurcationPoint
    (T2.optimalReasonableConnection
      (exampleDriver N : Collaborators α Nat Unit).indeterminateID).newSegment
  refine ⟨max (max 1 f1) (max f2 f3), fun f hf => ?_⟩
  have g0 := @examplePointLoop α _ N G.counted.tree G.point G.domain (by omega)
    G.distanceCriterion 0 f (le_trans (le_trans (le_max_left _ _) (le_max_left _ _)) hf)
  have g1 := hv1 f (le_trans (le_trans (le_max_left _ _) (le_max_left _ _)) hf)
  have g2 := h1 f (le_trans (le_trans (le_max_right _ _) (le_max_left _ _)) hf)
  have g3 := h2 f (le_trans (le_trans (le_max_left _ _) (le_max_right _ _)) hf)
  have g4 := h3 f (le_trans (le_trans (le_max_right _ _) (le_max_right _ _)) hf)
  simp only [ConstrainedConstructiveOptimization.growStep]
  rw [g0]
  have hdom : (if (!(exampleDriver N : Collaborators α Nat Unit).hasAvailablePoint
      (G.domain + 1)) = true then
        (exampleDriver N : Collaborators α Nat Unit).reset (G.domain + 1)
      else G.domain + 1) = G.domain + 1 := by
    have : G.domain + 1 < 5 := by omega
    simp [exampleDriver, this]
  simp only [hdom]
  rw [g1]
  simp only [hv3, indices_one]
  rw [g2]
  simp only []
  rw [g3]
  have hpos : T2.currentNumberOfReasonableConnections > 0 := by rw [b2]; decide
  simp only [hpos, if_true, Counted.growSegment, g4]
  exact ⟨_, rfl, rfl⟩

/-- The first point of the example domain lies in the supporting circle of the example tree
for two terminals. -/
theorem exampleDriver_root_accept_two :
    distance realMath 2 ⟨2, ((0 : ℕ) + 1 : ℝ) / 100, 0, 0⟩ ⟨2, 0, 0, 0⟩ <
      realMath.sqrt ((25 / 10000 : ℝ) / (realMath.pi * ((2 : ℤ) : ℝ))) := by
  simp only [distance, realMath, show ¬ ((2 : ℤ) = 3) by decide, if_false]
  apply Real.sqrt_lt_sqrt (by positivity)
  rw [lt_div_iff₀ (by positivity)]
  norm_num
  nlinarith [Real.pi_lt_d2]

theorem exampleGrowRoot_two (f : Nat) (hf : 1 ≤ f) :
    ConstrainedConstructiveOptimization.growRoot (exampleDriver 2) realMath f
      (exampleTreeFor 2) 0 () =
    some ((Tree.growRoot realMath (exampleTreeFor 2)
      (Segment.make 2 ⟨2, ((0 : ℕ) + 1 : ℝ) / 100, 0, 0⟩ 1)).2, 1, ()) := by
  obtain ⟨m, rfl⟩ : ∃ m, f = m + 1 := ⟨f - 1, by omega⟩
  have h := exampleDriver_root_accept_two
  simp only [ConstrainedConstructiveOptimization.growRoot,
    ConstrainedConstructiveOptimization.rootPointLoop, exampleDriver, exampleTreeFor,
    Tree.construct]
  simp only [Nat.ofNat_pos, decide_True, if_true]
  rw [if_pos h]
  simp
  rfl

/-- With two terminals asked for, `grow` under the example driver returns: after `growRoot`
one pass of the loop adds the second terminal. -/
theorem exampleGrow_two :
    ∃ fuel G, ConstrainedConstructiveOptimization.grow (exampleDriver 2) realMath fuel
      (exampleTreeFor 2) 0 () exampleUninitialised = some G := by
  obtain ⟨f0, h0⟩ := exampleGrowStep realMath 2
    (ConstrainedConstructiveOptimization.growStart (exampleDriver 2)
      (Tree.growRoot realMath (exampleTreeFor 2)
        (Segment.make 2 ⟨2, ((0 : ℕ) + 1 : ℝ) / 100, 0, 0⟩ 1)).2 1 () exampleUninitialised)
    (Reach.root _ 2 _ 1 (construct_fresh _ _ _ _ _ _)) rfl (by decide) rfl rfl rfl
  obtain ⟨G', hG, hK⟩ := h0 (max f0 2) (le_max_left _ _)
  refine ⟨max f0 2, G', ?_⟩
  obtain ⟨m, hm⟩ : ∃ m, max f0 2 = m + 2 := ⟨max f0 2 - 2, by have := le_max_right f0 2; omega⟩
  simp only [ConstrainedConstructiveOptimization.grow]
  rw [exampleGrowRoot_two _ (le_trans (by decide) (le_max_right f0 2))]
  simp only []
  rw [hm] at hG ⊢
  simp only [ConstrainedConstructiveOptimization.growLoop]
  have hK2 : G'.Kterm = 2 := hK
  have hlt : (ConstrainedConstructiveOptimization.growStart (exampleDriver 2)
      (Tree.growRoot realMath (exampleTreeFor 2)
        (Segment.make 2 ⟨2, ((0 : ℕ) + 1 : ℝ) / 100, 0, 0⟩ 1)).2 1 ()
      exampleUninitialised).Kterm <
      (exampleDriver 2 : Collaborators ℝ Nat Unit).numberOfTerminals := by
    show (1 : Int) < 2
    decide
  rw [if_pos hlt, hG]
  simp only []
  have hnl : ¬ (G'.Kterm < (exampleDriver 2 : Collaborators ℝ Nat Unit).numberOfTerminals) := by
    rw [hK2]
    show ¬ ((2 : Int) < 2)
    decide
  rw [if_neg hnl]

/-- The completion of `grow` on a run that returns: the example driver asked for two
terminals grows the root and then adds one terminal. -/
theorem grow_completion_witness :
    ∃ fuel G, ConstrainedConstructiveOptimization.grow (exampleDriver 2) realMath fuel
        (exampleTreeFor 2) 0 () exampleUninitialised = some G ∧
      G.counted.tree.currentNumberOfTerminals = 2 ∧
      G.counted.tree.currentNumberOfSegments = 3 ∧
      G.counted.growSegmentCalls - G.counted.removeCalls = 1 := by
  obtain ⟨fuel, G, hG⟩ := exampleGrow_two
  obtain ⟨a1, a2, -, a4⟩ := grow_completion (exampleDriver 2) realMath fuel (exampleTreeFor 2)
    0 () exampleUninitialised G (by decide) hG
  exact ⟨fuel, G, hG, a1, a2, a4⟩

/-! ## The angle between two vectors -/

/-- C16: `Geometry::angle(u, v)` is exactly 0 whenever `norm(u) < 1e-6` or `norm(v) < 1e-6`;
the result is then the first branch of the conditional, so that the quotient is not evaluated.
This is so in particular when `u` or `v` is a zero vector (as `sqrt(0)` is 0). Otherwise the
result is `acos(u·v / (|u|·|v|))`. -/
theorem angle_value (M : CMath α) (dim : Int) (u v : Point α) :
    ((Geometry.norm M dim u < 1 / 1000000 ∨ Geometry.norm M dim v < 1 / 1000000) →
      Geometry.angle M dim u v = 0) ∧
    (M.sqrt 0 = 0 →
      ((u.x = 0 ∧ u.y = 0 ∧ (dim = 3 → u.z = 0)) ∨ (v.x = 0 ∧ v.y = 0 ∧ (dim = 3 → v.z = 0))) →
      Geometry.angle M dim u v = 0) ∧
    (¬(Geometry.norm M dim u < 1 / 1000000 ∨ Geometry.norm M dim v < 1 / 1000000) →
      Geometry.angle M dim u v =
        M.acos (Geometry.dot dim u v / (Geometry.norm M dim u * Geometry.norm M dim v))) := by
  have zero : ∀ w : Point α, M.sqrt 0 = 0 → (w.x = 0 ∧ w.y = 0 ∧ (dim = 3 → w.z = 0)) →
      Geometry.norm M dim w < 1 / 1000000 := by
    intro w h0 hw
    have hd : Geometry.dot dim w w = 0 := by
      unfold Geometry.dot
      by_cases h3 : dim = 3
      · simp [h3, hw.1, hw.2.1, hw.2.2 h3]
      · simp [h3, hw.1, hw.2.1]
    unfold Geometry.norm
    rw [hd, h0]
    norm_num
  refine ⟨fun h => ?_, fun h0 h => ?_, fun h => ?_⟩
  · unfold Geometry.angle Geometry._TOLERANCE
    rw [if_pos h]
  · unfold Geometry.angle Geometry._TOLERANCE
    rw [if_pos]
    rcases h with h | h
    · exact Or.inl (zero u h0 h)
    · exact Or.inr (zero v h0 h)
  · unfold Geometry.angle Geometry._TOLERANCE
    rw [if_neg h]

/-- Over the real numbers, the angle between the zero vector and `(1, 0)` is 0 and the angle
between `(1, 0)` and `(0, 1)` is `acos(0 / (1 * 1))`. -/
theorem angle_value_witness :
    Geometry.angle realMath 2 (⟨2, 0, 0, 0⟩ : Point ℝ) ⟨2, 1, 0, 0⟩ = 0 ∧
    Geometry.angle realMath 2 (⟨2, 1, 0, 0⟩ : Point ℝ) ⟨2, 0, 1, 0⟩ = Real.arccos (0 / (1 * 1)) := by
  have h1 : Geometry.norm realMath 2 (⟨2, 1, 0, 0⟩ : Point ℝ) = 1 := by
    simp [Geometry.norm, Geometry.dot, realMath]
  have h2 : Geometry.norm realMath 2 (⟨2, 0, 1, 0⟩ : Point ℝ) = 1 := by
    simp [Geometry.norm, Geometry.dot, realMath]
  have h3 : Geometry.dot 2 (⟨2, 1, 0, 0⟩ : Point ℝ) ⟨2, 0, 1, 0⟩ = 0 := by
    simp [Geometry.dot]
  refine ⟨(angle_value realMath 2 ⟨2, 0, 0, 0⟩ ⟨2, 1, 0, 0⟩).2.1 Real.sqrt_zero
    (Or.inl ⟨rfl, rfl, fun h => absurd h (by decide)⟩), ?_⟩
  have h := (angle_value realMath 2 (⟨2, 1, 0, 0⟩ : Point ℝ) ⟨2, 0, 1, 0⟩).2.2
    (by rw [h1, h2]; norm_num)
  rw [h, h1, h2, h3]
  rfl

/-! ## The distance criterion -/

/-- C20: `ClassicDistanceCriterion::update(n)` on a tree with the perfusion volume `V` and the
dimension `d` returns `(V / n)^(1 / d)`, stores it as the minimum criterion distance, and
`minimumDistanceCriterion()` returns that value afterwards. For `n ≥ 1`, `V ≥ 0` and `d` 2 or
3 the value is the `d`-th root of `V / n`: it is not negative and its `d`-th power is
`V / n`. -/
theorem distanceCriterion_update (t : Tree ℝ) (c : ClassicDistanceCriterion ℝ) (n : Int) :
    (ClassicDistanceCriterion.update realMath t c n).1 =
      (t.perfusionVolume / (n : ℝ)) ^ ((1 : ℝ) / (t.dimension : ℝ)) ∧
    (ClassicDistanceCriterion.update realMath t c n).2.minimumCriterionDistance =
      (t.perfusionVolume / (n : ℝ)) ^ ((1 : ℝ) / (t.dimension : ℝ)) ∧
    ClassicDistanceCriterion.minimumDistanceCriterion
        (ClassicDistanceCriterion.update realMath t c n).2 =
      (t.perfusionVolume / (n : ℝ)) ^ ((1 : ℝ) / (t.dimension : ℝ)) ∧
    (1 ≤ n → 0 ≤ t.perfusionVolume → (t.dimension = 2 ∨ t.dimension = 3) →
      0 ≤ (ClassicDistanceCriterion.update realMath t c n).1 ∧
      (ClassicDistanceCriterion.update realMath t c n).1 ^ t.dimension.toNat =
        t.perfusionVolume / (n : ℝ)) := by
  refine ⟨rfl, rfl, rfl, fun hn hV hd => ?_⟩
  have hn0 : (0 : ℝ) < (n : ℝ) := by exact_mod_cast (by omega : (0 : Int) < n)
  have hq : 0 ≤ t.perfusionVolume / (n : ℝ) := div_nonneg hV hn0.le
  have hval : (ClassicDistanceCriterion.update realMath t c n).1 =
      (t.perfusionVolume / (n : ℝ)) ^ ((1 : ℝ) / (t.dimension : ℝ)) := rfl
  rw [hval]
  refine ⟨Real.rpow_nonneg hq _, ?_⟩
  rcases hd with hd | hd
  · rw [hd]
    have : ((2 : Int).toNat) = 2 := rfl
    rw [this, ← Real.rpow_natCast, ← Real.rpow_mul hq]
    norm_num
  · rw [hd]
    have : ((3 : Int).toNat) = 3 := rfl
    rw [this, ← Real.rpow_natCast, ← Real.rpow_mul hq]
    norm_num

/-- For the tree of the example (`V = 0.0025`, `d = 2`) and four terminals the updated minimum
distance is not negative and its square is `0.0025 / 4`. -/
theorem distanceCriterion_update_witness :
    0 ≤ (ClassicDistanceCriterion.update realMath (exampleTree : Tree ℝ) ⟨0⟩ 4).1 ∧
    (ClassicDistanceCriterion.update realMath (exampleTree : Tree ℝ) ⟨0⟩ 4).1 ^
      (exampleTree : Tree ℝ).dimension.toNat = (exampleTree : Tree ℝ).perfusionVolume / ((4 : Int) : ℝ) :=
  (distanceCriterion_update (exampleTree : Tree ℝ) ⟨0⟩ 4).2.2.2 (by decide)
    (by norm_num [exampleTree, Tree.construct]) (Or.inl rfl)

/-! ## The intersection of two segments -/

/-- C18: in the plane, with `det` the determinant of the system `r(B - A) - s(D - C) = C - A`,
`hasIntersection2D(A, B, C, D, tol)` is false whenever `|det| < 1e-12`, hence whenever the
segments are parallel. Otherwise the equation `A + r(B - A) = C + s(D - C)` has exactly one
solution `(r, s)`, and the result is true if and only if `0 < r < 1 + tol/|B - A|` and
`0 < s < 1 + tol/|D - C|`. -/
theorem hasIntersection2D_spec (M : CMath α) (A B C D : Point α) (tol : α) :
    let AB := Geometry.subtract 2 B A
    let CD := Geometry.subtract 2 D C
    let det := Matrix.det !![AB.x, -CD.x; AB.y, -CD.y]
    (|det| < 1 / 1000000000000 → Geometry.hasIntersection2D M 2 A B C D tol = false) ∧
    (AB.x * CD.y = AB.y * CD.x → Geometry.hasIntersection2D M 2 A B C D tol = false) ∧
    (¬ |det| < 1 / 1000000000000 →
      ∃ r s : α,
        (∀ r1 s1 : α,
          Geometry.add 2 A (Geometry.scalarProduct 2 r1 AB) =
            Geometry.add 2 C (Geometry.scalarProduct 2 s1 CD) ↔ r1 = r ∧ s1 = s) ∧
        (Geometry.hasIntersection2D M 2 A B C D tol = true ↔
          (0 < r ∧ r < 1 + tol / Geometry.norm M 2 AB) ∧
          (0 < s ∧ s < 1 + tol / Geometry.norm M 2 CD))) := by
  intro AB CD det
  have hdet : det = AB.x * (-CD.y) - (-CD.x) * AB.y := by
    simp only [det, Matrix.det_fin_two_of]
  have htol : (Geometry._TOLERANCE : α) * Geometry._TOLERANCE = 1 / 1000000000000 := by
    unfold Geometry._TOLERANCE
    norm_num
  have hfalse : |det| < 1 / 1000000000000 → Geometry.hasIntersection2D M 2 A B C D tol = false := by
    intro h
    unfold Geometry.hasIntersection2D
    simp only [htol]
    rw [if_pos (by rw [← hdet]; exact h)]
  refine ⟨hfalse, fun hp => hfalse ?_, fun hn => ?_⟩
  · have : det = 0 := by rw [hdet]; linear_combination -hp
    rw [this]
    norm_num
  · have hd0 : det ≠ 0 := by
      intro h0
      apply hn
      rw [h0]
      norm_num
    have hd0' : AB.x * (-CD.y) - (-CD.x) * AB.y ≠ 0 := by rw [← hdet]; exact hd0
    refine ⟨((C.x - A.x) * (-CD.y) - (-CD.x) * (C.y - A.y)) / det,
      (AB.x * (C.y - A.y) - (C.x - A.x) * AB.y) / det, ?_, ?_⟩
    · intro r1 s1
      have hx : AB.x = B.x - A.x := rfl
      have hy : AB.y = B.y - A.y := rfl
      have hcx : CD.x = D.x - C.x := rfl
      have hcy : CD.y = D.y - C.y := rfl
      constructor
      · intro h
        have h1 : A.x + r1 * AB.x = C.x + s1 * CD.x := congrArg Point.x h
        have h2 : A.y + r1 * AB.y = C.y + s1 * CD.y := congrArg Point.y h
        constructor
        · rw [eq_div_iff hd0, hdet]
          linear_combination (-CD.y) * h1 + CD.x * h2
        · rw [eq_div_iff hd0, hdet]
          linear_combination (-AB.y) * h1 + AB.x * h2
      · rintro ⟨h1, h2⟩
        rw [eq_div_iff hd0, hdet] at h1 h2
        have e1 : (A.x + r1 * AB.x - (C.x + s1 * CD.x)) * (AB.x * (-CD.y) - (-CD.x) * AB.y) = 0 := by
          linear_combination (AB.x) * h1 - (CD.x) * h2
        have e2 : (A.y + r1 * AB.y - (C.y + s1 * CD.y)) * (AB.x * (-CD.y) - (-CD.x) * AB.y) = 0 := by
          linear_combination (AB.y) * h1 - (CD.y) * h2
        have e1' := (mul_eq_zero.mp e1).resolve_right hd0'
        have e2' := (mul_eq_zero.mp e2).resolve_right hd0'
        show Geometry.add 2 A (Geometry.scalarProduct 2 r1 AB) =
            Geometry.add 2 C (Geometry.scalarProduct 2 s1 CD)
        simp only [Geometry.add, Geometry.scalarProduct, Point.ofDimension,
          show ¬((2 : Int) = 3) by decide, if_false]
        rw [sub_eq_zero.mp e1', sub_eq_zero.mp e2']
    · unfold Geometry.hasIntersection2D
      simp only [htol]
      rw [if_neg (by rw [← hdet]; exact hn)]
      simp only [decide_eq_true_eq]
      rw [← hdet]
      rfl

/-- The segments from `(0, 0)` to `(2, 0)` and from `(1, -1)` to `(1, 1)` cross at the
parameters `r = 1/2` and `s = 1/2`; the segment from `(0, 1)` to `(2, 1)` is parallel to the
first one. -/
theorem hasIntersection2D_spec_witness :
    Geometry.hasIntersection2D realMath 2 (⟨2, 0, 0, 0⟩ : Point ℝ) ⟨2, 2, 0, 0⟩ ⟨2, 0, 1, 0⟩
      ⟨2, 2, 1, 0⟩ 0 = false ∧
    ∃ r s : ℝ,
      (∀ r1 s1 : ℝ,
        Geometry.add 2 (⟨2, 0, 0, 0⟩ : Point ℝ)
            (Geometry.scalarProduct 2 r1 (Geometry.subtract 2 ⟨2, 2, 0, 0⟩ ⟨2, 0, 0, 0⟩)) =
          Geometry.add 2 (⟨2, 1, -1, 0⟩ : Point ℝ)
            (Geometry.scalarProduct 2 s1 (Geometry.subtract 2 ⟨2, 1, 1, 0⟩ ⟨2, 1, -1, 0⟩)) ↔
          r1 = r ∧ s1 = s) ∧
      (Geometry.hasIntersection2D realMath 2 (⟨2, 0, 0, 0⟩ : Point ℝ) ⟨2, 2, 0, 0⟩ ⟨2, 1, -1, 0⟩
          ⟨2, 1, 1, 0⟩ 0 = true ↔
        (0 < r ∧ r < 1 + 0 / Geometry.norm realMath 2
          (Geometry.subtract 2 (⟨2, 2, 0, 0⟩ : Point ℝ) ⟨2, 0, 0, 0⟩)) ∧
        (0 < s ∧ s < 1 + 0 / Geometry.norm realMath 2
          (Geometry.subtract 2 (⟨2, 1, 1, 0⟩ : Point ℝ) ⟨2, 1, -1, 0⟩))) :=
  ⟨(hasIntersection2D_spec realMath (⟨2, 0, 0, 0⟩ : Point ℝ) ⟨2, 2, 0, 0⟩ ⟨2, 0, 1, 0⟩
      ⟨2, 2, 1, 0⟩ 0).2.1 (by norm_num [Geometry.subtract, Point.ofDimension]),
   (hasIntersection2D_spec realMath (⟨2, 0, 0, 0⟩ : Point ℝ) ⟨2, 2, 0, 0⟩ ⟨2, 1, -1, 0⟩
      ⟨2, 1, 1, 0⟩ 0).2.2
      (by norm_num [Geometry.subtract, Point.ofDimension, Matrix.det_fin_two_of])⟩

/-- The components of the points that `Geometry::add`, `subtract` and `scalarProduct` build in
a geometry of dimension 3. -/
theorem Geometry.dot_three (u v : Point α) :
    Geometry.dot 3 u v = u.x * v.x + u.y * v.y + u.z * v.z := by
  simp [Geometry.dot]

/-- The value of `Geometry::hasIntersection3D` in terms of its local variables. -/
theorem Geometry.hasIntersection3D_eq (dim : Int) (A B C D : Point α) (tol : α)
    (AB CD AC : Point α) (hAB : Geometry.subtract dim B A = AB)
    (hCD : Geometry.subtract dim D C = CD) (hAC : Geometry.subtract dim C A = AC)
    (det r s : α)
    (hdet : Geometry.dot dim AB CD * Geometry.dot dim AB CD -
      Geometry.dot dim AB AB * Geometry.dot dim CD CD = det)
    (hr : (Geometry.dot dim AB CD * Geometry.dot dim AC CD -
      Geometry.dot dim AC AB * Geometry.dot dim CD CD) / det = r)
    (hs : (Geometry.dot dim AC CD * Geometry.dot dim AB AB -
      Geometry.dot dim AC AB * Geometry.dot dim AB CD) / det = s) :
    Geometry.hasIntersection3D dim A B C D tol =
      if |det| < 1 / 1000000 then false
      else decide (0 < r ∧ r < 1 ∧ 0 < s ∧ s < 1 ∧
        Geometry.dot dim
          (Geometry.subtract dim (Geometry.add dim C (Geometry.scalarProduct dim s CD))
            (Geometry.add dim A (Geometry.scalarProduct dim r AB)))
          (Geometry.subtract dim (Geometry.add dim C (Geometry.scalarProduct dim s CD))
            (Geometry.add dim A (Geometry.scalarProduct dim r AB))) < tol * tol) := by
  subst hAB hCD hAC hdet hr hs
  rfl

/-- C19: in space, with `det = (AB·CD)² - |AB|²|CD|²`, `hasIntersection3D(A, B, C, D, tol)` is
false whenever `|det| < 1e-6`, hence whenever the lines `AB` and `CD` are parallel (the cross
product of `AB` and `CD` is zero). Otherwise there is exactly one pair `(r, s)` for which the
points `P = A + r·AB` and `Q = C + s·CD` satisfy `(Q - P)·AB = 0` and `(Q - P)·CD = 0`; these
are the points of closest approach of the two lines (no other pair of points of the lines is
closer), and the result is true if and only if `0 < r < 1`, `0 < s < 1` and
`|Q - P|² < tol²`. -/
theorem hasIntersection3D_spec (A B C D : Point α) (tol : α) :
    let AB := Geometry.subtract 3 B A
    let CD := Geometry.subtract 3 D C
    let det := Geometry.dot 3 AB CD * Geometry.dot 3 AB CD -
      Geometry.dot 3 AB AB * Geometry.dot 3 CD CD
    let P := fun r : α => Geometry.add 3 A (Geometry.scalarProduct 3 r AB)
    let Q := fun s : α => Geometry.add 3 C (Geometry.scalarProduct 3 s CD)
    let PQ := fun r s : α => Geometry.subtract 3 (Q s) (P r)
    (|det| < 1 / 1000000 → Geometry.hasIntersection3D 3 A B C D tol = false) ∧
    ((Geometry.crossProduct AB CD).x = 0 ∧ (Geometry.crossProduct AB CD).y = 0 ∧
        (Geometry.crossProduct AB CD).z = 0 →
      Geometry.hasIntersection3D 3 A B C D tol = false) ∧
    (¬ |det| < 1 / 1000000 →
      ∃ r s : α,
        (∀ r1 s1 : α,
          (Geometry.dot 3 (PQ r1 s1) AB = 0 ∧ Geometry.dot 3 (PQ r1 s1) CD = 0) ↔
            r1 = r ∧ s1 = s) ∧
        (∀ r1 s1 : α,
          Geometry.dot 3 (PQ r s) (PQ r s) ≤ Geometry.dot 3 (PQ r1 s1) (PQ r1 s1)) ∧
        (Geometry.hasIntersection3D 3 A B C D tol = true ↔
          0 < r ∧ r < 1 ∧ 0 < s ∧ s < 1 ∧ Geometry.dot 3 (PQ r s) (PQ r s) < tol * tol)) := by
  intro AB CD det P Q PQ
  have hfalse : |det| < 1 / 1000000 → Geometry.hasIntersection3D 3 A B C D tol = false := by
    intro h
    rw [Geometry.hasIntersection3D_eq 3 A B C D tol AB CD _ rfl rfl rfl det _ _ rfl rfl rfl,
      if_pos h]
  have hABx : AB.x = B.x - A.x := rfl
  have hABy : AB.y = B.y - A.y := rfl
  have hABz : AB.z = B.z - A.z := by simp [AB, Geometry.subtract, Point.ofDimension]
  have hCDx : CD.x = D.x - C.x := rfl
  have hCDy : CD.y = D.y - C.y := rfl
  have hCDz : CD.z = D.z - C.z := by simp [CD, Geometry.subtract, Point.ofDimension]
  have hPQx : ∀ r s, (PQ r s).x = C.x + s * CD.x - (A.x + r * AB.x) := fun r s => rfl
  have hPQy : ∀ r s, (PQ r s).y = C.y + s * CD.y - (A.y + r * AB.y) := fun r s => rfl
  have hPQz : ∀ r s, (PQ r s).z = C.z + s * CD.z - (A.z + r * AB.z) := by
    intro r s
    simp [PQ, P, Q, Geometry.subtract, Geometry.add, Geometry.scalarProduct, Point.ofDimension]
  have hdet : det = (AB.x * CD.x + AB.y * CD.y + AB.z * CD.z) *
      (AB.x * CD.x + AB.y * CD.y + AB.z * CD.z) -
      (AB.x * AB.x + AB.y * AB.y + AB.z * AB.z) * (CD.x * CD.x + CD.y * CD.y + CD.z * CD.z) := by
    simp only [det, Geometry.dot_three]
  refine ⟨hfalse, fun hp => hfalse ?_, fun hn => ?_⟩
  · have hdim : AB.dimension = 3 := by simp [AB, Geometry.subtract, Point.ofDimension]
    have hdim' : CD.dimension = 3 := by simp [CD, Geometry.subtract, Point.ofDimension]
    simp only [Geometry.crossProduct, hdim, hdim', show ¬((3 : Int) = 2) by decide,
      if_false] at hp
    obtain ⟨h1, h2, h3⟩ := hp
    have : det = 0 := by
      rw [hdet]
      linear_combination (-(AB.z * CD.y - AB.y * CD.z)) * h1 -
        (AB.x * CD.z - AB.z * CD.x) * h2 - (AB.y * CD.x - AB.x * CD.y) * h3
    rw [this]
    norm_num
  · have hd0 : det ≠ 0 := by
      intro h0
      apply hn
      rw [h0]
      norm_num
    obtain ⟨AC, hAC⟩ : ∃ AC : Point α, Geometry.subtract 3 C A = AC := ⟨_, rfl⟩
    have hACx : AC.x = C.x - A.x := by rw [← hAC]; rfl
    have hACy : AC.y = C.y - A.y := by rw [← hAC]; rfl
    have hACz : AC.z = C.z - A.z := by
      rw [← hAC]
      simp [Geometry.subtract, Point.ofDimension]
    obtain ⟨r, hr⟩ : ∃ r : α, (Geometry.dot 3 AB CD * Geometry.dot 3 AC CD -
      Geometry.dot 3 AC AB * Geometry.dot 3 CD CD) / det = r := ⟨_, rfl⟩
    obtain ⟨s, hs⟩ : ∃ s : α, (Geometry.dot 3 AC CD * Geometry.dot 3 AB AB -
      Geometry.dot 3 AC AB * Geometry.dot 3 AB CD) / det = s := ⟨_, rfl⟩
    have hcode := Geometry.hasIntersection3D_eq 3 A B C D tol AB CD AC rfl rfl hAC det r s rfl
      hr hs
    rw [if_neg hn] at hcode
    have hr' : r * det = Geometry.dot 3 AB CD * Geometry.dot 3 AC CD -
        Geometry.dot 3 AC AB * Geometry.dot 3 CD CD := by
      rw [← hr, div_mul_cancel₀ _ hd0]
    have hs' : s * det = Geometry.dot 3 AC CD * Geometry.dot 3 AB AB -
        Geometry.dot 3 AC AB * Geometry.dot 3 AB CD := by
      rw [← hs, div_mul_cancel₀ _ hd0]
    simp only [Geometry.dot_three, hACx, hACy, hACz] at hr' hs'
    rw [hdet] at hr' hs' hd0
    have horth : ∀ r1 s1 : α,
        (Geometry.dot 3 (PQ r1 s1) AB = 0 ∧ Geometry.dot 3 (PQ r1 s1) CD = 0) ↔
          r1 = r ∧ s1 = s := by
      intro r1 s1
      simp only [Geometry.dot_three, hPQx, hPQy, hPQz]
      constructor
      · rintro ⟨h1, h2⟩
        constructor
        · apply mul_right_cancel₀ hd0
          rw [hr']
          linear_combination (CD.x * CD.x + CD.y * CD.y + CD.z * CD.z) * h1 -
            (AB.x * CD.x + AB.y * CD.y + AB.z * CD.z) * h2
        · apply mul_right_cancel₀ hd0
          rw [hs']
          linear_combination (AB.x * CD.x + AB.y * CD.y + AB.z * CD.z) * h1 -
            (AB.x * AB.x + AB.y * AB.y + AB.z * AB.z) * h2
      · rintro ⟨h1, h2⟩
        subst h1 h2
        constructor
        · apply mul_right_cancel₀ hd0
          rw [zero_mul]
          linear_combination (-(AB.x * AB.x + AB.y * AB.y + AB.z * AB.z)) * hr' +
            (AB.x * CD.x + AB.y * CD.y + AB.z * CD.z) * hs'
        · apply mul_right_cancel₀ hd0
          rw [zero_mul]
          linear_combination (-(AB.x * CD.x + AB.y * CD.y + AB.z * CD.z)) * hr' +
            (CD.x * CD.x + CD.y * CD.y + CD.z * CD.z) * hs'
    refine ⟨r, s, horth, ?_, ?_⟩
    · intro r1 s1
      obtain ⟨o1, o2⟩ := (horth r s).2 ⟨rfl, rfl⟩
      simp only [Geometry.dot_three, hPQx, hPQy, hPQz] at o1 o2 ⊢
      have key : (C.x + s1 * CD.x - (A.x + r1 * AB.x)) * (C.x + s1 * CD.x - (A.x + r1 * AB.x)) +
          (C.y + s1 * CD.y - (A.y + r1 * AB.y)) * (C.y + s1 * CD.y - (A.y + r1 * AB.y)) +
          (C.z + s1 * CD.z - (A.z + r1 * AB.z)) * (C.z + s1 * CD.z - (A.z + r1 * AB.z)) -
          ((C.x + s * CD.x - (A.x + r * AB.x)) * (C.x + s * CD.x - (A.x + r * AB.x)) +
          (C.y + s * CD.y - (A.y + r * AB.y)) * (C.y + s * CD.y - (A.y + r * AB.y)) +
          (C.z + s * CD.z - (A.z + r * AB.z)) * (C.z + s * CD.z - (A.z + r * AB.z))) =
          ((s1 - s) * CD.x - (r1 - r) * AB.x) * ((s1 - s) * CD.x - (r1 - r) * AB.x) +
          ((s1 - s) * CD.y - (r1 - r) * AB.y) * ((s1 - s) * CD.y - (r1 - r) * AB.y) +
          ((s1 - s) * CD.z - (r1 - r) * AB.z) * ((s1 - s) * CD.z - (r1 - r) * AB.z) := by
        linear_combination 2 * (s1 - s) * o2 - 2 * (r1 - r) * o1
      have n1 := mul_self_nonneg ((s1 - s) * CD.x - (r1 - r) * AB.x)
      have n2 := mul_self_nonneg ((s1 - s) * CD.y - (r1 - r) * AB.y)
      have n3 := mul_self_nonneg ((s1 - s) * CD.z - (r1 - r) * AB.z)
      linarith
    · have hcode2 : Geometry.hasIntersection3D 3 A B C D tol =
          decide (0 < r ∧ r < 1 ∧ 0 < s ∧ s < 1 ∧
            Geometry.dot 3 (PQ r s) (PQ r s) < tol * tol) := hcode
      rw [hcode2]
      exact decide_eq_true_iff

/-- The lines through `(0, 0, 0)`, `(2, 0, 0)` and through `(1, -1, 0)`, `(1, 1, 0)` are not
parallel, and the line through `(0, 1, 0)`, `(2, 1, 0)` is parallel to the first one. -/
theorem hasIntersection3D_spec_witness :
    Geometry.hasIntersection3D 3 (⟨3, 0, 0, 0⟩ : Point ℚ) ⟨3, 2, 0, 0⟩ ⟨3, 0, 1, 0⟩
      ⟨3, 2, 1, 0⟩ 1 = false ∧
    ∃ r s : ℚ,
      (∀ r1 s1 : ℚ,
        (Geometry.dot 3
            (Geometry.subtract 3
              (Geometry.add 3 (⟨3, 1, -1, 0⟩ : Point ℚ)
                (Geometry.scalarProduct 3 s1 (Geometry.subtract 3 ⟨3, 1, 1, 0⟩ ⟨3, 1, -1, 0⟩)))
              (Geometry.add 3 (⟨3, 0, 0, 0⟩ : Point ℚ)
                (Geometry.scalarProduct 3 r1 (Geometry.subtract 3 ⟨3, 2, 0, 0⟩ ⟨3, 0, 0, 0⟩))))
            (Geometry.subtract 3 ⟨3, 2, 0, 0⟩ ⟨3, 0, 0, 0⟩) = 0 ∧
          Geometry.dot 3
            (Geometry.subtract 3
              (Geometry.add 3 (⟨3, 1, -1, 0⟩ : Point ℚ)
                (Geometry.scalarProduct 3 s1 (Geometry.subtract 3 ⟨3, 1, 1, 0⟩ ⟨3, 1, -1, 0⟩)))
              (Geometry.add 3 (⟨3, 0, 0, 0⟩ : Point ℚ)
                (Geometry.scalarProduct 3 r1 (Geometry.subtract 3 ⟨3, 2, 0, 0⟩ ⟨3, 0, 0, 0⟩))))
            (Geometry.subtract 3 ⟨3, 1, 1, 0⟩ ⟨3, 1, -1, 0⟩) = 0) ↔
          r1 = r ∧ s1 = s) :=
  ⟨(hasIntersection3D_spec (⟨3, 0, 0, 0⟩ : Point ℚ) ⟨3, 2, 0, 0⟩ ⟨3, 0, 1, 0⟩
      ⟨3, 2, 1, 0⟩ 1).2.1
      (by norm_num [Geometry.crossProduct, Geometry.subtract, Point.ofDimension]),
   ((hasIntersection3D_spec (⟨3, 0, 0, 0⟩ : Point ℚ) ⟨3, 2, 0, 0⟩ ⟨3, 1, -1, 0⟩
      ⟨3, 1, 1, 0⟩ 1).2.2
      (by norm_num [Geometry.dot, Geometry.subtract, Point.ofDimension])).imp
      (fun r h => h.imp (fun s h2 => h2.1))⟩

/-! ## The critical distance -/

/-- The norm of a difference is the distance of `Geometry::distance`. -/
theorem Geometry.norm_subtract (M : CMath α) (dim : Int) (P A : Point α) :
    Geometry.norm M dim (Geometry.subtract dim P A) = distance M dim P A := by
  unfold Geometry.norm Geometry.dot Geometry.subtract distance Point.ofDimension
  by_cases h : dim = 3
  · simp only [h, if_true]
  · simp only [h, if_false]

/-- The critical distance in the plane. -/
theorem Geometry.distanceFromSegment2D_real (P A B : Point ℝ)
    (hAB : A.x ≠ B.x ∨ A.y ≠ B.y) :
    Geometry.dot 2 (Geometry.subtract 2 B A) (Geometry.subtract 2 B A) =
      Geometry.norm realMath 2 (Geometry.subtract 2 B A) ^ 2 ∧
    Geometry.dot 2
        (Geometry.subtract 2 P (Geometry.add 2 A (Geometry.scalarProduct 2
          (Geometry.dot 2 (Geometry.subtract 2 P A) (Geometry.subtract 2 B A) /
            Geometry.dot 2 (Geometry.subtract 2 B A) (Geometry.subtract 2 B A))
          (Geometry.subtract 2 B A))))
        (Geometry.subtract 2 B A) = 0 ∧
    |(Geometry.subtract 2 B A).y * (Geometry.subtract 2 P A).x -
        (Geometry.subtract 2 B A).x * (Geometry.subtract 2 P A).y| /
        Geometry.norm realMath 2 (Geometry.subtract 2 B A) =
      Geometry.norm realMath 2
        (Geometry.subtract 2 P (Geometry.add 2 A (Geometry.scalarProduct 2
          (Geometry.dot 2 (Geometry.subtract 2 P A) (Geometry.subtract 2 B A) /
            Geometry.dot 2 (Geometry.subtract 2 B A) (Geometry.subtract 2 B A))
          (Geometry.subtract 2 B A)))) := by
  have hn : 0 < (B.x - A.x) * (B.x - A.x) + (B.y - A.y) * (B.y - A.y) := by
    rcases hAB with h | h
    · have : B.x - A.x ≠ 0 := sub_ne_zero.mpr (Ne.symm h)
      nlinarith [mul_self_pos.mpr this, mul_self_nonneg (B.y - A.y)]
    · have : B.y - A.y ≠ 0 := sub_ne_zero.mpr (Ne.symm h)
      nlinarith [mul_self_pos.mpr this, mul_self_nonneg (B.x - A.x)]
  simp only [Geometry.norm, Geometry.dot, Geometry.subtract, Geometry.add,
    Geometry.scalarProduct, Point.ofDimension, show ¬((2 : Int) = 3) by decide, if_false,
    realMath]
  refine ⟨(Real.sq_sqrt hn.le).symm, ?_, ?_⟩
  · field_simp
    ring
  · rw [← Real.sqrt_sq_eq_abs, ← Real.sqrt_div (sq_nonneg _)]
    congr 1
    field_simp
    ring

/-- The critical distance in space. -/
theorem Geometry.distanceFromSegment3D_real (P A B : Point ℝ)
    (hAB : A.x ≠ B.x ∨ A.y ≠ B.y ∨ A.z ≠ B.z) :
    Geometry.dot 3 (Geometry.subtract 3 B A) (Geometry.subtract 3 B A) =
      Geometry.norm realMath 3 (Geometry.subtract 3 B A) ^ 2 ∧
    Geometry.dot 3
        (Geometry.subtract 3 P (Geometry.add 3 A (Geometry.scalarProduct 3
          (Geometry.dot 3 (Geometry.subtract 3 P A) (Geometry.subtract 3 B A) /
            Geometry.dot 3 (Geometry.subtract 3 B A) (Geometry.subtract 3 B A))
          (Geometry.subtract 3 B A))))
        (Geometry.subtract 3 B A) = 0 ∧
    Geometry.norm realMath 3
        (Geometry.crossProduct (Geometry.subtract 3 P A) (Geometry.subtract 3 B A)) /
        Geometry.norm realMath 3 (Geometry.subtract 3 B A) =
      Geometry.norm realMath 3
        (Geometry.subtract 3 P (Geometry.add 3 A (Geometry.scalarProduct 3
          (Geometry.dot 3 (Geometry.subtract 3 P A) (Geometry.subtract 3 B A) /
            Geometry.dot 3 (Geometry.subtract 3 B A) (Geometry.subtract 3 B A))
          (Geometry.subtract 3 B A)))) := by
  have hn : 0 < (B.x - A.x) * (B.x - A.x) + (B.y - A.y) * (B.y - A.y) +
      (B.z - A.z) * (B.z - A.z) := by
    rcases hAB with h | h | h
    · have : B.x - A.x ≠ 0 := sub_ne_zero.mpr (Ne.symm h)
      nlinarith [mul_self_pos.mpr this, mul_self_nonneg (B.y - A.y), mul_self_nonneg (B.z - A.z)]
    · have : B.y - A.y ≠ 0 := sub_ne_zero.mpr (Ne.symm h)
      nlinarith [mul_self_pos.mpr this, mul_self_nonneg (B.x - A.x), mul_self_nonneg (B.z - A.z)]
    · have : B.z - A.z ≠ 0 := sub_ne_zero.mpr (Ne.symm h)
      nlinarith [mul_self_pos.mpr this, mul_self_nonneg (B.x - A.x), mul_self_nonneg (B.y - A.y)]
  simp only [Geometry.norm, Geometry.dot, Geometry.subtract, Geometry.add,
    Geometry.scalarProduct, Geometry.crossProduct, Point.ofDimension,
    show ¬((3 : Int) = 2) by decide, if_false, if_true, realMath]
  refine ⟨(Real.sq_sqrt hn.le).symm, ?_, ?_⟩
  · field_simp
    ring
  · rw [← Real.sqrt_div
      (add_nonneg (add_nonneg (mul_self_nonneg _) (mul_self_nonneg _)) (mul_self_nonneg _))]
    congr 1
    field_simp
    ring

/-- C17: for a point `P` and a segment with the end points `A ≠ B`, in the plane and in
space, let `t = (P - A)·(B - A) / |B - A|²` and let `A + t(B - A)` be the foot of the
perpendicular from `P` to the line `AB` (the difference of `P` and the foot is orthogonal to
`B - A`). Then `distanceFromSegment(P, A, B)` is the distance `|P - (A + t(B - A))|` of `P`
from the line when `0 ≤ t ≤ 1`, and `min(|P - A|, |P - B|)` otherwise. -/
theorem distanceFromSegment_critical (dim : Int) (P A B : Point ℝ) (hdim : dim = 2 ∨ dim = 3)
    (hAB : A.x ≠ B.x ∨ A.y ≠ B.y ∨ (dim = 3 ∧ A.z ≠ B.z)) :
    let AB := Geometry.subtract dim B A
    let t := Geometry.dot dim (Geometry.subtract dim P A) AB / Geometry.norm realMath dim AB ^ 2
    let foot := Geometry.add dim A (Geometry.scalarProduct dim t AB)
    Geometry.dot dim (Geometry.subtract dim P foot) AB = 0 ∧
    ((0 ≤ t ∧ t ≤ 1) →
      Geometry.distanceFromSegment realMath dim P A B =
        Geometry.norm realMath dim (Geometry.subtract dim P foot)) ∧
    (¬(0 ≤ t ∧ t ≤ 1) →
      Geometry.distanceFromSegment realMath dim P A B =
        min (Geometry.norm realMath dim (Geometry.subtract dim P A))
          (Geometry.norm realMath dim (Geometry.subtract dim P B))) := by
  intro AB t foot
  rcases hdim with hd | hd
  · subst hd
    have hAB2 : A.x ≠ B.x ∨ A.y ≠ B.y := by
      rcases hAB with h | h | h
      · exact Or.inl h
      · exact Or.inr h
      · exact absurd h.1 (by decide)
    obtain ⟨h1, h2, h3⟩ := Geometry.distanceFromSegment2D_real P A B hAB2
    have ht : t = Geometry.dot 2 (Geometry.subtract 2 P A) (Geometry.subtract 2 B A) /
        Geometry.dot 2 (Geometry.subtract 2 B A) (Geometry.subtract 2 B A) := by
      rw [h1]
    have hcode : Geometry.distanceFromSegment realMath 2 P A B =
        if 0 ≤ t ∧ t ≤ 1 then
          |(Geometry.subtract 2 B A).y * (Geometry.subtract 2 P A).x -
            (Geometry.subtract 2 B A).x * (Geometry.subtract 2 P A).y| /
            Geometry.norm realMath 2 (Geometry.subtract 2 B A)
        else min (distance realMath 2 P A) (distance realMath 2 P B) := by
      rw [ht]
      rfl
    refine ⟨?_, fun hin => ?_, fun hout => ?_⟩
    · show Geometry.dot 2 (Geometry.subtract 2 P (Geometry.add 2 A
        (Geometry.scalarProduct 2 t (Geometry.subtract 2 B A)))) (Geometry.subtract 2 B A) = 0
      rw [ht]
      exact h2
    · rw [hcode, if_pos hin, h3]
      show _ = Geometry.norm realMath 2 (Geometry.subtract 2 P (Geometry.add 2 A
        (Geometry.scalarProduct 2 t (Geometry.subtract 2 B A))))
      rw [ht]
    · rw [hcode, if_neg hout, Geometry.norm_subtract, Geometry.norm_subtract]
  · subst hd
    have hAB3 : A.x ≠ B.x ∨ A.y ≠ B.y ∨ A.z ≠ B.z := by
      rcases hAB with h | h | h
      · exact Or.inl h
      · exact Or.inr (Or.inl h)
      · exact Or.inr (Or.inr h.2)
    obtain ⟨h1, h2, h3⟩ := Geometry.distanceFromSegment3D_real P A B hAB3
    have ht : t = Geometry.dot 3 (Geometry.subtract 3 P A) (Geometry.subtract 3 B A) /
        Geometry.dot 3 (Geometry.subtract 3 B A) (Geometry.subtract 3 B A) := by
      rw [h1]
    have hcode : Geometry.distanceFromSegment realMath 3 P A B =
        if 0 ≤ t ∧ t ≤ 1 then
          Geometry.norm realMath 3
            (Geometry.crossProduct (Geometry.subtract 3 P A) (Geometry.subtract 3 B A)) /
            Geometry.norm realMath 3 (Geometry.subtract 3 B A)
        else min (distance realMath 3 P A) (distance realMath 3 P B) := by
      rw [ht]
      rfl
    refine ⟨?_, fun hin => ?_, fun hout => ?_⟩
    · show Geometry.dot 3 (Geometry.subtract 3 P (Geometry.add 3 A
        (Geometry.scalarProduct 3 t (Geometry.subtract 3 B A)))) (Geometry.subtract 3 B A) = 0
      rw [ht]
      exact h2
    · rw [hcode, if_pos hin, h3]
      show _ = Geometry.norm realMath 3 (Geometry.subtract 3 P (Geometry.add 3 A
        (Geometry.scalarProduct 3 t (Geometry.subtract 3 B A))))
      rw [ht]
    · rw [hcode, if_neg hout, Geometry.norm_subtract, Geometry.norm_subtract]

/-- The point `(1, 1)` projects to the middle of the segment from `(0, 0)` to `(2, 0)`: its
critical distance is its distance from the foot of the perpendicular. -/
theorem distanceFromSegment_critical_witness :
    Geometry.distanceFromSegment realMath 2 (⟨2, 1, 1, 0⟩ : Point ℝ) ⟨2, 0, 0, 0⟩ ⟨2, 2, 0, 0⟩ =
      Geometry.norm realMath 2
        (Geometry.subtract 2 (⟨2, 1, 1, 0⟩ : Point ℝ)
          (Geometry.add 2 ⟨2, 0, 0, 0⟩
            (Geometry.scalarProduct 2
              (Geometry.dot 2 (Geometry.subtract 2 ⟨2, 1, 1, 0⟩ ⟨2, 0, 0, 0⟩)
                  (Geometry.subtract 2 ⟨2, 2, 0, 0⟩ ⟨2, 0, 0, 0⟩) /
                Geometry.norm realMath 2 (Geometry.subtract 2 ⟨2, 2, 0, 0⟩ ⟨2, 0, 0, 0⟩) ^ 2)
              (Geometry.subtract 2 ⟨2, 2, 0, 0⟩ ⟨2, 0, 0, 0⟩)))) :=
  (distanceFromSegment_critical 2 (⟨2, 1, 1, 0⟩ : Point ℝ) ⟨2, 0, 0, 0⟩ ⟨2, 2, 0, 0⟩
    (Or.inl rfl) (Or.inl (by norm_num))).2.1 (by
      simp only [Geometry.dot, Geometry.subtract, Geometry.norm, realMath, Point.ofDimension,
        show ¬((2 : Int) = 3) by decide, if_false]
      rw [Real.sq_sqrt (by norm_num)]
      norm_num)

/-! ## The optimal reasonable connection -/

/-- The values of a loop counter are the integers from 0 up to the bound. -/
theorem mem_indices {n k : Int} : k ∈ indices n ↔ 0 ≤ k ∧ k < n := by
  unfold indices
  simp only [List.mem_map, List.mem_range]
  constructor
  · rintro ⟨a, ha, rfl⟩
    have h0 : (0 : Int) ≤ Int.ofNat a := Int.ofNat_nonneg a
    have h1 : Int.ofNat a = (a : Int) := rfl
    constructor
    · exact h0
    · rw [h1]
      omega
  · rintro ⟨h0, hn⟩
    refine ⟨k.toNat, by omega, ?_⟩
    have h1 : Int.ofNat k.toNat = (k.toNat : Int) := rfl
    rw [h1]
    omega

/-- The values of a loop counter come in increasing order. -/
theorem indices_pairwise (n : Int) : (indices n).Pairwise (fun a b => a < b) := by
  unfold indices
  rw [List.pairwise_map]
  refine (List.pairwise_lt_range n.toNat).imp ?_
  intro a b h
  have h1 : Int.ofNat a = (a : Int) := rfl
  have h2 : Int.ofNat b = (b : Int) := rfl
  rw [h1, h2]
  omega

/-- The result of the loop of `optimalReasonableConnection`: either no value is below the
initial one and the state is unchanged, or the state holds the first entry, in the order of the
loop, whose value is the least one. -/
theorem ConnectionEvaluationTable.optimalLoop_spec (T : ConnectionEvaluationTable α) :
    ∀ (ks : List Int) (r0 : Int × α),
      (T.optimalLoop ks r0 = r0 ∧
        ∀ k ∈ ks, r0.2 ≤ (T.connections (T.reasonableConnections k)).targetFunctionValue) ∨
      (∃ pre k post, ks = pre ++ k :: post ∧
        T.optimalLoop ks r0 = (T.reasonableConnections k,
          (T.connections (T.reasonableConnections k)).targetFunctionValue) ∧
        (T.connections (T.reasonableConnections k)).targetFunctionValue < r0.2 ∧
        (∀ j ∈ pre, (T.connections (T.reasonableConnections k)).targetFunctionValue <
          (T.connections (T.reasonableConnections j)).targetFunctionValue) ∧
        (∀ j ∈ post, (T.connections (T.reasonableConnections k)).targetFunctionValue ≤
          (T.connections (T.reasonableConnections j)).targetFunctionValue)) := by
  intro ks
  induction ks with
  | nil =>
    intro r0
    exact Or.inl ⟨rfl, fun k hk => absurd hk (List.not_mem_nil k)⟩
  | cons i rest ih =>
    intro r0
    by_cases hlt : (T.connections (T.reasonableConnections i)).targetFunctionValue < r0.2
    · have e : T.optimalLoop (i :: rest) r0 = T.optimalLoop rest (T.reasonableConnections i,
          (T.connections (T.reasonableConnections i)).targetFunctionValue) := by
        simp only [ConnectionEvaluationTable.optimalLoop, hlt, if_true]
      rcases ih (T.reasonableConnections i,
          (T.connections (T.reasonableConnections i)).targetFunctionValue) with
        ⟨h1, h2⟩ | ⟨pre, k, post, h1, h2, h3, h4, h5⟩
      · exact Or.inr ⟨[], i, rest, rfl, by rw [e, h1], hlt,
          fun j hj => absurd hj (List.not_mem_nil j), h2⟩
      · refine Or.inr ⟨i :: pre, k, post, by rw [h1]; rfl, by rw [e, h2], lt_trans h3 hlt, ?_, h5⟩
        intro j hj
        rcases List.mem_cons.mp hj with rfl | hj
        · exact h3
        · exact h4 j hj
    · have e : T.optimalLoop (i :: rest) r0 = T.optimalLoop rest r0 := by
        simp only [ConnectionEvaluationTable.optimalLoop, hlt, if_false]
      rcases ih r0 with ⟨h1, h2⟩ | ⟨pre, k, post, h1, h2, h3, h4, h5⟩
      · refine Or.inl ⟨by rw [e, h1], ?_⟩
        intro j hj
        rcases List.mem_cons.mp hj with rfl | hj
        · exact not_lt.mp hlt
        · exact h2 j hj
      · refine Or.inr ⟨i :: pre, k, post, by rw [h1]; rfl, by rw [e, h2], h3, ?_, h5⟩
        intro j hj
        rcases List.mem_cons.mp hj with rfl | hj
        · exact lt_of_lt_of_le h3 (not_lt.mp hlt)
        · exact h4 j hj

/-- The connection that `optimalReasonableConnection` returns when a reasonable connection
has a value below `1e15`. -/
theorem ConnectionEvaluationTable.optimal_below (T : ConnectionEvaluationTable α)
    (indeterminateID : Int)
    (hex : ∃ k, 0 ≤ k ∧ k < T.currentNumberOfReasonableConnections ∧
      (T.connections (T.reasonableConnections k)).targetFunctionValue < 1000000000000000) :
    ∃ k, 0 ≤ k ∧ k < T.currentNumberOfReasonableConnections ∧
      T.optimalReasonableConnection indeterminateID =
        T.connections (T.reasonableConnections k) ∧
      (∀ j, 0 ≤ j → j < T.currentNumberOfReasonableConnections →
        (T.connections (T.reasonableConnections k)).targetFunctionValue ≤
          (T.connections (T.reasonableConnections j)).targetFunctionValue) ∧
      (∀ j, 0 ≤ j → j < k →
        (T.connections (T.reasonableConnections k)).targetFunctionValue <
          (T.connections (T.reasonableConnections j)).targetFunctionValue) := by
  obtain ⟨k0, hk0, hk0', hv⟩ := hex
  rcases T.optimalLoop_spec (indices T.currentNumberOfReasonableConnections)
      (indeterminateID, 1000000000000000) with ⟨h1, h2⟩ | ⟨pre, k, post, h1, h2, h3, h4, h5⟩
  · exact absurd hv (not_lt.mpr (h2 k0 (mem_indices.mpr ⟨hk0, hk0'⟩)))
  · have hk : k ∈ indices T.currentNumberOfReasonableConnections := by
      rw [h1]
      exact List.mem_append_right _ (List.mem_cons_self _ _)
    have hpw := indices_pairwise T.currentNumberOfReasonableConnections
    rw [h1, List.pairwise_append] at hpw
    obtain ⟨-, hpost, hpre⟩ := hpw
    have hsplit : ∀ j, 0 ≤ j → j < T.currentNumberOfReasonableConnections →
        j ∈ pre ∨ j = k ∨ j ∈ post := by
      intro j hj hj'
      have : j ∈ indices T.currentNumberOfReasonableConnections := mem_indices.mpr ⟨hj, hj'⟩
      rw [h1] at this
      rcases List.mem_append.mp this with h | h
      · exact Or.inl h
      · rcases List.mem_cons.mp h with h | h
        · exact Or.inr (Or.inl h)
        · exact Or.inr (Or.inr h)
    refine ⟨k, (mem_indices.mp hk).1, (mem_indices.mp hk).2, ?_, ?_, ?_⟩
    · unfold ConnectionEvaluationTable.optimalReasonableConnection
      rw [h2]
    · intro j hj hj'
      rcases hsplit j hj hj' with h | rfl | h
      · exact (h4 j h).le
      · exact le_refl _
      · exact h5 j h
    · intro j hj hjk
      rcases hsplit j hj (lt_trans hjk (mem_indices.mp hk).2) with h | rfl | h
      · exact h4 j h
      · exact absurd hjk (lt_irrefl _)
      · exact absurd hjk (not_lt.mpr (le_of_lt (List.rel_of_pairwise_cons hpost h)))

/-- A reasonable connection whose value is not below `1e15` is not selected: on the table
`exampleCostlyTable`, where the only reasonable connection has the value `2e15`, the result
is the connection at the index that the uninitialised variable `optimalConnectionID` holds
(here 1), which is none of the reasonable connections. -/
theorem optimalReasonableConnection_counterexample :
    1 ≤ exampleCostlyTable.currentNumberOfReasonableConnections ∧
    ∀ k, 0 ≤ k → k < exampleCostlyTable.currentNumberOfReasonableConnections →
      exampleCostlyTable.optimalReasonableConnection 1 ≠
        exampleCostlyTable.connections (exampleCostlyTable.reasonableConnections k) := by
  refine ⟨by decide, ?_⟩
  intro k _ _ h
  have hv := congrArg Connection.targetFunctionValue h
  norm_num [ConnectionEvaluationTable.optimalReasonableConnection, exampleCostlyTable,
    indices_one, ConnectionEvaluationTable.optimalLoop] at hv

/-- C14, amended: whenever at least one reasonable connection with a target value below
`1e15` is recorded, the reasonable indices being recorded in increasing order (as `reduce`
records them), `optimalReasonableConnection` returns the stored connection of a reasonable
index whose `targetFunctionValue` is minimal among the reasonable ones, and among the
reasonable indices with that minimal value it is the smallest table index. The result does not
depend on the value that the uninitialised variable `optimalConnectionID` holds. -/
theorem optimalReasonableConnection_minimal (T : ConnectionEvaluationTable α)
    (indeterminateID : Int)
    (hmono : ∀ i j, 0 ≤ i → i < j → j < T.currentNumberOfReasonableConnections →
      T.reasonableConnections i < T.reasonableConnections j)
    (hex : ∃ k, 0 ≤ k ∧ k < T.currentNumberOfReasonableConnections ∧
      (T.connections (T.reasonableConnections k)).targetFunctionValue < 1000000000000000) :
    ∃ k, 0 ≤ k ∧ k < T.currentNumberOfReasonableConnections ∧
      T.optimalReasonableConnection indeterminateID =
        T.connections (T.reasonableConnections k) ∧
      (∀ j, 0 ≤ j → j < T.currentNumberOfReasonableConnections →
        (T.connections (T.reasonableConnections k)).targetFunctionValue ≤
          (T.connections (T.reasonableConnections j)).targetFunctionValue) ∧
      (∀ j, 0 ≤ j → j < T.currentNumberOfReasonableConnections →
        (T.connections (T.reasonableConnections j)).targetFunctionValue =
          (T.connections (T.reasonableConnections k)).targetFunctionValue →
        T.reasonableConnections k ≤ T.reasonableConnections j) := by
  obtain ⟨k, hk, hk', h1, h2, h3⟩ := T.optimal_below indeterminateID hex
  refine ⟨k, hk, hk', h1, h2, ?_⟩
  intro j hj hj' hv
  rcases lt_trichotomy j k with h | h | h
  · exact absurd hv (ne_of_gt (h3 j hj h))
  · rw [h]
  · exact (hmono k j hk h hj').le

/-- On the table `exampleTiedTable` (values 5, 3, 3, all reasonable) the result has the least
value and the smallest index among those with that value. -/
theorem optimalReasonableConnection_minimal_witness :
    ∃ k, 0 ≤ k ∧ k < exampleTiedTable.currentNumberOfReasonableConnections ∧
      exampleTiedTable.optimalReasonableConnection 7 =
        exampleTiedTable.connections (exampleTiedTable.reasonableConnections k) ∧
      (∀ j, 0 ≤ j → j < exampleTiedTable.currentNumberOfReasonableConnections →
        (exampleTiedTable.connections
            (exampleTiedTable.reasonableConnections k)).targetFunctionValue ≤
          (exampleTiedTable.connections
            (exampleTiedTable.reasonableConnections j)).targetFunctionValue) ∧
      (∀ j, 0 ≤ j → j < exampleTiedTable.currentNumberOfReasonableConnections →
        (exampleTiedTable.connections
            (exampleTiedTable.reasonableConnections j)).targetFunctionValue =
          (exampleTiedTable.connections
            (exampleTiedTable.reasonableConnections k)).targetFunctionValue →
        exampleTiedTable.reasonableConnections k ≤ exampleTiedTable.reasonableConnections j) :=
  optimalReasonableConnection_minimal exampleTiedTable 7
    (fun i j _ h _ => h)
    ⟨0, le_refl 0, by decide, by norm_num [exampleTiedTable]⟩

/-! ## The scan of the trial optimizer -/

theorem SimpleOptimization.select_tree {D C : Type} (K : Collaborators α D C) (d : D)
    (segment : Segment α) :
    ∀ (st : List (Point α × Tree α)) (S : Search α),
      (SimpleOptimization.select K d segment st S).tree =
        SimpleOptimization.lastTree S.tree st := by
  intro st
  induction st with
  | nil => intro S; rfl
  | cons e rest ih =>
    intro S
    simp only [SimpleOptimization.select, SimpleOptimization.lastTree]
    rw [ih, SimpleOptimization.evaluate_tree]

theorem SimpleOptimization.select_append {D C : Type} (K : Collaborators α D C) (d : D)
    (segment : Segment α) :
    ∀ (l1 l2 : List (Point α × Tree α)) (S : Search α),
      SimpleOptimization.select K d segment (l1 ++ l2) S =
        SimpleOptimization.select K d segment l2 (SimpleOptimization.select K d segment l1 S) := by
  intro l1
  induction l1 with
  | nil => intro l2 S; rfl
  | cons e rest ih =>
    intro l2 S
    exact ih l2 _

theorem SimpleOptimization.scan_cons (M : CMath α) (fuel : Nat) (s : Int) (x : Point α)
    (rest : List (Point α)) (t : Tree α) :
    SimpleOptimization.scan M fuel s (x :: rest) t =
      (Tree.moveDistalPoint M fuel t s x).bind (fun t1 =>
        (SimpleOptimization.scan M fuel s rest t1).map (fun l => (x, t1) :: l)) := by
  rw [SimpleOptimization.scan]
  cases h1 : Tree.moveDistalPoint M fuel t s x with
  | none => rfl
  | some t1 =>
    cases h2 : SimpleOptimization.scan M fuel s rest t1 with
    | none => simp [h2]
    | some l => simp [h2]

theorem SimpleOptimization.scan_append (M : CMath α) (fuel : Nat) (s : Int) :
    ∀ (l1 l2 : List (Point α)) (t : Tree α),
      SimpleOptimization.scan M fuel s (l1 ++ l2) t =
        (SimpleOptimization.scan M fuel s l1 t).bind (fun s1 =>
          (SimpleOptimization.scan M fuel s l2 (SimpleOptimization.lastTree t s1)).map
            (fun s2 => s1 ++ s2)) := by
  intro l1
  induction l1 with
  | nil =>
    intro l2 t
    simp [SimpleOptimization.scan, SimpleOptimization.lastTree]
  | cons x rest ih =>
    intro l2 t
    rw [List.cons_append, SimpleOptimization.scan_cons, SimpleOptimization.scan_cons]
    cases h1 : Tree.moveDistalPoint M fuel t s x with
    | none => rfl
    | some t1 =>
      rw [Option.some_bind, Option.some_bind, ih]
      cases h2 : SimpleOptimization.scan M fuel s rest t1 with
      | none => rfl
      | some l =>
        rw [Option.some_bind, Option.map_some', Option.some_bind]
        cases h3 : SimpleOptimization.scan M fuel s l2 (SimpleOptimization.lastTree t1 l) with
        | none => simp [SimpleOptimization.lastTree, h3]
        | some l3 => simp [SimpleOptimization.lastTree, h3]

/-- The inner loop of `bifurcation` evaluates the trial states of its grid points in turn. -/
theorem SimpleOptimization.columnLoop_scan {D C : Type} (K : Collaborators α D C)
    (M : CMath α) (fuel : Nat) (d : D) (segment : Segment α) (Xi Xnew Xj : Point α) (step : α)
    (numberOfPoints line : Int) :
    ∀ (cols : List Int) (S : Search α),
      SimpleOptimization.columnLoop K M fuel d segment Xi Xnew Xj step numberOfPoints line
        cols S =
      (SimpleOptimization.scan M fuel segment.ID
        (cols.map (fun column =>
          SimpleOptimization.map (K.domainDimension d) Xi Xnew Xj
            (((column - 1 : Int) : α) * step) (((numberOfPoints - line : Int) : α) * step)))
        S.tree).map (fun st => SimpleOptimization.select K d segment st S) := by
  intro cols
  induction cols with
  | nil => intro S; rfl
  | cons c rest ih =>
    intro S
    rw [List.map_cons, SimpleOptimization.scan_cons, SimpleOptimization.columnLoop]
    cases h1 : Tree.moveDistalPoint M fuel S.tree segment.ID
        (SimpleOptimization.map (K.domainDimension d) Xi Xnew Xj
          (((c - 1 : Int) : α) * step) (((numberOfPoints - line : Int) : α) * step)) with
    | none => rfl
    | some t1 =>
      show SimpleOptimization.columnLoop K M fuel d segment Xi Xnew Xj step numberOfPoints line
        rest _ = _
      rw [ih, SimpleOptimization.evaluate_tree, Option.some_bind, Option.map_map]
      rfl

/-- The outer loop of `bifurcation` evaluates the trial states of its grid points in turn. -/
theorem SimpleOptimization.lineLoop_scan {D C : Type} (K : Collaborators α D C)
    (M : CMath α) (fuel : Nat) (d : D) (segment : Segment α) (Xi Xnew Xj : Point α) (step : α)
    (numberOfPoints : Int) :
    ∀ (lines : List Int) (S : Search α),
      SimpleOptimization.lineLoop K M fuel d segment Xi Xnew Xj step numberOfPoints lines S =
      (SimpleOptimization.scan M fuel segment.ID
        (lines.flatMap
          (SimpleOptimization.linePoints (K.domainDimension d) Xi Xnew Xj step numberOfPoints))
        S.tree).map (fun st => SimpleOptimization.select K d segment st S) := by
  intro lines
  induction lines with
  | nil => intro S; rfl
  | cons line rest ih =>
    intro S
    simp only [SimpleOptimization.lineLoop, List.flatMap_cons]
    rw [SimpleOptimization.columnLoop_scan, SimpleOptimization.scan_append]
    have e : SimpleOptimization.linePoints (K.domainDimension d) Xi Xnew Xj step numberOfPoints
        line = ((indices line).map (fun k => k + 1)).map (fun column =>
          SimpleOptimization.map (K.domainDimension d) Xi Xnew Xj
            (((column - 1 : Int) : α) * step) (((numberOfPoints - line : Int) : α) * step)) :=
      rfl
    rw [e]
    cases h1 : SimpleOptimization.scan M fuel segment.ID
        (((indices line).map (fun k => k + 1)).map (fun column =>
          SimpleOptimization.map (K.domainDimension d) Xi Xnew Xj
            (((column - 1 : Int) : α) * step) (((numberOfPoints - line : Int) : α) * step)))
        S.tree with
    | none => rfl
    | some s1 =>
      simp only [Option.map_some', Option.some_bind]
      rw [ih, SimpleOptimization.select_tree]
      cases h2 : SimpleOptimization.scan M fuel segment.ID
          (rest.flatMap
            (SimpleOptimization.linePoints (K.domainDimension d) Xi Xnew Xj step numberOfPoints))
          (SimpleOptimization.lastTree S.tree s1) with
      | none => rfl
      | some s2 =>
        simp only [Option.map_some']
        rw [SimpleOptimization.select_append]

/-- `SimpleOptimization::bifurcation` in terms of the trial states of its scan. -/
theorem SimpleOptimization.bifurcation_eq {D C : Type} (K : Collaborators α D C)
    (M : CMath α) (fuel : Nat) (d : D) (t : Tree α) (segment : Segment α) :
    SimpleOptimization.bifurcation K M fuel d t segment =
      (SimpleOptimization.scan M fuel segment.ID (SimpleOptimization.gridPoints K d t segment)
        t).bind (fun st =>
        (Tree.moveDistalPoint M fuel (SimpleOptimization.lastTree t st) segment.ID
          segment.point).map (fun t1 =>
          ((if (SimpleOptimization.select K d segment st
                { tree := t, minimumEvaluatedTargetFunction := 1000000000000000,
                  optimalBifurcationPoint := Point.default, hasMinimum := false }).hasMinimum
            then
              { bifurcationSegmentID := segment.ID
                bifurcationPoint := (SimpleOptimization.select K d segment st
                  { tree := t, minimumEvaluatedTargetFunction := 1000000000000000,
                    optimalBifurcationPoint := Point.default,
                    hasMinimum := false }).optimalBifurcationPoint
                newSegment := (SimpleOptimization.lastTree t st).rightSegment segment.ID
                targetFunctionValue := (SimpleOptimization.select K d segment st
                  { tree := t, minimumEvaluatedTargetFunction := 1000000000000000,
                    optimalBifurcationPoint := Point.default,
                    hasMinimum := false }).minimumEvaluatedTargetFunction }
            else Connection.default K.indeterminateID K.indeterminateValue : Connection α),
           t1))) := by
  unfold SimpleOptimization.bifurcation SimpleOptimization.gridPoints
    SimpleOptimization.triangle
  simp only [SimpleOptimization.lineLoop_scan]
  generalize SimpleOptimization.scan M fuel segment.ID _ t = sc
  cases sc with
  | none => rfl
  | some st =>
    simp only [Option.map_some', Option.some_bind]
    rw [SimpleOptimization.select_tree]
    cases h2 : Tree.moveDistalPoint M fuel (SimpleOptimization.lastTree t st) segment.ID
        segment.point with
    | none => rfl
    | some t1 => rfl

/-- The variables of the search after a list of trial states: either no passing state has a
value below the initial minimum and the variables are unchanged, or they hold the first
passing state, in the order of the scan, whose value is the least one. -/
theorem SimpleOptimization.select_spec {D C : Type} (K : Collaborators α D C) (d : D)
    (segment : Segment α) :
    ∀ (st : List (Point α × Tree α)) (S0 : Search α),
      ((SimpleOptimization.select K d segment st S0).minimumEvaluatedTargetFunction =
          S0.minimumEvaluatedTargetFunction ∧
        (SimpleOptimization.select K d segment st S0).optimalBifurcationPoint =
          S0.optimalBifurcationPoint ∧
        (SimpleOptimization.select K d segment st S0).hasMinimum = S0.hasMinimum ∧
        ∀ e ∈ st, SimpleOptimization.Passes K d segment e →
          S0.minimumEvaluatedTargetFunction ≤ K.targetFunction e.2) ∨
      (∃ pre e post, st = pre ++ e :: post ∧ SimpleOptimization.Passes K d segment e ∧
        (SimpleOptimization.select K d segment st S0).minimumEvaluatedTargetFunction =
          K.targetFunction e.2 ∧
        (SimpleOptimization.select K d segment st S0).optimalBifurcationPoint = e.1 ∧
        (SimpleOptimization.select K d segment st S0).hasMinimum = true ∧
        K.targetFunction e.2 < S0.minimumEvaluatedTargetFunction ∧
        (∀ e1 ∈ pre, SimpleOptimization.Passes K d segment e1 →
          K.targetFunction e.2 < K.targetFunction e1.2) ∧
        (∀ e1 ∈ post, SimpleOptimization.Passes K d segment e1 →
          K.targetFunction e.2 ≤ K.targetFunction e1.2)) := by
  intro st
  induction st with
  | nil =>
    intro S0
    exact Or.inl ⟨rfl, rfl, rfl, fun e he => absurd he (List.not_mem_nil e)⟩
  | cons x rest ih =>
    intro S0
    have hsel : SimpleOptimization.select K d segment (x :: rest) S0 =
        SimpleOptimization.select K d segment rest
          (SimpleOptimization.evaluate K d segment x.1 { S0 with tree := x.2 }) := rfl
    rw [hsel]
    by_cases hp : K.passRestrictions d x.2 segment = true
    · by_cases hlt : K.targetFunction x.2 < S0.minimumEvaluatedTargetFunction
      · have e : SimpleOptimization.evaluate K d segment x.1 { S0 with tree := x.2 } =
            { tree := x.2, minimumEvaluatedTargetFunction := K.targetFunction x.2,
              optimalBifurcationPoint := x.1, hasMinimum := true } := by
          simp only [SimpleOptimization.evaluate, hp, if_true, hlt]
        rw [e]
        rcases ih (⟨x.2, K.targetFunction x.2, x.1, true⟩ : Search α) with
          ⟨h1, h2, h3, h4⟩ | ⟨pre, e1, post, h1, h2, h3, h4, h5, h6, h7, h8⟩
        · exact Or.inr ⟨[], x, rest, rfl, hp, h1, h2, h3, hlt,
            fun j hj => absurd hj (List.not_mem_nil j), h4⟩
        · refine Or.inr ⟨x :: pre, e1, post, by rw [h1]; rfl, h2, h3, h4, h5,
            lt_trans h6 hlt, ?_, h8⟩
          intro j hj hjp
          rcases List.mem_cons.mp hj with rfl | hj
          · exact h6
          · exact h7 j hj hjp
      · have e : SimpleOptimization.evaluate K d segment x.1 { S0 with tree := x.2 } =
            { S0 with tree := x.2 } := by
          simp only [SimpleOptimization.evaluate, hp, if_true, hlt, if_false]
        rw [e]
        rcases ih { S0 with tree := x.2 } with
          ⟨h1, h2, h3, h4⟩ | ⟨pre, e1, post, h1, h2, h3, h4, h5, h6, h7, h8⟩
        · refine Or.inl ⟨h1, h2, h3, ?_⟩
          intro j hj hjp
          rcases List.mem_cons.mp hj with rfl | hj
          · exact not_lt.mp hlt
          · exact h4 j hj hjp
        · refine Or.inr ⟨x :: pre, e1, post, by rw [h1]; rfl, h2, h3, h4, h5, h6, ?_, h8⟩
          intro j hj hjp
          rcases List.mem_cons.mp hj with rfl | hj
          · exact lt_of_lt_of_le h6 (not_lt.mp hlt)
          · exact h7 j hj hjp
    · have e : SimpleOptimization.evaluate K d segment x.1 { S0 with tree := x.2 } =
          { S0 with tree := x.2 } := by
        simp only [SimpleOptimization.evaluate, hp, if_false, Bool.false_eq_true]
      rw [e]
      rcases ih { S0 with tree := x.2 } with
        ⟨h1, h2, h3, h4⟩ | ⟨pre, e1, post, h1, h2, h3, h4, h5, h6, h7, h8⟩
      · refine Or.inl ⟨h1, h2, h3, ?_⟩
        intro j hj hjp
        rcases List.mem_cons.mp hj with rfl | hj
        · exact absurd hjp hp
        · exact h4 j hj hjp
      · refine Or.inr ⟨x :: pre, e1, post, by rw [h1]; rfl, h2, h3, h4, h5, h6, ?_, h8⟩
        intro j hj hjp
        rcases List.mem_cons.mp hj with rfl | hj
        · exact absurd hjp hp
        · exact h7 j hj hjp

/-- On a reachable tree a scan of a live segment returns for every list of points, its trial
states are the points of the list in their order, and the tree it leaves is reachable and has
the links of the tree before. -/
theorem SimpleOptimization.scan_total {M : CMath α} {s : Int} :
    ∀ (pts : List (Point α)) {t : Tree α}, Reach M t → t.live s →
      ∃ f0 st, (∀ f, f0 ≤ f → SimpleOptimization.scan M f s pts t = some st) ∧
        st.map Prod.fst = pts ∧
        Reach M (SimpleOptimization.lastTree t st) ∧
        SameLinks (SimpleOptimization.lastTree t st) t ∧
        (∀ e ∈ st, Reach M e.2 ∧ SameLinks e.2 t) := by
  intro pts
  induction pts with
  | nil =>
    intro t hR hs
    exact ⟨0, [], fun f _ => rfl, rfl, hR, ⟨rfl, fun i _ => ⟨rfl, rfl, rfl, rfl⟩⟩,
      fun e he => absurd he (List.not_mem_nil e)⟩
  | cons x rest ih =>
    intro t hR hs
    obtain ⟨f1, t1, h1⟩ := moveDistalPoint_total hR hs x
    have hR1 : Reach M t1 := Reach.move f1 s x t t1 hR hs (h1 f1 (le_refl _))
    have hl1 : SameLinks t1 t := moveDistalPoint_sameLinks (h1 f1 (le_refl _))
    obtain ⟨f2, st, h2, a1, a2, a3, a4⟩ := ih hR1 ((hl1.live_iff s).2 hs)
    refine ⟨max f1 f2, (x, t1) :: st, fun f hf => ?_, ?_, a2, a3.trans_links hl1, ?_⟩
    · rw [SimpleOptimization.scan_cons, h1 f (le_trans (le_max_left _ _) hf), Option.some_bind,
        h2 f (le_trans (le_max_right _ _) hf)]
      rfl
    · rw [List.map_cons, a1]
    · intro e he
      rcases List.mem_cons.mp he with rfl | he
      · exact ⟨hR1, hl1⟩
      · exact ⟨(a4 e he).1, (a4 e he).2.trans_links hl1⟩

/-- On a reachable tree `SimpleOptimization::bifurcation` of a live segment returns; its scan
visits the grid points in their order, and the connection is read off the variables of the
search after the scan. -/
theorem SimpleOptimization.bifurcation_run {D C : Type} (K : Collaborators α D C)
    {M : CMath α} (d : D) {t : Tree α} (hR : Reach M t) (segment : Segment α)
    (hl : t.live segment.ID) :
    ∃ f0 st t1 c, (∀ f, f0 ≤ f →
        SimpleOptimization.scan M f segment.ID (SimpleOptimization.gridPoints K d t segment) t =
          some st ∧
        Tree.moveDistalPoint M f (SimpleOptimization.lastTree t st) segment.ID segment.point =
          some t1 ∧
        SimpleOptimization.bifurcation K M f d t segment = some (c, t1)) ∧
      st.map Prod.fst = SimpleOptimization.gridPoints K d t segment ∧
      Reach M (SimpleOptimization.lastTree t st) ∧
      SameLinks (SimpleOptimization.lastTree t st) t ∧
      (∀ e ∈ st, Reach M e.2 ∧ SameLinks e.2 t) ∧
      c = (if (SimpleOptimization.select K d segment st
                { tree := t, minimumEvaluatedTargetFunction := 1000000000000000,
                  optimalBifurcationPoint := Point.default, hasMinimum := false }).hasMinimum
            then
              { bifurcationSegmentID := segment.ID
                bifurcationPoint := (SimpleOptimization.select K d segment st
                  { tree := t, minimumEvaluatedTargetFunction := 1000000000000000,
                    optimalBifurcationPoint := Point.default,
                    hasMinimum := false }).optimalBifurcationPoint
                newSegment := (SimpleOptimization.lastTree t st).rightSegment segment.ID
                targetFunctionValue := (SimpleOptimization.select K d segment st
                  { tree := t, minimumEvaluatedTargetFunction := 1000000000000000,
                    optimalBifurcationPoint := Point.default,
                    hasMinimum := false }).minimumEvaluatedTargetFunction }
            else Connection.default K.indeterminateID K.indeterminateValue : Connection α) := by
  obtain ⟨f1, st, h1, a1, a2, a3, a4⟩ :=
    SimpleOptimization.scan_total (SimpleOptimization.gridPoints K d t segment) hR hl
  obtain ⟨f2, t1, h2⟩ := moveDistalPoint_total a2 ((a3.live_iff _).2 hl) segment.point
  refine ⟨max f1 f2, st, t1, _, fun f hf => ⟨h1 f (le_trans (le_max_left _ _) hf),
    h2 f (le_trans (le_max_right _ _) hf), ?_⟩, a1, a2, a3, a4, rfl⟩
  rw [SimpleOptimization.bifurcation_eq, h1 f (le_trans (le_max_left _ _) hf), Option.some_bind,
    h2 f (le_trans (le_max_right _ _) hf)]
  rfl

/-- C12, amended: on a reachable tree `SimpleOptimization::bifurcation(segment)` of a live
segment returns. Its result is an empty `Connection` if and only if no grid point passed
`passRestrictions` with a value of the target function below `1e15`, the initial minimum.
Otherwise it is a `Connection` whose `bifurcationSegmentID` is the ID of the segment, whose
`targetFunctionValue` is the least value of the target function over all the grid points that
passed, and whose bifurcation point is the first grid point in scan order that passed with
this value. (A grid point passes when `passRestrictions` holds in the tree to which
`moveDistalPoint` has moved the bifurcation, the trial state of the grid point.) -/
theorem bifurcation_result {D C : Type} (K : Collaborators α D C) {M : CMath α} (d : D)
    {t : Tree α} (hR : Reach M t) (segment : Segment α) (hl : t.live segment.ID) :
    ∃ f0 c t1 st,
      (∀ f, f0 ≤ f →
        SimpleOptimization.bifurcation K M f d t segment = some (c, t1) ∧
        SimpleOptimization.scan M f segment.ID (SimpleOptimization.gridPoints K d t segment) t =
          some st) ∧
      st.map Prod.fst = SimpleOptimization.gridPoints K d t segment ∧
      (c.empty = true ↔ ∀ e ∈ st, ¬ SimpleOptimization.Candidate K d segment e) ∧
      (c.empty = false →
        c.bifurcationSegmentID = segment.ID ∧
        ∃ pre e post, st = pre ++ e :: post ∧ SimpleOptimization.Passes K d segment e ∧
          c.targetFunctionValue = K.targetFunction e.2 ∧ c.bifurcationPoint = e.1 ∧
          (∀ e1 ∈ st, SimpleOptimization.Passes K d segment e1 →
            K.targetFunction e.2 ≤ K.targetFunction e1.2) ∧
          (∀ e1 ∈ pre, SimpleOptimization.Passes K d segment e1 →
            K.targetFunction e.2 < K.targetFunction e1.2)) := by
  obtain ⟨f0, st, t1, c, hrun, hpts, -, -, -, hc⟩ :=
    SimpleOptimization.bifurcation_run K d hR segment hl
  refine ⟨f0, c, t1, st, fun f hf => ⟨(hrun f hf).2.2, (hrun f hf).1⟩, hpts, ?_⟩
  have hid : ¬ segment.ID < 0 := not_lt.mpr hl.1
  rcases SimpleOptimization.select_spec K d segment st
      (⟨t, 1000000000000000, Point.default, false⟩ : Search α) with
    ⟨h1, h2, h3, h4⟩ | ⟨pre, e, post, h1, h2, h3, h4, h5, h6, h7, h8⟩
  · have hc' : c = Connection.default K.indeterminateID K.indeterminateValue := by
      rw [hc, h3]
      rfl
    have hemp : c.empty = true := by
      rw [hc']
      simp [Connection.empty, Connection.default]
    refine ⟨⟨fun _ e he hcand => ?_, fun _ => hemp⟩, fun h => ?_⟩
    · exact absurd hcand.2 (not_lt.mpr (h4 e he hcand.1))
    · rw [hemp] at h
      exact absurd h (by decide)
  · have hc' : c = ⟨segment.ID, e.1,
        (SimpleOptimization.lastTree t st).rightSegment segment.ID, K.targetFunction e.2⟩ := by
      rw [hc, h5, if_pos rfl, h3, h4]
    have hemp : c.empty = false := by
      rw [hc']
      simp only [Connection.empty, decide_eq_false_iff_not]
      exact hid
    have hmem : e ∈ st := by
      rw [h1]
      exact List.mem_append_right _ (List.mem_cons_self _ _)
    refine ⟨⟨fun h => ?_, fun h => ?_⟩, fun _ => ⟨by rw [hc'], pre, e, post, h1, h2,
      by rw [hc'], by rw [hc'], ?_, h7⟩⟩
    · rw [hemp] at h
      exact absurd h (by decide)
    · exact absurd ⟨h2, h6⟩ (h e hmem)
    · intro e1 he1 hp1
      rw [h1] at he1
      rcases List.mem_append.mp he1 with h | h
      · exact (h7 e1 h hp1).le
      · rcases List.mem_cons.mp h with h | h
        · rw [h]
        · exact h8 e1 h hp1


/-- The grid of the example drivers has 21 points. -/
theorem exampleGrid_length (t : Tree α) (segment : Segment α) :
    (SimpleOptimization.gridPoints (exampleCostlyDriver : Collaborators α Nat Unit) 0 t
      segment).length = 21 := rfl

/-- With a target function whose value is `2e15` in every tree (and restrictions that accept
every tree), on the tree that `growSegment` makes of the root of the example, the result of
`bifurcation` for the segment that `growSegment` returned is an empty `Connection` although
grid points passed `passRestrictions`. -/
theorem bifurcation_result_counterexample :
    ∃ fuel r,
      growSegment realMath fuel ⟨2, 1, 1, 0⟩ ((exampleRoot realMath).segments 0)
        (Segment.make 2 ⟨2, 2, 0, 0⟩ 1) (exampleRoot realMath) = some r ∧
      ∃ f c t1 st,
        SimpleOptimization.bifurcation (exampleCostlyDriver : Collaborators ℝ Nat Unit)
          realMath f 0 r.2 r.1 = some (c, t1) ∧
        SimpleOptimization.scan realMath f r.1.ID
          (SimpleOptimization.gridPoints (exampleCostlyDriver : Collaborators ℝ Nat Unit) 0 r.2
            r.1) r.2 = some st ∧
        (∃ e ∈ st, SimpleOptimization.Passes (exampleCostlyDriver : Collaborators ℝ Nat Unit) 0
          r.1 e) ∧
        c.empty = true := by
  obtain ⟨f0, r, h, hR1, hid, -, hcur, -⟩ :=
    growSegment_total_tail (exampleRoot_reach realMath) (exampleRoot_live realMath)
      ⟨2, 1, 1, 0⟩ (Segment.make 2 ⟨2, 2, 0, 0⟩ 1)
  have hl : r.2.live r.1.ID := by
    rw [hid]
    have hc : (exampleRoot realMath).currentNumberOfSegments = 1 := rfl
    simp only [Tree.live, hcur, hc]
    omega
  obtain ⟨f1, st, t1, c, hrun, hpts, -, -, -, hc⟩ :=
    SimpleOptimization.bifurcation_run (exampleCostlyDriver : Collaborators ℝ Nat Unit) 0 hR1
      r.1 hl
  refine ⟨f0, r, h f0 (le_refl _), f1, c, t1, st, (hrun f1 (le_refl _)).2.2,
    (hrun f1 (le_refl _)).1, ?_, ?_⟩
  · have hlen : st.length = 21 := by
      rw [← exampleGrid_length r.2 r.1, ← hpts, List.length_map]
    cases st with
    | nil => exact absurd hlen (by decide)
    | cons e rest => exact ⟨e, List.mem_cons_self _ _, rfl⟩
  · rcases SimpleOptimization.select_spec (exampleCostlyDriver : Collaborators ℝ Nat Unit) 0 r.1
        st (⟨r.2, 1000000000000000, Point.default, false⟩ : Search ℝ) with
      ⟨-, -, h3, -⟩ | ⟨pre, e, post, -, -, -, -, -, h6, -, -⟩
    · rw [hc, h3]
      simp [Connection.empty, Connection.default]
    · have h6' : (2000000000000000 : ℝ) < 1000000000000000 := h6
      exact absurd h6' (by norm_num)

/-- With the driver of the example (a target function that is 0 in every tree), on the tree
that `growSegment` makes of the root of the example, `bifurcation` for the segment that
`growSegment` returned has the properties of the result. -/
theorem bifurcation_result_witness :
    ∃ fuel r,
      growSegment realMath fuel ⟨2, 1, 1, 0⟩ ((exampleRoot realMath).segments 0)
        (Segment.make 2 ⟨2, 2, 0, 0⟩ 1) (exampleRoot realMath) = some r ∧
      Reach realMath r.2 ∧ r.2.live r.1.ID ∧
      ∃ f0 c t1 st,
        (∀ f, f0 ≤ f →
          SimpleOptimization.bifurcation (exampleDriver 2 : Collaborators ℝ Nat Unit)
            realMath f 0 r.2 r.1 = some (c, t1) ∧
          SimpleOptimization.scan realMath f r.1.ID
            (SimpleOptimization.gridPoints (exampleDriver 2 : Collaborators ℝ Nat Unit) 0 r.2
              r.1) r.2 = some st) ∧
        st.map Prod.fst =
          SimpleOptimization.gridPoints (exampleDriver 2 : Collaborators ℝ Nat Unit) 0 r.2 r.1 ∧
        (c.empty = true ↔ ∀ e ∈ st,
          ¬ SimpleOptimization.Candidate (exampleDriver 2 : Collaborators ℝ Nat Unit) 0 r.1 e) ∧
        (c.empty = false →
          c.bifurcationSegmentID = r.1.ID ∧
          ∃ pre e post, st = pre ++ e :: post ∧
            SimpleOptimization.Passes (exampleDriver 2 : Collaborators ℝ Nat Unit) 0 r.1 e ∧
            c.targetFunctionValue =
              (exampleDriver 2 : Collaborators ℝ Nat Unit).targetFunction e.2 ∧
            c.bifurcationPoint = e.1 ∧
            (∀ e1 ∈ st,
              SimpleOptimization.Passes (exampleDriver 2 : Collaborators ℝ Nat Unit) 0 r.1 e1 →
              (exampleDriver 2 : Collaborators ℝ Nat Unit).targetFunction e.2 ≤
                (exampleDriver 2 : Collaborators ℝ Nat Unit).targetFunction e1.2) ∧
            (∀ e1 ∈ pre,
              SimpleOptimization.Passes (exampleDriver 2 : Collaborators ℝ Nat Unit) 0 r.1 e1 →
              (exampleDriver 2 : Collaborators ℝ Nat Unit).targetFunction e.2 <
                (exampleDriver 2 : Collaborators ℝ Nat Unit).targetFunction e1.2)) := by
  obtain ⟨f0, r, h, hR1, hid, -, hcur, -⟩ :=
    growSegment_total_tail (exampleRoot_reach realMath) (exampleRoot_live realMath)
      ⟨2, 1, 1, 0⟩ (Segment.make 2 ⟨2, 2, 0, 0⟩ 1)
  have hl : r.2.live r.1.ID := by
    rw [hid]
    have hc : (exampleRoot realMath).currentNumberOfSegments = 1 := rfl
    simp only [Tree.live, hcur, hc]
    omega
  exact ⟨f0, r, h f0 (le_refl _), hR1, hl,
    bifurcation_result (exampleDriver 2 : Collaborators ℝ Nat Unit) 0 hR1 r.1 hl⟩

/-! ## The trial optimizer restores the tree -/

theorem Moved.refl_moved (s : Int) (t : Tree α) : Moved s t t :=
  ⟨rfl, rfl, rfl, rfl, rfl, rfl, rfl, fun _ => rfl, fun _ => rfl, fun _ => rfl,
    fun _ _ => rfl, fun _ _ => rfl⟩

theorem Moved.isTerminal_moved {s : Int} {t t' : Tree α} (h : Moved s t t') (i : Int) :
    t'.isTerminal i = t.isTerminal i := by
  simp only [Tree.isTerminal, h.left, h.right]

theorem Moved.trans_moved {s : Int} {t t' t'' : Tree α} (h : Moved s t t') (h' : Moved s t' t'') :
    Moved s t t'' :=
  ⟨h'.lengthUnit.trans h.lengthUnit, h'.bloodViscosity.trans h.bloodViscosity,
    h'.bifurcationExpoent.trans h.bifurcationExpoent, h'.dimension.trans h.dimension,
    h'.seed.trans h.seed, h'.currentNumberOfSegments.trans h.currentNumberOfSegments,
    h'.currentNumberOfTerminals.trans h.currentNumberOfTerminals,
    fun i => (h'.up i).trans (h.up i), fun i => (h'.left i).trans (h.left i),
    fun i => (h'.right i).trans (h.right i),
    fun i hi => (h'.point i hi).trans (h.point i hi),
    fun i hi => (h'.flow i (by rw [h.isTerminal_moved]; exact hi)).trans (h.flow i hi)⟩

/-- What one call of `moveDistalPoint` keeps, and the point that it sets. -/
theorem moveDistalPoint_moved {M : CMath α} {t : Tree α} (hR : Reach M t) {s : Int}
    (hs : t.live s) {x : Point α} {f : Nat} {t' : Tree α}
    (h : moveDistalPoint M f t s x = some t') :
    Moved s t t' ∧ (t'.segments s).point = x := by
  obtain ⟨e1, e2, e3, e4, e5, e6, e7⟩ := moveDistalPoint_consts h
  simp only [moveDistalPoint, update] at h
  have hf := updateLoop_frame M _ _ _ _ h
  have ho := (updateLoop_off_path M f _ _ _ (Frame.refl _) h).2
  have hpt : ∀ i, (t'.segments i).point = if i = s then x else (t.segments i).point := by
    intro i
    rw [show (t'.segments i).point = _ from (hf.segments i).2.1,
      moveDistalPointLengths_point]
  refine ⟨⟨e1, e2, e3, e4, e5, e6, e7, fun i => ?_, fun i => ?_, fun i => ?_,
    fun i hi => by rw [hpt, if_neg hi], fun i hi => ?_⟩, by rw [hpt, if_pos rfl]⟩
  · rw [show (t'.segments i).up = _ from (hf.segments i).2.2.2.1, moveDistalPointLengths_up]
  · rw [show (t'.segments i).left = _ from (hf.segments i).2.2.2.2.1,
      (moveDistalPointLengths_fields M t s x i).1]
  · rw [show (t'.segments i).right = _ from (hf.segments i).2.2.2.2.2,
      (moveDistalPointLengths_fields M t s x i).2.1]
  · rw [ho i (by rw [moveDistalPointLengths_isTerminal]; exact hi),
      (moveDistalPointLengths_fields M t s x i).2.2.1]

/-- What a scan keeps of the tree. -/
theorem SimpleOptimization.scan_moved {M : CMath α} {s : Int} (f : Nat) :
    ∀ (pts : List (Point α)) {t : Tree α} {st : List (Point α × Tree α)}, Reach M t →
      t.live s → SimpleOptimization.scan M f s pts t = some st →
      Moved s t (SimpleOptimization.lastTree t st) := by
  intro pts
  induction pts with
  | nil =>
    intro t st hR hs h
    cases h
    exact Moved.refl_moved s t
  | cons x rest ih =>
    intro t st hR hs h
    rw [SimpleOptimization.scan_cons] at h
    cases h1 : moveDistalPoint M f t s x with
    | none => rw [h1] at h; cases h
    | some t1 =>
      rw [h1, Option.some_bind] at h
      cases h2 : SimpleOptimization.scan M f s rest t1 with
      | none => rw [h2] at h; cases h
      | some l =>
        rw [h2] at h
        cases h
        have hm := (moveDistalPoint_moved hR hs h1).1
        have hR1 : Reach M t1 := Reach.move f s x t t1 hR hs h1
        have hs1 : t1.live s := by
          simp only [Tree.live, hm.currentNumberOfSegments]
          exact hs
        exact hm.trans_moved (ih hR1 hs1 h2)

/-- A segment with consistent values has a consistent flow. -/
theorem Good.flowGood {M : CMath α} {t : Tree α} {i : Int} (h : Good M t i) : FlowGood t i := by
  unfold Good at h
  unfold FlowGood
  by_cases ht : t.isTerminal i = true
  · exact Or.inl ht
  · rw [if_neg ht] at h
    exact Or.inr h.1

/-! ## The reduction of the table -/

theorem LiveEq.refl_live (t : Tree α) : LiveEq t t :=
  ⟨rfl, rfl, rfl, rfl, rfl, rfl, rfl, fun _ _ => rfl, fun _ _ => rfl, fun _ _ => rfl,
    fun _ _ => rfl, fun _ _ => rfl, fun _ _ => rfl, fun _ _ => rfl, fun _ _ => rfl,
    fun _ _ => rfl, fun _ _ => rfl⟩

theorem LiveEq.live_eq {t' t : Tree α} (h : LiveEq t' t) (i : Int) : t'.live i ↔ t.live i := by
  simp only [Tree.live, h.currentNumberOfSegments]

theorem LiveEq.trans_live {t'' t' t : Tree α} (h : LiveEq t'' t') (h' : LiveEq t' t) :
    LiveEq t'' t :=
  ⟨h.lengthUnit.trans h'.lengthUnit, h.bloodViscosity.trans h'.bloodViscosity,
    h.bifurcationExpoent.trans h'.bifurcationExpoent, h.dimension.trans h'.dimension,
    h.seed.trans h'.seed, h.currentNumberOfSegments.trans h'.currentNumberOfSegments,
    h.currentNumberOfTerminals.trans h'.currentNumberOfTerminals,
    fun i hi => (h.ID i ((h'.live_eq i).2 hi)).trans (h'.ID i hi),
    fun i hi => (h.point i ((h'.live_eq i).2 hi)).trans (h'.point i hi),
    fun i hi => (h.up i ((h'.live_eq i).2 hi)).trans (h'.up i hi),
    fun i hi => (h.left i ((h'.live_eq i).2 hi)).trans (h'.left i hi),
    fun i hi => (h.right i ((h'.live_eq i).2 hi)).trans (h'.right i hi),
    fun i hi => (h.flow i ((h'.live_eq i).2 hi)).trans (h'.flow i hi),
    fun i hi => (h.bifurcationRatioLeft i ((h'.live_eq i).2 hi)).trans
      (h'.bifurcationRatioLeft i hi),
    fun i hi => (h.bifurcationRatioRight i ((h'.live_eq i).2 hi)).trans
      (h'.bifurcationRatioRight i hi),
    fun i hi => (h.length i ((h'.live_eq i).2 hi)).trans (h'.length i hi),
    fun i hi => (h.reducedHydrodynamicResistance i ((h'.live_eq i).2 hi)).trans
      (h'.reducedHydrodynamicResistance i hi)⟩

/-- A connection applied with `growSegment` and undone with `remove` of its stale segment
value leaves the live state of the tree as it was. -/
theorem growSegment_remove_liveEq {M : CMath α} {t : Tree α} (hR : Reach M t)
    (hlu : t.lengthUnit = 1) (hγ : ∀ i j, t.bifurcationExpoent i = t.bifurcationExpoent j)
    {p : Int} (hp : t.live p) (b : Point α) {c : Segment α} (hc : c.up = p) :
    ∃ f0 r1 r2, (∀ f, f0 ≤ f → growSegment M f b (t.segments p) c t = some r1 ∧
        remove M f r1.2 c = some r2) ∧
      Reach M r1.2 ∧ Reach M r2.2 ∧ LiveEq r2.2 t := by
  obtain ⟨f1, r1, h1, hR1, hid, hT1, c1, c1'⟩ := growSegment_total_tail hR hp b c
  obtain ⟨f3, r2, h3, hR2, c3, c3'⟩ := remove_total_tail hR1 hT1 hc
  have g1 := h1 f1 (le_refl _)
  have g3 := h3 f3 (le_refl _)
  obtain ⟨-, -, hrs⟩ := growSegment_tail hR hp g1
  have hup : c.up = (r1.2.rightSegment p).up := by
    rw [hrs, hT1.up_terminal, hc]
  rw [remove_congr_up M f3 r1.2 hup] at g3
  obtain ⟨-, e1, e2, hl⟩ := growSegment_remove_links hR hp g1 g3
  obtain ⟨hsl, hflow⟩ := growSegment_remove_flow hR hp g1 g3
  obtain ⟨k1, k2, k3, k4, k5, -, -⟩ := growSegment_consts g1
  obtain ⟨d1, d2, d3, d4, d5, -, -⟩ := remove_consts g3
  have hn := hR.numInv hlu hγ
  have hn2 := hR2.numInv (by rw [d1, k1, hlu]) (by rw [d3, k3]; exact hγ)
  have hlen := growSegment_remove_length hR hn.1 hp g1 g3 hn2.1
  have hv := values_determined M hR.wfl hsl (by rw [d1, k1]) (by rw [d2, k2]) (by rw [d3, k3])
    hlen hn.2.1 hn2.2.1 hflow
  refine ⟨max f1 f3, r1, r2, fun f hf => ⟨h1 f (le_trans (le_max_left _ _) hf),
    h3 f (le_trans (le_max_right _ _) hf)⟩, hR1, hR2, ?_⟩
  exact ⟨d1.trans k1, d2.trans k2, d3.trans k3, d4.trans k4, d5.trans k5, e1, e2,
    fun i hi => (hl i hi).1, fun i hi => (hl i hi).2.1, fun i hi => (hl i hi).2.2.1,
    fun i hi => (hl i hi).2.2.2.1, fun i hi => (hl i hi).2.2.2.2.1, hflow,
    fun i hi => (hv i hi).2.1, fun i hi => (hv i hi).2.2, hlen, fun i hi => (hv i hi).1⟩

theorem indices_succ {m : Int} (hm : 0 ≤ m) : indices (m + 1) = indices m ++ [m] := by
  unfold indices
  have h1 : (m + 1).toNat = m.toNat + 1 := by omega
  rw [h1, List.range_succ, List.map_append, List.map_singleton]
  have h2 : Int.ofNat m.toNat = m := by
    show (m.toNat : Int) = m
    omega
  rw [h2]

/-- The reasonable indices after one more index has been recorded. -/
theorem ConnectionEvaluationTable.reasonable_record (T : ConnectionEvaluationTable α) (i : Int)
    (hm : 0 ≤ T.currentNumberOfReasonableConnections) :
    ConnectionEvaluationTable.reasonable
      { T with
        reasonableConnections :=
          (Function.update T.reasonableConnections T.currentNumberOfReasonableConnections i)
        currentNumberOfReasonableConnections := T.currentNumberOfReasonableConnections + 1 } =
      T.reasonable ++ [i] := by
  unfold ConnectionEvaluationTable.reasonable
  simp only []
  rw [indices_succ hm, List.map_append, List.map_singleton, Function.update_same]
  congr 1
  apply List.map_congr_left
  intro k hk
  rw [Function.update_noteq]
  exact ne_of_lt (mem_indices.mp hk).2

/-- The loop of `reduce`: it returns, every connection is tried in a tree whose live state is
that of the tree before, the verdicts that are true are recorded in the order of the loop, and
the tree it leaves has the live state of the tree before. -/
theorem ConnectionEvaluationTable.reduceLoop_spec {D C : Type} (K : Collaborators α D C)
    (M : CMath α) :
    ∀ (is : List Int) (T : ConnectionEvaluationTable α) (s : Counted α),
      Reach M s.tree → s.tree.lengthUnit = 1 →
      (∀ i j, s.tree.bifurcationExpoent i = s.tree.bifurcationExpoent j) →
      0 ≤ T.currentNumberOfReasonableConnections →
      (∀ i ∈ is, s.tree.live (T.connections i).bifurcationSegmentID ∧
        (T.connections i).newSegment.up = (T.connections i).bifurcationSegmentID) →
      ∃ f0 T' s', ∃ tr : List (Int × Tree α × Bool),
        (∀ f, f0 ≤ f → ConnectionEvaluationTable.reduceLoop K M f is T s = some (T', s')) ∧
        tr.map (fun e => e.1) = is ∧
        (∀ e ∈ tr, Reach M e.2.1 ∧ LiveEq e.2.1 s.tree ∧
          ∀ f, f0 ≤ f →
            ConnectionEvaluationTable.verdict K M f e.2.1 (T.connections e.1) = some e.2.2) ∧
        Reach M s'.tree ∧ LiveEq s'.tree s.tree ∧
        T'.connections = T.connections ∧
        T'.currentNumberOfConnections = T.currentNumberOfConnections ∧
        T'.numberOfConnections = T.numberOfConnections ∧
        T'.reasonable = T.reasonable ++ (tr.filter (fun e => e.2.2)).map (fun e => e.1) := by
  intro is
  induction is with
  | nil =>
    intro T s hR hlu hγ hm hc
    exact ⟨0, T, s, [], fun f _ => rfl, rfl, fun e he => absurd he (List.not_mem_nil e), hR,
      LiveEq.refl_live _, rfl, rfl, rfl, by simp⟩
  | cons i rest ih =>
    intro T s hR hlu hγ hm hc
    obtain ⟨hp, hup⟩ := hc i (List.mem_cons_self _ _)
    obtain ⟨f1, r1, r2, h1, hR1, hR2, hle⟩ :=
      growSegment_remove_liveEq hR hlu hγ hp (T.connections i).bifurcationPoint hup
    obtain ⟨T1, hT1⟩ : ∃ T1 : ConnectionEvaluationTable α, T1 =
        if K.withoutIntersection r1.2 r1.1 then
          { T with
            reasonableConnections :=
              (Function.update T.reasonableConnections T.currentNumberOfReasonableConnections i)
            currentNumberOfReasonableConnections :=
              T.currentNumberOfReasonableConnections + 1 }
        else T := ⟨_, rfl⟩
    have hT1c : T1.connections = T.connections := by
      rw [hT1]; split_ifs <;> rfl
    have hT1n : T1.currentNumberOfConnections = T.currentNumberOfConnections := by
      rw [hT1]; split_ifs <;> rfl
    have hT1k : T1.numberOfConnections = T.numberOfConnections := by
      rw [hT1]; split_ifs <;> rfl
    have hT1m : 0 ≤ T1.currentNumberOfReasonableConnections := by
      rw [hT1]; split_ifs
      · show 0 ≤ T.currentNumberOfReasonableConnections + 1
        omega
      · exact hm
    have hT1r : T1.reasonable = T.reasonable ++
        (if K.withoutIntersection r1.2 r1.1 then [i] else []) := by
      rw [hT1]
      by_cases hb : K.withoutIntersection r1.2 r1.1 = true
      · rw [if_pos hb, if_pos hb]
        exact T.reasonable_record i hm
      · rw [if_neg hb, if_neg hb, List.append_nil]
    obtain ⟨f2, T', s', tr, h2, a1, a2, a3, a4, a5, a6, a7, a8⟩ := ih T1
      { tree := r2.2, growSegmentCalls := s.growSegmentCalls + 1,
        removeCalls := s.removeCalls + 1 }
      hR2 (by rw [hle.lengthUnit, hlu]) (by rw [hle.bifurcationExpoent]; exact hγ) hT1m
      (by
        intro j hj
        rw [hT1c]
        obtain ⟨q1, q2⟩ := hc j (List.mem_cons_of_mem _ hj)
        exact ⟨(hle.live_eq _).2 q1, q2⟩)
    refine ⟨max f1 f2, T', s', (i, s.tree, K.withoutIntersection r1.2 r1.1) :: tr,
      fun f hf => ?_, by rw [List.map_cons, a1], ?_, a3, a4.trans_live hle, a5.trans hT1c,
      a6.trans hT1n, a7.trans hT1k, ?_⟩
    · obtain ⟨g1, g2⟩ := h1 f (le_trans (le_max_left _ _) hf)
      have g3 := h2 f (le_trans (le_max_right _ _) hf)
      rw [ConnectionEvaluationTable.reduceLoop]
      simp only [Counted.growSegment, g1, Counted.remove, g2]
      rw [← hT1]
      exact g3
    · intro e he
      rcases List.mem_cons.mp he with rfl | he
      · refine ⟨hR, LiveEq.refl_live _, fun f hf => ?_⟩
        obtain ⟨g1, -⟩ := h1 f (le_trans (le_max_left _ _) hf)
        simp only [ConnectionEvaluationTable.verdict, g1]
      · obtain ⟨b1, b2, b3⟩ := a2 e he
        refine ⟨b1, b2.trans_live hle, fun f hf => ?_⟩
        rw [← hT1c]
        exact b3 f (le_trans (le_max_right _ _) hf)
    · rw [a8, hT1r, List.append_assoc]
      congr 1
      by_cases hb : K.withoutIntersection r1.2 r1.1 = true
      · simp [hb]
      · simp [hb]

/-- A relation that holds pairwise along the values of a loop counter holds for every two of
them in their order. -/
theorem indices_pairwise_rel {P : Int → Int → Prop} {m : Int}
    (h : (indices m).Pairwise P) : ∀ j k, 0 ≤ j → j < k → k < m → P j k := by
  intro j k hj hjk hk
  have h2 : (indices m).Pairwise
      (fun a b => (a < b → P a b) ∧ (b < a → P b a)) := by
    refine (h.and (indices_pairwise m)).imp ?_
    rintro a b ⟨h1, h2⟩
    exact ⟨fun _ => h1, fun h3 => absurd h3 (not_lt.mpr h2.le)⟩
  have hs : Symmetric (fun a b : Int => (a < b → P a b) ∧ (b < a → P b a)) := by
    intro a b hab
    exact ⟨hab.2, hab.1⟩
  exact (h2.forall hs (mem_indices.mpr ⟨hj, by omega⟩) (mem_indices.mpr ⟨by omega, hk⟩)
    (ne_of_lt hjk)).1 hjk

/-! ## The search of the closest segments -/

theorem TreeConnectionSearch.exchange_exchange (i j : Int) :
    TreeConnectionSearch.exchange i (TreeConnectionSearch.exchange i j) = j := by
  unfold TreeConnectionSearch.exchange
  split_ifs <;> omega

theorem TreeConnectionSearch.exchange_range {n i j : Int} (hi : 0 ≤ i) (hi1 : i + 1 < n)
    (hj : 0 ≤ j) (hjn : j < n) :
    0 ≤ TreeConnectionSearch.exchange i j ∧ TreeConnectionSearch.exchange i j < n := by
  unfold TreeConnectionSearch.exchange
  split_ifs <;> omega

theorem TreeConnectionSearch.exchange_lt {i j k : Int} (hjk : j < k) :
    TreeConnectionSearch.exchange i j < TreeConnectionSearch.exchange i k ∨
      (j = i ∧ k = i + 1) := by
  unfold TreeConnectionSearch.exchange
  split_ifs <;> omega

/-- A step of the pass that exchanges the slots `i` and `i + 1`. -/
theorem TreeConnectionSearch.sortPass_cons_gt (i : Int) (rest : List Int)
    (v : TreeConnectionSearch α) (swap : Bool)
    (h : v.segmentDistance i > v.segmentDistance (i + 1)) :
    ∃ v1 : TreeConnectionSearch α,
      TreeConnectionSearch.sortPass (i :: rest) v swap =
        TreeConnectionSearch.sortPass rest v1 true ∧
      v1.segmentDistance = (fun j => v.segmentDistance (TreeConnectionSearch.exchange i j)) ∧
      v1.segmentID = (fun j => v.segmentID (TreeConnectionSearch.exchange i j)) ∧
      v1.currentNumberOfSegments = v.currentNumberOfSegments ∧
      v1.numberOfConnections = v.numberOfConnections ∧
      v1.currentNumberOfConnections = v.currentNumberOfConnections ∧
      v1.closestSegments = v.closestSegments := by
  refine ⟨⟨v.numberOfConnections, v.currentNumberOfConnections, v.currentNumberOfSegments,
    Function.update (Function.update v.segmentDistance i (v.segmentDistance (i + 1))) (i + 1)
      (v.segmentDistance i),
    Function.update (Function.update v.segmentID i (v.segmentID (i + 1))) (i + 1)
      (v.segmentID i), v.closestSegments⟩,
    by rw [TreeConnectionSearch.sortPass, if_pos h], ?_, ?_, rfl, rfl, rfl, rfl⟩
  · funext j
    simp only [Function.update_apply, TreeConnectionSearch.exchange]
    split_ifs with h1 h2 h3 <;> first | rfl | omega
  · funext j
    simp only [Function.update_apply, TreeConnectionSearch.exchange]
    split_ifs with h1 h2 h3 <;> first | rfl | omega

/-- A step of the pass that leaves the slots `i` and `i + 1` as they are. -/
theorem TreeConnectionSearch.sortPass_cons_le (i : Int) (rest : List Int)
    (v : TreeConnectionSearch α) (swap : Bool)
    (h : ¬ v.segmentDistance i > v.segmentDistance (i + 1)) :
    TreeConnectionSearch.sortPass (i :: rest) v swap =
      TreeConnectionSearch.sortPass rest v swap := by
  rw [TreeConnectionSearch.sortPass, if_neg h]

/-- An exchange of two neighbours in the wrong order keeps the invariant of the sort. -/
theorem TreeConnectionSearch.SortInv.exchanged {key : Int → α} {n : Int}
    {v v1 : TreeConnectionSearch α} (h : TreeConnectionSearch.SortInv key n v) {i : Int}
    (hi : 0 ≤ i) (hi1 : i + 1 < n) (hgt : v.segmentDistance i > v.segmentDistance (i + 1))
    (hd : v1.segmentDistance = (fun j => v.segmentDistance (TreeConnectionSearch.exchange i j)))
    (hs : v1.segmentID = (fun j => v.segmentID (TreeConnectionSearch.exchange i j)))
    (hc : v1.currentNumberOfSegments = v.currentNumberOfSegments) :
    TreeConnectionSearch.SortInv key n v1 := by
  refine ⟨hc.trans h.count, ?_, ?_, ?_, ?_, ?_⟩
  · intro j hj hjn
    obtain ⟨a, b⟩ := TreeConnectionSearch.exchange_range hi hi1 hj hjn
    rw [hd, hs]
    exact h.paired _ a b
  · intro j hj hjn
    obtain ⟨a, b⟩ := TreeConnectionSearch.exchange_range hi hi1 hj hjn
    rw [hs]
    exact h.range _ a b
  · intro j k hj hjn hk hkn e
    obtain ⟨a, b⟩ := TreeConnectionSearch.exchange_range hi hi1 hj hjn
    obtain ⟨a', b'⟩ := TreeConnectionSearch.exchange_range hi hi1 hk hkn
    rw [hs] at e
    have := h.inj _ _ a b a' b' e
    rw [← TreeConnectionSearch.exchange_exchange i j, this,
      TreeConnectionSearch.exchange_exchange]
  · intro q hq hqn
    obtain ⟨j, hj, hjn, e⟩ := h.surj q hq hqn
    obtain ⟨a, b⟩ := TreeConnectionSearch.exchange_range hi hi1 hj hjn
    refine ⟨TreeConnectionSearch.exchange i j, a, b, ?_⟩
    rw [hs]
    show v.segmentID (TreeConnectionSearch.exchange i (TreeConnectionSearch.exchange i j)) = q
    rw [TreeConnectionSearch.exchange_exchange, e]
  · intro j k hj hjk hkn e
    rw [hd] at e
    rw [hs]
    have hjn : j < n := lt_trans hjk hkn
    have hk : 0 ≤ k := le_trans hj hjk.le
    obtain ⟨a, b⟩ := TreeConnectionSearch.exchange_range hi hi1 hj hjn
    obtain ⟨a', b'⟩ := TreeConnectionSearch.exchange_range hi hi1 hk hkn
    rcases TreeConnectionSearch.exchange_lt (i := i) hjk with hlt | ⟨rfl, rfl⟩
    · exact h.stable _ _ a hlt b' e
    · have e1 : TreeConnectionSearch.exchange j j = j + 1 := by
        simp [TreeConnectionSearch.exchange]
      have e2 : TreeConnectionSearch.exchange j (j + 1) = j := by
        simp [TreeConnectionSearch.exchange]
      simp only [e1, e2] at e
      rw [e] at hgt
      exact absurd hgt (lt_irrefl _)

/-- A pass over slots below the last one keeps the invariant of the sort, the number of
connections asked for and the array of the closest segments. -/
theorem TreeConnectionSearch.sortPass_inv {key : Int → α} {n : Int} :
    ∀ (is : List Int) (v : TreeConnectionSearch α) (swap : Bool),
      TreeConnectionSearch.SortInv key n v → (∀ i ∈ is, 0 ≤ i ∧ i + 1 < n) →
      TreeConnectionSearch.SortInv key n (TreeConnectionSearch.sortPass is v swap).1 ∧
      (TreeConnectionSearch.sortPass is v swap).1.numberOfConnections = v.numberOfConnections ∧
      (TreeConnectionSearch.sortPass is v swap).1.closestSegments = v.closestSegments := by
  intro is
  induction is with
  | nil => intro v swap h _; exact ⟨h, rfl, rfl⟩
  | cons i rest ih =>
    intro v swap h hr
    obtain ⟨hi, hi1⟩ := hr i (List.mem_cons_self _ _)
    by_cases hgt : v.segmentDistance i > v.segmentDistance (i + 1)
    · obtain ⟨v1, e, hd, hs, hc, hk, -, hcl⟩ :=
        TreeConnectionSearch.sortPass_cons_gt i rest v swap hgt
      rw [e]
      obtain ⟨a, b, c⟩ := ih v1 true (h.exchanged hi hi1 hgt hd hs hc)
        (fun j hj => hr j (List.mem_cons_of_mem _ hj))
      exact ⟨a, b.trans hk, c.trans hcl⟩
    · rw [TreeConnectionSearch.sortPass_cons_le i rest v swap hgt]
      exact ih v swap h (fun j hj => hr j (List.mem_cons_of_mem _ hj))

/-- Once the flag of a pass is set it stays set. -/
theorem TreeConnectionSearch.sortPass_flag :
    ∀ (is : List Int) (v : TreeConnectionSearch α),
      (TreeConnectionSearch.sortPass is v true).2 = true := by
  intro is
  induction is with
  | nil => intro v; rfl
  | cons i rest ih =>
    intro v
    by_cases hgt : v.segmentDistance i > v.segmentDistance (i + 1)
    · obtain ⟨v1, e, -⟩ := TreeConnectionSearch.sortPass_cons_gt i rest v true hgt
      rw [e]
      exact ih v1
    · rw [TreeConnectionSearch.sortPass_cons_le i rest v true hgt]
      exact ih v

/-- A pass that ends with the flag not set has found every pair of neighbours in order and has
changed nothing; and a pass over neighbours in order ends so. -/
theorem TreeConnectionSearch.sortPass_noswap :
    ∀ (is : List Int) (v : TreeConnectionSearch α),
      (TreeConnectionSearch.sortPass is v false).2 = false ↔
        ∀ i ∈ is, v.segmentDistance i ≤ v.segmentDistance (i + 1) := by
  intro is
  induction is with
  | nil =>
    intro v
    exact ⟨fun _ i hi => absurd hi (List.not_mem_nil i), fun _ => rfl⟩
  | cons i rest ih =>
    intro v
    by_cases hgt : v.segmentDistance i > v.segmentDistance (i + 1)
    · obtain ⟨v1, e, -⟩ := TreeConnectionSearch.sortPass_cons_gt i rest v false hgt
      rw [e, TreeConnectionSearch.sortPass_flag]
      constructor
      · intro h; exact absurd h (by decide)
      · intro h
        exact absurd (h i (List.mem_cons_self _ _)) (not_le.mpr hgt)
    · rw [TreeConnectionSearch.sortPass_cons_le i rest v false hgt, ih]
      constructor
      · intro h j hj
        rcases List.mem_cons.mp hj with rfl | hj
        · exact not_lt.mp hgt
        · exact h j hj
      · intro h j hj
        exact h j (List.mem_cons_of_mem _ hj)

theorem TreeConnectionSearch.sortPass_unchanged :
    ∀ (is : List Int) (v : TreeConnectionSearch α) (swap : Bool),
      (∀ i ∈ is, v.segmentDistance i ≤ v.segmentDistance (i + 1)) →
      (TreeConnectionSearch.sortPass is v swap).1 = v := by
  intro is
  induction is with
  | nil => intro v swap _; rfl
  | cons i rest ih =>
    intro v swap h
    rw [TreeConnectionSearch.sortPass_cons_le i rest v swap
      (not_lt.mpr (h i (List.mem_cons_self _ _)))]
    exact ih v swap (fun j hj => h j (List.mem_cons_of_mem _ hj))

theorem indices_eq_map (m : Int) :
    indices m = (List.range m.toNat).map (fun a : Nat => (0 : Int) + (a : Int)) := by
  unfold indices
  apply List.map_congr_left
  intro a _
  show (a : Int) = 0 + (a : Int)
  omega

theorem range_succ_shift (k : Nat) (i : Int) :
    (List.range (k + 1)).map (fun a : Nat => i + (a : Int)) =
      i :: (List.range k).map (fun a : Nat => (i + 1) + (a : Int)) := by
  rw [List.range_succ_eq_map, List.map_cons, List.map_map]
  congr 1
  · simp
  · apply List.map_congr_left
    intro a _
    simp only [Function.comp]
    push_cast
    ring

/-- A pass of the bubble sort carries the greatest distance met so far along with it. -/
theorem TreeConnectionSearch.sortPass_bubbled (n p : Int) :
    ∀ (k : Nat) (i : Int) (v : TreeConnectionSearch α) (swap : Bool),
      0 ≤ i → i + (k : Int) = n - 1 → TreeConnectionSearch.Bubbled n p i v →
      TreeConnectionSearch.Bubbled n p (n - 1)
        (TreeConnectionSearch.sortPass ((List.range k).map (fun a : Nat => i + (a : Int))) v
          swap).1 := by
  intro k
  induction k with
  | zero =>
    intro i v swap hi hik hb
    have : i = n - 1 := by simpa using hik
    rw [← this]
    exact hb
  | succ k ih =>
    intro i v swap hi hik hb
    rw [range_succ_shift]
    have hik' : i + 1 + (k : Int) = n - 1 := by push_cast at hik; omega
    by_cases hgt : v.segmentDistance i > v.segmentDistance (i + 1)
    · obtain ⟨v1, e, hd, -⟩ := TreeConnectionSearch.sortPass_cons_gt i
        ((List.range k).map (fun a : Nat => (i + 1) + (a : Int))) v swap hgt
      rw [e]
      apply ih (i + 1) v1 true (by omega) hik'
      have hlow : i + 1 < n - p := by
        by_contra hcon
        have := hb i (i + 1) hi (by omega) (by omega) (Or.inr (Or.inl (by omega)))
        exact absurd hgt (not_lt.mpr this)
      intro j q hj hjq hqn hcond
      rw [hd]
      show v.segmentDistance (TreeConnectionSearch.exchange i j) ≤
        v.segmentDistance (TreeConnectionSearch.exchange i q)
      by_cases hq : q = i + 1
      · subst hq
        have e2 : TreeConnectionSearch.exchange i (i + 1) = i := by
          simp [TreeConnectionSearch.exchange]
        rw [e2]
        by_cases hji : j = i
        · subst hji
          have e1 : TreeConnectionSearch.exchange j j = j + 1 := by
            simp [TreeConnectionSearch.exchange]
          rw [e1]
          exact hgt.le
        · have e1 : TreeConnectionSearch.exchange i j = j := by
            unfold TreeConnectionSearch.exchange
            rw [if_neg hji, if_neg (by omega)]
          rw [e1]
          exact hb j i hj (by omega) (by omega) (Or.inr (Or.inr rfl))
      · have hq2 : n - p ≤ q := by
          rcases hcond with ⟨h1, h2⟩ | h | h
          · omega
          · exact h
          · exact absurd h hq
        have e2 : TreeConnectionSearch.exchange i q = q := by
          unfold TreeConnectionSearch.exchange
          rw [if_neg (by omega), if_neg (by omega)]
        rw [e2]
        have hr : 0 ≤ TreeConnectionSearch.exchange i j ∧
            TreeConnectionSearch.exchange i j < q := by
          unfold TreeConnectionSearch.exchange
          split_ifs <;> omega
        exact hb _ q hr.1 hr.2 hqn (Or.inr (Or.inl hq2))
    · rw [TreeConnectionSearch.sortPass_cons_le i _ v swap hgt]
      apply ih (i + 1) v swap (by omega) hik'
      intro j q hj hjq hqn hcond
      by_cases hq : q = i + 1
      · subst hq
        by_cases hji : j = i
        · subst hji
          exact not_lt.mp hgt
        · exact le_trans (hb j i hj (by omega) (by omega) (Or.inr (Or.inr rfl)))
            (not_lt.mp hgt)
      · apply hb j q hj hjq hqn
        rcases hcond with ⟨h1, h2⟩ | h | h
        · exact Or.inl ⟨h1, by omega⟩
        · exact Or.inr (Or.inl h)
        · exact absurd h hq

/-- A pass of the bubble sort settles one more slot. -/
theorem TreeConnectionSearch.sortPass_settled (n p : Int) (v : TreeConnectionSearch α)
    (swap : Bool) (h : TreeConnectionSearch.Settled n p v) :
    TreeConnectionSearch.Settled n (p + 1)
      (TreeConnectionSearch.sortPass (indices (n - 1)) v swap).1 := by
  by_cases hn : 1 ≤ n
  · rw [indices_eq_map]
    have hb0 : TreeConnectionSearch.Bubbled n p 0 v := by
      intro j q hj hjq hqn hcond
      rcases hcond with ⟨h1, h2⟩ | h1 | h1
      · omega
      · exact h j q hj hjq hqn h1
      · omega
    have hb := TreeConnectionSearch.sortPass_bubbled n p (n - 1).toNat 0 v swap (le_refl _)
      (by omega) hb0
    intro j q hj hjq hqn hq
    exact hb j q hj hjq hqn (Or.inl ⟨by omega, by omega⟩)
  · intro j q hj hjq hqn _
    omega

/-- The `do ... while` loop of `sort` returns once it has fuel for the passes that are left;
the result satisfies the invariant of the sort and has every pair of neighbours in order. -/
theorem TreeConnectionSearch.sort_total {key : Int → α} {n : Int} :
    ∀ (fuel p : Nat) (v : TreeConnectionSearch α),
      TreeConnectionSearch.SortInv key n v → TreeConnectionSearch.Settled n p v →
      1 ≤ fuel → n + 1 ≤ p + fuel →
      ∃ v1, TreeConnectionSearch.sort fuel v = some v1 ∧
        TreeConnectionSearch.SortInv key n v1 ∧
        (∀ i, 0 ≤ i → i + 1 < n → v1.segmentDistance i ≤ v1.segmentDistance (i + 1)) ∧
        v1.numberOfConnections = v.numberOfConnections ∧
        v1.closestSegments = v.closestSegments := by
  intro fuel
  induction fuel with
  | zero => intro p v _ _ h; omega
  | succ fuel ih =>
    intro p v hinv hset _ hfuel
    have hmem : ∀ i ∈ indices (n - 1), 0 ≤ i ∧ i + 1 < n := by
      intro i hi
      have := mem_indices.mp hi
      omega
    obtain ⟨b1, b2, b3⟩ := TreeConnectionSearch.sortPass_inv (indices (n - 1)) v false hinv hmem
    rw [TreeConnectionSearch.sort, hinv.count]
    by_cases hflag : (TreeConnectionSearch.sortPass (indices (n - 1)) v false).2 = true
    · rw [if_pos hflag]
      have hfuel1 : 1 ≤ fuel := by
        by_contra hcon
        have hf0 : fuel = 0 := by omega
        have hsorted : ∀ i ∈ indices (n - 1),
            v.segmentDistance i ≤ v.segmentDistance (i + 1) := by
          intro i hi
          obtain ⟨c1, c2⟩ := hmem i hi
          exact hset i (i + 1) c1 (by omega) c2 (by push_cast at hfuel; omega)
        have := (TreeConnectionSearch.sortPass_noswap (indices (n - 1)) v).2 hsorted
        rw [this] at hflag
        exact absurd hflag (by decide)
      obtain ⟨v1, e, c1, c2, c3, c4⟩ := ih (p + 1) _ b1
        (by
          have := TreeConnectionSearch.sortPass_settled n p v false hset
          exact_mod_cast this) hfuel1 (by push_cast at hfuel ⊢; omega)
      exact ⟨v1, e, c1, c2, c3.trans b2, c4.trans b3⟩
    · rw [if_neg hflag]
      have hflag' : (TreeConnectionSearch.sortPass (indices (n - 1)) v false).2 = false := by
        simpa using hflag
      have hsorted := (TreeConnectionSearch.sortPass_noswap (indices (n - 1)) v).1 hflag'
      have hsame := TreeConnectionSearch.sortPass_unchanged (indices (n - 1)) v false hsorted
      refine ⟨_, rfl, b1, ?_, b2, b3⟩
      rw [hsame]
      intro i hi hi1
      exact hsorted i (mem_indices.mpr ⟨hi, by omega⟩)

/-- The first loop of `atPoint` fills the slots in the order of the segments. -/
theorem TreeConnectionSearch.distances_spec (M : CMath α) (t : Tree α) (point : Point α) :
    ∀ (k : Nat) (a : Int) (v : TreeConnectionSearch α), v.currentNumberOfSegments = a →
      (TreeConnectionSearch.distances M t point
        ((List.range k).map (fun x : Nat => a + (x : Int))) v).currentNumberOfSegments =
          a + (k : Int) ∧
      (∀ j, a ≤ j → j < a + (k : Int) →
        (TreeConnectionSearch.distances M t point
          ((List.range k).map (fun x : Nat => a + (x : Int))) v).segmentID j = j ∧
        (TreeConnectionSearch.distances M t point
          ((List.range k).map (fun x : Nat => a + (x : Int))) v).segmentDistance j =
            TreeConnectionSearch.criticalDistance M t point j) ∧
      (∀ j, j < a →
        (TreeConnectionSearch.distances M t point
          ((List.range k).map (fun x : Nat => a + (x : Int))) v).segmentID j = v.segmentID j ∧
        (TreeConnectionSearch.distances M t point
          ((List.range k).map (fun x : Nat => a + (x : Int))) v).segmentDistance j =
            v.segmentDistance j) ∧
      (TreeConnectionSearch.distances M t point
        ((List.range k).map (fun x : Nat => a + (x : Int))) v).numberOfConnections =
          v.numberOfConnections ∧
      (TreeConnectionSearch.distances M t point
        ((List.range k).map (fun x : Nat => a + (x : Int))) v).closestSegments =
          v.closestSegments := by
  intro k
  induction k with
  | zero =>
    intro a v hv
    refine ⟨by simpa [TreeConnectionSearch.distances] using hv, ?_, fun j _ => ⟨rfl, rfl⟩, rfl,
      rfl⟩
    intro j h1 h2
    simp at h2
    omega
  | succ k ih =>
    intro a v hv
    rw [range_succ_shift]
    obtain ⟨c1, c2, c3, c4, c5⟩ := ih (a + 1)
      ⟨v.numberOfConnections, v.currentNumberOfConnections, v.currentNumberOfSegments + 1,
        Function.update v.segmentDistance v.currentNumberOfSegments
          (TreeConnectionSearch.criticalDistance M t point a),
        Function.update v.segmentID v.currentNumberOfSegments a, v.closestSegments⟩
      (by show v.currentNumberOfSegments + 1 = a + 1; rw [hv])
    have e : TreeConnectionSearch.distances M t point
        (a :: (List.range k).map (fun x : Nat => (a + 1) + (x : Int))) v =
        TreeConnectionSearch.distances M t point
          ((List.range k).map (fun x : Nat => (a + 1) + (x : Int)))
          ⟨v.numberOfConnections, v.currentNumberOfConnections, v.currentNumberOfSegments + 1,
            Function.update v.segmentDistance v.currentNumberOfSegments
              (TreeConnectionSearch.criticalDistance M t point a),
            Function.update v.segmentID v.currentNumberOfSegments a, v.closestSegments⟩ := rfl
    rw [e]
    refine ⟨by rw [c1]; push_cast; ring, ?_, ?_, c4, c5⟩
    · intro j h1 h2
      by_cases hj : j = a
      · obtain ⟨d1, d2⟩ := c3 j (by omega)
        rw [d1, d2, hv, hj]
        simp
      · exact c2 j (by omega) (by push_cast at h2; omega)
    · intro j hj
      obtain ⟨d1, d2⟩ := c3 j (by omega)
      rw [d1, d2, hv]
      simp only []
      rw [Function.update_noteq (ne_of_lt hj), Function.update_noteq (ne_of_lt hj)]
      exact ⟨rfl, rfl⟩

/-- The last loop of `atPoint` copies the slots of `_segmentID` that it visits. -/
theorem TreeConnectionSearch.closest_spec :
    ∀ (is : List Int) (v : TreeConnectionSearch α),
      (TreeConnectionSearch.closest is v).segmentID = v.segmentID ∧
      (TreeConnectionSearch.closest is v).segmentDistance = v.segmentDistance ∧
      (TreeConnectionSearch.closest is v).currentNumberOfConnections =
        v.currentNumberOfConnections ∧
      (TreeConnectionSearch.closest is v).currentNumberOfSegments = v.currentNumberOfSegments ∧
      (TreeConnectionSearch.closest is v).numberOfConnections = v.numberOfConnections ∧
      (∀ j, j ∈ is → (TreeConnectionSearch.closest is v).closestSegments j = v.segmentID j) ∧
      (∀ j, j ∉ is →
        (TreeConnectionSearch.closest is v).closestSegments j = v.closestSegments j) := by
  intro is
  induction is with
  | nil =>
    intro v
    exact ⟨rfl, rfl, rfl, rfl, rfl, fun j hj => absurd hj (List.not_mem_nil j), fun _ _ => rfl⟩
  | cons i rest ih =>
    intro v
    obtain ⟨c1, c2, c3, c4, c5, c6, c7⟩ := ih
      { v with closestSegments := Function.update v.closestSegments i (v.segmentID i) }
    have e : TreeConnectionSearch.closest (i :: rest) v = TreeConnectionSearch.closest rest
      { v with closestSegments := Function.update v.closestSegments i (v.segmentID i) } := rfl
    rw [e]
    refine ⟨c1, c2, c3, c4, c5, ?_, ?_⟩
    · intro j hj
      by_cases hjr : j ∈ rest
      · exact c6 j hjr
      · rw [c7 j hjr]
        rcases List.mem_cons.mp hj with rfl | h
        · simp
        · exact absurd h hjr
    · intro j hj
      rw [c7 j (fun h => hj (List.mem_cons_of_mem _ h))]
      have : j ≠ i := fun h => hj (by rw [h]; exact List.mem_cons_self _ _)
      simp [Function.update_noteq this]

/-- An array whose neighbours are in order is in order. -/
theorem sorted_of_neighbours {d : Int → α} {n : Int}
    (h : ∀ i, 0 ≤ i → i + 1 < n → d i ≤ d (i + 1)) :
    ∀ j k, 0 ≤ j → j ≤ k → k < n → d j ≤ d k := by
  intro j k hj hjk
  refine @Int.le_induction (fun k => k < n → d j ≤ d k) j (fun _ => le_refl _) ?_ k hjk
  intro q hq ih hqn
  exact le_trans (ih (by omega)) (h q (by omega) hqn)

theorem indices_take {m n : Int} (h : m ≤ n) : (indices n).take m.toNat = indices m := by
  unfold indices
  rw [← List.map_take, List.take_range]
  congr 2
  omega

/-- The arrays after the first loop and the sort of `atPoint`. -/
theorem TreeConnectionSearch.atPoint_sorted (M : CMath α) (t : Tree α)
    (v : TreeConnectionSearch α) (point : Point α) (hn : 0 ≤ t.currentNumberOfSegments) :
    ∃ v1 : TreeConnectionSearch α,
      (∀ fuel, t.currentNumberOfSegments.toNat + 1 ≤ fuel →
        TreeConnectionSearch.sort fuel
          (TreeConnectionSearch.distances M t point (indices t.currentNumberOfSegments)
            { v with currentNumberOfSegments := 0 }) = some v1) ∧
      TreeConnectionSearch.SortInv (TreeConnectionSearch.criticalDistance M t point)
        t.currentNumberOfSegments v1 ∧
      (∀ j k, 0 ≤ j → j ≤ k → k < t.currentNumberOfSegments →
        v1.segmentDistance j ≤ v1.segmentDistance k) ∧
      v1.numberOfConnections = v.numberOfConnections := by
  obtain ⟨c1, c2, c3, c4, c5⟩ := TreeConnectionSearch.distances_spec M t point
    t.currentNumberOfSegments.toNat 0 { v with currentNumberOfSegments := 0 } rfl
  rw [← indices_eq_map] at c1 c2 c4
  have hcount : (0 : Int) + (t.currentNumberOfSegments.toNat : Int) =
      t.currentNumberOfSegments := by omega
  rw [hcount] at c1 c2
  have hinv : TreeConnectionSearch.SortInv (TreeConnectionSearch.criticalDistance M t point)
      t.currentNumberOfSegments
      (TreeConnectionSearch.distances M t point (indices t.currentNumberOfSegments)
        { v with currentNumberOfSegments := 0 }) := by
    refine ⟨c1, ?_, ?_, ?_, ?_, ?_⟩
    · intro j hj hjn
      rw [(c2 j hj hjn).1, (c2 j hj hjn).2]
    · intro j hj hjn
      rw [(c2 j hj hjn).1]
      exact ⟨hj, hjn⟩
    · intro j k hj hjn hk hkn e
      rw [(c2 j hj hjn).1, (c2 k hk hkn).1] at e
      exact e
    · intro i hi hin
      exact ⟨i, hi, hin, (c2 i hi hin).1⟩
    · intro j k hj hjk hkn _
      rw [(c2 j hj (by omega)).1, (c2 k (by omega) hkn).1]
      exact hjk
  have hset : TreeConnectionSearch.Settled t.currentNumberOfSegments ((0 : Nat) : Int)
      (TreeConnectionSearch.distances M t point (indices t.currentNumberOfSegments)
        { v with currentNumberOfSegments := 0 }) := by
    intro j k _ _ hkn hk
    simp at hk
    omega
  obtain ⟨v1, e, d1, d2, d3, -⟩ := TreeConnectionSearch.sort_total
    (t.currentNumberOfSegments.toNat + 1) 0 _ hinv hset (by omega) (by push_cast; omega)
  refine ⟨v1, fun fuel hf => ?_, d1, sorted_of_neighbours d2, d3.trans c4⟩
  obtain ⟨v2, e2, -, -, -, -⟩ := TreeConnectionSearch.sort_total fuel 0 _ hinv hset (by omega)
    (by push_cast; omega)
  rw [e2]
  have hmono : ∀ (f1 f2 : Nat) (w w1 : TreeConnectionSearch α),
      TreeConnectionSearch.sort f1 w = some w1 → f1 ≤ f2 →
      TreeConnectionSearch.sort f2 w = some w1 := by
    intro f1
    induction f1 with
    | zero => intro f2 w w1 h; simp [TreeConnectionSearch.sort] at h
    | succ f1 ih =>
      intro f2 w w1 h hle
      obtain ⟨f3, rfl⟩ : ∃ f3, f2 = f3 + 1 := ⟨f2 - 1, by omega⟩
      rw [TreeConnectionSearch.sort] at h ⊢
      split_ifs at h ⊢ with hflag
      · exact ih f3 _ _ h (by omega)
      · exact h
  have := hmono _ fuel _ _ e hf
  rw [e2] at this
  exact this

/-- C11: the vicinity search. For every candidate point, every tree with `n ≥ 1` live segments
and every configured number of connections `k`, `TreeConnectionSearch::atPoint` returns (the
sort needs at most `n + 1` passes), it reports `m = min(k, n)` connections, and the first `m`
entries of the array it returns are the first `m` elements of the list `L` of all live segment
indices in the order of ascending critical distance from the point, segments with equal
distances in the order of ascending index. Consequently every returned segment is at least as
close to the point as every live segment that is not returned. -/
theorem atPoint_closest (M : CMath α) (t : Tree α) (v : TreeConnectionSearch α)
    (point : Point α) (hn : 1 ≤ t.currentNumberOfSegments) :
    ∃ v1 : TreeConnectionSearch α, ∃ L : List Int,
      (∀ fuel, t.currentNumberOfSegments.toNat + 1 ≤ fuel →
        v.atPoint M fuel t point = some v1) ∧
      v1.currentNumberOfConnections = min v.numberOfConnections t.currentNumberOfSegments ∧
      L.Perm (indices t.currentNumberOfSegments) ∧
      L.Pairwise (fun a b =>
        TreeConnectionSearch.criticalDistance M t point a <
            TreeConnectionSearch.criticalDistance M t point b ∨
          (TreeConnectionSearch.criticalDistance M t point a =
              TreeConnectionSearch.criticalDistance M t point b ∧ a < b)) ∧
      (indices v1.currentNumberOfConnections).map v1.closestSegments =
        L.take v1.currentNumberOfConnections.toNat ∧
      (∀ j i, 0 ≤ j → j < v1.currentNumberOfConnections → t.live i →
        (∀ q, 0 ≤ q → q < v1.currentNumberOfConnections → v1.closestSegments q ≠ i) →
        TreeConnectionSearch.criticalDistance M t point (v1.closestSegments j) ≤
          TreeConnectionSearch.criticalDistance M t point i) := by
  obtain ⟨w, hsort, hinv, hord, hk⟩ :=
    TreeConnectionSearch.atPoint_sorted M t v point (by omega)
  obtain ⟨m, hm⟩ : ∃ m : Int, m = min v.numberOfConnections t.currentNumberOfSegments :=
    ⟨_, rfl⟩
  have hmn : m ≤ t.currentNumberOfSegments := by rw [hm]; exact min_le_right _ _
  have hm' : (if w.currentNumberOfSegments < w.numberOfConnections then
      w.currentNumberOfSegments else w.numberOfConnections) = m := by
    rw [hinv.count, hk, hm]
    split_ifs with h
    · exact (min_eq_right h.le).symm
    · exact (min_eq_left (not_lt.mp h)).symm
  obtain ⟨v1, hv1⟩ : ∃ v1 : TreeConnectionSearch α, v1 =
      TreeConnectionSearch.closest (indices m) { w with currentNumberOfConnections := m } :=
    ⟨_, rfl⟩
  obtain ⟨c1, c2, c3, c4, c5, c6, c7⟩ := TreeConnectionSearch.closest_spec (indices m)
    { w with currentNumberOfConnections := m }
  rw [← hv1] at c3 c6
  have hc : v1.currentNumberOfConnections = m := c3
  have hcl : ∀ j, 0 ≤ j → j < m → v1.closestSegments j = w.segmentID j :=
    fun j hj hjm => c6 j (mem_indices.mpr ⟨hj, hjm⟩)
  have hlex : ∀ j k, 0 ≤ j → j < k → k < t.currentNumberOfSegments →
      TreeConnectionSearch.criticalDistance M t point (w.segmentID j) <
          TreeConnectionSearch.criticalDistance M t point (w.segmentID k) ∨
        (TreeConnectionSearch.criticalDistance M t point (w.segmentID j) =
            TreeConnectionSearch.criticalDistance M t point (w.segmentID k) ∧
          w.segmentID j < w.segmentID k) := by
    intro j k hj hjk hkn
    have hle := hord j k hj hjk.le hkn
    rw [hinv.paired j hj (by omega), hinv.paired k (by omega) hkn] at hle
    rcases lt_or_eq_of_le hle with h | h
    · exact Or.inl h
    · refine Or.inr ⟨h, hinv.stable j k hj hjk hkn ?_⟩
      rw [hinv.paired j hj (by omega), hinv.paired k (by omega) hkn, h]
  refine ⟨v1, (indices t.currentNumberOfSegments).map w.segmentID, fun fuel hf => ?_,
    hc.trans hm, ?_, ?_, ?_, ?_⟩
  · rw [TreeConnectionSearch.atPoint]
    simp only [hsort fuel hf]
    rw [hm', hv1]
  · rw [List.perm_ext_iff_of_nodup]
    · intro a
      rw [List.mem_map]
      constructor
      · rintro ⟨j, hj, rfl⟩
        obtain ⟨h1, h2⟩ := mem_indices.mp hj
        exact mem_indices.mpr (hinv.range j h1 h2)
      · intro ha
        obtain ⟨h1, h2⟩ := mem_indices.mp ha
        obtain ⟨j, b1, b2, b3⟩ := hinv.surj a h1 h2
        exact ⟨j, mem_indices.mpr ⟨b1, b2⟩, b3⟩
    · refine List.Nodup.map_on ?_ ((indices_pairwise _).imp (fun h => ne_of_lt h))
      intro j hj k hk e
      obtain ⟨h1, h2⟩ := mem_indices.mp hj
      obtain ⟨h3, h4⟩ := mem_indices.mp hk
      exact hinv.inj j k h1 h2 h3 h4 e
    · exact (indices_pairwise _).imp (fun h => ne_of_lt h)
  · rw [List.pairwise_map]
    refine (indices_pairwise _).imp_of_mem ?_
    intro j k hj hk hjk
    exact hlex j k (mem_indices.mp hj).1 hjk (mem_indices.mp hk).2
  · rw [hc, ← List.map_take, indices_take hmn]
    apply List.map_congr_left
    intro j hj
    exact hcl j (mem_indices.mp hj).1 (mem_indices.mp hj).2
  · intro j i hj hjm hi hnot
    rw [hc] at hjm hnot
    rw [hcl j hj hjm]
    obtain ⟨q, b1, b2, b3⟩ := hinv.surj i hi.1 hi.2
    have hq : m ≤ q := by
      by_contra hcon
      exact hnot q b1 (not_le.mp hcon) ((hcl q b1 (not_le.mp hcon)).trans b3)
    have hle := hord j q hj (by omega) b2
    rw [hinv.paired j hj (by omega), hinv.paired q b1 b2, b3] at hle
    exact hle

/-- The vicinity search on the root of the example, for one connection and the point
`(1, 1)`. -/
theorem atPoint_closest_witness :
    ∃ v1 : TreeConnectionSearch ℝ, ∃ L : List Int,
      (∀ fuel, (exampleRoot realMath).currentNumberOfSegments.toNat + 1 ≤ fuel →
        (TreeConnectionSearch.construct 1 (fun _ => 0) (fun _ => 0) (fun _ => 0)).atPoint
          realMath fuel (exampleRoot realMath) ⟨2, 1, 1, 0⟩ = some v1) ∧
      v1.currentNumberOfConnections =
        min (TreeConnectionSearch.construct 1 (fun _ => (0 : ℝ)) (fun _ => 0)
          (fun _ => 0)).numberOfConnections (exampleRoot realMath).currentNumberOfSegments ∧
      L.Perm (indices (exampleRoot realMath).currentNumberOfSegments) ∧
      L.Pairwise (fun a b =>
        TreeConnectionSearch.criticalDistance realMath (exampleRoot realMath) ⟨2, 1, 1, 0⟩ a <
            TreeConnectionSearch.criticalDistance realMath (exampleRoot realMath)
              ⟨2, 1, 1, 0⟩ b ∨
          (TreeConnectionSearch.criticalDistance realMath (exampleRoot realMath)
              ⟨2, 1, 1, 0⟩ a =
              TreeConnectionSearch.criticalDistance realMath (exampleRoot realMath)
                ⟨2, 1, 1, 0⟩ b ∧ a < b)) ∧
      (indices v1.currentNumberOfConnections).map v1.closestSegments =
        L.take v1.currentNumberOfConnections.toNat ∧
      (∀ j i, 0 ≤ j → j < v1.currentNumberOfConnections → (exampleRoot realMath).live i →
        (∀ q, 0 ≤ q → q < v1.currentNumberOfConnections → v1.closestSegments q ≠ i) →
        TreeConnectionSearch.criticalDistance realMath (exampleRoot realMath) ⟨2, 1, 1, 0⟩
            (v1.closestSegments j) ≤
          TreeConnectionSearch.criticalDistance realMath (exampleRoot realMath) ⟨2, 1, 1, 0⟩
            i) :=
  atPoint_closest realMath (exampleRoot realMath)
    (TreeConnectionSearch.construct 1 (fun _ => 0) (fun _ => 0) (fun _ => 0)) ⟨2, 1, 1, 0⟩
    (le_of_eq rfl)

/-! ## The evaluation of the distance criterion -/

/-- The loop of `ClassicDistanceCriterion::eval` ends with true exactly when no segment of the
list is closer to the point than the minimum distance. -/
theorem ClassicDistanceCriterion.evalLoop_iff (M : CMath α) (t : Tree α)
    (c : ClassicDistanceCriterion α) (point : Point α) :
    ∀ is : List Int, ClassicDistanceCriterion.evalLoop M t c point is = true ↔
      ∀ i ∈ is, c.minimumCriterionDistance ≤
        Geometry.distanceFromSegment M t.dimension point (t.proximalPoint i)
          (t.distalPoint i) := by
  intro is
  induction is with
  | nil => simp [ClassicDistanceCriterion.evalLoop]
  | cons i rest ih =>
    rw [ClassicDistanceCriterion.evalLoop]
    by_cases h : Geometry.distanceFromSegment M t.dimension point (t.proximalPoint i)
        (t.distalPoint i) < c.minimumCriterionDistance
    · simp only [h, if_true]
      constructor
      · intro hf; exact absurd hf (by decide)
      · intro hall
        exact absurd (hall i (List.mem_cons_self _ _)) (not_le.mpr h)
    · simp only [h, if_false]
      rw [ih]
      constructor
      · intro hall j hj
        rcases List.mem_cons.mp hj with rfl | hj
        · exact not_lt.mp h
        · exact hall j hj
      · intro hall j hj
        exact hall j (List.mem_cons_of_mem _ hj)

/-- `ClassicDistanceCriterion::eval` returns true exactly when the critical distance of the
point from every live segment is at least the minimum criterion distance. -/
theorem ClassicDistanceCriterion.eval_iff (M : CMath α) (t : Tree α)
    (c : ClassicDistanceCriterion α) (point : Point α) :
    ClassicDistanceCriterion.eval M t c point = true ↔
      ∀ i, t.live i → c.minimumCriterionDistance ≤
        Geometry.distanceFromSegment M t.dimension point (t.proximalPoint i)
          (t.distalPoint i) := by
  unfold ClassicDistanceCriterion.eval
  rw [ClassicDistanceCriterion.evalLoop_iff]
  constructor
  · intro h i hi
    exact h i (mem_indices.mpr hi)
  · intro h i hi
    exact h i (mem_indices.mp hi)

/-- C21, the code at the failing input: the root of the example runs from `(0, 0)` to `(1, 0)`,
and the point `(1/2, 1)` lies at the critical distance 1 from it. With the minimum criterion distance 1 the segment lies at exactly
the minimum distance from the point, and `ClassicDistanceCriterion::eval` returns true. -/
theorem eval_at_minimum_distance :
    (∀ i, (exampleRoot realMath).live i →
      Geometry.distanceFromSegment realMath (exampleRoot realMath).dimension ⟨2, 1 / 2, 1, 0⟩
        ((exampleRoot realMath).proximalPoint i) ((exampleRoot realMath).distalPoint i) = 1) ∧
    ClassicDistanceCriterion.eval realMath (exampleRoot realMath) ⟨1⟩ ⟨2, 1 / 2, 1, 0⟩ = true := by
  have hd : ∀ i, (exampleRoot realMath).live i →
      Geometry.distanceFromSegment realMath (exampleRoot realMath).dimension ⟨2, 1 / 2, 1, 0⟩
        ((exampleRoot realMath).proximalPoint i) ((exampleRoot realMath).distalPoint i) = 1 := by
    intro i hi
    have hc : (exampleRoot realMath).currentNumberOfSegments = 1 := rfl
    have h0 : i = 0 := by
      simp only [Tree.live, hc] at hi
      omega
    subst h0
    have hp : (exampleRoot realMath).proximalPoint 0 = ⟨2, 0, 0, 0⟩ := by
      rw [proximalPoint_eq, if_pos rfl]
      rfl
    have hq : (exampleRoot realMath).distalPoint 0 = ⟨2, 1, 0, 0⟩ := by
      simp [Tree.distalPoint, exampleRoot, exampleRootValue, Tree.growRoot, Tree.copy,
        Tree.setSeg, Tree.setR, Tree.setLength, rootID, Segment.make, Segment.default,
        TERMINALEND]
    have hdim : (exampleRoot realMath).dimension = 2 := rfl
    rw [hp, hq, hdim]
    simp only [Geometry.distanceFromSegment, Geometry.distanceFromSegment2D, Geometry.subtract,
      Geometry.dot, Geometry.norm, Point.ofDimension, realMath, if_true,
      show ¬((2 : Int) = 3) by decide, if_false]
    norm_num
  refine ⟨hd, ?_⟩
  rw [ClassicDistanceCriterion.eval_iff]
  intro i hi
  rw [hd i hi]

/-! ## The restriction on the length of a bifurcation segment -/

/-- With enough fuel `Tree::radius` returns for every live segment of a well-linked tree, and
the value does not depend on the fuel. -/
theorem radius_total (M : CMath α) {t : Tree α} (hw : WFL t) :
    ∃ (f0 : Nat) (ρ : Int → α), ∀ i, t.live i → ∀ f, f0 ≤ f → radius M f t i = some (ρ i) := by
  obtain ⟨d, B, hd⟩ := hw.rank
  refine ⟨B + 1, fun i => ((radiusLoop (B + 1) t i 1).getD 0) * rootRadius M t, ?_⟩
  intro i hi f hf
  obtain ⟨v, hv⟩ := radiusLoop_total hw hd (B + 1) i (1 : α) hi (by have := (hd i hi).1; omega)
  have h2 := radiusLoop_mono t _ _ _ _ hv f hf
  simp only [radius, h2, hv, Option.getD_some]

/-- The tree that `growSegment` makes of the root of the example: the segment 0 is a
bifurcation with the children 1 and 2. -/
theorem exampleFork_exists :
    ∃ fuel r,
      growSegment realMath fuel ⟨2, 1, 1, 0⟩ ((exampleRoot realMath).segments 0)
        (Segment.make 2 ⟨2, 2, 0, 0⟩ 1) (exampleRoot realMath) = some r ∧
      Reach realMath r.2 ∧ r.2.currentNumberOfSegments = 3 ∧ Tail r.2 0 ∧
      r.2.isTerminal 0 = false := by
  obtain ⟨f0, r, h, hR1, hid, hT, hcur, -⟩ :=
    growSegment_total_tail (exampleRoot_reach realMath) (exampleRoot_live realMath)
      ⟨2, 1, 1, 0⟩ (Segment.make 2 ⟨2, 2, 0, 0⟩ 1)
  have hc : (exampleRoot realMath).currentNumberOfSegments = 1 := rfl
  have hcur3 : r.2.currentNumberOfSegments = 3 := by rw [hcur, hc]; rfl
  have hnt : r.2.isTerminal 0 = false := by
    have hleft := hT.left_p
    rw [hcur3] at hleft
    cases ht : r.2.isTerminal 0 with
    | false => rfl
    | true =>
      have := ((isTerminal_iff r.2 0).1 ht).1
      rw [hleft] at this
      exact absurd this (by decide)
  exact ⟨f0, r, h f0 (le_refl _), hR1, hcur3, hT, hnt⟩

/-- C22: the rule of `ValidSegment`. In a well-linked tree, for a live bifurcation segment `s`
whose value `t.segments s` is read from the current state, `Tree::radius(s)` returns a value
`r` (with enough fuel) and `pass` returns; it returns true exactly when
`length(s) ≥ 2 * r`, `length(left(s)) ≥ 2 * r * ratioLeft(s)` and
`length(right(s)) ≥ 2 * r * ratioRight(s)`; in particular it returns false when
`length(s) < 2 * r`. -/
theorem validSegment_pass (M : CMath α) {t : Tree α} (hw : WFL t) {s : Int} (hs : t.live s)
    (hb : t.isTerminal s = false) :
    ∃ f0 r, ∀ f, f0 ≤ f → radius M f t s = some r ∧
      ∃ b, ValidSegment.pass M f t (t.segments s) = some b ∧
        (b = true ↔ t.length s ≥ 2 * r ∧
          t.length (t.segments s).left ≥ 2 * r * (t.segments s).bifurcationRatioLeft ∧
          t.length (t.segments s).right ≥ 2 * r * (t.segments s).bifurcationRatioRight) ∧
        (t.length s < 2 * r → b = false) := by
  obtain ⟨f0, ρ, hρ⟩ := radius_total M hw
  refine ⟨f0, ρ s, fun f hf => ⟨hρ s hs f hf, ?_⟩⟩
  have hid := hw.ids s hs
  refine ⟨_, ?_, decide_eq_true_iff, ?_⟩
  · simp only [ValidSegment.pass, hid, hρ s hs f hf]
  · intro hlt
    rw [decide_eq_false_iff_not]
    intro h
    exact absurd h.1 (not_le.mpr hlt)

/-- The rule of `ValidSegment` on the tree that `growSegment` makes of the root of the example,
for its bifurcation segment 0. -/
theorem validSegment_pass_witness :
    ∃ fuel r,
      growSegment realMath fuel ⟨2, 1, 1, 0⟩ ((exampleRoot realMath).segments 0)
        (Segment.make 2 ⟨2, 2, 0, 0⟩ 1) (exampleRoot realMath) = some r ∧
      WFL r.2 ∧ r.2.live 0 ∧ r.2.isTerminal 0 = false ∧
      ∃ f0 rad, ∀ f, f0 ≤ f → radius realMath f r.2 0 = some rad ∧
        ∃ b, ValidSegment.pass realMath f r.2 (r.2.segments 0) = some b ∧
          (b = true ↔ r.2.length 0 ≥ 2 * rad ∧
            r.2.length (r.2.segments 0).left ≥ 2 * rad * (r.2.segments 0).bifurcationRatioLeft ∧
            r.2.length (r.2.segments 0).right ≥
              2 * rad * (r.2.segments 0).bifurcationRatioRight) ∧
          (r.2.length 0 < 2 * rad → b = false) := by
  obtain ⟨f0, r, h, hR1, hcur, hT, hnt⟩ := exampleFork_exists
  have hl : r.2.live 0 := by
    simp only [Tree.live, hcur]
    omega
  exact ⟨f0, r, h, hR1.wfl, hl, hnt, validSegment_pass realMath hR1.wfl hl hnt⟩

/-! ## The relatives of a segment and the restriction on intersections -/

/-- The links of every segment after `growSegment(b, p, c)`, in terms of the links before. -/
theorem growSegment_links {M : CMath α} {t : Tree α} (hR : Reach M t) {p : Int} (hp : t.live p)
    {fuel : Nat} {b : Point α} {c : Segment α} {r : Segment α × Tree α}
    (h1 : growSegment M fuel b (t.segments p) c t = some r) (i : Int) :
    (r.2.segments i).up =
      (if i = p then (t.segments p).up
      else if i = t.currentNumberOfSegments + 1 then p
      else if i = t.currentNumberOfSegments then p
      else if (i = (t.segments p).left ∨ i = (t.segments p).right) ∧ i ≠ -1 then
        t.currentNumberOfSegments
      else (t.segments i).up) ∧
    (r.2.segments i).left =
      (if i = p then t.currentNumberOfSegments
      else if i = t.currentNumberOfSegments then (t.segments p).left
      else (t.segments i).left) ∧
    (r.2.segments i).right =
      (if i = p then t.currentNumberOfSegments + 1
      else if i = t.currentNumberOfSegments then (t.segments p).right
      else (t.segments i).right) := by
  have hw := hR.wfl
  obtain ⟨-, q2, -⟩ := growSegment_post hR hp h1
  refine ⟨?_, ?_, ?_⟩
  · rw [← growSegmentLinks_up M b c hw hp i]
    exact (q2.segments i).2.2.2.1
  · rw [← growSegmentLinks_left M b c hw hp i]
    exact (q2.segments i).2.2.2.2.1
  · rw [← growSegmentLinks_right M b c hw hp i]
    exact (q2.segments i).2.2.2.2.2

/-- The links of the root of the example. -/
theorem exampleRoot_links (M : CMath α) :
    ((exampleRoot M).segments 0).up = -1 ∧ ((exampleRoot M).segments 0).left = -1 ∧
    ((exampleRoot M).segments 0).right = -1 := by
  refine ⟨?_, ?_, ?_⟩ <;>
  simp [exampleRoot, exampleRootValue, exampleTree, Tree.construct, Tree.growRoot, Tree.copy,
    Tree.setSeg, Tree.setR, Tree.setLength, rootID, Segment.make, Segment.default, TERMINALEND]

/-- `isRelative(A, B)` on two live segments of a well-linked tree: true exactly when the two
are the same segment or one is the parent of the other. -/
theorem WithoutIntersection.isRelative_iff {t : Tree α} (hw : WFL t) {a b : Int}
    (ha : t.live a) (hb : t.live b) :
    WithoutIntersection.isRelative (t.segments a) (t.segments b) = true ↔
      a = b ∨ (t.segments b).up = a ∨ (t.segments a).up = b := by
  have ida := hw.ids a ha
  have idb := hw.ids b hb
  simp only [WithoutIntersection.isRelative, ida, idb, Bool.or_eq_true, beq_iff_eq]
  constructor
  · rintro ((((((h | h) | h) | h) | h) | h) | h)
    · exact Or.inl h
    · -- `a` is the left child of `b`
      rcases hw.kids b hb with hk | ⟨k1, k2, k3, k4, k5, k6, k7⟩
      · have := ha.1; rw [hk.1] at h; omega
      · right; right; rw [h]; exact k6
    · rcases hw.kids b hb with hk | ⟨k1, k2, k3, k4, k5, k6, k7⟩
      · have := ha.1; rw [hk.2] at h; omega
      · right; right; rw [h]; exact k7
    · exact Or.inr (Or.inl h.symm)
    · rcases hw.kids a ha with hk | ⟨k1, k2, k3, k4, k5, k6, k7⟩
      · have := hb.1; rw [hk.1] at h; omega
      · right; left; rw [h]; exact k6
    · rcases hw.kids a ha with hk | ⟨k1, k2, k3, k4, k5, k6, k7⟩
      · have := hb.1; rw [hk.2] at h; omega
      · right; left; rw [h]; exact k7
    · exact Or.inr (Or.inr h.symm)
  · rintro (h | h | h)
    · exact Or.inl (Or.inl (Or.inl (Or.inl (Or.inl (Or.inl h)))))
    · exact Or.inl (Or.inl (Or.inl (Or.inr h.symm)))
    · exact Or.inr h.symm

/-- The inner loop of `WithoutIntersection::pass` returns when the radii are available, and it
returns false exactly when some check segment is not a relative of the segment `i` and
intersects it. -/
theorem WithoutIntersection.checkLoop_spec (M : CMath α) (t : Tree α) (ρ : Int → α) (f : Nat)
    (i : Int) (hi : radius M f t i = some (ρ i)) :
    ∀ cs : List (Segment α), (∀ c ∈ cs, radius M f t c.ID = some (ρ c.ID)) →
      ∃ b, WithoutIntersection.checkLoop M f t i cs = some b ∧
        (b = false ↔ ∃ c ∈ cs, WithoutIntersection.isRelative (t.segments i) c = false ∧
          Geometry.hasIntersection M t.dimension (t.proximalPoint i) (t.distalPoint i)
            (t.proximalPoint c.ID) (t.distalPoint c.ID) (ρ i + ρ c.ID) = true) := by
  intro cs
  induction cs with
  | nil =>
    intro _
    exact ⟨true, rfl, by simp⟩
  | cons c rest ih =>
    intro hc
    obtain ⟨b, hb, hiff⟩ := ih (fun c1 h1 => hc c1 (List.mem_cons_of_mem _ h1))
    have hrc := hc c (List.mem_cons_self _ _)
    rw [WithoutIntersection.checkLoop]
    by_cases hrel : WithoutIntersection.isRelative (t.segments i) c = true
    · rw [if_pos hrel]
      refine ⟨b, hb, ?_⟩
      rw [hiff]
      constructor
      · rintro ⟨c1, h1, h2⟩
        exact ⟨c1, List.mem_cons_of_mem _ h1, h2⟩
      · rintro ⟨c1, h1, h2⟩
        rcases List.mem_cons.mp h1 with rfl | h1
        · rw [hrel] at h2
          exact absurd h2.1 (by decide)
        · exact ⟨c1, h1, h2⟩
    · rw [if_neg hrel, hi, hrc]
      have hrel' : WithoutIntersection.isRelative (t.segments i) c = false := by
        cases h : WithoutIntersection.isRelative (t.segments i) c with
        | false => rfl
        | true => exact absurd h hrel
      by_cases hint : Geometry.hasIntersection M t.dimension (t.proximalPoint i)
          (t.distalPoint i) (t.proximalPoint c.ID) (t.distalPoint c.ID) (ρ i + ρ c.ID) = true
      · simp only [hint, if_true]
        exact ⟨false, rfl, fun _ => ⟨c, List.mem_cons_self _ _, hrel', hint⟩, fun _ => rfl⟩
      · simp only [hint, if_false]
        refine ⟨b, hb, ?_⟩
        rw [hiff]
        constructor
        · rintro ⟨c1, h1, h2⟩
          exact ⟨c1, List.mem_cons_of_mem _ h1, h2⟩
        · rintro ⟨c1, h1, h2⟩
          rcases List.mem_cons.mp h1 with rfl | h1
          · exact absurd h2.2 hint
          · exact ⟨c1, h1, h2⟩

/-- The outer loop of `WithoutIntersection::pass` returns when the radii are available, and it
returns false exactly when some pair of a segment of the list and a check segment is not
related and intersects. -/
theorem WithoutIntersection.segmentLoop_spec (M : CMath α) (t : Tree α) (ρ : Int → α)
    (f : Nat) (cs : List (Segment α)) (hc : ∀ c ∈ cs, radius M f t c.ID = some (ρ c.ID)) :
    ∀ is : List Int, (∀ i ∈ is, radius M f t i = some (ρ i)) →
      ∃ b, WithoutIntersection.segmentLoop M f t cs is = some b ∧
        (b = false ↔ ∃ i ∈ is, ∃ c ∈ cs,
          WithoutIntersection.isRelative (t.segments i) c = false ∧
          Geometry.hasIntersection M t.dimension (t.proximalPoint i) (t.distalPoint i)
            (t.proximalPoint c.ID) (t.distalPoint c.ID) (ρ i + ρ c.ID) = true) := by
  intro is
  induction is with
  | nil =>
    intro _
    exact ⟨true, rfl, by simp⟩
  | cons i rest ih =>
    intro his
    obtain ⟨b, hb, hiff⟩ := ih (fun j hj => his j (List.mem_cons_of_mem _ hj))
    obtain ⟨b1, hb1, hiff1⟩ :=
      WithoutIntersection.checkLoop_spec M t ρ f i (his i (List.mem_cons_self _ _)) cs hc
    rw [WithoutIntersection.segmentLoop, hb1]
    cases b1 with
    | false =>
      refine ⟨false, rfl, fun _ => ?_, fun _ => rfl⟩
      obtain ⟨c, h1, h2⟩ := hiff1.mp rfl
      exact ⟨i, List.mem_cons_self _ _, c, h1, h2⟩
    | true =>
      refine ⟨b, hb, ?_⟩
      rw [hiff]
      constructor
      · rintro ⟨j, hj, h2⟩
        exact ⟨j, List.mem_cons_of_mem _ hj, h2⟩
      · rintro ⟨j, hj, c, h1, h2⟩
        rcases List.mem_cons.mp hj with rfl | hj
        · have := hiff1.mpr ⟨c, h1, h2⟩
          exact absurd this (by decide)
        · exact ⟨j, hj, c, h1, h2⟩

/-- C23: a parent and its child are never reported. In a well-linked tree, two live segments
one of which is the parent of the other are relatives for `isRelative` in both orders; and for
a live bifurcation segment `s` (with enough fuel for `Tree::radius`)
`WithoutIntersection::pass` returns, and it returns false exactly when a live segment `i` and
one of the three check segments `j` (`s` and its two children) intersect and are not relatives
for `isRelative`, so that neither of the two is the parent of the other: `pass` never returns
false because of a parent and its child. -/
theorem pass_skips_parent_child (M : CMath α) {t : Tree α} (hw : WFL t) {s : Int}
    (hs : t.live s) (hb : t.isTerminal s = false) :
    (∀ a b, t.live a → t.live b → (t.segments b).up = a →
      WithoutIntersection.isRelative (t.segments a) (t.segments b) = true ∧
      WithoutIntersection.isRelative (t.segments b) (t.segments a) = true) ∧
    ∃ (f0 : Nat) (ρ : Int → α), ∀ f, f0 ≤ f →
      (∀ i, t.live i → radius M f t i = some (ρ i)) ∧
      ∃ b, WithoutIntersection.pass M f t (t.segments s) = some b ∧
        (b = false ↔ ∃ i, t.live i ∧ ∃ j ∈ [s, (t.segments s).left, (t.segments s).right],
          WithoutIntersection.isRelative (t.segments i) (t.segments j) = false ∧
          (t.segments j).up ≠ i ∧ (t.segments i).up ≠ j ∧
          Geometry.hasIntersection M t.dimension (t.proximalPoint i) (t.distalPoint i)
            (t.proximalPoint j) (t.distalPoint j) (ρ i + ρ j) = true) := by
  constructor
  · intro a b ha hb hup
    exact ⟨(WithoutIntersection.isRelative_iff hw ha hb).mpr (Or.inr (Or.inl hup)),
      (WithoutIntersection.isRelative_iff hw hb ha).mpr (Or.inr (Or.inr hup))⟩
  · obtain ⟨f0, ρ, hρ⟩ := radius_total M hw
    refine ⟨f0, ρ, fun f hf => ⟨fun i hi => hρ i hi f hf, ?_⟩⟩
    have hid := hw.ids s hs
    obtain ⟨k1, k2, k3, k4, k5, k6, k7⟩ : 0 < (t.segments s).left ∧
        (t.segments s).left < t.currentNumberOfSegments ∧
        0 < (t.segments s).right ∧ (t.segments s).right < t.currentNumberOfSegments ∧
        (t.segments s).left ≠ (t.segments s).right ∧
        (t.segments (t.segments s).left).up = s ∧ (t.segments (t.segments s).right).up = s := by
      rcases hw.kids s hs with hk | hk
      · have := (isTerminal_iff t s).mpr hk
        rw [hb] at this
        exact absurd this (by decide)
      · exact hk
    have hl : t.live (t.segments s).left := ⟨k1.le, k2⟩
    have hr : t.live (t.segments s).right := ⟨k3.le, k4⟩
    have hlive : ∀ j ∈ [s, (t.segments s).left, (t.segments s).right], t.live j := by
      intro j hj
      simp only [List.mem_cons, List.mem_singleton, List.not_mem_nil, or_false] at hj
      rcases hj with rfl | rfl | rfl
      · exact hs
      · exact hl
      · exact hr
    have hcs : ∀ c ∈ [t.segments s, t.leftSegment s, t.rightSegment s],
        radius M f t c.ID = some (ρ c.ID) := by
      intro c hc
      simp only [List.mem_cons, List.mem_singleton, List.not_mem_nil, or_false] at hc
      rcases hc with rfl | rfl | rfl
      · rw [hid]; exact hρ s hs f hf
      · rw [Tree.leftSegment, hw.ids _ hl]; exact hρ _ hl f hf
      · rw [Tree.rightSegment, hw.ids _ hr]; exact hρ _ hr f hf
    obtain ⟨b, hb1, hiff⟩ := WithoutIntersection.segmentLoop_spec M t ρ f _ hcs
      (indices t.currentNumberOfSegments) (fun i hi => hρ i (mem_indices.mp hi) f hf)
    refine ⟨b, ?_, ?_⟩
    · simp only [WithoutIntersection.pass, hid]
      exact hb1
    · rw [hiff]
      constructor
      · rintro ⟨i, hi, c, hc, h1, h2⟩
        have hil := mem_indices.mp hi
        simp only [List.mem_cons, List.mem_singleton, List.not_mem_nil, or_false] at hc
        have key : ∀ j, t.live j → c = t.segments j →
            j ∈ [s, (t.segments s).left, (t.segments s).right] →
            ∃ j ∈ [s, (t.segments s).left, (t.segments s).right],
              WithoutIntersection.isRelative (t.segments i) (t.segments j) = false ∧
              (t.segments j).up ≠ i ∧ (t.segments i).up ≠ j ∧
              Geometry.hasIntersection M t.dimension (t.proximalPoint i) (t.distalPoint i)
                (t.proximalPoint j) (t.distalPoint j) (ρ i + ρ j) = true := by
          intro j hj hcj hmem
          subst hcj
          rw [hw.ids j hj] at h2
          refine ⟨j, hmem, h1, ?_, ?_, h2⟩
          · intro e
            have := (WithoutIntersection.isRelative_iff hw hil hj).mpr (Or.inr (Or.inl e))
            rw [h1] at this
            exact absurd this (by decide)
          · intro e
            have := (WithoutIntersection.isRelative_iff hw hil hj).mpr (Or.inr (Or.inr e))
            rw [h1] at this
            exact absurd this (by decide)
        refine ⟨i, hil, ?_⟩
        rcases hc with hc | hc | hc
        · exact key s hs hc (by simp)
        · exact key _ hl hc (by simp)
        · exact key _ hr hc (by simp)
      · rintro ⟨i, hi, j, hj, h1, -, -, h2⟩
        have hjl := hlive j hj
        refine ⟨i, mem_indices.mpr hi, t.segments j, ?_, h1, ?_⟩
        · simp only [List.mem_cons, List.mem_singleton, List.not_mem_nil, or_false] at hj ⊢
          rcases hj with rfl | rfl | rfl
          · exact Or.inl rfl
          · exact Or.inr (Or.inl rfl)
          · exact Or.inr (Or.inr rfl)
        · rw [hw.ids j hjl]
          exact h2

/-- The restriction on intersections on the tree that `growSegment` makes of the root of the
example, for its bifurcation segment 0. -/
theorem pass_skips_parent_child_witness :
    ∃ fuel r,
      growSegment realMath fuel ⟨2, 1, 1, 0⟩ ((exampleRoot realMath).segments 0)
        (Segment.make 2 ⟨2, 2, 0, 0⟩ 1) (exampleRoot realMath) = some r ∧
      WFL r.2 ∧ r.2.live 0 ∧ r.2.isTerminal 0 = false ∧
      (∀ a b, r.2.live a → r.2.live b → (r.2.segments b).up = a →
        WithoutIntersection.isRelative (r.2.segments a) (r.2.segments b) = true ∧
        WithoutIntersection.isRelative (r.2.segments b) (r.2.segments a) = true) ∧
      ∃ (f0 : Nat) (ρ : Int → ℝ), ∀ f, f0 ≤ f →
        (∀ i, r.2.live i → radius realMath f r.2 i = some (ρ i)) ∧
        ∃ b, WithoutIntersection.pass realMath f r.2 (r.2.segments 0) = some b ∧
          (b = false ↔ ∃ i, r.2.live i ∧
            ∃ j ∈ [0, (r.2.segments 0).left, (r.2.segments 0).right],
            WithoutIntersection.isRelative (r.2.segments i) (r.2.segments j) = false ∧
            (r.2.segments j).up ≠ i ∧ (r.2.segments i).up ≠ j ∧
            Geometry.hasIntersection realMath r.2.dimension (r.2.proximalPoint i)
              (r.2.distalPoint i) (r.2.proximalPoint j) (r.2.distalPoint j) (ρ i + ρ j) =
              true) := by
  obtain ⟨f0, r, h, hR1, hcur, hT, hnt⟩ := exampleFork_exists
  have hl : r.2.live 0 := by
    simp only [Tree.live, hcur]
    omega
  exact ⟨f0, r, h, hR1.wfl, hl, hnt, pass_skips_parent_child realMath hR1.wfl hl hnt⟩

/-- On the tree that two calls of `growSegment` make of the root of the example (the second
on the segment 1, a child of the root 0), the segment 3 is a child of the segment 1 and the
segment 1 is a child of the segment 0, so that the segment 0 is an ancestor of the segment 3,
at depth 2; `isRelative` returns false on the two, in both orders. -/
theorem isRelative_grandparent :
    ∃ fuel r1 fuel2 r2,
      growSegment realMath fuel ⟨2, 1, 1, 0⟩ ((exampleRoot realMath).segments 0)
        (Segment.make 2 ⟨2, 2, 0, 0⟩ 1) (exampleRoot realMath) = some r1 ∧
      growSegment realMath fuel2 ⟨2, 1 / 2, 1 / 2, 0⟩ (r1.2.segments 1)
        (Segment.make 2 ⟨2, 0, 1, 0⟩ 1) r1.2 = some r2 ∧
      r2.2.live 0 ∧ r2.2.live 1 ∧ r2.2.live 3 ∧
      (r2.2.segments 3).up = 1 ∧ (r2.2.segments 1).up = 0 ∧
      WithoutIntersection.isRelative (r2.2.segments 0) (r2.2.segments 3) = false ∧
      WithoutIntersection.isRelative (r2.2.segments 3) (r2.2.segments 0) = false := by
  obtain ⟨f1, r1, h1, hR1, hcur1, hT1, -⟩ := exampleFork_exists
  have hl1 : r1.2.live 1 := by
    simp only [Tree.live, hcur1]
    omega
  obtain ⟨f2, r2, h2, hR2, -, hT2, hcur2, -⟩ :=
    growSegment_total_tail hR1 hl1 ⟨2, 1 / 2, 1 / 2, 0⟩ (Segment.make 2 ⟨2, 0, 1, 0⟩ 1)
  have h2' := h2 f2 (le_refl _)
  have hc0 : (exampleRoot realMath).currentNumberOfSegments = 1 := rfl
  obtain ⟨e1, e2, e3⟩ := exampleRoot_links realMath
  have a1 := growSegment_links (exampleRoot_reach realMath) (exampleRoot_live realMath) h1 1
  have b3 := growSegment_links hR1 hl1 h2' 3
  have b1 := growSegment_links hR1 hl1 h2' 1
  have hcur : r2.2.currentNumberOfSegments = 5 := by rw [hcur2, hcur1]; rfl
  have l0 : r2.2.live 0 := by simp only [Tree.live, hcur]; omega
  have l1 : r2.2.live 1 := by simp only [Tree.live, hcur]; omega
  have l3 : r2.2.live 3 := by simp only [Tree.live, hcur]; omega
  rw [hc0] at a1
  rw [hcur1] at b3 b1
  have u3 : (r2.2.segments 3).up = 1 := by
    rw [b3.1]; simp
  have u1 : (r2.2.segments 1).up = 0 := by
    rw [b1.1, if_pos rfl, a1.1]; simp
  have n1 : ¬ WithoutIntersection.isRelative (r2.2.segments 0) (r2.2.segments 3) = true := by
    rw [WithoutIntersection.isRelative_iff hR2.wfl l0 l3, u3]
    have u0 := hR2.wfl.root_up
    rw [u0]
    omega
  have n2 : ¬ WithoutIntersection.isRelative (r2.2.segments 3) (r2.2.segments 0) = true := by
    rw [WithoutIntersection.isRelative_iff hR2.wfl l3 l0, u3]
    have u0 := hR2.wfl.root_up
    rw [u0]
    omega
  refine ⟨f1, r1, f2, r2, h1, h2', l0, l1, l3, u3, u1, ?_, ?_⟩
  · cases h : WithoutIntersection.isRelative (r2.2.segments 0) (r2.2.segments 3) with
    | false => rfl
    | true => exact absurd h n1
  · cases h : WithoutIntersection.isRelative (r2.2.segments 3) (r2.2.segments 0) with
    | false => rfl
    | true => exact absurd h n2

/-! ## Positive resistances and radii -/

/-- The two ratios that `Tree::update` computes are positive when the flows and the reduced
resistances of the two children are, for a `pow` that is positive on positive bases. -/
theorem bifurcationRatios_pos (M : CMath α) (hpow : ∀ x y, 0 < x → 0 < M.pow x y)
    (γ fl fr Rl Rr : α) (hfl : 0 < fl) (hfr : 0 < fr) (hRl : 0 < Rl) (hRr : 0 < Rr) :
    0 < (bifurcationRatios M γ fl fr Rl Rr).1 ∧ 0 < (bifurcationRatios M γ fl fr Rl Rr).2 := by
  have h1 : 0 < fl / fr * (Rl / Rr) := mul_pos (div_pos hfl hfr) (div_pos hRl hRr)
  have h2 := hpow _ (1 / 4) h1
  have h3 := hpow _ γ h2
  have h4 := one_div_pos.mpr h3
  simp only [bifurcationRatios]
  exact ⟨hpow _ _ (by linarith), hpow _ _ (by linarith)⟩

/-- In a well-linked tree whose live segments hold the values of `Tree::update`, with positive
lengths, viscosities and terminal flows, every live segment has a positive reduced resistance,
a positive flow and two positive bifurcation ratios. -/
theorem resistance_pos_of_good (M : CMath α) (hpi : 0 < M.pi)
    (hpow : ∀ x y, 0 < x → 0 < M.pow x y) {t : Tree α} (hw : WFL t)
    (hgood : ∀ i, t.live i → Good M t i)
    (hlen : ∀ i, t.live i → 0 < t.length i)
    (hflow : ∀ i, t.live i → t.isTerminal i = true → 0 < (t.segments i).flow)
    (hvisc : ∀ i, t.live i → 0 < t.bloodViscosity i) :
    ∀ i, t.live i → 0 < t.reducedHydrodynamicResistance i ∧ 0 < (t.segments i).flow ∧
      0 < (t.segments i).bifurcationRatioLeft ∧ 0 < (t.segments i).bifurcationRatioRight := by
  obtain ⟨d, B, hd⟩ := hw.rank
  have hκ : 0 < poiseuilleLawConstant M := div_pos (by norm_num) hpi
  have hterm : ∀ i, t.live i → (t.segments i).left = -1 ∧ (t.segments i).right = -1 →
      0 < t.reducedHydrodynamicResistance i ∧ 0 < (t.segments i).flow ∧
      0 < (t.segments i).bifurcationRatioLeft ∧ 0 < (t.segments i).bifurcationRatioRight := by
    intro i hi hk
    have ht := (isTerminal_iff t i).mpr hk
    have g := hgood i hi
    unfold Good at g
    rw [if_pos ht] at g
    refine ⟨?_, hflow i hi ht, ?_, ?_⟩
    · rw [g.1]
      exact mul_pos (mul_pos hκ (hvisc i hi)) (hlen i hi)
    · rw [g.2.1]; exact one_pos
    · rw [g.2.2]; exact one_pos
  have hstep : ∀ i, t.live i → (t.segments i).left ≠ -1 →
      (0 < t.reducedHydrodynamicResistance (t.segments i).left ∧
        0 < (t.segments (t.segments i).left).flow) →
      (0 < t.reducedHydrodynamicResistance (t.segments i).right ∧
        0 < (t.segments (t.segments i).right).flow) →
      0 < t.reducedHydrodynamicResistance i ∧ 0 < (t.segments i).flow ∧
      0 < (t.segments i).bifurcationRatioLeft ∧ 0 < (t.segments i).bifurcationRatioRight := by
    intro i hi hk hl hr
    have ht : ¬ (t.isTerminal i = true) := fun h => hk ((isTerminal_iff t i).mp h).1
    have g := hgood i hi
    unfold Good at g
    rw [if_neg ht] at g
    obtain ⟨g1, g2, g3, g4⟩ := g
    have hrat := bifurcationRatios_pos M hpow (t.bifurcationExpoent i) (t.leftSegment i).flow
      (t.rightSegment i).flow (t.reducedHydrodynamicResistance (t.segments i).left)
      (t.reducedHydrodynamicResistance (t.segments i).right) hl.2 hr.2 hl.1 hr.1
    rw [← g2, ← g3] at hrat
    refine ⟨?_, ?_, hrat.1, hrat.2⟩
    · rw [g4]
      have h1 := hpow _ 4 hrat.1
      have h2 := hpow _ 4 hrat.2
      have h3 := div_pos h1 hl.1
      have h4 := div_pos h2 hr.1
      have h5 := one_div_pos.mpr (add_pos h3 h4)
      have h6 := mul_pos (mul_pos hκ (hvisc i hi)) (hlen i hi)
      linarith
    · rw [g1]
      exact add_pos hl.2 hr.2
  have key : ∀ n : Nat, ∀ i, t.live i → B - d i ≤ n →
      0 < t.reducedHydrodynamicResistance i ∧ 0 < (t.segments i).flow ∧
      0 < (t.segments i).bifurcationRatioLeft ∧ 0 < (t.segments i).bifurcationRatioRight := by
    intro n
    induction n with
    | zero =>
      intro i hi hn
      rcases hw.kids i hi with hk | ⟨k1, k2, k3, k4, k5, k6, k7⟩
      · exact hterm i hi hk
      · exfalso
        have hl : t.live (t.segments i).left := ⟨k1.le, k2⟩
        have h1 := hd _ hl
        have h2 := h1.2 (by omega)
        rw [k6] at h2
        have h3 := (hd i hi).1
        omega
    | succ n ih =>
      intro i hi hn
      rcases hw.kids i hi with hk | ⟨k1, k2, k3, k4, k5, k6, k7⟩
      · exact hterm i hi hk
      · have hl : t.live (t.segments i).left := ⟨k1.le, k2⟩
        have hr : t.live (t.segments i).right := ⟨k3.le, k4⟩
        have h1 := hd _ hl
        have h2 := h1.2 (by omega)
        rw [k6] at h2
        have h1' := hd _ hr
        have h2' := h1'.2 (by omega)
        rw [k7] at h2'
        have il := ih _ hl (by omega)
        have ir := ih _ hr (by omega)
        exact hstep i hi (by omega) ⟨il.1, il.2.1⟩ ⟨ir.1, ir.2.1⟩
  intro i hi
  exact key (B - d i) i hi (le_refl _)

/-- The loop of `Tree::radius` keeps a positive product positive when the bifurcation ratios of
the live segments are positive. -/
theorem radiusLoop_pos {t : Tree α} (hw : WFL t)
    (hrat : ∀ i, t.live i → 0 < (t.segments i).bifurcationRatioLeft ∧
      0 < (t.segments i).bifurcationRatioRight) :
    ∀ (fuel : Nat) (i : Int) (acc v : α), t.live i → 0 < acc →
      radiusLoop fuel t i acc = some v → 0 < v := by
  intro fuel
  induction fuel with
  | zero => intro i acc v _ _ h; cases h
  | succ n ih =>
    intro i acc v hi hacc h
    simp only [radiusLoop] at h
    by_cases h0 : i = 0
    · subst h0
      simp [Tree.isRoot, rootID] at h
      rw [← h]; exact hacc
    · have hr : (!t.isRoot i) = true := by simp [Tree.isRoot, rootID, h0]
      rw [if_pos hr] at h
      have hp := hw.up_live i hi h0
      have hpr := hrat _ hp
      refine ih _ _ v hp ?_ h
      split
      · exact mul_pos hacc hpr.1
      · exact mul_pos hacc hpr.2

/-- With fuel, `Tree::radius` of the root is the root radius. -/
theorem radius_root (M : CMath α) (t : Tree α) (fuel : Nat) (hf : 0 < fuel) :
    radius M fuel t 0 = some (rootRadius M t) := by
  obtain ⟨m, rfl⟩ : ∃ m, fuel = m + 1 := ⟨fuel - 1, by omega⟩
  simp [radius, radiusLoop, Tree.isRoot, rootID]

/-- Positive resistances and radii from the values of `Tree::update`. -/
theorem radius_pos_of_good (M : CMath α) (hpi : 0 < M.pi)
    (hpow : ∀ x y, 0 < x → 0 < M.pow x y) {t : Tree α} (hw : WFL t)
    (hgood : ∀ i, t.live i → Good M t i)
    (hlen : ∀ i, t.live i → 0 < t.length i)
    (hflow : ∀ i, t.live i → t.isTerminal i = true → 0 < (t.segments i).flow)
    (hvisc : ∀ i, t.live i → 0 < t.bloodViscosity i)
    (hp : t.terminalPressure < t.perfusionPressure) (hq : 0 < t.perfusionFlow)
    (hru : 0 < t.radiusUnit) :
    ∃ (f0 : Nat) (ρ : Int → α), ∀ i, t.live i →
      (∀ f, f0 ≤ f → radius M f t i = some (ρ i)) ∧ 0 < ρ i ∧
      0 < t.reducedHydrodynamicResistance i := by
  have hall := resistance_pos_of_good M hpi hpow hw hgood hlen hflow hvisc
  obtain ⟨f0, ρ, hρ⟩ := radius_total M hw
  have h0 : t.live 0 := ⟨le_refl _, by have := hw.cur_pos; omega⟩
  have hroot : 0 < rootRadius M t := by
    unfold rootRadius
    refine mul_pos hru (hpow _ _ ?_)
    exact div_pos (mul_pos (hall 0 h0).1 hq) (by linarith)
  refine ⟨f0, ρ, fun i hi => ⟨hρ i hi, ?_, (hall i hi).1⟩⟩
  have h1 := hρ i hi f0 (le_refl _)
  simp only [radius] at h1
  cases hl : radiusLoop f0 t i 1 with
  | none => rw [hl] at h1; cases h1
  | some v =>
    rw [hl] at h1
    have hv := radiusLoop_pos hw (fun j hj => (hall j hj).2.2) f0 i 1 v hi one_pos hl
    have : ρ i = v * rootRadius M t := by
      injection h1 with h1; exact h1.symm
    rw [this]
    exact mul_pos hv hroot

/-! ## The target function and the volume of the tree -/

/-- The loop of `TargetVolume::eval` adds one term for each segment of the list. -/
theorem TargetVolume.evalLoop_sum (T : TargetVolume α) (M : CMath α) (f : Nat) (t : Tree α)
    (ρ : Int → α) :
    ∀ (is : List Int) (acc : α), (∀ i ∈ is, radius M f t i = some (ρ i)) →
      TargetVolume.evalLoop T M f t is acc =
        some (acc + (is.map (fun i =>
          M.pow (ρ i) T.radiusExpoent * M.pow (t.length i) T.lengthExpoent)).sum) := by
  intro is
  induction is with
  | nil => intro acc _; simp [TargetVolume.evalLoop]
  | cons i rest ih =>
    intro acc h
    rw [TargetVolume.evalLoop, h i (List.mem_cons_self _ _)]
    simp only []
    rw [ih _ (fun j hj => h j (List.mem_cons_of_mem _ hj)), List.map_cons, List.sum_cons,
      add_assoc]

/-- The loop of `Tree::volume` adds one term for each segment of the list. -/
theorem volumeLoop_sum (M : CMath α) (f : Nat) (t : Tree α) (ρ : Int → α) :
    ∀ (is : List Int) (acc : α), (∀ i ∈ is, radius M f t i = some (ρ i)) →
      Tree.volumeLoop M f t is acc =
        some (acc + (is.map (fun i => ρ i * ρ i * t.length i)).sum) := by
  intro is
  induction is with
  | nil => intro acc _; simp [Tree.volumeLoop]
  | cons i rest ih =>
    intro acc h
    rw [Tree.volumeLoop, h i (List.mem_cons_self _ _)]
    simp only []
    rw [ih _ (fun j hj => h j (List.mem_cons_of_mem _ hj)), List.map_cons, List.sum_cons,
      add_assoc]

/-- With the exponents 2 and 1, and a `pow` that squares with the exponent 2 and is the
identity with the exponent 1, `Tree::volume()` is `M_PI` times `TargetVolume::eval()`, both
sums running over the live segments. -/
theorem TargetVolume.eval_volume (M : CMath α) (hsq : ∀ x, M.pow x 2 = x * x)
    (hone : ∀ x, M.pow x 1 = x) {t : Tree α} (hw : WFL t) :
    ∃ (f0 : Nat) (ρ : Int → α), ∀ f, f0 ≤ f →
      (∀ i, t.live i → radius M f t i = some (ρ i)) ∧
      TargetVolume.eval ⟨2, 1⟩ M f t =
        some (((indices t.currentNumberOfSegments).map
          (fun i => ρ i * ρ i * t.length i)).sum) ∧
      Tree.volume M f t =
        some (((indices t.currentNumberOfSegments).map
          (fun i => ρ i * ρ i * t.length i)).sum * M.pi) := by
  obtain ⟨f0, ρ, hρ⟩ := radius_total M hw
  refine ⟨f0, ρ, fun f hf => ⟨fun i hi => hρ i hi f hf, ?_, ?_⟩⟩
  · unfold TargetVolume.eval
    rw [TargetVolume.evalLoop_sum ⟨2, 1⟩ M f t ρ _ _
      (fun i hi => hρ i (mem_indices.mp hi) f hf), zero_add]
    simp only [hsq, hone]
  · unfold Tree.volume
    rw [volumeLoop_sum M f t ρ _ _ (fun i hi => hρ i (mem_indices.mp hi) f hf), zero_add]

/-- C25, amended: the default target function is the volume of the tree divided by `M_PI`.
With `radiusExpoent = 2` and `lengthExpoent = 1` (and a `pow` that squares with the exponent 2
and is the identity with the exponent 1), in every well-linked tree state
`TargetVolume::eval()` and `Tree::volume()` both return (with enough fuel for `Tree::radius`),
`eval()` is the sum of `radius(i)^2 * length(i)` over exactly the live segments
`[0, currentNumberOfSegments)`, and `Tree::volume()` is `M_PI` times `TargetVolume::eval()`. -/
theorem targetVolume_proportional (M : CMath α) (hsq : ∀ x, M.pow x 2 = x * x)
    (hone : ∀ x, M.pow x 1 = x) {t : Tree α} (hw : WFL t) :
    ∃ (f0 : Nat) (ρ : Int → α) (v : α), ∀ f, f0 ≤ f →
      (∀ i, t.live i → radius M f t i = some (ρ i)) ∧
      v = ((indices t.currentNumberOfSegments).map (fun i => ρ i * ρ i * t.length i)).sum ∧
      TargetVolume.eval ⟨2, 1⟩ M f t = some v ∧
      Tree.volume M f t = some (v * M.pi) := by
  obtain ⟨f0, ρ, h⟩ := TargetVolume.eval_volume M hsq hone hw
  exact ⟨f0, ρ, _, fun f hf => ⟨(h f hf).1, rfl, (h f hf).2.1, (h f hf).2.2⟩⟩

theorem realMath_pow_two (x : ℝ) : realMath.pow x 2 = x * x := by
  show x ^ (2 : ℝ) = x * x
  rw [Real.rpow_two, sq]

theorem realMath_pow_one (x : ℝ) : realMath.pow x 1 = x := by
  show x ^ (1 : ℝ) = x
  exact Real.rpow_one x

theorem realMath_pow_pos (x y : ℝ) (hx : 0 < x) : 0 < realMath.pow x y :=
  Real.rpow_pos_of_pos hx y

/-- The target function and the volume of the root of the example, over the real numbers. -/
theorem targetVolume_proportional_witness :
    WFL (exampleRoot realMath) ∧
    ∃ (f0 : Nat) (ρ : Int → ℝ) (v : ℝ), ∀ f, f0 ≤ f →
      (∀ i, (exampleRoot realMath).live i → radius realMath f (exampleRoot realMath) i =
        some (ρ i)) ∧
      v = ((indices (exampleRoot realMath).currentNumberOfSegments).map
        (fun i => ρ i * ρ i * (exampleRoot realMath).length i)).sum ∧
      TargetVolume.eval ⟨2, 1⟩ realMath f (exampleRoot realMath) = some v ∧
      Tree.volume realMath f (exampleRoot realMath) = some (v * realMath.pi) :=
  ⟨(exampleRoot_reach realMath).wfl,
    targetVolume_proportional realMath realMath_pow_two realMath_pow_one
      (exampleRoot_reach realMath).wfl⟩

/-- The numbers of the root of the example: its length is 1 and its root radius is positive. -/
theorem exampleRoot_numbers :
    (exampleRoot realMath).length 0 = 1 ∧ 0 < rootRadius realMath (exampleRoot realMath) := by
  obtain ⟨f1, f2, f3, f4, f5, f6, f7⟩ :=
    growRoot_fields realMath (exampleTree : Tree ℝ) exampleRootValue
  have hlen : (exampleRoot realMath).length 0 = 1 := by
    show (exampleRoot realMath).lengthUnit * (exampleRoot realMath)._length 0 = 1
    have e1 : (exampleRoot realMath).lengthUnit = 1 := f3
    have e2 : (exampleRoot realMath)._length 0 =
        distance realMath 2 ⟨2, 0, 0, 0⟩ ⟨2, 1, 0, 0⟩ := f2
    rw [e1, e2]
    simp [distance, realMath]
  refine ⟨hlen, ?_⟩
  have hR : (exampleRoot realMath).reducedHydrodynamicResistance rootID =
      poiseuilleLawConstant realMath * (36 / 10000) *
        distance realMath 2 ⟨2, 0, 0, 0⟩ ⟨2, 1, 0, 0⟩ := f1
  have hd : distance realMath 2 (⟨2, 0, 0, 0⟩ : Point ℝ) ⟨2, 1, 0, 0⟩ = 1 := by
    simp [distance, realMath]
  have hq : (exampleRoot realMath).perfusionFlow = 833 / 100000000 := rfl
  have hpp : (exampleRoot realMath).perfusionPressure = 13332236535 / 1000000 := rfl
  have htp : (exampleRoot realMath).terminalPressure = 7999341921 / 1000000 := rfl
  have hru : (exampleRoot realMath).radiusUnit = 1 := rfl
  unfold rootRadius
  rw [hR, hd, hq, hpp, htp, hru, one_mul]
  apply realMath_pow_pos
  have hκ : 0 < poiseuilleLawConstant realMath := div_pos (by norm_num) Real.pi_pos
  have : (0 : ℝ) < 13332236535 / 1000000 - 7999341921 / 1000000 := by norm_num
  positivity

/-- On the root of the example, with the exponents 2 and 1, `TargetVolume::eval()` and
`Tree::volume()` return different values. -/
theorem targetVolume_counterexample :
    ∃ v w : ℝ, (∀ f, 1 ≤ f →
      TargetVolume.eval ⟨2, 1⟩ realMath f (exampleRoot realMath) = some v ∧
      Tree.volume realMath f (exampleRoot realMath) = some w) ∧ v ≠ w := by
  obtain ⟨hlen, hpos⟩ := exampleRoot_numbers
  have hc : (exampleRoot realMath).currentNumberOfSegments = 1 := rfl
  have hrad : ∀ f, 1 ≤ f → ∀ i ∈ indices (exampleRoot realMath).currentNumberOfSegments,
      radius realMath f (exampleRoot realMath) i =
        some ((fun _ => rootRadius realMath (exampleRoot realMath)) i) := by
    intro f hf i hi
    rw [hc] at hi
    have : i = 0 := by simpa [indices_one] using hi
    subst this
    exact radius_root realMath _ f hf
  refine ⟨rootRadius realMath (exampleRoot realMath) * rootRadius realMath (exampleRoot realMath),
    rootRadius realMath (exampleRoot realMath) * rootRadius realMath (exampleRoot realMath) *
      Real.pi, fun f hf => ⟨?_, ?_⟩, ?_⟩
  · unfold TargetVolume.eval
    rw [TargetVolume.evalLoop_sum ⟨2, 1⟩ realMath f _ _ _ _ (hrad f hf), hc, indices_one]
    simp [realMath_pow_two, realMath_pow_one, hlen]
  · unfold Tree.volume
    rw [volumeLoop_sum realMath f _ _ _ _ (hrad f hf), hc, indices_one]
    simp only [List.map_cons, List.map_nil, List.sum_cons, List.sum_nil, add_zero, hlen,
      mul_one, zero_add]
    rfl
  · intro h
    have h2 : rootRadius realMath (exampleRoot realMath) *
        rootRadius realMath (exampleRoot realMath) * (Real.pi - 1) = 0 := by linarith
    have h3 : 0 < rootRadius realMath (exampleRoot realMath) *
        rootRadius realMath (exampleRoot realMath) * (Real.pi - 1) :=
      mul_pos (mul_pos hpos hpos) (by linarith [Real.pi_gt_three])
    linarith

/-! ## Positive radii in the reachable states -/

/-- The root of the example has one live segment. -/
theorem exampleRoot_live_eq (M : CMath α) {i : Int} (hi : (exampleRoot M).live i) : i = 0 := by
  have hc : (exampleRoot M).currentNumberOfSegments = 1 := rfl
  simp only [Tree.live, hc] at hi
  omega

/-- With the perfusion flow 0 the radius of the root is 0: the state `exampleDryRoot` is
reached by `growRoot`, its root has the length 1 and the terminal flow 1, viscosity and
bifurcation exponent are positive and `perfusionPressure > terminalPressure`, and
`Tree::radius` of the root returns 0. -/
theorem exampleDryRoot_radius :
    Reach realMath (exampleDryRoot realMath) ∧
    (∀ i, (exampleDryRoot realMath).live i → 0 < (exampleDryRoot realMath).length i) ∧
    (∀ i, (exampleDryRoot realMath).live i → (exampleDryRoot realMath).isTerminal i = true →
      0 < ((exampleDryRoot realMath).segments i).flow) ∧
    (∀ i, 0 < (exampleDryRoot realMath).bloodViscosity i) ∧
    (∀ i, 0 < (exampleDryRoot realMath).bifurcationExpoent i) ∧
    (exampleDryRoot realMath).terminalPressure < (exampleDryRoot realMath).perfusionPressure ∧
    (exampleDryRoot realMath).live 0 ∧
    ∀ f, 1 ≤ f → radius realMath f (exampleDryRoot realMath) 0 = some 0 := by
  have hfresh : (exampleDryTree : Tree ℝ).Fresh :=
    ⟨rfl, rfl, fun i => ⟨2, rfl⟩⟩
  have hc : (exampleDryRoot realMath).currentNumberOfSegments = 1 := rfl
  have h0 : ∀ i, (exampleDryRoot realMath).live i → i = 0 := by
    intro i hi
    simp only [Tree.live, hc] at hi
    omega
  obtain ⟨f1, f2, f3, f4, f5, f6, f7⟩ :=
    growRoot_fields realMath (exampleDryTree : Tree ℝ) exampleRootValue
  refine ⟨Reach.root _ 2 ⟨2, 1, 0, 0⟩ 1 hfresh, ?_, ?_, ?_, ?_, ?_, ⟨le_refl _, by rw [hc]; decide⟩,
    ?_⟩
  · intro i hi
    rw [h0 i hi]
    show 0 < (exampleDryRoot realMath).lengthUnit * (exampleDryRoot realMath)._length 0
    have e1 : (exampleDryRoot realMath).lengthUnit = 1 := f3
    have e2 : (exampleDryRoot realMath)._length 0 =
        distance realMath 2 ⟨2, 0, 0, 0⟩ ⟨2, 1, 0, 0⟩ := f2
    rw [e1, e2]
    simp [distance, realMath]
  · intro i hi _
    rw [h0 i hi]
    have : ((exampleDryRoot realMath).segments 0).flow = 1 := by
      simp [exampleDryRoot, exampleRootValue, Tree.growRoot, Tree.copy, Tree.setSeg, Tree.setR,
        Tree.setLength, rootID, Segment.make, Segment.default, TERMINALEND]
    rw [this]
    exact one_pos
  · intro i
    show (0 : ℝ) < 36 / 10000
    norm_num
  · intro i
    show (0 : ℝ) < 3
    norm_num
  · show (7999341921 / 1000000 : ℝ) < 13332236535 / 1000000
    norm_num
  · intro f hf
    rw [radius_root realMath _ f hf]
    have hq : (exampleDryRoot realMath).perfusionFlow = 0 := rfl
    unfold rootRadius
    rw [hq, mul_zero, zero_div]
    have : realMath.pow 0 (1 / 4) = 0 := by
      show (0 : ℝ) ^ (1 / 4 : ℝ) = 0
      exact Real.zero_rpow (by norm_num)
    rw [this, mul_zero]

/-! ## The sampling loop of `grow` -/

namespace ConstrainedConstructiveOptimization

theorem sinceRelaxation_nil : sinceRelaxation ([] : List (Bool × Int)) = 0 := rfl

theorem sinceRelaxation_relaxed (log : List (Bool × Int)) (a : Int) :
    sinceRelaxation (log ++ [(true, a)]) = 0 := by
  simp [sinceRelaxation, List.reverse_append, List.takeWhile]

theorem sinceRelaxation_rejected (log : List (Bool × Int)) (a : Int) :
    sinceRelaxation (log ++ [(false, a)]) = sinceRelaxation log + 1 := by
  simp [sinceRelaxation, List.reverse_append, List.takeWhile]

theorem relaxations_relaxed (log : List (Bool × Int)) (a : Int) :
    relaxations (log ++ [(true, a)]) = relaxations log + 1 := by
  simp [relaxations, List.filter_append]

theorem relaxations_rejected (log : List (Bool × Int)) (a : Int) :
    relaxations (log ++ [(false, a)]) = relaxations log := by
  simp [relaxations, List.filter_append]

/-- Without its log, `pointLoopLog` is `pointLoop`. -/
theorem pointLoopLog_erase {D C : Type} (K : Collaborators α D C) (t : Tree α) :
    ∀ (fuel : Nat) (s : Point α × D × C × Int) (log : List (Bool × Int)),
      (pointLoopLog K t fuel (s, log)).map Prod.fst = pointLoop K t fuel s := by
  intro fuel
  induction fuel with
  | zero => intro s log; rfl
  | succ n ih =>
    intro s log
    obtain ⟨point, d, c, attempt⟩ := s
    simp only [pointLoopLog, pointLoop]
    split_ifs
    · rfl
    · exact ih _ _
    · exact ih _ _
    · rfl

theorem LogGood.nil_good (m : Int) : LogGood m [] := by
  intro pre e post h
  exact absurd h (by simp)

theorem LogGood.snoc_good {m : Int} {log : List (Bool × Int)} (h : LogGood m log)
    (e : Bool × Int)
    (h1 : e.1 = true ↔ (sinceRelaxation log : Int) + 1 = m + 1)
    (h2 : e.1 = true → e.2 = 0)
    (h3 : e.1 = false → e.2 = (sinceRelaxation log : Int) + 1) :
    LogGood m (log ++ [e]) := by
  intro pre e' post heq
  rcases List.eq_nil_or_concat post with hp | ⟨post', x, hp⟩
  · subst hp
    have := List.append_inj' heq rfl
    obtain ⟨e1, e2⟩ := this
    have e3 : e = e' := by simpa using e2
    subst e3
    subst e1
    exact ⟨h1, h2, h3⟩
  · subst hp
    have heq' : log ++ [e] = (pre ++ e' :: post') ++ [x] := by
      rw [heq]; simp
    have := List.append_inj' heq' rfl
    exact h pre e' post' this.1

/-- The sampling loop with its log returns when the domain is finite, and the log it returns
is good. -/
theorem pointLoopLog_spec {D C : Type} (K : Collaborators α D C) (t : Tree α) (μ : D → Nat)
    (hμ : ∀ d, K.hasAvailablePoint d = true → μ (K.point d).2 < μ d)
    (hmax : 0 ≤ K.maximumNumberOfAttempts) (c0 : C) :
    ∀ (n : Nat) (point : Point α) (d : D) (c : C) (a : Int) (log : List (Bool × Int)),
      μ d ≤ n → a = sinceRelaxation log → a ≤ K.maximumNumberOfAttempts →
      LogGood K.maximumNumberOfAttempts log →
      c = Nat.iterate K.distanceCriterionRelax (relaxations log) c0 →
      ∃ r log', (∀ f, n + 1 ≤ f →
          pointLoopLog K t f ((point, d, c, a), log) = some (r, log')) ∧
        r.2.2.2 = sinceRelaxation log' ∧ LogGood K.maximumNumberOfAttempts log' ∧
        r.2.2.1 = Nat.iterate K.distanceCriterionRelax (relaxations log') c0 := by
  intro n
  induction n with
  | zero =>
    intro point d c a log hn ha hle hg hc
    cases hav : K.hasAvailablePoint d with
    | true =>
      have := hμ d hav
      omega
    | false =>
      refine ⟨(point, d, c, a), log, ?_, ha, hg, hc⟩
      intro f hf
      obtain ⟨m, rfl⟩ : ∃ m, f = m + 1 := ⟨f - 1, by omega⟩
      simp only [pointLoopLog, hav, Bool.false_eq_true, if_false]
  | succ n ih =>
    intro point d c a log hn ha hle hg hc
    cases hav : K.hasAvailablePoint d with
    | false =>
      refine ⟨(point, d, c, a), log, ?_, ha, hg, hc⟩
      intro f hf
      obtain ⟨m, rfl⟩ : ∃ m, f = m + 1 := ⟨f - 1, by omega⟩
      simp only [pointLoopLog, hav, Bool.false_eq_true, if_false]
    | true =>
      have hd := hμ d hav
      cases hev : K.distanceCriterionEval c t (K.point d).1 with
      | true =>
        refine ⟨((K.point d).1, (K.point d).2, c, a), log, ?_, ha, hg, hc⟩
        intro f hf
        obtain ⟨m, rfl⟩ : ∃ m, f = m + 1 := ⟨f - 1, by omega⟩
        simp only [pointLoopLog, hav, hev, if_true]
      | false =>
        by_cases hgt : a + 1 > K.maximumNumberOfAttempts
        · obtain ⟨r, log', hrun, h1, h2, h3⟩ := ih (K.point d).1 (K.point d).2
            (K.distanceCriterionRelax c) 0 (log ++ [(true, 0)]) (by omega)
            (by rw [sinceRelaxation_relaxed]; rfl) hmax
            (hg.snoc_good (true, 0)
              ⟨fun _ => by omega, fun _ => rfl⟩ (fun _ => rfl)
              (fun h => Bool.noConfusion h))
            (by rw [relaxations_relaxed, Function.iterate_succ_apply', ← hc])
          refine ⟨r, log', ?_, h1, h2, h3⟩
          intro f hf
          obtain ⟨m, rfl⟩ : ∃ m, f = m + 1 := ⟨f - 1, by omega⟩
          simp only [pointLoopLog, hav, hev, hgt, if_true, Bool.false_eq_true, if_false]
          exact hrun m (by omega)
        · obtain ⟨r, log', hrun, h1, h2, h3⟩ := ih (K.point d).1 (K.point d).2 c (a + 1)
            (log ++ [(false, a + 1)]) (by omega)
            (by rw [sinceRelaxation_rejected, ha]; push_cast; ring) (by omega)
            (hg.snoc_good (false, a + 1)
              ⟨fun h => Bool.noConfusion h, fun h => by exfalso; omega⟩
              (fun h => Bool.noConfusion h)
              (fun _ => by rw [ha]))
            (by rw [relaxations_rejected]; exact hc)
          refine ⟨r, log', ?_, h1, h2, h3⟩
          intro f hf
          obtain ⟨m, rfl⟩ : ∃ m, f = m + 1 := ⟨f - 1, by omega⟩
          simp only [pointLoopLog, hav, hev, hgt, if_true, Bool.false_eq_true, if_false]
          exact hrun m (by omega)

end ConstrainedConstructiveOptimization

/-- Under the rejecting driver of the example, whose `maximumNumberOfAttempts` is 1, with one
point left in the domain: the point is rejected, which makes `maximumNumberOfAttempts`
consecutive rejections since the start of the round, and the loop ends with the criterion not
relaxed (its state is still 0, and the log holds no relaxation) and the counter at 1. -/
theorem relaxation_trigger_counterexample :
    (exampleRejectingDriver 2 : Collaborators ℚ Nat Nat).maximumNumberOfAttempts = 1 ∧
    ∀ f, 2 ≤ f →
      ConstrainedConstructiveOptimization.pointLoop (exampleRejectingDriver 2)
        (exampleTree : Tree ℚ) f (Point.default, 4, 0, 0) = some (⟨2, 5 / 100, 0, 0⟩, 5, 0, 1) ∧
      ConstrainedConstructiveOptimization.pointLoopLog (exampleRejectingDriver 2)
        (exampleTree : Tree ℚ) f ((Point.default, 4, 0, 0), []) =
        some ((⟨2, 5 / 100, 0, 0⟩, 5, 0, 1), [(false, 1)]) := by
  refine ⟨rfl, fun f hf => ?_⟩
  obtain ⟨m, rfl⟩ : ∃ m, f = m + 2 := ⟨f - 2, by omega⟩
  constructor
  · simp [ConstrainedConstructiveOptimization.pointLoop, exampleRejectingDriver]
    norm_num
  · simp [ConstrainedConstructiveOptimization.pointLoopLog, exampleRejectingDriver]
    norm_num

/-! ## The point that `grow` hands to the vicinity search -/

/-- The sampling loop returns when the domain is finite; the point it returns is the point
that was there before when the domain had no point, and otherwise the last point sampled,
which either was accepted by the criterion the loop returns or was rejected as the last point
of the domain. -/
theorem ConstrainedConstructiveOptimization.pointLoop_spec {D C : Type}
    (K : Collaborators α D C) (t : Tree α) (μ : D → Nat)
    (hμ : ∀ d, K.hasAvailablePoint d = true → μ (K.point d).2 < μ d) :
    ∀ (n : Nat) (point : Point α) (d : D) (c : C) (a : Int), μ d ≤ n →
      ∃ r, (∀ f, n + 1 ≤ f →
          ConstrainedConstructiveOptimization.pointLoop K t f (point, d, c, a) = some r) ∧
        ((K.hasAvailablePoint d = false ∧ r = (point, d, c, a)) ∨
          ∃ d0 c0, K.hasAvailablePoint d0 = true ∧ K.point d0 = (r.1, r.2.1) ∧
            ((K.distanceCriterionEval c0 t r.1 = true ∧ r.2.2.1 = c0) ∨
              (K.distanceCriterionEval c0 t r.1 = false ∧
                K.hasAvailablePoint r.2.1 = false))) := by
  intro n
  induction n with
  | zero =>
    intro point d c a hn
    cases hav : K.hasAvailablePoint d with
    | true =>
      have := hμ d hav
      omega
    | false =>
      refine ⟨(point, d, c, a), ?_, Or.inl ⟨rfl, rfl⟩⟩
      intro f hf
      obtain ⟨m, rfl⟩ : ∃ m, f = m + 1 := ⟨f - 1, by omega⟩
      simp only [ConstrainedConstructiveOptimization.pointLoop, hav, Bool.false_eq_true,
        if_false]
  | succ n ih =>
    intro point d c a hn
    cases hav : K.hasAvailablePoint d with
    | false =>
      refine ⟨(point, d, c, a), ?_, Or.inl ⟨rfl, rfl⟩⟩
      intro f hf
      obtain ⟨m, rfl⟩ : ∃ m, f = m + 1 := ⟨f - 1, by omega⟩
      simp only [ConstrainedConstructiveOptimization.pointLoop, hav, Bool.false_eq_true,
        if_false]
    | true =>
      have hd := hμ d hav
      cases hev : K.distanceCriterionEval c t (K.point d).1 with
      | true =>
        refine ⟨((K.point d).1, (K.point d).2, c, a), ?_,
          Or.inr ⟨d, c, hav, rfl, Or.inl ⟨hev, rfl⟩⟩⟩
        intro f hf
        obtain ⟨m, rfl⟩ : ∃ m, f = m + 1 := ⟨f - 1, by omega⟩
        simp only [ConstrainedConstructiveOptimization.pointLoop, hav, hev, if_true]
      | false =>
        obtain ⟨c', a', hstep⟩ : ∃ c' a', ∀ m,
            ConstrainedConstructiveOptimization.pointLoop K t (m + 1) (point, d, c, a) =
            ConstrainedConstructiveOptimization.pointLoop K t m
              ((K.point d).1, (K.point d).2, c', a') := by
          by_cases hgt : a + 1 > K.maximumNumberOfAttempts
          · exact ⟨K.distanceCriterionRelax c, 0, fun m => by
              simp only [ConstrainedConstructiveOptimization.pointLoop, hav, hev, hgt, if_true,
                Bool.false_eq_true, if_false]⟩
          · exact ⟨c, a + 1, fun m => by
              simp only [ConstrainedConstructiveOptimization.pointLoop, hav, hev, hgt, if_true,
                Bool.false_eq_true, if_false]⟩
        obtain ⟨r, hrun, hr⟩ := ih (K.point d).1 (K.point d).2 c' a' (by omega)
        refine ⟨r, ?_, ?_⟩
        · intro f hf
          obtain ⟨m, rfl⟩ : ∃ m, f = m + 1 := ⟨f - 1, by omega⟩
          rw [hstep]
          exact hrun m (by omega)
        · rcases hr with ⟨h1, h2⟩ | h
          · refine Or.inr ⟨d, c, hav, ?_, Or.inr ⟨?_, ?_⟩⟩
            · rw [h2]
            · rw [h2]; exact hev
            · rw [h2]; exact h1
          · exact Or.inr h

/-- The point that a pass of the loop of `grow` hands to `TreeConnectionSearch::atPoint`, and
keeps, is the point that the sampling loop returned. -/
theorem ConstrainedConstructiveOptimization.growStep_point {D C : Type}
    (K : Collaborators α D C) (M : CMath α) (f : Nat) (G G' : Grow α D C)
    (r : Point α × D × C × Int)
    (hp : ConstrainedConstructiveOptimization.pointLoop K G.counted.tree f
      (G.point, G.domain, G.distanceCriterion, 0) = some r)
    (h : ConstrainedConstructiveOptimization.growStep K M f G = some G') :
    G'.point = r.1 ∧ G.vicinity.atPoint M f G.counted.tree r.1 = some G'.vicinity := by
  obtain ⟨point, d, c, a⟩ := r
  simp only [ConstrainedConstructiveOptimization.growStep, hp] at h
  split at h
  · cases h
  · rename_i vicinity hv
    split at h
    · cases h
    · rename_i s newSegment T hc
      split at h
      · cases h
      · rename_i T2 s2 hr
        by_cases hpos : T2.currentNumberOfReasonableConnections > 0
        · rw [if_pos hpos] at h
          split at h
          · cases h
          · rename_i x s3 hg
            cases h
            exact ⟨rfl, hv⟩
        · rw [if_neg hpos] at h
          cases h
          exact ⟨rfl, hv⟩

/-- C30, amended: the point that is used. In every round of
`ConstrainedConstructiveOptimization::grow()`, on a domain that runs out of points, the
sampling loop returns, and the point handed to the vicinity search (the point that the round
keeps) is the point that the loop returned: the point of the round before when the domain had
no point at the start of the round, and otherwise the last point sampled in the round, for
which `distanceCriterion.eval` returned true when the loop ended by acceptance, and for which
it returned false when the domain ran out of points during sampling (the domain is then
reset, and the rejected point is used). -/
theorem grow_point_sampled {D C : Type} (K : Collaborators α D C) (M : CMath α) (μ : D → Nat)
    (hμ : ∀ d, K.hasAvailablePoint d = true → μ (K.point d).2 < μ d) (G : Grow α D C) :
    ∃ f0 point d c a,
      (∀ f, f0 ≤ f → ConstrainedConstructiveOptimization.pointLoop K G.counted.tree f
        (G.point, G.domain, G.distanceCriterion, 0) = some (point, d, c, a)) ∧
      (∀ f G', f0 ≤ f → ConstrainedConstructiveOptimization.growStep K M f G = some G' →
        G'.point = point ∧ G.vicinity.atPoint M f G.counted.tree point = some G'.vicinity) ∧
      ((K.hasAvailablePoint G.domain = false ∧ point = G.point) ∨
        ∃ d0 c0, K.hasAvailablePoint d0 = true ∧ K.point d0 = (point, d) ∧
          ((K.distanceCriterionEval c0 G.counted.tree point = true ∧ c = c0) ∨
            (K.distanceCriterionEval c0 G.counted.tree point = false ∧
              K.hasAvailablePoint d = false))) := by
  obtain ⟨r, hrun, hr⟩ := ConstrainedConstructiveOptimization.pointLoop_spec K G.counted.tree μ
    hμ (μ G.domain) G.point G.domain G.distanceCriterion 0 (le_refl _)
  obtain ⟨point, d, c, a⟩ := r
  refine ⟨μ G.domain + 1, point, d, c, a, hrun, ?_, ?_⟩
  · intro f G' hf h
    exact ConstrainedConstructiveOptimization.growStep_point K M f G G' _ (hrun f hf) h
  · rcases hr with ⟨h1, h2⟩ | h
    · left
      refine ⟨h1, ?_⟩
      have := congrArg Prod.fst h2
      exact this
    · exact Or.inr h

/-! ## Drivers that differ in the domain and the distance criterion only -/

theorem SimpleOptimization.evaluate_congr {D C C' : Type} (K : Collaborators α D C)
    (K' : Collaborators α D C') (hp : K'.passRestrictions = K.passRestrictions)
    (ht : K'.targetFunction = K.targetFunction) (d : D) (segment : Segment α) (x : Point α)
    (S : Search α) :
    SimpleOptimization.evaluate K' d segment x S = SimpleOptimization.evaluate K d segment x S := by
  simp only [SimpleOptimization.evaluate, hp, ht]

theorem SimpleOptimization.columnLoop_congr {D C C' : Type} (K : Collaborators α D C)
    (K' : Collaborators α D C') (hp : K'.passRestrictions = K.passRestrictions)
    (ht : K'.targetFunction = K.targetFunction) (hd : K'.domainDimension = K.domainDimension)
    (M : CMath α) (fuel : Nat) (d : D) (segment : Segment α) (Xi Xnew Xj : Point α) (step : α)
    (numberOfPoints line : Int) :
    ∀ (cols : List Int) (S : Search α),
      SimpleOptimization.columnLoop K' M fuel d segment Xi Xnew Xj step numberOfPoints line
        cols S =
      SimpleOptimization.columnLoop K M fuel d segment Xi Xnew Xj step numberOfPoints line
        cols S := by
  intro cols
  induction cols with
  | nil => intro S; rfl
  | cons c rest ih =>
    intro S
    simp only [SimpleOptimization.columnLoop, hd]
    cases Tree.moveDistalPoint M fuel S.tree segment.ID
        (SimpleOptimization.map (K.domainDimension d) Xi Xnew Xj (((c - 1 : Int) : α) * step)
          (((numberOfPoints - line : Int) : α) * step)) with
    | none => rfl
    | some t =>
      simp only []
      rw [SimpleOptimization.evaluate_congr K K' hp ht, ih]

theorem SimpleOptimization.lineLoop_congr {D C C' : Type} (K : Collaborators α D C)
    (K' : Collaborators α D C') (hp : K'.passRestrictions = K.passRestrictions)
    (ht : K'.targetFunction = K.targetFunction) (hd : K'.domainDimension = K.domainDimension)
    (M : CMath α) (fuel : Nat) (d : D) (segment : Segment α) (Xi Xnew Xj : Point α) (step : α)
    (numberOfPoints : Int) :
    ∀ (lines : List Int) (S : Search α),
      SimpleOptimization.lineLoop K' M fuel d segment Xi Xnew Xj step numberOfPoints lines S =
      SimpleOptimization.lineLoop K M fuel d segment Xi Xnew Xj step numberOfPoints lines S := by
  intro lines
  induction lines with
  | nil => intro S; rfl
  | cons l rest ih =>
    intro S
    simp only [SimpleOptimization.lineLoop]
    rw [SimpleOptimization.columnLoop_congr K K' hp ht hd]
    cases SimpleOptimization.columnLoop K M fuel d segment Xi Xnew Xj step numberOfPoints l
        ((indices l).map (fun k => k + 1)) S with
    | none => rfl
    | some S1 => exact ih S1

theorem SimpleOptimization.bifurcation_congr {D C C' : Type} (K : Collaborators α D C)
    (K' : Collaborators α D C') (hp : K'.passRestrictions = K.passRestrictions)
    (ht : K'.targetFunction = K.targetFunction) (hd : K'.domainDimension = K.domainDimension)
    (hi : K'.intervalDivision = K.intervalDivision)
    (hv : K'.indeterminateValue = K.indeterminateValue)
    (hid : K'.indeterminateID = K.indeterminateID)
    (M : CMath α) (fuel : Nat) (d : D) (t : Tree α) (segment : Segment α) :
    SimpleOptimization.bifurcation K' M fuel d t segment =
      SimpleOptimization.bifurcation K M fuel d t segment := by
  simp only [SimpleOptimization.bifurcation, hd, hi, hv, hid,
    SimpleOptimization.lineLoop_congr K K' hp ht hd]

theorem ConstrainedConstructiveOptimization.connectLoop_congr {D C C' : Type}
    (K : Collaborators α D C)
    (K' : Collaborators α D C') (hp : K'.passRestrictions = K.passRestrictions)
    (ht : K'.targetFunction = K.targetFunction) (hd : K'.domainDimension = K.domainDimension)
    (hi : K'.intervalDivision = K.intervalDivision)
    (hv : K'.indeterminateValue = K.indeterminateValue)
    (hid : K'.indeterminateID = K.indeterminateID)
    (hf : K'.terminalFlowFunction = K.terminalFlowFunction)
    (M : CMath α) (fuel : Nat) (d : D) (point : Point α) (cs : Int → Int) :
    ∀ (is : List Int) (r : Counted α × Segment α × ConnectionEvaluationTable α),
      ConstrainedConstructiveOptimization.connectLoop K' M fuel d point cs is r =
      ConstrainedConstructiveOptimization.connectLoop K M fuel d point cs is r := by
  intro is
  induction is with
  | nil => intro r; rfl
  | cons i rest ih =>
    intro r
    obtain ⟨s, newSegment, T⟩ := r
    simp only [ConstrainedConstructiveOptimization.connectLoop,
      ConstrainedConstructiveOptimization.candidate, hf,
      SimpleOptimization.bifurcation_congr K K' hp ht hd hi hv hid, ih]

theorem ConnectionEvaluationTable.reduceLoop_congr {D C C' : Type} (K : Collaborators α D C)
    (K' : Collaborators α D C') (hw : K'.withoutIntersection = K.withoutIntersection)
    (M : CMath α) (fuel : Nat) :
    ∀ (is : List Int) (T : ConnectionEvaluationTable α) (s : Counted α),
      ConnectionEvaluationTable.reduceLoop K' M fuel is T s =
      ConnectionEvaluationTable.reduceLoop K M fuel is T s := by
  intro is
  induction is with
  | nil => intro T s; rfl
  | cons i rest ih =>
    intro T s
    simp only [ConnectionEvaluationTable.reduceLoop, hw, ih]

theorem ConnectionEvaluationTable.reduce_congr {D C C' : Type} (K : Collaborators α D C)
    (K' : Collaborators α D C') (hw : K'.withoutIntersection = K.withoutIntersection)
    (M : CMath α) (fuel : Nat) (T : ConnectionEvaluationTable α) (s : Counted α) :
    T.reduce K' M fuel s = T.reduce K M fuel s := by
  simp only [ConnectionEvaluationTable.reduce,
    ConnectionEvaluationTable.reduceLoop_congr K K' hw]

/-! ## A round of `grow` that uses a rejected point -/

/-- The sampling loop under the rejecting driver of the example with one point left in the
domain: the point is rejected and returned. -/
theorem exampleRejectingPointLoop (N : Int) (t : Tree α) (point : Point α) (c : Nat) (f : Nat)
    (hf : 2 ≤ f) :
    ConstrainedConstructiveOptimization.pointLoop (exampleRejectingDriver N) t f
      (point, 4, c, 0) = some (⟨2, (((4 : ℕ) : α) + 1) / 100, 0, 0⟩, 5, c, 1) := by
  obtain ⟨m, rfl⟩ : ∃ m, f = m + 2 := ⟨f - 2, by omega⟩
  simp [ConstrainedConstructiveOptimization.pointLoop, exampleRejectingDriver]

/-- One pass of the loop of `grow` under the rejecting driver of the example, on a reachable
tree that is only a root, with one point left in the domain: the point is rejected, the domain
is reset, and a terminal is added at the rejected point. -/
theorem exampleRejectingGrowStep (M : CMath α) (N : Int) (G : Grow α Nat Nat)
    (hR : Reach M G.counted.tree) (hc : G.counted.tree.currentNumberOfSegments = 1)
    (hd : G.domain = 4) (hv : G.vicinity.numberOfConnections = 1)
    (hT : G.connectionEvaluationTable.numberOfConnections = 1)
    (hT0 : G.connectionEvaluationTable.currentNumberOfConnections = 0) :
    ∃ f0, ∀ f, f0 ≤ f → ∃ G',
      ConstrainedConstructiveOptimization.growStep (exampleRejectingDriver N) M f G = some G' ∧
      G'.Kterm = G.Kterm + 1 ∧ G'.domain = 0 := by
  obtain ⟨v', hv1, hv2, hv3, hv4⟩ := exampleAtPoint M hc G.vicinity hv
    (⟨2, (((4 : ℕ) : α) + 1) / 100, 0, 0⟩ : Point α)
  have hl0 : G.counted.tree.live (v'.closestSegments 0) := by
    rw [hv2]; simp only [Tree.live, hc]; omega
  obtain ⟨f1, t1, ns, conn, h1, hR1, c1, c1', k1, k2, k3⟩ := exampleConnect M N 0
    G.counted hR (⟨2, (((4 : ℕ) : α) + 1) / 100, 0, 0⟩ : Point α) G.newSegment
    G.connectionEvaluationTable v'.closestSegments 0 hl0
  obtain ⟨a1, a2, a3⟩ := exampleAdd G.connectionEvaluationTable hT hT0 conn
  have hl1 : t1.live ((G.connectionEvaluationTable.add conn).connections 0).bifurcationSegmentID := by
    rw [a2, k1, hv2]; simp only [Tree.live, c1, hc]; omega
  obtain ⟨f2, t2, T2, h2, hR2, c2, c2', b1, b2, b3, b4⟩ := exampleReduce M N
    { tree := t1, growSegmentCalls := G.counted.growSegmentCalls + 1,
      removeCalls := G.counted.removeCalls + 1 } hR1
    (G.connectionEvaluationTable.add conn) a1 hl1 (by rw [a2, k3, k1])
  have hconn0 : T2.connections 0 = conn := by rw [b1, a2]
  have ho : T2.optimalReasonableConnection
      (exampleRejectingDriver N : Collaborators α Nat Nat).indeterminateID = conn := by
    rw [exampleOptimal T2 _ b2 b3 (by rw [hconn0]; exact k2), hconn0]
  have hl2 : t2.live (T2.optimalReasonableConnection
      (exampleRejectingDriver N : Collaborators α Nat Nat).indeterminateID).bifurcationSegmentID := by
    rw [ho, k1, hv2]; simp only [Tree.live, c2, c1, hc]; omega
  obtain ⟨f3, r3, h3, -⟩ := growSegment_total_tail hR2 hl2
    (T2.optimalReasonableConnection
      (exampleRejectingDriver N : Collaborators α Nat Nat).indeterminateID).bifurcationPoint
    (T2.optimalReasonableConnection
      (exampleRejectingDriver N : Collaborators α Nat Nat).indeterminateID).newSegment
  refine ⟨max (max 2 f1) (max f2 f3), fun f hf => ?_⟩
  have g0 := @exampleRejectingPointLoop α _ N G.counted.tree G.point
    G.distanceCriterion f (le_trans (le_trans (le_max_left _ _) (le_max_left _ _)) hf)
  have g1 := hv1 f (le_trans (by omega : 1 ≤ 2)
    (le_trans (le_trans (le_max_left _ _) (le_max_left _ _)) hf))
  have g2 := h1 f (le_trans (le_trans (le_max_right _ _) (le_max_left _ _)) hf)
  have g3 := h2 f (le_trans (le_trans (le_max_left _ _) (le_max_right _ _)) hf)
  have g4 := h3 f (le_trans (le_trans (le_max_right _ _) (le_max_right _ _)) hf)
  rw [← ConstrainedConstructiveOptimization.connectLoop_congr (exampleDriver N)
    (exampleRejectingDriver N) rfl rfl rfl rfl rfl rfl rfl] at g2
  rw [← ConnectionEvaluationTable.reduce_congr (exampleDriver N)
    (exampleRejectingDriver N) rfl] at g3
  simp only [ConstrainedConstructiveOptimization.growStep]
  rw [hd, g0]
  have hdom : (if (!(exampleRejectingDriver N : Collaborators α Nat Nat).hasAvailablePoint
      5) = true then
        (exampleRejectingDriver N : Collaborators α Nat Nat).reset 5
      else 5) = 0 := by
    simp [exampleRejectingDriver]
  simp only [hdom]
  rw [g1]
  simp only [hv3, indices_one]
  rw [g2]
  simp only []
  rw [g3]
  have hpos : T2.currentNumberOfReasonableConnections > 0 := by rw [b2]; decide
  simp only [hpos, if_true, Counted.growSegment, g4]
  exact ⟨_, rfl, rfl, rfl⟩

/-- The point that is used under the example driver, over the real numbers, for the round
that starts on the root of the example with the second point of the domain. -/
theorem grow_point_sampled_witness :
    (∀ d : Nat, (exampleDriver 2 : Collaborators ℝ Nat Unit).hasAvailablePoint d = true →
      5 - ((exampleDriver 2 : Collaborators ℝ Nat Unit).point d).2 < 5 - d) ∧
    ∃ f0 point d c a,
      (∀ f, f0 ≤ f → ConstrainedConstructiveOptimization.pointLoop (exampleDriver 2)
        (exampleRoot realMath) f (Point.ofDimension 2, 1, (), 0) = some (point, d, c, a)) ∧
      (∀ f G', f0 ≤ f →
        ConstrainedConstructiveOptimization.growStep (exampleDriver 2) realMath f
          (ConstrainedConstructiveOptimization.growStart (exampleDriver 2) (exampleRoot realMath)
            1 () exampleUninitialised) = some G' →
        G'.point = point ∧
        (ConstrainedConstructiveOptimization.growStart (exampleDriver 2) (exampleRoot realMath)
          1 () exampleUninitialised).vicinity.atPoint realMath f (exampleRoot realMath) point =
          some G'.vicinity) ∧
      (((exampleDriver 2 : Collaborators ℝ Nat Unit).hasAvailablePoint 1 = false ∧
          point = Point.ofDimension 2) ∨
        ∃ d0 c0, (exampleDriver 2 : Collaborators ℝ Nat Unit).hasAvailablePoint d0 = true ∧
          (exampleDriver 2 : Collaborators ℝ Nat Unit).point d0 = (point, d) ∧
          (((exampleDriver 2 : Collaborators ℝ Nat Unit).distanceCriterionEval c0
              (exampleRoot realMath) point = true ∧ c = c0) ∨
            ((exampleDriver 2 : Collaborators ℝ Nat Unit).distanceCriterionEval c0
              (exampleRoot realMath) point = false ∧
              (exampleDriver 2 : Collaborators ℝ Nat Unit).hasAvailablePoint d = false))) := by
  have hμ : ∀ d : Nat, (exampleDriver 2 : Collaborators ℝ Nat Unit).hasAvailablePoint d = true →
      5 - ((exampleDriver 2 : Collaborators ℝ Nat Unit).point d).2 < 5 - d := by
    intro d hd
    have h5 : d < 5 := by simpa [exampleDriver] using hd
    show 5 - (d + 1) < 5 - d
    omega
  exact ⟨hμ, grow_point_sampled (exampleDriver 2 : Collaborators ℝ Nat Unit) realMath
    (fun d => 5 - d) hμ
    (ConstrainedConstructiveOptimization.growStart (exampleDriver 2) (exampleRoot realMath)
      1 () exampleUninitialised)⟩

/-- A round of `grow` under the rejecting driver of the example, over the real numbers, that
starts on the root of the example with one point left in the domain: the criterion returns
true for no point, the round returns, and the point that it hands to the vicinity search, and
keeps, is the last point of the domain, which the criterion rejected. -/
theorem grow_point_sampled_counterexample :
    (∀ c t p, (exampleRejectingDriver 2 : Collaborators ℝ Nat Nat).distanceCriterionEval c t p =
      false) ∧
    ∃ f0, ∀ f, f0 ≤ f → ∃ G',
      ConstrainedConstructiveOptimization.growStep (exampleRejectingDriver 2) realMath f
        (ConstrainedConstructiveOptimization.growStart (exampleRejectingDriver 2)
          (exampleRoot realMath) 4 0 exampleUninitialised) = some G' ∧
      G'.point = ⟨2, 5 / 100, 0, 0⟩ ∧
      (ConstrainedConstructiveOptimization.growStart (exampleRejectingDriver 2)
        (exampleRoot realMath) 4 0 exampleUninitialised).vicinity.atPoint realMath f
          (exampleRoot realMath) ⟨2, 5 / 100, 0, 0⟩ = some G'.vicinity := by
  refine ⟨fun _ _ _ => rfl, ?_⟩
  obtain ⟨f0, h0⟩ := exampleRejectingGrowStep realMath 2
    (ConstrainedConstructiveOptimization.growStart (exampleRejectingDriver 2)
      (exampleRoot realMath) 4 0 exampleUninitialised)
    (exampleRoot_reach realMath) rfl rfl rfl rfl rfl
  refine ⟨max f0 2, fun f hf => ?_⟩
  obtain ⟨G', hG, -⟩ := h0 f (le_trans (le_max_left _ _) hf)
  have hp := @exampleRejectingPointLoop ℝ _ 2 (exampleRoot realMath) (Point.ofDimension 2) 0 f
    (le_trans (le_max_right _ _) hf)
  have hq := ConstrainedConstructiveOptimization.growStep_point
    (exampleRejectingDriver 2 : Collaborators ℝ Nat Nat) realMath f _ G' _ hp hG
  have e : (⟨2, (((4 : ℕ) : ℝ) + 1) / 100, 0, 0⟩ : Point ℝ) = ⟨2, 5 / 100, 0, 0⟩ := by
    norm_num
  rw [e] at hq
  exact ⟨G', hG, hq.1, hq.2⟩

/-! ## The placement of the root on the last point of the domain -/

/-- The only point of the domain file of the example. -/
theorem exampleLastPointDomain_point :
    (exampleLastPointDomain : DomainFile ℝ).point =
      some (⟨2, 1 / 100, 0, 0⟩, { (exampleLastPointDomain : DomainFile ℝ) with _currentPoint := 1 }) := by
  simp [DomainFile.point, DomainFile.hasAvailablePoint, DomainFile.pointCoordinate,
    exampleLastPointDomain, Point.ofDimension]

/-- C27, the code at the failing input: the domain file of the example holds one point,
`(1/100, 0)`, which lies within the supporting radius of the seed of the tree of the example
for two terminals. The loop of `ConstrainedConstructiveOptimization::growRoot` takes this
point and leaves the loop with it (`break`), the domain has no point left, and `growRoot`
throws (the result is `none` for every fuel, although the loop returns with fuel 1). -/
theorem growRoot_last_point :
    (exampleLastPointDomain : DomainFile ℝ).hasAvailablePoint = true ∧
    ((exampleFileDriver 2 : Collaborators ℝ (DomainFile ℝ) Unit).point
      exampleLastPointDomain).1 = ⟨2, 1 / 100, 0, 0⟩ ∧
    distance realMath 2 ⟨2, 1 / 100, 0, 0⟩ (exampleTreeFor 2 : Tree ℝ).seed <
      realMath.sqrt ((exampleTreeFor 2 : Tree ℝ).perfusionVolume /
        (realMath.pi * (((exampleTreeFor 2 : Tree ℝ).numberOfTerminals : Int) : ℝ))) ∧
    (∀ f, 1 ≤ f →
      ConstrainedConstructiveOptimization.rootPointLoop (exampleFileDriver 2) realMath 2
        (exampleTreeFor 2 : Tree ℝ).seed
        (realMath.sqrt ((exampleTreeFor 2 : Tree ℝ).perfusionVolume /
          (realMath.pi * (((exampleTreeFor 2 : Tree ℝ).numberOfTerminals : Int) : ℝ))))
        f (Point.default, exampleLastPointDomain) =
      some (⟨2, 1 / 100, 0, 0⟩,
        { (exampleLastPointDomain : DomainFile ℝ) with _currentPoint := 1 })) ∧
    (exampleFileDriver 2 : Collaborators ℝ (DomainFile ℝ) Unit).hasAvailablePoint
      { (exampleLastPointDomain : DomainFile ℝ) with _currentPoint := 1 } = false ∧
    ∀ f, ConstrainedConstructiveOptimization.growRoot (exampleFileDriver 2) realMath f
      (exampleTreeFor 2) exampleLastPointDomain () = none := by
  have hav : (exampleLastPointDomain : DomainFile ℝ).hasAvailablePoint = true := by
    simp [DomainFile.hasAvailablePoint, exampleLastPointDomain]
  have hpt : (exampleFileDriver 2 : Collaborators ℝ (DomainFile ℝ) Unit).point
      exampleLastPointDomain = (⟨2, 1 / 100, 0, 0⟩,
        { (exampleLastPointDomain : DomainFile ℝ) with _currentPoint := 1 }) := by
    show ((exampleLastPointDomain : DomainFile ℝ).point).getD
      (Point.ofDimension (exampleLastPointDomain : DomainFile ℝ).dimension,
        exampleLastPointDomain) = _
    rw [exampleLastPointDomain_point]
    rfl
  have hdist : distance realMath 2 ⟨2, 1 / 100, 0, 0⟩ (exampleTreeFor 2 : Tree ℝ).seed <
      realMath.sqrt ((exampleTreeFor 2 : Tree ℝ).perfusionVolume /
        (realMath.pi * (((exampleTreeFor 2 : Tree ℝ).numberOfTerminals : Int) : ℝ))) := by
    have h := exampleDriver_root_accept_two
    have e1 : (⟨2, ((0 : ℕ) + 1 : ℝ) / 100, 0, 0⟩ : Point ℝ) = ⟨2, 1 / 100, 0, 0⟩ := by
      norm_num
    rw [e1] at h
    have e2 : (exampleTreeFor 2 : Tree ℝ).perfusionVolume = 25 / 10000 := by
      simp [exampleTreeFor, Tree.construct]
    rw [e2]
    exact h
  have hno : (exampleFileDriver 2 : Collaborators ℝ (DomainFile ℝ) Unit).hasAvailablePoint
      { (exampleLastPointDomain : DomainFile ℝ) with _currentPoint := 1 } = false := by
    simp [exampleFileDriver, DomainFile.hasAvailablePoint, exampleLastPointDomain]
  have hloop : ∀ f, 1 ≤ f →
      ConstrainedConstructiveOptimization.rootPointLoop (exampleFileDriver 2) realMath 2
        (exampleTreeFor 2 : Tree ℝ).seed
        (realMath.sqrt ((exampleTreeFor 2 : Tree ℝ).perfusionVolume /
          (realMath.pi * (((exampleTreeFor 2 : Tree ℝ).numberOfTerminals : Int) : ℝ))))
        f (Point.default, exampleLastPointDomain) =
      some (⟨2, 1 / 100, 0, 0⟩,
        { (exampleLastPointDomain : DomainFile ℝ) with _currentPoint := 1 }) := by
    intro f hf
    obtain ⟨m, rfl⟩ : ∃ m, f = m + 1 := ⟨f - 1, by omega⟩
    have hav' : (exampleFileDriver 2 : Collaborators ℝ (DomainFile ℝ) Unit).hasAvailablePoint
        exampleLastPointDomain = true := hav
    simp only [ConstrainedConstructiveOptimization.rootPointLoop, hav', if_true, hpt]
    rw [if_pos hdist]
  refine ⟨hav, by rw [hpt], hdist, hloop, hno, ?_⟩
  intro f
  have hdim : (exampleTreeFor 2 : Tree ℝ).dimension = 2 := rfl
  cases f with
  | zero =>
    simp [ConstrainedConstructiveOptimization.growRoot,
      ConstrainedConstructiveOptimization.rootPointLoop]
  | succ m =>
    have h := hloop (m + 1) (by omega)
    simp only [ConstrainedConstructiveOptimization.growRoot, hdim, if_true]
    rw [h]
    simp only [hno]
    rfl

/-! ## The choice of the tree for the commit in the forest drivers -/

/-- A connection applied with `growSegment` and undone with `remove` of its stale segment
value: both calls return, on every reachable tree, and the tree they leave is reachable and
has as many segments as the tree before. -/
theorem growSegment_remove_total_up {M : CMath α} {t : Tree α} (hR : Reach M t)
    {p : Int} (hp : t.live p) (b : Point α) {c : Segment α} (hc : c.up = p) :
    ∃ f0 r1 r2, (∀ f, f0 ≤ f → growSegment M f b (t.segments p) c t = some r1 ∧
        remove M f r1.2 c = some r2) ∧
      Reach M r1.2 ∧ Reach M r2.2 ∧
      r2.2.currentNumberOfSegments = t.currentNumberOfSegments := by
  obtain ⟨f1, r1, h1, hR1, hid, hT1, c1, c1'⟩ := growSegment_total_tail hR hp b c
  obtain ⟨f3, r2, h3, hR2, c3, c3'⟩ := remove_total_tail hR1 hT1 hc
  refine ⟨max f1 f3, r1, r2, fun f hf => ⟨h1 f (le_trans (le_max_left _ _) hf),
    h3 f (le_trans (le_max_right _ _) hf)⟩, hR1, hR2, ?_⟩
  rw [c3, c1]
  ring

/-- The loop of `reduce` returns on a reachable tree, for connections that attach to live
segments, and the tree it leaves is reachable and has as many segments as the tree before. -/
theorem ConnectionEvaluationTable.reduceLoop_total {D C : Type} (K : Collaborators α D C)
    (M : CMath α) :
    ∀ (is : List Int) (T : ConnectionEvaluationTable α) (s : Counted α),
      Reach M s.tree →
      (∀ i ∈ is, s.tree.live (T.connections i).bifurcationSegmentID ∧
        (T.connections i).newSegment.up = (T.connections i).bifurcationSegmentID) →
      ∃ f0 T' s',
        (∀ f, f0 ≤ f → ConnectionEvaluationTable.reduceLoop K M f is T s = some (T', s')) ∧
        Reach M s'.tree ∧
        s'.tree.currentNumberOfSegments = s.tree.currentNumberOfSegments := by
  intro is
  induction is with
  | nil =>
    intro T s hR hc
    exact ⟨0, T, s, fun f _ => rfl, hR, rfl⟩
  | cons i rest ih =>
    intro T s hR hc
    obtain ⟨hp, hup⟩ := hc i (List.mem_cons_self _ _)
    obtain ⟨f1, r1, r2, h1, hR1, hR2, hcur⟩ :=
      growSegment_remove_total_up hR hp (T.connections i).bifurcationPoint hup
    obtain ⟨T1, hT1⟩ : ∃ T1 : ConnectionEvaluationTable α, T1 =
        if K.withoutIntersection r1.2 r1.1 then
          { T with
            reasonableConnections :=
              (Function.update T.reasonableConnections T.currentNumberOfReasonableConnections i)
            currentNumberOfReasonableConnections :=
              T.currentNumberOfReasonableConnections + 1 }
        else T := ⟨_, rfl⟩
    have hT1c : T1.connections = T.connections := by
      rw [hT1]; split_ifs <;> rfl
    obtain ⟨f2, T', s', h2, a1, a2⟩ := ih T1
      { tree := r2.2, growSegmentCalls := s.growSegmentCalls + 1,
        removeCalls := s.removeCalls + 1 }
      hR2
      (by
        intro j hj
        rw [hT1c]
        obtain ⟨q1, q2⟩ := hc j (List.mem_cons_of_mem _ hj)
        refine ⟨?_, q2⟩
        simp only [Tree.live] at q1 ⊢
        rw [hcur]
        exact q1)
    refine ⟨max f1 f2, T', s', fun f hf => ?_, a1, a2.trans hcur⟩
    obtain ⟨g1, g2⟩ := h1 f (le_trans (le_max_left _ _) hf)
    have g3 := h2 f (le_trans (le_max_right _ _) hf)
    rw [ConnectionEvaluationTable.reduceLoop]
    simp only [Counted.growSegment, g1, Counted.remove, g2]
    rw [← hT1]
    exact g3

/-- `ConnectionEvaluationTable::reduce` returns on a reachable tree and a table whose
connections attach to live segments, and it leaves the tree reachable. -/
theorem ConnectionEvaluationTable.reduce_total {D C : Type} (K : Collaborators α D C)
    (M : CMath α) (T : ConnectionEvaluationTable α) (s : Counted α) (hR : Reach M s.tree)
    (hc : ∀ i, 0 ≤ i → i < T.currentNumberOfConnections →
      s.tree.live (T.connections i).bifurcationSegmentID ∧
      (T.connections i).newSegment.up = (T.connections i).bifurcationSegmentID) :
    ∃ f0 T' s', (∀ f, f0 ≤ f → T.reduce K M f s = some (T', s')) ∧ Reach M s'.tree := by
  obtain ⟨f0, T', s', h, a1, -⟩ :=
    ConnectionEvaluationTable.reduceLoop_total K M (indices T.currentNumberOfConnections)
      { T with currentNumberOfReasonableConnections := 0 } s hR
      (fun i hi => hc i (mem_indices.mp hi).1 (mem_indices.mp hi).2)
  exact ⟨f0, T', s', h, a1⟩

namespace ForestCcoInvasion

/-- The loop that adds up the target functions of the other trees computes a sum. -/
theorem valueLoop_sum (targetFunction : Int → Tree α → α) (trees : Int → Counted α) (t : Int) :
    ∀ (is : List Int) (value : α),
      valueLoop targetFunction trees t is value =
        value + ((is.filter (fun i => decide (i ≠ t))).map
          (fun i => targetFunction i (trees i).tree)).sum := by
  intro is
  induction is with
  | nil => intro value; simp [valueLoop]
  | cons i rest ih =>
    intro value
    by_cases h : i ≠ t
    · simp only [valueLoop, h, if_true, ne_eq, not_false_eq_true, decide_True,
        List.filter_cons_of_pos, List.map_cons, List.sum_cons]
      rw [ih, add_assoc]
    · have h' : i = t := not_not.mp h
      simp only [valueLoop, h, if_false, ne_eq, h', not_true_eq_false, decide_False,
        Bool.false_eq_true, not_false_eq_true, List.filter_cons_of_neg]
      rw [ih]

/-- The value that the loop over the trees computes for the tree `t`, when the trees up to
`t` are in the state `after` and the trees after `t` are in the state `before`. -/
theorem valueLoop_othersCost (targetFunction : Int → Tree α → α) (numberOfTrees : Int)
    (before after cur : Int → Counted α) (t : Int)
    (h : ∀ i, cur i = if i ≤ t then after i else before i) :
    valueLoop targetFunction cur t (indices numberOfTrees) 0 =
      othersCost targetFunction numberOfTrees before after t := by
  rw [valueLoop_sum, zero_add]
  unfold othersCost treesAt
  congr 1
  apply List.map_congr_left
  intro i _
  rw [h i]

/-- The loop over the trees, from the tree `lo` on: it returns when `reduce` returns for each
tree, it leaves each tree and each table as `reduce` leaves them, and the tree it chooses is
the first one, among the trees with a reasonable connection, whose combined cost is below the
running minimum and the least. -/
theorem selectLoop_spec {D C : Type} (K : Collaborators α D C)
    (targetFunction : Int → Tree α → α) (M : CMath α) (numberOfTrees : Int)
    (trees after : Int → Counted α)
    (tables reduced : Int → ConnectionEvaluationTable α) (F : Int → Nat)
    (hF : ∀ t, 0 ≤ t → t < numberOfTrees → ∀ f, F t ≤ f →
      (tables t).reduce K M f (trees t) = some (reduced t, after t))
    (hout : ∀ t, ¬ (0 ≤ t ∧ t < numberOfTrees) → reduced t = tables t ∧ after t = trees t) :
    ∀ (ts : List Int) (lo : Int) (S : Selection α), 0 ≤ lo → lo ≤ numberOfTrees →
      ts.Pairwise (fun a b => a < b) → (∀ i, i ∈ ts ↔ lo ≤ i ∧ i < numberOfTrees) →
      (∀ i, S.trees i = if i < lo then after i else trees i) →
      (∀ i, S.connectionEvaluationTable i = if i < lo then reduced i else tables i) →
      ∃ S', (∀ f, (∀ t ∈ ts, F t ≤ f) →
          selectLoop K targetFunction M f numberOfTrees ts S = some S') ∧
        (∀ i, S'.trees i = after i) ∧ (∀ i, S'.connectionEvaluationTable i = reduced i) ∧
        ((S'.treeID = S.treeID ∧ S'.targetFunctionValue = S.targetFunctionValue ∧
            ∀ t ∈ ts, 0 < (reduced t).currentNumberOfReasonableConnections →
              S.targetFunctionValue ≤
                ((reduced t).optimalReasonableConnection K.indeterminateID).targetFunctionValue +
                  othersCost targetFunction numberOfTrees trees after t) ∨
          ∃ pre t post, ts = pre ++ t :: post ∧
            0 < (reduced t).currentNumberOfReasonableConnections ∧
            S'.treeID = t ∧
            S'.targetFunctionValue =
              ((reduced t).optimalReasonableConnection K.indeterminateID).targetFunctionValue +
                othersCost targetFunction numberOfTrees trees after t ∧
            S'.targetFunctionValue < S.targetFunctionValue ∧
            (∀ j ∈ pre, 0 < (reduced j).currentNumberOfReasonableConnections →
              S'.targetFunctionValue <
                ((reduced j).optimalReasonableConnection K.indeterminateID).targetFunctionValue +
                  othersCost targetFunction numberOfTrees trees after j) ∧
            (∀ j ∈ post, 0 < (reduced j).currentNumberOfReasonableConnections →
              S'.targetFunctionValue ≤
                ((reduced j).optimalReasonableConnection K.indeterminateID).targetFunctionValue +
                  othersCost targetFunction numberOfTrees trees after j)) := by
  intro ts
  induction ts with
  | nil =>
    intro lo S hlo0 hlo _ hts hT hC
    have hlon : lo = numberOfTrees := by
      by_contra hne
      have : lo ∈ ([] : List Int) := (hts lo).mpr ⟨le_refl _, by omega⟩
      exact absurd this (List.not_mem_nil _)
    refine ⟨S, fun f _ => rfl, ?_, ?_, Or.inl ⟨rfl, rfl, fun t ht => absurd ht (List.not_mem_nil _)⟩⟩
    · intro i
      rw [hT i]
      split_ifs with h
      · rfl
      · exact ((hout i (by omega)).2).symm
    · intro i
      rw [hC i]
      split_ifs with h
      · rfl
      · exact ((hout i (by omega)).1).symm
  | cons t rest ih =>
    intro lo S hlo0 hlo hpw hts hT hC
    have htmem := (hts t).mp (List.mem_cons_self _ _)
    have hrest_gt : ∀ j ∈ rest, t < j := (List.pairwise_cons.mp hpw).1
    have htlo : t = lo := by
      have hl : lo ∈ t :: rest := (hts lo).mpr ⟨le_refl _, by omega⟩
      rcases List.mem_cons.mp hl with h | h
      · exact h.symm
      · have := hrest_gt lo h
        omega
    subst htlo
    have hTt : S.trees t = trees t := by rw [hT t, if_neg (lt_irrefl _)]
    have hCt : S.connectionEvaluationTable t = tables t := by
      rw [hC t, if_neg (lt_irrefl _)]
    have hts' : ∀ i, i ∈ rest ↔ t + 1 ≤ i ∧ i < numberOfTrees := by
      intro i
      constructor
      · intro hi
        have h1 := hrest_gt i hi
        have h2 := (hts i).mp (List.mem_cons_of_mem _ hi)
        omega
      · rintro ⟨h1, h2⟩
        have := (hts i).mpr ⟨by omega, h2⟩
        rcases List.mem_cons.mp this with h | h
        · omega
        · exact h
    have hT1 : ∀ i, Function.update S.trees t (after t) i =
        if i < t + 1 then after i else trees i := by
      intro i
      by_cases hi : i = t
      · subst hi
        rw [Function.update_same, if_pos (by omega)]
      · rw [Function.update_noteq hi, hT i]
        by_cases h2 : i < t
        · rw [if_pos h2, if_pos (by omega)]
        · rw [if_neg h2, if_neg (by omega)]
    have hC1 : ∀ i, Function.update S.connectionEvaluationTable t (reduced t) i =
        if i < t + 1 then reduced i else tables i := by
      intro i
      by_cases hi : i = t
      · subst hi
        rw [Function.update_same, if_pos (by omega)]
      · rw [Function.update_noteq hi, hC i]
        by_cases h2 : i < t
        · rw [if_pos h2, if_pos (by omega)]
        · rw [if_neg h2, if_neg (by omega)]
    have hval : valueLoop targetFunction (Function.update S.trees t (after t)) t
        (indices numberOfTrees) 0 = othersCost targetFunction numberOfTrees trees after t := by
      apply valueLoop_othersCost
      intro i
      rw [hT1 i]
      by_cases h2 : i ≤ t
      · rw [if_pos h2, if_pos (by omega)]
      · rw [if_neg h2, if_neg (by omega)]
    -- the three ways the body of the loop can go
    by_cases hpos : 0 < (reduced t).currentNumberOfReasonableConnections
    · by_cases hlt : ((reduced t).optimalReasonableConnection K.indeterminateID).targetFunctionValue +
          othersCost targetFunction numberOfTrees trees after t < S.targetFunctionValue
      · obtain ⟨S', hrun, e1, e2, hsel⟩ := ih (t + 1)
          { trees := Function.update S.trees t (after t)
            connectionEvaluationTable := Function.update S.connectionEvaluationTable t (reduced t)
            treeID := t
            targetFunctionValue :=
              ((reduced t).optimalReasonableConnection K.indeterminateID).targetFunctionValue +
                othersCost targetFunction numberOfTrees trees after t }
          (by omega) (by omega) (List.pairwise_cons.mp hpw).2 hts' hT1 hC1
        refine ⟨S', ?_, e1, e2, ?_⟩
        · intro f hf
          have hred := hF t hlo0 htmem.2 f (hf t (List.mem_cons_self _ _))
          simp only [selectLoop, hTt, hCt, hred]
          rw [if_pos (show (reduced t).currentNumberOfReasonableConnections > 0 from hpos)]
          simp only [hval]
          rw [if_pos hlt]
          exact hrun f (fun j hj => hf j (List.mem_cons_of_mem _ hj))
        · rcases hsel with ⟨s1, s2, s3⟩ | ⟨pre, j, post, s1, s2, s3, s4, s5, s6, s7⟩
          · refine Or.inr ⟨[], t, rest, rfl, hpos, s1, s2, ?_, ?_, ?_⟩
            · rw [s2]; exact hlt
            · intro j hj; exact absurd hj (List.not_mem_nil _)
            · intro j hj hjp
              rw [s2]
              exact s3 j hj hjp
          · refine Or.inr ⟨t :: pre, j, post, by rw [s1]; rfl, s2, s3, s4, ?_, ?_, s7⟩
            · exact lt_trans s5 hlt
            · intro i hi hip
              rcases List.mem_cons.mp hi with rfl | hi
              · exact s5
              · exact s6 i hi hip
      · obtain ⟨S', hrun, e1, e2, hsel⟩ := ih (t + 1)
          { S with
            trees := Function.update S.trees t (after t)
            connectionEvaluationTable :=
              Function.update S.connectionEvaluationTable t (reduced t) }
          (by omega) (by omega) (List.pairwise_cons.mp hpw).2 hts' hT1 hC1
        refine ⟨S', ?_, e1, e2, ?_⟩
        · intro f hf
          have hred := hF t hlo0 htmem.2 f (hf t (List.mem_cons_self _ _))
          simp only [selectLoop, hTt, hCt, hred]
          rw [if_pos (show (reduced t).currentNumberOfReasonableConnections > 0 from hpos)]
          simp only [hval]
          rw [if_neg hlt]
          exact hrun f (fun j hj => hf j (List.mem_cons_of_mem _ hj))
        · rcases hsel with ⟨s1, s2, s3⟩ | ⟨pre, j, post, s1, s2, s3, s4, s5, s6, s7⟩
          · refine Or.inl ⟨s1, s2, ?_⟩
            intro j hj hjp
            rcases List.mem_cons.mp hj with rfl | hj
            · exact not_lt.mp hlt
            · exact s3 j hj hjp
          · refine Or.inr ⟨t :: pre, j, post, by rw [s1]; rfl, s2, s3, s4, s5, ?_, s7⟩
            intro i hi hip
            rcases List.mem_cons.mp hi with rfl | hi
            · exact lt_of_lt_of_le s5 (not_lt.mp hlt)
            · exact s6 i hi hip
    · obtain ⟨S', hrun, e1, e2, hsel⟩ := ih (t + 1)
        { S with
          trees := Function.update S.trees t (after t)
          connectionEvaluationTable :=
            Function.update S.connectionEvaluationTable t (reduced t) }
        (by omega) (by omega) (List.pairwise_cons.mp hpw).2 hts' hT1 hC1
      refine ⟨S', ?_, e1, e2, ?_⟩
      · intro f hf
        have hred := hF t hlo0 htmem.2 f (hf t (List.mem_cons_self _ _))
        simp only [selectLoop, hTt, hCt, hred]
        rw [if_neg (show ¬ (reduced t).currentNumberOfReasonableConnections > 0 from hpos)]
        exact hrun f (fun j hj => hf j (List.mem_cons_of_mem _ hj))
      · rcases hsel with ⟨s1, s2, s3⟩ | ⟨pre, j, post, s1, s2, s3, s4, s5, s6, s7⟩
        · refine Or.inl ⟨s1, s2, ?_⟩
          intro j hj hjp
          rcases List.mem_cons.mp hj with rfl | hj
          · exact absurd hjp hpos
          · exact s3 j hj hjp
        · refine Or.inr ⟨t :: pre, j, post, by rw [s1]; rfl, s2, s3, s4, s5, ?_, s7⟩
          intro i hi hip
          rcases List.mem_cons.mp hi with rfl | hi
          · exact absurd hip hpos
          · exact s6 i hi hip

end ForestCcoInvasion

theorem le_foldr_max (F : Int → Nat) :
    ∀ (l : List Int) (t : Int), t ∈ l → F t ≤ (l.map F).foldr max 0 := by
  intro l
  induction l with
  | nil => intro t ht; exact absurd ht (List.not_mem_nil _)
  | cons a rest ih =>
    intro t ht
    simp only [List.map_cons, List.foldr_cons]
    rcases List.mem_cons.mp ht with rfl | ht
    · exact le_max_left _ _
    · exact le_trans (ih t ht) (le_max_right _ _)

/-- The choice of the tree for the commit: the statements `treeID = -1; targetFunctionValue =
1.0e10;` and the loop over the trees return when every tree is reachable and the connections
of its table attach to live segments; each table is reduced, each tree stays reachable, and
the tree chosen is the first tree with the least combined cost among the trees with a
reasonable connection, when that cost is below `1e10`. -/
theorem ForestCcoInvasion.select_choice {D C : Type} (K : Collaborators α D C)
    (targetFunction : Int → Tree α → α) (M : CMath α) (numberOfTrees : Int)
    (hn : 0 ≤ numberOfTrees) (trees : Int → Counted α)
    (tables : Int → ConnectionEvaluationTable α)
    (hR : ∀ t, 0 ≤ t → t < numberOfTrees →
      Reach M (trees t).tree ∧
      ∀ i, 0 ≤ i → i < (tables t).currentNumberOfConnections →
        (trees t).tree.live ((tables t).connections i).bifurcationSegmentID ∧
        ((tables t).connections i).newSegment.up =
          ((tables t).connections i).bifurcationSegmentID) :
    ∃ f0 S', (∀ f, f0 ≤ f →
        ForestCcoInvasion.select K targetFunction M f numberOfTrees trees tables = some S') ∧
      (∀ t, 0 ≤ t → t < numberOfTrees → ∀ f, f0 ≤ f →
        (tables t).reduce K M f (trees t) =
          some (S'.connectionEvaluationTable t, S'.trees t)) ∧
      (∀ t, 0 ≤ t → t < numberOfTrees → Reach M (S'.trees t).tree) ∧
      ((S'.treeID = -1 ∧
          ∀ t, 0 ≤ t → t < numberOfTrees →
            0 < (S'.connectionEvaluationTable t).currentNumberOfReasonableConnections →
            10000000000 ≤
              ((S'.connectionEvaluationTable t).optimalReasonableConnection
                K.indeterminateID).targetFunctionValue +
                ForestCcoInvasion.othersCost targetFunction numberOfTrees trees S'.trees t) ∨
        (0 ≤ S'.treeID ∧ S'.treeID < numberOfTrees ∧
          0 < (S'.connectionEvaluationTable S'.treeID).currentNumberOfReasonableConnections ∧
          S'.targetFunctionValue =
            ((S'.connectionEvaluationTable S'.treeID).optimalReasonableConnection
              K.indeterminateID).targetFunctionValue +
              ForestCcoInvasion.othersCost targetFunction numberOfTrees trees S'.trees
                S'.treeID ∧
          S'.targetFunctionValue < 10000000000 ∧
          (∀ t, 0 ≤ t → t < numberOfTrees →
            0 < (S'.connectionEvaluationTable t).currentNumberOfReasonableConnections →
            S'.targetFunctionValue ≤
              ((S'.connectionEvaluationTable t).optimalReasonableConnection
                K.indeterminateID).targetFunctionValue +
                ForestCcoInvasion.othersCost targetFunction numberOfTrees trees S'.trees t) ∧
          (∀ t, 0 ≤ t → t < S'.treeID →
            0 < (S'.connectionEvaluationTable t).currentNumberOfReasonableConnections →
            S'.targetFunctionValue <
              ((S'.connectionEvaluationTable t).optimalReasonableConnection
                K.indeterminateID).targetFunctionValue +
                ForestCcoInvasion.othersCost targetFunction numberOfTrees trees S'.trees
                  t))) := by
  have htot : ∀ t, ∃ (f0 : Nat) (T' : ConnectionEvaluationTable α) (s' : Counted α),
      (0 ≤ t ∧ t < numberOfTrees →
        (∀ f, f0 ≤ f → (tables t).reduce K M f (trees t) = some (T', s')) ∧
        Reach M s'.tree) ∧
      (¬ (0 ≤ t ∧ t < numberOfTrees) → T' = tables t ∧ s' = trees t) := by
    intro t
    by_cases h : 0 ≤ t ∧ t < numberOfTrees
    · obtain ⟨r1, r4⟩ := hR t h.1 h.2
      obtain ⟨f0, T', s', h1, h3⟩ :=
        ConnectionEvaluationTable.reduce_total K M (tables t) (trees t) r1 r4
      exact ⟨f0, T', s', fun _ => ⟨h1, h3⟩, fun hn => absurd h hn⟩
    · exact ⟨0, tables t, trees t, fun h' => absurd h' h, fun _ => ⟨rfl, rfl⟩⟩
  choose F R A hFRA using htot
  have hF : ∀ t, 0 ≤ t → t < numberOfTrees → ∀ f, F t ≤ f →
      (tables t).reduce K M f (trees t) = some (R t, A t) :=
    fun t h1 h2 => ((hFRA t).1 ⟨h1, h2⟩).1
  have hout : ∀ t, ¬ (0 ≤ t ∧ t < numberOfTrees) → R t = tables t ∧ A t = trees t :=
    fun t h => (hFRA t).2 h
  obtain ⟨S', hrun, e1, e2, hsel⟩ := ForestCcoInvasion.selectLoop_spec K targetFunction M
    numberOfTrees trees A tables R F hF hout (indices numberOfTrees) 0
    { trees := trees, connectionEvaluationTable := tables, treeID := -1,
      targetFunctionValue := 10000000000 }
    (le_refl _) hn (indices_pairwise _) (fun i => mem_indices)
    (fun i => by
      by_cases h : i < 0
      · rw [if_pos h]; exact ((hout i (by omega)).2).symm
      · rw [if_neg h])
    (fun i => by
      by_cases h : i < 0
      · rw [if_pos h]; exact ((hout i (by omega)).1).symm
      · rw [if_neg h])
  have eT : S'.trees = A := funext e1
  have eC : S'.connectionEvaluationTable = R := funext e2
  have hf0 : ∀ f, ((indices numberOfTrees).map F).foldr max 0 ≤ f →
      ∀ t ∈ indices numberOfTrees, F t ≤ f :=
    fun f hf t ht => le_trans (le_foldr_max F _ t ht) hf
  refine ⟨((indices numberOfTrees).map F).foldr max 0, S', fun f hf => hrun f (hf0 f hf), ?_,
    ?_, ?_⟩
  · intro t h1 h2 f hf
    rw [eT, eC]
    exact hF t h1 h2 f (hf0 f hf t (mem_indices.mpr ⟨h1, h2⟩))
  · intro t h1 h2
    rw [eT]
    exact ((hFRA t).1 ⟨h1, h2⟩).2
  · rw [eT, eC]
    rcases hsel with ⟨s1, s2, s3⟩ | ⟨pre, t, post, s1, s2, s3, s4, s5, s6, s7⟩
    · left
      refine ⟨s1, ?_⟩
      intro t h1 h2 hp
      exact s3 t (mem_indices.mpr ⟨h1, h2⟩) hp
    · right
      have ht : t ∈ indices numberOfTrees := by
        rw [s1]
        exact List.mem_append_right _ (List.mem_cons_self _ _)
      have hpw := indices_pairwise numberOfTrees
      rw [s1, List.pairwise_append] at hpw
      obtain ⟨-, hpost, hpre⟩ := hpw
      have hsplit : ∀ j, 0 ≤ j → j < numberOfTrees → j ∈ pre ∨ j = t ∨ j ∈ post := by
        intro j hj hj'
        have : j ∈ indices numberOfTrees := mem_indices.mpr ⟨hj, hj'⟩
        rw [s1] at this
        rcases List.mem_append.mp this with h | h
        · exact Or.inl h
        · rcases List.mem_cons.mp h with h | h
          · exact Or.inr (Or.inl h)
          · exact Or.inr (Or.inr h)
      rw [s3]
      refine ⟨(mem_indices.mp ht).1, (mem_indices.mp ht).2, s2, ?_, s5, ?_, ?_⟩
      · exact s4
      · intro j hj hj' hp
        rcases hsplit j hj hj' with h | rfl | h
        · exact (s6 j h hp).le
        · exact s4.le
        · exact s7 j h hp
      · intro j hj hjt hp
        rcases hsplit j hj (lt_trans hjt (mem_indices.mp ht).2) with h | rfl | h
        · exact s6 j h hp
        · exact absurd hjt (lt_irrefl _)
        · have := (List.pairwise_cons.mp hpost).1 j h
          omega

/-- C28, amended: the forest commit choice. In each round of `ForestCcoInvasion::grow` (and of
the first stage of `CompetingOptimizedArterialTrees::grow`, whose loop is the same), on
reachable trees whose tables hold connections to live segments, the loop over the trees
returns; it reduces the table of each tree (the tree and the table after the loop are those
that `reduce` returns) and leaves each tree reachable; and the tree chosen for the commit is,
among the trees `t` that have at least one reasonable connection, the one minimising
(`targetFunctionValue` of `t`'s optimal reasonable connection + the sum over `i ≠ t` of
`targetFunction[i].eval()`, taken when the loop comes to `t`), the lowest index winning ties,
provided that this minimum is below `1e10`, the initial value of the running minimum: a commit
is attempted (`treeID ≥ 0`) exactly when some tree with a reasonable connection has a combined
cost below `1e10`, and `treeID` stays `-1` otherwise. -/
theorem forest_commit_choice {D C : Type} (K : Collaborators α D C)
    (targetFunction : Int → Tree α → α) (M : CMath α) (numberOfTrees : Int)
    (hn : 0 ≤ numberOfTrees) (trees : Int → Counted α)
    (tables : Int → ConnectionEvaluationTable α)
    (hR : ∀ t, 0 ≤ t → t < numberOfTrees →
      Reach M (trees t).tree ∧
      ∀ i, 0 ≤ i → i < (tables t).currentNumberOfConnections →
        (trees t).tree.live ((tables t).connections i).bifurcationSegmentID ∧
        ((tables t).connections i).newSegment.up =
          ((tables t).connections i).bifurcationSegmentID) :
    ∃ f0 S', (∀ f, f0 ≤ f →
        ForestCcoInvasion.select K targetFunction M f numberOfTrees trees tables = some S') ∧
      (∀ t, 0 ≤ t → t < numberOfTrees → ∀ f, f0 ≤ f →
        (tables t).reduce K M f (trees t) =
          some (S'.connectionEvaluationTable t, S'.trees t)) ∧
      (∀ t, 0 ≤ t → t < numberOfTrees → Reach M (S'.trees t).tree) ∧
      ((S'.treeID = -1 ∧
          ∀ t, 0 ≤ t → t < numberOfTrees →
            0 < (S'.connectionEvaluationTable t).currentNumberOfReasonableConnections →
            10000000000 ≤
              ((S'.connectionEvaluationTable t).optimalReasonableConnection
                K.indeterminateID).targetFunctionValue +
                ForestCcoInvasion.othersCost targetFunction numberOfTrees trees S'.trees t) ∨
        (0 ≤ S'.treeID ∧ S'.treeID < numberOfTrees ∧
          0 < (S'.connectionEvaluationTable S'.treeID).currentNumberOfReasonableConnections ∧
          S'.targetFunctionValue =
            ((S'.connectionEvaluationTable S'.treeID).optimalReasonableConnection
              K.indeterminateID).targetFunctionValue +
              ForestCcoInvasion.othersCost targetFunction numberOfTrees trees S'.trees
                S'.treeID ∧
          S'.targetFunctionValue < 10000000000 ∧
          (∀ t, 0 ≤ t → t < numberOfTrees →
            0 < (S'.connectionEvaluationTable t).currentNumberOfReasonableConnections →
            S'.targetFunctionValue ≤
              ((S'.connectionEvaluationTable t).optimalReasonableConnection
                K.indeterminateID).targetFunctionValue +
                ForestCcoInvasion.othersCost targetFunction numberOfTrees trees S'.trees t) ∧
          (∀ t, 0 ≤ t → t < S'.treeID →
            0 < (S'.connectionEvaluationTable t).currentNumberOfReasonableConnections →
            S'.targetFunctionValue <
              ((S'.connectionEvaluationTable t).optimalReasonableConnection
                K.indeterminateID).targetFunctionValue +
                ForestCcoInvasion.othersCost targetFunction numberOfTrees trees S'.trees
                  t))) :=
  ForestCcoInvasion.select_choice K targetFunction M numberOfTrees hn trees tables hR

/-- The trees and the tables of the forest of the example meet the conditions of the loop
over the trees. -/
theorem exampleForest_ready (M : CMath α) :
    ∀ t : Int, 0 ≤ t → t < 2 →
      Reach M (exampleForest M t).tree ∧
      ∀ i, 0 ≤ i → i < (exampleForestTables t : ConnectionEvaluationTable α).currentNumberOfConnections →
        (exampleForest M t).tree.live
          ((exampleForestTables t : ConnectionEvaluationTable α).connections i).bifurcationSegmentID ∧
        ((exampleForestTables t : ConnectionEvaluationTable α).connections i).newSegment.up =
          ((exampleForestTables t : ConnectionEvaluationTable α).connections
            i).bifurcationSegmentID := by
  intro t _ _
  refine ⟨exampleRoot_reach M, ?_⟩
  intro i _ _
  have hc : (exampleForestTables t : ConnectionEvaluationTable α).connections i =
      (exampleReduceTable : ConnectionEvaluationTable α).connections i := by
    unfold exampleForestTables
    split_ifs <;> rfl
  rw [hc]
  exact ⟨exampleRoot_live M, rfl⟩

/-- The forest commit choice on the forest of the example, over the real numbers, with the
target function 1 for each tree. -/
theorem forest_commit_choice_witness :
    (∀ t : Int, 0 ≤ t → t < 2 →
      Reach realMath (exampleForest realMath t).tree ∧
      ∀ i, 0 ≤ i → i < (exampleForestTables t : ConnectionEvaluationTable ℝ).currentNumberOfConnections →
        (exampleForest realMath t).tree.live
          ((exampleForestTables t : ConnectionEvaluationTable ℝ).connections i).bifurcationSegmentID ∧
        ((exampleForestTables t : ConnectionEvaluationTable ℝ).connections i).newSegment.up =
          ((exampleForestTables t : ConnectionEvaluationTable ℝ).connections
            i).bifurcationSegmentID) ∧
    ∃ f0 S', (∀ f, f0 ≤ f →
        ForestCcoInvasion.select (exampleDriver 2 : Collaborators ℝ Nat Unit) (fun _ _ => 1)
          realMath f 2 (exampleForest realMath) exampleForestTables = some S') ∧
      (∀ t, 0 ≤ t → t < 2 → ∀ f, f0 ≤ f →
        (exampleForestTables t).reduce (exampleDriver 2 : Collaborators ℝ Nat Unit) realMath f
          (exampleForest realMath t) = some (S'.connectionEvaluationTable t, S'.trees t)) ∧
      (∀ t, 0 ≤ t → t < 2 → Reach realMath (S'.trees t).tree) ∧
      ((S'.treeID = -1 ∧
          ∀ t, 0 ≤ t → t < 2 →
            0 < (S'.connectionEvaluationTable t).currentNumberOfReasonableConnections →
            10000000000 ≤
              ((S'.connectionEvaluationTable t).optimalReasonableConnection
                (exampleDriver 2 : Collaborators ℝ Nat Unit).indeterminateID).targetFunctionValue +
                ForestCcoInvasion.othersCost (fun _ _ => 1) 2 (exampleForest realMath)
                  S'.trees t) ∨
        (0 ≤ S'.treeID ∧ S'.treeID < 2 ∧
          0 < (S'.connectionEvaluationTable S'.treeID).currentNumberOfReasonableConnections ∧
          S'.targetFunctionValue =
            ((S'.connectionEvaluationTable S'.treeID).optimalReasonableConnection
              (exampleDriver 2 : Collaborators ℝ Nat Unit).indeterminateID).targetFunctionValue +
              ForestCcoInvasion.othersCost (fun _ _ => 1) 2 (exampleForest realMath) S'.trees
                S'.treeID ∧
          S'.targetFunctionValue < 10000000000 ∧
          (∀ t, 0 ≤ t → t < 2 →
            0 < (S'.connectionEvaluationTable t).currentNumberOfReasonableConnections →
            S'.targetFunctionValue ≤
              ((S'.connectionEvaluationTable t).optimalReasonableConnection
                (exampleDriver 2 : Collaborators ℝ Nat Unit).indeterminateID).targetFunctionValue +
                ForestCcoInvasion.othersCost (fun _ _ => 1) 2 (exampleForest realMath)
                  S'.trees t) ∧
          (∀ t, 0 ≤ t → t < S'.treeID →
            0 < (S'.connectionEvaluationTable t).currentNumberOfReasonableConnections →
            S'.targetFunctionValue <
              ((S'.connectionEvaluationTable t).optimalReasonableConnection
                (exampleDriver 2 : Collaborators ℝ Nat Unit).indeterminateID).targetFunctionValue +
                ForestCcoInvasion.othersCost (fun _ _ => 1) 2 (exampleForest realMath)
                  S'.trees t))) :=
  ⟨exampleForest_ready realMath,
    forest_commit_choice (exampleDriver 2 : Collaborators ℝ Nat Unit) (fun _ _ => 1) realMath 2
      (by decide) (exampleForest realMath) exampleForestTables (exampleForest_ready realMath)⟩

theorem indices_two : indices 2 = [0, 1] := rfl

/-- On the forest of the example, over the real numbers, with the target function `1e10` for
each tree: the loop over the trees returns, the tree 0 has a reasonable connection, and no
tree is chosen for the commit (`treeID` is `-1`), so that no commit is attempted. -/
theorem forest_commit_choice_counterexample :
    ∃ f0 S', (∀ f, f0 ≤ f →
        ForestCcoInvasion.select (exampleDriver 2 : Collaborators ℝ Nat Unit)
          (fun _ _ => 10000000000) realMath f 2 (exampleForest realMath) exampleForestTables =
          some S') ∧
      0 < (S'.connectionEvaluationTable 0).currentNumberOfReasonableConnections ∧
      S'.treeID = -1 := by
  obtain ⟨f0, S', hrun, hred, -, hsel⟩ := ForestCcoInvasion.select_choice
    (exampleDriver 2 : Collaborators ℝ Nat Unit) (fun _ _ => 10000000000) realMath 2
    (by decide) (exampleForest realMath) exampleForestTables (exampleForest_ready realMath)
  have hT0 : (exampleForestTables 0 : ConnectionEvaluationTable ℝ).currentNumberOfConnections =
      1 := by
    simp [exampleForestTables]
  have hc0 : ∀ i, (exampleForestTables 0 : ConnectionEvaluationTable ℝ).connections i =
      (exampleReduceTable : ConnectionEvaluationTable ℝ).connections i := by
    intro i
    simp [exampleForestTables]
  obtain ⟨f2, t', T', h2, -, -, -, b1, b2, b3, -⟩ := exampleReduce realMath 2
    (exampleForest realMath 0) (exampleRoot_reach realMath)
    (exampleForestTables 0 : ConnectionEvaluationTable ℝ) hT0
    (by rw [hc0]; exact exampleRoot_live realMath) (by rw [hc0]; rfl)
  have e0 : S'.connectionEvaluationTable 0 = T' := by
    have g1 := hred 0 (le_refl _) (by decide) (max f0 f2) (le_max_left _ _)
    have g2 := h2 (max f0 f2) (le_max_right _ _)
    rw [g1] at g2
    injection g2 with g2
    exact congrArg Prod.fst g2
  have e1 : (S'.connectionEvaluationTable 1).currentNumberOfReasonableConnections = 0 := by
    have g1 := hred 1 (by decide) (by decide) f0 (le_refl _)
    have g3 : (exampleForestTables 1 : ConnectionEvaluationTable ℝ).reduce
        (exampleDriver 2 : Collaborators ℝ Nat Unit) realMath f0 (exampleForest realMath 1) =
        some ({ (exampleForestTables 1 : ConnectionEvaluationTable ℝ) with
          currentNumberOfReasonableConnections := 0 }, exampleForest realMath 1) := by
      have hz : (exampleForestTables 1 : ConnectionEvaluationTable ℝ).currentNumberOfConnections =
          0 := by
        simp [exampleForestTables]
      simp only [ConnectionEvaluationTable.reduce, hz, indices_zero,
        ConnectionEvaluationTable.reduceLoop]
    rw [g3] at g1
    injection g1 with g1
    have h4 : S'.connectionEvaluationTable 1 =
        { (exampleForestTables 1 : ConnectionEvaluationTable ℝ) with
          currentNumberOfReasonableConnections := 0 } := (congrArg Prod.fst g1).symm
    rw [h4]
  have hpos : 0 < (S'.connectionEvaluationTable 0).currentNumberOfReasonableConnections := by
    rw [e0, b2]; decide
  refine ⟨f0, S', hrun, hpos, ?_⟩
  rcases hsel with ⟨s1, -⟩ | ⟨s1, s2, s3, s4, s5, -⟩
  · exact s1
  · exfalso
    have hid : S'.treeID = 0 ∨ S'.treeID = 1 := by omega
    rcases hid with h | h
    · rw [h] at s4
      have hopt : (S'.connectionEvaluationTable 0).optimalReasonableConnection
          (exampleDriver 2 : Collaborators ℝ Nat Unit).indeterminateID =
          (S'.connectionEvaluationTable 0).connections 0 := by
        rw [e0]
        exact exampleOptimal T' _ b2 b3 (by rw [b1, hc0]; rfl)
      have hv : ((S'.connectionEvaluationTable 0).connections 0).targetFunctionValue = 0 := by
        rw [e0, b1, hc0]; rfl
      have hoc : ForestCcoInvasion.othersCost (fun _ _ => (10000000000 : ℝ)) 2
          (exampleForest realMath) S'.trees 0 = 10000000000 := by
        simp [ForestCcoInvasion.othersCost, indices_two]
      rw [hopt, hv, hoc, zero_add] at s4
      rw [s4] at s5
      exact absurd s5 (lt_irrefl _)
    · rw [h, e1] at s3
      exact absurd s3 (lt_irrefl _)

/-! ## The components of the points that `Geometry` builds -/

theorem Geometry.subtract_x (dim : Int) (A B : Point α) :
    (Geometry.subtract dim A B).x = A.x - B.x := by
  unfold Geometry.subtract; split_ifs <;> rfl

theorem Geometry.subtract_y (dim : Int) (A B : Point α) :
    (Geometry.subtract dim A B).y = A.y - B.y := by
  unfold Geometry.subtract; split_ifs <;> rfl

theorem Geometry.subtract_z (dim : Int) (A B : Point α) :
    (Geometry.subtract dim A B).z = if dim = 3 then A.z - B.z else 0 := by
  unfold Geometry.subtract; split_ifs <;> rfl

theorem Geometry.subtract_dimension (dim : Int) (A B : Point α) :
    (Geometry.subtract dim A B).dimension = dim := by
  unfold Geometry.subtract; split_ifs <;> rfl

theorem Geometry.add_x (dim : Int) (A B : Point α) :
    (Geometry.add dim A B).x = A.x + B.x := by
  unfold Geometry.add; split_ifs <;> rfl

theorem Geometry.add_y (dim : Int) (A B : Point α) :
    (Geometry.add dim A B).y = A.y + B.y := by
  unfold Geometry.add; split_ifs <;> rfl

theorem Geometry.add_z (dim : Int) (A B : Point α) :
    (Geometry.add dim A B).z = if dim = 3 then A.z + B.z else 0 := by
  unfold Geometry.add; split_ifs <;> rfl

theorem Geometry.add_dimension (dim : Int) (A B : Point α) :
    (Geometry.add dim A B).dimension = dim := by
  unfold Geometry.add; split_ifs <;> rfl

theorem Geometry.scalarProduct_x (dim : Int) (k : α) (A : Point α) :
    (Geometry.scalarProduct dim k A).x = k * A.x := by
  unfold Geometry.scalarProduct; split_ifs <;> rfl

theorem Geometry.scalarProduct_y (dim : Int) (k : α) (A : Point α) :
    (Geometry.scalarProduct dim k A).y = k * A.y := by
  unfold Geometry.scalarProduct; split_ifs <;> rfl

theorem Geometry.scalarProduct_z (dim : Int) (k : α) (A : Point α) :
    (Geometry.scalarProduct dim k A).z = if dim = 3 then k * A.z else 0 := by
  unfold Geometry.scalarProduct; split_ifs <;> rfl

theorem Geometry.scalarProduct_dimension (dim : Int) (k : α) (A : Point α) :
    (Geometry.scalarProduct dim k A).dimension = dim := by
  unfold Geometry.scalarProduct; split_ifs <;> rfl

/-- The scalar product of `Geometry::dot` in the components of the two points; the third
components count in dimension 3 only. -/
theorem Geometry.dot_eq (dim : Int) (u v : Point α) :
    Geometry.dot dim u v =
      u.x * v.x + u.y * v.y + (if dim = 3 then u.z * v.z else 0) := by
  unfold Geometry.dot; split_ifs <;> simp

/-! ## The cross product -/

/-- The components of `Geometry::crossProduct(u, v)` for two points of dimension 3: each is
the opposite of the component of the determinant with the rows `(i, j, k)`, `u`, `v`. -/
theorem Geometry.crossProduct_components (u v : Point α) (hu : u.dimension = 3)
    (hv : v.dimension = 3) :
    (Geometry.crossProduct u v).x = -(u.y * v.z - u.z * v.y) ∧
    (Geometry.crossProduct u v).y = -(u.z * v.x - u.x * v.z) ∧
    (Geometry.crossProduct u v).z = -(u.x * v.y - u.y * v.x) := by
  simp only [Geometry.crossProduct, hu, hv, show ¬((3 : Int) = 2) by decide, if_false]
  refine ⟨by ring, by ring, by ring⟩

/-- C33, the code at the failing input: for `u = (1, 0, 0)` and `v = (0, 1, 0)` the
determinant with the rows `(i, j, k)`, `u`, `v` is `(0, 0, 1)` (its third component is
`ux * vy - uy * vx = 1`), and `Geometry::crossProduct(u, v)` is `(0, 0, -1)`. -/
theorem crossProduct_opposite :
    Geometry.crossProduct (⟨3, 1, 0, 0⟩ : Point ℚ) ⟨3, 0, 1, 0⟩ = ⟨3, 0, 0, -1⟩ ∧
    ((⟨3, 1, 0, 0⟩ : Point ℚ).y * (⟨3, 0, 1, 0⟩ : Point ℚ).z -
      (⟨3, 1, 0, 0⟩ : Point ℚ).z * (⟨3, 0, 1, 0⟩ : Point ℚ).y = 0 ∧
     (⟨3, 1, 0, 0⟩ : Point ℚ).z * (⟨3, 0, 1, 0⟩ : Point ℚ).x -
      (⟨3, 1, 0, 0⟩ : Point ℚ).x * (⟨3, 0, 1, 0⟩ : Point ℚ).z = 0 ∧
     (⟨3, 1, 0, 0⟩ : Point ℚ).x * (⟨3, 0, 1, 0⟩ : Point ℚ).y -
      (⟨3, 1, 0, 0⟩ : Point ℚ).y * (⟨3, 0, 1, 0⟩ : Point ℚ).x = 1) := by
  refine ⟨?_, by norm_num, by norm_num, by norm_num⟩
  simp [Geometry.crossProduct]

/-! ## The symmetry of the intersection test -/

theorem Geometry.hasIntersection2D_symm (M : CMath α) (dim : Int) (A B C D : Point α)
    (tol : α) :
    Geometry.hasIntersection2D M dim A B C D tol =
      Geometry.hasIntersection2D M dim C D A B tol := by
  unfold Geometry.hasIntersection2D
  simp only [Geometry.subtract_x, Geometry.subtract_y]
  have e1 : (D.x - C.x) * -(B.y - A.y) - -(B.x - A.x) * (D.y - C.y) =
      -((B.x - A.x) * -(D.y - C.y) - -(D.x - C.x) * (B.y - A.y)) := by ring
  rw [e1, abs_neg]
  by_cases h : |(B.x - A.x) * -(D.y - C.y) - -(D.x - C.x) * (B.y - A.y)| <
      Geometry._TOLERANCE * Geometry._TOLERANCE
  · rw [if_pos h, if_pos h]
  · rw [if_neg h, if_neg h]
    have e2 : ((A.x - C.x) * -(B.y - A.y) - -(B.x - A.x) * (A.y - C.y)) /
        -((B.x - A.x) * -(D.y - C.y) - -(D.x - C.x) * (B.y - A.y)) =
        ((B.x - A.x) * (C.y - A.y) - (C.x - A.x) * (B.y - A.y)) /
          ((B.x - A.x) * -(D.y - C.y) - -(D.x - C.x) * (B.y - A.y)) := by
      rw [div_neg, ← neg_div]
      congr 1
      ring
    have e3 : ((D.x - C.x) * (A.y - C.y) - (A.x - C.x) * (D.y - C.y)) /
        -((B.x - A.x) * -(D.y - C.y) - -(D.x - C.x) * (B.y - A.y)) =
        ((C.x - A.x) * -(D.y - C.y) - -(D.x - C.x) * (C.y - A.y)) /
          ((B.x - A.x) * -(D.y - C.y) - -(D.x - C.x) * (B.y - A.y)) := by
      rw [div_neg, ← neg_div]
      congr 1
      ring
    rw [e2, e3]
    apply decide_eq_decide.mpr
    constructor
    · rintro ⟨h1, h2⟩; exact ⟨h2, h1⟩
    · rintro ⟨h1, h2⟩; exact ⟨h2, h1⟩

theorem Geometry.dot_comm (dim : Int) (u v : Point α) :
    Geometry.dot dim u v = Geometry.dot dim v u := by
  rw [Geometry.dot_eq, Geometry.dot_eq]
  split_ifs <;> ring

theorem Geometry.dot_subtract_swap (dim : Int) (A C X : Point α) :
    Geometry.dot dim (Geometry.subtract dim A C) X =
      -Geometry.dot dim (Geometry.subtract dim C A) X := by
  rw [Geometry.dot_eq, Geometry.dot_eq]
  simp only [Geometry.subtract_x, Geometry.subtract_y, Geometry.subtract_z]
  split_ifs <;> ring

theorem Geometry.dot_self_subtract_swap (dim : Int) (P Q : Point α) :
    Geometry.dot dim (Geometry.subtract dim P Q) (Geometry.subtract dim P Q) =
      Geometry.dot dim (Geometry.subtract dim Q P) (Geometry.subtract dim Q P) := by
  rw [Geometry.dot_eq, Geometry.dot_eq]
  simp only [Geometry.subtract_x, Geometry.subtract_y, Geometry.subtract_z]
  split_ifs <;> ring

theorem Geometry.hasIntersection3D_symm (dim : Int) (A B C D : Point α) (tol : α) :
    Geometry.hasIntersection3D dim A B C D tol =
      Geometry.hasIntersection3D dim C D A B tol := by
  obtain ⟨AB, hAB⟩ : ∃ AB, Geometry.subtract dim B A = AB := ⟨_, rfl⟩
  obtain ⟨CD, hCD⟩ : ∃ CD, Geometry.subtract dim D C = CD := ⟨_, rfl⟩
  obtain ⟨AC, hAC⟩ : ∃ AC, Geometry.subtract dim C A = AC := ⟨_, rfl⟩
  obtain ⟨CA, hCA⟩ : ∃ CA, Geometry.subtract dim A C = CA := ⟨_, rfl⟩
  have n1 : Geometry.dot dim CA AB = -Geometry.dot dim AC AB := by
    rw [← hCA, ← hAC]; exact Geometry.dot_subtract_swap dim A C AB
  have n2 : Geometry.dot dim CA CD = -Geometry.dot dim AC CD := by
    rw [← hCA, ← hAC]; exact Geometry.dot_subtract_swap dim A C CD
  have c1 : Geometry.dot dim CD AB = Geometry.dot dim AB CD := Geometry.dot_comm dim CD AB
  obtain ⟨det, hdet⟩ : ∃ det, Geometry.dot dim AB CD * Geometry.dot dim AB CD -
      Geometry.dot dim AB AB * Geometry.dot dim CD CD = det := ⟨_, rfl⟩
  obtain ⟨r, hr⟩ : ∃ r, (Geometry.dot dim AB CD * Geometry.dot dim AC CD -
      Geometry.dot dim AC AB * Geometry.dot dim CD CD) / det = r := ⟨_, rfl⟩
  obtain ⟨s, hs⟩ : ∃ s, (Geometry.dot dim AC CD * Geometry.dot dim AB AB -
      Geometry.dot dim AC AB * Geometry.dot dim AB CD) / det = s := ⟨_, rfl⟩
  have hdet' : Geometry.dot dim CD AB * Geometry.dot dim CD AB -
      Geometry.dot dim CD CD * Geometry.dot dim AB AB = det := by
    rw [c1, ← hdet]; ring
  have hr' : (Geometry.dot dim CD AB * Geometry.dot dim CA AB -
      Geometry.dot dim CA CD * Geometry.dot dim AB AB) / det = s := by
    rw [c1, n1, n2, ← hs]
    congr 1
    ring
  have hs' : (Geometry.dot dim CA AB * Geometry.dot dim CD CD -
      Geometry.dot dim CA CD * Geometry.dot dim CD AB) / det = r := by
    rw [c1, n1, n2, ← hr]
    congr 1
    ring
  rw [Geometry.hasIntersection3D_eq dim A B C D tol AB CD AC hAB hCD hAC det r s hdet hr hs,
    Geometry.hasIntersection3D_eq dim C D A B tol CD AB CA hCD hAB hCA det s r hdet' hr' hs']
  by_cases h : |det| < 1 / 1000000
  · rw [if_pos h, if_pos h]
  · rw [if_neg h, if_neg h]
    rw [Geometry.dot_self_subtract_swap dim
      (Geometry.add dim A (Geometry.scalarProduct dim r AB))
      (Geometry.add dim C (Geometry.scalarProduct dim s CD))]
    apply decide_eq_decide.mpr
    constructor
    · rintro ⟨h1, h2, h3, h4, h5⟩; exact ⟨h3, h4, h1, h2, h5⟩
    · rintro ⟨h1, h2, h3, h4, h5⟩; exact ⟨h3, h4, h1, h2, h5⟩

/-- C38: the intersection test is symmetric in its two segments. For all points `A`, `B`, `C`,
`D`, every tolerance and every dimension of the geometry,
`hasIntersection(A, B, C, D, tol) = hasIntersection(C, D, A, B, tol)`, and so for the variant
of the plane `hasIntersection2D` and for the variant of space `hasIntersection3D` (in exact
arithmetic). -/
theorem hasIntersection_symmetric (M : CMath α) (dim : Int) (A B C D : Point α) (tol : α) :
    Geometry.hasIntersection M dim A B C D tol = Geometry.hasIntersection M dim C D A B tol ∧
    Geometry.hasIntersection2D M dim A B C D tol =
      Geometry.hasIntersection2D M dim C D A B tol ∧
    Geometry.hasIntersection3D dim A B C D tol = Geometry.hasIntersection3D dim C D A B tol := by
  refine ⟨?_, Geometry.hasIntersection2D_symm M dim A B C D tol,
    Geometry.hasIntersection3D_symm dim A B C D tol⟩
  unfold Geometry.hasIntersection
  split_ifs
  · exact Geometry.hasIntersection2D_symm M dim A B C D tol
  · exact Geometry.hasIntersection3D_symm dim A B C D tol

/-! ## The constructor with explicit parameters -/

/-- The fields that the constructor with explicit parameters sets. -/
theorem constructExplicit_fields (seed : Point α) (numberOfTerminals dimension : Int)
    (perfusionVolume perfusionPressure terminalPressure perfusionFlow : α)
    (bloodViscosity bifurcationExpoent : Int → α) (segDim : Int → Int)
    (resistance0 length0 : Int → α) :
    (Tree.constructExplicit seed numberOfTerminals dimension perfusionVolume perfusionPressure
      terminalPressure perfusionFlow bloodViscosity bifurcationExpoent segDim resistance0
      length0).perfusionVolume = (if dimension = 2 then 25 / 10000 else perfusionVolume) ∧
    (Tree.constructExplicit seed numberOfTerminals dimension perfusionVolume perfusionPressure
      terminalPressure perfusionFlow bloodViscosity bifurcationExpoent segDim resistance0
      length0).perfusionPressure = perfusionPressure ∧
    (Tree.constructExplicit seed numberOfTerminals dimension perfusionVolume perfusionPressure
      terminalPressure perfusionFlow bloodViscosity bifurcationExpoent segDim resistance0
      length0).terminalPressure = terminalPressure ∧
    (Tree.constructExplicit seed numberOfTerminals dimension perfusionVolume perfusionPressure
      terminalPressure perfusionFlow bloodViscosity bifurcationExpoent segDim resistance0
      length0).perfusionFlow = perfusionFlow ∧
    (Tree.constructExplicit seed numberOfTerminals dimension perfusionVolume perfusionPressure
      terminalPressure perfusionFlow bloodViscosity bifurcationExpoent segDim resistance0
      length0).totalNumberOfSegments = 2 * numberOfTerminals - 1 :=
  ⟨rfl, rfl, rfl, rfl, rfl⟩

/-- C34, the code at the failing input: a tree built with the constructor with explicit
parameters for 4 terminals in dimension 2, with the perfusion volume `1/100` (and the perfusion
pressure 13000, the terminal pressure 8000 and the perfusion flow `1/100000`), holds the
perfusion volume `25/10000`, not the argument; the other three parameters are the arguments,
and `totalNumberOfSegments` is `2 * 4 - 1 = 7`. -/
theorem constructExplicit_plane :
    (Tree.constructExplicit (⟨2, 0, 0, 0⟩ : Point ℚ) 4 2 (1 / 100) 13000 8000 (1 / 100000)
      (fun _ => 36 / 10000) (fun _ => 3) (fun _ => 2) (fun _ => 0)
      (fun _ => 0)).perfusionVolume = 25 / 10000 ∧
    (25 / 10000 : ℚ) ≠ 1 / 100 ∧
    (Tree.constructExplicit (⟨2, 0, 0, 0⟩ : Point ℚ) 4 2 (1 / 100) 13000 8000 (1 / 100000)
      (fun _ => 36 / 10000) (fun _ => 3) (fun _ => 2) (fun _ => 0)
      (fun _ => 0)).perfusionPressure = 13000 ∧
    (Tree.constructExplicit (⟨2, 0, 0, 0⟩ : Point ℚ) 4 2 (1 / 100) 13000 8000 (1 / 100000)
      (fun _ => 36 / 10000) (fun _ => 3) (fun _ => 2) (fun _ => 0)
      (fun _ => 0)).terminalPressure = 8000 ∧
    (Tree.constructExplicit (⟨2, 0, 0, 0⟩ : Point ℚ) 4 2 (1 / 100) 13000 8000 (1 / 100000)
      (fun _ => 36 / 10000) (fun _ => 3) (fun _ => 2) (fun _ => 0)
      (fun _ => 0)).perfusionFlow = 1 / 100000 ∧
    (Tree.constructExplicit (⟨2, 0, 0, 0⟩ : Point ℚ) 4 2 (1 / 100) 13000 8000 (1 / 100000)
      (fun _ => 36 / 10000) (fun _ => 3) (fun _ => 2) (fun _ => 0)
      (fun _ => 0)).totalNumberOfSegments = 7 := by
  refine ⟨?_, by norm_num, rfl, rfl, rfl, rfl⟩
  simp [Tree.constructExplicit]

/-! ## The capacity of the arrays and the calls of `growSegment` -/

theorem growSegmentLinks_numberOfTerminals (M : CMath α) (b : Point α) (parent c : Segment α)
    (t : Tree α) :
    (growSegmentLinks M b parent c t).numberOfTerminals = t.numberOfTerminals := by
  simp only [growSegmentLinks, growBifurcation, growNewSegment, growConnection]
  split_ifs <;> rfl

theorem growSegment_numberOfTerminals {M : CMath α} {fuel : Nat} {b : Point α}
    {parent c : Segment α} {t : Tree α} {r : Segment α × Tree α}
    (hr : growSegment M fuel b parent c t = some r) :
    r.2.numberOfTerminals = t.numberOfTerminals := by
  obtain ⟨t2, ht2, rfl⟩ := growSegment_eq_some hr
  have hf := updateLoop_frame M _ _ _ _ ht2
  exact hf.numberOfTerminals.trans (growSegmentLinks_numberOfTerminals M b parent c t)

theorem removeLinks_numberOfTerminals (M : CMath α) (t : Tree α) (seg : Segment α) :
    (removeLinks M t seg).numberOfTerminals = t.numberOfTerminals := by
  simp only [removeLinks, removeReattach]
  split <;> rfl

theorem remove_numberOfTerminals {M : CMath α} {fuel : Nat} {seg : Segment α}
    {t : Tree α} {r : Segment α × Tree α} (hr : remove M fuel t seg = some r) :
    r.2.numberOfTerminals = t.numberOfTerminals := by
  obtain ⟨t2, ht2, rfl⟩ := remove_eq_some hr
  have hf := updateLoop_frame M _ _ _ _ ht2
  exact hf.numberOfTerminals.trans (removeLinks_numberOfTerminals M t seg)

theorem moveDistalPoint_numberOfTerminals {M : CMath α} {fuel : Nat} {s : Int} {x : Point α}
    {t t' : Tree α} (hr : moveDistalPoint M fuel t s x = some t') :
    t'.numberOfTerminals = t.numberOfTerminals := by
  have hf := updateLoop_frame M _ _ _ _ hr
  refine hf.numberOfTerminals.trans ?_
  simp only [moveDistalPointLengths, moveSetPoint, moveChildLength]
  split <;> rfl

theorem SimpleOptimization.columnLoop_numberOfTerminals {D C : Type} (K : Collaborators α D C)
    (M : CMath α) (fuel : Nat) (d : D) (segment : Segment α) (Xi Xnew Xj : Point α) (step : α)
    (numberOfPoints line : Int) :
    ∀ (cols : List Int) (S S' : Search α),
      SimpleOptimization.columnLoop K M fuel d segment Xi Xnew Xj step numberOfPoints line
        cols S = some S' →
      S'.tree.numberOfTerminals = S.tree.numberOfTerminals := by
  intro cols
  induction cols with
  | nil => intro S S' h; simp only [SimpleOptimization.columnLoop] at h; cases h; rfl
  | cons col rest ih =>
    intro S S' h
    simp only [SimpleOptimization.columnLoop] at h
    split at h
    · cases h
    · rename_i t ht
      have e := moveDistalPoint_numberOfTerminals ht
      have := ih _ _ h
      rw [SimpleOptimization.evaluate_tree] at this
      exact this.trans e

theorem SimpleOptimization.lineLoop_numberOfTerminals {D C : Type} (K : Collaborators α D C)
    (M : CMath α) (fuel : Nat) (d : D) (segment : Segment α) (Xi Xnew Xj : Point α) (step : α)
    (numberOfPoints : Int) :
    ∀ (lines : List Int) (S S' : Search α),
      SimpleOptimization.lineLoop K M fuel d segment Xi Xnew Xj step numberOfPoints
        lines S = some S' →
      S'.tree.numberOfTerminals = S.tree.numberOfTerminals := by
  intro lines
  induction lines with
  | nil => intro S S' h; simp only [SimpleOptimization.lineLoop] at h; cases h; rfl
  | cons line rest ih =>
    intro S S' h
    simp only [SimpleOptimization.lineLoop] at h
    split at h
    · cases h
    · rename_i S1 h1
      have a := SimpleOptimization.columnLoop_numberOfTerminals K M fuel d segment Xi Xnew Xj
        step numberOfPoints line _ _ _ h1
      exact (ih _ _ h).trans a

theorem SimpleOptimization.bifurcation_numberOfTerminals {D C : Type}
    (K : Collaborators α D C) (M : CMath α) (fuel : Nat) (d : D) (t : Tree α)
    (segment : Segment α) {r : Connection α × Tree α}
    (h : SimpleOptimization.bifurcation K M fuel d t segment = some r) :
    r.2.numberOfTerminals = t.numberOfTerminals := by
  simp only [SimpleOptimization.bifurcation] at h
  split at h
  · cases h
  · rename_i S hS
    have a := SimpleOptimization.lineLoop_numberOfTerminals K M fuel d segment _ _ _ _ _ _ _ _ hS
    split at h
    · cases h
    · rename_i t' ht'
      cases h
      exact (moveDistalPoint_numberOfTerminals ht').trans a

theorem Counted.growSegment_terminalsBound {M : CMath α} {fuel : Nat} {b : Point α}
    {parent child : Segment α} {s s' : Counted α} {r : Segment α}
    (h : s.growSegment M fuel b parent child = some (r, s')) :
    s'.tree.numberOfTerminals = s.tree.numberOfTerminals := by
  simp only [Counted.growSegment] at h
  split at h
  · cases h
  · rename_i r0 hr
    cases h
    exact CCOLab.growSegment_numberOfTerminals hr

theorem Counted.remove_terminalsBound {M : CMath α} {fuel : Nat} {seg : Segment α}
    {s s' : Counted α} {r : Segment α}
    (h : s.remove M fuel seg = some (r, s')) :
    s'.tree.numberOfTerminals = s.tree.numberOfTerminals := by
  simp only [Counted.remove] at h
  split at h
  · cases h
  · rename_i r0 hr
    cases h
    exact CCOLab.remove_numberOfTerminals hr

theorem ConstrainedConstructiveOptimization.connectLoop_numberOfTerminals {D C : Type}
    (K : Collaborators α D C) (M : CMath α) (fuel : Nat) (d : D) (point : Point α)
    (closestSegments : Int → Int) :
    ∀ (l : List Int) (r r' : Counted α × Segment α × ConnectionEvaluationTable α),
      ConstrainedConstructiveOptimization.connectLoop K M fuel d point closestSegments l r
        = some r' →
      r'.1.tree.numberOfTerminals = r.1.tree.numberOfTerminals := by
  intro l
  induction l with
  | nil =>
    intro r r' h
    simp only [ConstrainedConstructiveOptimization.connectLoop] at h
    cases h; rfl
  | cons i rest ih =>
    intro r r' h
    obtain ⟨s, newSegment, T⟩ := r
    simp only [ConstrainedConstructiveOptimization.connectLoop] at h
    split at h
    · cases h
    · rename_i u s1 h1
      have b1 := Counted.growSegment_terminalsBound h1
      split at h
      · cases h
      · rename_i conn t h2
        have c := SimpleOptimization.bifurcation_numberOfTerminals K M fuel d _ _ h2
        split at h
        · cases h
        · rename_i x s3 h3
          have b3 := Counted.remove_terminalsBound h3
          exact (ih _ _ h).trans (b3.trans (c.trans b1))

theorem ConnectionEvaluationTable.reduceLoop_numberOfTerminals {D C : Type}
    (K : Collaborators α D C) (M : CMath α) (fuel : Nat) :
    ∀ (l : List Int) (T : ConnectionEvaluationTable α) (s : Counted α)
      (r : ConnectionEvaluationTable α × Counted α),
      ConnectionEvaluationTable.reduceLoop K M fuel l T s = some r →
      r.2.tree.numberOfTerminals = s.tree.numberOfTerminals := by
  intro l
  induction l with
  | nil =>
    intro T s r h
    simp only [ConnectionEvaluationTable.reduceLoop] at h
    cases h; rfl
  | cons i rest ih =>
    intro T s r h
    simp only [ConnectionEvaluationTable.reduceLoop] at h
    split at h
    · cases h
    · rename_i u s1 h1
      have b1 := Counted.growSegment_terminalsBound h1
      split at h
      · cases h
      · rename_i x s3 h3
        exact (ih _ _ _ h).trans ((Counted.remove_terminalsBound h3).trans b1)

/-- A tree in balance with `k` terminals, `1 ≤ k`, fewer than the tree is allocated for, has
room for the two slots of `growSegment`. -/
theorem Balance.slotsFit {s : Counted α} {k n : Int} (hb : Balance s k) (h1 : 1 ≤ k)
    (hn : s.tree.numberOfTerminals = n) (hk : k < n) :
    s.tree.currentNumberOfSegments = 2 * s.tree.currentNumberOfTerminals - 1 ∧
    s.tree.currentNumberOfTerminals < s.tree.numberOfTerminals ∧
    s.tree.growSegmentSlotsFit := by
  obtain ⟨b1, b2, -⟩ := hb
  refine ⟨by omega, by omega, ?_, ?_⟩
  · omega
  · omega

theorem ConstrainedConstructiveOptimization.connectLoopCalls_fit {D C : Type}
    (K : Collaborators α D C) (M : CMath α) (fuel : Nat) (d : D) (point : Point α)
    (closestSegments : Int → Int) (k n : Int) (h1 : 1 ≤ k) (hk : k < n) :
    ∀ (l : List Int) (r : Counted α × Segment α × ConnectionEvaluationTable α),
      Balance r.1 k → r.1.tree.numberOfTerminals = n →
      ∀ s ∈ ConstrainedConstructiveOptimization.connectLoopCalls K M fuel d point
          closestSegments l r,
        s.currentNumberOfSegments = 2 * s.currentNumberOfTerminals - 1 ∧
        s.currentNumberOfTerminals < s.numberOfTerminals ∧ s.growSegmentSlotsFit := by
  intro l
  induction l with
  | nil =>
    intro r hb hn s hs
    simp [ConstrainedConstructiveOptimization.connectLoopCalls] at hs
  | cons i rest ih =>
    intro r hb hn s hs
    simp only [ConstrainedConstructiveOptimization.connectLoopCalls, List.mem_cons] at hs
    rcases hs with rfl | hs
    · exact hb.slotsFit h1 hn hk
    · split at hs
      · simp at hs
      · rename_i r1 h1r
        exact ih r1
          (ConstrainedConstructiveOptimization.connectLoop_balance K M fuel d point
            closestSegments k _ _ _ h1r hb)
          ((ConstrainedConstructiveOptimization.connectLoop_numberOfTerminals K M fuel d point
            closestSegments _ _ _ h1r).trans hn) s hs

theorem ConnectionEvaluationTable.reduceLoopCalls_fit {D C : Type}
    (K : Collaborators α D C) (M : CMath α) (fuel : Nat) (k n : Int) (h1 : 1 ≤ k)
    (hk : k < n) :
    ∀ (l : List Int) (T : ConnectionEvaluationTable α) (c : Counted α),
      Balance c k → c.tree.numberOfTerminals = n →
      ∀ s ∈ ConnectionEvaluationTable.reduceLoopCalls K M fuel l T c,
        s.currentNumberOfSegments = 2 * s.currentNumberOfTerminals - 1 ∧
        s.currentNumberOfTerminals < s.numberOfTerminals ∧ s.growSegmentSlotsFit := by
  intro l
  induction l with
  | nil =>
    intro T c hb hn s hs
    simp [ConnectionEvaluationTable.reduceLoopCalls] at hs
  | cons i rest ih =>
    intro T c hb hn s hs
    simp only [ConnectionEvaluationTable.reduceLoopCalls, List.mem_cons] at hs
    rcases hs with rfl | hs
    · exact hb.slotsFit h1 hn hk
    · split at hs
      · simp at hs
      · rename_i T1 c1 h1r
        exact ih T1 c1
          (ConnectionEvaluationTable.reduceLoop_balance K M fuel k _ _ _ _ h1r hb)
          ((ConnectionEvaluationTable.reduceLoop_numberOfTerminals K M fuel _ _ _ _ h1r).trans
            hn) s hs

theorem ConstrainedConstructiveOptimization.growStepCalls_fit {D C : Type}
    (K : Collaborators α D C) (M : CMath α) (fuel : Nat) (G : Grow α D C) (n : Int)
    (hb : Balance G.counted G.Kterm) (h1 : 1 ≤ G.Kterm) (hn : G.counted.tree.numberOfTerminals = n)
    (hk : G.Kterm < n) :
    ∀ s ∈ ConstrainedConstructiveOptimization.growStepCalls K M fuel G,
      s.currentNumberOfSegments = 2 * s.currentNumberOfTerminals - 1 ∧
      s.currentNumberOfTerminals < s.numberOfTerminals ∧ s.growSegmentSlotsFit := by
  intro s hs
  simp only [ConstrainedConstructiveOptimization.growStepCalls] at hs
  split at hs
  · simp at hs
  · rename_i point d c att hp
    split at hs
    · simp at hs
    · rename_i vicinity hv
      rw [List.mem_append] at hs
      rcases hs with hs | hs
      · exact ConstrainedConstructiveOptimization.connectLoopCalls_fit K M fuel _ point _
          G.Kterm n h1 hk _ _ hb hn s hs
      · split at hs
        · simp at hs
        · rename_i s1 ns T hc
          have b1 := ConstrainedConstructiveOptimization.connectLoop_balance K M fuel _ point
            _ G.Kterm _ _ _ hc hb
          have n1 := (ConstrainedConstructiveOptimization.connectLoop_numberOfTerminals K M fuel
            _ point _ _ _ _ hc).trans hn
          rw [List.mem_append] at hs
          rcases hs with hs | hs
          · exact ConnectionEvaluationTable.reduceLoopCalls_fit K M fuel G.Kterm n h1 hk _ _ _
              b1 n1 s hs
          · split at hs
            · simp at hs
            · rename_i T2 s2 hr
              have b2 := ConnectionEvaluationTable.reduceLoop_balance K M fuel G.Kterm _ _ _ _
                hr b1
              have n2 := (ConnectionEvaluationTable.reduceLoop_numberOfTerminals K M fuel _ _ _
                _ hr).trans n1
              split_ifs at hs with hpos
              · rw [List.mem_singleton] at hs
                subst hs
                exact b2.slotsFit h1 n2 hk
              · simp at hs

theorem ConstrainedConstructiveOptimization.growStep_numberOfTerminals {D C : Type}
    (K : Collaborators α D C) (M : CMath α) (fuel : Nat) {G G' : Grow α D C}
    (h : ConstrainedConstructiveOptimization.growStep K M fuel G = some G') :
    G'.counted.tree.numberOfTerminals = G.counted.tree.numberOfTerminals := by
  simp only [ConstrainedConstructiveOptimization.growStep] at h
  split at h
  · cases h
  · rename_i point d c att hp
    split at h
    · cases h
    · rename_i vicinity hv
      split at h
      · cases h
      · rename_i s newSegment T hc
        have n1 := ConstrainedConstructiveOptimization.connectLoop_numberOfTerminals K M fuel
            _ point _ _ _ _ hc
        split at h
        · cases h
        · rename_i T2 s2 hr
          have n2 := (ConnectionEvaluationTable.reduceLoop_numberOfTerminals K M fuel _ _ _
                _ hr).trans n1
          by_cases hpos : T2.currentNumberOfReasonableConnections > 0
          · rw [if_pos hpos] at h
            split at h
            · cases h
            · rename_i x s3 hg
              cases h
              exact (Counted.growSegment_terminalsBound hg).trans n2
          · rw [if_neg hpos] at h
            cases h
            exact n2

theorem ConstrainedConstructiveOptimization.growLoopCalls_fit {D C : Type}
    (K : Collaborators α D C) (M : CMath α) (fuel : Nat) (n : Int)
    (hN : K.numberOfTerminals ≤ n) :
    ∀ (m : Nat) (G : Grow α D C), Balance G.counted G.Kterm → 1 ≤ G.Kterm →
      G.counted.tree.numberOfTerminals = n →
      ∀ s ∈ ConstrainedConstructiveOptimization.growLoopCalls K M fuel m G,
        s.currentNumberOfSegments = 2 * s.currentNumberOfTerminals - 1 ∧
        s.currentNumberOfTerminals < s.numberOfTerminals ∧ s.growSegmentSlotsFit := by
  intro m
  induction m with
  | zero => intro G _ _ _ s hs; simp [ConstrainedConstructiveOptimization.growLoopCalls] at hs
  | succ m ih =>
    intro G hb h1 hn s hs
    simp only [ConstrainedConstructiveOptimization.growLoopCalls] at hs
    split_ifs at hs with hlt
    · rw [List.mem_append] at hs
      rcases hs with hs | hs
      · exact ConstrainedConstructiveOptimization.growStepCalls_fit K M fuel G n hb h1 hn
          (lt_of_lt_of_le hlt hN) s hs
      · split at hs
        · simp at hs
        · rename_i G1 hG1
          obtain ⟨b1, hk⟩ := ConstrainedConstructiveOptimization.growStep_balance K M fuel hG1 hb
          exact ih G1 b1 (by omega)
            ((ConstrainedConstructiveOptimization.growStep_numberOfTerminals K M fuel hG1).trans
              hn) s hs
    · simp at hs

theorem growRoot_numberOfTerminals (M : CMath α) (t : Tree α) (root : Segment α) :
    (Tree.growRoot M t root).2.numberOfTerminals = t.numberOfTerminals := by
  simp only [Tree.growRoot, Tree.copy]
  split_ifs <;> rfl

theorem ConstrainedConstructiveOptimization.growCalls_fit {D C : Type}
    (K : Collaborators α D C) (M : CMath α) (fuel : Nat) (t : Tree α) (d : D) (c : C)
    (U : Uninitialised α) (hN : K.numberOfTerminals ≤ t.numberOfTerminals) :
    ∀ s ∈ ConstrainedConstructiveOptimization.growCalls K M fuel t d c U,
      s.currentNumberOfSegments = 2 * s.currentNumberOfTerminals - 1 ∧
      s.currentNumberOfTerminals < s.numberOfTerminals ∧ s.growSegmentSlotsFit := by
  intro s hs
  simp only [ConstrainedConstructiveOptimization.growCalls] at hs
  split at hs
  · simp at hs
  · rename_i t1 d1 c1 hroot
    simp only [ConstrainedConstructiveOptimization.growRoot] at hroot
    split at hroot
    · cases hroot
    · rename_i point d2 hp
      split_ifs at hroot
      cases hroot
      exact ConstrainedConstructiveOptimization.growLoopCalls_fit K M fuel t.numberOfTerminals
        hN fuel _ ⟨rfl, rfl, rfl⟩ (le_refl _) (growRoot_numberOfTerminals M t _) s hs

/-- Under the example driver for two terminals, on a fresh tree for `N` terminals whose
supporting circle holds the first point of the domain, `growRoot` grows the root at it. -/
theorem exampleGrowRoot_for (N : Int) (f : Nat) (hf : 1 ≤ f)
    (h : distance realMath 2 ⟨2, ((0 : ℕ) + 1 : ℝ) / 100, 0, 0⟩ ⟨2, 0, 0, 0⟩ <
      realMath.sqrt ((25 / 10000 : ℝ) / (realMath.pi * ((N : ℤ) : ℝ)))) :
    ConstrainedConstructiveOptimization.growRoot (exampleDriver 2) realMath f
      (exampleTreeFor N) 0 () =
    some ((Tree.growRoot realMath (exampleTreeFor N)
      (Segment.make 2 ⟨2, ((0 : ℕ) + 1 : ℝ) / 100, 0, 0⟩ 1)).2, 1, ()) := by
  obtain ⟨m, rfl⟩ : ∃ m, f = m + 1 := ⟨f - 1, by omega⟩
  simp only [ConstrainedConstructiveOptimization.growRoot,
    ConstrainedConstructiveOptimization.rootPointLoop, exampleDriver, exampleTreeFor,
    Tree.construct]
  simp only [Nat.ofNat_pos, decide_True, if_true]
  rw [if_pos h]
  simp
  rfl

/-- The first point of the example domain lies in the supporting circle of the example tree
for one terminal. -/
theorem exampleDriver_root_accept_one :
    distance realMath 2 ⟨2, ((0 : ℕ) + 1 : ℝ) / 100, 0, 0⟩ ⟨2, 0, 0, 0⟩ <
      realMath.sqrt ((25 / 10000 : ℝ) / (realMath.pi * ((1 : ℤ) : ℝ))) := by
  simp only [distance, realMath, show ¬ ((2 : ℤ) = 3) by decide, if_false]
  apply Real.sqrt_lt_sqrt (by positivity)
  rw [lt_div_iff₀ (by positivity)]
  norm_num
  nlinarith [Real.pi_lt_d2]

/-- Under the example driver for two terminals, the first call of `growSegment` that `grow`
issues is the trial connection on the tree that `growRoot` has left. -/
theorem exampleGrowCalls_first (N : Int) (f : Nat) (hf : 1 ≤ f)
    (h : distance realMath 2 ⟨2, ((0 : ℕ) + 1 : ℝ) / 100, 0, 0⟩ ⟨2, 0, 0, 0⟩ <
      realMath.sqrt ((25 / 10000 : ℝ) / (realMath.pi * ((N : ℤ) : ℝ)))) :
    (Tree.growRoot realMath (exampleTreeFor N)
        (Segment.make 2 ⟨2, ((0 : ℕ) + 1 : ℝ) / 100, 0, 0⟩ 1)).2 ∈
      ConstrainedConstructiveOptimization.growCalls (exampleDriver 2) realMath f
        (exampleTreeFor N) 0 () exampleUninitialised := by
  obtain ⟨m, rfl⟩ : ∃ m, f = m + 1 := ⟨f - 1, by omega⟩
  simp only [ConstrainedConstructiveOptimization.growCalls]
  rw [exampleGrowRoot_for N _ hf h]
  simp only [ConstrainedConstructiveOptimization.growLoopCalls]
  have hlt : (ConstrainedConstructiveOptimization.growStart (exampleDriver 2)
      (Tree.growRoot realMath (exampleTreeFor N)
        (Segment.make 2 ⟨2, ((0 : ℕ) + 1 : ℝ) / 100, 0, 0⟩ 1)).2 1 ()
      exampleUninitialised).Kterm <
      (exampleDriver 2 : Collaborators ℝ Nat Unit).numberOfTerminals := by
    show (1 : Int) < 2
    decide
  rw [if_pos hlt]
  apply List.mem_append_left
  simp only [ConstrainedConstructiveOptimization.growStepCalls]
  obtain ⟨v', hv', -, hc, -⟩ := exampleAtPoint realMath
    (show (Tree.growRoot realMath (exampleTreeFor N)
        (Segment.make 2 ⟨2, ((0 : ℕ) + 1 : ℝ) / 100, 0, 0⟩ 1)).2.currentNumberOfSegments = 1
      from rfl)
    (ConstrainedConstructiveOptimization.growStart (exampleDriver 2)
      (Tree.growRoot realMath (exampleTreeFor N)
        (Segment.make 2 ⟨2, ((0 : ℕ) + 1 : ℝ) / 100, 0, 0⟩ 1)).2 1 ()
      exampleUninitialised).vicinity rfl ⟨2, ((1 : ℕ) + 1 : ℝ) / 100, 0, 0⟩
  have hp := examplePointLoop (α := ℝ) 2 (Tree.growRoot realMath (exampleTreeFor N)
        (Segment.make 2 ⟨2, ((0 : ℕ) + 1 : ℝ) / 100, 0, 0⟩ 1)).2
      (Point.ofDimension (Tree.growRoot realMath (exampleTreeFor N)
        (Segment.make 2 ⟨2, ((0 : ℕ) + 1 : ℝ) / 100, 0, 0⟩ 1)).2.dimension) 1 (by decide) () 0
      (m + 1) hf
  have hp' : ConstrainedConstructiveOptimization.pointLoop (exampleDriver 2)
      (ConstrainedConstructiveOptimization.growStart (exampleDriver 2)
        (Tree.growRoot realMath (exampleTreeFor N)
          (Segment.make 2 ⟨2, ((0 : ℕ) + 1 : ℝ) / 100, 0, 0⟩ 1)).2 1 ()
        exampleUninitialised).counted.tree (m + 1)
      ((ConstrainedConstructiveOptimization.growStart (exampleDriver 2)
        (Tree.growRoot realMath (exampleTreeFor N)
          (Segment.make 2 ⟨2, ((0 : ℕ) + 1 : ℝ) / 100, 0, 0⟩ 1)).2 1 ()
        exampleUninitialised).point,
       (ConstrainedConstructiveOptimization.growStart (exampleDriver 2)
        (Tree.growRoot realMath (exampleTreeFor N)
          (Segment.make 2 ⟨2, ((0 : ℕ) + 1 : ℝ) / 100, 0, 0⟩ 1)).2 1 ()
        exampleUninitialised).domain,
       (ConstrainedConstructiveOptimization.growStart (exampleDriver 2)
        (Tree.growRoot realMath (exampleTreeFor N)
          (Segment.make 2 ⟨2, ((0 : ℕ) + 1 : ℝ) / 100, 0, 0⟩ 1)).2 1 ()
        exampleUninitialised).distanceCriterion, 0) =
      some (⟨2, ((1 : ℕ) + 1 : ℝ) / 100, 0, 0⟩, 1 + 1, (), 0) := hp
  rw [hp']
  simp only []
  have hv2 := hv' (m + 1) hf
  have hv3 : (ConstrainedConstructiveOptimization.growStart (exampleDriver 2)
        (Tree.growRoot realMath (exampleTreeFor N)
          (Segment.make 2 ⟨2, ((0 : ℕ) + 1 : ℝ) / 100, 0, 0⟩ 1)).2 1 ()
        exampleUninitialised).vicinity.atPoint realMath (m + 1)
      (ConstrainedConstructiveOptimization.growStart (exampleDriver 2)
        (Tree.growRoot realMath (exampleTreeFor N)
          (Segment.make 2 ⟨2, ((0 : ℕ) + 1 : ℝ) / 100, 0, 0⟩ 1)).2 1 ()
        exampleUninitialised).counted.tree ⟨2, ((1 : ℕ) + 1 : ℝ) / 100, 0, 0⟩ = some v' := hv2
  rw [hv3]
  simp only []
  apply List.mem_append_left
  rw [hc, indices_one]
  simp only [ConstrainedConstructiveOptimization.connectLoopCalls, List.mem_cons]
  exact Or.inl rfl

/-- C32: capacity safety.  In every reachable state of a tree in which
`currentNumberOfSegments = 2 * currentNumberOfTerminals - 1` and
`currentNumberOfTerminals < numberOfTerminals`, the two slots that `growSegment` fills, with the
indices `currentNumberOfSegments` and `currentNumberOfSegments + 1`, lie in the allocated range
`[0, 2 * numberOfTerminals - 1)`.  When the number of terminals that the driver is asked for is
at most the number that the tree was allocated for, every call of `growSegment` that `grow`
issues (for a trial connection, in `reduce`, and for the connection that stays) is made on a
tree in such a state, and so stays within the arrays. -/
theorem growSegment_capacity {D C : Type} (K : Collaborators α D C) (M : CMath α) (fuel : Nat)
    (t : Tree α) (d : D) (c : C) (U : Uninitialised α)
    (hN : K.numberOfTerminals ≤ t.numberOfTerminals) :
    (∀ s : Tree α, Reach M s →
      s.currentNumberOfSegments = 2 * s.currentNumberOfTerminals - 1 →
      s.currentNumberOfTerminals < s.numberOfTerminals → s.growSegmentSlotsFit) ∧
    ∀ s ∈ ConstrainedConstructiveOptimization.growCalls K M fuel t d c U,
      s.currentNumberOfSegments = 2 * s.currentNumberOfTerminals - 1 ∧
      s.currentNumberOfTerminals < s.numberOfTerminals ∧ s.growSegmentSlotsFit := by
  refine ⟨?_, ConstrainedConstructiveOptimization.growCalls_fit K M fuel t d c U hN⟩
  intro s hR h1 h2
  have hp := hR.wfl.cur_pos
  refine ⟨by omega, ?_⟩
  omega

/-- The capacity on a run: the example driver asked for two terminals, on the tree allocated
for two terminals, issues its first call of `growSegment` on the tree with the root alone,
where the slots 1 and 2 lie in the range `[0, 3)`. -/
theorem growSegment_capacity_witness :
    (exampleDriver 2 : Collaborators ℝ Nat Unit).numberOfTerminals ≤
      (exampleTreeFor 2 : Tree ℝ).numberOfTerminals ∧
    (Tree.growRoot realMath (exampleTreeFor 2)
        (Segment.make 2 ⟨2, ((0 : ℕ) + 1 : ℝ) / 100, 0, 0⟩ 1)).2 ∈
      ConstrainedConstructiveOptimization.growCalls (exampleDriver 2) realMath 1
        (exampleTreeFor 2) 0 () exampleUninitialised ∧
    (Tree.growRoot realMath (exampleTreeFor 2)
        (Segment.make 2 ⟨2, ((0 : ℕ) + 1 : ℝ) / 100, 0, 0⟩ 1)).2.growSegmentSlotsFit :=
  ⟨le_refl _, exampleGrowCalls_first 2 1 (le_refl _) exampleDriver_root_accept_two,
    ((growSegment_capacity (exampleDriver 2) realMath 1 (exampleTreeFor 2) 0 ()
      exampleUninitialised (le_refl _)).2 _
      (exampleGrowCalls_first 2 1 (le_refl _) exampleDriver_root_accept_two)).2.2⟩

/-- The example driver asked for two terminals, on a tree allocated for one terminal (one slot
in each array): the first call of `growSegment` that `grow` issues is made on the tree with the
root alone, with one terminal of one allowed, and fills the slots 1 and 2, outside the range
`[0, 1)`. -/
theorem growSegment_capacity_counterexample :
    (Tree.growRoot realMath (exampleTreeFor 1)
        (Segment.make 2 ⟨2, ((0 : ℕ) + 1 : ℝ) / 100, 0, 0⟩ 1)).2 ∈
      ConstrainedConstructiveOptimization.growCalls (exampleDriver 2) realMath 1
        (exampleTreeFor 1) 0 () exampleUninitialised ∧
    (Tree.growRoot realMath (exampleTreeFor 1)
        (Segment.make 2 ⟨2, ((0 : ℕ) + 1 : ℝ) / 100, 0, 0⟩ 1)).2.currentNumberOfSegments = 1 ∧
    2 * (Tree.growRoot realMath (exampleTreeFor 1)
        (Segment.make 2 ⟨2, ((0 : ℕ) + 1 : ℝ) / 100, 0, 0⟩ 1)).2.numberOfTerminals - 1 = 1 ∧
    ¬ (Tree.growRoot realMath (exampleTreeFor 1)
        (Segment.make 2 ⟨2, ((0 : ℕ) + 1 : ℝ) / 100, 0, 0⟩ 1)).2.growSegmentSlotsFit := by
  refine ⟨exampleGrowCalls_first 1 1 (le_refl _) exampleDriver_root_accept_one, rfl, ?_, ?_⟩
  · rw [growRoot_numberOfTerminals]
    rfl
  · rintro ⟨-, h⟩
    rw [growRoot_numberOfTerminals] at h
    exact absurd h (by decide)

/-! ## The structure of the reachable trees, and the loops over the parent links -/

theorem levelLoop_mono (t : Tree α) :
    ∀ (fuel : Nat) (i : Int) (acc v : Int), levelLoop fuel t i acc = some v →
      ∀ fuel', fuel ≤ fuel' → levelLoop fuel' t i acc = some v := by
  intro fuel
  induction fuel with
  | zero => intro i acc v h; simp [levelLoop] at h
  | succ n ih =>
    intro i acc v h fuel' hf
    obtain ⟨m, rfl⟩ : ∃ m, fuel' = m + 1 := ⟨fuel' - 1, by omega⟩
    simp only [levelLoop] at h ⊢
    split_ifs at h ⊢ with hr
    · exact ih _ _ _ h m (by omega)
    · exact h

/-- On a well-formed tree the loop of `level` returns: from a live segment the parent links
lead to the root in as many steps as the loop adds to its counter. -/
theorem levelLoop_total {t : Tree α} {d : Int → Nat} {B : Nat}
    (hw : WFL t) (hd : ∀ i, t.live i → d i ≤ B ∧ (i ≠ 0 → d (t.segments i).up < d i)) :
    ∀ (fuel : Nat) (i : Int) (acc : Int), t.live i → d i < fuel →
      ∃ n : Nat, levelLoop fuel t i acc = some (acc + n) ∧
        (fun j => (t.segments j).up)^[n] i = 0 := by
  intro fuel
  induction fuel with
  | zero => intro i acc hi h; omega
  | succ n ih =>
    intro i acc hi h
    simp only [levelLoop]
    by_cases h0 : i = 0
    · subst h0
      exact ⟨0, by simp [Tree.isRoot, rootID], rfl⟩
    · have hr : (!t.isRoot i) = true := by simp [Tree.isRoot, rootID, h0]
      rw [if_pos hr]
      obtain ⟨k, hk, hit⟩ := ih (t.segments i).up (acc + 1) (hw.up_live i hi h0)
        (by have := (hd i hi).2 h0; omega)
      refine ⟨k + 1, ?_, ?_⟩
      · rw [hk]; congr 1; push_cast; ring
      · rw [Function.iterate_succ_apply]; exact hit

theorem level_total {t : Tree α} (hw : WFL t) :
    ∃ f0 : Nat, ∀ i, t.live i → ∃ n : Nat, (fun j => (t.segments j).up)^[n] i = 0 ∧
      ∀ f, f0 ≤ f → level f t i = some (n : Int) := by
  obtain ⟨d, B, hd⟩ := hw.rank
  refine ⟨B + 1, fun i hi => ?_⟩
  obtain ⟨n, hn, hit⟩ := levelLoop_total hw hd (B + 1) i 0 hi (by have := (hd i hi).1; omega)
  refine ⟨n, hit, fun f hf => ?_⟩
  have := levelLoop_mono t _ _ _ _ hn f hf
  simpa [level] using this

/-- C35: structural well-formedness is an invariant.  In every state reached from `growRoot` by
`growSegment` on a live parent, by `remove` of the last segment and by `moveDistalPoint`: every
live segment `i` has the ID `i`; the segment 0 has no parent; the parent of every live segment
other than the root is live and has it as exactly one of its two children; every live segment
has no children, or two distinct live children whose parent link is the segment.  From every
live segment the parent links lead to the root in finitely many steps, and `level` returns their
number; `update` from any live segment returns, and `radius` returns on every live segment
(each for all sufficient fuel). -/
theorem wellformed_invariant {M : CMath α} {t : Tree α} (hR : Reach M t) :
    (∀ i, t.live i → (t.segments i).ID = i) ∧
    (t.segments 0).up = -1 ∧
    (∀ i, t.live i → i ≠ 0 → t.live (t.segments i).up ∧
      (((t.segments (t.segments i).up).left = i ∧ (t.segments (t.segments i).up).right ≠ i) ∨
       ((t.segments (t.segments i).up).left ≠ i ∧ (t.segments (t.segments i).up).right = i))) ∧
    (∀ i, t.live i →
      ((t.segments i).left = -1 ∧ (t.segments i).right = -1) ∨
      (t.live (t.segments i).left ∧ t.live (t.segments i).right ∧
        (t.segments i).left ≠ (t.segments i).right ∧
        (t.segments (t.segments i).left).up = i ∧ (t.segments (t.segments i).right).up = i)) ∧
    (∃ f0 : Nat, ∀ i, t.live i → ∃ n : Nat, (fun j => (t.segments j).up)^[n] i = 0 ∧
      ∀ f, f0 ≤ f → level f t i = some (n : Int)) ∧
    (∀ i, t.live i → ∃ k t', ∀ f, k ≤ f → update M f t (t.segments i) = some t') ∧
    (∃ (f0 : Nat) (ρ : Int → α), ∀ i, t.live i → ∀ f, f0 ≤ f → radius M f t i = some (ρ i)) := by
  have hw := hR.wfl
  refine ⟨hw.ids, hw.root_up, ?_, ?_, level_total hw, ?_, radius_total M hw⟩
  · intro i hi h0
    have hp := hw.up_live i hi h0
    refine ⟨hp, ?_⟩
    rcases hw.kids _ hp with ⟨k1, k2⟩ | ⟨-, -, -, -, hne, -, -⟩
    · rcases hw.up_child i hi h0 with h | h
      · rw [k1] at h; have := hi.1; omega
      · rw [k2] at h; have := hi.1; omega
    · rcases hw.up_child i hi h0 with h | h
      · exact Or.inl ⟨h, fun h2 => hne (h.trans h2.symm)⟩
      · exact Or.inr ⟨fun h2 => hne (h2.trans h.symm), h⟩
  · intro i hi
    rcases hw.kids i hi with h | ⟨a1, a2, a3, a4, a5, a6, a7⟩
    · exact Or.inl h
    · exact Or.inr ⟨⟨le_of_lt a1, a2⟩, ⟨le_of_lt a3, a4⟩, a5, a6, a7⟩
  · intro i hi
    obtain ⟨k, t', h⟩ := updateLoop_terminates M hw hi
    refine ⟨k, t', fun f hf => ?_⟩
    have := h f hf
    simpa [update, hw.ids i hi] using this

/-- The invariant on the root of the example over the real numbers: the only live segment is
the root, a terminal without a parent, and `level`, `update` and `radius` return on it. -/
theorem wellformed_invariant_witness :
    Reach realMath (exampleRoot realMath) ∧ (exampleRoot realMath).live 0 ∧
    ((exampleRoot realMath).segments 0).ID = 0 ∧
    ((exampleRoot realMath).segments 0).up = -1 ∧
    (∃ f0 : Nat, ∀ f, f0 ≤ f → level f (exampleRoot realMath) 0 = some 0) ∧
    (∃ k t', ∀ f, k ≤ f →
      update realMath f (exampleRoot realMath) ((exampleRoot realMath).segments 0) = some t') ∧
    (∃ (f0 : Nat) (ρ : ℝ), ∀ f, f0 ≤ f → radius realMath f (exampleRoot realMath) 0 = some ρ) := by
  obtain ⟨h1, h2, -, -, -, h6, f0, ρ, h7⟩ := wellformed_invariant (exampleRoot_reach realMath)
  refine ⟨exampleRoot_reach realMath, exampleRoot_live realMath, h1 0 (exampleRoot_live realMath),
    h2, ⟨1, fun f hf => ?_⟩, h6 0 (exampleRoot_live realMath),
    ⟨f0, ρ 0, fun f hf => h7 0 (exampleRoot_live realMath) f hf⟩⟩
  obtain ⟨m, rfl⟩ : ∃ m, f = m + 1 := ⟨f - 1, by omega⟩
  simp [level, levelLoop, Tree.isRoot, rootID]

/-! ## The grid of `SimpleOptimization::bifurcation` -/

theorem Point.eq_of_components {P Q : Point α} (h0 : P.dimension = Q.dimension)
    (h1 : P.x = Q.x) (h2 : P.y = Q.y) (h3 : P.z = Q.z) : P = Q := by
  cases P; cases Q; simp_all

/-- The corners of the triangle: `map(0, 0) = Xi`, `map(1, 0) = Xnew`, `map(0, 1) = Xj`, for
points that the geometry of dimension `dim` has built. -/
theorem SimpleOptimization.map_corners (dim : Int) (A B A1 B1 A2 B2 : Point α) :
    SimpleOptimization.map dim (Geometry.add dim A B) (Geometry.add dim A1 B1)
      (Geometry.add dim A2 B2) 0 0 = Geometry.add dim A B ∧
    SimpleOptimization.map dim (Geometry.add dim A B) (Geometry.add dim A1 B1)
      (Geometry.add dim A2 B2) 1 0 = Geometry.add dim A1 B1 ∧
    SimpleOptimization.map dim (Geometry.add dim A B) (Geometry.add dim A1 B1)
      (Geometry.add dim A2 B2) 0 1 = Geometry.add dim A2 B2 := by
  refine ⟨?_, ?_, ?_⟩ <;>
  · apply Point.eq_of_components
    · simp only [SimpleOptimization.map, Geometry.add_dimension]
    · simp only [SimpleOptimization.map, Geometry.add_x, Geometry.scalarProduct_x]; ring
    · simp only [SimpleOptimization.map, Geometry.add_y, Geometry.scalarProduct_y]; ring
    · simp only [SimpleOptimization.map, Geometry.add_z, Geometry.scalarProduct_z]
      split_ifs <;> ring

/-! ## The distance from a segment -/

/-- The value of `Geometry::distanceFromSegment` over the real numbers, for end points
`A ≠ B`: the distance from the foot of the perpendicular when the foot lies on the segment, the
distance from the nearer end point otherwise. -/
theorem Geometry.distanceFromSegment_eq (dim : Int) (P A B : Point ℝ) (hdim : dim = 2 ∨ dim = 3)
    (hAB : A.x ≠ B.x ∨ A.y ≠ B.y ∨ (dim = 3 ∧ A.z ≠ B.z)) :
    Geometry.distanceFromSegment realMath dim P A B =
      if 0 ≤ Geometry.dot dim (Geometry.subtract dim P A) (Geometry.subtract dim B A) /
            Geometry.dot dim (Geometry.subtract dim B A) (Geometry.subtract dim B A) ∧
          Geometry.dot dim (Geometry.subtract dim P A) (Geometry.subtract dim B A) /
            Geometry.dot dim (Geometry.subtract dim B A) (Geometry.subtract dim B A) ≤ 1 then
        Geometry.norm realMath dim (Geometry.subtract dim P (Geometry.add dim A
          (Geometry.scalarProduct dim
            (Geometry.dot dim (Geometry.subtract dim P A) (Geometry.subtract dim B A) /
              Geometry.dot dim (Geometry.subtract dim B A) (Geometry.subtract dim B A))
            (Geometry.subtract dim B A))))
      else min (Geometry.norm realMath dim (Geometry.subtract dim P A))
        (Geometry.norm realMath dim (Geometry.subtract dim P B)) := by
  rcases hdim with hd | hd
  · subst hd
    have hAB2 : A.x ≠ B.x ∨ A.y ≠ B.y := by
      rcases hAB with h | h | h
      · exact Or.inl h
      · exact Or.inr h
      · exact absurd h.1 (by decide)
    obtain ⟨h1, h2, h3⟩ := Geometry.distanceFromSegment2D_real P A B hAB2
    rw [← h3, Geometry.norm_subtract, Geometry.norm_subtract]
    rfl
  · subst hd
    have hAB3 : A.x ≠ B.x ∨ A.y ≠ B.y ∨ A.z ≠ B.z := by
      rcases hAB with h | h | h
      · exact Or.inl h
      · exact Or.inr (Or.inl h)
      · exact Or.inr (Or.inr h.2)
    obtain ⟨h1, h2, h3⟩ := Geometry.distanceFromSegment3D_real P A B hAB3
    rw [← h3, Geometry.norm_subtract, Geometry.norm_subtract]
    rfl

/-- The squared distance of `P` from the point `A + t (B - A)`, as a polynomial in `t`. -/
theorem Geometry.dot_along (dim : Int) (P A B : Point α) (t : α) :
    Geometry.dot dim
        (Geometry.subtract dim P (Geometry.add dim A
          (Geometry.scalarProduct dim t (Geometry.subtract dim B A))))
        (Geometry.subtract dim P (Geometry.add dim A
          (Geometry.scalarProduct dim t (Geometry.subtract dim B A)))) =
      Geometry.dot dim (Geometry.subtract dim P A) (Geometry.subtract dim P A) -
        2 * t * Geometry.dot dim (Geometry.subtract dim P A) (Geometry.subtract dim B A) +
        t * t * Geometry.dot dim (Geometry.subtract dim B A) (Geometry.subtract dim B A) := by
  simp only [Geometry.dot_eq, Geometry.subtract_x, Geometry.subtract_y, Geometry.subtract_z,
    Geometry.add_x, Geometry.add_y, Geometry.add_z, Geometry.scalarProduct_x,
    Geometry.scalarProduct_y, Geometry.scalarProduct_z]
  split_ifs <;> ring

theorem Geometry.dot_to_end (dim : Int) (P A B : Point α) :
    Geometry.dot dim (Geometry.subtract dim P B) (Geometry.subtract dim P B) =
      Geometry.dot dim (Geometry.subtract dim P A) (Geometry.subtract dim P A) -
        2 * Geometry.dot dim (Geometry.subtract dim P A) (Geometry.subtract dim B A) +
        Geometry.dot dim (Geometry.subtract dim B A) (Geometry.subtract dim B A) := by
  simp only [Geometry.dot_eq, Geometry.subtract_x, Geometry.subtract_y, Geometry.subtract_z]
  split_ifs <;> ring

/-- The squared distance of `P` from the point `A + t (B - A)` in the coordinates. -/
theorem Geometry.dot_along_components (dim : Int) (P A B : Point α) (t : α) :
    Geometry.dot dim
        (Geometry.subtract dim P (Geometry.add dim A
          (Geometry.scalarProduct dim t (Geometry.subtract dim B A))))
        (Geometry.subtract dim P (Geometry.add dim A
          (Geometry.scalarProduct dim t (Geometry.subtract dim B A)))) =
      (P.x - (A.x + t * (B.x - A.x))) * (P.x - (A.x + t * (B.x - A.x))) +
        (P.y - (A.y + t * (B.y - A.y))) * (P.y - (A.y + t * (B.y - A.y))) +
        (if dim = 3 then (P.z - (A.z + t * (B.z - A.z))) * (P.z - (A.z + t * (B.z - A.z)))
          else 0) := by
  simp only [Geometry.dot_eq, Geometry.subtract_x, Geometry.subtract_y, Geometry.subtract_z,
    Geometry.add_x, Geometry.add_y, Geometry.add_z, Geometry.scalarProduct_x,
    Geometry.scalarProduct_y, Geometry.scalarProduct_z]
  split_ifs <;> ring

theorem Geometry.dot_self_pos (dim : Int) (A B : Point ℝ)
    (hAB : A.x ≠ B.x ∨ A.y ≠ B.y ∨ (dim = 3 ∧ A.z ≠ B.z)) :
    0 < Geometry.dot dim (Geometry.subtract dim B A) (Geometry.subtract dim B A) := by
  simp only [Geometry.dot_eq, Geometry.subtract_x, Geometry.subtract_y, Geometry.subtract_z]
  rcases hAB with h | h | ⟨hd, h⟩
  · have : B.x - A.x ≠ 0 := sub_ne_zero.mpr (Ne.symm h)
    have h1 := mul_self_pos.mpr this
    split_ifs <;> nlinarith [mul_self_nonneg (B.y - A.y), mul_self_nonneg (B.z - A.z)]
  · have : B.y - A.y ≠ 0 := sub_ne_zero.mpr (Ne.symm h)
    have h1 := mul_self_pos.mpr this
    split_ifs <;> nlinarith [mul_self_nonneg (B.x - A.x), mul_self_nonneg (B.z - A.z)]
  · have : B.z - A.z ≠ 0 := sub_ne_zero.mpr (Ne.symm h)
    have h1 := mul_self_pos.mpr this
    try simp only [hd, if_true]
    nlinarith [mul_self_nonneg (B.x - A.x), mul_self_nonneg (B.y - A.y)]

theorem sum_squares_eq_zero {a b c : ℝ} (h : a * a + b * b + c * c = 0) :
    a = 0 ∧ b = 0 ∧ c = 0 := by
  have ha := mul_self_nonneg a
  have hb := mul_self_nonneg b
  have hc := mul_self_nonneg c
  exact ⟨mul_self_eq_zero.mp (by linarith), mul_self_eq_zero.mp (by linarith),
    mul_self_eq_zero.mp (by linarith)⟩

/-- C37: the critical distance is the distance from the segment.  For a point `P` and end
points `A ≠ B`, in the plane and in space: `distanceFromSegment(P, A, B)` is at most the
distance `|P - (A + t (B - A))|` for every `t` in `[0, 1]`, it is that distance for some `t` in
`[0, 1]`, and it is 0 exactly when `P = A + t (B - A)` for some `t` in `[0, 1]`, that is when
`P` lies on the closed segment `AB` (over the real numbers). -/
theorem distanceFromSegment_true (dim : Int) (P A B : Point ℝ) (hdim : dim = 2 ∨ dim = 3)
    (hAB : A.x ≠ B.x ∨ A.y ≠ B.y ∨ (dim = 3 ∧ A.z ≠ B.z)) :
    (∀ t : ℝ, 0 ≤ t → t ≤ 1 →
      Geometry.distanceFromSegment realMath dim P A B ≤
        Geometry.norm realMath dim (Geometry.subtract dim P (Geometry.add dim A
          (Geometry.scalarProduct dim t (Geometry.subtract dim B A))))) ∧
    (∃ t : ℝ, 0 ≤ t ∧ t ≤ 1 ∧
      Geometry.distanceFromSegment realMath dim P A B =
        Geometry.norm realMath dim (Geometry.subtract dim P (Geometry.add dim A
          (Geometry.scalarProduct dim t (Geometry.subtract dim B A))))) ∧
    (Geometry.distanceFromSegment realMath dim P A B = 0 ↔
      ∃ t : ℝ, 0 ≤ t ∧ t ≤ 1 ∧ P.x = A.x + t * (B.x - A.x) ∧ P.y = A.y + t * (B.y - A.y) ∧
        (dim = 3 → P.z = A.z + t * (B.z - A.z))) := by
  have hcode := Geometry.distanceFromSegment_eq dim P A B hdim hAB
  have hD := Geometry.dot_self_pos dim A B hAB
  obtain ⟨D, hDe⟩ : ∃ D, Geometry.dot dim (Geometry.subtract dim B A)
      (Geometry.subtract dim B A) = D := ⟨_, rfl⟩
  obtain ⟨N, hNe⟩ : ∃ N, Geometry.dot dim (Geometry.subtract dim P A)
      (Geometry.subtract dim B A) = N := ⟨_, rfl⟩
  obtain ⟨W, hWe⟩ : ∃ W, Geometry.dot dim (Geometry.subtract dim P A)
      (Geometry.subtract dim P A) = W := ⟨_, rfl⟩
  rw [hDe] at hD
  have hD0 : D ≠ 0 := ne_of_gt hD
  have hg : ∀ t : ℝ, Geometry.norm realMath dim (Geometry.subtract dim P (Geometry.add dim A
      (Geometry.scalarProduct dim t (Geometry.subtract dim B A)))) =
      Real.sqrt (W - 2 * t * N + t * t * D) := by
    intro t
    show Real.sqrt _ = _
    rw [Geometry.dot_along, hDe, hNe, hWe]
  have hA : Geometry.norm realMath dim (Geometry.subtract dim P A) = Real.sqrt W := by
    show Real.sqrt _ = _
    rw [hWe]
  have hB : Geometry.norm realMath dim (Geometry.subtract dim P B) =
      Real.sqrt (W - 2 * N + D) := by
    show Real.sqrt _ = _
    rw [Geometry.dot_to_end dim P A B, hDe, hNe, hWe]
  rw [hDe, hNe, hg, hA, hB] at hcode
  have hmin : ∀ t : ℝ, W - 2 * (N / D) * N + N / D * (N / D) * D ≤ W - 2 * t * N + t * t * D := by
    intro t
    have e : W - 2 * t * N + t * t * D - (W - 2 * (N / D) * N + N / D * (N / D) * D) =
        (t * D - N) ^ 2 / D := by
      field_simp
      ring
    have : 0 ≤ (t * D - N) ^ 2 / D := div_nonneg (sq_nonneg _) (le_of_lt hD)
    linarith
  have hle : ∀ t : ℝ, 0 ≤ t → t ≤ 1 →
      Geometry.distanceFromSegment realMath dim P A B ≤ Real.sqrt (W - 2 * t * N + t * t * D) := by
    intro t h0 h1
    rw [hcode]
    split_ifs with hin
    · exact Real.sqrt_le_sqrt (hmin t)
    · by_cases hneg : N / D < 0
      · have hN : N < 0 := by
          by_contra hc
          exact absurd (div_nonneg (not_lt.mp hc) (le_of_lt hD)) (not_le.mpr hneg)
        refine le_trans (min_le_left _ _) (Real.sqrt_le_sqrt ?_)
        nlinarith [mul_nonneg h0 (le_of_lt hD), mul_nonneg h0 h0, mul_nonneg h0 (le_of_lt (neg_pos.mpr hN)),
          mul_nonneg (mul_nonneg h0 h0) (le_of_lt hD)]
      · have hgt : 1 < N / D := by
          by_contra hc
          exact hin ⟨not_lt.mp hneg, not_lt.mp hc⟩
        have hN : D < N := by
          rwa [lt_div_iff₀ hD, one_mul] at hgt
        refine le_trans (min_le_right _ _) (Real.sqrt_le_sqrt ?_)
        have e : W - 2 * t * N + t * t * D - (W - 2 * N + D) =
            (1 - t) * (2 * N - (t + 1) * D) := by ring
        have : 0 ≤ (1 - t) * (2 * N - (t + 1) * D) :=
          mul_nonneg (by linarith) (by nlinarith)
        linarith
  have hex : ∃ t : ℝ, 0 ≤ t ∧ t ≤ 1 ∧
      Geometry.distanceFromSegment realMath dim P A B =
        Real.sqrt (W - 2 * t * N + t * t * D) := by
    by_cases hin : 0 ≤ N / D ∧ N / D ≤ 1
    · exact ⟨N / D, hin.1, hin.2, by rw [hcode, if_pos hin]⟩
    · by_cases hneg : N / D < 0
      · have hN : N < 0 := by
          by_contra hc
          exact absurd (div_nonneg (not_lt.mp hc) (le_of_lt hD)) (not_le.mpr hneg)
        refine ⟨0, le_refl _, zero_le_one, ?_⟩
        rw [hcode, if_neg hin, min_eq_left (Real.sqrt_le_sqrt (by linarith))]
        congr 1
        ring
      · have hgt : 1 < N / D := by
          by_contra hc
          exact hin ⟨not_lt.mp hneg, not_lt.mp hc⟩
        have hN : D < N := by
          rwa [lt_div_iff₀ hD, one_mul] at hgt
        refine ⟨1, zero_le_one, le_refl _, ?_⟩
        rw [hcode, if_neg hin, min_eq_right (Real.sqrt_le_sqrt (by linarith))]
        congr 1
        ring
  have hcomp : ∀ t : ℝ, W - 2 * t * N + t * t * D =
      (P.x - (A.x + t * (B.x - A.x))) * (P.x - (A.x + t * (B.x - A.x))) +
        (P.y - (A.y + t * (B.y - A.y))) * (P.y - (A.y + t * (B.y - A.y))) +
        (if dim = 3 then (P.z - (A.z + t * (B.z - A.z))) * (P.z - (A.z + t * (B.z - A.z)))
          else 0) := by
    intro t
    rw [← Geometry.dot_along_components, Geometry.dot_along, hDe, hNe, hWe]
  have hzero : ∀ t : ℝ, Real.sqrt (W - 2 * t * N + t * t * D) = 0 ↔
      (P.x = A.x + t * (B.x - A.x) ∧ P.y = A.y + t * (B.y - A.y) ∧
        (dim = 3 → P.z = A.z + t * (B.z - A.z))) := by
    intro t
    obtain ⟨a, ha⟩ : ∃ a, P.x - (A.x + t * (B.x - A.x)) = a := ⟨_, rfl⟩
    obtain ⟨b, hb⟩ : ∃ b, P.y - (A.y + t * (B.y - A.y)) = b := ⟨_, rfl⟩
    obtain ⟨c, hc⟩ : ∃ c, P.z - (A.z + t * (B.z - A.z)) = c := ⟨_, rfl⟩
    have ex : P.x = A.x + t * (B.x - A.x) ↔ a = 0 := by rw [← ha]; exact sub_eq_zero.symm
    have ey : P.y = A.y + t * (B.y - A.y) ↔ b = 0 := by rw [← hb]; exact sub_eq_zero.symm
    have ez : P.z = A.z + t * (B.z - A.z) ↔ c = 0 := by rw [← hc]; exact sub_eq_zero.symm
    rw [hcomp, ha, hb, hc, ex, ey, ez]
    by_cases hd : dim = 3
    · rw [if_pos hd]
      have hnn : 0 ≤ a * a + b * b + c * c := by
        have := mul_self_nonneg a
        have := mul_self_nonneg b
        have := mul_self_nonneg c
        linarith
      rw [Real.sqrt_eq_zero hnn]
      constructor
      · intro h
        obtain ⟨h1, h2, h3⟩ := sum_squares_eq_zero h
        exact ⟨h1, h2, fun _ => h3⟩
      · rintro ⟨h1, h2, h3⟩
        rw [h1, h2, h3 hd]
        ring
    · rw [if_neg hd]
      have hnn : 0 ≤ a * a + b * b + 0 := by
        have := mul_self_nonneg a
        have := mul_self_nonneg b
        linarith
      rw [Real.sqrt_eq_zero hnn]
      constructor
      · intro h
        have h' : a * a + b * b + 0 * 0 = 0 := by linarith
        obtain ⟨h1, h2, -⟩ := sum_squares_eq_zero h'
        exact ⟨h1, h2, fun h3 => absurd h3 hd⟩
      · rintro ⟨h1, h2, -⟩
        rw [h1, h2]
        ring
  refine ⟨fun t h0 h1 => by rw [hg]; exact hle t h0 h1, ?_, ?_⟩
  · obtain ⟨t, h0, h1, h⟩ := hex
    exact ⟨t, h0, h1, by rw [hg]; exact h⟩
  · constructor
    · intro hz
      obtain ⟨t, h0, h1, h⟩ := hex
      rw [hz] at h
      exact ⟨t, h0, h1, (hzero t).1 h.symm⟩
    · rintro ⟨t, h0, h1, h⟩
      have h2 := hle t h0 h1
      rw [(hzero t).2 h] at h2
      obtain ⟨t', -, -, h'⟩ := hex
      have h3 : 0 ≤ Geometry.distanceFromSegment realMath dim P A B := by
        rw [h']; exact Real.sqrt_nonneg _
      exact le_antisymm h2 h3

/-- The distance from a segment on two points: the point `(1, 1)` is at the distance 1 of the
segment from `(0, 0)` to `(2, 0)`, at most its distance from every point of the segment, and
the point `(1, 0)` of the segment is at the distance 0. -/
theorem distanceFromSegment_true_witness :
    ((2 : Int) = 2 ∨ (2 : Int) = 3) ∧
    (∀ t : ℝ, 0 ≤ t → t ≤ 1 →
      Geometry.distanceFromSegment realMath 2 (⟨2, 1, 1, 0⟩ : Point ℝ) ⟨2, 0, 0, 0⟩ ⟨2, 2, 0, 0⟩ ≤
        Geometry.norm realMath 2 (Geometry.subtract 2 (⟨2, 1, 1, 0⟩ : Point ℝ)
          (Geometry.add 2 ⟨2, 0, 0, 0⟩
            (Geometry.scalarProduct 2 t (Geometry.subtract 2 ⟨2, 2, 0, 0⟩ ⟨2, 0, 0, 0⟩))))) ∧
    Geometry.distanceFromSegment realMath 2 (⟨2, 1, 0, 0⟩ : Point ℝ) ⟨2, 0, 0, 0⟩ ⟨2, 2, 0, 0⟩ =
      0 :=
  ⟨Or.inl rfl,
    (distanceFromSegment_true 2 (⟨2, 1, 1, 0⟩ : Point ℝ) ⟨2, 0, 0, 0⟩ ⟨2, 2, 0, 0⟩ (Or.inl rfl)
      (Or.inl (by norm_num))).1,
    (distanceFromSegment_true 2 (⟨2, 1, 0, 0⟩ : Point ℝ) ⟨2, 0, 0, 0⟩ ⟨2, 2, 0, 0⟩ (Or.inl rfl)
      (Or.inl (by norm_num))).2.2.2
      ⟨1 / 2, by norm_num, by norm_num, by norm_num, by norm_num,
        fun h => absurd h (by decide)⟩⟩

/-! ## The Strahler order -/

theorem strahlerOrder_mono (t : Tree α) :
    ∀ (fuel : Nat) (s : Int) (v : Int), strahlerOrder fuel t s = some v →
      ∀ fuel', fuel ≤ fuel' → strahlerOrder fuel' t s = some v := by
  intro fuel
  induction fuel with
  | zero => intro s v h; simp [strahlerOrder] at h
  | succ n ih =>
    intro s v h fuel' hf
    obtain ⟨m, rfl⟩ : ∃ m, fuel' = m + 1 := ⟨fuel' - 1, by omega⟩
    simp only [strahlerOrder] at h ⊢
    split_ifs at h ⊢ with ht
    · exact h
    · cases hl : strahlerOrder n t (t.leftSegment s).ID with
      | none => rw [hl] at h; cases h
      | some a =>
        rw [hl] at h
        rw [ih _ _ hl m (by omega)]
        cases hr : strahlerOrder n t (t.rightSegment s).ID with
        | none => rw [hr] at h; cases h
        | some b =>
          rw [hr] at h
          rw [ih _ _ hr m (by omega)]
          exact h

theorem strahlerOrder_succ (t : Tree α) (fuel : Nat) (s : Int) :
    strahlerOrder (fuel + 1) t s =
      if t.isTerminal s then some 1
      else
        match strahlerOrder fuel t (t.leftSegment s).ID with
        | none => none
        | some leftSO =>
          match strahlerOrder fuel t (t.rightSegment s).ID with
          | none => none
          | some rightSO =>
            if leftSO = rightSO then some (leftSO + 1)
            else some (if leftSO > rightSO then leftSO else rightSO) := rfl

/-- The children of a live segment that is not a terminal. -/
theorem WFL.children {t : Tree α} (h : WFL t) {s : Int} (hs : t.live s)
    (hnt : t.isTerminal s = false) :
    t.live (t.segments s).left ∧ t.live (t.segments s).right ∧
    (t.segments s).left ≠ 0 ∧ (t.segments s).right ≠ 0 ∧
    (t.segments s).left ≠ (t.segments s).right ∧
    (t.segments (t.segments s).left).up = s ∧ (t.segments (t.segments s).right).up = s ∧
    (t.leftSegment s).ID = (t.segments s).left ∧ (t.rightSegment s).ID = (t.segments s).right := by
  rcases h.kids s hs with hk | ⟨k1, k2, k3, k4, k5, k6, k7⟩
  · have := (isTerminal_iff t s).2 hk
    rw [hnt] at this; cases this
  · have hl : t.live (t.segments s).left := ⟨le_of_lt k1, k2⟩
    have hr : t.live (t.segments s).right := ⟨le_of_lt k3, k4⟩
    exact ⟨hl, hr, ne_of_gt k1, ne_of_gt k3, k5, k6, k7, h.ids _ hl, h.ids _ hr⟩

/-- On a well-formed tree `strahlerOrder` returns on every live segment. -/
theorem strahlerOrder_total {t : Tree α} {d : Int → Nat} {B : Nat} (hw : WFL t)
    (hd : ∀ i, t.live i → d i ≤ B ∧ (i ≠ 0 → d (t.segments i).up < d i)) :
    ∀ (fuel : Nat) (s : Int), t.live s → B - d s < fuel →
      ∃ v, strahlerOrder fuel t s = some v := by
  intro fuel
  induction fuel with
  | zero => intro s hs h; omega
  | succ n ih =>
    intro s hs h
    simp only [strahlerOrder]
    cases hterm : t.isTerminal s with
    | true => exact ⟨1, by simp⟩
    | false =>
      obtain ⟨hl, hr, hl0, hr0, -, ul, ur, il, ir⟩ := hw.children hs hterm
      have dl := (hd _ hl).2 hl0
      have dr := (hd _ hr).2 hr0
      rw [ul] at dl
      rw [ur] at dr
      have bl := (hd _ hl).1
      have br := (hd _ hr).1
      obtain ⟨a, ha⟩ := ih (t.segments s).left hl (by omega)
      obtain ⟨b, hb⟩ := ih (t.segments s).right hr (by omega)
      rw [il, ir, ha, hb]
      simp only [Bool.false_eq_true, if_false]
      split_ifs
      · exact ⟨_, rfl⟩
      · exact ⟨_, rfl⟩
      · exact ⟨_, rfl⟩

theorem OnPath.trans_path {t : Tree α} {i a b : Int} (h1 : OnPath t i a) (h2 : OnPath t a b) :
    OnPath t i b := by
  induction h1 with
  | self => exact h2
  | step i a hne _ ih => exact OnPath.step i b hne (ih h2)

theorem OnPath.comparable {t : Tree α} {i a b : Int} (h1 : OnPath t i a) (h2 : OnPath t i b) :
    OnPath t a b ∨ OnPath t b a := by
  induction h1 with
  | self => exact Or.inl h2
  | step i a hne h ih =>
    cases h2 with
    | self => exact Or.inr (OnPath.step _ _ hne h)
    | step _ _ _ h3 => exact ih h3

/-- No segment lies below both children of a segment. -/
theorem WFL.children_disjoint {t : Tree α} (h : WFL t) {s l r i : Int} (hs : t.live s)
    (hl : t.live l) (hr : t.live r) (hl0 : l ≠ 0) (hr0 : r ≠ 0) (hne : l ≠ r)
    (ul : (t.segments l).up = s) (ur : (t.segments r).up = s)
    (h1 : OnPath t i l) (h2 : OnPath t i r) : False := by
  rcases OnPath.comparable h1 h2 with hp | hp
  · cases hp with
    | self => exact hne rfl
    | step _ _ _ h3 =>
      rw [ul] at h3
      exact h.not_onPath_child hs hr ur hr0 h3
  · cases hp with
    | self => exact hne rfl
    | step _ _ _ h3 =>
      rw [ur] at h3
      exact h.not_onPath_child hs hl ul hl0 h3

/-- The recursion of `strahlerOrder` on a well-formed tree: a function `ord` gives its value on
every live segment for all sufficient fuel, with the value 1 on the terminals and the value of
the code on the other segments. -/
theorem strahlerOrder_rec {t : Tree α} (hw : WFL t) :
    ∃ (f0 : Nat) (ord : Int → Int), ∀ s, t.live s →
      (∀ f, f0 ≤ f → strahlerOrder f t s = some (ord s)) ∧
      (t.isTerminal s = true → ord s = 1) ∧
      (t.isTerminal s = false →
        ord s = if ord (t.segments s).left = ord (t.segments s).right then
            ord (t.segments s).left + 1
          else if ord (t.segments s).left > ord (t.segments s).right then
            ord (t.segments s).left
          else ord (t.segments s).right) := by
  obtain ⟨d, B, hd⟩ := hw.rank
  obtain ⟨ord, hval⟩ : ∃ ord : Int → Int, ∀ s, t.live s → ∀ f, B + 1 ≤ f →
      strahlerOrder f t s = some (ord s) := by
    refine ⟨fun s => (strahlerOrder (B + 1) t s).getD 0, fun s hs f hf => ?_⟩
    obtain ⟨v, hv⟩ := strahlerOrder_total hw hd (B + 1) s hs (by omega)
    rw [strahlerOrder_mono t _ _ _ hv f hf]
    simp only [hv, Option.getD_some]
  refine ⟨B + 1, ord, fun s hs => ⟨hval s hs, ?_, ?_⟩⟩
  · intro ht
    have h2 := hval s hs (B + 1) (le_refl _)
    rw [strahlerOrder_succ, if_pos ht] at h2
    exact (Option.some.inj h2).symm
  · intro hnt
    obtain ⟨hl, hr, -, -, -, -, -, il, ir⟩ := hw.children hs hnt
    have h2 := hval s hs (B + 1 + 1) (by omega)
    have hL := hval _ hl (B + 1) (le_refl _)
    have hR := hval _ hr (B + 1) (le_refl _)
    rw [strahlerOrder_succ, hnt, il, ir, hL, hR] at h2
    simp only [Bool.false_eq_true, if_false] at h2
    split_ifs at h2 ⊢ with c1 c2
    · exact (Option.some.inj h2).symm
    · exact (Option.some.inj h2).symm
    · exact (Option.some.inj h2).symm

/-- C39: the Strahler order.  On a well-formed tree `strahlerOrder` returns on every live
segment `s` (for all sufficient fuel); its value is 1 exactly when `s` is a terminal; when `s`
is not a terminal, it is the maximum of the orders of the two children when these differ and
their common order plus one when they are equal; and `2 ^ (strahlerOrder(s) - 1)` is at most
the number of terminals in the subtree rooted at `s` (the live terminals from which the parent
links lead to `s`). -/
theorem strahler_order {t : Tree α} (hw : WFL t) :
    ∃ (f0 : Nat) (ord : Int → Int), ∀ s, t.live s →
      (∀ f, f0 ≤ f → strahlerOrder f t s = some (ord s)) ∧
      (ord s = 1 ↔ t.isTerminal s = true) ∧
      (t.isTerminal s = false →
        (ord (t.segments s).left ≠ ord (t.segments s).right →
          ord s = max (ord (t.segments s).left) (ord (t.segments s).right)) ∧
        (ord (t.segments s).left = ord (t.segments s).right →
          ord s = ord (t.segments s).left + 1)) ∧
      ∃ T : Finset Int,
        (∀ i, i ∈ T ↔ t.live i ∧ t.isTerminal i = true ∧ OnPath t i s) ∧
        2 ^ (ord s - 1).toNat ≤ T.card := by
  classical
  obtain ⟨f0, ord, hord⟩ := strahlerOrder_rec hw
  obtain ⟨d, B, hd⟩ := hw.rank
  have hpos : ∀ (n : Nat) (s : Int), t.live s → B - d s ≤ n → 1 ≤ ord s := by
    intro n
    induction n with
    | zero =>
      intro s hs hn
      cases hterm : t.isTerminal s with
      | true => rw [(hord s hs).2.1 hterm]
      | false =>
        obtain ⟨hl, -, hl0, -, -, ul, -, -, -⟩ := hw.children hs hterm
        have dl := (hd _ hl).2 hl0
        rw [ul] at dl
        have bl := (hd _ hl).1
        omega
    | succ n ih =>
      intro s hs hn
      cases hterm : t.isTerminal s with
      | true => rw [(hord s hs).2.1 hterm]
      | false =>
        obtain ⟨hl, hr, hl0, hr0, -, ul, ur, -, -⟩ := hw.children hs hterm
        have dl := (hd _ hl).2 hl0
        have dr := (hd _ hr).2 hr0
        rw [ul] at dl
        rw [ur] at dr
        have pl := ih _ hl (by omega)
        have pr := ih _ hr (by omega)
        rw [(hord s hs).2.2 hterm]
        split_ifs <;> omega
  have hpos1 : ∀ s, t.live s → 1 ≤ ord s := fun s hs => hpos (B - d s) s hs (le_refl _)
  obtain ⟨T, hT⟩ : ∃ T : Int → Finset Int, ∀ s i,
      i ∈ T s ↔ t.live i ∧ t.isTerminal i = true ∧ OnPath t i s :=
    ⟨fun s => (Finset.Icc 0 (t.currentNumberOfSegments - 1)).filter
      (fun i => t.isTerminal i = true ∧ OnPath t i s), fun s i => by
        simp only [Finset.mem_filter, Finset.mem_Icc, Tree.live]
        constructor
        · rintro ⟨⟨a, b⟩, c, e⟩
          exact ⟨⟨a, by omega⟩, c, e⟩
        · rintro ⟨⟨a, b⟩, c, e⟩
          exact ⟨⟨a, by omega⟩, c, e⟩⟩
  have hcard : ∀ (n : Nat) (s : Int), t.live s → B - d s ≤ n →
      2 ^ (ord s - 1).toNat ≤ (T s).card := by
    intro n
    induction n using Nat.strong_induction_on with
    | _ n ih =>
      intro s hs hn
      cases hterm : t.isTerminal s with
      | true =>
        rw [(hord s hs).2.1 hterm]
        have : s ∈ T s := (hT s s).2 ⟨hs, hterm, OnPath.self s⟩
        have := Finset.card_pos.mpr ⟨s, this⟩
        simpa using this
      | false =>
        obtain ⟨hl, hr, hl0, hr0, hne, ul, ur, -, -⟩ := hw.children hs hterm
        have dl := (hd _ hl).2 hl0
        have dr := (hd _ hr).2 hr0
        rw [ul] at dl
        rw [ur] at dr
        have bl := (hd _ hl).1
        have br := (hd _ hr).1
        have hn0 : 0 < n := by omega
        have cl := ih (n - 1) (by omega) _ hl (by omega)
        have cr := ih (n - 1) (by omega) _ hr (by omega)
        have pl := hpos1 _ hl
        have pr := hpos1 _ hr
        have upl : (t.segments (t.segments s).left).up ≠ -1 := by
          rw [ul]; have := hs.1; omega
        have upr : (t.segments (t.segments s).right).up ≠ -1 := by
          rw [ur]; have := hs.1; omega
        have sl : T (t.segments s).left ⊆ T s := by
          intro i hi
          obtain ⟨a, b, c⟩ := (hT _ i).1 hi
          exact (hT s i).2 ⟨a, b, c.trans_path
            (OnPath.step _ _ upl (by rw [ul]; exact OnPath.self s))⟩
        have sr : T (t.segments s).right ⊆ T s := by
          intro i hi
          obtain ⟨a, b, c⟩ := (hT _ i).1 hi
          exact (hT s i).2 ⟨a, b, c.trans_path
            (OnPath.step _ _ upr (by rw [ur]; exact OnPath.self s))⟩
        have hdis : Disjoint (T (t.segments s).left) (T (t.segments s).right) := by
          rw [Finset.disjoint_left]
          intro i h1 h2
          exact hw.children_disjoint hs hl hr hl0 hr0 hne ul ur ((hT _ i).1 h1).2.2
            ((hT _ i).1 h2).2.2
        have hunion : (T (t.segments s).left).card + (T (t.segments s).right).card ≤
            (T s).card := by
          rw [← Finset.card_union_of_disjoint hdis]
          exact Finset.card_le_card (Finset.union_subset sl sr)
        rw [(hord s hs).2.2 hterm]
        split_ifs with c1 c2
        · have e : (ord (t.segments s).left + 1 - 1).toNat =
              (ord (t.segments s).left - 1).toNat + 1 := by omega
          rw [e, pow_succ]
          rw [c1] at cl
          rw [c1]
          omega
        · exact le_trans cl (Finset.card_le_card sl)
        · exact le_trans cr (Finset.card_le_card sr)
  refine ⟨f0, ord, fun s hs => ⟨(hord s hs).1, ?_, ?_, T s, hT s, hcard _ s hs (le_refl _)⟩⟩
  · constructor
    · intro h1
      cases hterm : t.isTerminal s with
      | true => rfl
      | false =>
        obtain ⟨hl, hr, -, -, -, -, -, -, -⟩ := hw.children hs hterm
        have pl := hpos1 _ hl
        have pr := hpos1 _ hr
        have := (hord s hs).2.2 hterm
        rw [h1] at this
        split_ifs at this <;> omega
    · exact (hord s hs).2.1
  · intro hnt
    have := (hord s hs).2.2 hnt
    refine ⟨fun hne => ?_, fun heq => ?_⟩
    · rw [this, if_neg hne]
      split_ifs with c
      · exact (max_eq_left (le_of_lt c)).symm
      · exact (max_eq_right (not_lt.mp c)).symm
    · rw [this, if_pos heq]

/-- The Strahler order on the root of the example, a terminal: the order is 1. -/
theorem strahler_order_witness :
    WFL (exampleRoot realMath) ∧ (exampleRoot realMath).live 0 ∧
    ∃ f0 : Nat, ∀ f, f0 ≤ f → strahlerOrder f (exampleRoot realMath) 0 = some 1 := by
  obtain ⟨f0, ord, h⟩ := strahler_order (exampleRoot_reach realMath).wfl
  obtain ⟨h1, h2, -, -⟩ := h 0 (exampleRoot_live realMath)
  have ht : (exampleRoot realMath).isTerminal 0 = true := by
    rw [isTerminal_iff]
    exact ⟨(exampleRoot_links realMath).2.1, (exampleRoot_links realMath).2.2⟩
  refine ⟨(exampleRoot_reach realMath).wfl, exampleRoot_live realMath, f0, fun f hf => ?_⟩
  rw [h1 f hf, h2.2 ht]

/-! ## Murray's law at a bifurcation -/

/-- The two ratios of `Tree::update` over the real numbers, for positive flows and resistances
of the children and a positive exponent `γ`: with `ρ = (fl / fr * (Rl / Rr)) ^ (1/4)` and
`p = ρ ^ γ`, the `γ`-th powers of the ratios are `p / (1 + p)` and `1 / (1 + p)`. -/
theorem bifurcationRatios_murray (γ fl fr Rl Rr : ℝ) (hγ : 0 < γ) (hfl : 0 < fl)
    (hfr : 0 < fr) (hRl : 0 < Rl) (hRr : 0 < Rr) :
    (bifurcationRatios realMath γ fl fr Rl Rr).1 ^ γ +
        (bifurcationRatios realMath γ fl fr Rl Rr).2 ^ γ = 1 ∧
    (bifurcationRatios realMath γ fl fr Rl Rr).1 / (bifurcationRatios realMath γ fl fr Rl Rr).2 =
      (fl / fr * (Rl / Rr)) ^ (1 / 4 : ℝ) ∧
    0 < (bifurcationRatios realMath γ fl fr Rl Rr).1 ∧
    (bifurcationRatios realMath γ fl fr Rl Rr).1 < 1 ∧
    0 < (bifurcationRatios realMath γ fl fr Rl Rr).2 ∧
    (bifurcationRatios realMath γ fl fr Rl Rr).2 < 1 := by
  have hq : 0 < fl / fr * (Rl / Rr) := mul_pos (div_pos hfl hfr) (div_pos hRl hRr)
  obtain ⟨ρ, hρ⟩ : ∃ ρ, (fl / fr * (Rl / Rr)) ^ (1 / 4 : ℝ) = ρ := ⟨_, rfl⟩
  have hρpos : 0 < ρ := by rw [← hρ]; exact Real.rpow_pos_of_pos hq _
  obtain ⟨p, hp⟩ : ∃ p, ρ ^ γ = p := ⟨_, rfl⟩
  have hppos : 0 < p := by rw [← hp]; exact Real.rpow_pos_of_pos hρpos _
  have hγ0 : γ ≠ 0 := ne_of_gt hγ
  have e1 : (bifurcationRatios realMath γ fl fr Rl Rr).1 = (1 + 1 / p) ^ (-1 / γ) := by
    simp only [bifurcationRatios, realMath, hρ, hp]
  have e2 : (bifurcationRatios realMath γ fl fr Rl Rr).2 = (1 + p) ^ (-1 / γ) := by
    simp only [bifurcationRatios, realMath, hρ, hp]
  have ha : 0 < 1 + 1 / p := by positivity
  have hb : 0 < 1 + p := by positivity
  have hmul : -1 / γ * γ = -1 := by field_simp
  have p1 : ((1 + 1 / p) ^ (-1 / γ)) ^ γ = p / (1 + p) := by
    rw [← Real.rpow_mul (le_of_lt ha), hmul, Real.rpow_neg_one]
    have hp0 : p ≠ 0 := ne_of_gt hppos
    have e0 : 1 + 1 / p = (1 + p) / p := by
      field_simp
      ring
    rw [e0, inv_div]
  have p2 : ((1 + p) ^ (-1 / γ)) ^ γ = 1 / (1 + p) := by
    rw [← Real.rpow_mul (le_of_lt hb), hmul, Real.rpow_neg_one]
    field_simp
  have hneg : -1 / γ < 0 := by
    apply div_neg_of_neg_of_pos <;> linarith
  rw [e1, e2]
  refine ⟨?_, ?_, Real.rpow_pos_of_pos ha _, ?_, Real.rpow_pos_of_pos hb _, ?_⟩
  · rw [p1, p2]
    have hb0 : 1 + p ≠ 0 := ne_of_gt hb
    field_simp
    ring
  · rw [← Real.div_rpow (le_of_lt ha) (le_of_lt hb)]
    have e3 : (1 + 1 / p) / (1 + p) = p⁻¹ := by
      have hp0 : p ≠ 0 := ne_of_gt hppos
      have hb0 : 1 + p ≠ 0 := ne_of_gt hb
      field_simp
      ring
    rw [e3, Real.inv_rpow (le_of_lt hppos), ← Real.rpow_neg (le_of_lt hppos), ← hp,
      ← Real.rpow_mul (le_of_lt hρpos)]
    have e4 : γ * -(-1 / γ) = 1 := by field_simp
    rw [e4, Real.rpow_one]
    exact hρ.symm
  · exact Real.rpow_lt_one_of_one_lt_of_neg (by linarith [one_div_pos.mpr hppos]) hneg
  · exact Real.rpow_lt_one_of_one_lt_of_neg (by linarith) hneg

/-- The ratios that one pass of the loop of `Tree::update` stores at a segment that is not a
terminal. -/
theorem updateStep_ratios (M : CMath α) (t : Tree α) (i : Int) (hnt : t.isTerminal i = false) :
    ((updateStep M t i).segments i).bifurcationRatioLeft =
      (bifurcationRatios M (t.bifurcationExpoent i) (t.leftSegment i).flow
        (t.rightSegment i).flow (t.reducedHydrodynamicResistance (t.segments i).left)
        (t.reducedHydrodynamicResistance (t.segments i).right)).1 ∧
    ((updateStep M t i).segments i).bifurcationRatioRight =
      (bifurcationRatios M (t.bifurcationExpoent i) (t.leftSegment i).flow
        (t.rightSegment i).flow (t.reducedHydrodynamicResistance (t.segments i).left)
        (t.reducedHydrodynamicResistance (t.segments i).right)).2 := by
  unfold updateStep
  rw [hnt]
  simp [bifurcationRatios, Tree.leftSegment, Tree.rightSegment]

/-- The fields of the three segments that `growSegment(b, p, c)` touches, for a call that
returned. -/
theorem growSegment_fields {M : CMath α} {t : Tree α} (hR : Reach M t) {p : Int}
    (hp : t.live p) {b : Point α} {c : Segment α} {fuel : Nat} {r : Segment α × Tree α}
    (h1 : growSegment M fuel b (t.segments p) c t = some r) :
    r.2.currentNumberOfSegments = t.currentNumberOfSegments + 2 ∧
      r.2.currentNumberOfTerminals = t.currentNumberOfTerminals + 1 ∧
      r.1 = r.2.segments p ∧ r.1.ID = p ∧
      (r.2.segments p).point = b ∧
      (r.2.segments p).left = t.currentNumberOfSegments ∧
      (r.2.segments p).right = t.currentNumberOfSegments + 1 ∧
      (r.2.segments t.currentNumberOfSegments).point = (t.segments p).point ∧
      (r.2.segments t.currentNumberOfSegments).left = (t.segments p).left ∧
      (r.2.segments t.currentNumberOfSegments).right = (t.segments p).right ∧
      (r.2.segments t.currentNumberOfSegments).flow = (t.segments p).flow ∧
      (r.2.segments t.currentNumberOfSegments).up = p ∧
      ((t.segments p).left ≠ -1 →
        (r.2.segments (t.segments p).left).up = t.currentNumberOfSegments) ∧
      ((t.segments p).right ≠ -1 →
        (r.2.segments (t.segments p).right).up = t.currentNumberOfSegments) ∧
      (r.2.segments (t.currentNumberOfSegments + 1)).point = c.point ∧
      (r.2.segments (t.currentNumberOfSegments + 1)).flow = c.flow ∧
      (r.2.segments (t.currentNumberOfSegments + 1)).up = p ∧
      (r.2.segments (t.currentNumberOfSegments + 1)).left = -1 ∧
      (r.2.segments (t.currentNumberOfSegments + 1)).right = -1 := by
  have hw := hR.wfl
  have hw1 := hR.growSegmentLinks_wfl hp b c
  obtain ⟨-, -, -, -, -, e6, e7⟩ := growSegment_consts h1
  obtain ⟨q1, q2, q3, q4, q5⟩ := growSegment_post hR hp h1
  obtain ⟨s, hs, hsl, hde⟩ := hR.linkInv
  have hpos := hw.cur_pos
  have hodd := hw.odd
  have hpl := hp
  simp only [Tree.live] at hpl
  have c1 := growSegmentLinks_cur M b (t.segments p) c t
  have n1 : ¬ (t.currentNumberOfSegments + 1 = p) := by omega
  have n2 : ¬ (t.currentNumberOfSegments = p) := by omega
  have n3 : ¬ (t.currentNumberOfSegments + 1 = t.currentNumberOfSegments) := by omega
  have n4 : ¬ (t.currentNumberOfSegments = t.currentNumberOfSegments + 1) := by omega
  have lp : (growSegmentLinks M b (t.segments p) c t).live p := by
    simp only [Tree.live, c1]; omega
  have ln : (growSegmentLinks M b (t.segments p) c t).live t.currentNumberOfSegments := by
    simp only [Tree.live, c1]; omega
  have ln1 : (growSegmentLinks M b (t.segments p) c t).live (t.currentNumberOfSegments + 1) := by
    simp only [Tree.live, c1]; omega
  have un : ((growSegmentLinks M b (t.segments p) c t).segments t.currentNumberOfSegments).up
      = p := by
    rw [growSegmentLinks_up M b c hw hp]; simp only [n2, n4, if_true, if_false]
  have un1 : ((growSegmentLinks M b (t.segments p) c t).segments
      (t.currentNumberOfSegments + 1)).up = p := by
    rw [growSegmentLinks_up M b c hw hp]; simp only [n1, if_true, if_false]
  have ofn := (q4 _ (hw1.not_onPath_child lp ln un (by omega))).1
  have ofn1 := (q4 _ (hw1.not_onPath_child lp ln1 un1 (by omega))).1
  have d1 := hde _ (by omega : t.currentNumberOfSegments ≤ t.currentNumberOfSegments + 1)
    (by omega)
  have lk : ∀ i, (r.2.segments i).point =
        ((growSegmentLinks M b (t.segments p) c t).segments i).point ∧
      (r.2.segments i).up = ((growSegmentLinks M b (t.segments p) c t).segments i).up ∧
      (r.2.segments i).left = ((growSegmentLinks M b (t.segments p) c t).segments i).left ∧
      (r.2.segments i).right = ((growSegmentLinks M b (t.segments p) c t).segments i).right :=
    fun i => ⟨(q2.segments i).2.1, (q2.segments i).2.2.2.1, (q2.segments i).2.2.2.2.1,
      (q2.segments i).2.2.2.2.2⟩
  refine ⟨e6, e7, q1, ?_, ?_, ?_, ?_, ?_, ?_, ?_, ?_, ?_, ?_,
    ?_, ?_, ?_, ?_, ?_, ?_⟩
  · rw [q1, show (r.2.segments p).ID = _ from (q2.segments p).1,
      growSegmentLinks_ID M b c hw hp]
    have m0 : ¬ (p = t.currentNumberOfSegments + 1 ∨ p = t.currentNumberOfSegments) := by omega
    rw [if_neg m0]; exact hw.ids p hp
  · rw [(lk p).1, growSegmentLinks_point M b c hw hp, if_pos rfl]
  · rw [(lk p).2.2.1, growSegmentLinks_left M b c hw hp, if_pos rfl]
  · rw [(lk p).2.2.2, growSegmentLinks_right M b c hw hp, if_pos rfl]
  · rw [ofn, growSegmentLinks_point M b c hw hp]; simp only [n2, n4, if_true, if_false]
  · rw [ofn, growSegmentLinks_left M b c hw hp]; simp only [n2, if_true, if_false]
  · rw [ofn, growSegmentLinks_right M b c hw hp]; simp only [n2, if_true, if_false]
  · rw [ofn, growSegmentLinks_flow M b c hw hp]; simp only [n4, if_true, if_false]
  · rw [ofn]; exact un
  · intro hl
    rcases hw.kids p hp with hk | ⟨k1, k2, k3, k4, k5, k6, k7⟩
    · exact absurd hk.1 hl
    · rw [(lk _).2.1, growSegmentLinks_up M b c hw hp]
      have m1 : ¬ ((t.segments p).left = p) := by
        intro e; rw [e] at k6
        obtain ⟨d, B, hd⟩ := hw.rank
        have := (hd p hp).2 (by omega)
        rw [k6] at this; omega
      have m2 : ¬ ((t.segments p).left = t.currentNumberOfSegments + 1) := by omega
      have m3 : ¬ ((t.segments p).left = t.currentNumberOfSegments) := by omega
      simp only [m1, m2, m3, if_false, true_or, ne_eq, hl, not_false_eq_true, and_self, if_true]
  · intro hl
    rcases hw.kids p hp with hk | ⟨k1, k2, k3, k4, k5, k6, k7⟩
    · exact absurd hk.2 hl
    · rw [(lk _).2.1, growSegmentLinks_up M b c hw hp]
      have m1 : ¬ ((t.segments p).right = p) := by
        intro e; rw [e] at k7
        obtain ⟨d, B, hd⟩ := hw.rank
        have := (hd p hp).2 (by omega)
        rw [k7] at this; omega
      have m2 : ¬ ((t.segments p).right = t.currentNumberOfSegments + 1) := by omega
      have m3 : ¬ ((t.segments p).right = t.currentNumberOfSegments) := by omega
      simp only [m1, m2, m3, if_false, or_true, ne_eq, hl, not_false_eq_true, and_self, if_true]
  · rw [ofn1, growSegmentLinks_point M b c hw hp]; simp only [n1, if_true, if_false]
  · rw [ofn1, growSegmentLinks_flow M b c hw hp]; simp only [if_true]
  · rw [ofn1]; exact un1
  · rw [ofn1, growSegmentLinks_left M b c hw hp]; simp only [n1, n3, if_false]; exact d1.1
  · rw [ofn1, growSegmentLinks_right M b c hw hp]; simp only [n1, n3, if_false]; exact d1.2

/-! ## A tree of three segments -/

theorem growSegmentLinks_params (M : CMath α) (b : Point α) (parent c : Segment α)
    (t : Tree α) :
    (growSegmentLinks M b parent c t).radiusUnit = t.radiusUnit ∧
    (growSegmentLinks M b parent c t).perfusionFlow = t.perfusionFlow ∧
    (growSegmentLinks M b parent c t).perfusionPressure = t.perfusionPressure ∧
    (growSegmentLinks M b parent c t).terminalPressure = t.terminalPressure := by
  refine ⟨?_, ?_, ?_, ?_⟩ <;>
  · simp only [growSegmentLinks, growBifurcation, growNewSegment, growConnection]
    split_ifs <;> rfl

theorem growSegment_params {M : CMath α} {fuel : Nat} {b : Point α} {parent c : Segment α}
    {t : Tree α} {r : Segment α × Tree α} (hr : growSegment M fuel b parent c t = some r) :
    r.2.radiusUnit = t.radiusUnit ∧ r.2.perfusionFlow = t.perfusionFlow ∧
    r.2.perfusionPressure = t.perfusionPressure ∧
    r.2.terminalPressure = t.terminalPressure := by
  obtain ⟨t2, ht2, rfl⟩ := growSegment_eq_some hr
  have hf := updateLoop_frame M _ _ _ _ ht2
  obtain ⟨k1, k2, k3, k4⟩ := growSegmentLinks_params M b parent c t
  exact ⟨hf.radiusUnit.trans k1, hf.perfusionFlow.trans k2, hf.perfusionPressure.trans k3,
    hf.terminalPressure.trans k4⟩

theorem moveDistalPoint_params {M : CMath α} {fuel : Nat} {s : Int} {x : Point α}
    {t t' : Tree α} (hr : moveDistalPoint M fuel t s x = some t') :
    t'.radiusUnit = t.radiusUnit ∧ t'.perfusionFlow = t.perfusionFlow ∧
    t'.perfusionPressure = t.perfusionPressure ∧ t'.terminalPressure = t.terminalPressure := by
  have hf := updateLoop_frame M _ _ _ _ hr
  have k : (moveDistalPointLengths M t s x).radiusUnit = t.radiusUnit ∧
      (moveDistalPointLengths M t s x).perfusionFlow = t.perfusionFlow ∧
      (moveDistalPointLengths M t s x).perfusionPressure = t.perfusionPressure ∧
      (moveDistalPointLengths M t s x).terminalPressure = t.terminalPressure := by
    refine ⟨?_, ?_, ?_, ?_⟩ <;>
    · simp only [moveDistalPointLengths, moveSetPoint, moveChildLength]
      split <;> rfl
  exact ⟨hf.radiusUnit.trans k.1, hf.perfusionFlow.trans k.2.1,
    hf.perfusionPressure.trans k.2.2.1, hf.terminalPressure.trans k.2.2.2⟩

theorem growRoot_params (M : CMath α) (t : Tree α) (root : Segment α) :
    (Tree.growRoot M t root).2.radiusUnit = t.radiusUnit ∧
    (Tree.growRoot M t root).2.perfusionFlow = t.perfusionFlow ∧
    (Tree.growRoot M t root).2.perfusionPressure = t.perfusionPressure ∧
    (Tree.growRoot M t root).2.terminalPressure = t.terminalPressure := by
  refine ⟨?_, ?_, ?_, ?_⟩ <;>
  · simp only [Tree.growRoot, Tree.copy]
    split_ifs <;> rfl

/-- The tree that `growSegment` makes of a root is a tree of three segments. -/
theorem IsFork.of_growSegment {M : CMath α} {t0 : Tree α} (hf : t0.Fresh) (dim : Int)
    (E : Point α) (f1 : α) {fuel : Nat} {b : Point α} {c : Segment α}
    {r : Segment α × Tree α}
    (h1 : growSegment M fuel b ((Tree.growRoot M t0 (Segment.make dim E f1)).2.segments 0) c
      (Tree.growRoot M t0 (Segment.make dim E f1)).2 = some r) :
    IsFork M r.2 b E c.point f1 c.flow ∧ r.1 = r.2.segments 0 ∧
    r.2.seed = t0.seed ∧ r.2.dimension = t0.dimension ∧ r.2.lengthUnit = t0.lengthUnit ∧
    r.2.bloodViscosity = t0.bloodViscosity ∧ r.2.bifurcationExpoent = t0.bifurcationExpoent ∧
    r.2.radiusUnit = t0.radiusUnit ∧ r.2.perfusionFlow = t0.perfusionFlow ∧
    r.2.perfusionPressure = t0.perfusionPressure ∧
    r.2.terminalPressure = t0.terminalPressure := by
  have hR : Reach M (Tree.growRoot M t0 (Segment.make dim E f1)).2 :=
    Reach.root t0 dim E f1 hf
  have hl : (Tree.growRoot M t0 (Segment.make dim E f1)).2.live 0 :=
    ⟨le_refl _, by rw [growRoot_cur]; exact Int.zero_lt_one⟩
  have hseg := growRoot_segments M t0 dim E f1 0
  rw [if_pos rfl] at hseg
  obtain ⟨a1, a2, a3, a4, a5, a6, a7, a8, a9, a10, a11, a12, -, -, a15, a16, a17, a18, a19⟩ :=
    growSegment_fields hR hl h1
  obtain ⟨g1, g2, g3, g4, g5, g6, g7⟩ := growRoot_fields M t0 (Segment.make dim E f1)
  obtain ⟨k1, k2, k3, k4, k5, -, -⟩ := growSegment_consts h1
  obtain ⟨p1, p2, p3, p4⟩ := growSegment_params h1
  obtain ⟨q1, q2, q3, q4⟩ := growRoot_params M t0 (Segment.make dim E f1)
  rw [growRoot_cur] at a1 a6 a7 a8 a9 a10 a11 a12 a15 a16 a17 a18 a19
  rw [hseg] at a8 a9 a10 a11
  refine ⟨⟨Reach.grow fuel b 0 c _ r hR hl h1, a1, a6, a7, a12, a17, a9, a10, a18, a19, a5, a8,
    a15, a11, a16⟩, a3, k5.trans g7, k4.trans g6, k1.trans g3, k2.trans g4, k3.trans g5,
    p1.trans q1, p2.trans q2, p3.trans q3, p4.trans q4⟩

/-- A tree of three segments after `moveDistalPoint(0, x)`. -/
theorem IsFork.move {M : CMath α} {t t' : Tree α} {P0 P1 P2 : Point α} {f1 f2 : α}
    (h : IsFork M t P0 P1 P2 f1 f2) {fuel : Nat} {x : Point α}
    (hm : moveDistalPoint M fuel t 0 x = some t') :
    IsFork M t' x P1 P2 f1 f2 ∧
    t'.seed = t.seed ∧ t'.dimension = t.dimension ∧ t'.lengthUnit = t.lengthUnit ∧
    t'.bloodViscosity = t.bloodViscosity ∧ t'.bifurcationExpoent = t.bifurcationExpoent ∧
    t'.radiusUnit = t.radiusUnit ∧ t'.perfusionFlow = t.perfusionFlow ∧
    t'.perfusionPressure = t.perfusionPressure ∧
    t'.terminalPressure = t.terminalPressure := by
  have hl : t.live 0 := ⟨le_refl _, by rw [h.cur]; decide⟩
  obtain ⟨hmv, hx⟩ := moveDistalPoint_moved h.reach hl hm
  obtain ⟨p1, p2, p3, p4⟩ := moveDistalPoint_params hm
  have t1 : t.isTerminal 1 = true := (isTerminal_iff t 1).2 ⟨h.left1, h.right1⟩
  have t2 : t.isTerminal 2 = true := (isTerminal_iff t 2).2 ⟨h.left2, h.right2⟩
  refine ⟨⟨Reach.move fuel 0 x t t' h.reach hl hm, hmv.currentNumberOfSegments.trans h.cur,
    (hmv.left 0).trans h.left0, (hmv.right 0).trans h.right0, (hmv.up 1).trans h.up1,
    (hmv.up 2).trans h.up2, (hmv.left 1).trans h.left1, (hmv.right 1).trans h.right1,
    (hmv.left 2).trans h.left2, (hmv.right 2).trans h.right2, hx,
    (hmv.point 1 (by decide)).trans h.point1, (hmv.point 2 (by decide)).trans h.point2,
    (hmv.flow 1 t1).trans h.flow1, (hmv.flow 2 t2).trans h.flow2⟩,
    hmv.seed, hmv.dimension, hmv.lengthUnit, hmv.bloodViscosity, hmv.bifurcationExpoent,
    p1, p2, p3, p4⟩

/-- The numbers of a tree of three segments with the length unit 1: the lengths are the
distances of the end points, the resistances of the two terminals are those of Poiseuille's
law, and the root holds the two ratios and the resistance that `Tree::update` computes from
them. -/
theorem IsFork.numbers {M : CMath α} {t : Tree α} {P0 P1 P2 : Point α} {f1 f2 : α}
    (h : IsFork M t P0 P1 P2 f1 f2) (hlu : t.lengthUnit = 1)
    (hγ : ∀ i j, t.bifurcationExpoent i = t.bifurcationExpoent j) :
    t.length 0 = distance M t.dimension t.seed P0 ∧
    t.length 1 = distance M t.dimension P0 P1 ∧
    t.length 2 = distance M t.dimension P0 P2 ∧
    t.reducedHydrodynamicResistance 1 =
      poiseuilleLawConstant M * t.bloodViscosity 1 * t.length 1 ∧
    t.reducedHydrodynamicResistance 2 =
      poiseuilleLawConstant M * t.bloodViscosity 2 * t.length 2 ∧
    (t.segments 0).bifurcationRatioLeft =
      (bifurcationRatios M (t.bifurcationExpoent 0) f1 f2 (t.reducedHydrodynamicResistance 1)
        (t.reducedHydrodynamicResistance 2)).1 ∧
    (t.segments 0).bifurcationRatioRight =
      (bifurcationRatios M (t.bifurcationExpoent 0) f1 f2 (t.reducedHydrodynamicResistance 1)
        (t.reducedHydrodynamicResistance 2)).2 ∧
    t.reducedHydrodynamicResistance 0 =
      poiseuilleLawConstant M * t.bloodViscosity 0 * t.length 0 +
        1 / (M.pow (t.segments 0).bifurcationRatioLeft 4 / t.reducedHydrodynamicResistance 1 +
          M.pow (t.segments 0).bifurcationRatioRight 4 /
            t.reducedHydrodynamicResistance 2) := by
  obtain ⟨hlen, hgood, -⟩ := h.reach.numInv hlu hγ
  have l0 : t.live 0 := ⟨le_refl _, by rw [h.cur]; decide⟩
  have l1 : t.live 1 := ⟨by decide, by rw [h.cur]; decide⟩
  have l2 : t.live 2 := ⟨by decide, by rw [h.cur]; decide⟩
  have t0 : t.isTerminal 0 = false := by
    cases ht : t.isTerminal 0 with
    | false => rfl
    | true =>
      have := ((isTerminal_iff t 0).1 ht).1
      rw [h.left0] at this
      exact absurd this (by decide)
  have t1 : t.isTerminal 1 = true := (isTerminal_iff t 1).2 ⟨h.left1, h.right1⟩
  have t2 : t.isTerminal 2 = true := (isTerminal_iff t 2).2 ⟨h.left2, h.right2⟩
  have g0 := hgood 0 l0
  have g1 := hgood 1 l1
  have g2 := hgood 2 l2
  simp only [Good, t0, t1, t2, if_true, Bool.false_eq_true, if_false, Tree.leftSegment,
    Tree.rightSegment, h.left0, h.right0, h.flow1, h.flow2] at g0 g1 g2
  have e0 : t.length 0 = distance M t.dimension t.seed P0 := by
    show t.lengthUnit * t._length 0 = _
    rw [hlu, one_mul, hlen 0 l0, proximalPoint_eq, if_pos rfl, Tree.distalPoint, h.point0]
  have e1 : t.length 1 = distance M t.dimension P0 P1 := by
    show t.lengthUnit * t._length 1 = _
    rw [hlu, one_mul, hlen 1 l1, proximalPoint_eq, if_neg (by decide), Tree.distalPoint,
      h.up1, h.point0, h.point1]
  have e2 : t.length 2 = distance M t.dimension P0 P2 := by
    show t.lengthUnit * t._length 2 = _
    rw [hlu, one_mul, hlen 2 l2, proximalPoint_eq, if_neg (by decide), Tree.distalPoint,
      h.up2, h.point0, h.point2]
  exact ⟨e0, e1, e2, g1.1, g2.1, g0.2.1, g0.2.2.1, g0.2.2.2⟩

/-- The radii of a tree of three segments. -/
theorem IsFork.radii {M : CMath α} {t : Tree α} {P0 P1 P2 : Point α} {f1 f2 : α}
    (h : IsFork M t P0 P1 P2 f1 f2) (f : Nat) (hf : 2 ≤ f) :
    Tree.radius M f t 0 = some (rootRadius M t) ∧
    Tree.radius M f t 1 = some ((t.segments 0).bifurcationRatioLeft * rootRadius M t) ∧
    Tree.radius M f t 2 = some ((t.segments 0).bifurcationRatioRight * rootRadius M t) := by
  obtain ⟨m, rfl⟩ : ∃ m, f = m + 2 := ⟨f - 2, by omega⟩
  refine ⟨radius_root M t _ (by omega), ?_, ?_⟩
  · simp [Tree.radius, radiusLoop, Tree.isRoot, rootID, h.up1, h.left0]
  · simp [Tree.radius, radiusLoop, Tree.isRoot, rootID, h.up2, h.left0, h.right0]

/-- C36: Murray's law at a bifurcation.  When the loop of `Tree::update` processes a segment
that is not a terminal, whose children have positive flows and positive reduced resistances,
with the bifurcation exponent `γ > 0`, the two ratios it stores satisfy
`ratioLeft ^ γ + ratioRight ^ γ = 1` and
`ratioLeft / ratioRight = (flowRatio * resistanceRatio) ^ (1/4)`, and both lie strictly between
0 and 1 (over the real numbers). -/
theorem murray_law (t : Tree ℝ) (i : Int) (hnt : t.isTerminal i = false)
    (hγ : 0 < t.bifurcationExpoent i) (hfl : 0 < (t.leftSegment i).flow)
    (hfr : 0 < (t.rightSegment i).flow)
    (hRl : 0 < t.reducedHydrodynamicResistance (t.segments i).left)
    (hRr : 0 < t.reducedHydrodynamicResistance (t.segments i).right) :
    realMath.pow ((updateStep realMath t i).segments i).bifurcationRatioLeft
        (t.bifurcationExpoent i) +
      realMath.pow ((updateStep realMath t i).segments i).bifurcationRatioRight
        (t.bifurcationExpoent i) = 1 ∧
    ((updateStep realMath t i).segments i).bifurcationRatioLeft /
        ((updateStep realMath t i).segments i).bifurcationRatioRight =
      realMath.pow ((t.leftSegment i).flow / (t.rightSegment i).flow *
        (t.reducedHydrodynamicResistance (t.segments i).left /
          t.reducedHydrodynamicResistance (t.segments i).right)) (1 / 4) ∧
    0 < ((updateStep realMath t i).segments i).bifurcationRatioLeft ∧
    ((updateStep realMath t i).segments i).bifurcationRatioLeft < 1 ∧
    0 < ((updateStep realMath t i).segments i).bifurcationRatioRight ∧
    ((updateStep realMath t i).segments i).bifurcationRatioRight < 1 := by
  obtain ⟨e1, e2⟩ := updateStep_ratios realMath t i hnt
  rw [e1, e2]
  exact bifurcationRatios_murray _ _ _ _ _ hγ hfl hfr hRl hRr

/-- The distance of two points of the plane that differ in a coordinate is positive. -/
theorem distance_pos_plane (P Q : Point ℝ) (h : P.x ≠ Q.x ∨ P.y ≠ Q.y) :
    0 < distance realMath 2 P Q := by
  simp only [distance, realMath, show ¬ ((2 : ℤ) = 3) by decide, if_false]
  apply Real.sqrt_pos.mpr
  rcases h with h | h
  · have : P.x - Q.x ≠ 0 := sub_ne_zero.mpr h
    nlinarith [mul_self_pos.mpr this, mul_self_nonneg (P.y - Q.y)]
  · have : P.y - Q.y ≠ 0 := sub_ne_zero.mpr h
    nlinarith [mul_self_pos.mpr this, mul_self_nonneg (P.x - Q.x)]

/-- Murray's law on the tree that `growSegment` makes of the root of the example: a pass of
the loop of `update` at the root, whose children are the terminals 1 and 2. -/
theorem murray_law_witness :
    ∃ fuel r,
      growSegment realMath fuel ⟨2, 1, 1, 0⟩ ((exampleRoot realMath).segments 0)
        (Segment.make 2 ⟨2, 2, 0, 0⟩ 1) (exampleRoot realMath) = some r ∧
      r.2.isTerminal 0 = false ∧ 0 < r.2.bifurcationExpoent 0 ∧
      0 < (r.2.leftSegment 0).flow ∧ 0 < (r.2.rightSegment 0).flow ∧
      0 < r.2.reducedHydrodynamicResistance (r.2.segments 0).left ∧
      0 < r.2.reducedHydrodynamicResistance (r.2.segments 0).right ∧
      realMath.pow ((updateStep realMath r.2 0).segments 0).bifurcationRatioLeft
          (r.2.bifurcationExpoent 0) +
        realMath.pow ((updateStep realMath r.2 0).segments 0).bifurcationRatioRight
          (r.2.bifurcationExpoent 0) = 1 ∧
      ((updateStep realMath r.2 0).segments 0).bifurcationRatioLeft < 1 ∧
      ((updateStep realMath r.2 0).segments 0).bifurcationRatioRight < 1 := by
  obtain ⟨f0, r, h, -, -, -, hnt⟩ := exampleFork_exists
  obtain ⟨hF, -, e1, e2, e3, e4, e5, -⟩ :=
    IsFork.of_growSegment (construct_fresh (⟨2, 0, 0, 0⟩ : Point ℝ) 4 2 (fun _ => 2)
      (fun _ => 0) (fun _ => 0)) 2 ⟨2, 1, 0, 0⟩ 1 h
  have hlu : r.2.lengthUnit = 1 := e3
  have hγc : ∀ i j, r.2.bifurcationExpoent i = r.2.bifurcationExpoent j := by
    intro i j; rw [e5]; rfl
  obtain ⟨-, n1, n2, n3, n4, -⟩ := hF.numbers hlu hγc
  have hdim : r.2.dimension = 2 := e2
  have hκ : 0 < poiseuilleLawConstant realMath := div_pos (by norm_num) Real.pi_pos
  have hμ : ∀ i, 0 < r.2.bloodViscosity i := by
    intro i; rw [e4]; show (0 : ℝ) < 36 / 10000; norm_num
  have hγ : 0 < r.2.bifurcationExpoent 0 := by
    rw [e5]; show (0 : ℝ) < 3; norm_num
  have hfl : 0 < (r.2.leftSegment 0).flow := by
    show 0 < (r.2.segments (r.2.segments 0).left).flow
    rw [hF.left0, hF.flow1]; exact one_pos
  have hfr : 0 < (r.2.rightSegment 0).flow := by
    show 0 < (r.2.segments (r.2.segments 0).right).flow
    rw [hF.right0, hF.flow2]; exact one_pos
  have hRl : 0 < r.2.reducedHydrodynamicResistance (r.2.segments 0).left := by
    rw [hF.left0, n3, n1, hdim]
    exact mul_pos (mul_pos hκ (hμ 1)) (distance_pos_plane _ _ (Or.inr (by norm_num)))
  have hRr : 0 < r.2.reducedHydrodynamicResistance (r.2.segments 0).right := by
    rw [hF.right0, n4, n2, hdim]
    exact mul_pos (mul_pos hκ (hμ 2)) (distance_pos_plane _ _ (Or.inl (by
      show (1 : ℝ) ≠ (Segment.make 2 (⟨2, 2, 0, 0⟩ : Point ℝ) 1).point.x
      show (1 : ℝ) ≠ 2
      norm_num)))
  obtain ⟨m1, -, -, m4, -, m6⟩ := murray_law r.2 0 hnt hγ hfl hfr hRl hRr
  exact ⟨f0, r, h, hnt, hγ, hfl, hfr, hRl, hRr, m1, m4, m6⟩

/-! ## The restriction `ValidSegment` during `SimpleOptimization::bifurcation` -/

/-- The distance of two points of the first axis of the plane. -/
theorem distance_axis (a b : ℝ) :
    distance realMath 2 (⟨2, a, 0, 0⟩ : Point ℝ) ⟨2, b, 0, 0⟩ = |a - b| := by
  simp only [distance, realMath, show ¬ ((2 : ℤ) = 3) by decide, if_false, sub_self, mul_zero,
    add_zero]
  exact Real.sqrt_mul_self_eq_abs _

theorem rpow_quarter_bounds (X a b : ℝ) (ha : 0 ≤ a) (hb : 0 ≤ b) (h1 : a ^ 4 ≤ X)
    (h2 : X ≤ b ^ 4) : a ≤ X ^ (1 / 4 : ℝ) ∧ X ^ (1 / 4 : ℝ) ≤ b := by
  have ea : (a ^ 4) ^ (1 / 4 : ℝ) = a := by
    have := Real.pow_rpow_inv_natCast ha (show (4 : ℕ) ≠ 0 by decide)
    simpa using this
  have eb : (b ^ 4) ^ (1 / 4 : ℝ) = b := by
    have := Real.pow_rpow_inv_natCast hb (show (4 : ℕ) ≠ 0 by decide)
    simpa using this
  have hX : 0 ≤ X := le_trans (by positivity) h1
  constructor
  · rw [← ea]
    exact Real.rpow_le_rpow (by positivity) h1 (by norm_num)
  · rw [← eb]
    exact Real.rpow_le_rpow hX h2 (by norm_num)

theorem sixteen_rpow_quarter : (16 : ℝ) ^ (1 / 4 : ℝ) = 2 := by
  have := Real.pow_rpow_inv_natCast (show (0 : ℝ) ≤ 2 by norm_num) (show (4 : ℕ) ≠ 0 by decide)
  norm_num at this
  simpa using this

/-- The cubes of the two ratios of `Tree::update` for the exponent 3, when the fourth root of
`flowRatio * resistanceRatio` is `k`. -/
theorem bifurcationRatios_cubes (fl fr Rl Rr k : ℝ) (hfl : 0 < fl) (hfr : 0 < fr)
    (hRl : 0 < Rl) (hRr : 0 < Rr) (hk : (fl / fr * (Rl / Rr)) ^ (1 / 4 : ℝ) = k) :
    0 < (bifurcationRatios realMath 3 fl fr Rl Rr).1 ∧
    (bifurcationRatios realMath 3 fl fr Rl Rr).1 < 1 ∧
    0 < (bifurcationRatios realMath 3 fl fr Rl Rr).2 ∧
    (bifurcationRatios realMath 3 fl fr Rl Rr).2 < 1 ∧
    (bifurcationRatios realMath 3 fl fr Rl Rr).1 =
      k * (bifurcationRatios realMath 3 fl fr Rl Rr).2 ∧
    (1 + k ^ 3) * (bifurcationRatios realMath 3 fl fr Rl Rr).2 ^ 3 = 1 := by
  obtain ⟨m1, m2, m3, m4, m5, m6⟩ :=
    bifurcationRatios_murray 3 fl fr Rl Rr (by norm_num) hfl hfr hRl hRr
  obtain ⟨L, hL⟩ : ∃ L, (bifurcationRatios realMath 3 fl fr Rl Rr).1 = L := ⟨_, rfl⟩
  obtain ⟨R, hR⟩ : ∃ R, (bifurcationRatios realMath 3 fl fr Rl Rr).2 = R := ⟨_, rfl⟩
  rw [hL, hR] at m1 m2 ⊢
  rw [hL] at m3 m4
  rw [hR] at m5 m6
  rw [hk] at m2
  have e3 : ∀ y : ℝ, y ^ (3 : ℝ) = y ^ 3 := by
    intro y
    rw [← Real.rpow_natCast]
    norm_num
  rw [e3, e3] at m1
  have hLk : L = k * R := by
    rw [← m2]
    field_simp
  refine ⟨m3, m4, m5, m6, hLk, ?_⟩
  rw [hLk] at m1
  linear_combination m1

theorem cube_ninth_bounds (x : ℝ) (h : (1 + 2 ^ 3) * x ^ 3 = 1) (hx : 0 < x) :
    (48 / 100 : ℝ) ≤ x ∧ x ≤ 1 / 2 := by
  norm_num at h
  constructor
  · by_contra hc
    have h1 : x < 48 / 100 := not_le.mp hc
    have h2 : x ^ 3 < (48 / 100 : ℝ) ^ 3 := pow_lt_pow_left₀ h1 (le_of_lt hx) (by norm_num)
    norm_num at h2
    linarith
  · by_contra hc
    have h1 : 1 / 2 < x := not_le.mp hc
    have h2 : (1 / 2 : ℝ) ^ 3 < x ^ 3 := pow_lt_pow_left₀ h1 (by norm_num) (by norm_num)
    norm_num at h2
    linarith

theorem cube_half_bound (x : ℝ) (h : (1 + 1 ^ 3) * x ^ 3 = 1) (hx : 0 < x) :
    (79 / 100 : ℝ) ≤ x := by
  norm_num at h
  by_contra hc
  have h1 : x < 79 / 100 := not_le.mp hc
  have h2 : x ^ 3 < (79 / 100 : ℝ) ^ 3 := pow_lt_pow_left₀ h1 (le_of_lt hx) (by norm_num)
  norm_num at h2
  linarith

/-- The numbers of the failing input: with the current ratios `cL = 2 cR`, `9 cR³ = 1`, the
stale right ratio `2 sR³ = 1`, and the root radius `ρ` of the tree after the move, the three
segments are at least twice as long as their current radii, and the right child is shorter
than twice the root radius times the stale ratio. -/
theorem validSegment_numbers (π cL cR sR ρ R0 : ℝ) (hπ3 : 3 < π) (hπ4 : π ≤ 4)
    (hcL : cL = 2 * cR) (hcR : (1 + 2 ^ 3) * cR ^ 3 = 1) (hcRpos : 0 < cR)
    (hsR : (1 + 1 ^ 3) * sR ^ 3 = 1) (hsRpos : 0 < sR)
    (hR0 : R0 = 8 / π * (36 / 10000) * (3 / 500) +
      1 / (cL ^ 4 / (8 / π * (36 / 10000) * (7 / 500)) +
        cR ^ 4 / (8 / π * (36 / 10000) * (7 / 8000))))
    (hρ : ρ = 1 * (R0 * (833 / 100000000) /
      (13332236535 / 1000000 - 7999341921 / 1000000)) ^ (1 / 4 : ℝ)) :
    (3 / 500 : ℝ) ≥ 2 * ρ ∧ (7 / 500 : ℝ) ≥ 2 * (cL * ρ) ∧ (7 / 8000 : ℝ) ≥ 2 * (cR * ρ) ∧
    (7 / 8000 : ℝ) < 2 * ρ * sR := by
  have hπ : 0 < π := by linarith
  obtain ⟨μ, hμ⟩ : ∃ μ : ℝ, (36 / 10000 : ℝ) = μ := ⟨_, rfl⟩
  obtain ⟨Q, hQ⟩ : ∃ Q : ℝ, (833 / 100000000 : ℝ) = Q := ⟨_, rfl⟩
  obtain ⟨Δ, hΔ⟩ : ∃ Δ : ℝ, (13332236535 / 1000000 - 7999341921 / 1000000 : ℝ) = Δ := ⟨_, rfl⟩
  rw [hμ] at hR0
  rw [hQ, hΔ] at hρ
  have hμpos : 0 < μ := by rw [← hμ]; norm_num
  have hQpos : 0 < Q := by rw [← hQ]; norm_num
  have hΔpos : 0 < Δ := by rw [← hΔ]; norm_num
  obtain ⟨c, hc⟩ : ∃ c, 8 * μ * Q / Δ = c := ⟨_, rfl⟩
  have hclo : (449 / 10000000000000 : ℝ) ≤ c := by
    rw [← hc, ← hμ, ← hQ, ← hΔ]; norm_num
  have hchi : c ≤ (450 / 10000000000000 : ℝ) := by
    rw [← hc, ← hμ, ← hQ, ← hΔ]; norm_num
  obtain ⟨hcR4, hcR2⟩ := cube_ninth_bounds cR hcR hcRpos
  have hsR79 := cube_half_bound sR hsR hsRpos
  have hcL1 : cL ≤ 1 := by rw [hcL]; linarith only [hcR2]
  have hcL8 : (96 / 100 : ℝ) ≤ cL := by rw [hcL]; linarith only [hcR4]
  have hcLpos : 0 < cL := by linarith only [hcL8]
  obtain ⟨W, hW⟩ : ∃ W, cL ^ 4 * (500 / 7) + cR ^ 4 * (8000 / 7) = W := ⟨_, rfl⟩
  have hA1 : cL ^ 4 ≤ 1 := pow_le_one₀ (le_of_lt hcLpos) hcL1
  have hA2 : (96 / 100 : ℝ) ^ 4 ≤ cL ^ 4 := pow_le_pow_left₀ (by norm_num) hcL8 4
  have hB1 : cR ^ 4 ≤ (1 / 2 : ℝ) ^ 4 := pow_le_pow_left₀ (le_of_lt hcRpos) hcR2 4
  have hB2 : 0 ≤ cR ^ 4 := by positivity
  norm_num at hA2 hB1
  have hWlo : (60 : ℝ) ≤ W := by rw [← hW]; linarith only [hA2, hB2]
  have hWhi : W ≤ 1000 / 7 := by rw [← hW]; linarith only [hA1, hB1]
  have hWpos : 0 < W := lt_of_lt_of_le (by norm_num) hWlo
  have hY1 : (7 / 1000 : ℝ) ≤ 1 / W := by
    rw [le_div_iff₀ hWpos]; linarith only [hWhi]
  have hY2 : 1 / W ≤ (17 / 1000 : ℝ) := by
    rw [div_le_iff₀ hWpos]; linarith only [hWlo]
  have eR0 : R0 = 8 / π * μ * (3 / 500 + 1 / W) := by
    rw [hR0, ← hW]
    have h1 : cL ^ 4 * (500 / 7) + cR ^ 4 * (8000 / 7) ≠ 0 := by rw [hW]; exact ne_of_gt hWpos
    have h2 : π ≠ 0 := ne_of_gt hπ
    have h3 : μ ≠ 0 := ne_of_gt hμpos
    field_simp
    ring
  obtain ⟨Y, hY⟩ : ∃ Y, 3 / 500 + 1 / W = Y := ⟨_, rfl⟩
  have hYlo : (13 / 1000 : ℝ) ≤ Y := by rw [← hY]; linarith only [hY1]
  have hYhi : Y ≤ (23 / 1000 : ℝ) := by rw [← hY]; linarith only [hY2]
  obtain ⟨X, hX⟩ : ∃ X, R0 * Q / Δ = X := ⟨_, rfl⟩
  have eX : X * π = c * Y := by
    rw [← hX, eR0, hY, ← hc]
    have h2 : π ≠ 0 := ne_of_gt hπ
    have h3 : Δ ≠ 0 := ne_of_gt hΔpos
    field_simp
    ring
  have hcpos : 0 < c := lt_of_lt_of_le (by norm_num) hclo
  have hcY1 : (449 / 10000000000000 : ℝ) * (13 / 1000) ≤ c * Y :=
    mul_le_mul hclo hYlo (by norm_num) (le_of_lt hcpos)
  have hcY2 : c * Y ≤ (450 / 10000000000000 : ℝ) * (23 / 1000) :=
    mul_le_mul hchi hYhi (by linarith) (by norm_num)
  have hXpos : 0 < X := by
    have : 0 < X * π := by rw [eX]; exact lt_of_lt_of_le (by norm_num) hcY1
    exact (mul_pos_iff_of_pos_right hπ).1 this
  have hXlo : (56 / 100000 : ℝ) ^ 4 ≤ X := by
    have h1 : (56 / 100000 : ℝ) ^ 4 * 4 ≤ X * π := by
      rw [eX]
      refine le_trans ?_ hcY1
      norm_num
    have h2 : X * π ≤ X * 4 := mul_le_mul_of_nonneg_left hπ4 (le_of_lt hXpos)
    linarith only [h1, h2]
  have hXhi : X ≤ (7 / 8000 : ℝ) ^ 4 := by
    have h1 : X * π ≤ (7 / 8000 : ℝ) ^ 4 * 3 := by
      rw [eX]
      refine le_trans hcY2 ?_
      norm_num
    have h2 : X * 3 ≤ X * π := mul_le_mul_of_nonneg_left (le_of_lt hπ3) (le_of_lt hXpos)
    linarith only [h1, h2]
  obtain ⟨r1, r2⟩ := rpow_quarter_bounds X (56 / 100000) (7 / 8000) (by norm_num) (by norm_num)
    hXlo hXhi
  rw [hX, one_mul] at hρ
  rw [← hρ] at r1 r2
  have hρpos : 0 < ρ := lt_of_lt_of_le (by norm_num) r1
  refine ⟨by linarith only [r2], ?_, ?_, ?_⟩
  · have : cL * ρ ≤ 1 * (7 / 8000) := mul_le_mul hcL1 r2 (le_of_lt hρpos) (by norm_num)
    linarith only [this]
  · have : cR * ρ ≤ 1 / 2 * (7 / 8000) := mul_le_mul hcR2 r2 (le_of_lt hρpos) (by norm_num)
    linarith only [this]
  · have : (56 / 100000 : ℝ) * (79 / 100) ≤ ρ * sR :=
      mul_le_mul r1 hsR79 (by norm_num) (le_of_lt hρpos)
    have e : 2 * ρ * sR = 2 * (ρ * sR) := by ring
    rw [e]
    linarith only [this]

/-- C40, the code at the failing input: on the tree for four terminals in the plane with the
seed `(0, 0)` and the root to `(1/50, 0)`, `growSegment` at the point `(43/3200, 0)` with the new
terminal to `(11/1600, 0)` (both flows 1) returns the segment 0 with the two ratios of that
state (the cube of the right one is `1/2`).  The first grid point of
`SimpleOptimization::bifurcation` for that segment is `(3/500, 0)`.  After
`moveDistalPoint(0, (3/500, 0))` the cube of the right ratio of the segment 0 is `1/9`, and each
of the segments 0, 1 and 2 is at least twice as long as its current radius `Tree::radius`; but
`ValidSegment::pass`, given the segment value that `growSegment` returned as `bifurcation`
gives it, returns false. -/
theorem validSegment_stale_ratios :
    ∃ fuel r f t',
      growSegment realMath fuel ⟨2, 43 / 3200, 0, 0⟩
        ((Tree.growRoot realMath (exampleTree : Tree ℝ)
          (Segment.make 2 ⟨2, 1 / 50, 0, 0⟩ 1)).2.segments 0)
        (Segment.make 2 ⟨2, 11 / 1600, 0, 0⟩ 1)
        (Tree.growRoot realMath (exampleTree : Tree ℝ)
          (Segment.make 2 ⟨2, 1 / 50, 0, 0⟩ 1)).2 = some r ∧
      (∃ rest, SimpleOptimization.gridPoints (exampleDriver 2 : Collaborators ℝ Nat Unit) 0 r.2
        r.1 = ⟨2, 3 / 500, 0, 0⟩ :: rest) ∧
      moveDistalPoint realMath f r.2 r.1.ID ⟨2, 3 / 500, 0, 0⟩ = some t' ∧
      ValidSegment.pass realMath f t' r.1 = some false ∧
      (t'.segments 0).left = 1 ∧ (t'.segments 0).right = 2 ∧
      r.1.bifurcationRatioRight ^ 3 = 1 / 2 ∧
      (t'.segments 0).bifurcationRatioRight ^ 3 = 1 / 9 ∧
      ∃ ρ0 ρ1 ρ2, Tree.radius realMath f t' 0 = some ρ0 ∧
        Tree.radius realMath f t' 1 = some ρ1 ∧ Tree.radius realMath f t' 2 = some ρ2 ∧
        t'.length 0 ≥ 2 * ρ0 ∧ t'.length 1 ≥ 2 * ρ1 ∧ t'.length 2 ≥ 2 * ρ2 := by
  have hfresh : (exampleTree : Tree ℝ).Fresh := construct_fresh _ _ _ _ _ _
  have hR0 : Reach realMath (Tree.growRoot realMath (exampleTree : Tree ℝ)
      (Segment.make 2 ⟨2, 1 / 50, 0, 0⟩ 1)).2 := Reach.root _ 2 _ 1 hfresh
  have hl0 : (Tree.growRoot realMath (exampleTree : Tree ℝ)
      (Segment.make 2 ⟨2, 1 / 50, 0, 0⟩ 1)).2.live 0 :=
    ⟨le_refl _, by rw [growRoot_cur]; exact Int.zero_lt_one⟩
  obtain ⟨f0, r, hgrow, hR1, hid, -, -, -⟩ := growSegment_total_tail hR0 hl0
    (⟨2, 43 / 3200, 0, 0⟩ : Point ℝ) (Segment.make 2 ⟨2, 11 / 1600, 0, 0⟩ 1)
  have hg := hgrow f0 (le_refl _)
  obtain ⟨hF, hr1, e_seed, e_dim, e_lu, e_mu, e_γ, e_ru, e_q, e_pp, e_tp⟩ :=
    IsFork.of_growSegment hfresh 2 (⟨2, 1 / 50, 0, 0⟩ : Point ℝ) 1 hg
  have hl1 : r.2.live 0 := ⟨le_refl _, by rw [hF.cur]; decide⟩
  obtain ⟨f1, t', hmove⟩ := moveDistalPoint_total hF.reach hl1 (⟨2, 3 / 500, 0, 0⟩ : Point ℝ)
  have hm := hmove (max f1 2) (le_max_left _ _)
  obtain ⟨hF', m_seed, m_dim, m_lu, m_mu, m_γ, m_ru, m_q, m_pp, m_tp⟩ := hF.move hm
  -- the parameters of the two trees
  have d1 : r.2.dimension = 2 := e_dim
  have d2 : t'.dimension = 2 := m_dim.trans e_dim
  have lu1 : r.2.lengthUnit = 1 := e_lu
  have lu2 : t'.lengthUnit = 1 := m_lu.trans e_lu
  have mu1 : ∀ i, r.2.bloodViscosity i = 36 / 10000 := fun i => by rw [e_mu]; rfl
  have mu2 : ∀ i, t'.bloodViscosity i = 36 / 10000 := fun i => by rw [m_mu, e_mu]; rfl
  have γ1 : ∀ i, r.2.bifurcationExpoent i = 3 := fun i => by rw [e_γ]; rfl
  have γ2 : ∀ i, t'.bifurcationExpoent i = 3 := fun i => by rw [m_γ, e_γ]; rfl
  have sd2 : t'.seed = ⟨2, 0, 0, 0⟩ := m_seed.trans e_seed
  have hP2 : (Segment.make 2 (⟨2, 11 / 1600, 0, 0⟩ : Point ℝ) 1).point = ⟨2, 11 / 1600, 0, 0⟩ :=
    rfl
  have hf2 : (Segment.make 2 (⟨2, 11 / 1600, 0, 0⟩ : Point ℝ) 1).flow = 1 := rfl
  have hκ : 0 < poiseuilleLawConstant realMath := div_pos (by norm_num) Real.pi_pos
  have hκe : poiseuilleLawConstant realMath = 8 / Real.pi := rfl
  -- the numbers of the tree that `growSegment` left
  obtain ⟨-, s1, s2, s3, s4, -, s6, -⟩ := hF.numbers lu1 (fun i j => by rw [γ1, γ1])
  rw [d1, distance_axis] at s1
  rw [d1, hP2, distance_axis] at s2
  rw [mu1, s1] at s3
  rw [mu1, s2] at s4
  rw [γ1, hf2, s3, s4] at s6
  have a1 : |(43 / 3200 : ℝ) - 1 / 50| = 21 / 3200 := by
    rw [abs_of_neg (by norm_num)]; norm_num
  have a2 : |(43 / 3200 : ℝ) - 11 / 1600| = 21 / 3200 := by
    rw [abs_of_pos (by norm_num)]; norm_num
  rw [a1, a2] at s6
  have hRs : 0 < poiseuilleLawConstant realMath * (36 / 10000) * (21 / 3200) := by positivity
  have ks : ((1 : ℝ) / 1 * (poiseuilleLawConstant realMath * (36 / 10000) * (21 / 3200) /
      (poiseuilleLawConstant realMath * (36 / 10000) * (21 / 3200)))) ^ (1 / 4 : ℝ) = 1 := by
    rw [div_self (ne_of_gt hRs)]
    norm_num
  obtain ⟨-, -, sp, -, -, scube⟩ := bifurcationRatios_cubes 1 1 _ _ 1 one_pos one_pos hRs hRs ks
  rw [← s6] at sp scube
  -- the numbers of the tree after the move
  obtain ⟨c0, c1, c2, c3, c4, c5, c6, c7⟩ := hF'.numbers lu2 (fun i j => by rw [γ2, γ2])
  rw [d2, sd2, distance_axis] at c0
  rw [d2, distance_axis] at c1
  rw [d2, hP2, distance_axis] at c2
  have b0 : |(0 : ℝ) - 3 / 500| = 3 / 500 := by
    rw [abs_of_neg (by norm_num)]; norm_num
  have b1 : |(3 / 500 : ℝ) - 1 / 50| = 7 / 500 := by
    rw [abs_of_neg (by norm_num)]; norm_num
  have b2 : |(3 / 500 : ℝ) - 11 / 1600| = 7 / 8000 := by
    rw [abs_of_neg (by norm_num)]; norm_num
  rw [b0] at c0
  rw [b1] at c1
  rw [b2] at c2
  rw [mu2, c1] at c3
  rw [mu2, c2] at c4
  rw [γ2, hf2, c3, c4] at c5 c6
  have hR1c : 0 < poiseuilleLawConstant realMath * (36 / 10000) * (7 / 500) := by positivity
  have hR2c : 0 < poiseuilleLawConstant realMath * (36 / 10000) * (7 / 8000) := by positivity
  have kc : ((1 : ℝ) / 1 * (poiseuilleLawConstant realMath * (36 / 10000) * (7 / 500) /
      (poiseuilleLawConstant realMath * (36 / 10000) * (7 / 8000)))) ^ (1 / 4 : ℝ) = 2 := by
    have e : (1 : ℝ) / 1 * (poiseuilleLawConstant realMath * (36 / 10000) * (7 / 500) /
        (poiseuilleLawConstant realMath * (36 / 10000) * (7 / 8000))) = 16 := by
      have := ne_of_gt hκ
      field_simp
      ring
    rw [e]
    exact sixteen_rpow_quarter
  obtain ⟨-, -, cp, -, cLR, ccube⟩ :=
    bifurcationRatios_cubes 1 1 _ _ 2 one_pos one_pos hR1c hR2c kc
  rw [← c5, ← c6] at cLR
  rw [← c6] at cp ccube
  rw [mu2, c0, c3, c4] at c7
  have e4 : ∀ y : ℝ, realMath.pow y 4 = y ^ 4 := by
    intro y
    show y ^ (4 : ℝ) = y ^ 4
    rw [← Real.rpow_natCast]
    norm_num
  rw [e4, e4, hκe] at c7
  -- the radii
  obtain ⟨q0, q1, q2⟩ := hF'.radii (max f1 2) (le_max_right _ _)
  have hρ : rootRadius realMath t' = 1 * (t'.reducedHydrodynamicResistance 0 *
      (833 / 100000000) / (13332236535 / 1000000 - 7999341921 / 1000000)) ^ (1 / 4 : ℝ) := by
    have e1 : t'.radiusUnit = 1 := m_ru.trans e_ru
    have e2 : t'.perfusionFlow = 833 / 100000000 := m_q.trans e_q
    have e3 : t'.perfusionPressure = 13332236535 / 1000000 := m_pp.trans e_pp
    have e5 : t'.terminalPressure = 7999341921 / 1000000 := m_tp.trans e_tp
    show t'.radiusUnit * (t'.reducedHydrodynamicResistance rootID * t'.perfusionFlow /
      (t'.perfusionPressure - t'.terminalPressure)) ^ (1 / 4 : ℝ) = _
    rw [e1, e2, e3, e5]
    rfl
  obtain ⟨n1, n2, n3, n4⟩ := validSegment_numbers Real.pi
    (t'.segments 0).bifurcationRatioLeft (t'.segments 0).bifurcationRatioRight
    (r.2.segments 0).bifurcationRatioRight (rootRadius realMath t')
    (t'.reducedHydrodynamicResistance 0) Real.pi_gt_three Real.pi_le_four cLR ccube cp scube sp
    c7 hρ
  have hid0 : r.1.ID = 0 := hid
  refine ⟨f0, r, max f1 2, t', hg, ?_, by rw [hid0]; exact hm, ?_, hF'.left0, hF'.right0, ?_, ?_,
    rootRadius realMath t', (t'.segments 0).bifurcationRatioLeft * rootRadius realMath t',
    (t'.segments 0).bifurcationRatioRight * rootRadius realMath t', q0, q1, q2,
    by rw [c0]; exact n1, by rw [c1]; exact n2, by rw [c2]; exact n3⟩
  · -- the first grid point
    obtain ⟨rest, hrest⟩ : ∃ rest,
        SimpleOptimization.gridPoints (exampleDriver 2 : Collaborators ℝ Nat Unit) 0 r.2 r.1 =
          SimpleOptimization.map 2
            (SimpleOptimization.triangle 2 r.2 r.1).1 (SimpleOptimization.triangle 2 r.2 r.1).2.1
            (SimpleOptimization.triangle 2 r.2 r.1).2.2
            (((1 - 1 : Int) : ℝ) * (1 / ((5 : Int) : ℝ)))
            (((5 + 1 - (5 + 1) : Int) : ℝ) * (1 / ((5 : Int) : ℝ))) :: rest := ⟨_, rfl⟩
    refine ⟨rest, ?_⟩
    rw [hrest]
    congr 1
    have z1 : (((1 - 1 : Int) : ℝ) * (1 / ((5 : Int) : ℝ))) = 0 := by norm_num
    have z2 : (((5 + 1 - (5 + 1) : Int) : ℝ) * (1 / ((5 : Int) : ℝ))) = 0 := by norm_num
    rw [z1, z2]
    show SimpleOptimization.map 2 (Geometry.add 2 _ _) (Geometry.add 2 _ _) (Geometry.add 2 _ _)
      0 0 = _
    rw [(SimpleOptimization.map_corners 2 _ _ _ _ _ _).1]
    apply Point.eq_of_components
    · exact Geometry.add_dimension _ _ _
    · rw [Geometry.add_x, Geometry.scalarProduct_x, Geometry.subtract_x, hid0,
        proximalPoint_eq, if_pos rfl, e_seed, hr1, Tree.distalPoint, hF.left0, hF.point1]
      show (0 : ℝ) + 3 / 10 * (1 / 50 - 0) = 3 / 500
      norm_num
    · rw [Geometry.add_y, Geometry.scalarProduct_y, Geometry.subtract_y, hid0,
        proximalPoint_eq, if_pos rfl, e_seed, hr1, Tree.distalPoint, hF.left0, hF.point1]
      show (0 : ℝ) + 3 / 10 * (0 - 0) = 0
      norm_num
    · rw [Geometry.add_z, if_neg (by decide)]
  · -- `ValidSegment::pass` on the segment value of `bifurcation`
    have hnot : ¬ (t'.length r.1.ID ≥ 2 * rootRadius realMath t' ∧
        t'.length r.1.left ≥ 2 * rootRadius realMath t' * r.1.bifurcationRatioLeft ∧
        t'.length r.1.right ≥ 2 * rootRadius realMath t' * r.1.bifurcationRatioRight) := by
      rintro ⟨-, -, h3⟩
      rw [hr1, hF.right0, c2] at h3
      exact absurd h3 (not_le.mpr n4)
    simp only [ValidSegment.pass, hid0, q0]
    rw [← hid0]
    simp only [hnot, decide_False]
  · rw [hr1]
    norm_num at scube
    linarith only [scube]
  · norm_num at ccube
    linarith only [ccube]

/-! # Stale values, the logs of the loops and the law of the exponent -/

/-! ## The values that an edit leaves at the segment where its `update` starts -/

/-- The walk from the root up to the root visits the root only. -/
theorem onPath_root {t : Tree α} (hw : WFL t) {j : Int} (h : OnPath t 0 j) : j = 0 := by
  cases h with
  | self => rfl
  | step _ _ hne _ => exact absurd hw.root_up hne

/-- After `growSegment(b, p, c)` the segment `p` holds the values that `Tree::update` computes
from its children. -/
theorem growSegment_good {M : CMath α} {t : Tree α} (hR : Reach M t) {p : Int} (hp : t.live p)
    {fuel : Nat} {b : Point α} {c : Segment α} {r : Segment α × Tree α}
    (h1 : growSegment M fuel b (t.segments p) c t = some r) : Good M r.2 p := by
  have hw := hR.wfl
  have hw1 := hR.growSegmentLinks_wfl hp b c
  obtain ⟨t2, ht2, rfl⟩ := growSegment_eq_some h1
  rw [growSegmentLinks_ID_p M b c hw hp] at ht2
  have lp : (growSegmentLinks M b (t.segments p) c t).live p := by
    have := hp
    simp only [Tree.live, growSegmentLinks_cur] at this ⊢
    omega
  exact updateLoop_path_good M hw1 fuel _ _ p (Frame.refl _) lp ht2 p (OnPath.self _)

/-- After `remove` of the terminal that the most recent `growSegment` attached to the segment
`p`, the segment `p` holds the values that `Tree::update` computes from its children. -/
theorem remove_good {M : CMath α} {t : Tree α} (hR : Reach M t) {p : Int} (htl : Tail t p)
    {seg : Segment α} (hseg : seg.up = p) {fuel : Nat} {r : Segment α × Tree α}
    (hr : remove M fuel t seg = some r) : Good M r.2 p := by
  have hw := hR.wfl
  have hc : 1 < t.currentNumberOfSegments := by have := htl.cur; omega
  have hup : seg.up = (t.segments (t.currentNumberOfSegments - 1)).up := by
    rw [hseg, htl.up_terminal]
  rw [remove_congr_up M fuel t hup] at hr
  have hR' := Reach.remove fuel t r hR hc hr
  obtain ⟨t2, ht2, rfl⟩ := remove_eq_some hr
  have hf := updateLoop_frame M _ _ _ _ ht2
  obtain ⟨f1, -⟩ := htl.facts hw
  have hw1 : WFL (removeLinks M t (t.segments (t.currentNumberOfSegments - 1))) :=
    hf.sameLinks.symm.wfl_links (WFL.of_setTerms hR'.wfl)
  have hid : ((removeLinks M t (t.segments (t.currentNumberOfSegments - 1))).segments p).ID =
      p := by
    rw [removeLinks_tail_segments M hw htl, if_pos rfl]
    exact hw.ids p f1
  rw [htl.up_terminal, hid] at ht2
  have hp1 : (removeLinks M t (t.segments (t.currentNumberOfSegments - 1))).live p := by
    simp only [Tree.live, removeLinks_cur]; exact ⟨htl.p_nonneg, htl.p_lt⟩
  exact updateLoop_path_good M hw1 fuel _ _ p (Frame.refl _) hp1 ht2 p (OnPath.self _)

/-- After `moveDistalPoint(s, x)` the segment `s` holds the values that `Tree::update`
computes from its children. -/
theorem moveDistalPoint_good {M : CMath α} {t t' : Tree α} (hR : Reach M t) {s : Int}
    (hs : t.live s) {fuel : Nat} {x : Point α}
    (hr : moveDistalPoint M fuel t s x = some t') : Good M t' s := by
  have hw := hR.wfl
  have hw1 : WFL (moveDistalPointLengths M t s x) :=
    (moveDistalPointLengths_sameLinks M t s x).wfl_links hw
  have hid : ((moveDistalPointLengths M t s x).segments s).ID = s := by
    rw [moveDistalPointLengths_segments, if_pos rfl]
    exact hw.ids s hs
  simp only [moveDistalPoint, update] at hr
  rw [hid] at hr
  have hp1 : (moveDistalPointLengths M t s x).live s := by
    simp only [Tree.live, moveDistalPointLengths_cur]; exact hs
  exact updateLoop_path_good M hw1 fuel _ _ s (Frame.refl _) hp1 hr s (OnPath.self _)

/-- Consistency of the values of a segment is a property of the live state. -/
theorem Good.of_liveEq (M : CMath α) {t' t : Tree α} (h : LiveEq t' t) (hw : WFL t) {p : Int}
    (hp : t.live p) (hg : Good M t' p) : Good M t p := by
  have el := h.left p hp
  have er := h.right p hp
  have eT : t'.isTerminal p = t.isTerminal p := by
    simp only [Tree.isTerminal, el, er]
  unfold Good at hg ⊢
  rw [eT] at hg
  by_cases hT : t.isTerminal p = true
  · rw [if_pos hT] at hg ⊢
    simp only [Tree.length] at hg ⊢
    rw [h.reducedHydrodynamicResistance p hp, h.bloodViscosity, h.lengthUnit, h.length p hp,
      h.bifurcationRatioLeft p hp, h.bifurcationRatioRight p hp] at hg
    exact hg
  · rw [if_neg hT] at hg ⊢
    rcases hw.kids p hp with hk | ⟨k1, k2, k3, k4, -, -, -⟩
    · exact absurd ((isTerminal_iff t p).2 hk) hT
    · have hl : t.live (t.segments p).left := ⟨k1.le, k2⟩
      have hr : t.live (t.segments p).right := ⟨k3.le, k4⟩
      simp only [Tree.length, Tree.leftSegment, Tree.rightSegment] at hg ⊢
      rw [el, er, h.flow p hp, h.flow _ hl, h.flow _ hr, h.bifurcationRatioLeft p hp,
        h.bifurcationRatioRight p hp, h.bifurcationExpoent,
        h.reducedHydrodynamicResistance _ hl, h.reducedHydrodynamicResistance _ hr,
        h.reducedHydrodynamicResistance p hp, h.bloodViscosity, h.lengthUnit,
        h.length p hp] at hg
      exact hg

/-- The numbers that `growSegment(b, root, c)` leaves at the segments other than the root: the
new terminal holds the resistance of Poiseuille's law, the connection holds the resistance,
the flow and the ratios of the root before the call (the resistance corrected for the new
length), and the other segments keep their values.  The stored length of the connection is the
distance from `b` to the old distal point of the root. -/
theorem growSegment_root_values {M : CMath α} {t : Tree α} (hR : Reach M t) {fuel : Nat}
    {b : Point α} {c : Segment α} {r : Segment α × Tree α}
    (h1 : growSegment M fuel b (t.segments 0) c t = some r) :
    (∀ j, j ≠ 0 →
      r.2.reducedHydrodynamicResistance j =
        (if j = t.currentNumberOfSegments + 1 then
          poiseuilleLawConstant M * t.bloodViscosity (t.currentNumberOfSegments + 1) *
            distance M t.dimension b c.point
        else if j = t.currentNumberOfSegments then
          t.reducedHydrodynamicResistance 0 +
            poiseuilleLawConstant M *
              (t.bloodViscosity t.currentNumberOfSegments *
                  distance M t.dimension b (t.segments 0).point -
                t.bloodViscosity 0 * t.length 0)
        else t.reducedHydrodynamicResistance j) ∧
      (r.2.segments j).flow =
        (if j = t.currentNumberOfSegments + 1 then c.flow
        else if j = t.currentNumberOfSegments then (t.segments 0).flow
        else (t.segments j).flow) ∧
      (r.2.segments j).bifurcationRatioLeft =
        (if j = t.currentNumberOfSegments then (t.segments 0).bifurcationRatioLeft
        else (t.segments j).bifurcationRatioLeft) ∧
      (r.2.segments j).bifurcationRatioRight =
        (if j = t.currentNumberOfSegments then (t.segments 0).bifurcationRatioRight
        else (t.segments j).bifurcationRatioRight)) ∧
    r.2._length t.currentNumberOfSegments = distance M t.dimension b (t.segments 0).point := by
  have hw := hR.wfl
  have hp : t.live 0 := ⟨le_refl _, by have := hw.cur_pos; omega⟩
  have hw1 := hR.growSegmentLinks_wfl hp b c
  obtain ⟨-, q2, -, q4, -⟩ := growSegment_post hR hp h1
  refine ⟨fun j hj => ?_, ?_⟩
  · have hnp : ¬ OnPath (growSegmentLinks M b (t.segments 0) c t) 0 j :=
      fun h => hj (onPath_root hw1 h)
    obtain ⟨e1, e2⟩ := q4 j hnp
    rw [e2, e1, growSegmentLinks_resistance M b c hw hp j, growSegmentLinks_flow M b c hw hp j,
      (growSegmentLinks_ratios M b c hw hp j).1, (growSegmentLinks_ratios M b c hw hp j).2]
    exact ⟨rfl, rfl, rfl, rfl⟩
  · have e := congrFun q2.length t.currentNumberOfSegments
    have hc := hw.cur_pos
    show r.2._length t.currentNumberOfSegments = _
    have e' : r.2._length t.currentNumberOfSegments =
        (growSegmentLinks M b (t.segments 0) c t)._length t.currentNumberOfSegments := e
    rw [e', growSegmentLinks_length M b c hw hp, if_neg (by omega), if_neg (by omega),
      if_pos rfl]

/-- The tree of five segments that two calls of `growSegment` on the root make of a root: the
segment 3 is the connection that the second call copied from the root, a bifurcation whose
children are the terminals 1 and 2.  It holds the two ratios that `update` computed for the
root after the first call, with the exponent of the segment 0, and the reduced resistance of
the root after the first call corrected by the stored lengths (without the length unit). -/
theorem staleFork_facts {M : CMath α} {t0 : Tree α} (hf : t0.Fresh) (dim : Int) (E : Point α)
    (f1 : α) {fuel1 fuel2 : Nat} {b1 b2 : Point α} {c1 c2 : Segment α}
    {r1 r2 : Segment α × Tree α}
    (h1 : growSegment M fuel1 b1 ((Tree.growRoot M t0 (Segment.make dim E f1)).2.segments 0) c1
      (Tree.growRoot M t0 (Segment.make dim E f1)).2 = some r1)
    (h2 : growSegment M fuel2 b2 (r1.2.segments 0) c2 r1.2 = some r2) :
    Reach M r2.2 ∧ r2.2.currentNumberOfSegments = 5 ∧
    (r2.2.segments 3).left = 1 ∧ (r2.2.segments 3).right = 2 ∧
    r2.2.lengthUnit = t0.lengthUnit ∧ r2.2.bloodViscosity = t0.bloodViscosity ∧
    r2.2.bifurcationExpoent = t0.bifurcationExpoent ∧
    (r2.2.segments 1).flow = f1 ∧ (r2.2.segments 2).flow = c1.flow ∧
    r2.2.reducedHydrodynamicResistance 1 =
      poiseuilleLawConstant M * t0.bloodViscosity 0 * distance M t0.dimension t0.seed E +
        poiseuilleLawConstant M * (t0.bloodViscosity 1 * distance M t0.dimension b1 E -
          t0.bloodViscosity 0 * (t0.lengthUnit * distance M t0.dimension t0.seed E)) ∧
    r2.2.reducedHydrodynamicResistance 2 =
      poiseuilleLawConstant M * t0.bloodViscosity 2 * distance M t0.dimension b1 c1.point ∧
    r2.2._length 3 = distance M t0.dimension b2 b1 ∧
    (r2.2.segments 3).bifurcationRatioLeft =
      (bifurcationRatios M (t0.bifurcationExpoent 0) f1 c1.flow
        (r2.2.reducedHydrodynamicResistance 1) (r2.2.reducedHydrodynamicResistance 2)).1 ∧
    (r2.2.segments 3).bifurcationRatioRight =
      (bifurcationRatios M (t0.bifurcationExpoent 0) f1 c1.flow
        (r2.2.reducedHydrodynamicResistance 1) (r2.2.reducedHydrodynamicResistance 2)).2 ∧
    r2.2.reducedHydrodynamicResistance 3 =
      poiseuilleLawConstant M * t0.bloodViscosity 3 * distance M t0.dimension b2 b1 +
        1 / (M.pow (r2.2.segments 3).bifurcationRatioLeft 4 /
              r2.2.reducedHydrodynamicResistance 1 +
            M.pow (r2.2.segments 3).bifurcationRatioRight 4 /
              r2.2.reducedHydrodynamicResistance 2) := by
  obtain ⟨hfk, -, k1, k2, k3, k4, k5, -⟩ := IsFork.of_growSegment hf dim E f1 h1
  have hR0 : Reach M (Tree.growRoot M t0 (Segment.make dim E f1)).2 :=
    Reach.root t0 dim E f1 hf
  have hR1 := hfk.reach
  have hl0 : r1.2.live 0 := ⟨le_refl _, by rw [hfk.cur]; decide⟩
  have hR2 : Reach M r2.2 := Reach.grow fuel2 b2 0 c2 _ r2 hR1 hl0 h2
  obtain ⟨m1, m2, m3, m4, m5, m6, -⟩ := growSegment_consts h2
  obtain ⟨g1, g2, -⟩ := growRoot_fields M t0 (Segment.make dim E f1)
  have hseg := growRoot_segments M t0 dim E f1 0
  rw [if_pos rfl] at hseg
  -- the numbers of the fork
  obtain ⟨v1, -⟩ := growSegment_root_values hR0 h1
  rw [growRoot_cur] at v1
  obtain ⟨a1, -⟩ := v1 1 (by decide)
  obtain ⟨a2, -⟩ := v1 2 (by decide)
  simp only [show ¬ ((1 : Int) = 1 + 1) by decide, show ((2 : Int) = 1 + 1) by decide, if_true,
    if_false] at a1 a2
  have hpE : ((Tree.growRoot M t0 (Segment.make dim E f1)).2.segments 0).point = E := by
    rw [hseg]
  have hd0 : (Tree.growRoot M t0 (Segment.make dim E f1)).2.dimension = t0.dimension :=
    (growRoot_fields M t0 (Segment.make dim E f1)).2.2.2.2.2.1
  have hv0 : (Tree.growRoot M t0 (Segment.make dim E f1)).2.bloodViscosity = t0.bloodViscosity :=
    (growRoot_fields M t0 (Segment.make dim E f1)).2.2.2.1
  have hu0 : (Tree.growRoot M t0 (Segment.make dim E f1)).2.lengthUnit = t0.lengthUnit :=
    (growRoot_fields M t0 (Segment.make dim E f1)).2.2.1
  have hpt : (Segment.make dim E f1).point = E := rfl
  simp only [Tree.length] at a1
  rw [hpE, hd0, hv0, hu0, g1, g2, hpt] at a1
  rw [hd0, hv0, show (1 : Int) + 1 = 2 by decide] at a2
  -- the root of the fork holds fresh values
  have hg := growSegment_good hR0 ⟨le_refl _, by rw [growRoot_cur]; decide⟩ h1
  have hnt : r1.2.isTerminal 0 = false := by
    cases ht : r1.2.isTerminal 0 with
    | false => rfl
    | true =>
      have := ((isTerminal_iff r1.2 0).1 ht).1
      rw [hfk.left0] at this
      exact absurd this (by decide)
  unfold Good at hg
  rw [hnt] at hg
  simp only [Bool.false_eq_true, if_false, Tree.leftSegment, Tree.rightSegment, hfk.left0,
    hfk.right0, hfk.flow1, hfk.flow2] at hg
  obtain ⟨-, gl, gr, gR⟩ := hg
  -- the second call
  obtain ⟨v2, len3⟩ := growSegment_root_values hR1 h2
  rw [hfk.cur] at v2 len3
  obtain ⟨b1R, b1f, -, -⟩ := v2 1 (by decide)
  obtain ⟨b2R, b2f, -, -⟩ := v2 2 (by decide)
  obtain ⟨b3R, -, b3l, b3r⟩ := v2 3 (by decide)
  simp only [show ¬ ((1 : Int) = 3 + 1) by decide, show ¬ ((1 : Int) = 3) by decide,
    show ¬ ((2 : Int) = 3 + 1) by decide, show ¬ ((2 : Int) = 3) by decide,
    show ¬ ((3 : Int) = 3 + 1) by decide, if_true, if_false] at b1R b1f b2R b2f b3R b3l b3r
  have lk := growSegment_links hR1 hl0 h2 3
  rw [hfk.cur] at lk
  simp only [show ¬ ((3 : Int) = 0) by decide, if_true, if_false, hfk.left0, hfk.right0] at lk
  rw [hfk.point0, k2] at len3 b3R
  rw [k4] at b3R
  refine ⟨hR2, by rw [m6, hfk.cur]; rfl, lk.2.1, lk.2.2, m1.trans k3, m2.trans k4, m3.trans k5,
    b1f.trans hfk.flow1, b2f.trans hfk.flow2, b1R.trans a1, b2R.trans a2, len3, ?_, ?_, ?_⟩
  · rw [b3l, gl, b1R, b2R, k5]
  · rw [b3r, gr, b1R, b2R, k5]
  · rw [b3R, gR, b3l, b3r, b1R, b2R, k4]
    ring

/-- With a length unit other than 1, the connection that the second `growSegment` copied from
the root does not hold the resistance that `Tree::update` would compute for it. -/
theorem staleFork_lengthUnit {M : CMath α} {t0 : Tree α} (hf : t0.Fresh) (dim : Int)
    (E : Point α) (f1 : α) {fuel1 fuel2 : Nat} {b1 b2 : Point α} {c1 c2 : Segment α}
    {r1 r2 : Segment α × Tree α}
    (h1 : growSegment M fuel1 b1 ((Tree.growRoot M t0 (Segment.make dim E f1)).2.segments 0) c1
      (Tree.growRoot M t0 (Segment.make dim E f1)).2 = some r1)
    (h2 : growSegment M fuel2 b2 (r1.2.segments 0) c2 r1.2 = some r2)
    (hlu : t0.lengthUnit ≠ 1) (hpi : M.pi ≠ 0) (hμ : t0.bloodViscosity 3 ≠ 0)
    (hd : distance M t0.dimension b2 b1 ≠ 0) : ¬ Good M r2.2 3 := by
  obtain ⟨-, -, e3, e4, e5, e6, -, -, -, -, -, e12, -, -, e15⟩ :=
    staleFork_facts hf dim E f1 h1 h2
  intro hg
  have hnt : r2.2.isTerminal 3 = false := by
    cases ht : r2.2.isTerminal 3 with
    | false => rfl
    | true =>
      have := ((isTerminal_iff r2.2 3).1 ht).1
      rw [e3] at this
      exact absurd this (by decide)
  unfold Good at hg
  rw [hnt] at hg
  simp only [Bool.false_eq_true, if_false, Tree.length, e3, e4, e5, e6, e12] at hg
  obtain ⟨-, -, -, gR⟩ := hg
  rw [e15] at gR
  have hK : poiseuilleLawConstant M ≠ 0 := by
    unfold poiseuilleLawConstant
    exact div_ne_zero (by norm_num) hpi
  have h0 : poiseuilleLawConstant M * t0.bloodViscosity 3 * distance M t0.dimension b2 b1 *
      (t0.lengthUnit - 1) = 0 := by
    linear_combination -gR
  have := mul_ne_zero (mul_ne_zero (mul_ne_zero hK hμ) hd) (sub_ne_zero.mpr hlu)
  exact this h0

/-- The two ratios of `Tree::update` at a bifurcation whose children have the same flow and
the same reduced resistance, over the real numbers. -/
theorem bifurcationRatios_symmetric (γ R : ℝ) (hR : R ≠ 0) :
    bifurcationRatios realMath γ 1 1 R R = ((2 : ℝ) ^ (-1 / γ), (2 : ℝ) ^ (-1 / γ)) := by
  simp only [bifurcationRatios, realMath, div_self hR, div_one, mul_one, Real.one_rpow]
  norm_num

/-- With the law `exampleLaw`, the connection that the second `growSegment` copied from the
root holds the ratios computed with the exponent 3 of the segment 0, not those that
`Tree::update` would compute for the segment 3, whose exponent is 1. -/
theorem staleFork_law {fuel1 fuel2 : Nat} {b2 : Point ℝ} {c2 : Segment ℝ}
    {r1 r2 : Segment ℝ × Tree ℝ}
    (h1 : growSegment realMath fuel1 ⟨2, 1, 0, 0⟩
      ((Tree.growRoot realMath exampleLawTree (Segment.make 2 ⟨2, 1, 1, 0⟩ 1)).2.segments 0)
      (Segment.make 2 ⟨2, 1, -1, 0⟩ 1)
      (Tree.growRoot realMath exampleLawTree (Segment.make 2 ⟨2, 1, 1, 0⟩ 1)).2 = some r1)
    (h2 : growSegment realMath fuel2 b2 (r1.2.segments 0) c2 r1.2 = some r2) :
    ¬ Good realMath r2.2 3 := by
  have hf : (exampleLawTree : Tree ℝ).Fresh := ⟨rfl, rfl, fun i => ⟨2, rfl⟩⟩
  obtain ⟨-, -, e3, e4, -, -, e7, e8, e9, e10, e11, -, e13, -, -⟩ :=
    staleFork_facts hf 2 ⟨2, 1, 1, 0⟩ 1 h1 h2
  intro hg
  have hnt : r2.2.isTerminal 3 = false := by
    cases ht : r2.2.isTerminal 3 with
    | false => rfl
    | true =>
      have := ((isTerminal_iff r2.2 3).1 ht).1
      rw [e3] at this
      exact absurd this (by decide)
  unfold Good at hg
  rw [hnt] at hg
  simp only [Bool.false_eq_true, if_false, Tree.leftSegment, Tree.rightSegment, e3, e4, e7, e8,
    e9] at hg
  obtain ⟨-, gl, -, -⟩ := hg
  rw [e13] at gl
  have hfl : (Segment.make 2 (⟨2, 1, -1, 0⟩ : Point ℝ) 1).flow = 1 := rfl
  have hpt : (Segment.make 2 (⟨2, 1, -1, 0⟩ : Point ℝ) 1).point = ⟨2, 1, -1, 0⟩ := rfl
  have hd : (exampleLawTree : Tree ℝ).dimension = 2 := rfl
  have hu : (exampleLawTree : Tree ℝ).lengthUnit = 1 := rfl
  have hv : ∀ i, (exampleLawTree : Tree ℝ).bloodViscosity i = 36 / 10000 := fun _ => rfl
  have hl0 : (exampleLawTree : Tree ℝ).bifurcationExpoent 0 = 3 := by
    show (exampleLaw 0 : ℝ) = 3
    simp [exampleLaw]
  have hl3 : (exampleLawTree : Tree ℝ).bifurcationExpoent 3 = 1 := by
    show (exampleLaw 3 : ℝ) = 1
    simp [exampleLaw]
  have d1 : distance realMath 2 (⟨2, 1, 0, 0⟩ : Point ℝ) ⟨2, 1, 1, 0⟩ = 1 := by
    simp [distance, realMath]
  have d2 : distance realMath 2 (⟨2, 1, 0, 0⟩ : Point ℝ) ⟨2, 1, -1, 0⟩ = 1 := by
    simp [distance, realMath]
  have hK : poiseuilleLawConstant realMath ≠ 0 := by
    unfold poiseuilleLawConstant
    exact div_ne_zero (by norm_num) Real.pi_ne_zero
  have R1 : r2.2.reducedHydrodynamicResistance 1 = poiseuilleLawConstant realMath * (36 / 10000) := by
    rw [e10, hd, hu, hv, hv, d1]
    ring
  have R2 : r2.2.reducedHydrodynamicResistance 2 = poiseuilleLawConstant realMath * (36 / 10000) := by
    rw [e11, hd, hv, hpt, d2]
    ring
  have hR : poiseuilleLawConstant realMath * (36 / 10000 : ℝ) ≠ 0 :=
    mul_ne_zero hK (by norm_num)
  rw [R1, R2, hfl, hl0, hl3, bifurcationRatios_symmetric _ _ hR,
    bifurcationRatios_symmetric _ _ hR] at gl
  have hlt : (2 : ℝ) ^ (-1 / 1 : ℝ) < (2 : ℝ) ^ (-1 / 3 : ℝ) :=
    (Real.rpow_lt_rpow_left_iff (by norm_num)).mpr (by norm_num)
  simp only at gl
  exact absurd gl.symm (ne_of_lt hlt)

/-! ## Where the round trips do not restore the numbers -/

/-- In exact arithmetic and with the length unit 1 the connection that `growSegment` made of a
root, a terminal, holds the resistance that `update` computes for it. -/
theorem connectionResistance_exact (K μ L0 L1 : α) :
    Tree.connectionResistance exactArith K (Tree.rootResistance exactArith K μ L0) μ L1 μ 1 L0 =
      Tree.terminalResistance exactArith K μ 1 L1 := by
  simp only [Tree.connectionResistance, Tree.rootResistance, Tree.terminalResistance, exactArith]
  ring

/-- The resistances that `growRoot`, the structural part of `growSegment` and a pass of
`update` at a terminal store are the three expressions, evaluated in the arithmetic of the
field. -/
theorem resistance_expressions (M : CMath α) (t : Tree α) (hw : WFL t) {p : Int} (hp : t.live p)
    (b : Point α) (c r : Segment α) (i : Int) (hi : t.isTerminal i = true) :
    (growRoot M t r).2.reducedHydrodynamicResistance 0 =
      Tree.rootResistance exactArith (poiseuilleLawConstant M) (t.bloodViscosity 0)
        (distance M t.dimension t.seed r.point) ∧
    (growSegmentLinks M b (t.segments p) c t).reducedHydrodynamicResistance
        t.currentNumberOfSegments =
      Tree.connectionResistance exactArith (poiseuilleLawConstant M)
        (t.reducedHydrodynamicResistance p) (t.bloodViscosity t.currentNumberOfSegments)
        (distance M t.dimension b (t.segments p).point) (t.bloodViscosity p) t.lengthUnit
        (t._length p) ∧
    (updateStep M t i).reducedHydrodynamicResistance i =
      Tree.terminalResistance exactArith (poiseuilleLawConstant M) (t.bloodViscosity i)
        t.lengthUnit (t._length i) := by
  refine ⟨(growRoot_fields M t r).1, ?_, ?_⟩
  · rw [growSegmentLinks_resistance M b c hw hp, if_neg (by omega), if_pos rfl]
    rfl
  · unfold updateStep
    rw [if_pos hi]
    simp [Tree.terminalResistance, exactArith, Tree.length]

/-- The stored length of every live segment is the distance between its end points, in every
reachable state. -/
theorem Tree.Reach.lengths_hold {M : CMath α} {t : Tree α} (h : Reach M t) : LenInv M t := by
  induction h with
  | root t0 dim point flow hf =>
    obtain ⟨f1, f2, f3, f4, f5, f6, f7⟩ := growRoot_fields M t0 (Segment.make dim point flow)
    have hseg := growRoot_segments M t0 dim point flow
    intro i hi
    simp only [Tree.live, growRoot_cur] at hi
    have : i = 0 := by omega
    subst this
    rw [f2, f6, proximalPoint_eq, if_pos rfl, f7, Tree.distalPoint, hseg, if_pos rfl]
    rfl
  | grow fuel b p c t r hR hp hr ih =>
    obtain ⟨t2, ht2, rfl⟩ := growSegment_eq_some hr
    have hf := updateLoop_frame M _ _ _ _ ht2
    exact hf.lenInv M (growSegmentLinks_lenInv M b c hR.wfl ih hp)
  | remove fuel t r hR hc hr ih =>
    obtain ⟨t2, ht2, rfl⟩ := remove_eq_some hr
    have hf := updateLoop_frame M _ _ _ _ ht2
    obtain ⟨p, htl⟩ := hR.tail hc
    exact hf.lenInv M (removeLinks_lenInv M hR.wfl htl ih)
  | move fuel s x t t' hR hs hr ih =>
    have hf := updateLoop_frame M _ _ _ _ hr
    exact hf.lenInv M (moveDistalPointLengths_lenInv M hR.wfl hs x ih)

/-- Every live segment of a reachable state is a terminal or carries the sum of the flows of
its children. -/
theorem Tree.Reach.flows_hold {M : CMath α} {t : Tree α} (h : Reach M t) :
    ∀ i, t.live i → FlowGood t i := by
  obtain ⟨a, ha⟩ := h.exists_flow
  exact ha.flowInv.1

/-- A `growSegment` on a live segment followed by the `remove` of the new terminal restores
the stored length of every live segment. -/
theorem growSegment_remove_lengths {M : CMath α} {t : Tree α} (hR : Reach M t) {p : Int}
    (hp : t.live p) {f1 f2 : Nat} {b : Point α} {c : Segment α}
    {r1 r2 : Segment α × Tree α} (h1 : growSegment M f1 b (t.segments p) c t = some r1)
    (h2 : remove M f2 r1.2 (r1.2.rightSegment p) = some r2) :
    ∀ i, t.live i → r2.2._length i = t._length i := by
  obtain ⟨hR2, -⟩ := growSegment_remove_links hR hp h1 h2
  exact growSegment_remove_length hR hR.lengths_hold hp h1 h2 hR2.lengths_hold

/-- A `growSegment` on a live segment `p` followed by the `remove` of the new terminal does
not restore the resistances and the ratios of a state in which `p` does not hold the values
that `update` would compute for it. -/
theorem roundTrip_not_restored {M : CMath α} {t : Tree α} (hR : Reach M t) {p : Int}
    (hp : t.live p) (hng : ¬ Good M t p) {f1 f2 : Nat} {b : Point α} {c : Segment α}
    {r1 r2 : Segment α × Tree α} (h1 : growSegment M f1 b (t.segments p) c t = some r1)
    (h2 : remove M f2 r1.2 (r1.2.rightSegment p) = some r2) :
    ¬ (∀ i, t.live i →
      r2.2.reducedHydrodynamicResistance i = t.reducedHydrodynamicResistance i ∧
      (r2.2.segments i).bifurcationRatioLeft = (t.segments i).bifurcationRatioLeft ∧
      (r2.2.segments i).bifurcationRatioRight = (t.segments i).bifurcationRatioRight) := by
  intro hall
  have hR1 : Reach M r1.2 := Reach.grow f1 b p c t r1 hR hp h1
  obtain ⟨-, hT1, hrs⟩ := growSegment_tail hR hp h1
  have hseg : (r1.2.rightSegment p).up = p := by rw [hrs, hT1.up_terminal]
  have hg := remove_good hR1 hT1 hseg h2
  obtain ⟨-, e1, e2, hl⟩ := growSegment_remove_links hR hp h1 h2
  obtain ⟨-, hflow⟩ := growSegment_remove_flow hR hp h1 h2
  have hlen := growSegment_remove_lengths hR hp h1 h2
  obtain ⟨k1, k2, k3, k4, k5, -, -⟩ := growSegment_consts h1
  obtain ⟨d1, d2, d3, d4, d5, -, -⟩ := remove_consts h2
  have hle : LiveEq r2.2 t :=
    ⟨d1.trans k1, d2.trans k2, d3.trans k3, d4.trans k4, d5.trans k5, e1, e2,
      fun i hi => (hl i hi).1, fun i hi => (hl i hi).2.1, fun i hi => (hl i hi).2.2.1,
      fun i hi => (hl i hi).2.2.2.1, fun i hi => (hl i hi).2.2.2.2.1, hflow,
      fun i hi => (hall i hi).2.1, fun i hi => (hall i hi).2.2, hlen,
      fun i hi => (hall i hi).1⟩
  exact hng (Good.of_liveEq M hle hR.wfl hp hg)

/-- The part of the live state that `SimpleOptimization::bifurcation` restores in every
reachable state: the function returns, and the tree it leaves is reachable and has the
counters, the links, the points, the stored lengths and the flows of the tree before. -/
theorem SimpleOptimization.bifurcation_structure {D C : Type} (K : Collaborators α D C)
    {M : CMath α} (d : D) {t : Tree α} (hR : Reach M t) {s : Int} (hs : t.live s) :
    ∃ f0 c t1,
      (∀ f, f0 ≤ f → SimpleOptimization.bifurcation K M f d t (t.segments s) = some (c, t1)) ∧
      Reach M t1 ∧ Good M t1 s ∧ Moved s t t1 ∧ SameLinks t1 t ∧
      (∀ i, (t1.segments i).point = (t.segments i).point) ∧
      (∀ i, t.live i → t1._length i = t._length i) ∧
      (∀ i, t.live i → (t1.segments i).flow = (t.segments i).flow) := by
  have hw := hR.wfl
  have hid : (t.segments s).ID = s := hw.ids s hs
  have hl : t.live (t.segments s).ID := by rw [hid]; exact hs
  obtain ⟨f0, st, t1, c, hrun, -, hR0, hsl0, -, -⟩ :=
    SimpleOptimization.bifurcation_run K d hR (t.segments s) hl
  obtain ⟨h1, h2, h3⟩ := hrun f0 (le_refl _)
  rw [hid] at h1 h2
  have hm0 := SimpleOptimization.scan_moved f0 _ hR hs h1
  have hs0 : (SimpleOptimization.lastTree t st).live s := (hsl0.live_iff s).2 hs
  obtain ⟨hm1, hp1⟩ := moveDistalPoint_moved hR0 hs0 h2
  have hm := hm0.trans_moved hm1
  have hR1 : Reach M t1 := Reach.move f0 s _ _ t1 hR0 hs0 h2
  have hsl : SameLinks t1 t := (moveDistalPoint_sameLinks h2).trans_links hsl0
  have hpt : ∀ i, (t1.segments i).point = (t.segments i).point := by
    intro i
    by_cases hi : i = s
    · rw [hi, hp1]
    · exact hm.point i hi
  have hlen : ∀ i, t.live i → t1._length i = t._length i := by
    intro i hi
    rw [hR1.lengths_hold i ((hsl.live_iff i).2 hi), hR.lengths_hold i hi, hm.dimension, proximalPoint_eq,
      proximalPoint_eq, hm.seed, hm.up, hpt, Tree.distalPoint, Tree.distalPoint, hpt]
  have hflow := flow_determined hw hsl hR.flows_hold hR1.flows_hold (fun i _ ht => hm.flow i ht)
  exact ⟨f0, c, t1, fun f hf => (hrun f hf).2.2, hR1, moveDistalPoint_good hR0 hs0 h2, hm, hsl,
    hpt, hlen, hflow⟩

/-- `SimpleOptimization::bifurcation` of a live segment `s` returns, with the counters, links,
points, stored lengths and flows of the tree before, and it does not restore the resistances
and the ratios of a state in which `s` does not hold the values that `update` would compute
for it. -/
theorem bifurcation_not_restored {D C : Type} (K : Collaborators α D C) {M : CMath α} (d : D)
    {t : Tree α} (hR : Reach M t) {s : Int} (hs : t.live s) (hng : ¬ Good M t s) :
    ∃ f0 c t1,
      (∀ f, f0 ≤ f → SimpleOptimization.bifurcation K M f d t (t.segments s) = some (c, t1)) ∧
      t1.currentNumberOfSegments = t.currentNumberOfSegments ∧
      t1.currentNumberOfTerminals = t.currentNumberOfTerminals ∧
      (∀ i, (t1.segments i).up = (t.segments i).up ∧
        (t1.segments i).left = (t.segments i).left ∧
        (t1.segments i).right = (t.segments i).right) ∧
      (∀ i, (t1.segments i).point = (t.segments i).point) ∧
      (∀ i, t.live i → t1._length i = t._length i ∧
        (t1.segments i).flow = (t.segments i).flow) ∧
      ¬ (∀ i, t.live i →
        t1.reducedHydrodynamicResistance i = t.reducedHydrodynamicResistance i ∧
        (t1.segments i).bifurcationRatioLeft = (t.segments i).bifurcationRatioLeft ∧
        (t1.segments i).bifurcationRatioRight = (t.segments i).bifurcationRatioRight) := by
  obtain ⟨f0, c, t1, hrun, hR1, hg, hm, hsl, hpt, hlen, hflow⟩ :=
    SimpleOptimization.bifurcation_structure K d hR hs
  refine ⟨f0, c, t1, hrun, hm.currentNumberOfSegments,
    hm.currentNumberOfTerminals, fun i => ⟨hm.up i, hm.left i, hm.right i⟩, hpt,
    fun i hi => ⟨hlen i hi, hflow i hi⟩, ?_⟩
  intro hall
  have hle : LiveEq t1 t :=
    ⟨hm.lengthUnit, hm.bloodViscosity, hm.bifurcationExpoent, hm.dimension, hm.seed,
      hm.currentNumberOfSegments, hm.currentNumberOfTerminals,
      fun i hi => (hsl.2 i ((hsl.live_iff i).2 hi)).1, fun i _ => hpt i, fun i _ => hm.up i,
      fun i _ => hm.left i, fun i _ => hm.right i, hflow,
      fun i hi => (hall i hi).2.1, fun i hi => (hall i hi).2.2, hlen,
      fun i hi => (hall i hi).1⟩
  exact hng (Good.of_liveEq M hle hR.wfl hs hg)

/-- `reduce` of a table with one stored connection, on a live segment `p`, does not restore
the live state of a tree in which `p` does not hold the values that `update` would compute for
it. -/
theorem reduce_not_restored {D C : Type} (K : Collaborators α D C) {M : CMath α}
    (T : ConnectionEvaluationTable α) (s : Counted α) (hR : Reach M s.tree)
    (h1 : T.currentNumberOfConnections = 1)
    (hp : s.tree.live (T.connections 0).bifurcationSegmentID)
    (hup : (T.connections 0).newSegment.up = (T.connections 0).bifurcationSegmentID)
    (hng : ¬ Good M s.tree (T.connections 0).bifurcationSegmentID) :
    ∃ f0 T' s', (∀ f, f0 ≤ f → T.reduce K M f s = some (T', s')) ∧
      ¬ LiveEq s'.tree s.tree := by
  obtain ⟨f1, r1, g1, hR1, hid, hT1, c1, c1'⟩ :=
    growSegment_total_tail hR hp (T.connections 0).bifurcationPoint (T.connections 0).newSegment
  obtain ⟨f3, r2, g3, hR2, c3, c3'⟩ := remove_total_tail hR1 hT1 hup
  have a1 := g1 (max f1 f3) (le_max_left _ _)
  have a3 := g3 (max f1 f3) (le_max_right _ _)
  obtain ⟨-, -, hrs⟩ := growSegment_tail hR hp a1
  have hup' : (T.connections 0).newSegment.up = (r1.2.rightSegment
      (T.connections 0).bifurcationSegmentID).up := by
    rw [hrs, hT1.up_terminal, hup]
  have a3' := a3
  rw [remove_congr_up M _ r1.2 hup'] at a3'
  have hnr := roundTrip_not_restored hR hp hng a1 a3'
  refine ⟨max f1 f3,
    (if K.withoutIntersection r1.2 r1.1 then
      { T with
        reasonableConnections := Function.update T.reasonableConnections 0 0
        currentNumberOfReasonableConnections := 0 + 1 }
    else { T with currentNumberOfReasonableConnections := 0 }),
    ⟨r2.2, s.growSegmentCalls + 1, s.removeCalls + 1⟩, fun f hf => ?_, ?_⟩
  · have b1 := g1 f (le_trans (le_max_left _ _) hf)
    have b3 := g3 f (le_trans (le_max_right _ _) hf)
    simp only [ConnectionEvaluationTable.reduce, h1, show indices (1 : Int) = [0] from rfl,
      ConnectionEvaluationTable.reduceLoop, Counted.growSegment, Counted.remove, b1, b3]
  · intro hle
    exact hnr (fun i hi => ⟨hle.reducedHydrodynamicResistance i hi,
      hle.bifurcationRatioLeft i hi, hle.bifurcationRatioRight i hi⟩)

/-- Two calls of `growSegment` on the root of a tree that `growRoot` made of a fresh tree
return. -/
theorem staleFork_exists (M : CMath α) {t0 : Tree α} (hf : t0.Fresh) (dim : Int) (E : Point α)
    (f1 : α) (b1 b2 : Point α) (c1 c2 : Segment α) :
    ∃ f0 r1 r2, ∀ f, f0 ≤ f →
      growSegment M f b1 ((Tree.growRoot M t0 (Segment.make dim E f1)).2.segments 0) c1
        (Tree.growRoot M t0 (Segment.make dim E f1)).2 = some r1 ∧
      growSegment M f b2 (r1.2.segments 0) c2 r1.2 = some r2 := by
  have hR0 : Reach M (Tree.growRoot M t0 (Segment.make dim E f1)).2 :=
    Reach.root t0 dim E f1 hf
  have hl0 : (Tree.growRoot M t0 (Segment.make dim E f1)).2.live 0 :=
    ⟨le_refl _, by rw [growRoot_cur]; decide⟩
  obtain ⟨f1', r1, g1, hR1, -, -, c1', -⟩ := growSegment_total_tail hR0 hl0 b1 c1
  have hl1 : r1.2.live 0 := ⟨le_refl _, by rw [c1', growRoot_cur]; decide⟩
  obtain ⟨f2', r2, g2, -⟩ := growSegment_total_tail hR1 hl1 b2 c2
  exact ⟨max f1' f2', r1, r2, fun f hf => ⟨g1 f (le_trans (le_max_left _ _) hf),
    g2 f (le_trans (le_max_right _ _) hf)⟩⟩

/-- The tree of five segments made of `exampleLawTree`: it is reachable, its length unit is 1,
and its segment 3 (a bifurcation) does not hold the values that `update` would compute. -/
theorem exampleLawFork :
    ∃ f0 r1 r2, (∀ f, f0 ≤ f →
      growSegment realMath f ⟨2, 1, 0, 0⟩ ((exampleLawRoot realMath).segments 0)
        (Segment.make 2 ⟨2, 1, -1, 0⟩ 1) (exampleLawRoot realMath) = some r1 ∧
      growSegment realMath f ⟨2, 1 / 2, 0, 0⟩ (r1.2.segments 0)
        (Segment.make 2 ⟨2, 1 / 2, 1, 0⟩ 1) r1.2 = some r2) ∧
      Reach realMath r2.2 ∧ r2.2.lengthUnit = 1 ∧ r2.2.live 3 ∧ r2.2.isTerminal 3 = false ∧
      ¬ Good realMath r2.2 3 := by
  have hf : (exampleLawTree : Tree ℝ).Fresh := ⟨rfl, rfl, fun i => ⟨2, rfl⟩⟩
  obtain ⟨f0, r1, r2, h⟩ := staleFork_exists realMath hf 2 ⟨2, 1, 1, 0⟩ 1 ⟨2, 1, 0, 0⟩
    ⟨2, 1 / 2, 0, 0⟩ (Segment.make 2 ⟨2, 1, -1, 0⟩ 1) (Segment.make 2 ⟨2, 1 / 2, 1, 0⟩ 1)
  obtain ⟨h1, h2⟩ := h f0 (le_refl _)
  obtain ⟨e1, e2, e3, -, e5, -⟩ := staleFork_facts hf 2 ⟨2, 1, 1, 0⟩ 1 h1 h2
  have hnt : r2.2.isTerminal 3 = false := by
    cases ht : r2.2.isTerminal 3 with
    | false => rfl
    | true =>
      have := ((isTerminal_iff r2.2 3).1 ht).1
      rw [e3] at this
      exact absurd this (by decide)
  exact ⟨f0, r1, r2, h, e1, e5, ⟨by decide, by rw [e2]; decide⟩, hnt, staleFork_law h1 h2⟩

/-- The tree of five segments made of `exampleScaledTree`: it is reachable, its bifurcation
exponent is 3 for every segment, and its segment 3 (a bifurcation) does not hold the values
that `update` would compute. -/
theorem exampleScaledFork :
    ∃ f0 r1 r2, (∀ f, f0 ≤ f →
      growSegment realMath f ⟨2, 1, 0, 0⟩ ((exampleScaledRoot realMath).segments 0)
        (Segment.make 2 ⟨2, 1, -1, 0⟩ 1) (exampleScaledRoot realMath) = some r1 ∧
      growSegment realMath f ⟨2, 1 / 2, 0, 0⟩ (r1.2.segments 0)
        (Segment.make 2 ⟨2, 1 / 2, 1, 0⟩ 1) r1.2 = some r2) ∧
      Reach realMath r2.2 ∧ r2.2.lengthUnit = 2 ∧ (∀ i, r2.2.bifurcationExpoent i = 3) ∧
      r2.2.live 3 ∧ r2.2.isTerminal 3 = false ∧ ¬ Good realMath r2.2 3 := by
  have hf : (exampleScaledTree : Tree ℝ).Fresh := ⟨rfl, rfl, fun i => ⟨2, rfl⟩⟩
  obtain ⟨f0, r1, r2, h⟩ := staleFork_exists realMath hf 2 ⟨2, 1, 1, 0⟩ 1 ⟨2, 1, 0, 0⟩
    ⟨2, 1 / 2, 0, 0⟩ (Segment.make 2 ⟨2, 1, -1, 0⟩ 1) (Segment.make 2 ⟨2, 1 / 2, 1, 0⟩ 1)
  obtain ⟨h1, h2⟩ := h f0 (le_refl _)
  obtain ⟨e1, e2, e3, -, e5, -, e7, -⟩ := staleFork_facts hf 2 ⟨2, 1, 1, 0⟩ 1 h1 h2
  have hnt : r2.2.isTerminal 3 = false := by
    cases ht : r2.2.isTerminal 3 with
    | false => rfl
    | true =>
      have := ((isTerminal_iff r2.2 3).1 ht).1
      rw [e3] at this
      exact absurd this (by decide)
  have hd : distance realMath (exampleScaledTree : Tree ℝ).dimension
      (⟨2, 1 / 2, 0, 0⟩ : Point ℝ) ⟨2, 1, 0, 0⟩ ≠ 0 := by
    show distance realMath 2 (⟨2, 1 / 2, 0, 0⟩ : Point ℝ) ⟨2, 1, 0, 0⟩ ≠ 0
    rw [distance_axis]
    norm_num
  refine ⟨f0, r1, r2, h, e1, e5, fun i => by rw [e7]; rfl, ⟨by decide, by rw [e2]; decide⟩,
    hnt, ?_⟩
  exact staleFork_lengthUnit hf 2 ⟨2, 1, 1, 0⟩ 1 h1 h2
    (by show (2 : ℝ) ≠ 1; norm_num) Real.pi_ne_zero
    (by show (36 / 10000 : ℝ) ≠ 0; norm_num) hd

set_option maxRecDepth 20000 in
/-- The round trip does not restore the numbers, for two reasons.  First, with a bifurcation
exponent that depends on the segment (the law `exampleLaw`: 1 for the argument 3, 3 otherwise;
`Tree::update` passes the segment index to the law): in the tree of five segments that
`growRoot` and two calls of `growSegment` on the root make of `exampleLawTree`, a reachable
state with the length unit 1 and two free slots, `growSegment` on the live segment 3 (with the
bifurcation point `(3/4, 0)` and a new terminal at `(3/4, -1)`) and `remove` of the new terminal
return, and not every live segment has its resistance and ratios of before:
the segment 3 held the ratios computed with the exponent of the segment 0, whose copy it is,
and `update` recomputes them with the exponent of the segment 3.  Second, in the arithmetic of
`double`: on the tree with the default parameters, after `growRoot` with the root from `(0, 0)`
to `(1, 0)` (of length 1) and `growSegment` on the root with the bifurcation point `(1/4, 0)`,
the connection 1 (of length 3/4) holds the resistance `0x1.c297a3e7a7a5cp-8`, while the
`update` of a `remove` that follows a `growSegment` on the segment 1 stores for it
`0x1.c297a3e7a7a5bp-8`; in exact arithmetic the two expressions are equal. -/
theorem growSegment_remove_numeric_counterexample :
    (∃ f r1 r2 r3 r4,
      growSegment realMath f ⟨2, 1, 0, 0⟩ ((exampleLawRoot realMath).segments 0)
        (Segment.make 2 ⟨2, 1, -1, 0⟩ 1) (exampleLawRoot realMath) = some r1 ∧
      growSegment realMath f ⟨2, 1 / 2, 0, 0⟩ (r1.2.segments 0)
        (Segment.make 2 ⟨2, 1 / 2, 1, 0⟩ 1) r1.2 = some r2 ∧
      Reach realMath r2.2 ∧ r2.2.lengthUnit = 1 ∧ r2.2.live 3 ∧
      r2.2.growSegmentSlotsFit ∧
      growSegment realMath f ⟨2, 3 / 4, 0, 0⟩ (r2.2.segments 3)
        (Segment.make 2 ⟨2, 3 / 4, -1, 0⟩ 1) r2.2 = some r3 ∧
      remove realMath f r3.2 (r3.2.rightSegment 3) = some r4 ∧
      ¬ (∀ i, r2.2.live i →
        r4.2.reducedHydrodynamicResistance i = r2.2.reducedHydrodynamicResistance i ∧
        (r4.2.segments i).bifurcationRatioLeft = (r2.2.segments i).bifurcationRatioLeft ∧
        (r4.2.segments i).bifurcationRatioRight = (r2.2.segments i).bifurcationRatioRight)) ∧
    (Tree.connectionResistance doubleArith (Double.div (Double.ofInt 8) Double.M_PI)
        (Tree.rootResistance doubleArith (Double.div (Double.ofInt 8) Double.M_PI)
          (Double.div (Double.ofInt 36) (Double.ofInt 10000)) (Double.ofInt 1))
        (Double.div (Double.ofInt 36) (Double.ofInt 10000))
        (Double.div (Double.ofInt 3) (Double.ofInt 4))
        (Double.div (Double.ofInt 36) (Double.ofInt 10000)) (Double.ofInt 1) (Double.ofInt 1) =
        ⟨0x1c297a3e7a7a5c, -60⟩ ∧
      Tree.terminalResistance doubleArith (Double.div (Double.ofInt 8) Double.M_PI)
        (Double.div (Double.ofInt 36) (Double.ofInt 10000)) (Double.ofInt 1)
        (Double.div (Double.ofInt 3) (Double.ofInt 4)) = ⟨0x1c297a3e7a7a5b, -60⟩ ∧
      ∀ K μ : ℚ,
        Tree.connectionResistance exactArith K (Tree.rootResistance exactArith K μ 1) μ (3 / 4)
          μ 1 1 = Tree.terminalResistance exactArith K μ 1 (3 / 4)) := by
  constructor
  · obtain ⟨f0, r1, r2, h, hR2, hlu, hl3, -, hng⟩ := exampleLawFork
    obtain ⟨f3, r3, g3, hR3, -, hT3, -, -⟩ := growSegment_total_tail hR2 hl3
      ⟨2, 3 / 4, 0, 0⟩ (Segment.make 2 ⟨2, 3 / 4, -1, 0⟩ 1)
    obtain ⟨-, -, hrs⟩ := growSegment_tail hR2 hl3 (g3 f3 (le_refl _))
    have hseg : (r3.2.rightSegment 3).up = 3 := by rw [hrs, hT3.up_terminal]
    obtain ⟨f4, r4, g4, -⟩ := remove_total_tail hR3 hT3 hseg
    have b12 := h (max f0 (max f3 f4)) (le_max_left _ _)
    have b3 := g3 (max f0 (max f3 f4)) (le_trans (le_max_left _ _) (le_max_right _ _))
    have b4 := g4 (max f0 (max f3 f4)) (le_trans (le_max_right _ _) (le_max_right _ _))
    have hf : (exampleLawTree : Tree ℝ).Fresh := ⟨rfl, rfl, fun i => ⟨2, rfl⟩⟩
    obtain ⟨-, e2, -⟩ := staleFork_facts hf 2 ⟨2, 1, 1, 0⟩ 1 b12.1 b12.2
    have hN : r2.2.numberOfTerminals = 4 := by
      rw [growSegment_numberOfTerminals b12.2, growSegment_numberOfTerminals b12.1]
      exact growRoot_numberOfTerminals realMath _ _
    have hfit : r2.2.growSegmentSlotsFit := by
      unfold Tree.growSegmentSlotsFit
      rw [e2, hN]
      decide
    refine ⟨_, r1, r2, r3, r4, b12.1, b12.2, hR2, hlu, hl3, hfit, b3, b4, ?_⟩
    exact roundTrip_not_restored hR2 hl3 hng b3 b4
  · refine ⟨by decide, by decide, fun K μ => connectionResistance_exact K μ 1 (3 / 4)⟩

/-- The trial optimizer does not restore the numbers, for two reasons.  First, with a length
unit other than 1: in the tree of five segments that `growRoot` and two calls of `growSegment`
on the root make of `exampleScaledTree` (length unit 2, bifurcation exponent 3 for every
segment), a reachable state, `SimpleOptimization::bifurcation` of the live bifurcation segment
3 returns with the counters, links, points, stored lengths and flows of before, and not every
live segment has its resistance and ratios of before: the segment 3 held the resistance that
`growSegment` had computed from the stored lengths, and `update` recomputes it with
`length()`, which multiplies by the length unit.  Second, with a bifurcation exponent that
depends on the segment: the same on the tree made of `exampleLawTree`, with the length unit 1,
where the segment 3 held the ratios computed with the exponent of the segment 0. -/
theorem bifurcation_restores_counterexample :
    (∃ f r1 r2,
      growSegment realMath f ⟨2, 1, 0, 0⟩ ((exampleScaledRoot realMath).segments 0)
        (Segment.make 2 ⟨2, 1, -1, 0⟩ 1) (exampleScaledRoot realMath) = some r1 ∧
      growSegment realMath f ⟨2, 1 / 2, 0, 0⟩ (r1.2.segments 0)
        (Segment.make 2 ⟨2, 1 / 2, 1, 0⟩ 1) r1.2 = some r2 ∧
      Reach realMath r2.2 ∧ (∀ i, r2.2.bifurcationExpoent i = 3) ∧ r2.2.live 3 ∧
      r2.2.isTerminal 3 = false ∧
      ∃ f0 c t1,
        (∀ f, f0 ≤ f →
          SimpleOptimization.bifurcation (exampleDriver 2 : Collaborators ℝ Nat Unit) realMath f
            0 r2.2 (r2.2.segments 3) = some (c, t1)) ∧
        t1.currentNumberOfSegments = r2.2.currentNumberOfSegments ∧
        t1.currentNumberOfTerminals = r2.2.currentNumberOfTerminals ∧
        (∀ i, (t1.segments i).up = (r2.2.segments i).up ∧
          (t1.segments i).left = (r2.2.segments i).left ∧
          (t1.segments i).right = (r2.2.segments i).right) ∧
        (∀ i, (t1.segments i).point = (r2.2.segments i).point) ∧
        (∀ i, r2.2.live i → t1._length i = r2.2._length i ∧
          (t1.segments i).flow = (r2.2.segments i).flow) ∧
        ¬ (∀ i, r2.2.live i →
          t1.reducedHydrodynamicResistance i = r2.2.reducedHydrodynamicResistance i ∧
          (t1.segments i).bifurcationRatioLeft = (r2.2.segments i).bifurcationRatioLeft ∧
          (t1.segments i).bifurcationRatioRight = (r2.2.segments i).bifurcationRatioRight)) ∧
    (∃ f r1 r2,
      growSegment realMath f ⟨2, 1, 0, 0⟩ ((exampleLawRoot realMath).segments 0)
        (Segment.make 2 ⟨2, 1, -1, 0⟩ 1) (exampleLawRoot realMath) = some r1 ∧
      growSegment realMath f ⟨2, 1 / 2, 0, 0⟩ (r1.2.segments 0)
        (Segment.make 2 ⟨2, 1 / 2, 1, 0⟩ 1) r1.2 = some r2 ∧
      Reach realMath r2.2 ∧ r2.2.lengthUnit = 1 ∧ r2.2.live 3 ∧
      r2.2.isTerminal 3 = false ∧
      ∃ f0 c t1,
        (∀ f, f0 ≤ f →
          SimpleOptimization.bifurcation (exampleDriver 2 : Collaborators ℝ Nat Unit) realMath f
            0 r2.2 (r2.2.segments 3) = some (c, t1)) ∧
        t1.currentNumberOfSegments = r2.2.currentNumberOfSegments ∧
        t1.currentNumberOfTerminals = r2.2.currentNumberOfTerminals ∧
        (∀ i, (t1.segments i).up = (r2.2.segments i).up ∧
          (t1.segments i).left = (r2.2.segments i).left ∧
          (t1.segments i).right = (r2.2.segments i).right) ∧
        (∀ i, (t1.segments i).point = (r2.2.segments i).point) ∧
        (∀ i, r2.2.live i → t1._length i = r2.2._length i ∧
          (t1.segments i).flow = (r2.2.segments i).flow) ∧
        ¬ (∀ i, r2.2.live i →
          t1.reducedHydrodynamicResistance i = r2.2.reducedHydrodynamicResistance i ∧
          (t1.segments i).bifurcationRatioLeft = (r2.2.segments i).bifurcationRatioLeft ∧
          (t1.segments i).bifurcationRatioRight = (r2.2.segments i).bifurcationRatioRight)) := by
  constructor
  · obtain ⟨f0, r1, r2, h, hR2, -, hγ, hl3, hnt, hng⟩ := exampleScaledFork
    obtain ⟨h1, h2⟩ := h f0 (le_refl _)
    exact ⟨f0, r1, r2, h1, h2, hR2, hγ, hl3, hnt,
      bifurcation_not_restored (exampleDriver 2 : Collaborators ℝ Nat Unit) 0 hR2 hl3 hng⟩
  · obtain ⟨f0, r1, r2, h, hR2, hlu, hl3, hnt, hng⟩ := exampleLawFork
    obtain ⟨h1, h2⟩ := h f0 (le_refl _)
    exact ⟨f0, r1, r2, h1, h2, hR2, hlu, hl3, hnt,
      bifurcation_not_restored (exampleDriver 2 : Collaborators ℝ Nat Unit) 0 hR2 hl3 hng⟩

/-- The operation `reduce` does not restore the numbers, for two reasons.  First, with a
length unit other than 1: in the tree of five segments that `growRoot` and two calls of
`growSegment` on the root make of `exampleScaledTree` (length unit 2, bifurcation exponent 3
for every segment), a reachable state, `reduce` of the table `exampleStaleTable`, whose one
connection names the live segment 3 and holds a new segment with the parent link 3, returns,
and the live state of the tree is not the live state of before: the segment 3 held the
resistance that `growSegment` had computed from the stored lengths, and the `update` of
`remove` recomputes it with `length()`, which multiplies by the length unit.  Second, with a
bifurcation exponent that depends on the segment: the same on the tree made of
`exampleLawTree`, with the length unit 1, where the segment 3 held the ratios computed with the
exponent of the segment 0. -/
theorem reduce_spec_counterexample :
    (∃ f r1 r2,
      growSegment realMath f ⟨2, 1, 0, 0⟩ ((exampleScaledRoot realMath).segments 0)
        (Segment.make 2 ⟨2, 1, -1, 0⟩ 1) (exampleScaledRoot realMath) = some r1 ∧
      growSegment realMath f ⟨2, 1 / 2, 0, 0⟩ (r1.2.segments 0)
        (Segment.make 2 ⟨2, 1 / 2, 1, 0⟩ 1) r1.2 = some r2 ∧
      Reach realMath r2.2 ∧ (∀ i, r2.2.bifurcationExpoent i = 3) ∧
      (∀ i, 0 ≤ i → i < (exampleStaleTable : ConnectionEvaluationTable ℝ).currentNumberOfConnections →
        r2.2.live ((exampleStaleTable : ConnectionEvaluationTable ℝ).connections
          i).bifurcationSegmentID ∧
        ((exampleStaleTable : ConnectionEvaluationTable ℝ).connections i).newSegment.up =
          ((exampleStaleTable : ConnectionEvaluationTable ℝ).connections
            i).bifurcationSegmentID) ∧
      ∃ f0 T' s',
        (∀ f, f0 ≤ f →
          (exampleStaleTable : ConnectionEvaluationTable ℝ).reduce
            (exampleDriver 2 : Collaborators ℝ Nat Unit) realMath f ⟨r2.2, 0, 0⟩ =
            some (T', s')) ∧
        ¬ LiveEq s'.tree r2.2) ∧
    (∃ f r1 r2,
      growSegment realMath f ⟨2, 1, 0, 0⟩ ((exampleLawRoot realMath).segments 0)
        (Segment.make 2 ⟨2, 1, -1, 0⟩ 1) (exampleLawRoot realMath) = some r1 ∧
      growSegment realMath f ⟨2, 1 / 2, 0, 0⟩ (r1.2.segments 0)
        (Segment.make 2 ⟨2, 1 / 2, 1, 0⟩ 1) r1.2 = some r2 ∧
      Reach realMath r2.2 ∧ r2.2.lengthUnit = 1 ∧
      (∀ i, 0 ≤ i → i < (exampleStaleTable : ConnectionEvaluationTable ℝ).currentNumberOfConnections →
        r2.2.live ((exampleStaleTable : ConnectionEvaluationTable ℝ).connections
          i).bifurcationSegmentID ∧
        ((exampleStaleTable : ConnectionEvaluationTable ℝ).connections i).newSegment.up =
          ((exampleStaleTable : ConnectionEvaluationTable ℝ).connections
            i).bifurcationSegmentID) ∧
      ∃ f0 T' s',
        (∀ f, f0 ≤ f →
          (exampleStaleTable : ConnectionEvaluationTable ℝ).reduce
            (exampleDriver 2 : Collaborators ℝ Nat Unit) realMath f ⟨r2.2, 0, 0⟩ =
            some (T', s')) ∧
        ¬ LiveEq s'.tree r2.2) := by
  constructor
  · obtain ⟨f0, r1, r2, h, hR2, -, hγ, hl3, -, hng⟩ := exampleScaledFork
    obtain ⟨h1, h2⟩ := h f0 (le_refl _)
    exact ⟨f0, r1, r2, h1, h2, hR2, hγ, fun i _ _ => ⟨hl3, rfl⟩,
      reduce_not_restored (exampleDriver 2 : Collaborators ℝ Nat Unit)
        (exampleStaleTable : ConnectionEvaluationTable ℝ) ⟨r2.2, 0, 0⟩ hR2 rfl hl3 rfl hng⟩
  · obtain ⟨f0, r1, r2, h, hR2, hlu, hl3, -, hng⟩ := exampleLawFork
    obtain ⟨h1, h2⟩ := h f0 (le_refl _)
    exact ⟨f0, r1, r2, h1, h2, hR2, hlu, fun i _ _ => ⟨hl3, rfl⟩,
      reduce_not_restored (exampleDriver 2 : Collaborators ℝ Nat Unit)
        (exampleStaleTable : ConnectionEvaluationTable ℝ) ⟨r2.2, 0, 0⟩ hR2 rfl hl3 rfl hng⟩

/-- C1, amended: round trip of the numeric state, in exact arithmetic.  In every state
reachable from `growRoot` by `growSegment`, `remove` of the last terminal and
`moveDistalPoint`, with `lengthUnit = 1`, for every live segment `p`, point `b` and child value
`c`: `growSegment(b, p, c)` and then `remove` of the new terminal, the right child of `p`, both
return, and the final state has the same `currentNumberOfSegments` and
`currentNumberOfTerminals` and, at every live index, the same stored length as the state
before; when the bifurcation exponent is the same for every segment, it has also, at every live
index, the same reduced hydrodynamic resistance and the same two bifurcation ratios. -/
theorem growSegment_remove_numeric {M : CMath α} {t : Tree α} (hR : Reach M t)
    (hlu : t.lengthUnit = 1) {p : Int} (hp : t.live p) (b : Point α) (c : Segment α) :
    (∃ fuel, ∀ f1 f2, fuel ≤ f1 → fuel ≤ f2 → ∃ r1 r2,
      growSegment M f1 b (t.segments p) c t = some r1 ∧
      remove M f2 r1.2 (r1.2.rightSegment p) = some r2) ∧
    ∀ f1 f2 r1 r2, growSegment M f1 b (t.segments p) c t = some r1 →
      remove M f2 r1.2 (r1.2.rightSegment p) = some r2 →
      r2.2.currentNumberOfSegments = t.currentNumberOfSegments ∧
      r2.2.currentNumberOfTerminals = t.currentNumberOfTerminals ∧
      (∀ i, t.live i → r2.2._length i = t._length i) ∧
      ((∀ i j, t.bifurcationExpoent i = t.bifurcationExpoent j) →
        ∀ i, t.live i →
          r2.2.reducedHydrodynamicResistance i = t.reducedHydrodynamicResistance i ∧
          (r2.2.segments i).bifurcationRatioLeft = (t.segments i).bifurcationRatioLeft ∧
          (r2.2.segments i).bifurcationRatioRight = (t.segments i).bifurcationRatioRight) := by
  refine ⟨growSegment_remove_total hR hp b c, ?_⟩
  intro f1 f2 r1 r2 h1 h2
  obtain ⟨hR2, e1, e2, hl⟩ := growSegment_remove_links hR hp h1 h2
  obtain ⟨hsl, hflow⟩ := growSegment_remove_flow hR hp h1 h2
  obtain ⟨g1, g2, g3, -⟩ := growSegment_consts h1
  obtain ⟨c1, c2, c3, -⟩ := remove_consts h2
  have hlen := growSegment_remove_lengths hR hp h1 h2
  refine ⟨e1, e2, hlen, fun hγ => ?_⟩
  have hn := hR.numInv hlu hγ
  have hn2 := hR2.numInv (by rw [c1, g1, hlu]) (by rw [c3, g3]; exact hγ)
  exact values_determined M hR.wfl hsl (by rw [c1, g1]) (by rw [c2, g2]) (by rw [c3, g3])
    hlen hn.2.1 hn2.2.1 hflow

/-- The round trip of the numeric state at the root of the small tree over the real numbers,
whose bifurcation exponent is 3 for every segment. -/
theorem growSegment_remove_numeric_witness :
    (exampleRoot realMath).live 0 ∧ (exampleRoot realMath).lengthUnit = 1 ∧
    (∀ i j, (exampleRoot realMath).bifurcationExpoent i =
      (exampleRoot realMath).bifurcationExpoent j) ∧
    ((∃ fuel, ∀ f1 f2, fuel ≤ f1 → fuel ≤ f2 → ∃ r1 r2,
      growSegment realMath f1 ⟨2, 1, 1, 0⟩ ((exampleRoot realMath).segments 0)
        (Segment.make 2 ⟨2, 2, 0, 0⟩ 1) (exampleRoot realMath) = some r1 ∧
      remove realMath f2 r1.2 (r1.2.rightSegment 0) = some r2) ∧
    ∀ f1 f2 r1 r2,
      growSegment realMath f1 ⟨2, 1, 1, 0⟩ ((exampleRoot realMath).segments 0)
        (Segment.make 2 ⟨2, 2, 0, 0⟩ 1) (exampleRoot realMath) = some r1 →
      remove realMath f2 r1.2 (r1.2.rightSegment 0) = some r2 →
      r2.2.currentNumberOfSegments = (exampleRoot realMath).currentNumberOfSegments ∧
      r2.2.currentNumberOfTerminals = (exampleRoot realMath).currentNumberOfTerminals ∧
      ∀ i, (exampleRoot realMath).live i →
        r2.2._length i = (exampleRoot realMath)._length i ∧
        r2.2.reducedHydrodynamicResistance i =
          (exampleRoot realMath).reducedHydrodynamicResistance i ∧
        (r2.2.segments i).bifurcationRatioLeft =
          ((exampleRoot realMath).segments i).bifurcationRatioLeft ∧
        (r2.2.segments i).bifurcationRatioRight =
          ((exampleRoot realMath).segments i).bifurcationRatioRight) :=
  ⟨exampleRoot_live realMath, rfl, fun _ _ => rfl,
    (growSegment_remove_numeric (exampleRoot_reach realMath) rfl
      (exampleRoot_live realMath) ⟨2, 1, 1, 0⟩ (Segment.make 2 ⟨2, 2, 0, 0⟩ 1)).1,
    fun f1 f2 r1 r2 h1 h2 =>
      ⟨((growSegment_remove_numeric (exampleRoot_reach realMath) rfl
          (exampleRoot_live realMath) ⟨2, 1, 1, 0⟩ (Segment.make 2 ⟨2, 2, 0, 0⟩ 1)).2
          f1 f2 r1 r2 h1 h2).1,
        ((growSegment_remove_numeric (exampleRoot_reach realMath) rfl
          (exampleRoot_live realMath) ⟨2, 1, 1, 0⟩ (Segment.make 2 ⟨2, 2, 0, 0⟩ 1)).2
          f1 f2 r1 r2 h1 h2).2.1,
        fun i hi =>
          ⟨((growSegment_remove_numeric (exampleRoot_reach realMath) rfl
              (exampleRoot_live realMath) ⟨2, 1, 1, 0⟩ (Segment.make 2 ⟨2, 2, 0, 0⟩ 1)).2
              f1 f2 r1 r2 h1 h2).2.2.1 i hi,
            ((growSegment_remove_numeric (exampleRoot_reach realMath) rfl
              (exampleRoot_live realMath) ⟨2, 1, 1, 0⟩ (Segment.make 2 ⟨2, 2, 0, 0⟩ 1)).2
              f1 f2 r1 r2 h1 h2).2.2.2 (fun _ _ => rfl) i hi⟩⟩⟩

/-- C13, amended: the trial optimizer restores the tree, in exact arithmetic.  In every state
reachable from `growRoot` by `growSegment`, `remove` of the last terminal and
`moveDistalPoint`, for every live segment `s`: `SimpleOptimization::bifurcation` of the segment
value read from the tree returns, and in the tree that it leaves both counters and every link
are those of the tree before, the distal point of every segment (of `s` in particular) is its
distal point before, and at every live segment (`s` and its two children in particular) the
stored length and the flow are those of the tree before; on a tree with `lengthUnit = 1` and
the same bifurcation exponent for every segment, the reduced resistance and the two
bifurcation ratios of every live segment are those of the tree before as well. -/
theorem bifurcation_restores {D C : Type} (K : Collaborators α D C)
    {M : CMath α} (d : D) {t : Tree α} (hR : Reach M t) {s : Int} (hs : t.live s) :
    ∃ f0 c t1,
      (∀ f, f0 ≤ f → SimpleOptimization.bifurcation K M f d t (t.segments s) = some (c, t1)) ∧
      Reach M t1 ∧
      t1.currentNumberOfSegments = t.currentNumberOfSegments ∧
      t1.currentNumberOfTerminals = t.currentNumberOfTerminals ∧
      (∀ i, (t1.segments i).up = (t.segments i).up ∧
        (t1.segments i).left = (t.segments i).left ∧
        (t1.segments i).right = (t.segments i).right) ∧
      (∀ i, (t1.segments i).point = (t.segments i).point) ∧
      (∀ i, t.live i →
        t1._length i = t._length i ∧ (t1.segments i).flow = (t.segments i).flow) ∧
      (t.lengthUnit = 1 → (∀ i j, t.bifurcationExpoent i = t.bifurcationExpoent j) →
        ∀ i, t.live i →
          t1.reducedHydrodynamicResistance i = t.reducedHydrodynamicResistance i ∧
          (t1.segments i).bifurcationRatioLeft = (t.segments i).bifurcationRatioLeft ∧
          (t1.segments i).bifurcationRatioRight = (t.segments i).bifurcationRatioRight) := by
  obtain ⟨f0, c, t1, hrun, hR1, -, hm, hsl, hpt, hlen, hflow⟩ :=
    SimpleOptimization.bifurcation_structure K d hR hs
  refine ⟨f0, c, t1, hrun, hR1, hm.currentNumberOfSegments, hm.currentNumberOfTerminals,
    fun i => ⟨hm.up i, hm.left i, hm.right i⟩, hpt, fun i hi => ⟨hlen i hi, hflow i hi⟩,
    fun hlu hγ => ?_⟩
  have hn := hR.numInv hlu hγ
  have hn1 := hR1.numInv (by rw [hm.lengthUnit, hlu]) (by rw [hm.bifurcationExpoent]; exact hγ)
  exact values_determined M hR.wfl hsl hm.lengthUnit hm.bloodViscosity hm.bifurcationExpoent
    hlen hn.2.1 hn1.2.1 hflow

/-- The trial optimizer restores the tree that `growSegment` makes of the root of the example
(length unit 1, bifurcation exponent 3 for every segment), for the segment that `growSegment`
returned (the segment 0, now a bifurcation). -/
theorem bifurcation_restores_witness :
    ∃ fuel r,
      growSegment realMath fuel ⟨2, 1, 1, 0⟩ ((exampleRoot realMath).segments 0)
        (Segment.make 2 ⟨2, 2, 0, 0⟩ 1) (exampleRoot realMath) = some r ∧
      r.2.live 0 ∧ r.2.isTerminal 0 = false ∧ r.1 = r.2.segments 0 ∧
      r.2.lengthUnit = 1 ∧ (∀ i j, r.2.bifurcationExpoent i = r.2.bifurcationExpoent j) ∧
      ∃ f0 c t1,
        (∀ f, f0 ≤ f →
          SimpleOptimization.bifurcation (exampleDriver 2 : Collaborators ℝ Nat Unit) realMath f
            0 r.2 (r.2.segments 0) = some (c, t1)) ∧
        Reach realMath t1 ∧
        t1.currentNumberOfSegments = r.2.currentNumberOfSegments ∧
        t1.currentNumberOfTerminals = r.2.currentNumberOfTerminals ∧
        (∀ i, (t1.segments i).up = (r.2.segments i).up ∧
          (t1.segments i).left = (r.2.segments i).left ∧
          (t1.segments i).right = (r.2.segments i).right) ∧
        (∀ i, (t1.segments i).point = (r.2.segments i).point) ∧
        (∀ i, r.2.live i →
          t1._length i = r.2._length i ∧ (t1.segments i).flow = (r.2.segments i).flow) ∧
        (∀ i, r.2.live i →
          t1.reducedHydrodynamicResistance i = r.2.reducedHydrodynamicResistance i ∧
          (t1.segments i).bifurcationRatioLeft = (r.2.segments i).bifurcationRatioLeft ∧
          (t1.segments i).bifurcationRatioRight = (r.2.segments i).bifurcationRatioRight) := by
  obtain ⟨f0, r, h, hR1, hid, hT, hcur, -⟩ :=
    growSegment_total_tail (exampleRoot_reach realMath) (exampleRoot_live realMath)
      ⟨2, 1, 1, 0⟩ (Segment.make 2 ⟨2, 2, 0, 0⟩ 1)
  have h0 := h f0 (le_refl _)
  obtain ⟨g1, -, g3, -⟩ := growSegment_consts h0
  have hc : (exampleRoot realMath).currentNumberOfSegments = 1 := rfl
  have hl : r.2.live 0 := by
    simp only [Tree.live, hcur, hc]
    omega
  have hnt : r.2.isTerminal 0 = false := by
    have hleft := hT.left_p
    rw [hcur, hc] at hleft
    cases ht : r.2.isTerminal 0 with
    | false => rfl
    | true =>
      have := ((isTerminal_iff r.2 0).1 ht).1
      rw [hleft] at this
      exact absurd this (by decide)
  have hlu : r.2.lengthUnit = 1 := by rw [g1]; rfl
  have hγ : ∀ i j, r.2.bifurcationExpoent i = r.2.bifurcationExpoent j := by
    rw [g3]; exact fun _ _ => rfl
  obtain ⟨f1, c, t1, q1, q2, q3, q4, q5, q6, q7, q8⟩ :=
    bifurcation_restores (exampleDriver 2 : Collaborators ℝ Nat Unit) 0 hR1 hl
  exact ⟨f0, r, h0, hl, hnt, (growSegment_post (exampleRoot_reach realMath)
      (exampleRoot_live realMath) h0).1, hlu, hγ, f1, c, t1, q1, q2, q3, q4, q5, q6, q7,
    q8 hlu hγ⟩

/-- With the length unit 2 a connection gets a negative resistance: `growSegment` on the root
of the tree that `growRoot` makes of `exampleScaledTree` with the root from `(0, 0)` to
`(1, 0)`, with the bifurcation point `(1/2, 0)` and the new terminal at `(1/2, 1)`, returns a
reachable state of three segments in which all lengths, flows, the viscosity and the
exponent are positive, `perfusionPressure > terminalPressure`, `perfusionFlow` and
`radiusUnit` are positive, and the reduced resistance of the live segment 1 is negative:
`growSegment` computes it as `R[0] + K μ (L[1] - lengthUnit * L[0])`, with the stored
lengths `L[0] = 1` of the root before the call and `L[1] = 1/2`. -/
theorem exampleScaled_negative :
    ∃ f r,
      growSegment realMath f ⟨2, 1 / 2, 0, 0⟩
        ((Tree.growRoot realMath exampleScaledTree (Segment.make 2 ⟨2, 1, 0, 0⟩ 1)).2.segments 0)
        (Segment.make 2 ⟨2, 1 / 2, 1, 0⟩ 1)
        (Tree.growRoot realMath exampleScaledTree (Segment.make 2 ⟨2, 1, 0, 0⟩ 1)).2 = some r ∧
      Reach realMath r.2 ∧ r.2.lengthUnit = 2 ∧
      (∀ i, r.2.live i → 0 < r.2.length i) ∧
      (∀ i, r.2.live i → r.2.isTerminal i = true → 0 < (r.2.segments i).flow) ∧
      (∀ i, 0 < r.2.bloodViscosity i) ∧ (∀ i, r.2.bifurcationExpoent i = 3) ∧
      r.2.terminalPressure < r.2.perfusionPressure ∧ 0 < r.2.perfusionFlow ∧
      0 < r.2.radiusUnit ∧ r.2.live 1 ∧ r.2.reducedHydrodynamicResistance 1 < 0 := by
  have hf : (exampleScaledTree : Tree ℝ).Fresh := ⟨rfl, rfl, fun i => ⟨2, rfl⟩⟩
  have hR0 : Reach realMath
      (Tree.growRoot realMath exampleScaledTree (Segment.make 2 ⟨2, 1, 0, 0⟩ 1)).2 :=
    Reach.root _ 2 ⟨2, 1, 0, 0⟩ 1 hf
  have hl0 : (Tree.growRoot realMath exampleScaledTree
      (Segment.make 2 (⟨2, 1, 0, 0⟩ : Point ℝ) 1)).2.live 0 :=
    ⟨le_refl _, by rw [growRoot_cur]; decide⟩
  obtain ⟨f0, r, g, hR1, -⟩ := growSegment_total_tail hR0 hl0 ⟨2, 1 / 2, 0, 0⟩
    (Segment.make 2 ⟨2, 1 / 2, 1, 0⟩ 1)
  have h1 := g f0 (le_refl _)
  obtain ⟨hfork, -, e_seed, e_dim, e_lu, e_mu, e_law, e_ru, e_pf, e_pp, e_tp⟩ :=
    IsFork.of_growSegment hf 2 ⟨2, 1, 0, 0⟩ 1 h1
  have hpt : (Segment.make 2 (⟨2, 1 / 2, 1, 0⟩ : Point ℝ) 1).point = ⟨2, 1 / 2, 1, 0⟩ := rfl
  have hfl : (Segment.make 2 (⟨2, 1 / 2, 1, 0⟩ : Point ℝ) 1).flow = 1 := rfl
  have hlive : ∀ i, r.2.live i → i = 0 ∨ i = 1 ∨ i = 2 := by
    intro i hi
    simp only [Tree.live, hfork.cur] at hi
    omega
  have hlu : r.2.lengthUnit = 2 := e_lu
  have hdim : r.2.dimension = 2 := e_dim
  have hseed : r.2.seed = ⟨2, 0, 0, 0⟩ := e_seed
  have hlen := hR1.lengths_hold
  have L0 : r.2._length 0 = 1 / 2 := by
    rw [hlen 0 ⟨le_refl _, by rw [hfork.cur]; decide⟩, proximalPoint_eq, if_pos rfl,
      Tree.distalPoint, hfork.point0, hdim, hseed, distance_axis]
    norm_num
  have L1 : r.2._length 1 = 1 / 2 := by
    rw [hlen 1 ⟨by decide, by rw [hfork.cur]; decide⟩, proximalPoint_eq, if_neg (by decide),
      hfork.up1, Tree.distalPoint, hfork.point0, hfork.point1, hdim, distance_axis]
    norm_num
  have L2 : 0 < r.2._length 2 := by
    rw [hlen 2 ⟨by decide, by rw [hfork.cur]; decide⟩, proximalPoint_eq, if_neg (by decide),
      hfork.up2, Tree.distalPoint, hfork.point0, hfork.point2, hdim, hpt]
    exact distance_pos_plane _ _ (Or.inr (by norm_num))
  have hnt0 : r.2.isTerminal 0 = true → False := by
    intro ht
    have := ((isTerminal_iff r.2 0).1 ht).1
    rw [hfork.left0] at this
    exact absurd this (by decide)
  obtain ⟨hv, -⟩ := growSegment_root_values hR0 h1
  obtain ⟨q1, q2, q3, q4, q5, q6, q7⟩ :=
    growRoot_fields realMath (exampleScaledTree : Tree ℝ) (Segment.make 2 ⟨2, 1, 0, 0⟩ 1)
  have hseg0 := growRoot_segments realMath (exampleScaledTree : Tree ℝ) 2 ⟨2, 1, 0, 0⟩ 1 0
  rw [if_pos rfl] at hseg0
  have hK : 0 < poiseuilleLawConstant realMath := by
    unfold poiseuilleLawConstant
    exact div_pos (by norm_num) Real.pi_pos
  have R1 : r.2.reducedHydrodynamicResistance 1 =
      poiseuilleLawConstant realMath * (36 / 10000) * (-(1 / 2)) := by
    rw [(hv 1 (by decide)).1, growRoot_cur, if_neg (by decide), if_pos rfl, q1, Tree.length, q2,
      q3, q4, q6, hseg0]
    show poiseuilleLawConstant realMath * (36 / 10000) *
        distance realMath 2 (⟨2, 0, 0, 0⟩ : Point ℝ) ⟨2, 1, 0, 0⟩ +
      poiseuilleLawConstant realMath * (36 / 10000 *
        distance realMath 2 (⟨2, 1 / 2, 0, 0⟩ : Point ℝ) ⟨2, 1, 0, 0⟩ -
        36 / 10000 * (2 * distance realMath 2 (⟨2, 0, 0, 0⟩ : Point ℝ) ⟨2, 1, 0, 0⟩)) = _
    rw [distance_axis, distance_axis]
    have a1 : |(0 : ℝ) - 1| = 1 := by norm_num
    have a2 : |(1 / 2 : ℝ) - 1| = 1 / 2 := by
      rw [abs_of_neg (by norm_num)]; norm_num
    rw [a1, a2]
    ring
  refine ⟨f0, r, h1, hR1, hlu, ?_, ?_, ?_, ?_, ?_, ?_, ?_,
    ⟨by decide, by rw [hfork.cur]; decide⟩, ?_⟩
  · intro i hi
    unfold Tree.length
    rw [hlu]
    rcases hlive i hi with rfl | rfl | rfl
    · rw [L0]; norm_num
    · rw [L1]; norm_num
    · exact mul_pos (by norm_num) L2
  · intro i hi ht
    rcases hlive i hi with rfl | rfl | rfl
    · exact absurd ht (fun h => hnt0 h)
    · rw [hfork.flow1]; exact one_pos
    · rw [hfork.flow2, hfl]; exact one_pos
  · intro i
    rw [e_mu]
    show (0 : ℝ) < 36 / 10000
    norm_num
  · intro i
    rw [e_law]
    rfl
  · rw [e_pp, e_tp]
    show (7999341921 / 1000000 : ℝ) < 13332236535 / 1000000
    norm_num
  · rw [e_pf]
    show (0 : ℝ) < 833 / 100000000
    norm_num
  · rw [e_ru]
    show (0 : ℝ) < 1
    norm_num
  · rw [R1]
    have : 0 < poiseuilleLawConstant realMath * (36 / 10000 : ℝ) := mul_pos hK (by norm_num)
    nlinarith

/-! ## The relatives of a segment are its parent and its children -/

/-- `WithoutIntersection::pass` on a live bifurcation segment `s` of a well-linked tree
returns when the radii are available, and it returns false exactly when a live segment `i` and
one of the three check segments `j` (`s` and its two children) are different segments, neither
the parent of the other, and intersect. -/
theorem WithoutIntersection.pass_spec (M : CMath α) {t : Tree α} (hw : WFL t) {s : Int}
    (hs : t.live s) (hb : t.isTerminal s = false) (ρ : Int → α) (f : Nat)
    (hρ : ∀ i, t.live i → radius M f t i = some (ρ i)) :
    ∃ b, WithoutIntersection.pass M f t (t.segments s) = some b ∧
      (b = false ↔ ∃ i, t.live i ∧ ∃ j ∈ [s, (t.segments s).left, (t.segments s).right],
        i ≠ j ∧ (t.segments j).up ≠ i ∧ (t.segments i).up ≠ j ∧
        Geometry.hasIntersection M t.dimension (t.proximalPoint i) (t.distalPoint i)
          (t.proximalPoint j) (t.distalPoint j) (ρ i + ρ j) = true) := by
  have hid := hw.ids s hs
  obtain ⟨k1, k2, k3, k4, k5, k6, k7⟩ : 0 < (t.segments s).left ∧
      (t.segments s).left < t.currentNumberOfSegments ∧
      0 < (t.segments s).right ∧ (t.segments s).right < t.currentNumberOfSegments ∧
      (t.segments s).left ≠ (t.segments s).right ∧
      (t.segments (t.segments s).left).up = s ∧ (t.segments (t.segments s).right).up = s := by
    rcases hw.kids s hs with hk | hk
    · have := (isTerminal_iff t s).mpr hk
      rw [hb] at this
      exact absurd this (by decide)
    · exact hk
  have hl : t.live (t.segments s).left := ⟨k1.le, k2⟩
  have hr : t.live (t.segments s).right := ⟨k3.le, k4⟩
  have hlive : ∀ j ∈ [s, (t.segments s).left, (t.segments s).right], t.live j := by
    intro j hj
    simp only [List.mem_cons, List.mem_singleton, List.not_mem_nil, or_false] at hj
    rcases hj with rfl | rfl | rfl
    · exact hs
    · exact hl
    · exact hr
  have hcs : ∀ c ∈ [t.segments s, t.leftSegment s, t.rightSegment s],
      radius M f t c.ID = some (ρ c.ID) := by
    intro c hc
    simp only [List.mem_cons, List.mem_singleton, List.not_mem_nil, or_false] at hc
    rcases hc with rfl | rfl | rfl
    · rw [hid]; exact hρ s hs
    · rw [Tree.leftSegment, hw.ids _ hl]; exact hρ _ hl
    · rw [Tree.rightSegment, hw.ids _ hr]; exact hρ _ hr
  obtain ⟨b, hb1, hiff⟩ := WithoutIntersection.segmentLoop_spec M t ρ f _ hcs
    (indices t.currentNumberOfSegments) (fun i hi => hρ i (mem_indices.mp hi))
  have hrel : ∀ i j, t.live i → t.live j →
      (WithoutIntersection.isRelative (t.segments i) (t.segments j) = false ↔
        i ≠ j ∧ (t.segments j).up ≠ i ∧ (t.segments i).up ≠ j) := by
    intro i j hi hj
    have h := WithoutIntersection.isRelative_iff hw hi hj
    cases hc : WithoutIntersection.isRelative (t.segments i) (t.segments j) with
    | true =>
      rw [hc] at h
      have h' := h.mp rfl
      constructor
      · intro e; exact absurd e (by decide)
      · rintro ⟨a1, a2, a3⟩
        rcases h' with e | e | e
        · exact absurd e a1
        · exact absurd e a2
        · exact absurd e a3
    | false =>
      rw [hc] at h
      refine ⟨fun _ => ⟨fun e => ?_, fun e => ?_, fun e => ?_⟩, fun _ => rfl⟩
      · exact absurd (h.mpr (Or.inl e)) (by decide)
      · exact absurd (h.mpr (Or.inr (Or.inl e))) (by decide)
      · exact absurd (h.mpr (Or.inr (Or.inr e))) (by decide)
  refine ⟨b, ?_, ?_⟩
  · simp only [WithoutIntersection.pass, hid]
    exact hb1
  · rw [hiff]
    constructor
    · rintro ⟨i, hi, c, hc, h1, h2⟩
      have hil := mem_indices.mp hi
      simp only [List.mem_cons, List.mem_singleton, List.not_mem_nil, or_false] at hc
      have key : ∀ j, t.live j → c = t.segments j →
          j ∈ [s, (t.segments s).left, (t.segments s).right] →
          ∃ j ∈ [s, (t.segments s).left, (t.segments s).right],
            i ≠ j ∧ (t.segments j).up ≠ i ∧ (t.segments i).up ≠ j ∧
            Geometry.hasIntersection M t.dimension (t.proximalPoint i) (t.distalPoint i)
              (t.proximalPoint j) (t.distalPoint j) (ρ i + ρ j) = true := by
        intro j hj hcj hmem
        subst hcj
        rw [hw.ids j hj] at h2
        obtain ⟨a1, a2, a3⟩ := (hrel i j hil hj).mp h1
        exact ⟨j, hmem, a1, a2, a3, h2⟩
      refine ⟨i, hil, ?_⟩
      rcases hc with hc | hc | hc
      · exact key s hs hc (by simp)
      · exact key _ hl hc (by simp)
      · exact key _ hr hc (by simp)
    · rintro ⟨i, hi, j, hj, a1, a2, a3, h2⟩
      have hjl := hlive j hj
      refine ⟨i, mem_indices.mpr hi, t.segments j, ?_, (hrel i j hi hjl).mpr ⟨a1, a2, a3⟩, ?_⟩
      · simp only [List.mem_cons, List.mem_singleton, List.not_mem_nil, or_false] at hj ⊢
        rcases hj with rfl | rfl | rfl
        · exact Or.inl rfl
        · exact Or.inr (Or.inl rfl)
        · exact Or.inr (Or.inr rfl)
      · rw [hw.ids j hjl]
        exact h2

/-- C24, amended: the relatives that are exempt are the parent and the children.  For every
two live segments `A` and `B` of a well-linked tree, `isRelative(A, B)` returns true if and only
if `A` and `B` are the same segment or one of them is the parent of the other; so that, for a
live bifurcation segment `s` (with enough fuel for `Tree::radius`), `WithoutIntersection::pass`
returns, and returns false exactly when a live segment `i` and one of the three check segments
`j` (the candidate `s` and its two children) intersect and are neither the same segment nor
parent and child: the check segments are tested against every other live segment that is not
their parent or their child, their further ancestors and descendants included. -/
theorem isRelative_direct (M : CMath α) {t : Tree α} (hw : WFL t) :
    (∀ a b, t.live a → t.live b →
      (WithoutIntersection.isRelative (t.segments a) (t.segments b) = true ↔
        a = b ∨ (t.segments b).up = a ∨ (t.segments a).up = b)) ∧
    ∀ s, t.live s → t.isTerminal s = false →
      ∃ (f0 : Nat) (ρ : Int → α), ∀ f, f0 ≤ f →
        (∀ i, t.live i → radius M f t i = some (ρ i)) ∧
        ∃ b, WithoutIntersection.pass M f t (t.segments s) = some b ∧
          (b = false ↔ ∃ i, t.live i ∧ ∃ j ∈ [s, (t.segments s).left, (t.segments s).right],
            i ≠ j ∧ (t.segments j).up ≠ i ∧ (t.segments i).up ≠ j ∧
            Geometry.hasIntersection M t.dimension (t.proximalPoint i) (t.distalPoint i)
              (t.proximalPoint j) (t.distalPoint j) (ρ i + ρ j) = true) := by
  refine ⟨fun a b ha hb => WithoutIntersection.isRelative_iff hw ha hb, ?_⟩
  intro s hs hb
  obtain ⟨f0, ρ, hρ⟩ := radius_total M hw
  exact ⟨f0, ρ, fun f hf => ⟨fun i hi => hρ i hi f hf,
    WithoutIntersection.pass_spec M hw hs hb ρ f (fun i hi => hρ i hi f hf)⟩⟩

/-- The relatives on the tree that `growSegment` makes of the root of the example, a
well-linked tree of three segments, and `WithoutIntersection::pass` for its bifurcation
segment 0. -/
theorem isRelative_direct_witness :
    ∃ fuel r,
      growSegment realMath fuel ⟨2, 1, 1, 0⟩ ((exampleRoot realMath).segments 0)
        (Segment.make 2 ⟨2, 2, 0, 0⟩ 1) (exampleRoot realMath) = some r ∧
      WFL r.2 ∧ r.2.live 0 ∧ r.2.isTerminal 0 = false ∧
      (∀ a b, r.2.live a → r.2.live b →
        (WithoutIntersection.isRelative (r.2.segments a) (r.2.segments b) = true ↔
          a = b ∨ (r.2.segments b).up = a ∨ (r.2.segments a).up = b)) ∧
      ∀ s, r.2.live s → r.2.isTerminal s = false →
        ∃ (f0 : Nat) (ρ : Int → ℝ), ∀ f, f0 ≤ f →
          (∀ i, r.2.live i → radius realMath f r.2 i = some (ρ i)) ∧
          ∃ b, WithoutIntersection.pass realMath f r.2 (r.2.segments s) = some b ∧
            (b = false ↔ ∃ i, r.2.live i ∧
              ∃ j ∈ [s, (r.2.segments s).left, (r.2.segments s).right],
              i ≠ j ∧ (r.2.segments j).up ≠ i ∧ (r.2.segments i).up ≠ j ∧
              Geometry.hasIntersection realMath r.2.dimension (r.2.proximalPoint i)
                (r.2.distalPoint i) (r.2.proximalPoint j) (r.2.distalPoint j) (ρ i + ρ j) =
                true) := by
  obtain ⟨f0, r, h, hR1, hcur, hT, hnt⟩ := exampleFork_exists
  have hl : r.2.live 0 := by
    simp only [Tree.live, hcur]
    omega
  exact ⟨f0, r, h, hR1.wfl, hl, hnt, isRelative_direct realMath hR1.wfl⟩

/-! ## The postcondition of `growRoot` -/

/-- C9: postcondition of `growRoot`.  After `growRoot(r)` on a freshly constructed tree, for a
root value `r` without child links (as `Segment root(dimension)` constructs it; every caller
of `Tree::growRoot` builds its argument so and sets its point and its flow), segment 0 holds
the distal point and the flow of `r` and has no parent, `length[0]` is the Euclidean distance
from the seed to the point of `r`, `resistance[0] = (8/π) * viscosity(0) * length[0]`, and
`currentNumberOfSegments` and `currentNumberOfTerminals` are both 1. -/
theorem growRoot_postcondition (M : CMath α) {t0 : Tree α} (hf : t0.Fresh) (r : Segment α)
    (hl : r.left = TERMINALEND) (hr : r.right = TERMINALEND) :
    ((growRoot M t0 r).2.segments rootID).point = r.point ∧
    ((growRoot M t0 r).2.segments rootID).flow = r.flow ∧
    ((growRoot M t0 r).2.segments rootID).up = TERMINALEND ∧
    (growRoot M t0 r).2._length rootID = distance M t0.dimension t0.seed r.point ∧
    (growRoot M t0 r).2.reducedHydrodynamicResistance rootID =
      8 / M.pi * t0.bloodViscosity rootID * (growRoot M t0 r).2._length rootID ∧
    (growRoot M t0 r).2.currentNumberOfSegments = 1 ∧
    (growRoot M t0 r).2.currentNumberOfTerminals = 1 := by
  obtain ⟨d, hd⟩ := hf.2.2 0
  obtain ⟨f1, f2, -⟩ := growRoot_fields M t0 r
  have hseg : (growRoot M t0 r).2.segments 0 =
      { t0.segments 0 with ID := 0, dimension := t0.dimension, point := r.point,
                           flow := r.flow, bifurcationRatioLeft := r.bifurcationRatioLeft,
                           bifurcationRatioRight := r.bifurcationRatioRight,
                           left := r.left, right := r.right } := by
    simp [growRoot, copy, rootID, hl, hr, setSeg, setR, setLength]
  refine ⟨?_, ?_, ?_, f2, ?_, rfl, rfl⟩
  · show ((growRoot M t0 r).2.segments 0).point = r.point
    rw [hseg]
  · show ((growRoot M t0 r).2.segments 0).flow = r.flow
    rw [hseg]
  · show ((growRoot M t0 r).2.segments 0).up = -1
    rw [hseg, hd]
    rfl
  · show (growRoot M t0 r).2.reducedHydrodynamicResistance 0 = _
    rw [f1]
    show _ = 8 / M.pi * t0.bloodViscosity 0 * (growRoot M t0 r).2._length 0
    rw [f2]
    rfl

/-- The postcondition of `growRoot` for the small tree and its root value over the real
numbers: the root ends at `(1, 0)`, carries the flow 1 and has the length 1. -/
theorem growRoot_postcondition_witness :
    (exampleTree : Tree ℝ).Fresh ∧
    (exampleRootValue : Segment ℝ).left = TERMINALEND ∧
    (exampleRootValue : Segment ℝ).right = TERMINALEND ∧
    ((exampleRoot realMath).segments rootID).point = ⟨2, 1, 0, 0⟩ ∧
    ((exampleRoot realMath).segments rootID).flow = 1 ∧
    ((exampleRoot realMath).segments rootID).up = TERMINALEND ∧
    (exampleRoot realMath)._length rootID =
      distance realMath 2 ⟨2, 0, 0, 0⟩ ⟨2, 1, 0, 0⟩ ∧
    (exampleRoot realMath).reducedHydrodynamicResistance rootID =
      8 / Real.pi * (36 / 10000) * (exampleRoot realMath)._length rootID ∧
    (exampleRoot realMath).currentNumberOfSegments = 1 ∧
    (exampleRoot realMath).currentNumberOfTerminals = 1 :=
  ⟨construct_fresh _ _ _ _ _ _, rfl, rfl,
    growRoot_postcondition realMath (construct_fresh _ _ _ _ _ _) exampleRootValue rfl rfl⟩

namespace ConstrainedConstructiveOptimization

/-- When the sampling loop returns with the fuel `f`, its result is the state after at most
`f` runs of the body. -/
theorem pointLoop_steps {D C : Type} (K : Collaborators α D C) (t : Tree α) :
    ∀ (f : Nat) (s : Point α × D × C × Int) (log : List (Bool × Int))
      (r : Point α × D × C × Int),
      pointLoop K t f s = some r → (pointLoopSteps K t f (s, log)).1 = r := by
  intro f
  induction f with
  | zero => intro s log r h; exact absurd h (by simp [pointLoop])
  | succ n ih =>
    intro s log r h
    obtain ⟨point, d, c, attempt⟩ := s
    simp only [pointLoop] at h
    simp only [pointLoopSteps]
    split_ifs at h ⊢
    · exact Option.some.inj h
    · exact ih _ _ _ h
    · exact ih _ _ _ h
    · exact Option.some.inj h

/-- After any number of runs of the body of the sampling loop the log is good, the counter is
the number of rejections since the last relaxation, and the criterion is the initial one
relaxed once for each relaxation of the log. -/
theorem pointLoopSteps_spec {D C : Type} (K : Collaborators α D C) (t : Tree α)
    (hmax : 0 ≤ K.maximumNumberOfAttempts) (c0 : C) :
    ∀ (n : Nat) (point : Point α) (d : D) (c : C) (a : Int) (log : List (Bool × Int)),
      a = sinceRelaxation log → a ≤ K.maximumNumberOfAttempts →
      LogGood K.maximumNumberOfAttempts log →
      c = Nat.iterate K.distanceCriterionRelax (relaxations log) c0 →
      (pointLoopSteps K t n ((point, d, c, a), log)).1.2.2.2 =
          sinceRelaxation (pointLoopSteps K t n ((point, d, c, a), log)).2 ∧
        LogGood K.maximumNumberOfAttempts (pointLoopSteps K t n ((point, d, c, a), log)).2 ∧
        (pointLoopSteps K t n ((point, d, c, a), log)).1.2.2.1 =
          Nat.iterate K.distanceCriterionRelax
            (relaxations (pointLoopSteps K t n ((point, d, c, a), log)).2) c0 := by
  intro n
  induction n with
  | zero =>
    intro point d c a log ha hle hg hc
    exact ⟨ha, hg, hc⟩
  | succ n ih =>
    intro point d c a log ha hle hg hc
    simp only [pointLoopSteps]
    cases hav : K.hasAvailablePoint d with
    | false =>
      simp only [Bool.false_eq_true, if_false]
      exact ⟨ha, hg, hc⟩
    | true =>
      simp only [if_true]
      cases hev : K.distanceCriterionEval c t (K.point d).1 with
      | true =>
        simp only [if_true]
        exact ⟨ha, hg, hc⟩
      | false =>
        simp only [Bool.false_eq_true, if_false]
        by_cases hgt : a + 1 > K.maximumNumberOfAttempts
        · rw [if_pos hgt]
          exact ih (K.point d).1 (K.point d).2
            (K.distanceCriterionRelax c) 0 (log ++ [(true, 0)])
            (by rw [sinceRelaxation_relaxed]; rfl) hmax
            (hg.snoc_good (true, 0)
              ⟨fun _ => by omega, fun _ => rfl⟩ (fun _ => rfl)
              (fun h => Bool.noConfusion h))
            (by rw [relaxations_relaxed, Function.iterate_succ_apply', ← hc])
        · rw [if_neg hgt]
          exact ih (K.point d).1 (K.point d).2 c (a + 1)
            (log ++ [(false, a + 1)])
            (by rw [sinceRelaxation_rejected, ha]; push_cast; ring) (by omega)
            (hg.snoc_good (false, a + 1)
              ⟨fun h => Bool.noConfusion h, fun h => by exfalso; omega⟩
              (fun h => Bool.noConfusion h)
              (fun _ => by rw [ha]))
            (by rw [relaxations_rejected]; exact hc)

/-- The minimum distance of a `ClassicDistanceCriterion` after `k` calls of `relax()`. -/
theorem relax_iterate {D C : Type} (M : CMath α) (K : Collaborators α D C)
    (c : ClassicDistanceCriterion α) (k : Nat) :
    (Nat.iterate (K.classic M).distanceCriterionRelax k c).minimumCriterionDistance =
      c.minimumCriterionDistance * (9 / 10) ^ k := by
  induction k with
  | zero => simp
  | succ k ih =>
    rw [Function.iterate_succ_apply']
    show (Nat.iterate (K.classic M).distanceCriterionRelax k c).minimumCriterionDistance *
      (9 / 10) = _
    rw [ih, pow_succ, mul_assoc]

end ConstrainedConstructiveOptimization

/-- C26, amended: the relaxation trigger. In the sampling loop of
`ConstrainedConstructiveOptimization::grow()` with a `ClassicDistanceCriterion` and
`maximumNumberOfAttempts ≥ 0`, after any number `n` of runs of the loop body (whether the
loop ends or not): in the log of the rejections so far the distance criterion is relaxed
exactly at a rejection that is the rejection number `maximumNumberOfAttempts + 1` since the
last relaxation or the start of the round, the attempt counter is 0 right after a relaxation
and the number of rejections since the last relaxation (or the start of the round)
otherwise, and the minimum distance of the criterion is the initial one multiplied by `0.9`
once for each relaxation of the log.  When the loop returns, its result is the state after
these runs. -/
theorem relaxation_trigger {D C : Type} (K : Collaborators α D C) (M : CMath α)
    (t : Tree α) (hmax : 0 ≤ K.maximumNumberOfAttempts) (point : Point α) (d : D)
    (c : ClassicDistanceCriterion α) :
    (∀ n,
      (∀ pre e post,
        (ConstrainedConstructiveOptimization.pointLoopSteps (K.classic M) t n
          ((point, d, c, 0), [])).2 = pre ++ e :: post →
        (e.1 = true ↔ (ConstrainedConstructiveOptimization.sinceRelaxation pre : Int) + 1 =
          K.maximumNumberOfAttempts + 1) ∧
        (e.1 = true → e.2 = 0) ∧
        (e.1 = false →
          e.2 = (ConstrainedConstructiveOptimization.sinceRelaxation pre : Int) + 1)) ∧
      (ConstrainedConstructiveOptimization.pointLoopSteps (K.classic M) t n
          ((point, d, c, 0), [])).1.2.2.2 =
        ConstrainedConstructiveOptimization.sinceRelaxation
          (ConstrainedConstructiveOptimization.pointLoopSteps (K.classic M) t n
            ((point, d, c, 0), [])).2 ∧
      (ConstrainedConstructiveOptimization.pointLoopSteps (K.classic M) t n
          ((point, d, c, 0), [])).1.2.2.1.minimumCriterionDistance =
        c.minimumCriterionDistance * (9 / 10) ^
          ConstrainedConstructiveOptimization.relaxations
            (ConstrainedConstructiveOptimization.pointLoopSteps (K.classic M) t n
              ((point, d, c, 0), [])).2) ∧
    (∀ f r, ConstrainedConstructiveOptimization.pointLoop (K.classic M) t f (point, d, c, 0) =
        some r →
      (ConstrainedConstructiveOptimization.pointLoopSteps (K.classic M) t f
        ((point, d, c, 0), [])).1 = r) := by
  refine ⟨fun n => ?_, fun f r h =>
    ConstrainedConstructiveOptimization.pointLoop_steps (K.classic M) t f _ [] r h⟩
  obtain ⟨h1, h2, h3⟩ :=
    ConstrainedConstructiveOptimization.pointLoopSteps_spec (K.classic M) t hmax c n point d c
      0 [] rfl hmax (ConstrainedConstructiveOptimization.LogGood.nil_good _) rfl
  refine ⟨h2, h1, ?_⟩
  rw [h3, ConstrainedConstructiveOptimization.relax_iterate]

/-- The sampling loop with a `ClassicDistanceCriterion` of minimum distance 1, under the
domain of the rejecting driver of the example, whose `maximumNumberOfAttempts` is 1, on the
root of the example. -/
theorem relaxation_trigger_witness :
    0 ≤ (exampleRejectingDriver 2 : Collaborators ℝ Nat Nat).maximumNumberOfAttempts ∧
    (∀ n,
      (∀ pre e post,
        (ConstrainedConstructiveOptimization.pointLoopSteps
          ((exampleRejectingDriver 2 : Collaborators ℝ Nat Nat).classic realMath)
          (exampleRoot realMath) n ((Point.default, 0, ⟨1⟩, 0), [])).2 = pre ++ e :: post →
        (e.1 = true ↔ (ConstrainedConstructiveOptimization.sinceRelaxation pre : Int) + 1 =
          (exampleRejectingDriver 2 : Collaborators ℝ Nat Nat).maximumNumberOfAttempts + 1) ∧
        (e.1 = true → e.2 = 0) ∧
        (e.1 = false →
          e.2 = (ConstrainedConstructiveOptimization.sinceRelaxation pre : Int) + 1)) ∧
      (ConstrainedConstructiveOptimization.pointLoopSteps
          ((exampleRejectingDriver 2 : Collaborators ℝ Nat Nat).classic realMath)
          (exampleRoot realMath) n ((Point.default, 0, ⟨1⟩, 0), [])).1.2.2.2 =
        ConstrainedConstructiveOptimization.sinceRelaxation
          (ConstrainedConstructiveOptimization.pointLoopSteps
            ((exampleRejectingDriver 2 : Collaborators ℝ Nat Nat).classic realMath)
            (exampleRoot realMath) n ((Point.default, 0, ⟨1⟩, 0), [])).2 ∧
      (ConstrainedConstructiveOptimization.pointLoopSteps
          ((exampleRejectingDriver 2 : Collaborators ℝ Nat Nat).classic realMath)
          (exampleRoot realMath) n
          ((Point.default, 0, ⟨1⟩, 0), [])).1.2.2.1.minimumCriterionDistance =
        1 * (9 / 10) ^
          ConstrainedConstructiveOptimization.relaxations
            (ConstrainedConstructiveOptimization.pointLoopSteps
              ((exampleRejectingDriver 2 : Collaborators ℝ Nat Nat).classic realMath)
              (exampleRoot realMath) n ((Point.default, 0, ⟨1⟩, 0), [])).2) ∧
    (∀ f r, ConstrainedConstructiveOptimization.pointLoop
        ((exampleRejectingDriver 2 : Collaborators ℝ Nat Nat).classic realMath)
        (exampleRoot realMath) f (Point.default, 0, ⟨1⟩, 0) = some r →
      (ConstrainedConstructiveOptimization.pointLoopSteps
        ((exampleRejectingDriver 2 : Collaborators ℝ Nat Nat).classic realMath)
        (exampleRoot realMath) f ((Point.default, 0, ⟨1⟩, 0), [])).1 = r) :=
  ⟨by decide,
    relaxation_trigger (exampleRejectingDriver 2 : Collaborators ℝ Nat Nat) realMath
      (exampleRoot realMath) (by decide) Point.default 0 ⟨1⟩⟩

/-! ## The reduction of the table, without conditions on the numbers -/

theorem LiveStructure.refl_structure (t : Tree α) : LiveStructure t t :=
  ⟨rfl, rfl, rfl, rfl, rfl, rfl, rfl, fun _ _ => rfl, fun _ _ => rfl, fun _ _ => rfl,
    fun _ _ => rfl, fun _ _ => rfl, fun _ _ => rfl, fun _ _ => rfl⟩

theorem LiveStructure.live_same {t' t : Tree α} (h : LiveStructure t' t) (i : Int) :
    t'.live i ↔ t.live i := by
  simp only [Tree.live, h.currentNumberOfSegments]

theorem LiveStructure.trans_structure {t'' t' t : Tree α} (h : LiveStructure t'' t')
    (h' : LiveStructure t' t) : LiveStructure t'' t :=
  ⟨h.lengthUnit.trans h'.lengthUnit, h.bloodViscosity.trans h'.bloodViscosity,
    h.bifurcationExpoent.trans h'.bifurcationExpoent, h.dimension.trans h'.dimension,
    h.seed.trans h'.seed, h.currentNumberOfSegments.trans h'.currentNumberOfSegments,
    h.currentNumberOfTerminals.trans h'.currentNumberOfTerminals,
    fun i hi => (h.ID i ((h'.live_same i).2 hi)).trans (h'.ID i hi),
    fun i hi => (h.point i ((h'.live_same i).2 hi)).trans (h'.point i hi),
    fun i hi => (h.up i ((h'.live_same i).2 hi)).trans (h'.up i hi),
    fun i hi => (h.left i ((h'.live_same i).2 hi)).trans (h'.left i hi),
    fun i hi => (h.right i ((h'.live_same i).2 hi)).trans (h'.right i hi),
    fun i hi => (h.flow i ((h'.live_same i).2 hi)).trans (h'.flow i hi),
    fun i hi => (h.length i ((h'.live_same i).2 hi)).trans (h'.length i hi)⟩

/-- Two reachable trees with the same live structure, with `lengthUnit = 1` and the same
bifurcation exponent for every segment, have the same live state. -/
theorem LiveStructure.liveEq (M : CMath α) {t' t : Tree α} (h : LiveStructure t' t)
    (hR : Reach M t) (hR' : Reach M t') (hlu : t.lengthUnit = 1)
    (hγ : ∀ i j, t.bifurcationExpoent i = t.bifurcationExpoent j) : LiveEq t' t := by
  have hsl : SameLinks t' t :=
    ⟨h.currentNumberOfSegments, fun i hi =>
      ⟨h.ID i ((h.live_same i).1 hi), h.up i ((h.live_same i).1 hi),
        h.left i ((h.live_same i).1 hi), h.right i ((h.live_same i).1 hi)⟩⟩
  have hn := hR.numInv hlu hγ
  have hn' := hR'.numInv (by rw [h.lengthUnit, hlu]) (by rw [h.bifurcationExpoent]; exact hγ)
  have hv := values_determined M hR.wfl hsl h.lengthUnit h.bloodViscosity h.bifurcationExpoent
    h.length hn.2.1 hn'.2.1 h.flow
  exact ⟨h.lengthUnit, h.bloodViscosity, h.bifurcationExpoent, h.dimension, h.seed,
    h.currentNumberOfSegments, h.currentNumberOfTerminals, h.ID, h.point, h.up, h.left, h.right,
    h.flow, fun i hi => (hv i hi).2.1, fun i hi => (hv i hi).2.2, h.length,
    fun i hi => (hv i hi).1⟩

/-- A connection applied with `growSegment` and undone with `remove` of its stale segment
value leaves the live structure of the tree as it was. -/
theorem growSegment_remove_liveStructure {M : CMath α} {t : Tree α} (hR : Reach M t)
    {p : Int} (hp : t.live p) (b : Point α) {c : Segment α} (hc : c.up = p) :
    ∃ f0 r1 r2, (∀ f, f0 ≤ f → growSegment M f b (t.segments p) c t = some r1 ∧
        remove M f r1.2 c = some r2) ∧
      Reach M r1.2 ∧ Reach M r2.2 ∧ LiveStructure r2.2 t := by
  obtain ⟨f1, r1, h1, hR1, hid, hT1, c1, c1'⟩ := growSegment_total_tail hR hp b c
  obtain ⟨f3, r2, h3, hR2, c3, c3'⟩ := remove_total_tail hR1 hT1 hc
  have g1 := h1 f1 (le_refl _)
  have g3 := h3 f3 (le_refl _)
  obtain ⟨-, -, hrs⟩ := growSegment_tail hR hp g1
  have hup : c.up = (r1.2.rightSegment p).up := by
    rw [hrs, hT1.up_terminal, hc]
  rw [remove_congr_up M f3 r1.2 hup] at g3
  obtain ⟨-, e1, e2, hl⟩ := growSegment_remove_links hR hp g1 g3
  obtain ⟨hsl, hflow⟩ := growSegment_remove_flow hR hp g1 g3
  obtain ⟨k1, k2, k3, k4, k5, -, -⟩ := growSegment_consts g1
  obtain ⟨d1, d2, d3, d4, d5, -, -⟩ := remove_consts g3
  have hlen := growSegment_remove_lengths hR hp g1 g3
  refine ⟨max f1 f3, r1, r2, fun f hf => ⟨h1 f (le_trans (le_max_left _ _) hf),
    h3 f (le_trans (le_max_right _ _) hf)⟩, hR1, hR2, ?_⟩
  exact ⟨d1.trans k1, d2.trans k2, d3.trans k3, d4.trans k4, d5.trans k5, e1, e2,
    fun i hi => (hl i hi).1, fun i hi => (hl i hi).2.1, fun i hi => (hl i hi).2.2.1,
    fun i hi => (hl i hi).2.2.2.1, fun i hi => (hl i hi).2.2.2.2.1, hflow, hlen⟩

/-- The loop of `reduce`: it returns, every connection is tried in a tree whose live
structure is that of the tree before, the verdicts that are true are recorded in the order of
the loop, and the tree it leaves has the live structure of the tree before. -/
theorem ConnectionEvaluationTable.reduceLoop_structure {D C : Type} (K : Collaborators α D C)
    (M : CMath α) :
    ∀ (is : List Int) (T : ConnectionEvaluationTable α) (s : Counted α),
      Reach M s.tree →
      0 ≤ T.currentNumberOfReasonableConnections →
      (∀ i ∈ is, s.tree.live (T.connections i).bifurcationSegmentID ∧
        (T.connections i).newSegment.up = (T.connections i).bifurcationSegmentID) →
      ∃ f0 T' s', ∃ tr : List (Int × Tree α × Bool),
        (∀ f, f0 ≤ f → ConnectionEvaluationTable.reduceLoop K M f is T s = some (T', s')) ∧
        tr.map (fun e => e.1) = is ∧
        (∀ e ∈ tr, Reach M e.2.1 ∧ LiveStructure e.2.1 s.tree ∧
          ∀ f, f0 ≤ f →
            ConnectionEvaluationTable.verdict K M f e.2.1 (T.connections e.1) = some e.2.2) ∧
        Reach M s'.tree ∧ LiveStructure s'.tree s.tree ∧
        T'.connections = T.connections ∧
        T'.currentNumberOfConnections = T.currentNumberOfConnections ∧
        T'.numberOfConnections = T.numberOfConnections ∧
        T'.reasonable = T.reasonable ++ (tr.filter (fun e => e.2.2)).map (fun e => e.1) := by
  intro is
  induction is with
  | nil =>
    intro T s hR hm hc
    exact ⟨0, T, s, [], fun f _ => rfl, rfl, fun e he => absurd he (List.not_mem_nil e), hR,
      LiveStructure.refl_structure _, rfl, rfl, rfl, by simp⟩
  | cons i rest ih =>
    intro T s hR hm hc
    obtain ⟨hp, hup⟩ := hc i (List.mem_cons_self _ _)
    obtain ⟨f1, r1, r2, h1, hR1, hR2, hle⟩ :=
      growSegment_remove_liveStructure hR hp (T.connections i).bifurcationPoint hup
    obtain ⟨T1, hT1⟩ : ∃ T1 : ConnectionEvaluationTable α, T1 =
        if K.withoutIntersection r1.2 r1.1 then
          { T with
            reasonableConnections :=
              (Function.update T.reasonableConnections T.currentNumberOfReasonableConnections i)
            currentNumberOfReasonableConnections :=
              T.currentNumberOfReasonableConnections + 1 }
        else T := ⟨_, rfl⟩
    have hT1c : T1.connections = T.connections := by
      rw [hT1]; split_ifs <;> rfl
    have hT1n : T1.currentNumberOfConnections = T.currentNumberOfConnections := by
      rw [hT1]; split_ifs <;> rfl
    have hT1k : T1.numberOfConnections = T.numberOfConnections := by
      rw [hT1]; split_ifs <;> rfl
    have hT1m : 0 ≤ T1.currentNumberOfReasonableConnections := by
      rw [hT1]; split_ifs
      · show 0 ≤ T.currentNumberOfReasonableConnections + 1
        omega
      · exact hm
    have hT1r : T1.reasonable = T.reasonable ++
        (if K.withoutIntersection r1.2 r1.1 then [i] else []) := by
      rw [hT1]
      by_cases hb : K.withoutIntersection r1.2 r1.1 = true
      · rw [if_pos hb, if_pos hb]
        exact T.reasonable_record i hm
      · rw [if_neg hb, if_neg hb, List.append_nil]
    obtain ⟨f2, T', s', tr, h2, a1, a2, a3, a4, a5, a6, a7, a8⟩ := ih T1
      { tree := r2.2, growSegmentCalls := s.growSegmentCalls + 1,
        removeCalls := s.removeCalls + 1 }
      hR2 hT1m
      (by
        intro j hj
        rw [hT1c]
        obtain ⟨q1, q2⟩ := hc j (List.mem_cons_of_mem _ hj)
        exact ⟨(hle.live_same _).2 q1, q2⟩)
    refine ⟨max f1 f2, T', s', (i, s.tree, K.withoutIntersection r1.2 r1.1) :: tr,
      fun f hf => ?_, by rw [List.map_cons, a1], ?_, a3, a4.trans_structure hle, a5.trans hT1c,
      a6.trans hT1n, a7.trans hT1k, ?_⟩
    · obtain ⟨g1, g2⟩ := h1 f (le_trans (le_max_left _ _) hf)
      have g3 := h2 f (le_trans (le_max_right _ _) hf)
      rw [ConnectionEvaluationTable.reduceLoop]
      simp only [Counted.growSegment, g1, Counted.remove, g2]
      rw [← hT1]
      exact g3
    · intro e he
      rcases List.mem_cons.mp he with rfl | he
      · refine ⟨hR, LiveStructure.refl_structure _, fun f hf => ?_⟩
        obtain ⟨g1, -⟩ := h1 f (le_trans (le_max_left _ _) hf)
        simp only [ConnectionEvaluationTable.verdict, g1]
      · obtain ⟨b1, b2, b3⟩ := a2 e he
        refine ⟨b1, b2.trans_structure hle, fun f hf => ?_⟩
        rw [← hT1c]
        exact b3 f (le_trans (le_max_right _ _) hf)
    · rw [a8, hT1r, List.append_assoc]
      congr 1
      by_cases hb : K.withoutIntersection r1.2 r1.1 = true
      · simp [hb]
      · simp [hb]

/-- C15, amended: `reduce` on a reachable tree, for a table whose stored connections
`i < currentNumberOfConnections` each name a live bifurcation segment and hold a new segment
value whose parent link is that segment (as `SimpleOptimization::bifurcation` builds them).
`reduce` returns; the stored connections are unchanged; the recorded reasonable indices are in
increasing order, all below `currentNumberOfConnections`, and an index
`i < currentNumberOfConnections` is recorded exactly when the stored connection `i` passed
`WithoutIntersection` when it was applied with `growSegment` to the tree, whose live structure
at that moment (counters, identities, links, points, flows and stored lengths) is that of the
tree before `reduce`; the live structure of the tree after `reduce` is that of the tree
before; and on a tree with `lengthUnit = 1` and the same bifurcation exponent for every
segment, in exact arithmetic, the whole live state (the reduced resistances and the
bifurcation ratios with the structure) is the live state before `reduce`, at the moment of
each trial and after `reduce`. -/
theorem reduce_spec {D C : Type} (K : Collaborators α D C) (M : CMath α)
    (T : ConnectionEvaluationTable α) (s : Counted α) (hR : Reach M s.tree)
    (hc : ∀ i, 0 ≤ i → i < T.currentNumberOfConnections →
      s.tree.live (T.connections i).bifurcationSegmentID ∧
      (T.connections i).newSegment.up = (T.connections i).bifurcationSegmentID) :
    ∃ f0 T' s',
      (∀ f, f0 ≤ f → T.reduce K M f s = some (T', s')) ∧
      T'.connections = T.connections ∧
      T'.currentNumberOfConnections = T.currentNumberOfConnections ∧
      T'.reasonable.Pairwise (fun a b => a < b) ∧
      (∀ j k, 0 ≤ j → j < k → k < T'.currentNumberOfReasonableConnections →
        T'.reasonableConnections j < T'.reasonableConnections k) ∧
      (∀ i ∈ T'.reasonable, 0 ≤ i ∧ i < T.currentNumberOfConnections) ∧
      (∀ i, 0 ≤ i → i < T.currentNumberOfConnections →
        ∃ ti b, Reach M ti ∧ LiveStructure ti s.tree ∧
          (∀ f, f0 ≤ f →
            ConnectionEvaluationTable.verdict K M f ti (T.connections i) = some b) ∧
          (i ∈ T'.reasonable ↔ b = true) ∧
          (s.tree.lengthUnit = 1 →
            (∀ j k, s.tree.bifurcationExpoent j = s.tree.bifurcationExpoent k) →
            LiveEq ti s.tree)) ∧
      Reach M s'.tree ∧ LiveStructure s'.tree s.tree ∧
      (s.tree.lengthUnit = 1 →
        (∀ j k, s.tree.bifurcationExpoent j = s.tree.bifurcationExpoent k) →
        LiveEq s'.tree s.tree) := by
  obtain ⟨f0, T', s', tr, h, a1, a2, a3, a4, a5, a6, a7, a8⟩ :=
    ConnectionEvaluationTable.reduceLoop_structure K M (indices T.currentNumberOfConnections)
      { T with currentNumberOfReasonableConnections := 0 } s hR (le_refl _)
      (fun i hi => hc i (mem_indices.mp hi).1 (mem_indices.mp hi).2)
  have hr0 : ConnectionEvaluationTable.reasonable
      { T with currentNumberOfReasonableConnections := 0 } = [] := rfl
  rw [hr0, List.nil_append] at a8
  have hsub : T'.reasonable.Sublist (indices T.currentNumberOfConnections) := by
    rw [a8, ← a1]
    exact (List.filter_sublist tr).map _
  have hpw : T'.reasonable.Pairwise (fun a b => a < b) :=
    (indices_pairwise _).sublist hsub
  have hnd : (tr.map (fun e => e.1)).Nodup := by
    rw [a1]
    exact (indices_pairwise _).imp (fun h => ne_of_lt h)
  refine ⟨f0, T', s', h, a5, a6, hpw, ?_, ?_, ?_, a3, a4,
    fun hlu hγ => a4.liveEq M hR a3 hlu hγ⟩
  · have hpw2 := hpw
    unfold ConnectionEvaluationTable.reasonable at hpw2
    rw [List.pairwise_map] at hpw2
    exact indices_pairwise_rel hpw2
  · intro i hi
    exact mem_indices.mp (hsub.subset hi)
  · intro i hi0 hin
    have hi : i ∈ tr.map (fun e => e.1) := by
      rw [a1]
      exact mem_indices.mpr ⟨hi0, hin⟩
    obtain ⟨e, he, rfl⟩ := List.mem_map.mp hi
    obtain ⟨b1, b2, b3⟩ := a2 e he
    refine ⟨e.2.1, e.2.2, b1, b2, b3, ?_, fun hlu hγ => b2.liveEq M hR b1 hlu hγ⟩
    rw [a8]
    constructor
    · intro hmem
      obtain ⟨e1, he1, heq⟩ := List.mem_map.mp hmem
      obtain ⟨he1', hb⟩ := List.mem_filter.mp he1
      have : e1 = e := List.inj_on_of_nodup_map hnd he1' he heq
      rw [← this]
      exact hb
    · intro hb
      exact List.mem_map.mpr ⟨e, List.mem_filter.mpr ⟨he, hb⟩, rfl⟩

/-- The reduction of the table `exampleReduceTable` on the root of the example (length unit 1,
bifurcation exponent 3 for every segment), with the driver of the example (whose
`WithoutIntersection` accepts every tree). -/
theorem reduce_spec_witness :
    ∃ f0 T' s',
      (∀ f, f0 ≤ f →
        (exampleReduceTable : ConnectionEvaluationTable ℝ).reduce
          (exampleDriver 2 : Collaborators ℝ Nat Unit) realMath f
          ⟨exampleRoot realMath, 0, 0⟩ = some (T', s')) ∧
      T'.connections = (exampleReduceTable : ConnectionEvaluationTable ℝ).connections ∧
      T'.currentNumberOfConnections =
        (exampleReduceTable : ConnectionEvaluationTable ℝ).currentNumberOfConnections ∧
      T'.reasonable.Pairwise (fun a b => a < b) ∧
      (∀ j k, 0 ≤ j → j < k → k < T'.currentNumberOfReasonableConnections →
        T'.reasonableConnections j < T'.reasonableConnections k) ∧
      (∀ i ∈ T'.reasonable, 0 ≤ i ∧
        i < (exampleReduceTable : ConnectionEvaluationTable ℝ).currentNumberOfConnections) ∧
      (∀ i, 0 ≤ i →
        i < (exampleReduceTable : ConnectionEvaluationTable ℝ).currentNumberOfConnections →
        ∃ ti b, Reach realMath ti ∧ LiveStructure ti (exampleRoot realMath) ∧
          (∀ f, f0 ≤ f →
            ConnectionEvaluationTable.verdict (exampleDriver 2 : Collaborators ℝ Nat Unit)
              realMath f ti
              ((exampleReduceTable : ConnectionEvaluationTable ℝ).connections i) = some b) ∧
          (i ∈ T'.reasonable ↔ b = true) ∧ LiveEq ti (exampleRoot realMath)) ∧
      Reach realMath s'.tree ∧ LiveStructure s'.tree (exampleRoot realMath) ∧
      LiveEq s'.tree (exampleRoot realMath) := by
  obtain ⟨f0, T', s', h1, h2, h3, h4, h5, h6, h7, h8, h9, h10⟩ :=
    reduce_spec (exampleDriver 2 : Collaborators ℝ Nat Unit) realMath
      (exampleReduceTable : ConnectionEvaluationTable ℝ) ⟨exampleRoot realMath, 0, 0⟩
      (exampleRoot_reach realMath) (fun i _ _ => ⟨exampleRoot_live realMath, rfl⟩)
  refine ⟨f0, T', s', h1, h2, h3, h4, h5, h6, fun i hi0 hin => ?_, h8, h9,
    h10 rfl (fun _ _ => rfl)⟩
  obtain ⟨ti, b, q1, q2, q3, q4, q5⟩ := h7 i hi0 hin
  exact ⟨ti, b, q1, q2, q3, q4, q5 rfl (fun _ _ => rfl)⟩

/-! ## The numbers of the reachable states under any bifurcation exponent law -/

theorem setBifurcationExpoent_sameLinks (t : Tree α) (γ : Int → α) :
    SameLinks (t.setBifurcationExpoent γ) t :=
  ⟨rfl, fun _ _ => ⟨rfl, rfl, rfl, rfl⟩⟩

theorem WFL.setLaw_wfl {t : Tree α} (h : WFL t) (γ : Int → α) :
    WFL (t.setBifurcationExpoent γ) :=
  (setBifurcationExpoent_sameLinks t γ).wfl_links h

theorem OnPath.setBifurcationExpoent_iff (t : Tree α) (γ : Int → α) (i j : Int) :
    OnPath (t.setBifurcationExpoent γ) i j ↔ OnPath t i j := by
  constructor
  · intro h
    induction h with
    | self i => exact OnPath.self i
    | step i a hne _ ih => exact OnPath.step i a hne ih
  · intro h
    induction h with
    | self i => exact OnPath.self i
    | step i a hne _ ih => exact OnPath.step i a hne ih

/-- Whether a segment holds the values of `update` depends on the law at the segment only. -/
theorem Good.setBifurcationExpoent_congr (M : CMath α) {t : Tree α} {γ γ1 : Int → α} {i : Int}
    (h : γ1 i = γ i) (hg : Good M (t.setBifurcationExpoent γ) i) :
    Good M (t.setBifurcationExpoent γ1) i :=
  @Good.congr α _ M (t.setBifurcationExpoent γ) (t.setBifurcationExpoent γ1) i rfl rfl rfl rfl
    rfl h rfl rfl rfl rfl hg

theorem Good.setBifurcationExpoent_of (M : CMath α) {t : Tree α} {γ : Int → α} {i : Int}
    (h : γ i = t.bifurcationExpoent i) (hg : Good M t i) :
    Good M (t.setBifurcationExpoent γ) i :=
  @Good.congr α _ M t (t.setBifurcationExpoent γ) i rfl rfl rfl rfl rfl h rfl rfl rfl rfl hg

theorem growSegmentLinks_setBifurcationExpoent (M : CMath α) (b : Point α)
    (parent c : Segment α) (t : Tree α) (γ : Int → α) :
    growSegmentLinks M b parent c (t.setBifurcationExpoent γ) =
      (growSegmentLinks M b parent c t).setBifurcationExpoent γ := by
  simp only [growSegmentLinks, growBifurcation, growNewSegment, growConnection,
    Tree.setBifurcationExpoent]
  split_ifs <;> rfl

theorem removeLinks_setBifurcationExpoent (M : CMath α) (t : Tree α) (seg : Segment α)
    (γ : Int → α) :
    removeLinks M (t.setBifurcationExpoent γ) seg =
      (removeLinks M t seg).setBifurcationExpoent γ := by
  simp only [removeLinks, removeReattach]
  split_ifs with h1 h2 h2
  · rfl
  · exact absurd h1 h2
  · exact absurd h2 h1
  · rfl

theorem moveDistalPointLengths_setBifurcationExpoent (M : CMath α) (t : Tree α) (s : Int)
    (x : Point α) (γ : Int → α) :
    moveDistalPointLengths M (t.setBifurcationExpoent γ) s x =
      (moveDistalPointLengths M t s x).setBifurcationExpoent γ := by
  simp only [moveDistalPointLengths]
  split_ifs with h1 h2 h2
  · rfl
  · exact absurd h1 h2
  · exact absurd h2 h1
  · rfl

theorem updateStep_setBifurcationExpoent (M : CMath α) (t : Tree α) (γ : Int → α) (i : Int)
    (h : γ i = t.bifurcationExpoent i) :
    updateStep M (t.setBifurcationExpoent γ) i = (updateStep M t i).setBifurcationExpoent γ := by
  simp only [updateStep]
  split_ifs with h1 h2 h2
  · rfl
  · exact absurd h1 h2
  · exact absurd h2 h1
  · have e : (t.setBifurcationExpoent γ).bifurcationExpoent i = t.bifurcationExpoent i := h
    simp only [Tree.setSeg, Tree.setR, Tree.setBifurcationExpoent] at e ⊢
    rw [e]
    rfl

/-- The loop of `update` reads the law at the segments of its walk only. -/
theorem updateLoop_setBifurcationExpoent (M : CMath α) (γ : Int → α) {t0 : Tree α} :
    ∀ (k : Nat) (t : Tree α) (i : Int), Frame t0 t →
      (∀ j, OnPath t0 i j → γ j = t0.bifurcationExpoent j) →
      updateLoop M k (t.setBifurcationExpoent γ) i =
        (updateLoop M k t i).map (fun t1 => t1.setBifurcationExpoent γ) := by
  intro k
  induction k with
  | zero => intro t i _ _; rfl
  | succ n ih =>
    intro t i hf hγ
    have hi : γ i = t.bifurcationExpoent i := by
      rw [hγ i (OnPath.self i), hf.bifurcationExpoent]
    have hf1 := updateStep_frame M t i
    have hup : ((updateStep M t i).segments i).up = (t0.segments i).up := by
      rw [updateStep_up]; exact (hf.segments i).2.2.2.1
    simp only [updateLoop]
    rw [updateStep_setBifurcationExpoent M t γ i hi]
    have e : (((updateStep M t i).setBifurcationExpoent γ).segments i).up =
        ((updateStep M t i).segments i).up := rfl
    rw [e]
    by_cases hn : ((updateStep M t i).segments i).up ≠ TERMINALEND
    · rw [if_pos hn, if_pos hn]
      refine ih _ _ (hf.trans hf1) (fun j hj => hγ j ?_)
      rw [hup] at hj
      exact OnPath.step i j (by rw [← hup]; exact hn) hj
    · rw [if_neg hn, if_neg hn]
      rfl

/-- Before `growSegment` calls `update`, every live segment other than the parent already
holds consistent values, when the law gives the slot of the connection the exponent of the
parent. -/
theorem growSegmentLinks_pregood_at (M : CMath α) (b : Point α) (c : Segment α) {t : Tree α}
    (h : WFL t) (hde : DeadEven t) (hg : ∀ i, t.live i → Good M t i) (hdr : DeadEvenRatios t)
    (hlu : t.lengthUnit = 1) {p : Int} (hp : t.live p)
    (hγ : t.bifurcationExpoent t.currentNumberOfSegments = t.bifurcationExpoent p) :
    ∀ j, (growSegmentLinks M b (t.segments p) c t).live j → j ≠ p →
      Good M (growSegmentLinks M b (t.segments p) c t) j := by
  intro j hj hjp
  have hc := h.cur_pos
  have hodd := h.odd
  have hpl := hp
  simp only [Tree.live, growSegmentLinks_cur] at hj hpl
  have hpk := h.kids p hp
  obtain ⟨a1, a2, a3, a4, a5⟩ := h.parent_facts hp
  obtain ⟨k1, k2, k3, k4, k5, k6⟩ := growSegmentLinks_consts M b (t.segments p) c t
  have hleft := growSegmentLinks_left M b c h hp
  have hright := growSegmentLinks_right M b c h hp
  have hflow := growSegmentLinks_flow M b c h hp
  have hrat := growSegmentLinks_ratios M b c h hp
  have hres := growSegmentLinks_resistance M b c h hp
  have hlen := growSegmentLinks_length M b c h hp
  by_cases c2 : j = t.currentNumberOfSegments + 1
  · subst c2
    have d1 := hde _ (by omega : t.currentNumberOfSegments ≤ t.currentNumberOfSegments + 1)
      (by omega)
    have d2 := hdr _ (by omega : t.currentNumberOfSegments ≤ t.currentNumberOfSegments + 1)
      (by omega)
    have ht : (growSegmentLinks M b (t.segments p) c t).isTerminal
        (t.currentNumberOfSegments + 1) = true := by
      rw [isTerminal_iff, hleft, hright, if_neg hjp, if_neg (by omega), if_neg hjp,
        if_neg (by omega)]
      exact d1
    unfold Good
    have n1 : ¬ (t.currentNumberOfSegments + 1 = t.currentNumberOfSegments) := by omega
    simp only [if_pos ht, hres, Tree.length, hlen, if_neg hjp, if_true, k1, k2, hlu,
      (hrat _).1, (hrat _).2, n1, if_false, one_mul, true_and]
    exact d2
  by_cases c3 : j = t.currentNumberOfSegments
  · subst c3
    have hgp := hg p hp
    have ht : (growSegmentLinks M b (t.segments p) c t).isTerminal t.currentNumberOfSegments =
        t.isTerminal p := by
      simp only [Tree.isTerminal, hleft, hright, if_neg hjp, if_pos]
    unfold Good at hgp ⊢
    rw [ht]
    have eR : (growSegmentLinks M b (t.segments p) c t).reducedHydrodynamicResistance
        t.currentNumberOfSegments = _ := hres t.currentNumberOfSegments
    rw [if_neg c2, if_pos rfl] at eR
    have eL : (growSegmentLinks M b (t.segments p) c t)._length t.currentNumberOfSegments = _ :=
      hlen t.currentNumberOfSegments
    rw [if_neg hjp, if_neg c2, if_pos rfl] at eL
    have eRat := hrat t.currentNumberOfSegments
    rw [if_pos rfl, if_pos rfl] at eRat
    by_cases htp : t.isTerminal p = true
    · rw [if_pos htp] at hgp ⊢
      simp only [Tree.length, hlu] at hgp
      simp only [eR, Tree.length, eL, k1, k2, hlu, eRat.1, eRat.2, hgp.1]
      exact ⟨by ring, hgp.2⟩
    · rw [if_neg htp] at hgp ⊢
      have hk : 0 < (t.segments p).left ∧ (t.segments p).left < t.currentNumberOfSegments ∧
          0 < (t.segments p).right ∧ (t.segments p).right < t.currentNumberOfSegments := by
        rcases hpk with hk | hk
        · exact absurd ((isTerminal_iff t p).2 hk) htp
        · exact ⟨hk.1, hk.2.1, hk.2.2.1, hk.2.2.2.1⟩
      have eleft : ((growSegmentLinks M b (t.segments p) c t).segments
          t.currentNumberOfSegments).left = (t.segments p).left := by
        rw [hleft, if_neg hjp, if_pos rfl]
      have eright : ((growSegmentLinks M b (t.segments p) c t).segments
          t.currentNumberOfSegments).right = (t.segments p).right := by
        rw [hright, if_neg hjp, if_pos rfl]
      have efl : ((growSegmentLinks M b (t.segments p) c t).segments (t.segments p).left).flow =
          (t.segments (t.segments p).left).flow := by
        rw [hflow, if_neg (by omega), if_neg (by omega)]
      have efr : ((growSegmentLinks M b (t.segments p) c t).segments (t.segments p).right).flow =
          (t.segments (t.segments p).right).flow := by
        rw [hflow, if_neg (by omega), if_neg (by omega)]
      have eRl : (growSegmentLinks M b (t.segments p) c t).reducedHydrodynamicResistance
          (t.segments p).left = t.reducedHydrodynamicResistance (t.segments p).left := by
        rw [hres, if_neg (by omega), if_neg (by omega)]
      have eRr : (growSegmentLinks M b (t.segments p) c t).reducedHydrodynamicResistance
          (t.segments p).right = t.reducedHydrodynamicResistance (t.segments p).right := by
        rw [hres, if_neg (by omega), if_neg (by omega)]
      have efn : ((growSegmentLinks M b (t.segments p) c t).segments
          t.currentNumberOfSegments).flow = (t.segments p).flow := by
        rw [hflow, if_neg c2, if_pos rfl]
      simp only [Tree.leftSegment, Tree.rightSegment, eleft, eright, efl, efr, eRl, eRr, efn,
        eRat.1, eRat.2, k3, hγ, eR, Tree.length, eL, k1, k2, hlu]
      simp only [Tree.leftSegment, Tree.rightSegment, Tree.length, hlu] at hgp
      refine ⟨hgp.1, hgp.2.1, hgp.2.2.1, ?_⟩
      rw [hgp.2.2.2]; ring
  have hjl : t.live j := ⟨hj.1, by omega⟩
  have hjk := h.kids j hjl
  refine Good.congr' M ⟨?_, ?_, ?_, ?_, ?_⟩ ?_ ?_ k1 (by rw [k2]) (by rw [k3]) ?_ ?_ ?_ ?_
    (hg j hjl)
  · rw [hleft, if_neg hjp, if_neg c3]
  · rw [hright, if_neg hjp, if_neg c3]
  · rw [hflow, if_neg c2, if_neg c3]
  · rw [(hrat j).1, if_neg c3]
  · rw [(hrat j).2, if_neg c3]
  · rw [hres, if_neg c2, if_neg c3]
  · rw [hlen, if_neg hjp, if_neg c2, if_neg c3]
  · rw [hflow, if_neg (by omega), if_neg (by omega)]
  · rw [hflow, if_neg (by omega), if_neg (by omega)]
  · rw [hres, if_neg (by omega), if_neg (by omega)]
  · rw [hres, if_neg (by omega), if_neg (by omega)]

theorem Tail.setLaw_tail {t : Tree α} {p : Int} (h : Tail t p) (γ : Int → α) :
    Tail (t.setBifurcationExpoent γ) p :=
  ⟨h.cur, h.p_nonneg, h.p_lt, h.up_terminal, h.up_connection, h.left_p, h.right_p,
    h.left_terminal, h.right_terminal⟩

/-- In every reachable state with `lengthUnit = 1`, every live segment holds the values that
`update` computes for it with some exponent: the numbers are those of the invariant under a
law that gives each slot the exponent with which its ratios were computed. -/
theorem Tree.Reach.goodLaw {M : CMath α} {t : Tree α} (h : Reach M t)
    (hlu : t.lengthUnit = 1) :
    (∃ γ : Int → α, ∀ i, t.live i → Good M (t.setBifurcationExpoent γ) i) ∧
      DeadEvenRatios t := by
  classical
  induction h with
  | root t0 dim point flow hf =>
    obtain ⟨f1, f2, f3, f4, f5, f6, f7⟩ := growRoot_fields M t0 (Segment.make dim point flow)
    obtain ⟨-, hg, hdr⟩ := growRoot_numInv M hf dim point flow (by rw [← f3]; exact hlu)
    exact ⟨⟨_, fun i hi => Good.setBifurcationExpoent_of M rfl (hg i hi)⟩, hdr⟩
  | grow fuel b p c t r hR hp hr ih =>
    obtain ⟨k1, k2, k3, -⟩ := growSegment_consts hr
    have hlu' : t.lengthUnit = 1 := by rw [← k1]; exact hlu
    obtain ⟨⟨γ, hg⟩, hdr⟩ := ih hlu'
    have hR' := Reach.grow fuel b p c t r hR hp hr
    obtain ⟨t2, ht2, rfl⟩ := growSegment_eq_some hr
    have hf := updateLoop_frame M _ _ _ _ ht2
    have hw := hR.wfl
    obtain ⟨s, hs, hsl, hde⟩ := hR.linkInv
    have hw1 : WFL (growSegmentLinks M b (t.segments p) c t) :=
      hf.sameLinks.symm.wfl_links (WFL.of_setTerms hR'.wfl)
    have hid : ((growSegmentLinks M b (t.segments p) c t).segments p).ID = p := by
      have hpl := hp
      simp only [Tree.live] at hpl
      rw [growSegmentLinks_ID M b c hw hp, if_neg (by omega), hw.ids p hp]
    rw [hw.ids p hp, hid] at ht2
    have hp1 : (growSegmentLinks M b (t.segments p) c t).live p := by
      simp only [Tree.live, growSegmentLinks_cur] at hp ⊢; omega
    have hpc : p ≠ t.currentNumberOfSegments := by
      have := hp.2; omega
    obtain ⟨e1, e2, e3, -⟩ := growSegmentLinks_consts M b (t.segments p) c t
    obtain ⟨γ0, hγ0⟩ : ∃ γ0 : Int → α, γ0 = Function.update γ t.currentNumberOfSegments (γ p) :=
      ⟨_, rfl⟩
    have hγ0l : ∀ i, t.live i → γ0 i = γ i := by
      intro i hi
      have h2 : i < t.currentNumberOfSegments := hi.2
      rw [hγ0, Function.update_noteq (by omega)]
    have hγ0c : γ0 t.currentNumberOfSegments = γ0 p := by
      rw [hγ0, Function.update_same, Function.update_noteq hpc]
    have pre0 : ∀ j, (growSegmentLinks M b (t.segments p) c t).live j → j ≠ p →
        Good M ((growSegmentLinks M b (t.segments p) c t).setBifurcationExpoent γ0) j := by
      have h0 := @growSegmentLinks_pregood_at α _ M b c (t.setBifurcationExpoent γ0)
        (hw.setLaw_wfl γ0) hde
        (fun i hi => Good.setBifurcationExpoent_congr M (hγ0l i hi) (hg i hi))
        hdr hlu' p hp hγ0c
      rw [growSegmentLinks_setBifurcationExpoent] at h0
      exact h0
    obtain ⟨γ1, hγ1⟩ : ∃ γ1 : Int → α, ∀ j, γ1 j =
        if OnPath (growSegmentLinks M b (t.segments p) c t) p j then t.bifurcationExpoent j
        else γ0 j := ⟨_, fun _ => rfl⟩
    have pre1 : ∀ j, (growSegmentLinks M b (t.segments p) c t).live j →
        ¬ OnPath (growSegmentLinks M b (t.segments p) c t) p j →
        Good M ((growSegmentLinks M b (t.segments p) c t).setBifurcationExpoent γ1) j := by
      intro j hj hnp
      refine Good.setBifurcationExpoent_congr M ?_
        (pre0 j hj (by intro e; subst e; exact hnp (OnPath.self _)))
      rw [hγ1, if_neg hnp]
    have hrunv := updateLoop_setBifurcationExpoent M γ1
      fuel (growSegmentLinks M b (t.segments p) c t) p (Frame.refl _)
      (fun j hj => by rw [hγ1, if_pos hj, e3])
    rw [ht2] at hrunv
    obtain ⟨r1, -, -⟩ := updateLoop_good M (hw1.setLaw_wfl γ1) fuel
      ((growSegmentLinks M b (t.segments p) c t).setBifurcationExpoent γ1)
      (t2.setBifurcationExpoent γ1) p (Frame.refl _) hp1 hrunv
      (fun j hj hnp => pre1 j hj
        (fun h => hnp ((OnPath.setBifurcationExpoent_iff _ _ _ _).2 h)))
    obtain ⟨r2, -⟩ := updateLoop_off_path M fuel _ _ p (Frame.refl _) ht2
    refine ⟨⟨γ1, fun i hi => r1 i ⟨hi.1, by
      have h2 : i < t2.currentNumberOfSegments := hi.2
      rw [hf.currentNumberOfSegments] at h2
      exact h2⟩⟩, ?_⟩
    intro i hi hev
    have hi' : t.currentNumberOfSegments + 2 ≤ i := by
      have := hf.currentNumberOfSegments
      rw [growSegmentLinks_cur] at this
      have e : t2.currentNumberOfSegments ≤ i := hi
      omega
    have hnp : ¬ OnPath (growSegmentLinks M b (t.segments p) c t) p i := by
      intro hp'
      have := hp'.live hw1 hp1
      simp only [Tree.live, growSegmentLinks_cur] at this
      omega
    have e : t2.segments i = (growSegmentLinks M b (t.segments p) c t).segments i := (r2 i hnp).1
    show (t2.segments i).bifurcationRatioLeft = 1 ∧ (t2.segments i).bifurcationRatioRight = 1
    rw [e, (growSegmentLinks_ratios M b c hw hp i).1, (growSegmentLinks_ratios M b c hw hp i).2,
      if_neg (by omega), if_neg (by omega)]
    exact hdr i (by omega) hev
  | remove fuel t r hR hc hr ih =>
    obtain ⟨k1, k2, k3, -⟩ := remove_consts hr
    have hlu' : t.lengthUnit = 1 := by rw [← k1]; exact hlu
    obtain ⟨⟨γ, hg⟩, hdr⟩ := ih hlu'
    have hR' := Reach.remove fuel t r hR hc hr
    obtain ⟨t2, ht2, rfl⟩ := remove_eq_some hr
    have hf := updateLoop_frame M _ _ _ _ ht2
    have hw := hR.wfl
    obtain ⟨p, htl⟩ := hR.tail hc
    obtain ⟨f1, f2, f3, f4, f5, f6, f7, f8, f9⟩ := htl.facts hw
    have hw1 : WFL (removeLinks M t (t.segments (t.currentNumberOfSegments - 1))) :=
      hf.sameLinks.symm.wfl_links (WFL.of_setTerms hR'.wfl)
    have hid : ((removeLinks M t (t.segments (t.currentNumberOfSegments - 1))).segments p).ID =
        p := by
      rw [removeLinks_tail_segments M hw htl, if_pos rfl]
      exact hw.ids p f1
    rw [htl.up_terminal, hid] at ht2
    have hp1 : (removeLinks M t (t.segments (t.currentNumberOfSegments - 1))).live p := by
      simp only [Tree.live, removeLinks_cur]; exact ⟨htl.p_nonneg, htl.p_lt⟩
    have e3 : (removeLinks M t (t.segments (t.currentNumberOfSegments - 1))).bifurcationExpoent =
        t.bifurcationExpoent := (removeLinks_consts M t _).2.2.1
    have pre0 : ∀ j, (removeLinks M t (t.segments (t.currentNumberOfSegments - 1))).live j →
        ¬ OnPath (removeLinks M t (t.segments (t.currentNumberOfSegments - 1))) p j →
        Good M ((removeLinks M t
          (t.segments (t.currentNumberOfSegments - 1))).setBifurcationExpoent γ) j := by
      have h0 := removeLinks_pregood M (hw.setLaw_wfl γ)
        (htl.setLaw_tail γ)
        (by
          show WFL (removeLinks M (t.setBifurcationExpoent γ)
            (t.segments (t.currentNumberOfSegments - 1)))
          rw [removeLinks_setBifurcationExpoent]
          exact hw1.setLaw_wfl γ)
        hg
      intro j hj hnp
      have h1 := h0 j
      rw [show removeLinks M (t.setBifurcationExpoent γ)
          ((t.setBifurcationExpoent γ).segments
            ((t.setBifurcationExpoent γ).currentNumberOfSegments - 1)) =
          (removeLinks M t (t.segments (t.currentNumberOfSegments - 1))).setBifurcationExpoent γ
        from removeLinks_setBifurcationExpoent M t _ γ] at h1
      exact h1 hj (fun h => hnp ((OnPath.setBifurcationExpoent_iff _ _ _ _).1 h))
    obtain ⟨γ1, hγ1⟩ : ∃ γ1 : Int → α, ∀ j, γ1 j =
        if OnPath (removeLinks M t (t.segments (t.currentNumberOfSegments - 1))) p j
        then t.bifurcationExpoent j else γ j := ⟨_, fun _ => rfl⟩
    have pre1 : ∀ j, (removeLinks M t (t.segments (t.currentNumberOfSegments - 1))).live j →
        ¬ OnPath (removeLinks M t (t.segments (t.currentNumberOfSegments - 1))) p j →
        Good M ((removeLinks M t
          (t.segments (t.currentNumberOfSegments - 1))).setBifurcationExpoent γ1) j := by
      intro j hj hnp
      refine Good.setBifurcationExpoent_congr M ?_ (pre0 j hj hnp)
      rw [hγ1, if_neg hnp]
    have hrunv := updateLoop_setBifurcationExpoent M γ1
      fuel (removeLinks M t (t.segments (t.currentNumberOfSegments - 1))) p (Frame.refl _)
      (fun j hj => by rw [hγ1, if_pos hj, e3])
    rw [ht2] at hrunv
    obtain ⟨r1, -, -⟩ := updateLoop_good M (hw1.setLaw_wfl γ1) fuel
      ((removeLinks M t (t.segments (t.currentNumberOfSegments - 1))).setBifurcationExpoent γ1)
      (t2.setBifurcationExpoent γ1) p (Frame.refl _) hp1 hrunv
      (fun j hj hnp => pre1 j hj
        (fun h => hnp ((OnPath.setBifurcationExpoent_iff _ _ _ _).2 h)))
    obtain ⟨r2, -⟩ := updateLoop_off_path M fuel _ _ p (Frame.refl _) ht2
    refine ⟨⟨γ1, fun i hi => r1 i ⟨hi.1, by
      have h2 : i < t2.currentNumberOfSegments := hi.2
      rw [hf.currentNumberOfSegments] at h2
      exact h2⟩⟩, ?_⟩
    intro i hi hev
    have hi' : t.currentNumberOfSegments - 2 ≤ i := by
      have := hf.currentNumberOfSegments
      rw [removeLinks_cur] at this
      have e : t2.currentNumberOfSegments ≤ i := hi
      omega
    have hnp : ¬ OnPath (removeLinks M t (t.segments (t.currentNumberOfSegments - 1))) p i := by
      intro hp'
      have := hp'.live hw1 hp1
      simp only [Tree.live, removeLinks_cur] at this
      omega
    have e : t2.segments i =
        (removeLinks M t (t.segments (t.currentNumberOfSegments - 1))).segments i :=
      (r2 i hnp).1
    show (t2.segments i).bifurcationRatioLeft = 1 ∧ (t2.segments i).bifurcationRatioRight = 1
    have hip : i ≠ p := by have := htl.p_lt; omega
    obtain ⟨g1, g2, g3, g4, g5, g6, g7⟩ := removeLinks_tail_fields M hw htl i hip
    rw [e, g4, g5]
    have hodd := hw.odd
    by_cases c1 : i = t.currentNumberOfSegments - 1
    · have hgt := hg _ f3
      unfold Good at hgt
      rw [if_pos ((isTerminal_iff (t.setBifurcationExpoent γ) _).2
        ⟨htl.left_terminal, htl.right_terminal⟩)] at hgt
      rw [c1]; exact hgt.2
    · exact hdr i (by omega) hev
  | move fuel s x t t' hR hs hr ih =>
    obtain ⟨k1, k2, k3, -⟩ := moveDistalPoint_consts hr
    have hlu' : t.lengthUnit = 1 := by rw [← k1]; exact hlu
    obtain ⟨⟨γ, hg⟩, hdr⟩ := ih hlu'
    have hf := updateLoop_frame M _ _ _ _ hr
    have hw := hR.wfl
    have hw1 : WFL (moveDistalPointLengths M t s x) :=
      (moveDistalPointLengths_sameLinks M t s x).wfl_links hw
    have hid : ((moveDistalPointLengths M t s x).segments s).ID = s := by
      rw [moveDistalPointLengths_segments, if_pos rfl]
      exact hw.ids s hs
    simp only [moveDistalPoint, update] at hr
    rw [hid] at hr
    have hp1 : (moveDistalPointLengths M t s x).live s := by
      simp only [Tree.live, moveDistalPointLengths_cur]; exact hs
    have e3 : (moveDistalPointLengths M t s x).bifurcationExpoent = t.bifurcationExpoent :=
      (moveDistalPointLengths_consts M t s x).2.2.1
    have pre0 : ∀ j, t.live j → j ≠ s →
        Good M ((moveDistalPointLengths M t s x).setBifurcationExpoent γ) j := by
      intro j hj hjs
      have h0 := moveDistalPointLengths_pregood M (hw.setLaw_wfl γ) hs x hg hlu' j
        hj hjs
      rw [moveDistalPointLengths_setBifurcationExpoent] at h0
      exact h0
    obtain ⟨γ1, hγ1⟩ : ∃ γ1 : Int → α, ∀ j, γ1 j =
        if OnPath (moveDistalPointLengths M t s x) s j
        then t.bifurcationExpoent j else γ j := ⟨_, fun _ => rfl⟩
    have hrunv := updateLoop_setBifurcationExpoent M γ1
      fuel (moveDistalPointLengths M t s x) s (Frame.refl _)
      (fun j hj => by rw [hγ1, if_pos hj, e3])
    rw [hr] at hrunv
    obtain ⟨r1, -, -⟩ := updateLoop_good M (hw1.setLaw_wfl γ1) fuel
      ((moveDistalPointLengths M t s x).setBifurcationExpoent γ1)
      (t'.setBifurcationExpoent γ1) s (Frame.refl _) hp1 hrunv
      (fun j hj hnp => by
        have hnp' : ¬ OnPath (moveDistalPointLengths M t s x) s j :=
          fun h => hnp ((OnPath.setBifurcationExpoent_iff _ _ _ _).2 h)
        refine Good.setBifurcationExpoent_congr M ?_
          (pre0 j ⟨hj.1, by
              have h2 : j < (moveDistalPointLengths M t s x).currentNumberOfSegments := hj.2
              rw [moveDistalPointLengths_cur] at h2
              exact h2⟩
            (by intro e; subst e; exact hnp' (OnPath.self _)))
        rw [hγ1, if_neg hnp'])
    obtain ⟨r2, -⟩ := updateLoop_off_path M fuel _ _ s (Frame.refl _) hr
    refine ⟨⟨γ1, fun i hi => r1 i ⟨hi.1, by
      have h2 : i < t'.currentNumberOfSegments := hi.2
      rw [hf.currentNumberOfSegments] at h2
      exact h2⟩⟩, ?_⟩
    intro i hi hev
    have hi' : t.currentNumberOfSegments ≤ i := by
      have := hf.currentNumberOfSegments
      rw [moveDistalPointLengths_cur] at this
      omega
    have hnp : ¬ OnPath (moveDistalPointLengths M t s x) s i := by
      intro hp'
      have := hp'.live hw1 hp1
      simp only [Tree.live, moveDistalPointLengths_cur] at this
      omega
    rw [(r2 i hnp).1, (moveDistalPointLengths_fields M t s x i).2.2.2.1,
      (moveDistalPointLengths_fields M t s x i).2.2.2.2]
    exact hdr i hi' hev

theorem radiusLoop_setBifurcationExpoent (γ : Int → α) :
    ∀ (f : Nat) (t : Tree α) (i : Int) (x : α),
      radiusLoop f (t.setBifurcationExpoent γ) i x = radiusLoop f t i x := by
  intro f
  induction f with
  | zero => intro t i x; rfl
  | succ n ih =>
    intro t i x
    simp only [radiusLoop]
    have e1 : (t.setBifurcationExpoent γ).isRoot i = t.isRoot i := rfl
    have e2 : (t.setBifurcationExpoent γ).segments = t.segments := rfl
    rw [e1, e2]
    split_ifs
    · exact ih _ _ _
    · exact ih _ _ _
    · rfl

/-- `Tree::radius` does not read the law of the bifurcation exponent. -/
theorem radius_setBifurcationExpoent (M : CMath α) (γ : Int → α) (f : Nat) (t : Tree α)
    (i : Int) : radius M f (t.setBifurcationExpoent γ) i = radius M f t i := by
  simp only [radius, radiusLoop_setBifurcationExpoent]
  rfl

/-- C29, amended: positive radii. In every tree state reachable from `growRoot` by
`growSegment` (and by `remove` of the last terminal and `moveDistalPoint`), with
`lengthUnit = 1`, in which all segment lengths are positive, all terminal flows are positive,
viscosity and the bifurcation exponent are positive, `perfusionPressure > terminalPressure`
and, in addition, `perfusionFlow` and `radiusUnit` are positive: every live segment has a
strictly positive reduced hydrodynamic resistance, and `Tree::radius` returns for it (with
enough fuel) a strictly positive value.  The functions of `<cmath>` enter through `M_PI > 0`
and `pow(x, y) > 0` for `x > 0`. -/
theorem radius_positive (M : CMath α) (hpi : 0 < M.pi)
    (hpow : ∀ x y, 0 < x → 0 < M.pow x y) {t : Tree α} (hR : Reach M t)
    (hlu : t.lengthUnit = 1)
    (hlen : ∀ i, t.live i → 0 < t.length i)
    (hflow : ∀ i, t.live i → t.isTerminal i = true → 0 < (t.segments i).flow)
    (hvisc : ∀ i, t.live i → 0 < t.bloodViscosity i)
    (hexp : ∀ i, t.live i → 0 < t.bifurcationExpoent i)
    (hp : t.terminalPressure < t.perfusionPressure) (hq : 0 < t.perfusionFlow)
    (hru : 0 < t.radiusUnit) :
    ∃ (f0 : Nat) (ρ : Int → α), ∀ i, t.live i →
      (∀ f, f0 ≤ f → radius M f t i = some (ρ i)) ∧ 0 < ρ i ∧
      0 < t.reducedHydrodynamicResistance i := by
  obtain ⟨⟨γ, hg⟩, -⟩ := hR.goodLaw hlu
  obtain ⟨f0, ρ, h⟩ := radius_pos_of_good M hpi hpow (hR.wfl.setLaw_wfl γ) hg hlen
    hflow hvisc hp hq hru
  refine ⟨f0, ρ, fun i hi => ?_⟩
  obtain ⟨h1, h2, h3⟩ := h i hi
  exact ⟨fun f hf => by rw [← radius_setBifurcationExpoent M γ]; exact h1 f hf, h2, h3⟩

/-- Positive radii on the root of the example, over the real numbers. -/
theorem radius_positive_witness :
    Reach realMath (exampleRoot realMath) ∧
    (exampleRoot realMath).lengthUnit = 1 ∧
    (∀ i, (exampleRoot realMath).live i → 0 < (exampleRoot realMath).length i) ∧
    (∀ i, (exampleRoot realMath).live i → (exampleRoot realMath).isTerminal i = true →
      0 < ((exampleRoot realMath).segments i).flow) ∧
    (exampleRoot realMath).terminalPressure < (exampleRoot realMath).perfusionPressure ∧
    0 < (exampleRoot realMath).perfusionFlow ∧ 0 < (exampleRoot realMath).radiusUnit ∧
    ∃ (f0 : Nat) (ρ : Int → ℝ), ∀ i, (exampleRoot realMath).live i →
      (∀ f, f0 ≤ f → radius realMath f (exampleRoot realMath) i = some (ρ i)) ∧ 0 < ρ i ∧
      0 < (exampleRoot realMath).reducedHydrodynamicResistance i := by
  have hlen : ∀ i, (exampleRoot realMath).live i → 0 < (exampleRoot realMath).length i := by
    intro i hi
    rw [exampleRoot_live_eq realMath hi, exampleRoot_numbers.1]
    exact one_pos
  have hflow : ∀ i, (exampleRoot realMath).live i → (exampleRoot realMath).isTerminal i = true →
      0 < ((exampleRoot realMath).segments i).flow := by
    intro i hi _
    rw [exampleRoot_live_eq realMath hi]
    have : ((exampleRoot realMath).segments 0).flow = 1 := by
      simp [exampleRoot, exampleRootValue, Tree.growRoot, Tree.copy, Tree.setSeg, Tree.setR,
        Tree.setLength, rootID, Segment.make, Segment.default, TERMINALEND]
    rw [this]
    exact one_pos
  have hp : (exampleRoot realMath).terminalPressure < (exampleRoot realMath).perfusionPressure := by
    show (7999341921 / 1000000 : ℝ) < 13332236535 / 1000000
    norm_num
  have hq : 0 < (exampleRoot realMath).perfusionFlow := by
    show (0 : ℝ) < 833 / 100000000
    norm_num
  have hru : 0 < (exampleRoot realMath).radiusUnit := by
    show (0 : ℝ) < 1
    norm_num
  exact ⟨exampleRoot_reach realMath, rfl, hlen, hflow, hp, hq, hru,
    radius_positive realMath Real.pi_pos realMath_pow_pos (exampleRoot_reach realMath) rfl
      hlen hflow
      (fun i _ => by show (0 : ℝ) < 36 / 10000; norm_num)
      (fun i _ => by show (0 : ℝ) < 3; norm_num) hp hq hru⟩

/-- Radii and resistances are not positive without the two conditions.  First, with the
perfusion flow 0 the radius of the root is 0: the state `exampleDryRoot` is reached by `growRoot`, its root has the length
1 and the terminal flow 1, viscosity and bifurcation exponent are positive and
`perfusionPressure > terminalPressure`, and `Tree::radius` of the root returns 0.  Second,
with the length unit 2 a connection gets a negative resistance: `growSegment` on the root of
the tree that `growRoot` makes of `exampleScaledTree` with the root from `(0, 0)` to `(1, 0)`,
with the bifurcation point `(1/2, 0)` and the new terminal at `(1/2, 1)`, returns a reachable
state of three segments in which all lengths, flows, the viscosity and the exponent are
positive, `perfusionPressure > terminalPressure`, `perfusionFlow` and `radiusUnit` are
positive, and the reduced resistance of the live segment 1 is negative. -/
theorem radius_positive_counterexample :
    (Reach realMath (exampleDryRoot realMath) ∧
      (∀ i, (exampleDryRoot realMath).live i → 0 < (exampleDryRoot realMath).length i) ∧
      (∀ i, (exampleDryRoot realMath).live i → (exampleDryRoot realMath).isTerminal i = true →
        0 < ((exampleDryRoot realMath).segments i).flow) ∧
      (∀ i, 0 < (exampleDryRoot realMath).bloodViscosity i) ∧
      (∀ i, 0 < (exampleDryRoot realMath).bifurcationExpoent i) ∧
      (exampleDryRoot realMath).terminalPressure < (exampleDryRoot realMath).perfusionPressure ∧
      (exampleDryRoot realMath).live 0 ∧
      ∀ f, 1 ≤ f → radius realMath f (exampleDryRoot realMath) 0 = some 0) ∧
    (∃ f r,
        growSegment realMath f ⟨2, 1 / 2, 0, 0⟩
          ((Tree.growRoot realMath exampleScaledTree (Segment.make 2 ⟨2, 1, 0, 0⟩ 1)).2.segments 0)
          (Segment.make 2 ⟨2, 1 / 2, 1, 0⟩ 1)
          (Tree.growRoot realMath exampleScaledTree (Segment.make 2 ⟨2, 1, 0, 0⟩ 1)).2 = some r ∧
        Reach realMath r.2 ∧ r.2.lengthUnit = 2 ∧
        (∀ i, r.2.live i → 0 < r.2.length i) ∧
        (∀ i, r.2.live i → r.2.isTerminal i = true → 0 < (r.2.segments i).flow) ∧
        (∀ i, 0 < r.2.bloodViscosity i) ∧ (∀ i, r.2.bifurcationExpoent i = 3) ∧
        r.2.terminalPressure < r.2.perfusionPressure ∧ 0 < r.2.perfusionFlow ∧
        0 < r.2.radiusUnit ∧ r.2.live 1 ∧ r.2.reducedHydrodynamicResistance 1 < 0) :=
  ⟨exampleDryRoot_radius, exampleScaled_negative⟩

end CCOLab
